import Mathlib

/-!
# HAMeRS `WaveletTransformHarten`: a shallow embedding and its verified properties

Source: `src/util/wavelet_transform/WaveletTransformHarten.cpp`.

Modelling conventions.

* In the transform `double` values are exact rationals (`ℚ`); the library
  function `sqrt` is a parameter `sqrt : ℚ → ℚ` of every function that calls it.
  Properties that rest on exact arithmetic are stated as such.  Single
  expressions of the source are also given in IEEE-754 binary64 (`F64`, with
  rounding, overflow to infinity and NaN), where the exact identities fail.
* `int` values are mathematical integers.  The quantities the transform
  computes in `int` are bounded by the ghost width `p*(2^(L+1)-1)` and by array
  sizes.  The `int` accumulator of the constructor is also given with its 32-bit
  range (`numWaveletGhostsInt`): it holds the ghost width for `L <= 30`
  (`k = 2`) and `L <= 29` (`k = 4`).
* A flat `double*` buffer is a `List ℚ`; every read and write is bounds-checked
  and yields `none` when the linear index is outside the buffer.
* A `hier::IntVector` is a function from the axis number to `Int`; only the
  entries of axes below the dimension are meaningful.
* A `pdat::CellData<double>` lives on the patch box: its ghost box has
  `interior_dims[d] + 2*ghosts[d]` cells along axis `d`.
-/

namespace HAMeRS

/-! ## Buffers and counted loops -/

/-- Flat buffer behind a `double*`. -/
abbrev Arr := List ℚ

/-- Checked read `a[i]`: `none` when `i` is outside the buffer. -/
def rd (a : Arr) (i : Int) : Option ℚ :=
  if 0 ≤ i then a[i.toNat]? else none

/-- Checked write `a[i] = v`: `none` when `i` is outside the buffer. -/
def wr (a : Arr) (i : Int) (v : ℚ) : Option Arr :=
  if 0 ≤ i ∧ i.toNat < a.length then some (a.set i.toNat v) else none

/-- Total read used in specifications (0 outside the buffer). -/
def valAt (a : Arr) (i : Int) : ℚ :=
  if 0 ≤ i then a.getD i.toNat 0 else 0

/-- Values taken by the loop variable of `for (int i = lo; i < hi; i++)`. -/
def range (lo hi : Int) : List Int :=
  (List.range (hi - lo).toNat).map (fun (n : Nat) => lo + (n : Int))

/-- Values taken by the level variable of `for (int li = lo; li < hi; li++)`. -/
def natRange (lo hi : Nat) : List Nat :=
  (List.range (hi - lo)).map (fun n => lo + n)

/-- Loop `for (int i = lo; i < hi; i++) body`, stopping at the first failing access. -/
def forRange {σ : Type} (lo hi : Int) (body : Int → σ → Option σ) (s : σ) : Option σ :=
  (range lo hi).foldlM (fun s i => body i s) s

/-- Integer vector `hier::IntVector`, indexed by the axis. -/
abbrev IntVector := Nat → Int

/-- Comparison `a >= b` of `hier::IntVector`: it holds on every axis of the dimension. -/
def IntVector.ge (dim : Nat) (a b : IntVector) : Bool :=
  (List.range dim).all (fun d => decide (b d ≤ a d))

/-- Comparison `a == b` of `hier::IntVector`. -/
def IntVector.eq (dim : Nat) (a b : IntVector) : Bool :=
  (List.range dim).all (fun d => decide (a d = b d))

/-! ## Construction -/

/-- Ways in which the engine stops. -/
inductive Err
  | unsupportedVanishingMoments
  | tooFewLevels
  | assertionFailed
  | outOfBounds
  deriving DecidableEq, Repr

/-- Data members of `WaveletTransformHarten` (and of its base `WaveletTransform`). -/
structure WaveletTransformHarten where
  d_dim : Nat
  d_num_level : Nat
  d_k : Int
  d_p : Int
  d_q : Int
  d_num_wavelet_ghosts : IntVector

/-- Constructor `WaveletTransformHarten::WaveletTransformHarten` (lines 7-67).
`TBOX_ERROR` aborts, which is the `Except.error` result.  The ghost width is
accumulated in exact integers; the `int` accumulator of the source is
`numWaveletGhostsInt` below, which yields the same value whenever a 32-bit `int`
can hold it. -/
def WaveletTransformHarten.new (dim : Nat) (num_level : Int) (num_vanishing_moments : Int) :
    Except Err WaveletTransformHarten :=
  let pq : Option (Int × Int) :=
    if num_vanishing_moments = 2 then some (1, 1)
    else if num_vanishing_moments = 4 then some (2, 2)
    else none
  match pq with
  | none => Except.error Err.unsupportedVanishingMoments
  | some (d_p, d_q) =>
    if num_level < 2 then Except.error Err.tooFewLevels
    else
      let num_wavelet_ghosts : Int :=
        (natRange 0 num_level.toNat).foldl (fun acc li => acc + max d_p d_q * 2 ^ li) 0
      let num_wavelet_ghosts := num_wavelet_ghosts + max d_p d_q * 2 ^ num_level.toNat
      Except.ok
        { d_dim := dim
          d_num_level := num_level.toNat
          d_k := num_vanishing_moments
          d_p := d_p
          d_q := d_q
          d_num_wavelet_ghosts := fun _ => 1 * num_wavelet_ghosts }

/-- Half-stencil width that the specification attaches to the order `k`. -/
def halfWidth (k : Int) : Int := if k = 2 then 1 else 2

/-- Conversion of a `double` holding the integer `x` to `int`, as done by
`num_wavelet_ghosts += ...` on an `int` variable: the value itself when a 32-bit
`int` can hold it; otherwise the conversion has no defined result. -/
def toInt32 (x : Int) : Option Int :=
  if -2 ^ 31 ≤ x ∧ x < 2 ^ 31 then some x else none

/-- Lines 57-64 with the `int` accumulator of the source:
`int num_wavelet_ghosts = 0;`, one `+= fmax(d_p, d_q)*pow(2, li)` per level and a
last `+= fmax(d_p, d_q)*pow(2, num_level)`.  Each `+=` adds in `double` and
converts the sum back to `int`; the sum is exact whenever it is below `2^31`,
and a sum of at least `2^31` stays at least `2^31` after rounding, so the result
of each step is `toInt32` of the exact sum. -/
def numWaveletGhostsInt (d_p d_q : Int) (num_level : Int) : Option Int := do
  let acc ← (natRange 0 num_level.toNat).foldlM
    (fun acc li => toInt32 (acc + max d_p d_q * 2 ^ li)) 0
  toInt32 (acc + max d_p d_q * 2 ^ num_level.toNat)

/-! ## Patch data -/

/-- Cell-centred data `pdat::CellData<double>` on the patch box: the ghost cell
width and one flat buffer per depth component. -/
structure CellData where
  ghosts : IntVector
  data : List Arr

/-- Buffer `getPointer(depth)`. -/
def CellData.getPointer (c : CellData) (depth : Nat) : Option Arr := c.data[depth]?

/-- Cell counts `getGhostBox().numberCells()` of data living on a box with
`interior_dims` cells. -/
def CellData.ghostBoxDims (interior_dims : IntVector) (c : CellData) : IntVector :=
  fun d => interior_dims d + 2 * c.ghosts d

/-- Number of cells of a box with the cell counts `dims` in dimension `dim`. -/
def boxSize (dim : Nat) (dims : IntVector) : Int :=
  ((List.range dim).map dims).prod

/-- Buffer of a freshly allocated component after `fillAll(0.0)`. -/
def zeros (n : Int) : Arr := List.replicate n.toNat 0

/-- Effect of `fillAll(0.0)` on an existing buffer. -/
def fillZero (a : Arr) : Arr := List.replicate a.length 0

/-- Linear index of cell `i` in 1-D. -/
def lin1 (g : IntVector) (i : Int) : Int := i + g 0

/-- Linear index `(i + g[0]) + (j + g[1])*d[0]` of cell `(i, j)` in 2-D. -/
def lin2 (g d : IntVector) (i j : Int) : Int := (i + g 0) + (j + g 1) * d 0

/-- Linear index `(i + g[0]) + (j + g[1])*d[0] + (k + g[2])*d[0]*d[1]` of cell
`(i, j, k)` in 3-D. -/
def lin3 (g d : IntVector) (i j k : Int) : Int :=
  (i + g 0) + (j + g 1) * d 0 + (k + g 2) * d 0 * d 1

/-! ## Right-hand sides and assignments of the loop bodies -/

/-- Assignment `dst[idx] = rhs`. -/
def assign (dst : Arr) (idx : Int) (rhs : Option ℚ) : Option Arr :=
  rhs.bind (wr dst idx)

/-- Two consecutive assignments `lo[idx] = rhs1; hi[idx] = rhs2;`. -/
def store2 (out : Arr × Arr) (idx : Int) (rhs1 rhs2 : Option ℚ) : Option (Arr × Arr) := do
  let lo ← assign out.1 idx rhs1
  let hi ← assign out.2 idx rhs2
  pure (lo, hi)

/-- Expression `0.5*(src[iL] + src[iR])`. -/
def low_k2 (src : Arr) (iL iR : Int) : Option ℚ := do
  let a ← rd src iL
  let b ← rd src iR
  pure (1 / 2 * (a + b))

/-- Expression `-0.5*(src[iL] - 2*src[iC] + src[iR])`. -/
def high_k2 (src : Arr) (iL iC iR : Int) : Option ℚ := do
  let a ← rd src iL
  let c ← rd src iC
  let b ← rd src iR
  pure (-(1 / 2) * (a - 2 * c + b))

/-- Expression `src[iL] + 2*src[iC] + src[iR]`. -/
def sum_k2 (src : Arr) (iL iC iR : Int) : Option ℚ := do
  let a ← rd src iL
  let c ← rd src iC
  let b ← rd src iR
  pure (a + 2 * c + b)

/-- Expression `1.0/6.0*(-src[iLL] + 4*src[iL] + 4*src[iR] - src[iRR])`. -/
def low_k4 (src : Arr) (iLL iL iR iRR : Int) : Option ℚ := do
  let a ← rd src iLL
  let b ← rd src iL
  let d ← rd src iR
  let e ← rd src iRR
  pure (1 / 6 * (-a + 4 * b + 4 * d - e))

/-- Expression `1.0/6.0*(src[iLL] - 4*src[iL] + 6*src[iC] - 4*src[iR] + src[iRR])`. -/
def high_k4 (src : Arr) (iLL iL iC iR iRR : Int) : Option ℚ := do
  let a ← rd src iLL
  let b ← rd src iL
  let c ← rd src iC
  let d ← rd src iR
  let e ← rd src iRR
  pure (1 / 6 * (a - 4 * b + 6 * c - 4 * d + e))

/-- Expression `src[iLL] + 4*src[iL] + 6*src[iC] + 4*src[iR] + src[iRR]`. -/
def sum_k4 (src : Arr) (iLL iL iC iR iRR : Int) : Option ℚ := do
  let a ← rd src iLL
  let b ← rd src iL
  let c ← rd src iC
  let d ← rd src iR
  let e ← rd src iRR
  pure (a + 4 * b + 6 * c + 4 * d + e)

/-- Expression `fabs(e)`. -/
def fabs (e : Option ℚ) : Option ℚ := e.map (fun v => |v|)

/-- Expression `c*(e)`. -/
def scale (c : ℚ) (e : Option ℚ) : Option ℚ := e.map (fun v => c * v)

/-- Expression `c*sqrt(pow(ex, 2.0) + pow(ey, 2.0))`. -/
def norm2 (sqrt : ℚ → ℚ) (c : ℚ) (ex ey : Option ℚ) : Option ℚ := do
  let x ← ex
  let y ← ey
  pure (c * sqrt (x ^ 2 + y ^ 2))

/-- Expression `c*sqrt(pow(ex, 2.0) + pow(ey, 2.0) + pow(ez, 2.0))`. -/
def norm3 (sqrt : ℚ → ℚ) (c : ℚ) (ex ey ez : Option ℚ) : Option ℚ := do
  let x ← ex
  let y ← ey
  let z ← ez
  pure (c * sqrt (x ^ 2 + y ^ 2 + z ^ 2))

/-- Expression `sqrt(w_x[idx]*w_x[idx] + w_y[idx]*w_y[idx])`. -/
def mag2 (sqrt : ℚ → ℚ) (w_x w_y : Arr) (idx : Int) : Option ℚ := do
  let a ← rd w_x idx
  let b ← rd w_y idx
  pure (sqrt (a * a + b * b))

/-- Expression `sqrt(w_x[idx]*w_x[idx] + w_y[idx]*w_y[idx] + w_z[idx]*w_z[idx])`. -/
def mag3 (sqrt : ℚ → ℚ) (w_x w_y w_z : Arr) (idx : Int) : Option ℚ := do
  let a ← rd w_x idx
  let b ← rd w_y idx
  let c ← rd w_z idx
  pure (sqrt (a * a + b * b + c * c))

/-! ## Buffers of one call -/

/-- Buffers the transform works on, one per level in each list: the outputs
`w` and `f_mean` and the per-axis scaling (`f_x`, `f_y`, `f_z`) and wavelet
(`w_x`, `w_y`, `w_z`) buffers the call allocates.  The internal buffers are
returned with the outputs so that they can be specified. -/
structure State where
  w : List Arr
  f_mean : List Arr
  f_x : List Arr
  f_y : List Arr
  f_z : List Arr
  w_x : List Arr
  w_y : List Arr
  w_z : List Arr

/-- An access outside a buffer ends the call. -/
def lift {α : Type} (o : Option α) : Except Err α :=
  match o with
  | some a => Except.ok a
  | none => Except.error Err.outOfBounds

/-- Run a loop nest that writes the level-`li` buffers of `lo` and `hi`. -/
def onLevel2 (lo hi : List Arr) (li : Nat) (pass : Arr × Arr → Option (Arr × Arr)) :
    Option (List Arr × List Arr) := do
  let a ← lo[li]?
  let b ← hi[li]?
  let r ← pass (a, b)
  pure (lo.set li r.1, hi.set li r.2)

/-- Run a loop nest that writes the level-`li` buffer of `xs`. -/
def onLevel1 (xs : List Arr) (li : Nat) (pass : Arr → Option Arr) : Option (List Arr) := do
  let a ← xs[li]?
  let r ← pass a
  pure (xs.set li r)

/-- Pointer selection
`if (smooth_cell_data) f = smoothed_cell_data->getPointer(axis); else f = cell_data->getPointer(depth);`. -/
def selectInput (smooth_cell_data : Bool) (smoothed_cell_data : Option CellData)
    (cell_data : CellData) (depth axis : Nat) : Option Arr :=
  if smooth_cell_data then smoothed_cell_data.bind (fun s => s.getPointer axis)
  else cell_data.getPointer depth

/-! ## The transform in 1-D (lines 177-444) -/

/-- First level in 1-D (lines 204-327): the `switch (d_k)` with the cascade
loop over `[-G + p, N + G - p)` and the optional local-mean loop over the
interior. -/
def level0_1D (wt : WaveletTransformHarten) (interior_dims : IntVector)
    (num_ghosts_cell_data num_ghosts_wavelet_coeffs : IntVector)
    (cell_data : CellData) (depth : Nat) (smooth_cell_data : Bool)
    (smoothed_cell_data : Option CellData) (compute_variable_local_means : Bool)
    (st : State) : Except Err State :=
  let interior_dim_0 := interior_dims 0
  let num_ghosts_0_cell_data := num_ghosts_cell_data 0
  let num_ghosts_0_wavelet_coeffs := num_ghosts_wavelet_coeffs 0
  if wt.d_k = 2 then do
    let f ← lift (selectInput smooth_cell_data smoothed_cell_data cell_data depth 0)
    let start_index_i := -wt.d_num_wavelet_ghosts 0 + 1
    let end_index_i := interior_dim_0 + wt.d_num_wavelet_ghosts 0 - 1
    let r ← lift (onLevel2 st.f_x st.w 0 (forRange start_index_i end_index_i (fun i out =>
      let idx := i + num_ghosts_0_wavelet_coeffs
      let idx_x_L := i - 1 + num_ghosts_0_cell_data
      let idx_x := i + num_ghosts_0_cell_data
      let idx_x_R := i + 1 + num_ghosts_0_cell_data
      store2 out idx (low_k2 f idx_x_L idx_x_R) (fabs (high_k2 f idx_x_L idx_x idx_x_R)))))
    let f_mean ←
      if compute_variable_local_means then
        lift (onLevel1 st.f_mean 0 (forRange 0 interior_dim_0 (fun i out =>
          let idx := i + num_ghosts_0_wavelet_coeffs
          let idx_x_L := i - 1 + num_ghosts_0_cell_data
          let idx_x := i + num_ghosts_0_cell_data
          let idx_x_R := i + 1 + num_ghosts_0_cell_data
          assign out idx (scale (1 / 2) (sum_k2 f idx_x_L idx_x idx_x_R)))))
      else pure st.f_mean
    pure { st with f_x := r.1, w := r.2, f_mean := f_mean }
  else if wt.d_k = 4 then do
    let f ← lift (selectInput smooth_cell_data smoothed_cell_data cell_data depth 0)
    let start_index_i := -wt.d_num_wavelet_ghosts 0 + 2
    let end_index_i := interior_dim_0 + wt.d_num_wavelet_ghosts 0 - 2
    let r ← lift (onLevel2 st.f_x st.w 0 (forRange start_index_i end_index_i (fun i out =>
      let idx := i + num_ghosts_0_wavelet_coeffs
      let idx_x_LL := i - 2 + num_ghosts_0_cell_data
      let idx_x_L := i - 1 + num_ghosts_0_cell_data
      let idx_x := i + num_ghosts_0_cell_data
      let idx_x_R := i + 1 + num_ghosts_0_cell_data
      let idx_x_RR := i + 2 + num_ghosts_0_cell_data
      store2 out idx (low_k4 f idx_x_LL idx_x_L idx_x_R idx_x_RR)
        (fabs (high_k4 f idx_x_LL idx_x_L idx_x idx_x_R idx_x_RR)))))
    let f_mean ←
      if compute_variable_local_means then
        lift (onLevel1 st.f_mean 0 (forRange 0 interior_dim_0 (fun i out =>
          let idx := i + num_ghosts_0_wavelet_coeffs
          let idx_x_LL := i - 2 + num_ghosts_0_cell_data
          let idx_x_L := i - 1 + num_ghosts_0_cell_data
          let idx_x := i + num_ghosts_0_cell_data
          let idx_x_R := i + 1 + num_ghosts_0_cell_data
          let idx_x_RR := i + 2 + num_ghosts_0_cell_data
          assign out idx (scale (1 / 6) (sum_k4 f idx_x_LL idx_x_L idx_x idx_x_R idx_x_RR)))))
      else pure st.f_mean
    pure { st with f_x := r.1, w := r.2, f_mean := f_mean }
  else Except.error Err.unsupportedVanishingMoments

/-- Body of the loop `for (int li = 1; li < d_num_level; li++)` in 1-D
(lines 333-443). -/
def levelUp_1D (wt : WaveletTransformHarten) (interior_dims : IntVector)
    (num_ghosts_wavelet_coeffs : IntVector) (compute_variable_local_means : Bool)
    (li : Nat) (st : State) : Except Err State :=
  let interior_dim_0 := interior_dims 0
  let num_ghosts_0_wavelet_coeffs := num_ghosts_wavelet_coeffs 0
  if wt.d_k = 2 then do
    let start_index_i := -wt.d_num_wavelet_ghosts 0 + 2 ^ li
    let end_index_i := interior_dim_0 + wt.d_num_wavelet_ghosts 0 - 2 ^ li
    let offset : Int := 2 ^ li
    let src ← lift st.f_x[li - 1]?
    let r ← lift (onLevel2 st.f_x st.w li (forRange start_index_i end_index_i (fun i out =>
      let idx := i + num_ghosts_0_wavelet_coeffs
      let idx_x_L := i - offset + num_ghosts_0_wavelet_coeffs
      let idx_x_R := i + offset + num_ghosts_0_wavelet_coeffs
      store2 out idx (low_k2 src idx_x_L idx_x_R) (fabs (high_k2 src idx_x_L idx idx_x_R)))))
    let f_mean ←
      if compute_variable_local_means then
        lift (onLevel1 st.f_mean li (forRange 0 interior_dim_0 (fun i out =>
          let idx := i + num_ghosts_0_wavelet_coeffs
          let idx_x_L := i - offset + num_ghosts_0_wavelet_coeffs
          let idx_x_R := i + offset + num_ghosts_0_wavelet_coeffs
          assign out idx (scale (1 / 2) (sum_k2 src idx_x_L idx idx_x_R)))))
      else pure st.f_mean
    pure { st with f_x := r.1, w := r.2, f_mean := f_mean }
  else if wt.d_k = 4 then do
    let start_index_i := -wt.d_num_wavelet_ghosts 0 + 2 * 2 ^ li
    let end_index_i := interior_dim_0 + wt.d_num_wavelet_ghosts 0 - 2 * 2 ^ li
    let offset : Int := 2 ^ li
    let src ← lift st.f_x[li - 1]?
    let r ← lift (onLevel2 st.f_x st.w li (forRange start_index_i end_index_i (fun i out =>
      let idx := i + num_ghosts_0_wavelet_coeffs
      let idx_x_LL := i - 2 * offset + num_ghosts_0_wavelet_coeffs
      let idx_x_L := i - offset + num_ghosts_0_wavelet_coeffs
      let idx_x_R := i + offset + num_ghosts_0_wavelet_coeffs
      let idx_x_RR := i + 2 * offset + num_ghosts_0_wavelet_coeffs
      store2 out idx (low_k4 src idx_x_LL idx_x_L idx_x_R idx_x_RR)
        (fabs (high_k4 src idx_x_LL idx_x_L idx idx_x_R idx_x_RR)))))
    let f_mean ←
      if compute_variable_local_means then
        lift (onLevel1 st.f_mean li (forRange 0 interior_dim_0 (fun i out =>
          let idx := i + num_ghosts_0_wavelet_coeffs
          let idx_x_LL := i - 2 * 2 ^ li + num_ghosts_0_wavelet_coeffs
          let idx_x_L := i - 2 ^ li + num_ghosts_0_wavelet_coeffs
          let idx_x_R := i + 2 ^ li + num_ghosts_0_wavelet_coeffs
          let idx_x_RR := i + 2 * 2 ^ li + num_ghosts_0_wavelet_coeffs
          assign out idx (scale (1 / 6) (sum_k4 src idx_x_LL idx_x_L idx idx_x_R idx_x_RR)))))
      else pure st.f_mean
    pure { st with f_x := r.1, w := r.2, f_mean := f_mean }
  else Except.error Err.unsupportedVanishingMoments

/-- Branch `d_dim == tbox::Dimension(1)` (lines 177-444): allocation of the
zero-filled scaling buffers, first level, then the levels `1 .. d_num_level - 1`
in order. -/
def transform1D (wt : WaveletTransformHarten) (interior_dims : IntVector)
    (num_ghosts_cell_data num_ghosts_wavelet_coeffs : IntVector)
    (cell_data : CellData) (depth : Nat) (smooth_cell_data : Bool)
    (smoothed_cell_data : Option CellData) (compute_variable_local_means : Bool)
    (w f_mean : List Arr) : Except Err State := do
  let size := boxSize 1 (fun d => interior_dims d + 2 * num_ghosts_wavelet_coeffs d)
  let f_x := List.replicate wt.d_num_level (zeros size)
  let st : State :=
    { w := w, f_mean := f_mean, f_x := f_x, f_y := [], f_z := [], w_x := [], w_y := [], w_z := [] }
  let st ← level0_1D wt interior_dims num_ghosts_cell_data num_ghosts_wavelet_coeffs
    cell_data depth smooth_cell_data smoothed_cell_data compute_variable_local_means st
  (natRange 1 wt.d_num_level).foldlM
    (fun st li => levelUp_1D wt interior_dims num_ghosts_wavelet_coeffs
      compute_variable_local_means li st) st

/-! ## The transform in 2-D -/

/-- First level in 2-D (lines 486-771): per-axis cascade passes in the x- and
y-direction and the optional local-mean loop over the interior.  The local-mean
loop reads the buffer `f` selected last, that of the y-direction. -/
def level0_2D (sqrt : ℚ → ℚ) (wt : WaveletTransformHarten) (interior_dims : IntVector)
    (num_ghosts_cell_data num_ghosts_wavelet_coeffs : IntVector)
    (cell_data : CellData) (depth : Nat) (smooth_cell_data : Bool)
    (smoothed_cell_data : Option CellData) (compute_variable_local_means : Bool)
    (st : State) : Except Err State :=
  let gc := num_ghosts_cell_data
  let dc : IntVector := fun d => interior_dims d + 2 * num_ghosts_cell_data d
  let gw := num_ghosts_wavelet_coeffs
  let dw : IntVector := fun d => interior_dims d + 2 * num_ghosts_wavelet_coeffs d
  if wt.d_k = 2 then do
    -- x-direction
    let f ← lift (selectInput smooth_cell_data smoothed_cell_data cell_data depth 0)
    let start_index_i := -wt.d_num_wavelet_ghosts 0 + 1
    let end_index_i := interior_dims 0 + wt.d_num_wavelet_ghosts 0 - 1
    let start_index_j := -wt.d_num_wavelet_ghosts 1
    let end_index_j := interior_dims 1 + wt.d_num_wavelet_ghosts 1
    let r_x ← lift (onLevel2 st.f_x st.w_x 0 (forRange start_index_j end_index_j (fun j =>
        forRange start_index_i end_index_i (fun i out =>
          store2 out (lin2 gw dw i j)
          (low_k2 f (lin2 gc dc (i - 1) j) (lin2 gc dc (i + 1) j))
          (high_k2 f (lin2 gc dc (i - 1) j) (lin2 gc dc i j) (lin2 gc dc (i + 1) j))))))
    -- y-direction
    let f ← lift (selectInput smooth_cell_data smoothed_cell_data cell_data depth 1)
    let start_index_i := -wt.d_num_wavelet_ghosts 0
    let end_index_i := interior_dims 0 + wt.d_num_wavelet_ghosts 0
    let start_index_j := -wt.d_num_wavelet_ghosts 1 + 1
    let end_index_j := interior_dims 1 + wt.d_num_wavelet_ghosts 1 - 1
    let r_y ← lift (onLevel2 st.f_y st.w_y 0 (forRange start_index_i end_index_i (fun i =>
        forRange start_index_j end_index_j (fun j out =>
          store2 out (lin2 gw dw i j)
          (low_k2 f (lin2 gc dc i (j - 1)) (lin2 gc dc i (j + 1)))
          (high_k2 f (lin2 gc dc i (j - 1)) (lin2 gc dc i j) (lin2 gc dc i (j + 1)))))))
    -- local means
    let f_mean ←
      if compute_variable_local_means then
        lift (onLevel1 st.f_mean 0 (forRange 0 (interior_dims 1) (fun j =>
          forRange 0 (interior_dims 0) (fun i out =>
            assign out (lin2 gw dw i j)
          (norm2 sqrt (1 / 2)
            (sum_k2 f (lin2 gc dc (i - 1) j) (lin2 gc dc i j) (lin2 gc dc (i + 1) j))
            (sum_k2 f (lin2 gc dc i (j - 1)) (lin2 gc dc i j) (lin2 gc dc i (j + 1))))))))
      else pure st.f_mean
    pure { st with f_x := r_x.1, w_x := r_x.2, f_y := r_y.1, w_y := r_y.2, f_mean := f_mean }
  else if wt.d_k = 4 then do
    -- x-direction
    let f ← lift (selectInput smooth_cell_data smoothed_cell_data cell_data depth 0)
    let start_index_i := -wt.d_num_wavelet_ghosts 0 + 2
    let end_index_i := interior_dims 0 + wt.d_num_wavelet_ghosts 0 - 2
    let start_index_j := -wt.d_num_wavelet_ghosts 1
    let end_index_j := interior_dims 1 + wt.d_num_wavelet_ghosts 1
    let r_x ← lift (onLevel2 st.f_x st.w_x 0 (forRange start_index_j end_index_j (fun j =>
        forRange start_index_i end_index_i (fun i out =>
          store2 out (lin2 gw dw i j)
          (low_k4 f (lin2 gc dc (i - 2) j) (lin2 gc dc (i - 1) j) (lin2 gc dc (i + 1) j) (lin2 gc dc (i + 2) j))
          (high_k4 f (lin2 gc dc (i - 2) j) (lin2 gc dc (i - 1) j) (lin2 gc dc i j) (lin2 gc dc (i + 1) j) (lin2 gc dc (i + 2) j))))))
    -- y-direction
    let f ← lift (selectInput smooth_cell_data smoothed_cell_data cell_data depth 1)
    let start_index_i := -wt.d_num_wavelet_ghosts 0
    let end_index_i := interior_dims 0 + wt.d_num_wavelet_ghosts 0
    let start_index_j := -wt.d_num_wavelet_ghosts 1 + 2
    let end_index_j := interior_dims 1 + wt.d_num_wavelet_ghosts 1 - 2
    let r_y ← lift (onLevel2 st.f_y st.w_y 0 (forRange start_index_i end_index_i (fun i =>
        forRange start_index_j end_index_j (fun j out =>
          store2 out (lin2 gw dw i j)
          (low_k4 f (lin2 gc dc i (j - 2)) (lin2 gc dc i (j - 1)) (lin2 gc dc i (j + 1)) (lin2 gc dc i (j + 2)))
          (high_k4 f (lin2 gc dc i (j - 2)) (lin2 gc dc i (j - 1)) (lin2 gc dc i j) (lin2 gc dc i (j + 1)) (lin2 gc dc i (j + 2)))))))
    -- local means
    let f_mean ←
      if compute_variable_local_means then
        lift (onLevel1 st.f_mean 0 (forRange 0 (interior_dims 1) (fun j =>
          forRange 0 (interior_dims 0) (fun i out =>
            assign out (lin2 gw dw i j)
          (norm2 sqrt (1 / 6)
            (sum_k4 f (lin2 gc dc (i - 2) j) (lin2 gc dc (i - 1) j) (lin2 gc dc i j) (lin2 gc dc (i + 1) j) (lin2 gc dc (i + 2) j))
            (sum_k4 f (lin2 gc dc i (j - 2)) (lin2 gc dc i (j - 1)) (lin2 gc dc i j) (lin2 gc dc i (j + 1)) (lin2 gc dc i (j + 2))))))))
      else pure st.f_mean
    pure { st with f_x := r_x.1, w_x := r_x.2, f_y := r_y.1, w_y := r_y.2, f_mean := f_mean }
  else Except.error Err.unsupportedVanishingMoments

/-- Body of the loop `for (int li = 1; li < d_num_level; li++)` in 2-D
(lines 777-1011). -/
def levelUp_2D (sqrt : ℚ → ℚ) (wt : WaveletTransformHarten) (interior_dims : IntVector)
    (num_ghosts_wavelet_coeffs : IntVector) (compute_variable_local_means : Bool)
    (li : Nat) (st : State) : Except Err State :=
  let gw := num_ghosts_wavelet_coeffs
  let dw : IntVector := fun d => interior_dims d + 2 * num_ghosts_wavelet_coeffs d
  if wt.d_k = 2 then do
    -- x-direction
    let src_x ← lift st.f_x[li - 1]?
    let start_index_i := -wt.d_num_wavelet_ghosts 0 + 2 ^ li
    let end_index_i := interior_dims 0 + wt.d_num_wavelet_ghosts 0 - 2 ^ li
    let start_index_j := -wt.d_num_wavelet_ghosts 1
    let end_index_j := interior_dims 1 + wt.d_num_wavelet_ghosts 1
    let r_x ← lift (onLevel2 st.f_x st.w_x li (forRange start_index_j end_index_j (fun j =>
        forRange start_index_i end_index_i (fun i out =>
          store2 out (lin2 gw dw i j)
          (low_k2 src_x (lin2 gw dw (i - 2 ^ li) j) (lin2 gw dw (i + 2 ^ li) j))
          (high_k2 src_x (lin2 gw dw (i - 2 ^ li) j) (lin2 gw dw i j) (lin2 gw dw (i + 2 ^ li) j))))))
    -- y-direction
    let src_y ← lift st.f_y[li - 1]?
    let start_index_i := -wt.d_num_wavelet_ghosts 0
    let end_index_i := interior_dims 0 + wt.d_num_wavelet_ghosts 0
    let start_index_j := -wt.d_num_wavelet_ghosts 1 + 2 ^ li
    let end_index_j := interior_dims 1 + wt.d_num_wavelet_ghosts 1 - 2 ^ li
    let r_y ← lift (onLevel2 st.f_y st.w_y li (forRange start_index_i end_index_i (fun i =>
        forRange start_index_j end_index_j (fun j out =>
          store2 out (lin2 gw dw i j)
          (low_k2 src_y (lin2 gw dw i (j - 2 ^ li)) (lin2 gw dw i (j + 2 ^ li)))
          (high_k2 src_y (lin2 gw dw i (j - 2 ^ li)) (lin2 gw dw i j) (lin2 gw dw i (j + 2 ^ li)))))))
    -- local means
    let f_mean ←
      if compute_variable_local_means then
        lift (onLevel1 st.f_mean li (forRange 0 (interior_dims 1) (fun j =>
          forRange 0 (interior_dims 0) (fun i out =>
            assign out (lin2 gw dw i j)
          (norm2 sqrt (1 / 2)
            (sum_k2 src_x (lin2 gw dw (i - 2 ^ li) j) (lin2 gw dw i j) (lin2 gw dw (i + 2 ^ li) j))
            (sum_k2 src_y (lin2 gw dw i (j - 2 ^ li)) (lin2 gw dw i j) (lin2 gw dw i (j + 2 ^ li))))))))
      else pure st.f_mean
    pure { st with f_x := r_x.1, w_x := r_x.2, f_y := r_y.1, w_y := r_y.2, f_mean := f_mean }
  else if wt.d_k = 4 then do
    -- x-direction
    let src_x ← lift st.f_x[li - 1]?
    let start_index_i := -wt.d_num_wavelet_ghosts 0 + 2 * 2 ^ li
    let end_index_i := interior_dims 0 + wt.d_num_wavelet_ghosts 0 - 2 * 2 ^ li
    let start_index_j := -wt.d_num_wavelet_ghosts 1
    let end_index_j := interior_dims 1 + wt.d_num_wavelet_ghosts 1
    let r_x ← lift (onLevel2 st.f_x st.w_x li (forRange start_index_j end_index_j (fun j =>
        forRange start_index_i end_index_i (fun i out =>
          store2 out (lin2 gw dw i j)
          (low_k4 src_x (lin2 gw dw (i - 2 * 2 ^ li) j) (lin2 gw dw (i - 2 ^ li) j) (lin2 gw dw (i + 2 ^ li) j) (lin2 gw dw (i + 2 * 2 ^ li) j))
          (high_k4 src_x (lin2 gw dw (i - 2 * 2 ^ li) j) (lin2 gw dw (i - 2 ^ li) j) (lin2 gw dw i j) (lin2 gw dw (i + 2 ^ li) j) (lin2 gw dw (i + 2 * 2 ^ li) j))))))
    -- y-direction
    let src_y ← lift st.f_y[li - 1]?
    let start_index_i := -wt.d_num_wavelet_ghosts 0
    let end_index_i := interior_dims 0 + wt.d_num_wavelet_ghosts 0
    let start_index_j := -wt.d_num_wavelet_ghosts 1 + 2 * 2 ^ li
    let end_index_j := interior_dims 1 + wt.d_num_wavelet_ghosts 1 - 2 * 2 ^ li
    let r_y ← lift (onLevel2 st.f_y st.w_y li (forRange start_index_i end_index_i (fun i =>
        forRange start_index_j end_index_j (fun j out =>
          store2 out (lin2 gw dw i j)
          (low_k4 src_y (lin2 gw dw i (j - 2 * 2 ^ li)) (lin2 gw dw i (j - 2 ^ li)) (lin2 gw dw i (j + 2 ^ li)) (lin2 gw dw i (j + 2 * 2 ^ li)))
          (high_k4 src_y (lin2 gw dw i (j - 2 * 2 ^ li)) (lin2 gw dw i (j - 2 ^ li)) (lin2 gw dw i j) (lin2 gw dw i (j + 2 ^ li)) (lin2 gw dw i (j + 2 * 2 ^ li)))))))
    -- local means
    let f_mean ←
      if compute_variable_local_means then
        lift (onLevel1 st.f_mean li (forRange 0 (interior_dims 1) (fun j =>
          forRange 0 (interior_dims 0) (fun i out =>
            assign out (lin2 gw dw i j)
          (norm2 sqrt (1 / 6)
            (sum_k4 src_x (lin2 gw dw (i - 2 * 2 ^ li) j) (lin2 gw dw (i - 2 ^ li) j) (lin2 gw dw i j) (lin2 gw dw (i + 2 ^ li) j) (lin2 gw dw (i + 2 * 2 ^ li) j))
            (sum_k4 src_y (lin2 gw dw i (j - 2 * 2 ^ li)) (lin2 gw dw i (j - 2 ^ li)) (lin2 gw dw i j) (lin2 gw dw i (j + 2 ^ li)) (lin2 gw dw i (j + 2 * 2 ^ li))))))))
      else pure st.f_mean
    pure { st with f_x := r_x.1, w_x := r_x.2, f_y := r_y.1, w_y := r_y.2, f_mean := f_mean }
  else Except.error Err.unsupportedVanishingMoments

/-- Body of the combination loop over the levels in 2-D (lines 1017-1033): the
combined coefficient over `[-d_p*2^(li+1), N + d_q*2^(li+1))` on every axis. -/
def combine_2D (sqrt : ℚ → ℚ) (wt : WaveletTransformHarten) (interior_dims : IntVector)
    (num_ghosts_wavelet_coeffs : IntVector) (li : Nat) (st : State) : Except Err State := do
  let gw := num_ghosts_wavelet_coeffs
  let dw : IntVector := fun d => interior_dims d + 2 * num_ghosts_wavelet_coeffs d
  let w_x ← lift st.w_x[li]?
  let w_y ← lift st.w_y[li]?
  let w ← lift (onLevel1 st.w li (forRange (-wt.d_p * 2 ^ (li + 1)) (interior_dims 1 + wt.d_q * 2 ^ (li + 1)) (fun j =>
      forRange (-wt.d_p * 2 ^ (li + 1)) (interior_dims 0 + wt.d_q * 2 ^ (li + 1)) (fun i out =>
        assign out (lin2 gw dw i j) (mag2 sqrt w_x w_y (lin2 gw dw i j))))))
  pure { st with w := w }

/-- Branch `d_dim == tbox::Dimension(2)` (lines 445-1034): allocation of the
zero-filled per-axis buffers, first level, higher levels in order, then the
combination of the per-axis wavelet coefficients at every level. -/
def transform2D (sqrt : ℚ → ℚ) (wt : WaveletTransformHarten) (interior_dims : IntVector)
    (num_ghosts_cell_data num_ghosts_wavelet_coeffs : IntVector)
    (cell_data : CellData) (depth : Nat) (smooth_cell_data : Bool)
    (smoothed_cell_data : Option CellData) (compute_variable_local_means : Bool)
    (w f_mean : List Arr) : Except Err State := do
  let size := boxSize 2 (fun d => interior_dims d + 2 * num_ghosts_wavelet_coeffs d)
  let fresh := List.replicate wt.d_num_level (zeros size)
  let st : State :=
    { w := w, f_mean := f_mean, f_x := fresh, f_y := fresh, f_z := [],
      w_x := fresh, w_y := fresh, w_z := [] }
  let st ← level0_2D sqrt wt interior_dims num_ghosts_cell_data num_ghosts_wavelet_coeffs
    cell_data depth smooth_cell_data smoothed_cell_data compute_variable_local_means st
  let st ← (natRange 1 wt.d_num_level).foldlM
    (fun st li => levelUp_2D sqrt wt interior_dims num_ghosts_wavelet_coeffs
      compute_variable_local_means li st) st
  (natRange 0 wt.d_num_level).foldlM
    (fun st li => combine_2D sqrt wt interior_dims num_ghosts_wavelet_coeffs li st) st

/-! ## The transform in 3-D -/

/-- First level in 3-D (lines 1087-1628).  The upper bound of the z-direction
window is computed from `d_num_wavelet_ghosts[1]`, as in the source; the
local-mean loop reads the buffer `f` selected last, that of the z-direction. -/
def level0_3D (sqrt : ℚ → ℚ) (wt : WaveletTransformHarten) (interior_dims : IntVector)
    (num_ghosts_cell_data num_ghosts_wavelet_coeffs : IntVector)
    (cell_data : CellData) (depth : Nat) (smooth_cell_data : Bool)
    (smoothed_cell_data : Option CellData) (compute_variable_local_means : Bool)
    (st : State) : Except Err State :=
  let gc := num_ghosts_cell_data
  let dc : IntVector := fun d => interior_dims d + 2 * num_ghosts_cell_data d
  let gw := num_ghosts_wavelet_coeffs
  let dw : IntVector := fun d => interior_dims d + 2 * num_ghosts_wavelet_coeffs d
  if wt.d_k = 2 then do
    -- x-direction
    let f ← lift (selectInput smooth_cell_data smoothed_cell_data cell_data depth 0)
    let start_index_i := -wt.d_num_wavelet_ghosts 0 + 1
    let end_index_i := interior_dims 0 + wt.d_num_wavelet_ghosts 0 - 1
    let start_index_j := -wt.d_num_wavelet_ghosts 1
    let end_index_j := interior_dims 1 + wt.d_num_wavelet_ghosts 1
    let start_index_k := -wt.d_num_wavelet_ghosts 2
    let end_index_k := interior_dims 2 + wt.d_num_wavelet_ghosts 2
    let r_x ← lift (onLevel2 st.f_x st.w_x 0 (forRange start_index_k end_index_k (fun k =>
        forRange start_index_j end_index_j (fun j =>
          forRange start_index_i end_index_i (fun i out =>
            store2 out (lin3 gw dw i j k)
          (low_k2 f (lin3 gc dc (i - 1) j k) (lin3 gc dc (i + 1) j k))
          (high_k2 f (lin3 gc dc (i - 1) j k) (lin3 gc dc i j k) (lin3 gc dc (i + 1) j k)))))))
    -- y-direction
    let f ← lift (selectInput smooth_cell_data smoothed_cell_data cell_data depth 1)
    let start_index_i := -wt.d_num_wavelet_ghosts 0
    let end_index_i := interior_dims 0 + wt.d_num_wavelet_ghosts 0
    let start_index_j := -wt.d_num_wavelet_ghosts 1 + 1
    let end_index_j := interior_dims 1 + wt.d_num_wavelet_ghosts 1 - 1
    let start_index_k := -wt.d_num_wavelet_ghosts 2
    let end_index_k := interior_dims 2 + wt.d_num_wavelet_ghosts 2
    let r_y ← lift (onLevel2 st.f_y st.w_y 0 (forRange start_index_k end_index_k (fun k =>
        forRange start_index_i end_index_i (fun i =>
          forRange start_index_j end_index_j (fun j out =>
            store2 out (lin3 gw dw i j k)
          (low_k2 f (lin3 gc dc i (j - 1) k) (lin3 gc dc i (j + 1) k))
          (high_k2 f (lin3 gc dc i (j - 1) k) (lin3 gc dc i j k) (lin3 gc dc i (j + 1) k)))))))
    -- z-direction
    let f ← lift (selectInput smooth_cell_data smoothed_cell_data cell_data depth 2)
    let start_index_i := -wt.d_num_wavelet_ghosts 0
    let end_index_i := interior_dims 0 + wt.d_num_wavelet_ghosts 0
    let start_index_j := -wt.d_num_wavelet_ghosts 1
    let end_index_j := interior_dims 1 + wt.d_num_wavelet_ghosts 1
    let start_index_k := -wt.d_num_wavelet_ghosts 2 + 1
    let end_index_k := interior_dims 2 + wt.d_num_wavelet_ghosts 1 - 1
    let r_z ← lift (onLevel2 st.f_z st.w_z 0 (forRange start_index_j end_index_j (fun j =>
        forRange start_index_i end_index_i (fun i =>
          forRange start_index_k end_index_k (fun k out =>
            store2 out (lin3 gw dw i j k)
          (low_k2 f (lin3 gc dc i j (k - 1)) (lin3 gc dc i j (k + 1)))
          (high_k2 f (lin3 gc dc i j (k - 1)) (lin3 gc dc i j k) (lin3 gc dc i j (k + 1))))))))
    -- local means
    let f_mean ←
      if compute_variable_local_means then
        lift (onLevel1 st.f_mean 0 (forRange 0 (interior_dims 2) (fun k =>
          forRange 0 (interior_dims 1) (fun j =>
            forRange 0 (interior_dims 0) (fun i out =>
              assign out (lin3 gw dw i j k)
          (norm3 sqrt (1 / 2)
            (sum_k2 f (lin3 gc dc (i - 1) j k) (lin3 gc dc i j k) (lin3 gc dc (i + 1) j k))
            (sum_k2 f (lin3 gc dc i (j - 1) k) (lin3 gc dc i j k) (lin3 gc dc i (j + 1) k))
            (sum_k2 f (lin3 gc dc i j (k - 1)) (lin3 gc dc i j k) (lin3 gc dc i j (k + 1)))))))))
      else pure st.f_mean
    pure { st with f_x := r_x.1, w_x := r_x.2, f_y := r_y.1, w_y := r_y.2, f_z := r_z.1, w_z := r_z.2, f_mean := f_mean }
  else if wt.d_k = 4 then do
    -- x-direction
    let f ← lift (selectInput smooth_cell_data smoothed_cell_data cell_data depth 0)
    let start_index_i := -wt.d_num_wavelet_ghosts 0 + 2
    let end_index_i := interior_dims 0 + wt.d_num_wavelet_ghosts 0 - 2
    let start_index_j := -wt.d_num_wavelet_ghosts 1
    let end_index_j := interior_dims 1 + wt.d_num_wavelet_ghosts 1
    let start_index_k := -wt.d_num_wavelet_ghosts 2
    let end_index_k := interior_dims 2 + wt.d_num_wavelet_ghosts 2
    let r_x ← lift (onLevel2 st.f_x st.w_x 0 (forRange start_index_k end_index_k (fun k =>
        forRange start_index_j end_index_j (fun j =>
          forRange start_index_i end_index_i (fun i out =>
            store2 out (lin3 gw dw i j k)
          (low_k4 f (lin3 gc dc (i - 2) j k) (lin3 gc dc (i - 1) j k) (lin3 gc dc (i + 1) j k) (lin3 gc dc (i + 2) j k))
          (high_k4 f (lin3 gc dc (i - 2) j k) (lin3 gc dc (i - 1) j k) (lin3 gc dc i j k) (lin3 gc dc (i + 1) j k) (lin3 gc dc (i + 2) j k)))))))
    -- y-direction
    let f ← lift (selectInput smooth_cell_data smoothed_cell_data cell_data depth 1)
    let start_index_i := -wt.d_num_wavelet_ghosts 0
    let end_index_i := interior_dims 0 + wt.d_num_wavelet_ghosts 0
    let start_index_j := -wt.d_num_wavelet_ghosts 1 + 2
    let end_index_j := interior_dims 1 + wt.d_num_wavelet_ghosts 1 - 2
    let start_index_k := -wt.d_num_wavelet_ghosts 2
    let end_index_k := interior_dims 2 + wt.d_num_wavelet_ghosts 2
    let r_y ← lift (onLevel2 st.f_y st.w_y 0 (forRange start_index_k end_index_k (fun k =>
        forRange start_index_i end_index_i (fun i =>
          forRange start_index_j end_index_j (fun j out =>
            store2 out (lin3 gw dw i j k)
          (low_k4 f (lin3 gc dc i (j - 2) k) (lin3 gc dc i (j - 1) k) (lin3 gc dc i (j + 1) k) (lin3 gc dc i (j + 2) k))
          (high_k4 f (lin3 gc dc i (j - 2) k) (lin3 gc dc i (j - 1) k) (lin3 gc dc i j k) (lin3 gc dc i (j + 1) k) (lin3 gc dc i (j + 2) k)))))))
    -- z-direction
    let f ← lift (selectInput smooth_cell_data smoothed_cell_data cell_data depth 2)
    let start_index_i := -wt.d_num_wavelet_ghosts 0
    let end_index_i := interior_dims 0 + wt.d_num_wavelet_ghosts 0
    let start_index_j := -wt.d_num_wavelet_ghosts 1
    let end_index_j := interior_dims 1 + wt.d_num_wavelet_ghosts 1
    let start_index_k := -wt.d_num_wavelet_ghosts 2 + 2
    let end_index_k := interior_dims 2 + wt.d_num_wavelet_ghosts 1 - 2
    let r_z ← lift (onLevel2 st.f_z st.w_z 0 (forRange start_index_j end_index_j (fun j =>
        forRange start_index_i end_index_i (fun i =>
          forRange start_index_k end_index_k (fun k out =>
            store2 out (lin3 gw dw i j k)
          (low_k4 f (lin3 gc dc i j (k - 2)) (lin3 gc dc i j (k - 1)) (lin3 gc dc i j (k + 1)) (lin3 gc dc i j (k + 2)))
          (high_k4 f (lin3 gc dc i j (k - 2)) (lin3 gc dc i j (k - 1)) (lin3 gc dc i j k) (lin3 gc dc i j (k + 1)) (lin3 gc dc i j (k + 2))))))))
    -- local means
    let f_mean ←
      if compute_variable_local_means then
        lift (onLevel1 st.f_mean 0 (forRange 0 (interior_dims 2) (fun k =>
          forRange 0 (interior_dims 1) (fun j =>
            forRange 0 (interior_dims 0) (fun i out =>
              assign out (lin3 gw dw i j k)
          (norm3 sqrt (1 / 6)
            (sum_k4 f (lin3 gc dc (i - 2) j k) (lin3 gc dc (i - 1) j k) (lin3 gc dc i j k) (lin3 gc dc (i + 1) j k) (lin3 gc dc (i + 2) j k))
            (sum_k4 f (lin3 gc dc i (j - 2) k) (lin3 gc dc i (j - 1) k) (lin3 gc dc i j k) (lin3 gc dc i (j + 1) k) (lin3 gc dc i (j + 2) k))
            (sum_k4 f (lin3 gc dc i j (k - 2)) (lin3 gc dc i j (k - 1)) (lin3 gc dc i j k) (lin3 gc dc i j (k + 1)) (lin3 gc dc i j (k + 2)))))))))
      else pure st.f_mean
    pure { st with f_x := r_x.1, w_x := r_x.2, f_y := r_y.1, w_y := r_y.2, f_z := r_z.1, w_z := r_z.2, f_mean := f_mean }
  else Except.error Err.unsupportedVanishingMoments

/-- Body of the loop `for (int li = 1; li < d_num_level; li++)` in 3-D
(lines 1634-2082). -/
def levelUp_3D (sqrt : ℚ → ℚ) (wt : WaveletTransformHarten) (interior_dims : IntVector)
    (num_ghosts_wavelet_coeffs : IntVector) (compute_variable_local_means : Bool)
    (li : Nat) (st : State) : Except Err State :=
  let gw := num_ghosts_wavelet_coeffs
  let dw : IntVector := fun d => interior_dims d + 2 * num_ghosts_wavelet_coeffs d
  if wt.d_k = 2 then do
    -- x-direction
    let src_x ← lift st.f_x[li - 1]?
    let start_index_i := -wt.d_num_wavelet_ghosts 0 + 2 ^ li
    let end_index_i := interior_dims 0 + wt.d_num_wavelet_ghosts 0 - 2 ^ li
    let start_index_j := -wt.d_num_wavelet_ghosts 1
    let end_index_j := interior_dims 1 + wt.d_num_wavelet_ghosts 1
    let start_index_k := -wt.d_num_wavelet_ghosts 2
    let end_index_k := interior_dims 2 + wt.d_num_wavelet_ghosts 2
    let r_x ← lift (onLevel2 st.f_x st.w_x li (forRange start_index_k end_index_k (fun k =>
        forRange start_index_j end_index_j (fun j =>
          forRange start_index_i end_index_i (fun i out =>
            store2 out (lin3 gw dw i j k)
          (low_k2 src_x (lin3 gw dw (i - 2 ^ li) j k) (lin3 gw dw (i + 2 ^ li) j k))
          (high_k2 src_x (lin3 gw dw (i - 2 ^ li) j k) (lin3 gw dw i j k) (lin3 gw dw (i + 2 ^ li) j k)))))))
    -- y-direction
    let src_y ← lift st.f_y[li - 1]?
    let start_index_i := -wt.d_num_wavelet_ghosts 0
    let end_index_i := interior_dims 0 + wt.d_num_wavelet_ghosts 0
    let start_index_j := -wt.d_num_wavelet_ghosts 1 + 2 ^ li
    let end_index_j := interior_dims 1 + wt.d_num_wavelet_ghosts 1 - 2 ^ li
    let start_index_k := -wt.d_num_wavelet_ghosts 2
    let end_index_k := interior_dims 2 + wt.d_num_wavelet_ghosts 2
    let r_y ← lift (onLevel2 st.f_y st.w_y li (forRange start_index_k end_index_k (fun k =>
        forRange start_index_i end_index_i (fun i =>
          forRange start_index_j end_index_j (fun j out =>
            store2 out (lin3 gw dw i j k)
          (low_k2 src_y (lin3 gw dw i (j - 2 ^ li) k) (lin3 gw dw i (j + 2 ^ li) k))
          (high_k2 src_y (lin3 gw dw i (j - 2 ^ li) k) (lin3 gw dw i j k) (lin3 gw dw i (j + 2 ^ li) k)))))))
    -- z-direction
    let src_z ← lift st.f_z[li - 1]?
    let start_index_i := -wt.d_num_wavelet_ghosts 0
    let end_index_i := interior_dims 0 + wt.d_num_wavelet_ghosts 0
    let start_index_j := -wt.d_num_wavelet_ghosts 1
    let end_index_j := interior_dims 1 + wt.d_num_wavelet_ghosts 1
    let start_index_k := -wt.d_num_wavelet_ghosts 2 + 2 ^ li
    let end_index_k := interior_dims 2 + wt.d_num_wavelet_ghosts 2 - 2 ^ li
    let r_z ← lift (onLevel2 st.f_z st.w_z li (forRange start_index_j end_index_j (fun j =>
        forRange start_index_i end_index_i (fun i =>
          forRange start_index_k end_index_k (fun k out =>
            store2 out (lin3 gw dw i j k)
          (low_k2 src_z (lin3 gw dw i j (k - 2 ^ li)) (lin3 gw dw i j (k + 2 ^ li)))
          (high_k2 src_z (lin3 gw dw i j (k - 2 ^ li)) (lin3 gw dw i j k) (lin3 gw dw i j (k + 2 ^ li))))))))
    -- local means
    let f_mean ←
      if compute_variable_local_means then
        lift (onLevel1 st.f_mean li (forRange 0 (interior_dims 2) (fun k =>
          forRange 0 (interior_dims 1) (fun j =>
            forRange 0 (interior_dims 0) (fun i out =>
              assign out (lin3 gw dw i j k)
          (norm3 sqrt (1 / 2)
            (sum_k2 src_x (lin3 gw dw (i - 2 ^ li) j k) (lin3 gw dw i j k) (lin3 gw dw (i + 2 ^ li) j k))
            (sum_k2 src_y (lin3 gw dw i (j - 2 ^ li) k) (lin3 gw dw i j k) (lin3 gw dw i (j + 2 ^ li) k))
            (sum_k2 src_z (lin3 gw dw i j (k - 2 ^ li)) (lin3 gw dw i j k) (lin3 gw dw i j (k + 2 ^ li)))))))))
      else pure st.f_mean
    pure { st with f_x := r_x.1, w_x := r_x.2, f_y := r_y.1, w_y := r_y.2, f_z := r_z.1, w_z := r_z.2, f_mean := f_mean }
  else if wt.d_k = 4 then do
    -- x-direction
    let src_x ← lift st.f_x[li - 1]?
    let start_index_i := -wt.d_num_wavelet_ghosts 0 + 2 * 2 ^ li
    let end_index_i := interior_dims 0 + wt.d_num_wavelet_ghosts 0 - 2 * 2 ^ li
    let start_index_j := -wt.d_num_wavelet_ghosts 1
    let end_index_j := interior_dims 1 + wt.d_num_wavelet_ghosts 1
    let start_index_k := -wt.d_num_wavelet_ghosts 2
    let end_index_k := interior_dims 2 + wt.d_num_wavelet_ghosts 2
    let r_x ← lift (onLevel2 st.f_x st.w_x li (forRange start_index_k end_index_k (fun k =>
        forRange start_index_j end_index_j (fun j =>
          forRange start_index_i end_index_i (fun i out =>
            store2 out (lin3 gw dw i j k)
          (low_k4 src_x (lin3 gw dw (i - 2 * 2 ^ li) j k) (lin3 gw dw (i - 2 ^ li) j k) (lin3 gw dw (i + 2 ^ li) j k) (lin3 gw dw (i + 2 * 2 ^ li) j k))
          (high_k4 src_x (lin3 gw dw (i - 2 * 2 ^ li) j k) (lin3 gw dw (i - 2 ^ li) j k) (lin3 gw dw i j k) (lin3 gw dw (i + 2 ^ li) j k) (lin3 gw dw (i + 2 * 2 ^ li) j k)))))))
    -- y-direction
    let src_y ← lift st.f_y[li - 1]?
    let start_index_i := -wt.d_num_wavelet_ghosts 0
    let end_index_i := interior_dims 0 + wt.d_num_wavelet_ghosts 0
    let start_index_j := -wt.d_num_wavelet_ghosts 1 + 2 * 2 ^ li
    let end_index_j := interior_dims 1 + wt.d_num_wavelet_ghosts 1 - 2 * 2 ^ li
    let start_index_k := -wt.d_num_wavelet_ghosts 2
    let end_index_k := interior_dims 2 + wt.d_num_wavelet_ghosts 2
    let r_y ← lift (onLevel2 st.f_y st.w_y li (forRange start_index_k end_index_k (fun k =>
        forRange start_index_i end_index_i (fun i =>
          forRange start_index_j end_index_j (fun j out =>
            store2 out (lin3 gw dw i j k)
          (low_k4 src_y (lin3 gw dw i (j - 2 * 2 ^ li) k) (lin3 gw dw i (j - 2 ^ li) k) (lin3 gw dw i (j + 2 ^ li) k) (lin3 gw dw i (j + 2 * 2 ^ li) k))
          (high_k4 src_y (lin3 gw dw i (j - 2 * 2 ^ li) k) (lin3 gw dw i (j - 2 ^ li) k) (lin3 gw dw i j k) (lin3 gw dw i (j + 2 ^ li) k) (lin3 gw dw i (j + 2 * 2 ^ li) k)))))))
    -- z-direction
    let src_z ← lift st.f_z[li - 1]?
    let start_index_i := -wt.d_num_wavelet_ghosts 0
    let end_index_i := interior_dims 0 + wt.d_num_wavelet_ghosts 0
    let start_index_j := -wt.d_num_wavelet_ghosts 1
    let end_index_j := interior_dims 1 + wt.d_num_wavelet_ghosts 1
    let start_index_k := -wt.d_num_wavelet_ghosts 2 + 2 * 2 ^ li
    let end_index_k := interior_dims 2 + wt.d_num_wavelet_ghosts 2 - 2 * 2 ^ li
    let r_z ← lift (onLevel2 st.f_z st.w_z li (forRange start_index_j end_index_j (fun j =>
        forRange start_index_i end_index_i (fun i =>
          forRange start_index_k end_index_k (fun k out =>
            store2 out (lin3 gw dw i j k)
          (low_k4 src_z (lin3 gw dw i j (k - 2 * 2 ^ li)) (lin3 gw dw i j (k - 2 ^ li)) (lin3 gw dw i j (k + 2 ^ li)) (lin3 gw dw i j (k + 2 * 2 ^ li)))
          (high_k4 src_z (lin3 gw dw i j (k - 2 * 2 ^ li)) (lin3 gw dw i j (k - 2 ^ li)) (lin3 gw dw i j k) (lin3 gw dw i j (k + 2 ^ li)) (lin3 gw dw i j (k + 2 * 2 ^ li))))))))
    -- local means
    let f_mean ←
      if compute_variable_local_means then
        lift (onLevel1 st.f_mean li (forRange 0 (interior_dims 2) (fun k =>
          forRange 0 (interior_dims 1) (fun j =>
            forRange 0 (interior_dims 0) (fun i out =>
              assign out (lin3 gw dw i j k)
          (norm3 sqrt (1 / 6)
            (sum_k4 src_x (lin3 gw dw (i - 2 * 2 ^ li) j k) (lin3 gw dw (i - 2 ^ li) j k) (lin3 gw dw i j k) (lin3 gw dw (i + 2 ^ li) j k) (lin3 gw dw (i + 2 * 2 ^ li) j k))
            (sum_k4 src_y (lin3 gw dw i (j - 2 * 2 ^ li) k) (lin3 gw dw i (j - 2 ^ li) k) (lin3 gw dw i j k) (lin3 gw dw i (j + 2 ^ li) k) (lin3 gw dw i (j + 2 * 2 ^ li) k))
            (sum_k4 src_z (lin3 gw dw i j (k - 2 * 2 ^ li)) (lin3 gw dw i j (k - 2 ^ li)) (lin3 gw dw i j k) (lin3 gw dw i j (k + 2 ^ li)) (lin3 gw dw i j (k + 2 * 2 ^ li)))))))))
      else pure st.f_mean
    pure { st with f_x := r_x.1, w_x := r_x.2, f_y := r_y.1, w_y := r_y.2, f_z := r_z.1, w_z := r_z.2, f_mean := f_mean }
  else Except.error Err.unsupportedVanishingMoments

/-- Body of the combination loop over the levels in 3-D (lines 2089-2112): the
combined coefficient over `[-d_p*2^(li+1), N + d_q*2^(li+1))` on every axis. -/
def combine_3D (sqrt : ℚ → ℚ) (wt : WaveletTransformHarten) (interior_dims : IntVector)
    (num_ghosts_wavelet_coeffs : IntVector) (li : Nat) (st : State) : Except Err State := do
  let gw := num_ghosts_wavelet_coeffs
  let dw : IntVector := fun d => interior_dims d + 2 * num_ghosts_wavelet_coeffs d
  let w_x ← lift st.w_x[li]?
  let w_y ← lift st.w_y[li]?
  let w_z ← lift st.w_z[li]?
  let w ← lift (onLevel1 st.w li (forRange (-wt.d_p * 2 ^ (li + 1)) (interior_dims 2 + wt.d_q * 2 ^ (li + 1)) (fun k =>
      forRange (-wt.d_p * 2 ^ (li + 1)) (interior_dims 1 + wt.d_q * 2 ^ (li + 1)) (fun j =>
        forRange (-wt.d_p * 2 ^ (li + 1)) (interior_dims 0 + wt.d_q * 2 ^ (li + 1)) (fun i out =>
          assign out (lin3 gw dw i j k) (mag3 sqrt w_x w_y w_z (lin3 gw dw i j k)))))))
  pure { st with w := w }

/-- Branch `d_dim == tbox::Dimension(3)` (lines 1035-2113): allocation of the
zero-filled per-axis buffers, first level, higher levels in order, then the
combination of the per-axis wavelet coefficients at every level. -/
def transform3D (sqrt : ℚ → ℚ) (wt : WaveletTransformHarten) (interior_dims : IntVector)
    (num_ghosts_cell_data num_ghosts_wavelet_coeffs : IntVector)
    (cell_data : CellData) (depth : Nat) (smooth_cell_data : Bool)
    (smoothed_cell_data : Option CellData) (compute_variable_local_means : Bool)
    (w f_mean : List Arr) : Except Err State := do
  let size := boxSize 3 (fun d => interior_dims d + 2 * num_ghosts_wavelet_coeffs d)
  let fresh := List.replicate wt.d_num_level (zeros size)
  let st : State :=
    { w := w, f_mean := f_mean, f_x := fresh, f_y := fresh, f_z := fresh,
      w_x := fresh, w_y := fresh, w_z := fresh }
  let st ← level0_3D sqrt wt interior_dims num_ghosts_cell_data num_ghosts_wavelet_coeffs
    cell_data depth smooth_cell_data smoothed_cell_data compute_variable_local_means st
  let st ← (natRange 1 wt.d_num_level).foldlM
    (fun st li => levelUp_3D sqrt wt interior_dims num_ghosts_wavelet_coeffs
      compute_variable_local_means li st) st
  (natRange 0 wt.d_num_level).foldlM
    (fun st li => combine_3D sqrt wt interior_dims num_ghosts_wavelet_coeffs li st) st

/-! ## Smoothing (lines 2120-2413) -/

/-- Body of every smoothing loop, for the cell with coordinate `c` along the
smoothed axis, linear index `idx`, and `idxOf ii` the linear index of the cell
whose coordinate along that axis is `ii`:
`f_smoothed[idx] = f[idx]; int count = 1;`
`for (int ii = fmax(c - 1, start_index); ii < fmin(c + 2, end_index); ii++)`
`  if (ii != c) { f_smoothed[idx] += f[idxOf ii]; count++; }`
`f_smoothed[idx] = f_smoothed[idx]/count;` -/
def smoothCell (f : Arr) (idx c start_index end_index : Int) (idxOf : Int → Int)
    (f_smoothed : Arr) : Option Arr := do
  let v ← rd f idx
  let fs ← wr f_smoothed idx v
  let r ← forRange (max (c - 1) start_index) (min (c + 2) end_index)
    (fun ii (s : Arr × Int) =>
      if ii ≠ c then do
        let cur ← rd s.1 idx
        let x ← rd f (idxOf ii)
        let fs ← wr s.1 idx (cur + x)
        pure (fs, s.2 + 1)
      else pure s) (fs, 1)
  let cur ← rd r.1 idx
  wr r.1 idx (cur / (r.2 : ℚ))

/-- Function `WaveletTransformHarten::smoothCellData`: one smoothed copy of the
selected depth component per axis, on the ghost box of the cell data.  The
freshly allocated components are taken to hold zeros before they are written. -/
def smoothCellData (wt : WaveletTransformHarten) (interior_dims : IntVector)
    (cell_data : CellData) (depth : Nat) : Option CellData := do
  let g := cell_data.ghosts
  let d : IntVector := cell_data.ghostBoxDims interior_dims
  let f ← cell_data.getPointer depth
  let fresh := zeros (boxSize wt.d_dim d)
  let start_index_i := -g 0
  let end_index_i := interior_dims 0 + g 0
  let start_index_j := -g 1
  let end_index_j := interior_dims 1 + g 1
  let start_index_k := -g 2
  let end_index_k := interior_dims 2 + g 2
  if wt.d_dim = 1 then do
    let s_x ← forRange start_index_i end_index_i (fun i out =>
      smoothCell f (lin1 g i) i start_index_i end_index_i (fun ii => lin1 g ii) out) fresh
    pure { ghosts := g, data := [s_x] }
  else if wt.d_dim = 2 then do
    let s_x ← forRange start_index_j end_index_j (fun j =>
      forRange start_index_i end_index_i (fun i out =>
        smoothCell f (lin2 g d i j) i start_index_i end_index_i (fun ii => lin2 g d ii j) out)) fresh
    let s_y ← forRange start_index_i end_index_i (fun i =>
      forRange start_index_j end_index_j (fun j out =>
        smoothCell f (lin2 g d i j) j start_index_j end_index_j (fun jj => lin2 g d i jj) out)) fresh
    pure { ghosts := g, data := [s_x, s_y] }
  else if wt.d_dim = 3 then do
    let s_x ← forRange start_index_k end_index_k (fun k =>
      forRange start_index_j end_index_j (fun j =>
        forRange start_index_i end_index_i (fun i out =>
          smoothCell f (lin3 g d i j k) i start_index_i end_index_i
            (fun ii => lin3 g d ii j k) out))) fresh
    let s_y ← forRange start_index_i end_index_i (fun i =>
      forRange start_index_k end_index_k (fun k =>
        forRange start_index_j end_index_j (fun j out =>
          smoothCell f (lin3 g d i j k) j start_index_j end_index_j
            (fun jj => lin3 g d i jj k) out))) fresh
    let s_z ← forRange start_index_j end_index_j (fun j =>
      forRange start_index_i end_index_i (fun i =>
        forRange start_index_k end_index_k (fun k out =>
          smoothCell f (lin3 g d i j k) k start_index_k end_index_k
            (fun kk => lin3 g d i j kk) out))) fresh
    pure { ghosts := g, data := [s_x, s_y, s_z] }
  else pure { ghosts := g, data := List.replicate wt.d_dim fresh }

/-! ## Entry of the transform (lines 98-175) -/

/-- All entries of a list of optional values, when none is missing. -/
def allSome {α : Type} : List (Option α) → Option (List α)
  | [] => some []
  | none :: _ => none
  | some a :: t => (allSome t).map (fun l => a :: l)

/-- Entry assertions of `computeWaveletCoefficientsWithVariableLocalMeans`
(lines 106-141), in source order.  A failing `TBOX_ASSERT` is
`Err.assertionFailed`; indexing a vector past its end is `Err.outOfBounds`. -/
def entryAssertions (wt : WaveletTransformHarten) (interior_dims : IntVector)
    (cell_data : CellData) (wavelet_coeffs variable_local_means : List CellData) :
    Except Err Unit :=
  if wavelet_coeffs.length ≠ variable_local_means.length then
    Except.error Err.assertionFailed
  else
    match wavelet_coeffs[0]? with
    | none => Except.error Err.outOfBounds
    | some wc0 =>
      let num_ghosts_cell_data := cell_data.ghosts
      let num_ghosts_wavelet_coeffs := wc0.ghosts
      if !(IntVector.ge wt.d_dim num_ghosts_cell_data num_ghosts_wavelet_coeffs) then
        Except.error Err.assertionFailed
      else if !(IntVector.ge wt.d_dim num_ghosts_wavelet_coeffs wt.d_num_wavelet_ghosts) then
        Except.error Err.assertionFailed
      else
        let ghostcell_dims_wavelet_coeffs := wc0.ghostBoxDims interior_dims
        if !(wavelet_coeffs.all (fun c =>
            IntVector.eq wt.d_dim (c.ghostBoxDims interior_dims)
              ghostcell_dims_wavelet_coeffs)) then
          Except.error Err.assertionFailed
        else if variable_local_means.isEmpty then
          Except.ok ()
        else
          (natRange 0 wavelet_coeffs.length).foldlM (fun _ li =>
            match variable_local_means[li]? with
            | none => Except.error Err.outOfBounds
            | some m =>
              if !(IntVector.eq wt.d_dim (m.ghostBoxDims interior_dims)
                  ghostcell_dims_wavelet_coeffs) then
                Except.error Err.assertionFailed
              else Except.ok ()) ()

/-- Computation of `computeWaveletCoefficientsWithVariableLocalMeans` after its
entry assertions (lines 143-2113); it is the whole function when assertions are
compiled out.  The output buffers `w[li]` are zero-filled, the local-mean
buffers are taken as they are, the input is smoothed when requested, and the
branch of the dimension runs. -/
def transformBody (sqrt : ℚ → ℚ) (wt : WaveletTransformHarten) (interior_dims : IntVector)
    (cell_data : CellData) (wavelet_coeffs variable_local_means : List CellData)
    (depth : Nat) (smooth_cell_data : Bool) : Except Err State := do
  let wc0 ← lift wavelet_coeffs[0]?
  let num_ghosts_cell_data := cell_data.ghosts
  let num_ghosts_wavelet_coeffs := wc0.ghosts
  let compute_variable_local_means := !variable_local_means.isEmpty
  let _ ← lift (cell_data.getPointer depth)
  let w ← lift (allSome ((natRange 0 wt.d_num_level).map (fun li =>
    (wavelet_coeffs[li]?).bind (fun c => (c.getPointer 0).map fillZero))))
  let f_mean ←
    if compute_variable_local_means then
      lift (allSome ((natRange 0 wt.d_num_level).map (fun li =>
        (variable_local_means[li]?).bind (fun c => c.getPointer 0))))
    else pure []
  let smoothed_cell_data ←
    if smooth_cell_data then
      (lift (smoothCellData wt interior_dims cell_data depth)).map some
    else pure none
  if wt.d_dim = 1 then
    transform1D wt interior_dims num_ghosts_cell_data num_ghosts_wavelet_coeffs
      cell_data depth smooth_cell_data smoothed_cell_data compute_variable_local_means w f_mean
  else if wt.d_dim = 2 then
    transform2D sqrt wt interior_dims num_ghosts_cell_data num_ghosts_wavelet_coeffs
      cell_data depth smooth_cell_data smoothed_cell_data compute_variable_local_means w f_mean
  else if wt.d_dim = 3 then
    transform3D sqrt wt interior_dims num_ghosts_cell_data num_ghosts_wavelet_coeffs
      cell_data depth smooth_cell_data smoothed_cell_data compute_variable_local_means w f_mean
  else
    pure { w := w, f_mean := f_mean, f_x := [], f_y := [], f_z := [],
           w_x := [], w_y := [], w_z := [] }

/-- Function `computeWaveletCoefficientsWithVariableLocalMeans` (lines 97-2114)
with its assertions enabled. -/
def computeWaveletCoefficientsWithVariableLocalMeans (sqrt : ℚ → ℚ)
    (wt : WaveletTransformHarten) (interior_dims : IntVector)
    (cell_data : CellData) (wavelet_coeffs variable_local_means : List CellData)
    (depth : Nat) (smooth_cell_data : Bool) : Except Err State := do
  entryAssertions wt interior_dims cell_data wavelet_coeffs variable_local_means
  transformBody sqrt wt interior_dims cell_data wavelet_coeffs variable_local_means
    depth smooth_cell_data

/-- Function `computeWaveletCoefficients` (lines 73-91): it forwards an empty
vector of local means. -/
def computeWaveletCoefficients (sqrt : ℚ → ℚ)
    (wt : WaveletTransformHarten) (interior_dims : IntVector)
    (cell_data : CellData) (wavelet_coeffs : List CellData)
    (depth : Nat) (smooth_cell_data : Bool) : Except Err State :=
  computeWaveletCoefficientsWithVariableLocalMeans sqrt wt interior_dims cell_data
    wavelet_coeffs [] depth smooth_cell_data

/-! ## Specification vocabulary -/

/-- Cells visited by two nested counted loops, outer variable first. -/
def cells2 (a b c d : Int) : List (Int × Int) :=
  (range a b).flatMap (fun x => (range c d).map (fun y => (x, y)))

/-- Cells visited by three nested counted loops, outermost variable first. -/
def cells3 (a b c d e f : Int) : List (Int × Int × Int) :=
  (range a b).flatMap (fun x => (range c d).flatMap (fun y => (range e f).map (fun z => (x, y, z))))

/-- Effect of a loop nest on one buffer: `a'` is `a` after the cells `cs` were
visited in order, the visit of `c` storing `v c` at the linear index `ix c`.
The length is kept, indices no visit stores to are kept, and an index whose
visits all store the same value holds that value. -/
def Written {C : Type} (cs : List C) (ix : C → Int) (v : C → ℚ) (a a' : Arr) : Prop :=
  a'.length = a.length ∧
  (∀ n, (∀ c ∈ cs, ix c ≠ n) → rd a' n = rd a n) ∧
  (∀ c ∈ cs, (∀ c' ∈ cs, ix c' = ix c → v c' = v c) → rd a' (ix c) = some (v c))

/-- Buffer of level `li` in a list of per-level buffers. -/
def level (xs : List Arr) (li : Nat) : Arr := xs.getD li []

/-- Effect of a loop nest on one buffer, cell by cell: the length is kept, every
cell of the window holds its value `v c` at the linear index `ix c`, and every
index that is not the index of a window cell is as before. -/
def Filled {C : Type} (win : C → Prop) (ix : C → Int) (v : C → ℚ) (a a' : Arr) : Prop :=
  a'.length = a.length ∧
  (∀ c, win c → valAt a' (ix c) = v c) ∧
  (∀ n, (∀ c, win c → ix c ≠ n) → valAt a' n = valAt a n)

/-- Arithmetic mean of the samples `f[idxOf ii]` over those of the coordinates
`c - 1, c, c + 1` that lie in `[lo, hi)`. -/
def smoothVal (f : Arr) (lo hi : Int) (idxOf : Int → Int) (c : Int) : ℚ :=
  let cs := [c - 1, c, c + 1].filter (fun ii => decide (lo ≤ ii ∧ ii < hi))
  ((cs.map (fun ii => valAt f (idxOf ii))).sum) / (cs.length : ℚ)

/-- Linear index of the cell with coordinates `x` in dimension `dim`. -/
def linIdx (dim : Nat) (g d : IntVector) (x : IntVector) : Int :=
  if dim = 1 then lin1 g (x 0)
  else if dim = 2 then lin2 g d (x 0) (x 1)
  else lin3 g d (x 0) (x 1) (x 2)

/-- Cell `x` lies in the box `[lo d, hi d)` on every axis `d` of the dimension. -/
def InBox (dim : Nat) (lo hi : IntVector) (x : IntVector) : Prop :=
  ∀ d, d < dim → lo d ≤ x d ∧ x d < hi d

/-- Cell `x` moved to coordinate `c` along `axis`. -/
def moveTo (x : IntVector) (axis : Nat) (c : Int) : IntVector :=
  fun d => if d = axis then c else x d

/-- Cell of a 2-D box as a coordinate vector. -/
def cell2 (i j : Int) : IntVector := fun d => if d = 0 then i else j

/-- Cell of a 3-D box as a coordinate vector. -/
def cell3 (i j k : Int) : IntVector := fun d => if d = 0 then i else if d = 1 then j else k

/-- Scaling (low-pass) value of the cascade at coordinate `i` with dyadic step
`s`, for the samples `src` along the transformed axis. -/
def lowVal (k : Int) (src : Int → ℚ) (s i : Int) : ℚ :=
  if k = 2 then 1 / 2 * (src (i - s) + src (i + s))
  else 1 / 6 * (-src (i - 2 * s) + 4 * src (i - s) + 4 * src (i + s) - src (i + 2 * s))

/-- Signed wavelet (high-pass) value of the cascade at coordinate `i`. -/
def highVal (k : Int) (src : Int → ℚ) (s i : Int) : ℚ :=
  if k = 2 then -(1 / 2) * (src (i - s) - 2 * src i + src (i + s))
  else 1 / 6 * (src (i - 2 * s) - 4 * src (i - s) + 6 * src i - 4 * src (i + s)
    + src (i + 2 * s))

/-- Weighted sum of the local mean at coordinate `i`: weights 1-2-1 for `k = 2`
and 1-4-6-4-1 for `k = 4`. -/
def sumVal (k : Int) (src : Int → ℚ) (s i : Int) : ℚ :=
  if k = 2 then src (i - s) + 2 * src i + src (i + s)
  else src (i - 2 * s) + 4 * src (i - s) + 6 * src i + 4 * src (i + s) + src (i + 2 * s)

/-- Factor in front of the local mean: `0.5` for `k = 2`, `1.0/6.0` for `k = 4`. -/
def meanCoef (k : Int) : ℚ := if k = 2 then 1 / 2 else 1 / 6

/-- Input of level `li` of the 1-D cascade at cell `j`: the selected input
field `f` for `li = 0`, the scaling buffer of level `li - 1` otherwise. -/
def lowIn1D (gc gw : IntVector) (f : Arr) (f_x : List Arr) (li : Nat) (j : Int) : ℚ :=
  if li = 0 then valAt f (j + gc 0) else valAt (level f_x (li - 1)) (j + gw 0)

/-- Level `li` of the 1-D transform, relative to the buffers before the call
(`w0` the zero-filled outputs, `m0` the local-mean buffers): the scaling and
wavelet buffers hold the cascade values on the window
`[-G + p*2^li, N + G - p*2^li)` and are unchanged elsewhere, and the local mean,
when computed, is written on the interior `[0, N)` only. -/
def Level1D (wt : WaveletTransformHarten) (N gc gw : IntVector) (f : Arr)
    (w0 m0 : List Arr) (comp : Bool) (st : State) (li : Nat) : Prop :=
  Filled (fun i => -wt.d_num_wavelet_ghosts 0 + wt.d_p * 2 ^ li ≤ i ∧
      i < N 0 + wt.d_num_wavelet_ghosts 0 - wt.d_p * 2 ^ li) (fun i => i + gw 0)
    (fun i => lowVal wt.d_k (lowIn1D gc gw f st.f_x li) (2 ^ li) i)
    (zeros (N 0 + 2 * gw 0)) (level st.f_x li) ∧
  Filled (fun i => -wt.d_num_wavelet_ghosts 0 + wt.d_p * 2 ^ li ≤ i ∧
      i < N 0 + wt.d_num_wavelet_ghosts 0 - wt.d_p * 2 ^ li) (fun i => i + gw 0)
    (fun i => |highVal wt.d_k (lowIn1D gc gw f st.f_x li) (2 ^ li) i|)
    (level w0 li) (level st.w li) ∧
  (comp = true →
    Filled (fun i => 0 ≤ i ∧ i < N 0) (fun i => i + gw 0)
      (fun i => meanCoef wt.d_k * sumVal wt.d_k (lowIn1D gc gw f st.f_x li) (2 ^ li) i)
      (level m0 li) (level st.f_mean li))

/-- State of the 1-D transform once the levels below `n` are done: buffer
counts and lengths, the levels below `n` as specified, the others untouched. -/
def Inv1D (wt : WaveletTransformHarten) (N gc gw : IntVector) (f : Arr)
    (w0 m0 : List Arr) (comp : Bool) (n : Nat) (st : State) : Prop :=
  st.f_x.length = wt.d_num_level ∧ st.w.length = wt.d_num_level ∧
  (comp = true → st.f_mean.length = wt.d_num_level) ∧
  (∀ li, li < wt.d_num_level →
    ((level st.f_x li).length : Int) = N 0 + 2 * gw 0 ∧
    ((level st.w li).length : Int) = N 0 + 2 * gw 0 ∧
    (comp = true → ((level st.f_mean li).length : Int) = N 0 + 2 * gw 0)) ∧
  (∀ li, li < n → Level1D wt N gc gw f w0 m0 comp st li) ∧
  (∀ li, n ≤ li → li < wt.d_num_level →
    level st.f_x li = zeros (N 0 + 2 * gw 0) ∧ level st.w li = level w0 li ∧
    level st.f_mean li = level m0 li)

/-- Ghost width of the coefficient fields: that of `wavelet_coeffs[0]`. -/
def coefGhosts (wavelet_coeffs : List CellData) : IntVector :=
  match wavelet_coeffs[0]? with
  | some c => c.ghosts
  | none => fun _ => 0

/-- Depth-0 buffers of the first `L` fields of a list, as the call finds them. -/
def outBuffers (fields : List CellData) (L : Nat) : List Arr :=
  (natRange 0 L).map (fun li => ((fields[li]?).bind (fun c => c.getPointer 0)).getD [])

/-- Input buffer the call selects for the pass along `axis`: the smoothed copy
of that axis when smoothing is requested, the selected depth component of the
cell data otherwise. -/
def inputOf (wt : WaveletTransformHarten) (interior_dims : IntVector) (cell_data : CellData)
    (depth : Nat) (smooth_cell_data : Bool) (axis : Nat) : Option Arr :=
  selectInput smooth_cell_data
    (if smooth_cell_data then smoothCellData wt interior_dims cell_data depth else none)
    cell_data depth axis

/-- Conditions under which a call is made: a dimension of 1, 2 or 3, at least
one interior cell per axis, input ghost width at least the coefficient ghost
width and the latter at least the required ghost width on every axis, an input
component of the size of its ghost box, a coefficient field for every level,
and all coefficient and local-mean fields of the extent of the first
coefficient field; local-mean fields are either absent or there is one for
every level. -/
structure Pre (wt : WaveletTransformHarten) (interior_dims : IntVector)
    (cell_data : CellData) (wavelet_coeffs variable_local_means : List CellData)
    (depth : Nat) : Prop where
  dim : wt.d_dim = 1 ∨ wt.d_dim = 2 ∨ wt.d_dim = 3
  interior : ∀ d, d < wt.d_dim → 1 ≤ interior_dims d
  ghosts_cell : ∀ d, d < wt.d_dim → coefGhosts wavelet_coeffs d ≤ cell_data.ghosts d
  ghosts_coef : ∀ d, d < wt.d_dim → wt.d_num_wavelet_ghosts d ≤ coefGhosts wavelet_coeffs d
  input : ∃ f, cell_data.getPointer depth = some f ∧
    (f.length : Int) = boxSize wt.d_dim (cell_data.ghostBoxDims interior_dims)
  count : wt.d_num_level ≤ wavelet_coeffs.length
  coefs : ∀ c, c ∈ wavelet_coeffs → ∃ a, c.getPointer 0 = some a ∧
    (a.length : Int) =
      boxSize wt.d_dim (fun d => interior_dims d + 2 * coefGhosts wavelet_coeffs d)
  means : variable_local_means = [] ∨
    (wt.d_num_level ≤ variable_local_means.length ∧
      ∀ c, c ∈ variable_local_means → ∃ a, c.getPointer 0 = some a ∧
        (a.length : Int) =
          boxSize wt.d_dim (fun d => interior_dims d + 2 * coefGhosts wavelet_coeffs d))

/-- Output buffers `w[li]` at the start of the computation: the depth-0
buffers of the coefficient fields after `fillAll(0.0)`. -/
def w0Of (wavelet_coeffs : List CellData) (L : Nat) : List Arr :=
  (outBuffers wavelet_coeffs L).map fillZero

/-- Local-mean buffers `f_mean[li]` at the start of the computation: the
depth-0 buffers of the local-mean fields as the caller left them. -/
def m0Of (variable_local_means : List CellData) (L : Nat) : List Arr :=
  if variable_local_means.isEmpty then [] else outBuffers variable_local_means L

/-- Smoothed cell data of a call: present when smoothing is requested. -/
def smoothedOf (wt : WaveletTransformHarten) (interior_dims : IntVector) (cell_data : CellData)
    (depth : Nat) (smooth_cell_data : Bool) : Option CellData :=
  if smooth_cell_data then smoothCellData wt interior_dims cell_data depth else none

/-! ## Specification vocabulary of the 2-D and 3-D transform -/

/-- Samples of the buffer `a` along `axis` through the cell `x`: the sample at
coordinate `c` is the value at the cell `x` moved to `c` along the axis. -/
def lineOf (dim : Nat) (g d : IntVector) (a : Arr) (x : IntVector) (axis : Nat) (c : Int) : ℚ :=
  valAt a (linIdx dim g d (moveTo x axis c))

/-- Lower corner of the window of the pass along `axis` at level `li`:
`-G + p*2^li` along the axis, `-G` across it. -/
def passLo (wt : WaveletTransformHarten) (axis li : Nat) : IntVector :=
  fun d => if d = axis then -wt.d_num_wavelet_ghosts d + wt.d_p * 2 ^ li
    else -wt.d_num_wavelet_ghosts d

/-- Upper corner (exclusive) of the window of the pass along `axis` at level
`li`: `N + G - p*2^li` along the axis, `N + G` across it. -/
def passHi (wt : WaveletTransformHarten) (N : IntVector) (axis li : Nat) : IntVector :=
  fun d => if d = axis then N d + wt.d_num_wavelet_ghosts d - wt.d_p * 2 ^ li
    else N d + wt.d_num_wavelet_ghosts d

/-- Per-level scaling buffers of the pass along `axis`. -/
def State.fAx (st : State) (axis : Nat) : List Arr :=
  if axis = 0 then st.f_x else if axis = 1 then st.f_y else st.f_z

/-- Per-level signed wavelet buffers of the pass along `axis`. -/
def State.wAx (st : State) (axis : Nat) : List Arr :=
  if axis = 0 then st.w_x else if axis = 1 then st.w_y else st.w_z

/-- Input of the pass along `axis` at level `li`, as samples along the axis
through the cell `x`: the input buffer `f` selected for the axis on the ghost box
of the cell data for `li = 0`, the scaling buffer of level `li - 1` of the same
axis otherwise. -/
def lowIn (dim : Nat) (N gc gw : IntVector) (f : Arr) (fa : List Arr) (li : Nat)
    (x : IntVector) (axis : Nat) : Int → ℚ :=
  if li = 0 then lineOf dim gc (fun d => N d + 2 * gc d) f x axis
  else lineOf dim gw (fun d => N d + 2 * gw d) (level fa (li - 1)) x axis

/-- Sum of squares `pow(t0, 2.0) + pow(t1, 2.0) [+ pow(t2, 2.0)]` over the axes. -/
def sumPow (dim : Nat) (t : Nat → ℚ) : ℚ :=
  if dim = 2 then t 0 ^ 2 + t 1 ^ 2 else t 0 ^ 2 + t 1 ^ 2 + t 2 ^ 2

/-- Sum of products `t0*t0 + t1*t1 [+ t2*t2]` over the axes. -/
def sumSq (dim : Nat) (t : Nat → ℚ) : ℚ :=
  if dim = 2 then t 0 * t 0 + t 1 * t 1 else t 0 * t 0 + t 1 * t 1 + t 2 * t 2

/-- Level `li` of the pass along `axis` in 2-D or 3-D, relative to zero-filled
buffers: scaling and signed wavelet buffers hold the cascade values of the
level input along the axis on the window of the pass and are zero elsewhere.
`fin` is the input buffer selected for the axis. -/
def AxisLevel (dim : Nat) (wt : WaveletTransformHarten) (N gc gw : IntVector) (fin : Arr)
    (st : State) (axis li : Nat) : Prop :=
  Filled (InBox dim (passLo wt axis li) (passHi wt N axis li))
    (linIdx dim gw (fun d => N d + 2 * gw d))
    (fun x => lowVal wt.d_k (lowIn dim N gc gw fin (st.fAx axis) li x axis) (2 ^ li) (x axis))
    (zeros (boxSize dim (fun d => N d + 2 * gw d))) (level (st.fAx axis) li) ∧
  Filled (InBox dim (passLo wt axis li) (passHi wt N axis li))
    (linIdx dim gw (fun d => N d + 2 * gw d))
    (fun x => highVal wt.d_k (lowIn dim N gc gw fin (st.fAx axis) li x axis) (2 ^ li) (x axis))
    (zeros (boxSize dim (fun d => N d + 2 * gw d))) (level (st.wAx axis) li)

/-- Value of the local mean of level `li` at the cell `x` in 2-D or 3-D: the
factor of the order times the square root of the sum over the axes of the
squared weighted sums of the level input along the axis. -/
def meanVal (sqrt : ℚ → ℚ) (dim : Nat) (wt : WaveletTransformHarten) (N gc gw : IntVector)
    (flast : Arr) (st : State) (li : Nat) (x : IntVector) : ℚ :=
  meanCoef wt.d_k * sqrt (sumPow dim (fun a =>
    sumVal wt.d_k (lowIn dim N gc gw flast (st.fAx a) li x a) (2 ^ li) (x a)))

/-- Local mean of level `li` in 2-D or 3-D: on the interior it is the factor of
the order times the square root of the sum over the axes of the squared
weighted sums along the axis.  At level 0 every axis reads the input buffer
`flast` selected last (that of the last axis); at higher levels axis `a` reads
its own scaling buffer of level `li - 1`. -/
def MeanLevel (sqrt : ℚ → ℚ) (dim : Nat) (wt : WaveletTransformHarten) (N gc gw : IntVector)
    (flast : Arr) (m0 : List Arr) (st : State) (li : Nat) : Prop :=
  Filled (InBox dim (fun _ => 0) N) (linIdx dim gw (fun d => N d + 2 * gw d))
    (meanVal sqrt dim wt N gc gw flast st li) (level m0 li) (level st.f_mean li)

/-- Effect of the per-axis passes of level `n` on the state `st`, giving `st2`:
on every axis the scaling and wavelet buffers of level `n` are replaced by
buffers filled with the cascade values of the level input on the window of the
pass, the local-mean buffer of level `n` is filled on the interior when local
means are computed, and nothing else changes. -/
def StepAxes (sqrt : ℚ → ℚ) (dim : Nat) (wt : WaveletTransformHarten) (N gc gw : IntVector)
    (fin : Nat → Arr) (flast : Arr) (comp : Bool) (n : Nat) (st st2 : State) : Prop :=
  (∀ a, a < dim → ∃ F W, st2.fAx a = (st.fAx a).set n F ∧ st2.wAx a = (st.wAx a).set n W ∧
    Filled (InBox dim (passLo wt a n) (passHi wt N a n))
      (linIdx dim gw (fun d => N d + 2 * gw d))
      (fun x => lowVal wt.d_k (lowIn dim N gc gw (fin a) (st.fAx a) n x a) (2 ^ n) (x a))
      (level (st.fAx a) n) F ∧
    Filled (InBox dim (passLo wt a n) (passHi wt N a n))
      (linIdx dim gw (fun d => N d + 2 * gw d))
      (fun x => highVal wt.d_k (lowIn dim N gc gw (fin a) (st.fAx a) n x a) (2 ^ n) (x a))
      (level (st.wAx a) n) W) ∧
  (comp = true → ∃ m, st2.f_mean = st.f_mean.set n m ∧
    Filled (InBox dim (fun _ => 0) N) (linIdx dim gw (fun d => N d + 2 * gw d))
      (meanVal sqrt dim wt N gc gw flast st n) (level st.f_mean n) m) ∧
  (comp = false → st2.f_mean = st.f_mean) ∧
  st2.w = st.w

/-- State of the 2-D or 3-D transform once the per-axis passes of the levels
below `n` are done: buffer counts and sizes, the levels below `n` as specified,
the other levels untouched, and the output buffers still as at the start. -/
def InvAxes (sqrt : ℚ → ℚ) (dim : Nat) (wt : WaveletTransformHarten) (N gc gw : IntVector)
    (fin : Nat → Arr) (w0 m0 : List Arr) (comp : Bool) (n : Nat) (st : State) : Prop :=
  (∀ a, a < dim → (st.fAx a).length = wt.d_num_level ∧ (st.wAx a).length = wt.d_num_level) ∧
  (comp = true → st.f_mean.length = wt.d_num_level) ∧
  (∀ li, li < wt.d_num_level →
    (∀ a, a < dim →
      ((level (st.fAx a) li).length : Int) = boxSize dim (fun d => N d + 2 * gw d) ∧
      ((level (st.wAx a) li).length : Int) = boxSize dim (fun d => N d + 2 * gw d)) ∧
    (comp = true →
      ((level st.f_mean li).length : Int) = boxSize dim (fun d => N d + 2 * gw d))) ∧
  (∀ li, li < n →
    (∀ a, a < dim → AxisLevel dim wt N gc gw (fin a) st a li) ∧
    (comp = true → MeanLevel sqrt dim wt N gc gw (fin (dim - 1)) m0 st li)) ∧
  (∀ li, n ≤ li → li < wt.d_num_level →
    (∀ a, a < dim →
      level (st.fAx a) li = zeros (boxSize dim (fun d => N d + 2 * gw d)) ∧
      level (st.wAx a) li = zeros (boxSize dim (fun d => N d + 2 * gw d))) ∧
    level st.f_mean li = level m0 li) ∧
  st.w = w0

/-- Value of the combined coefficient of level `li` at the cell `x`: the square
root of the sum over the axes of the squared per-axis wavelet values at `x`. -/
def combVal (sqrt : ℚ → ℚ) (dim : Nat) (N gw : IntVector) (st : State) (li : Nat)
    (x : IntVector) : ℚ :=
  sqrt (sumSq dim (fun a =>
    valAt (level (st.wAx a) li) (linIdx dim gw (fun d => N d + 2 * gw d) x)))

/-- Combined coefficient of level `li`: on the box
`[-p*2^(li+1), N + q*2^(li+1))` of every axis the output buffer holds the square
root of the sum over the axes of the squared per-axis wavelet values, and it is
as at the start elsewhere. -/
def CombLevel (sqrt : ℚ → ℚ) (dim : Nat) (wt : WaveletTransformHarten) (N gw : IntVector)
    (w0 : List Arr) (st : State) (li : Nat) : Prop :=
  Filled (InBox dim (fun _ => -wt.d_p * 2 ^ (li + 1)) (fun d => N d + wt.d_q * 2 ^ (li + 1)))
    (linIdx dim gw (fun d => N d + 2 * gw d))
    (combVal sqrt dim N gw st li) (level w0 li) (level st.w li)

/-- State of the 2-D or 3-D transform once the levels below `n` are combined:
the per-axis buffers and local means are those of `st1`, the state after the
per-axis passes; the output buffers of the levels below `n` hold the combined
coefficients and the others are as at the start. -/
def InvComb (sqrt : ℚ → ℚ) (dim : Nat) (wt : WaveletTransformHarten) (N gw : IntVector)
    (w0 : List Arr) (st1 : State) (n : Nat) (st : State) : Prop :=
  st.f_x = st1.f_x ∧ st.f_y = st1.f_y ∧ st.f_z = st1.f_z ∧
  st.w_x = st1.w_x ∧ st.w_y = st1.w_y ∧ st.w_z = st1.w_z ∧ st.f_mean = st1.f_mean ∧
  st.w.length = wt.d_num_level ∧
  (∀ li, li < wt.d_num_level →
    ((level st.w li).length : Int) = boxSize dim (fun d => N d + 2 * gw d)) ∧
  (∀ li, li < n → CombLevel sqrt dim wt N gw w0 st li) ∧
  (∀ li, n ≤ li → li < wt.d_num_level → level st.w li = level w0 li)

/-! ## Concrete inputs -/

/-- Square root on the rationals that is exact on squares of rationals (integer
square roots of numerator and denominator); an executable instance of the
`sqrt` parameter. -/
def ratSqrt (q : ℚ) : ℚ := (Nat.sqrt q.num.toNat : ℚ) / (Nat.sqrt q.den : ℚ)

/-- Engine built by the constructor for two levels. -/
def exEngine (dim : Nat) (k : Int) : WaveletTransformHarten :=
  match WaveletTransformHarten.new dim 2 k with
  | Except.ok wt => wt
  | Except.error _ =>
    { d_dim := dim, d_num_level := 0, d_k := k, d_p := 0, d_q := 0,
      d_num_wavelet_ghosts := fun _ => 0 }

/-- Field with one depth component on a box of `n` cells per axis with ghost
width `g`, holding the samples `a`. -/
def exField (g : Int) (a : Arr) : CellData := { ghosts := fun _ => g, data := [a] }

/-- Interior cell counts: eight cells on every axis. -/
def exDims : IntVector := fun _ => 8

/-- The step of the end-to-end example, `f = [0,0,0,1,1,0,0,0]` on the interior
and 0 on the 7 ghost cells of each side. -/
def exStep : Arr := List.replicate 7 0 ++ [0, 0, 0, 1, 1, 0, 0, 0] ++ List.replicate 7 0

/-- Two zero-initialised coefficient (or local-mean) fields with ghost width
`g` on 8 interior cells per axis. -/
def exCoefs (dim : Nat) (g : Int) : List CellData :=
  [exField g (zeros (boxSize dim (fun _ => 8 + 2 * g))),
    exField g (zeros (boxSize dim (fun _ => 8 + 2 * g)))]

/-- Field without ghost cells on 8 cells holding one unit sample. -/
def exImpulse : CellData := exField 0 [0, 0, 0, 1, 0, 0, 0, 0]

/-- Field whose whole storage is the 7 samples `[0,0,0,1,0,0,0]`: 7 interior
cells, no ghost cells. -/
def exSpike : CellData := exField 0 [0, 0, 0, 1, 0, 0, 0]

/-- Interior cell counts: seven cells on every axis. -/
def exDims7 : IntVector := fun _ => 7

/-- Three zero-initialised fields with ghost width 7 on 8 interior cells in 1-D. -/
def exCoefs3 : List CellData :=
  [exField 7 (zeros 22), exField 7 (zeros 22), exField 7 (zeros 22)]

/-- Interior samples of the end-to-end example, 0 on every ghost cell:
`f = [0,0,0,1,1,0,0,0]` on the cells `0..7`. -/
def exStepVal (i : Int) : ℚ := if 3 ≤ i ∧ i ≤ 4 then 1 else 0

/-- Constant field of ones on 8 interior cells with 7 ghost cells in 1-D. -/
def exOnes : Arr := List.replicate 22 1

/-- Linear ramp `f[i] = i` on 8 interior cells with 7 ghost cells in 1-D. -/
def exRamp : Arr := (List.range 22).map (fun (n : Nat) => (n : ℚ) - 7)

/-- Two coefficient fields with ghost width 7 on 8 interior cells in 1-D that
hold 1 at every cell before the call. -/
def exDirty : List CellData := [exField 7 exOnes, exField 7 exOnes]

/-- Field `f(i, j) = i` on 8 x 8 interior cells with 7 ghost cells per side in
2-D, stored with the axis-0 index running fastest. -/
def exCols : Arr := (List.range 484).map (fun (n : Nat) => ((n % 22 : Nat) : ℚ) - 7)

/-- Constant field -1 on 8 interior cells with 7 ghost cells per side in 1-D. -/
def exNeg : Arr := List.replicate 22 (-1)

/-- Cubic field `f(i) = i^3` on 8 interior cells with 14 ghost cells per side in 1-D. -/
def exCubic : Arr := (List.range 36).map (fun (n : Nat) => ((n : ℚ) - 14) ^ 3)

/-- Field `f(i, j) = 1` for `i = -5` and `i = 1`, 0 elsewhere, on 8 x 8 interior
cells with 7 ghost cells per side in 2-D. -/
def exBumps : Arr :=
  (List.range 484).map (fun (n : Nat) => if n % 22 = 2 ∨ n % 22 = 8 then (1 : ℚ) else 0)

/-- Values of `exBumps` as a function of the axis-0 index. -/
def exBumpsVal (i : Int) : ℚ := if i = -5 ∨ i = 1 then 1 else 0

/-- Level-0 z-direction loop nest of the 3-D branch (lines 1219-1258 for `k = 2`,
1474-1523 for `k = 4`) on the pair `out` of the z scaling and wavelet buffers,
with the ghost width `Gz` that enters the upper bound `end_index_k` as a
parameter: the source passes `d_num_wavelet_ghosts[1]`, the dimension-matched
value is `d_num_wavelet_ghosts[2]`. -/
def zPass0 (wt : WaveletTransformHarten) (interior_dims gc gw : IntVector) (f : Arr)
    (Gz : Int) (out : Arr × Arr) : Option (Arr × Arr) :=
  let dc : IntVector := fun d => interior_dims d + 2 * gc d
  let dw : IntVector := fun d => interior_dims d + 2 * gw d
  let start_index_i := -wt.d_num_wavelet_ghosts 0
  let end_index_i := interior_dims 0 + wt.d_num_wavelet_ghosts 0
  let start_index_j := -wt.d_num_wavelet_ghosts 1
  let end_index_j := interior_dims 1 + wt.d_num_wavelet_ghosts 1
  if wt.d_k = 2 then
    let start_index_k := -wt.d_num_wavelet_ghosts 2 + 1
    let end_index_k := interior_dims 2 + Gz - 1
    forRange start_index_j end_index_j (fun j =>
        forRange start_index_i end_index_i (fun i =>
          forRange start_index_k end_index_k (fun k out =>
            store2 out (lin3 gw dw i j k)
          (low_k2 f (lin3 gc dc i j (k - 1)) (lin3 gc dc i j (k + 1)))
          (high_k2 f (lin3 gc dc i j (k - 1)) (lin3 gc dc i j k) (lin3 gc dc i j (k + 1)))))) out
  else
    let start_index_k := -wt.d_num_wavelet_ghosts 2 + 2
    let end_index_k := interior_dims 2 + Gz - 2
    forRange start_index_j end_index_j (fun j =>
        forRange start_index_i end_index_i (fun i =>
          forRange start_index_k end_index_k (fun k out =>
            store2 out (lin3 gw dw i j k)
          (low_k4 f (lin3 gc dc i j (k - 2)) (lin3 gc dc i j (k - 1)) (lin3 gc dc i j (k + 1)) (lin3 gc dc i j (k + 2)))
          (high_k4 f (lin3 gc dc i j (k - 2)) (lin3 gc dc i j (k - 1)) (lin3 gc dc i j k) (lin3 gc dc i j (k + 1)) (lin3 gc dc i j (k + 2)))))) out

/-- Samples of the 2-D buffer `f` on the grid line `j`: the cells `(i, j)` of the
ghost box in the order of `i`, as a 1-D buffer with ghost width `gc 0`. -/
def lineField (N gc : IntVector) (f : Arr) (j : Int) : Arr :=
  (range (-gc 0) (N 0 + gc 0)).map
    (fun i => valAt f (lin2 gc (fun d => N d + 2 * gc d) i j))

/-- The 1-D cell data that holds the grid line `j` of the 2-D buffer `f`, with
the ghost width of `cd`. -/
def lineCell (N : IntVector) (cd : CellData) (f : Arr) (j : Int) : CellData :=
  { ghosts := cd.ghosts, data := [lineField N cd.ghosts f j] }

/-- The step of the end-to-end example raised by the constant 3 at every cell. -/
def exStepUp : Arr := exStep.map (fun v => v + 3)

/-- The 2-D field of the two columns with every sample negated. -/
def exBumpsNeg : Arr := exBumps.map (fun v => -v)

/-! ## The cascade without windows -/

/-- Input of level `li` of the cascade recursion on an unbounded line of samples
`src`, with no window restriction: the samples themselves at level 0, the
scaling values of level `li - 1` otherwise. -/
def cascadeIn (k : Int) (src : Int → ℚ) : Nat → Int → ℚ
  | 0 => src
  | li + 1 => fun i => lowVal k (cascadeIn k src li) (2 ^ li) i

/-- Scaling value of level `li` of the cascade recursion without windows. -/
def cascadeLow (k : Int) (src : Int → ℚ) (li : Nat) (i : Int) : ℚ :=
  lowVal k (cascadeIn k src li) (2 ^ li) i

/-- Signed wavelet value of level `li` of the cascade recursion without windows. -/
def cascadeHigh (k : Int) (src : Int → ℚ) (li : Nat) (i : Int) : ℚ :=
  highVal k (cascadeIn k src li) (2 ^ li) i

/-! ## Cells computed from computed values only -/

/-- Cells of level `li` of the pass along one axis whose scaling and wavelet
values are computed from computed values only, when the windows are laid out
from the ghost width `G` on `M` interior cells with stencil half-width `p`: the
cell lies in the loop range `[-G + p*2^li, M + G - p*2^li)` of the level and,
for `li >= 1`, every cell `i + m*2^li`, `m = -p, ..., p`, of level `li - 1`
that the loop body reads is such a cell.  Level 0 reads the input field, which
is allocated on all of `[-G, M + G)`. -/
def cleanCell (p G M : Int) : Nat → Int → Bool
  | 0, i => decide (-G + p * 2 ^ 0 ≤ i ∧ i < M + G - p * 2 ^ 0)
  | li + 1, i =>
    decide (-G + p * 2 ^ (li + 1) ≤ i ∧ i < M + G - p * 2 ^ (li + 1)) &&
      (range (-p) (p + 1)).all (fun m => cleanCell p G M li (i + m * 2 ^ (li + 1)))

/-- Engine of the 1-D example (`k = 2`, two levels) with the ghost width reduced
by one cell: windows laid out from `G - 1 = 6` instead of `G = 7`. -/
def exEngineNarrow : WaveletTransformHarten :=
  { exEngine 1 2 with
    d_num_wavelet_ghosts := fun d => (exEngine 1 2).d_num_wavelet_ghosts d - 1 }

/-! ## Binary64 arithmetic of the source

The fields of the source are `double`.  The transform above is stated in exact
rationals; the definitions of this section evaluate single expressions of the
source in IEEE-754 binary64 (round to nearest, ties to even), with overflow to
infinity and NaN, so that the effect of rounding can be exhibited. -/

/-- Value of a `double`: a finite value `m * 2^e` (the sign of zero is not
tracked), an infinity with its sign, or NaN. -/
inductive F64
  | fin (m : Int) (e : Int)
  | inf (neg : Bool)
  | nan
  deriving DecidableEq

/-- Position of the leading bit of `n`, that is `floor (log2 n)` for `n >= 1`;
the first argument bounds the number of halvings. -/
def F64.ilog2 : Nat → Nat → Nat
  | 0, _ => 0
  | fuel + 1, n => if n < 2 then 0 else F64.ilog2 fuel (n / 2) + 1

/-- Nearest `double` to the exact value `m * 2^e`, ties to even: 53 significant
bits, last place at least `2^-1074`, infinity from `2^1024 - 2^970` on. -/
def F64.round (m e : Int) : F64 :=
  if m = 0 then F64.fin 0 0
  else
    let n := m.natAbs
    let q : Int := max ((F64.ilog2 n n : Int) + e - 52) (-1074)
    let r : Nat :=
      if q ≤ e then n * 2 ^ (e - q).toNat
      else
        let s := (q - e).toNat
        let hi := n / 2 ^ s
        let lo := n % 2 ^ s
        let half := 2 ^ (s - 1)
        if half < lo ∨ (lo = half ∧ hi % 2 = 1) then hi + 1 else hi
    if r = 0 then F64.fin 0 0
    else if 1024 ≤ (F64.ilog2 r r : Int) + q then F64.inf (decide (m < 0))
    else F64.fin (if m < 0 then -(r : Int) else (r : Int)) q

/-- Conversion of an integer constant or `int` value to `double`. -/
def F64.ofInt (n : Int) : F64 := F64.round n 0

/-- Unary minus. -/
def F64.neg : F64 → F64
  | F64.fin m e => F64.fin (-m) e
  | F64.inf b => F64.inf (!b)
  | F64.nan => F64.nan

/-- Operator `+` on `double`. -/
def F64.add : F64 → F64 → F64
  | F64.nan, _ => F64.nan
  | _, F64.nan => F64.nan
  | F64.inf a, F64.inf b => if a = b then F64.inf a else F64.nan
  | F64.inf a, F64.fin _ _ => F64.inf a
  | F64.fin _ _, F64.inf b => F64.inf b
  | F64.fin m1 e1, F64.fin m2 e2 =>
    let e0 := min e1 e2
    F64.round (m1 * 2 ^ (e1 - e0).toNat + m2 * 2 ^ (e2 - e0).toNat) e0

/-- Operator `-` on `double`. -/
def F64.sub (a b : F64) : F64 := F64.add a (F64.neg b)

/-- Operator `*` on `double`. -/
def F64.mul : F64 → F64 → F64
  | F64.nan, _ => F64.nan
  | _, F64.nan => F64.nan
  | F64.inf a, F64.inf b => F64.inf (a != b)
  | F64.inf a, F64.fin m _ => if m = 0 then F64.nan else F64.inf (a != decide (m < 0))
  | F64.fin m _, F64.inf b => if m = 0 then F64.nan else F64.inf (b != decide (m < 0))
  | F64.fin m1 e1, F64.fin m2 e2 => F64.round (m1 * m2) (e1 + e2)

/-- Operator `/` on `double`.  The quotient of the magnitudes is taken with 64
bits beyond the divisor and one sticky bit, then rounded. -/
def F64.div : F64 → F64 → F64
  | F64.nan, _ => F64.nan
  | _, F64.nan => F64.nan
  | F64.inf _, F64.inf _ => F64.nan
  | F64.inf a, F64.fin m _ => F64.inf (a != decide (m < 0))
  | F64.fin _ _, F64.inf _ => F64.fin 0 0
  | F64.fin m1 e1, F64.fin m2 e2 =>
    if m2 = 0 then (if m1 = 0 then F64.nan else F64.inf (decide (m1 < 0)))
    else
      let k := 64 + F64.ilog2 m2.natAbs m2.natAbs + 1
      let num := m1.natAbs * 2 ^ k
      let quo := num / m2.natAbs
      let sticky : Nat := if num % m2.natAbs = 0 then 0 else 1
      let mag : Int := ((2 * quo + sticky : Nat) : Int)
      F64.round (if decide (m1 < 0) != decide (m2 < 0) then -mag else mag) (e1 - e2 - k - 1)

/-- Function `fabs`. -/
def F64.abs : F64 → F64
  | F64.fin m e => F64.fin |m| e
  | F64.inf _ => F64.inf false
  | F64.nan => F64.nan

/-- Largest `r` with `r*r <= n`, found bit by bit from `2^i` down. -/
def F64.isqrt (n : Nat) : Nat → Nat → Nat
  | 0, r => if (r + 1) * (r + 1) ≤ n then r + 1 else r
  | i + 1, r => F64.isqrt n i (if (r + 2 ^ (i + 1)) * (r + 2 ^ (i + 1)) ≤ n then r + 2 ^ (i + 1) else r)

/-- Function `sqrt` on `double`, correctly rounded: the integer square root of
the magnitude scaled to at least 128 bits, one sticky bit, then rounded. -/
def F64.sqrt : F64 → F64
  | F64.nan => F64.nan
  | F64.inf b => if b then F64.nan else F64.inf false
  | F64.fin m e =>
    if m < 0 then F64.nan
    else if m = 0 then F64.fin 0 0
    else
      let s : Nat := 128 + (if e % 2 = 0 then 0 else 1)
      let n := m.natAbs * 2 ^ s
      let r := F64.isqrt n (F64.ilog2 n n / 2) 0
      let sticky : Nat := if r * r = n then 0 else 1
      F64.round ((2 * r + sticky : Nat) : Int) ((e - s) / 2 - 1)

/-- Comparison `a <= b` on `double`; false when either side is NaN. -/
def F64.le : F64 → F64 → Bool
  | F64.nan, _ => false
  | _, F64.nan => false
  | F64.inf a, F64.inf b => a || !b
  | F64.inf a, F64.fin _ _ => a
  | F64.fin _ _, F64.inf b => !b
  | F64.fin m1 e1, F64.fin m2 e2 =>
    decide (m1 * 2 ^ (e1 - min e1 e2).toNat ≤ m2 * 2 ^ (e2 - min e1 e2).toNat)

/-- Comparison `a == b` on `double`; false when either side is NaN. -/
def F64.eq : F64 → F64 → Bool
  | F64.nan, _ => false
  | _, F64.nan => false
  | F64.inf a, F64.inf b => a == b
  | F64.inf _, F64.fin _ _ => false
  | F64.fin _ _, F64.inf _ => false
  | F64.fin m1 e1, F64.fin m2 e2 =>
    decide (m1 * 2 ^ (e1 - min e1 e2).toNat = m2 * 2 ^ (e2 - min e1 e2).toNat)

/-- Expression `0.5*(fL + fR)` in binary64 (lines 237, 530, 572). -/
def low_k2_f64 (fL fR : F64) : F64 :=
  F64.mul (F64.fin 1 (-1)) (F64.add fL fR)

/-- Expression `-0.5*(fL - 2*fC + fR)` in binary64, in the order of the source
(lines 238, 531, 573). -/
def high_k2_f64 (fL fC fR : F64) : F64 :=
  F64.mul (F64.neg (F64.fin 1 (-1))) (F64.add (F64.sub fL (F64.mul (F64.ofInt 2) fC)) fR)

/-- Expression `1.0/6.0*(-fLL + 4*fL + 4*fR - fRR)` in binary64, in the order of
the source (lines 293, 661, 709). -/
def low_k4_f64 (fLL fL fR fRR : F64) : F64 :=
  F64.mul (F64.div (F64.ofInt 1) (F64.ofInt 6))
    (F64.sub (F64.add (F64.add (F64.neg fLL) (F64.mul (F64.ofInt 4) fL))
      (F64.mul (F64.ofInt 4) fR)) fRR)

/-- Expression `1.0/6.0*(fLL - 4*fL + 6*fC - 4*fR + fRR)` in binary64, in the
order of the source (line 294 inside `fabs`, and the per-axis values of 2-D and
3-D). -/
def high_k4_f64 (fLL fL fC fR fRR : F64) : F64 :=
  F64.mul (F64.div (F64.ofInt 1) (F64.ofInt 6))
    (F64.add (F64.sub (F64.add (F64.sub fLL (F64.mul (F64.ofInt 4) fL))
      (F64.mul (F64.ofInt 6) fC)) (F64.mul (F64.ofInt 4) fR)) fRR)

/-- Expression `sqrt(wx*wx + wy*wy)` in binary64 (line 1030). -/
def mag2_f64 (wx wy : F64) : F64 :=
  F64.sqrt (F64.add (F64.mul wx wx) (F64.mul wy wy))

/-- Smoothing of a cell with both neighbours along the axis in binary64 (lines
2160-2177): `f_smoothed = f[idx]`, then `+=` the lower and the upper neighbour,
then division by `count = 3`. -/
def smooth3_f64 (fC fL fR : F64) : F64 :=
  F64.div (F64.add (F64.add fC fL) fR) (F64.ofInt 3)

/-- The `double` nearest to `0.1`. -/
def exTenth : F64 := F64.div (F64.ofInt 1) (F64.ofInt 10)

/-- The `double` nearest to `1e308`, a finite value. -/
def exHuge : F64 := F64.ofInt (10 ^ 308)

/-- The `double` nearest to `1e200`, a finite value. -/
def exBig : F64 := F64.ofInt (10 ^ 200)

/-! # Theorems -/


/-! ## Buffers -/

theorem rd_of_bounds {a : Arr} {i : Int} (h0 : 0 ≤ i) (h1 : i < a.length) :
    rd a i = some (valAt a i) := by
  have h2 : i.toNat < a.length := by omega
  simp [rd, valAt, h0, List.getD_eq_getElem?_getD, List.getElem?_eq_getElem h2]

theorem valAt_of_rd {a : Arr} {i : Int} {v : ℚ} (h : rd a i = some v) : valAt a i = v := by
  unfold rd at h
  split at h
  · rename_i h0
    simp [valAt, h0, List.getD_eq_getElem?_getD, h]
  · simp at h

theorem rd_some_bounds {a : Arr} {i : Int} {v : ℚ} (h : rd a i = some v) :
    0 ≤ i ∧ i < a.length := by
  unfold rd at h
  split at h
  · rename_i h0
    have := List.getElem?_eq_some_iff.1 h
    obtain ⟨h2, _⟩ := this
    omega
  · simp at h

theorem wr_of_bounds {a : Arr} {i : Int} (v : ℚ) (h0 : 0 ≤ i) (h1 : i < a.length) :
    wr a i v = some (a.set i.toNat v) := by
  have h2 : i.toNat < a.length := by omega
  simp [wr, h0, h2]

theorem wr_some {a a' : Arr} {i : Int} {v : ℚ} (h : wr a i v = some a') :
    0 ≤ i ∧ i < a.length ∧ a' = a.set i.toNat v := by
  unfold wr at h
  split at h
  · rename_i hc
    simp at h
    refine ⟨hc.1, by omega, h.symm⟩
  · simp at h

theorem rd_set_self {a : Arr} {i : Int} (v : ℚ) (h0 : 0 ≤ i) (h1 : i < a.length) :
    rd (a.set i.toNat v) i = some v := by
  have h2 : i.toNat < a.length := by omega
  simp [rd, h0, h2]

theorem rd_set_ne {a : Arr} {i n : Int} (v : ℚ) (h0 : 0 ≤ i) (hne : i ≠ n) :
    rd (a.set i.toNat v) n = rd a n := by
  unfold rd
  split
  · rename_i hn
    have : i.toNat ≠ n.toNat := by omega
    simp [List.getElem?_set_ne this]
  · rfl

theorem mem_range {lo hi i : Int} : i ∈ range lo hi ↔ lo ≤ i ∧ i < hi := by
  simp only [range, List.mem_map, List.mem_range]
  constructor
  · rintro ⟨n, hn, rfl⟩
    omega
  · rintro ⟨h1, h2⟩
    refine ⟨(i - lo).toNat, by omega, ?_⟩
    omega

theorem mem_natRange {lo hi i : Nat} : i ∈ natRange lo hi ↔ lo ≤ i ∧ i < hi := by
  simp only [natRange, List.mem_map, List.mem_range]
  constructor
  · rintro ⟨n, hn, rfl⟩
    omega
  · rintro ⟨h1, h2⟩
    refine ⟨i - lo, by omega, ?_⟩
    omega

/-! ## Loop nests -/

theorem Written.nil {C : Type} (ix : C → Int) (v : C → ℚ) (a : Arr) :
    Written ([] : List C) ix v a a :=
  ⟨rfl, fun _ _ => rfl, fun c hc => by simp at hc⟩

theorem Written.cons {C : Type} {c : C} {cs : List C} {ix : C → Int} {v : C → ℚ}
    {a a' : Arr} (h0 : 0 ≤ ix c) (h1 : ix c < a.length)
    (h : Written cs ix v (a.set (ix c).toNat (v c)) a') : Written (c :: cs) ix v a a' := by
  obtain ⟨hlen, hframe, hval⟩ := h
  refine ⟨by simpa using hlen, ?_, ?_⟩
  · intro n hn
    rw [hframe n (fun c' hc' => hn c' (List.mem_cons_of_mem _ hc'))]
    exact rd_set_ne _ h0 (hn c (List.mem_cons_self _ _))
  · intro c0 hc0 huniq
    by_cases hex : ∃ c' ∈ cs, ix c' = ix c0
    · obtain ⟨c', hc', hix⟩ := hex
      have hv : v c' = v c0 := huniq c' (List.mem_cons_of_mem _ hc') hix
      have := hval c' hc' (fun c'' hc'' h'' => by
        rw [hv]
        exact huniq c'' (List.mem_cons_of_mem _ hc'') (h''.trans hix))
      rw [← hix, ← hv]
      exact this
    · have hne : ∀ c' ∈ cs, ix c' ≠ ix c0 := fun c' hc' h' => hex ⟨c', hc', h'⟩
      have hc : c0 = c := by
        rcases List.mem_cons.1 hc0 with h | h
        · exact h
        · exact absurd rfl (hne c0 h)
      subst hc
      rw [hframe _ hne]
      exact rd_set_self _ h0 h1

theorem foldlM_assign {C : Type} (cs : List C) (ix : C → Int) (v : C → ℚ)
    (body : C → Arr → Option Arr) (a : Arr)
    (hb : ∀ c ∈ cs, 0 ≤ ix c ∧ ix c < a.length)
    (hbody : ∀ c ∈ cs, ∀ o : Arr, o.length = a.length → body c o = wr o (ix c) (v c)) :
    ∃ a', cs.foldlM (fun o c => body c o) a = some a' ∧ Written cs ix v a a' := by
  induction cs generalizing a with
  | nil => exact ⟨a, rfl, Written.nil ix v a⟩
  | cons c cs ih =>
    obtain ⟨h0, h1⟩ := hb c (List.mem_cons_self _ _)
    have hlen : (a.set (ix c).toNat (v c)).length = a.length := by simp
    obtain ⟨a', ha', hw⟩ := ih (a.set (ix c).toNat (v c))
      (fun c' hc' => by rw [hlen]; exact hb c' (List.mem_cons_of_mem _ hc'))
      (fun c' hc' o ho => hbody c' (List.mem_cons_of_mem _ hc') o (ho.trans hlen))
    refine ⟨a', ?_, Written.cons h0 h1 hw⟩
    rw [List.foldlM_cons, hbody c (List.mem_cons_self _ _) a rfl, wr_of_bounds _ h0 h1]
    exact ha'

theorem store2_some (o : Arr × Arr) (idx : Int) (v1 v2 : ℚ) (h0 : 0 ≤ idx)
    (h1 : idx < o.1.length) (h2 : idx < o.2.length) :
    store2 o idx (some v1) (some v2) = some (o.1.set idx.toNat v1, o.2.set idx.toNat v2) := by
  simp [store2, assign, wr_of_bounds _ h0 h1, wr_of_bounds _ h0 h2]

theorem foldlM_store2 {C : Type} (cs : List C) (ix : C → Int) (v1 v2 : C → ℚ)
    (body : C → Arr × Arr → Option (Arr × Arr)) (out : Arr × Arr)
    (hb : ∀ c ∈ cs, 0 ≤ ix c ∧ ix c < out.1.length ∧ ix c < out.2.length)
    (hbody : ∀ c ∈ cs, ∀ o : Arr × Arr, o.1.length = out.1.length → o.2.length = out.2.length →
      body c o = store2 o (ix c) (some (v1 c)) (some (v2 c))) :
    ∃ r, cs.foldlM (fun o c => body c o) out = some r ∧
      Written cs ix v1 out.1 r.1 ∧ Written cs ix v2 out.2 r.2 := by
  induction cs generalizing out with
  | nil => exact ⟨out, rfl, Written.nil ix v1 _, Written.nil ix v2 _⟩
  | cons c cs ih =>
    obtain ⟨h0, h1, h2⟩ := hb c (List.mem_cons_self _ _)
    obtain ⟨r, hr, hw1, hw2⟩ := ih (out.1.set (ix c).toNat (v1 c), out.2.set (ix c).toNat (v2 c))
      (fun c' hc' => by simpa using hb c' (List.mem_cons_of_mem _ hc'))
      (fun c' hc' o ho1 ho2 => hbody c' (List.mem_cons_of_mem _ hc') o
        (by simpa using ho1) (by simpa using ho2))
    refine ⟨r, ?_, Written.cons h0 h1 hw1, Written.cons h0 h2 hw2⟩
    rw [List.foldlM_cons, hbody c (List.mem_cons_self _ _) out rfl rfl, store2_some _ _ _ _ h0 h1 h2]
    exact hr

theorem foldlM_flatMap {α β σ : Type} (l : List α) (g : α → List β) (f : σ → β → Option σ)
    (s : σ) : (l.flatMap g).foldlM f s = l.foldlM (fun s a => (g a).foldlM f s) s := by
  induction l generalizing s with
  | nil => rfl
  | cons a l ih =>
    rw [List.flatMap_cons, List.foldlM_append, List.foldlM_cons]
    cases h : List.foldlM f s (g a) with
    | none => rfl
    | some s' => exact ih s'

theorem foldlM_map_opt {α β σ : Type} (l : List α) (g : α → β) (f : σ → β → Option σ)
    (s : σ) : (l.map g).foldlM f s = l.foldlM (fun s a => f s (g a)) s := by
  induction l generalizing s with
  | nil => rfl
  | cons a l ih =>
    rw [List.map_cons, List.foldlM_cons, List.foldlM_cons]
    cases h : f s (g a) with
    | none => rfl
    | some s' => exact ih s'

theorem nest2_eq {σ : Type} (a b c d : Int) (body : Int → Int → σ → Option σ) (s : σ) :
    forRange a b (fun x => forRange c d (fun y => body x y)) s =
      (cells2 a b c d).foldlM (fun s p => body p.1 p.2 s) s := by
  unfold forRange cells2
  rw [foldlM_flatMap]
  congr 1
  funext s x
  rw [foldlM_map_opt]

theorem nest3_eq {σ : Type} (a b c d e f : Int) (body : Int → Int → Int → σ → Option σ)
    (s : σ) :
    forRange a b (fun x => forRange c d (fun y => forRange e f (fun z => body x y z))) s =
      (cells3 a b c d e f).foldlM (fun s p => body p.1 p.2.1 p.2.2 s) s := by
  unfold forRange cells3
  rw [foldlM_flatMap]
  congr 1
  funext s x
  dsimp only
  rw [foldlM_flatMap]
  congr 1
  funext s y
  rw [foldlM_map_opt]

theorem mem_cells2 {a b c d : Int} {p : Int × Int} :
    p ∈ cells2 a b c d ↔ (a ≤ p.1 ∧ p.1 < b) ∧ (c ≤ p.2 ∧ p.2 < d) := by
  obtain ⟨x, y⟩ := p
  simp only [cells2, List.mem_flatMap, List.mem_map, mem_range, Prod.mk.injEq]
  constructor
  · rintro ⟨x', hx, y', hy, rfl, rfl⟩
    exact ⟨hx, hy⟩
  · rintro ⟨hx, hy⟩
    exact ⟨x, hx, y, hy, rfl, rfl⟩

theorem mem_cells3 {a b c d e f : Int} {p : Int × Int × Int} :
    p ∈ cells3 a b c d e f ↔
      (a ≤ p.1 ∧ p.1 < b) ∧ (c ≤ p.2.1 ∧ p.2.1 < d) ∧ (e ≤ p.2.2 ∧ p.2.2 < f) := by
  obtain ⟨x, y, z⟩ := p
  simp only [cells3, List.mem_flatMap, List.mem_map, mem_range, Prod.mk.injEq]
  constructor
  · rintro ⟨x', hx, y', hy, z', hz, rfl, rfl, rfl⟩
    exact ⟨hx, hy, hz⟩
  · rintro ⟨hx, hy, hz⟩
    exact ⟨x, hx, y, hy, z, hz, rfl, rfl, rfl⟩

/-! ### Counted loops whose body is a store -/

theorem loop1_store2 (lo hi : Int) (ix : Int → Int) (e1 e2 : Int → Option ℚ)
    (v1 v2 : Int → ℚ) (out : Arr × Arr)
    (h : ∀ i, lo ≤ i → i < hi →
      (0 ≤ ix i ∧ ix i < out.1.length ∧ ix i < out.2.length) ∧
        e1 i = some (v1 i) ∧ e2 i = some (v2 i)) :
    ∃ r, forRange lo hi (fun i o => store2 o (ix i) (e1 i) (e2 i)) out = some r ∧
      Written (range lo hi) ix v1 out.1 r.1 ∧ Written (range lo hi) ix v2 out.2 r.2 := by
  unfold forRange
  refine foldlM_store2 (range lo hi) ix v1 v2 _ out
    (fun c hc => (h c (mem_range.1 hc).1 (mem_range.1 hc).2).1) (fun c hc o _ _ => ?_)
  obtain ⟨_, h1, h2⟩ := h c (mem_range.1 hc).1 (mem_range.1 hc).2
  rw [h1, h2]

theorem loop1_assign (lo hi : Int) (ix : Int → Int) (e : Int → Option ℚ)
    (v : Int → ℚ) (a : Arr)
    (h : ∀ i, lo ≤ i → i < hi → (0 ≤ ix i ∧ ix i < a.length) ∧ e i = some (v i)) :
    ∃ r, forRange lo hi (fun i o => assign o (ix i) (e i)) a = some r ∧
      Written (range lo hi) ix v a r := by
  unfold forRange
  refine foldlM_assign (range lo hi) ix v _ a
    (fun c hc => (h c (mem_range.1 hc).1 (mem_range.1 hc).2).1) (fun c hc o _ => ?_)
  obtain ⟨_, h1⟩ := h c (mem_range.1 hc).1 (mem_range.1 hc).2
  rw [h1]
  rfl

theorem loop2_store2 (a b c d : Int) (ix : Int → Int → Int) (e1 e2 : Int → Int → Option ℚ)
    (v1 v2 : Int → Int → ℚ) (out : Arr × Arr)
    (h : ∀ x y, a ≤ x → x < b → c ≤ y → y < d →
      (0 ≤ ix x y ∧ ix x y < out.1.length ∧ ix x y < out.2.length) ∧
        e1 x y = some (v1 x y) ∧ e2 x y = some (v2 x y)) :
    ∃ r, forRange a b (fun x => forRange c d (fun y o =>
        store2 o (ix x y) (e1 x y) (e2 x y))) out = some r ∧
      Written (cells2 a b c d) (fun p => ix p.1 p.2) (fun p => v1 p.1 p.2) out.1 r.1 ∧
      Written (cells2 a b c d) (fun p => ix p.1 p.2) (fun p => v2 p.1 p.2) out.2 r.2 := by
  rw [nest2_eq a b c d (fun x y o => store2 o (ix x y) (e1 x y) (e2 x y))]
  have hm : ∀ p ∈ cells2 a b c d, _ := fun p hp =>
    h p.1 p.2 (mem_cells2.1 hp).1.1 (mem_cells2.1 hp).1.2 (mem_cells2.1 hp).2.1 (mem_cells2.1 hp).2.2
  refine foldlM_store2 (cells2 a b c d) (fun p => ix p.1 p.2) _ _ _ out
    (fun p hp => (hm p hp).1) (fun p hp o _ _ => ?_)
  obtain ⟨_, h1, h2⟩ := hm p hp
  rw [h1, h2]

theorem loop2_assign (a b c d : Int) (ix : Int → Int → Int) (e : Int → Int → Option ℚ)
    (v : Int → Int → ℚ) (arr : Arr)
    (h : ∀ x y, a ≤ x → x < b → c ≤ y → y < d →
      (0 ≤ ix x y ∧ ix x y < arr.length) ∧ e x y = some (v x y)) :
    ∃ r, forRange a b (fun x => forRange c d (fun y o => assign o (ix x y) (e x y))) arr = some r ∧
      Written (cells2 a b c d) (fun p => ix p.1 p.2) (fun p => v p.1 p.2) arr r := by
  rw [nest2_eq a b c d (fun x y o => assign o (ix x y) (e x y))]
  have hm : ∀ p ∈ cells2 a b c d, _ := fun p hp =>
    h p.1 p.2 (mem_cells2.1 hp).1.1 (mem_cells2.1 hp).1.2 (mem_cells2.1 hp).2.1 (mem_cells2.1 hp).2.2
  refine foldlM_assign (cells2 a b c d) (fun p => ix p.1 p.2) _ _ arr
    (fun p hp => (hm p hp).1) (fun p hp o _ => ?_)
  obtain ⟨_, h1⟩ := hm p hp
  rw [h1]
  rfl

theorem loop3_store2 (a b c d e f : Int) (ix : Int → Int → Int → Int)
    (e1 e2 : Int → Int → Int → Option ℚ) (v1 v2 : Int → Int → Int → ℚ) (out : Arr × Arr)
    (h : ∀ x y z, a ≤ x → x < b → c ≤ y → y < d → e ≤ z → z < f →
      (0 ≤ ix x y z ∧ ix x y z < out.1.length ∧ ix x y z < out.2.length) ∧
        e1 x y z = some (v1 x y z) ∧ e2 x y z = some (v2 x y z)) :
    ∃ r, forRange a b (fun x => forRange c d (fun y => forRange e f (fun z o =>
        store2 o (ix x y z) (e1 x y z) (e2 x y z)))) out = some r ∧
      Written (cells3 a b c d e f) (fun p => ix p.1 p.2.1 p.2.2)
        (fun p => v1 p.1 p.2.1 p.2.2) out.1 r.1 ∧
      Written (cells3 a b c d e f) (fun p => ix p.1 p.2.1 p.2.2)
        (fun p => v2 p.1 p.2.1 p.2.2) out.2 r.2 := by
  rw [nest3_eq a b c d e f (fun x y z o => store2 o (ix x y z) (e1 x y z) (e2 x y z))]
  have hm : ∀ p ∈ cells3 a b c d e f, _ := fun p hp =>
    h p.1 p.2.1 p.2.2 (mem_cells3.1 hp).1.1 (mem_cells3.1 hp).1.2 (mem_cells3.1 hp).2.1.1
      (mem_cells3.1 hp).2.1.2 (mem_cells3.1 hp).2.2.1 (mem_cells3.1 hp).2.2.2
  refine foldlM_store2 (cells3 a b c d e f) (fun p => ix p.1 p.2.1 p.2.2) _ _ _ out
    (fun p hp => (hm p hp).1) (fun p hp o _ _ => ?_)
  obtain ⟨_, h1, h2⟩ := hm p hp
  rw [h1, h2]

theorem loop3_assign (a b c d e f : Int) (ix : Int → Int → Int → Int)
    (ex : Int → Int → Int → Option ℚ) (v : Int → Int → Int → ℚ) (arr : Arr)
    (h : ∀ x y z, a ≤ x → x < b → c ≤ y → y < d → e ≤ z → z < f →
      (0 ≤ ix x y z ∧ ix x y z < arr.length) ∧ ex x y z = some (v x y z)) :
    ∃ r, forRange a b (fun x => forRange c d (fun y => forRange e f (fun z o =>
        assign o (ix x y z) (ex x y z)))) arr = some r ∧
      Written (cells3 a b c d e f) (fun p => ix p.1 p.2.1 p.2.2)
        (fun p => v p.1 p.2.1 p.2.2) arr r := by
  rw [nest3_eq a b c d e f (fun x y z o => assign o (ix x y z) (ex x y z))]
  have hm : ∀ p ∈ cells3 a b c d e f, _ := fun p hp =>
    h p.1 p.2.1 p.2.2 (mem_cells3.1 hp).1.1 (mem_cells3.1 hp).1.2 (mem_cells3.1 hp).2.1.1
      (mem_cells3.1 hp).2.1.2 (mem_cells3.1 hp).2.2.1 (mem_cells3.1 hp).2.2.2
  refine foldlM_assign (cells3 a b c d e f) (fun p => ix p.1 p.2.1 p.2.2) _ _ arr
    (fun p hp => (hm p hp).1) (fun p hp o _ => ?_)
  obtain ⟨_, h1⟩ := hm p hp
  rw [h1]
  rfl

/-! ## Construction -/

theorem natRange_zero (n : Nat) : natRange 0 n = List.range n := by
  simp [natRange]

theorem ghost_loop (c : Int) (n : Nat) :
    (natRange 0 n).foldl (fun acc li => acc + c * 2 ^ li) 0 = c * (2 ^ n - 1) := by
  rw [natRange_zero]
  induction n with
  | zero => simp
  | succ n ih =>
    rw [List.range_succ, List.foldl_append, ih]
    simp only [List.foldl_cons, List.foldl_nil]
    ring

theorem ghost_sum (c : Int) (n : Nat) :
    (∑ li in Finset.range n, c * 2 ^ li) = c * (2 ^ n - 1) := by
  induction n with
  | zero => simp
  | succ n ih =>
    rw [Finset.sum_range_succ, ih]
    ring

/-- Data members of an engine the constructor built. -/
theorem new_ok {dim : Nat} {L k : Int} {wt : WaveletTransformHarten}
    (h : WaveletTransformHarten.new dim L k = Except.ok wt) :
    (k = 2 ∨ k = 4) ∧ 2 ≤ L ∧ wt.d_dim = dim ∧ wt.d_num_level = L.toNat ∧ wt.d_k = k ∧
      wt.d_p = halfWidth k ∧ wt.d_q = halfWidth k ∧
      ∀ d, wt.d_num_wavelet_ghosts d = halfWidth k * (2 ^ (L.toNat + 1) - 1) := by
  unfold WaveletTransformHarten.new at h
  by_cases h2 : k = 2
  · subst h2
    by_cases hL : L < 2
    · simp [hL] at h
    · simp only [hL, if_true, if_false] at h
      injection h with h
      subst h
      refine ⟨Or.inl rfl, by omega, rfl, rfl, rfl, rfl, rfl, fun d => ?_⟩
      simp only [ghost_loop, halfWidth, if_true, max_self]
      ring
  · by_cases h4 : k = 4
    · subst h4
      by_cases hL : L < 2
      · simp [hL] at h
      · simp only [hL, if_true, if_false] at h
        injection h with h
        subst h
        refine ⟨Or.inr rfl, by omega, rfl, rfl, rfl, rfl, rfl, fun d => ?_⟩
        simp only [ghost_loop, halfWidth, max_self]
        norm_num
        ring
    · simp [h2, h4] at h

theorem new_of_valid (dim : Nat) {L k : Int} (hL : 2 ≤ L) (hk : k = 2 ∨ k = 4) :
    ∃ wt, WaveletTransformHarten.new dim L k = Except.ok wt := by
  have hL2 : ¬ L < 2 := by omega
  cases h : WaveletTransformHarten.new dim L k with
  | ok wt => exact ⟨wt, rfl⟩
  | error e =>
    exfalso
    rcases hk with rfl | rfl
    · simp [WaveletTransformHarten.new, hL2] at h
    · simp [WaveletTransformHarten.new, hL2] at h

theorem toInt32_of_range {x : Int} (h1 : -2 ^ 31 ≤ x) (h2 : x < 2 ^ 31) : toInt32 x = some x := by
  unfold toInt32
  rw [if_pos ⟨h1, h2⟩]

theorem toInt32_some {x v : Int} (h : toInt32 x = some v) : v = x ∧ -2 ^ 31 ≤ x ∧ x < 2 ^ 31 := by
  unfold toInt32 at h
  split at h
  · rename_i hr
    exact ⟨(Option.some.inj h).symm, hr.1, hr.2⟩
  · cases h

/-- The `int` accumulation of the constructor, for equal half-widths `c >= 0`:
as long as the total `c*(2^(L+1) - 1)` is below `2^31` every partial sum fits
and the result is the total. -/
theorem numWaveletGhostsInt_fit (c : Int) (hc : 0 ≤ c) (L : Int)
    (h : c * (2 ^ (L.toNat + 1) - 1) < 2 ^ 31) :
    numWaveletGhostsInt c c L = some (c * (2 ^ (L.toNat + 1) - 1)) := by
  have hloop : ∀ n : Nat, n ≤ L.toNat →
      (natRange 0 n).foldlM (fun acc li => toInt32 (acc + max c c * 2 ^ li)) (0 : Int)
        = some (c * (2 ^ n - 1)) := by
    intro n
    induction n with
    | zero => intro _; simp [natRange]
    | succ n ih =>
      intro hn
      rw [natRange_zero] at ih ⊢
      rw [List.range_succ, List.foldlM_append, ih (by omega)]
      simp only [Option.some_bind, Option.bind_eq_bind, List.foldlM_cons, List.foldlM_nil,
        max_self, Option.pure_def, Option.bind_some]
      have e1 : c * (2 ^ n - 1) + c * 2 ^ n = c * (2 ^ (n + 1) - 1) := by ring
      rw [e1]
      have h1 : (2 : Int) ^ (n + 1) ≤ 2 ^ (L.toNat + 1) :=
        pow_le_pow_right₀ (by norm_num) (by omega)
      have h2 : c * (2 ^ (n + 1) - 1) ≤ c * (2 ^ (L.toNat + 1) - 1) :=
        mul_le_mul_of_nonneg_left (by omega) hc
      have h3 : (1 : Int) ≤ 2 ^ (n + 1) := one_le_pow₀ (by norm_num)
      have h4 : 0 ≤ c * (2 ^ (n + 1) - 1) := mul_nonneg hc (by omega)
      exact toInt32_of_range (by omega) (by omega)
  unfold numWaveletGhostsInt
  rw [hloop L.toNat (le_refl _)]
  simp only [Option.some_bind, Option.bind_eq_bind, max_self]
  have e1 : c * (2 ^ L.toNat - 1) + c * 2 ^ L.toNat = c * (2 ^ (L.toNat + 1) - 1) := by ring
  rw [e1]
  have h3 : (1 : Int) ≤ 2 ^ (L.toNat + 1) := one_le_pow₀ (by norm_num)
  have h4 : 0 ≤ c * (2 ^ (L.toNat + 1) - 1) := mul_nonneg hc (by omega)
  exact toInt32_of_range (by omega) h

/-- Levels for which the ghost width fits a 32-bit `int`: `L <= 30` for `k = 2`
and `L <= 29` for `k = 4`. -/
theorem ghost_fits {L k : Int} (hL : 2 ≤ L) (hk : k = 2 ∨ k = 4)
    (hfit : (k = 2 → L ≤ 30) ∧ (k = 4 → L ≤ 29)) :
    halfWidth k * (2 ^ (L.toNat + 1) - 1) < 2 ^ 31 := by
  rcases hk with rfl | rfl
  · have h := hfit.1 rfl
    have e : (2 : Int) ^ (L.toNat + 1) ≤ 2 ^ 31 := pow_le_pow_right₀ (by norm_num) (by omega)
    show 1 * (2 ^ (L.toNat + 1) - 1) < 2 ^ 31
    omega
  · have h := hfit.2 rfl
    have e : (2 : Int) ^ (L.toNat + 1) ≤ 2 ^ 30 := pow_le_pow_right₀ (by norm_num) (by omega)
    show 2 * (2 ^ (L.toNat + 1) - 1) < 2 ^ 31
    omega

/-- C1 (as stated, false): for `k = 2` and `L = 31` the claimed width
`1*(2^32 - 1) = 4294967295` exceeds the largest `int`, `2^31 - 1`: no value an
`int` can hold equals it, and the `int` accumulation of the constructor has no
defined result (its last `+=` converts `2^32 - 1` to `int`).  The same holds for
`k = 4` and `L = 30`, where the claimed width is `2*(2^31 - 1)`.  For `k = 2` and
`L = 30` the width is `2^31 - 1` and still fits. -/
theorem C1_int_accumulator_overflows :
    halfWidth 2 * (2 ^ (31 + 1) - 1) = 4294967295 ∧
    (∀ v : Int, toInt32 v = some v → v ≠ halfWidth 2 * (2 ^ (31 + 1) - 1)) ∧
    numWaveletGhostsInt 1 1 31 = none ∧
    (∀ v : Int, toInt32 v = some v → v ≠ halfWidth 4 * (2 ^ (30 + 1) - 1)) ∧
    numWaveletGhostsInt 2 2 30 = none ∧
    numWaveletGhostsInt 1 1 30 = some (2 ^ 31 - 1) := by
  refine ⟨by decide, fun v hv => ?_, by decide, fun v hv => ?_, by decide, by decide⟩
  · have h := (toInt32_some hv).2.2
    have e : halfWidth 2 * (2 ^ (31 + 1) - 1) = 4294967295 := by decide
    rw [e]
    norm_num at h
    omega
  · have h := (toInt32_some hv).2.2
    have e : halfWidth 4 * (2 ^ (30 + 1) - 1) = 4294967294 := by decide
    rw [e]
    norm_num at h
    omega

/-- C1 (amended): for every `L >= 2` and `k` in `{2, 4}` for which the width fits
a 32-bit `int` (`L <= 30` for `k = 2`, `L <= 29` for `k = 4`) the constructor
succeeds, the `int` accumulation of the source yields, and the constructor
stores on every axis, the ghost width
`G = Σ_{li<L} max(p,q)·2^li + max(p,q)·2^L`, which equals `p·(2^(L+1) - 1)` with
`p = 1` for `k = 2` and `p = 2` for `k = 4`; it is 7 for `k = 2, L = 2` and 14
for `k = 4, L = 2`. -/
theorem C1_required_ghost_width (dim : Nat) (L k : Int) (hL : 2 ≤ L) (hk : k = 2 ∨ k = 4)
    (hfit : (k = 2 → L ≤ 30) ∧ (k = 4 → L ≤ 29)) :
    ∃ wt, WaveletTransformHarten.new dim L k = Except.ok wt ∧
      wt.d_p = halfWidth k ∧ wt.d_q = halfWidth k ∧
      (∀ axis, numWaveletGhostsInt wt.d_p wt.d_q L = some (wt.d_num_wavelet_ghosts axis)) ∧
      (∀ axis, wt.d_num_wavelet_ghosts axis =
          (∑ li in Finset.range L.toNat, max wt.d_p wt.d_q * 2 ^ li)
            + max wt.d_p wt.d_q * 2 ^ L.toNat) ∧
      (∀ axis, wt.d_num_wavelet_ghosts axis = halfWidth k * (2 ^ (L.toNat + 1) - 1)) ∧
      (∀ axis, wt.d_num_wavelet_ghosts axis ≤ 2 ^ 31 - 1) ∧
      (∀ axis, (k = 2 ∧ L = 2 → wt.d_num_wavelet_ghosts axis = 7) ∧
        (k = 4 ∧ L = 2 → wt.d_num_wavelet_ghosts axis = 14)) := by
  obtain ⟨wt, hwt⟩ := new_of_valid dim hL hk
  obtain ⟨_, _, _, _, _, hp, hq, hG⟩ := new_ok hwt
  have hf := ghost_fits hL hk hfit
  have hh : (0 : Int) ≤ halfWidth k := by
    rcases hk with rfl | rfl <;> decide
  refine ⟨wt, hwt, hp, hq, fun axis => ?_, fun axis => ?_, hG, fun axis => ?_,
    fun axis => ⟨?_, ?_⟩⟩
  · rw [hp, hq, hG axis]
    exact numWaveletGhostsInt_fit (halfWidth k) hh L hf
  · rw [hG axis, hp, hq, max_self, ghost_sum]
    ring
  · rw [hG axis]
    omega
  · rintro ⟨rfl, rfl⟩
    rw [hG axis]
    decide
  · rintro ⟨rfl, rfl⟩
    rw [hG axis]
    decide

theorem C1_required_ghost_width_witness :
    (2 : Int) ≤ 2 ∧ ((2 : Int) = 2 ∨ (2 : Int) = 4) ∧
    (((2 : Int) = 2 → (2 : Int) ≤ 30) ∧ ((2 : Int) = 4 → (2 : Int) ≤ 29)) ∧
    ∃ wt, WaveletTransformHarten.new 1 2 2 = Except.ok wt ∧
      wt.d_p = halfWidth 2 ∧ wt.d_q = halfWidth 2 ∧
      (∀ axis, numWaveletGhostsInt wt.d_p wt.d_q 2 = some (wt.d_num_wavelet_ghosts axis)) ∧
      (∀ axis, wt.d_num_wavelet_ghosts axis =
          (∑ li in Finset.range (2 : Int).toNat, max wt.d_p wt.d_q * 2 ^ li)
            + max wt.d_p wt.d_q * 2 ^ (2 : Int).toNat) ∧
      (∀ axis, wt.d_num_wavelet_ghosts axis = halfWidth 2 * (2 ^ ((2 : Int).toNat + 1) - 1)) ∧
      (∀ axis, wt.d_num_wavelet_ghosts axis ≤ 2 ^ 31 - 1) ∧
      (∀ axis, ((2 : Int) = 2 ∧ (2 : Int) = 2 → wt.d_num_wavelet_ghosts axis = 7) ∧
        ((2 : Int) = 4 ∧ (2 : Int) = 2 → wt.d_num_wavelet_ghosts axis = 14)) :=
  ⟨by decide, by decide, by decide,
    C1_required_ghost_width 1 2 2 (by decide) (by decide) (by decide)⟩

/-- C2: construction stops with a fatal configuration error exactly when the
number of vanishing moments is neither 2 nor 4 or the number of levels is below
2; when it succeeds, `p = q = 1` for `k = 2` and `p = q = 2` for `k = 4`. -/
theorem C2_construction_fails_iff (dim : Nat) (L k : Int) :
    ((∃ e, WaveletTransformHarten.new dim L k = Except.error e ∧
        (e = Err.unsupportedVanishingMoments ∨ e = Err.tooFewLevels)) ↔
      (¬ (k = 2 ∨ k = 4) ∨ L < 2)) ∧
    ((∃ wt, WaveletTransformHarten.new dim L k = Except.ok wt) ↔ ((k = 2 ∨ k = 4) ∧ 2 ≤ L)) ∧
    (∀ wt, WaveletTransformHarten.new dim L k = Except.ok wt →
      (k = 2 → wt.d_p = 1 ∧ wt.d_q = 1) ∧ (k = 4 → wt.d_p = 2 ∧ wt.d_q = 2)) := by
  refine ⟨⟨?_, ?_⟩, ⟨?_, ?_⟩, ?_⟩
  · rintro ⟨e, he, _⟩
    by_contra hcon
    have hk : k = 2 ∨ k = 4 := by
      by_contra hk
      exact hcon (Or.inl hk)
    have hL : 2 ≤ L := by
      by_contra hL
      exact hcon (Or.inr (by omega))
    obtain ⟨wt, hwt⟩ := new_of_valid dim hL hk
    rw [hwt] at he
    cases he
  · intro h
    by_cases h2 : k = 2
    · have hL : L < 2 := by
        rcases h with h | h
        · exact absurd (Or.inl h2) h
        · exact h
      exact ⟨Err.tooFewLevels, by simp [WaveletTransformHarten.new, h2, hL], Or.inr rfl⟩
    · by_cases h4 : k = 4
      · have hL : L < 2 := by
          rcases h with h | h
          · exact absurd (Or.inr h4) h
          · exact h
        exact ⟨Err.tooFewLevels, by simp [WaveletTransformHarten.new, h4, hL], Or.inr rfl⟩
      · exact ⟨Err.unsupportedVanishingMoments, by simp [WaveletTransformHarten.new, h2, h4],
          Or.inl rfl⟩
  · rintro ⟨wt, hwt⟩
    exact ⟨(new_ok hwt).1, (new_ok hwt).2.1⟩
  · rintro ⟨hk, hL⟩
    exact new_of_valid dim hL hk
  · intro wt hwt
    obtain ⟨_, _, _, _, _, hp, hq, _⟩ := new_ok hwt
    refine ⟨?_, ?_⟩
    · rintro rfl
      exact ⟨hp, hq⟩
    · rintro rfl
      exact ⟨hp, hq⟩

/-! ## Right-hand sides -/

theorem low_k2_eq {src : Arr} {iL iR : Int} (hL : 0 ≤ iL ∧ iL < src.length)
    (hR : 0 ≤ iR ∧ iR < src.length) :
    low_k2 src iL iR = some (1 / 2 * (valAt src iL + valAt src iR)) := by
  simp [low_k2, rd_of_bounds hL.1 hL.2, rd_of_bounds hR.1 hR.2]

theorem high_k2_eq {src : Arr} {iL iC iR : Int} (hL : 0 ≤ iL ∧ iL < src.length)
    (hC : 0 ≤ iC ∧ iC < src.length) (hR : 0 ≤ iR ∧ iR < src.length) :
    high_k2 src iL iC iR = some (-(1 / 2) * (valAt src iL - 2 * valAt src iC + valAt src iR)) := by
  simp [high_k2, rd_of_bounds hL.1 hL.2, rd_of_bounds hC.1 hC.2, rd_of_bounds hR.1 hR.2]

theorem sum_k2_eq {src : Arr} {iL iC iR : Int} (hL : 0 ≤ iL ∧ iL < src.length)
    (hC : 0 ≤ iC ∧ iC < src.length) (hR : 0 ≤ iR ∧ iR < src.length) :
    sum_k2 src iL iC iR = some (valAt src iL + 2 * valAt src iC + valAt src iR) := by
  simp [sum_k2, rd_of_bounds hL.1 hL.2, rd_of_bounds hC.1 hC.2, rd_of_bounds hR.1 hR.2]

theorem low_k4_eq {src : Arr} {iLL iL iR iRR : Int} (hLL : 0 ≤ iLL ∧ iLL < src.length)
    (hL : 0 ≤ iL ∧ iL < src.length) (hR : 0 ≤ iR ∧ iR < src.length)
    (hRR : 0 ≤ iRR ∧ iRR < src.length) :
    low_k4 src iLL iL iR iRR =
      some (1 / 6 * (-valAt src iLL + 4 * valAt src iL + 4 * valAt src iR - valAt src iRR)) := by
  simp [low_k4, rd_of_bounds hLL.1 hLL.2, rd_of_bounds hL.1 hL.2, rd_of_bounds hR.1 hR.2,
    rd_of_bounds hRR.1 hRR.2]

theorem high_k4_eq {src : Arr} {iLL iL iC iR iRR : Int} (hLL : 0 ≤ iLL ∧ iLL < src.length)
    (hL : 0 ≤ iL ∧ iL < src.length) (hC : 0 ≤ iC ∧ iC < src.length)
    (hR : 0 ≤ iR ∧ iR < src.length) (hRR : 0 ≤ iRR ∧ iRR < src.length) :
    high_k4 src iLL iL iC iR iRR =
      some (1 / 6 * (valAt src iLL - 4 * valAt src iL + 6 * valAt src iC - 4 * valAt src iR
        + valAt src iRR)) := by
  simp [high_k4, rd_of_bounds hLL.1 hLL.2, rd_of_bounds hL.1 hL.2, rd_of_bounds hC.1 hC.2,
    rd_of_bounds hR.1 hR.2, rd_of_bounds hRR.1 hRR.2]

theorem sum_k4_eq {src : Arr} {iLL iL iC iR iRR : Int} (hLL : 0 ≤ iLL ∧ iLL < src.length)
    (hL : 0 ≤ iL ∧ iL < src.length) (hC : 0 ≤ iC ∧ iC < src.length)
    (hR : 0 ≤ iR ∧ iR < src.length) (hRR : 0 ≤ iRR ∧ iRR < src.length) :
    sum_k4 src iLL iL iC iR iRR =
      some (valAt src iLL + 4 * valAt src iL + 6 * valAt src iC + 4 * valAt src iR
        + valAt src iRR) := by
  simp [sum_k4, rd_of_bounds hLL.1 hLL.2, rd_of_bounds hL.1 hL.2, rd_of_bounds hC.1 hC.2,
    rd_of_bounds hR.1 hR.2, rd_of_bounds hRR.1 hRR.2]

theorem fabs_some (v : ℚ) : fabs (some v) = some |v| := rfl

theorem scale_some (c v : ℚ) : scale c (some v) = some (c * v) := rfl

theorem norm2_some (sqrt : ℚ → ℚ) (c x y : ℚ) :
    norm2 sqrt c (some x) (some y) = some (c * sqrt (x ^ 2 + y ^ 2)) := rfl

theorem norm3_some (sqrt : ℚ → ℚ) (c x y z : ℚ) :
    norm3 sqrt c (some x) (some y) (some z) = some (c * sqrt (x ^ 2 + y ^ 2 + z ^ 2)) := rfl

theorem mag2_eq (sqrt : ℚ → ℚ) {w_x w_y : Arr} {idx : Int} (hx : 0 ≤ idx ∧ idx < w_x.length)
    (hy : 0 ≤ idx ∧ idx < w_y.length) :
    mag2 sqrt w_x w_y idx =
      some (sqrt (valAt w_x idx * valAt w_x idx + valAt w_y idx * valAt w_y idx)) := by
  simp [mag2, rd_of_bounds hx.1 hx.2, rd_of_bounds hy.1 hy.2]

theorem mag3_eq (sqrt : ℚ → ℚ) {w_x w_y w_z : Arr} {idx : Int}
    (hx : 0 ≤ idx ∧ idx < w_x.length) (hy : 0 ≤ idx ∧ idx < w_y.length)
    (hz : 0 ≤ idx ∧ idx < w_z.length) :
    mag3 sqrt w_x w_y w_z idx =
      some (sqrt (valAt w_x idx * valAt w_x idx + valAt w_y idx * valAt w_y idx
        + valAt w_z idx * valAt w_z idx)) := by
  simp [mag3, rd_of_bounds hx.1 hx.2, rd_of_bounds hy.1 hy.2, rd_of_bounds hz.1 hz.2]

/-! ## Level plumbing -/

theorem lift_some {α : Type} (a : α) : lift (some a) = Except.ok a := rfl

theorem ok_bind {α β : Type} (a : α) (f : α → Except Err β) :
    (Except.ok a >>= f) = f a := rfl

theorem onLevel2_some {lo hi : List Arr} {li : Nat} {pass : Arr × Arr → Option (Arr × Arr)}
    {a b : Arr} {r : Arr × Arr} (ha : lo[li]? = some a) (hb : hi[li]? = some b)
    (hr : pass (a, b) = some r) :
    onLevel2 lo hi li pass = some (lo.set li r.1, hi.set li r.2) := by
  simp [onLevel2, ha, hb, hr]

theorem onLevel1_some {xs : List Arr} {li : Nat} {pass : Arr → Option Arr}
    {a r : Arr} (ha : xs[li]? = some a) (hr : pass a = some r) :
    onLevel1 xs li pass = some (xs.set li r) := by
  simp [onLevel1, ha, hr]

/-! ## Smoothing -/

theorem range_one {lo hi : Int} (h : hi = lo + 1) : range lo hi = [lo] := by
  subst h
  simp [range, List.range_succ]

theorem range_two {lo hi : Int} (h : hi = lo + 2) : range lo hi = [lo, lo + 1] := by
  subst h
  simp [range, List.range_succ]

theorem range_three {lo hi : Int} (h : hi = lo + 3) : range lo hi = [lo, lo + 1, lo + 2] := by
  subst h
  simp [range, List.range_succ]

theorem valAt_set_self {a : Arr} {i : Int} (v : ℚ) (h0 : 0 ≤ i) (h1 : i < a.length) :
    valAt (a.set i.toNat v) i = v :=
  valAt_of_rd (rd_set_self v h0 h1)

theorem smoothCell_eq (f : Arr) (idx c lo hi : Int) (idxOf : Int → Int) (fs : Arr)
    (hc : lo ≤ c ∧ c < hi) (hidx : idxOf c = idx)
    (hb : 0 ≤ idx ∧ idx < f.length ∧ idx < fs.length)
    (hn : ∀ ii, lo ≤ ii → ii < hi → 0 ≤ idxOf ii ∧ idxOf ii < f.length) :
    smoothCell f idx c lo hi idxOf fs = wr fs idx (smoothVal f lo hi idxOf c) := by
  obtain ⟨hb0, hb1, hb2⟩ := hb
  have hlen : ∀ v : ℚ, idx < ((fs.set idx.toNat v).length : Int) := by
    intro v
    simpa using hb2
  unfold smoothCell
  rw [rd_of_bounds hb0 hb1, wr_of_bounds _ hb0 hb2]
  have n1 : c - 1 ≠ c := by omega
  have n2 : c + 1 ≠ c := by omega
  have e1 : c - 1 + 1 = c := by omega
  have e2 : c - 1 + 2 = c + 1 := by omega
  have hc1 := hc.1
  have hc2 := hc.2
  by_cases hl : lo ≤ c - 1
  · have hmax : max (c - 1) lo = c - 1 := max_eq_left hl
    have hL := hn (c - 1) hl (by omega)
    have h3 : c - 1 < hi := by omega
    by_cases hr : c + 1 < hi
    · have hmin : min (c + 2) hi = c + 2 := min_eq_left (by omega)
      have hR := hn (c + 1) (by omega) hr
      have h4 : lo ≤ c + 1 := by omega
      have hrange : range (c - 1) (c + 2) = [c - 1, c - 1 + 1, c - 1 + 2] :=
        range_three (by omega)
      simp only [forRange, hmax, hmin, hrange, e1, e2]
      simp [n1, n2, rd_set_self, hb0, hb2, wr_of_bounds, rd_of_bounds hL.1 hL.2,
        rd_of_bounds hR.1 hR.2, smoothVal, hl, hr, hc1, hc2, h3, h4, hidx]
      congr 1
      ring
    · have hmin : min (c + 2) hi = c + 1 := by
        rw [min_eq_right (by omega)]
        omega
      have hrange : range (c - 1) (c + 1) = [c - 1, c - 1 + 1] := range_two (by omega)
      simp only [forRange, hmax, hmin, hrange, e1]
      simp [n1, rd_set_self, hb0, hb2, wr_of_bounds, rd_of_bounds hL.1 hL.2,
        smoothVal, hl, hr, hc1, hc2, h3, hidx]
      congr 1
      ring
  · have hmax : max (c - 1) lo = c := by
      rw [max_eq_right (by omega)]
      omega
    by_cases hr : c + 1 < hi
    · have hmin : min (c + 2) hi = c + 2 := min_eq_left (by omega)
      have hR := hn (c + 1) (by omega) hr
      have h4 : lo ≤ c + 1 := by omega
      have hrange : range c (c + 2) = [c, c + 1] := range_two (by omega)
      simp only [forRange, hmax, hmin, hrange]
      simp [n2, rd_set_self, hb0, hb2, wr_of_bounds, rd_of_bounds hR.1 hR.2,
        smoothVal, hl, hr, hc1, hc2, h4, hidx]
    · have hmin : min (c + 2) hi = c + 1 := by
        rw [min_eq_right (by omega)]
        omega
      have hrange : range c (c + 1) = [c] := range_one (by omega)
      simp only [forRange, hmax, hmin, hrange]
      simp [rd_set_self, hb0, hb2, wr_of_bounds,
        smoothVal, hl, hr, hc1, hc2, hidx]

/-! ## Geometry of the flat buffers -/

theorem idx2_bounds {a b d0 d1 : Int} (ha : 0 ≤ a) (ha1 : a < d0) (hb : 0 ≤ b) (hb1 : b < d1) :
    0 ≤ a + b * d0 ∧ a + b * d0 < d0 * d1 := by
  have h1 : 0 ≤ b * d0 := mul_nonneg hb (by omega)
  have h2 : (b + 1) * d0 ≤ d1 * d0 := mul_le_mul_of_nonneg_right (by omega) (by omega)
  constructor
  · omega
  · nlinarith

theorem idx3_bounds {a b c d0 d1 d2 : Int} (ha : 0 ≤ a) (ha1 : a < d0) (hb : 0 ≤ b)
    (hb1 : b < d1) (hc : 0 ≤ c) (hc1 : c < d2) :
    0 ≤ a + b * d0 + c * d0 * d1 ∧ a + b * d0 + c * d0 * d1 < d0 * d1 * d2 := by
  obtain ⟨h1, h2⟩ := idx2_bounds ha ha1 hb hb1
  have h3 : 0 ≤ c * (d0 * d1) := mul_nonneg hc (by nlinarith)
  have h4 : (c + 1) * (d0 * d1) ≤ d2 * (d0 * d1) :=
    mul_le_mul_of_nonneg_right (by omega) (by nlinarith)
  constructor
  · nlinarith
  · nlinarith

theorem idx2_inj {a b a' b' d0 : Int} (ha : 0 ≤ a) (ha1 : a < d0) (ha' : 0 ≤ a')
    (ha1' : a' < d0) (h : a + b * d0 = a' + b' * d0) : a = a' ∧ b = b' := by
  have e1 : (a + b * d0) % d0 = a := by
    rw [Int.add_mul_emod_self, Int.emod_eq_of_lt ha ha1]
  have e2 : (a' + b' * d0) % d0 = a' := by
    rw [Int.add_mul_emod_self, Int.emod_eq_of_lt ha' ha1']
  have hEq : a = a' := by rw [← e1, ← e2, h]
  subst hEq
  refine ⟨rfl, ?_⟩
  have h3 : b * d0 = b' * d0 := by omega
  exact Int.eq_of_mul_eq_mul_right (by omega) h3

theorem idx3_inj {a b c a' b' c' d0 d1 : Int} (ha : 0 ≤ a) (ha1 : a < d0) (ha' : 0 ≤ a')
    (ha1' : a' < d0) (hb : 0 ≤ b) (hb1 : b < d1) (hb' : 0 ≤ b') (hb1' : b' < d1)
    (h : a + b * d0 + c * d0 * d1 = a' + b' * d0 + c' * d0 * d1) :
    a = a' ∧ b = b' ∧ c = c' := by
  have h1 : a + (b + c * d1) * d0 = a' + (b' + c' * d1) * d0 := by
    have e1 : a + (b + c * d1) * d0 = a + b * d0 + c * d0 * d1 := by ring
    have e2 : a' + (b' + c' * d1) * d0 = a' + b' * d0 + c' * d0 * d1 := by ring
    rw [e1, e2, h]
  obtain ⟨h2, h3⟩ := idx2_inj ha ha1 ha' ha1' h1
  obtain ⟨h4, h5⟩ := idx2_inj hb hb1 hb' hb1' h3
  exact ⟨h2, h4, h5⟩

theorem boxSize_one (d : IntVector) : boxSize 1 d = d 0 := by
  simp [boxSize, List.range_succ]

theorem boxSize_two (d : IntVector) : boxSize 2 d = d 0 * d 1 := by
  simp [boxSize, List.range_succ]

theorem boxSize_three (d : IntVector) : boxSize 3 d = d 0 * d 1 * d 2 := by
  simp [boxSize, List.range_succ]
  ring

theorem zeros_length {n : Int} (h : 0 ≤ n) : ((zeros n).length : Int) = n := by
  simp [zeros, h]

theorem valAt_eq (a : Arr) (i : Int) : valAt a i = (rd a i).getD 0 := by
  unfold valAt rd
  split
  · simp [List.getD_eq_getElem?_getD]
  · rfl

theorem valAt_zeros (n i : Int) : valAt (zeros n) i = 0 := by
  unfold valAt zeros
  split
  · simp [List.getD_eq_getElem?_getD, List.getElem?_replicate]
    split <;> rfl
  · rfl

theorem valAt_fillZero (a : Arr) (i : Int) : valAt (fillZero a) i = 0 := by
  unfold valAt fillZero
  split
  · simp [List.getD_eq_getElem?_getD, List.getElem?_replicate]
    split <;> rfl
  · rfl

/-! ## From the visiting order to the cell-by-cell effect -/

theorem Written.filled {C D : Type} {cs : List C} {ix : C → Int} {v : C → ℚ} {a a' : Arr}
    (h : Written cs ix v a a') (win : D → Prop) (ix' : D → Int) (v' : D → ℚ) (φ : D → C)
    (hφ : ∀ d, win d → φ d ∈ cs ∧ ix (φ d) = ix' d ∧ v (φ d) = v' d)
    (hsurj : ∀ c ∈ cs, ∃ d, win d ∧ φ d = c)
    (hinj : ∀ c ∈ cs, ∀ c' ∈ cs, ix c' = ix c → c' = c) :
    Filled win ix' v' a a' := by
  obtain ⟨hlen, hframe, hval⟩ := h
  refine ⟨hlen, ?_, ?_⟩
  · intro d hd
    obtain ⟨hmem, hix, hv⟩ := hφ d hd
    have := hval (φ d) hmem (fun c' hc' hc => by rw [hinj (φ d) hmem c' hc' hc])
    rw [← hix, ← hv]
    exact valAt_of_rd this
  · intro n hn
    rw [valAt_eq, valAt_eq, hframe n]
    intro c hc hcn
    obtain ⟨d, hd, rfl⟩ := hsurj c hc
    exact hn d hd ((hφ d hd).2.1.symm.trans hcn)

theorem Filled.trans_len {C : Type} {win : C → Prop} {ix : C → Int} {v : C → ℚ} {a a' : Arr}
    (h : Filled win ix v a a') : a'.length = a.length := h.1

/-! ### Counted loops whose body amounts to one store -/

theorem loop1_wr (lo hi : Int) (ix : Int → Int) (v : Int → ℚ)
    (body : Int → Arr → Option Arr) (a : Arr)
    (h : ∀ i, lo ≤ i → i < hi → (0 ≤ ix i ∧ ix i < a.length) ∧
      ∀ o : Arr, o.length = a.length → body i o = wr o (ix i) (v i)) :
    ∃ r, forRange lo hi body a = some r ∧ Written (range lo hi) ix v a r := by
  unfold forRange
  exact foldlM_assign (range lo hi) ix v body a
    (fun c hc => (h c (mem_range.1 hc).1 (mem_range.1 hc).2).1)
    (fun c hc o ho => (h c (mem_range.1 hc).1 (mem_range.1 hc).2).2 o ho)

theorem loop2_wr (a b c d : Int) (ix : Int → Int → Int) (v : Int → Int → ℚ)
    (body : Int → Int → Arr → Option Arr) (arr : Arr)
    (h : ∀ x y, a ≤ x → x < b → c ≤ y → y < d → (0 ≤ ix x y ∧ ix x y < arr.length) ∧
      ∀ o : Arr, o.length = arr.length → body x y o = wr o (ix x y) (v x y)) :
    ∃ r, forRange a b (fun x => forRange c d (fun y => body x y)) arr = some r ∧
      Written (cells2 a b c d) (fun p => ix p.1 p.2) (fun p => v p.1 p.2) arr r := by
  rw [nest2_eq a b c d body]
  have hm : ∀ p ∈ cells2 a b c d, _ := fun p hp =>
    h p.1 p.2 (mem_cells2.1 hp).1.1 (mem_cells2.1 hp).1.2 (mem_cells2.1 hp).2.1 (mem_cells2.1 hp).2.2
  exact foldlM_assign (cells2 a b c d) (fun p => ix p.1 p.2) _ (fun p => body p.1 p.2) arr
    (fun p hp => (hm p hp).1) (fun p hp o ho => (hm p hp).2 o ho)

theorem loop3_wr (a b c d e f : Int) (ix : Int → Int → Int → Int) (v : Int → Int → Int → ℚ)
    (body : Int → Int → Int → Arr → Option Arr) (arr : Arr)
    (h : ∀ x y z, a ≤ x → x < b → c ≤ y → y < d → e ≤ z → z < f →
      (0 ≤ ix x y z ∧ ix x y z < arr.length) ∧
      ∀ o : Arr, o.length = arr.length → body x y z o = wr o (ix x y z) (v x y z)) :
    ∃ r, forRange a b (fun x => forRange c d (fun y => forRange e f (fun z => body x y z))) arr
        = some r ∧
      Written (cells3 a b c d e f) (fun p => ix p.1 p.2.1 p.2.2)
        (fun p => v p.1 p.2.1 p.2.2) arr r := by
  rw [nest3_eq a b c d e f body]
  have hm : ∀ p ∈ cells3 a b c d e f, _ := fun p hp =>
    h p.1 p.2.1 p.2.2 (mem_cells3.1 hp).1.1 (mem_cells3.1 hp).1.2 (mem_cells3.1 hp).2.1.1
      (mem_cells3.1 hp).2.1.2 (mem_cells3.1 hp).2.2.1 (mem_cells3.1 hp).2.2.2
  exact foldlM_assign (cells3 a b c d e f) (fun p => ix p.1 p.2.1 p.2.2) _
    (fun p => body p.1 p.2.1 p.2.2) arr
    (fun p hp => (hm p hp).1) (fun p hp o ho => (hm p hp).2 o ho)

/-! ## Smoothing passes -/

theorem linIdx_one (g d x : IntVector) : linIdx 1 g d x = lin1 g (x 0) := by
  simp [linIdx]

theorem linIdx_two (g d x : IntVector) : linIdx 2 g d x = lin2 g d (x 0) (x 1) := by
  simp [linIdx]

theorem linIdx_three (g d x : IntVector) : linIdx 3 g d x = lin3 g d (x 0) (x 1) (x 2) := by
  simp [linIdx]

theorem smooth_pass_1D (f fresh : Arr) (N g : IntVector)
    (hf : (f.length : Int) = N 0 + 2 * g 0) (hfr : (fresh.length : Int) = N 0 + 2 * g 0) :
    ∃ r, forRange (-g 0) (N 0 + g 0) (fun i out =>
        smoothCell f (lin1 g i) i (-g 0) (N 0 + g 0) (fun ii => lin1 g ii) out) fresh = some r ∧
      Filled (InBox 1 (fun a => -g a) (fun a => N a + g a))
        (linIdx 1 g (fun a => N a + 2 * g a))
        (fun x => smoothVal f (-g 0) (N 0 + g 0)
          (fun ii => linIdx 1 g (fun a => N a + 2 * g a) (moveTo x 0 ii)) (x 0)) fresh r := by
  obtain ⟨r, hr, hw⟩ := loop1_wr (-g 0) (N 0 + g 0) (fun i => lin1 g i)
    (fun i => smoothVal f (-g 0) (N 0 + g 0) (fun ii => lin1 g ii) i) _ fresh
    (fun i h1 h2 => ⟨by dsimp only [lin1]; omega, fun o ho =>
      smoothCell_eq f (lin1 g i) i (-g 0) (N 0 + g 0) (fun ii => lin1 g ii) o ⟨h1, h2⟩ rfl
        (by dsimp only [lin1]; omega) (fun ii h3 h4 => by dsimp only [lin1]; omega)⟩)
  refine ⟨r, hr, hw.filled _ _ _ (fun x => x 0) ?_ ?_ ?_⟩
  · intro x hx
    have := hx 0 (by omega)
    refine ⟨mem_range.2 this, by rw [linIdx_one], ?_⟩
    simp [linIdx_one, moveTo]
  · intro c hc
    refine ⟨fun _ => c, fun d hd => ?_, rfl⟩
    have h0 : d = 0 := by omega
    subst h0
    exact mem_range.1 hc
  · intro c _ c' _ h
    unfold lin1 at h
    omega

theorem lin2_bounds {g d : IntVector} {i j : Int} (h0 : 0 ≤ i + g 0 ∧ i + g 0 < d 0)
    (h1 : 0 ≤ j + g 1 ∧ j + g 1 < d 1) :
    0 ≤ lin2 g d i j ∧ lin2 g d i j < d 0 * d 1 :=
  idx2_bounds h0.1 h0.2 h1.1 h1.2

theorem lin3_bounds {g d : IntVector} {i j k : Int} (h0 : 0 ≤ i + g 0 ∧ i + g 0 < d 0)
    (h1 : 0 ≤ j + g 1 ∧ j + g 1 < d 1) (h2 : 0 ≤ k + g 2 ∧ k + g 2 < d 2) :
    0 ≤ lin3 g d i j k ∧ lin3 g d i j k < d 0 * d 1 * d 2 :=
  idx3_bounds h0.1 h0.2 h1.1 h1.2 h2.1 h2.2

theorem lin2_inj {g d : IntVector} {i j i' j' : Int} (h0 : 0 ≤ i + g 0 ∧ i + g 0 < d 0)
    (h0' : 0 ≤ i' + g 0 ∧ i' + g 0 < d 0) (h : lin2 g d i j = lin2 g d i' j') :
    i = i' ∧ j = j' := by
  obtain ⟨h1, h2⟩ := idx2_inj h0.1 h0.2 h0'.1 h0'.2 h
  omega

theorem lin3_inj {g d : IntVector} {i j k i' j' k' : Int} (h0 : 0 ≤ i + g 0 ∧ i + g 0 < d 0)
    (h0' : 0 ≤ i' + g 0 ∧ i' + g 0 < d 0) (h1 : 0 ≤ j + g 1 ∧ j + g 1 < d 1)
    (h1' : 0 ≤ j' + g 1 ∧ j' + g 1 < d 1) (h : lin3 g d i j k = lin3 g d i' j' k') :
    i = i' ∧ j = j' ∧ k = k' := by
  obtain ⟨h2, h3, h4⟩ := idx3_inj h0.1 h0.2 h0'.1 h0'.2 h1.1 h1.2 h1'.1 h1'.2 h
  omega

theorem smooth_pass_2D_x (f fresh : Arr) (N g : IntVector)
    (hf : (f.length : Int) = (N 0 + 2 * g 0) * (N 1 + 2 * g 1))
    (hfr : (fresh.length : Int) = (N 0 + 2 * g 0) * (N 1 + 2 * g 1)) :
    ∃ r, forRange (-g 1) (N 1 + g 1) (fun j => forRange (-g 0) (N 0 + g 0) (fun i out => 
        smoothCell f (lin2 g (fun a => N a + 2 * g a) i j) i (-g 0) (N 0 + g 0)
          (fun ii => lin2 g (fun a => N a + 2 * g a) ii j) out)) fresh = some r ∧
      Filled (InBox 2 (fun a => -g a) (fun a => N a + g a))
        (linIdx 2 g (fun a => N a + 2 * g a))
        (fun x => smoothVal f (-g 0) (N 0 + g 0)
          (fun ii => linIdx 2 g (fun a => N a + 2 * g a) (moveTo x 0 ii)) (x 0)) fresh r := by
  have hb : ∀ i j, -g 0 ≤ i → i < N 0 + g 0 →
      -g 1 ≤ j → j < N 1 + g 1 →
      0 ≤ lin2 g (fun a => N a + 2 * g a) i j ∧
      lin2 g (fun a => N a + 2 * g a) i j < (N 0 + 2 * g 0) * (N 1 + 2 * g 1) :=
    fun i j h1 h2 h3 h4 => lin2_bounds (by omega) (by omega)
  obtain ⟨r, hr, hw⟩ := loop2_wr (-g 1) (N 1 + g 1) (-g 0) (N 0 + g 0)
    (fun j i => lin2 g (fun a => N a + 2 * g a) i j)
    (fun j i => smoothVal f (-g 0) (N 0 + g 0)
      (fun ii => lin2 g (fun a => N a + 2 * g a) ii j) i)
    _ fresh
    (fun j i h1 h2 h3 h4 => ⟨by dsimp only; rw [hfr]; exact hb i j h3 h4 h1 h2, fun o ho =>
      smoothCell_eq f _ i (-g 0) (N 0 + g 0) _ o ⟨h3, h4⟩ rfl
        (by rw [ho, hf, hfr]; exact ⟨(hb i j h3 h4 h1 h2).1, (hb i j h3 h4 h1 h2).2,
          (hb i j h3 h4 h1 h2).2⟩)
        (fun ii hn1 hn2 => by rw [hf]; exact hb ii j hn1 hn2 h1 h2)⟩)
  refine ⟨r, hr, hw.filled _ _ _ (fun x => (x 1, x 0)) ?_ ?_ ?_⟩
  · intro x hx
    have hx0 := hx 0 (by omega)
    have hx1 := hx 1 (by omega)
    refine ⟨mem_cells2.2 ⟨hx1, hx0⟩, by rw [linIdx_two], ?_⟩
    simp [linIdx_two, moveTo]
  · intro c hc
    obtain ⟨m1, m0⟩ := mem_cells2.1 hc
    refine ⟨cell2 c.2 c.1, fun d hd => ?_, rfl⟩
    have hd' : d = 0 ∨ d = 1 := by omega
    rcases hd' with rfl | rfl
    · exact m0
    · exact m1
  · intro c hc c' hc' h
    obtain ⟨m1, m0⟩ := mem_cells2.1 hc
    obtain ⟨n1, n0⟩ := mem_cells2.1 hc'
    obtain ⟨e0, e1⟩ := @lin2_inj g (fun a => N a + 2 * g a) c'.2 _ c.2 _
      (by dsimp only; omega) (by dsimp only; omega) h
    exact Prod.ext e1 e0

theorem smooth_pass_2D_y (f fresh : Arr) (N g : IntVector)
    (hf : (f.length : Int) = (N 0 + 2 * g 0) * (N 1 + 2 * g 1))
    (hfr : (fresh.length : Int) = (N 0 + 2 * g 0) * (N 1 + 2 * g 1)) :
    ∃ r, forRange (-g 0) (N 0 + g 0) (fun i => forRange (-g 1) (N 1 + g 1) (fun j out => 
        smoothCell f (lin2 g (fun a => N a + 2 * g a) i j) j (-g 1) (N 1 + g 1)
          (fun jj => lin2 g (fun a => N a + 2 * g a) i jj) out)) fresh = some r ∧
      Filled (InBox 2 (fun a => -g a) (fun a => N a + g a))
        (linIdx 2 g (fun a => N a + 2 * g a))
        (fun x => smoothVal f (-g 1) (N 1 + g 1)
          (fun ii => linIdx 2 g (fun a => N a + 2 * g a) (moveTo x 1 ii)) (x 1)) fresh r := by
  have hb : ∀ i j, -g 0 ≤ i → i < N 0 + g 0 →
      -g 1 ≤ j → j < N 1 + g 1 →
      0 ≤ lin2 g (fun a => N a + 2 * g a) i j ∧
      lin2 g (fun a => N a + 2 * g a) i j < (N 0 + 2 * g 0) * (N 1 + 2 * g 1) :=
    fun i j h1 h2 h3 h4 => lin2_bounds (by omega) (by omega)
  obtain ⟨r, hr, hw⟩ := loop2_wr (-g 0) (N 0 + g 0) (-g 1) (N 1 + g 1)
    (fun i j => lin2 g (fun a => N a + 2 * g a) i j)
    (fun i j => smoothVal f (-g 1) (N 1 + g 1)
      (fun jj => lin2 g (fun a => N a + 2 * g a) i jj) j)
    _ fresh
    (fun i j h1 h2 h3 h4 => ⟨by dsimp only; rw [hfr]; exact hb i j h1 h2 h3 h4, fun o ho =>
      smoothCell_eq f _ j (-g 1) (N 1 + g 1) _ o ⟨h3, h4⟩ rfl
        (by rw [ho, hf, hfr]; exact ⟨(hb i j h1 h2 h3 h4).1, (hb i j h1 h2 h3 h4).2,
          (hb i j h1 h2 h3 h4).2⟩)
        (fun jj hn1 hn2 => by rw [hf]; exact hb i jj h1 h2 hn1 hn2)⟩)
  refine ⟨r, hr, hw.filled _ _ _ (fun x => (x 0, x 1)) ?_ ?_ ?_⟩
  · intro x hx
    have hx0 := hx 0 (by omega)
    have hx1 := hx 1 (by omega)
    refine ⟨mem_cells2.2 ⟨hx0, hx1⟩, by rw [linIdx_two], ?_⟩
    simp [linIdx_two, moveTo]
  · intro c hc
    obtain ⟨m0, m1⟩ := mem_cells2.1 hc
    refine ⟨cell2 c.1 c.2, fun d hd => ?_, rfl⟩
    have hd' : d = 0 ∨ d = 1 := by omega
    rcases hd' with rfl | rfl
    · exact m0
    · exact m1
  · intro c hc c' hc' h
    obtain ⟨m0, m1⟩ := mem_cells2.1 hc
    obtain ⟨n0, n1⟩ := mem_cells2.1 hc'
    obtain ⟨e0, e1⟩ := @lin2_inj g (fun a => N a + 2 * g a) c'.1 _ c.1 _
      (by dsimp only; omega) (by dsimp only; omega) h
    exact Prod.ext e0 e1

theorem smooth_pass_3D_x (f fresh : Arr) (N g : IntVector)
    (hf : (f.length : Int) = (N 0 + 2 * g 0) * (N 1 + 2 * g 1) * (N 2 + 2 * g 2))
    (hfr : (fresh.length : Int) = (N 0 + 2 * g 0) * (N 1 + 2 * g 1) * (N 2 + 2 * g 2)) :
    ∃ r, forRange (-g 2) (N 2 + g 2) (fun k => forRange (-g 1) (N 1 + g 1) (fun j => forRange (-g 0) (N 0 + g 0) (fun i out => 
        smoothCell f (lin3 g (fun a => N a + 2 * g a) i j k) i (-g 0) (N 0 + g 0)
          (fun ii => lin3 g (fun a => N a + 2 * g a) ii j k) out))) fresh = some r ∧
      Filled (InBox 3 (fun a => -g a) (fun a => N a + g a))
        (linIdx 3 g (fun a => N a + 2 * g a))
        (fun x => smoothVal f (-g 0) (N 0 + g 0)
          (fun ii => linIdx 3 g (fun a => N a + 2 * g a) (moveTo x 0 ii)) (x 0)) fresh r := by
  have hb : ∀ i j k, -g 0 ≤ i → i < N 0 + g 0 →
      -g 1 ≤ j → j < N 1 + g 1 →
      -g 2 ≤ k → k < N 2 + g 2 →
      0 ≤ lin3 g (fun a => N a + 2 * g a) i j k ∧
      lin3 g (fun a => N a + 2 * g a) i j k < (N 0 + 2 * g 0) * (N 1 + 2 * g 1) * (N 2 + 2 * g 2) :=
    fun i j k h1 h2 h3 h4 h5 h6 => lin3_bounds (by omega) (by omega) (by omega)
  obtain ⟨r, hr, hw⟩ := loop3_wr (-g 2) (N 2 + g 2) (-g 1) (N 1 + g 1) (-g 0) (N 0 + g 0)
    (fun k j i => lin3 g (fun a => N a + 2 * g a) i j k)
    (fun k j i => smoothVal f (-g 0) (N 0 + g 0)
      (fun ii => lin3 g (fun a => N a + 2 * g a) ii j k) i)
    _ fresh
    (fun k j i h1 h2 h3 h4 h5 h6 => ⟨by dsimp only; rw [hfr]; exact hb i j k h5 h6 h3 h4 h1 h2, fun o ho =>
      smoothCell_eq f _ i (-g 0) (N 0 + g 0) _ o ⟨h5, h6⟩ rfl
        (by rw [ho, hf, hfr]; exact ⟨(hb i j k h5 h6 h3 h4 h1 h2).1, (hb i j k h5 h6 h3 h4 h1 h2).2,
          (hb i j k h5 h6 h3 h4 h1 h2).2⟩)
        (fun ii hn1 hn2 => by rw [hf]; exact hb ii j k hn1 hn2 h3 h4 h1 h2)⟩)
  refine ⟨r, hr, hw.filled _ _ _ (fun x => (x 2, x 1, x 0)) ?_ ?_ ?_⟩
  · intro x hx
    have hx0 := hx 0 (by omega)
    have hx1 := hx 1 (by omega)
    have hx2 := hx 2 (by omega)
    refine ⟨mem_cells3.2 ⟨hx2, hx1, hx0⟩, by rw [linIdx_three], ?_⟩
    simp [linIdx_three, moveTo]
  · intro c hc
    obtain ⟨m2, m1, m0⟩ := mem_cells3.1 hc
    refine ⟨cell3 c.2.2 c.2.1 c.1, fun d hd => ?_, rfl⟩
    have hd' : d = 0 ∨ d = 1 ∨ d = 2 := by omega
    rcases hd' with rfl | rfl | rfl
    · exact m0
    · exact m1
    · exact m2
  · intro c hc c' hc' h
    obtain ⟨m2, m1, m0⟩ := mem_cells3.1 hc
    obtain ⟨n2, n1, n0⟩ := mem_cells3.1 hc'
    obtain ⟨e0, e1, e2⟩ := @lin3_inj g (fun a => N a + 2 * g a) c'.2.2 c'.2.1 _ c.2.2 c.2.1 _
      (by dsimp only; omega) (by dsimp only; omega) (by dsimp only; omega) (by dsimp only; omega) h
    exact Prod.ext e2 (Prod.ext e1 e0)

theorem smooth_pass_3D_y (f fresh : Arr) (N g : IntVector)
    (hf : (f.length : Int) = (N 0 + 2 * g 0) * (N 1 + 2 * g 1) * (N 2 + 2 * g 2))
    (hfr : (fresh.length : Int) = (N 0 + 2 * g 0) * (N 1 + 2 * g 1) * (N 2 + 2 * g 2)) :
    ∃ r, forRange (-g 0) (N 0 + g 0) (fun i => forRange (-g 2) (N 2 + g 2) (fun k => forRange (-g 1) (N 1 + g 1) (fun j out => 
        smoothCell f (lin3 g (fun a => N a + 2 * g a) i j k) j (-g 1) (N 1 + g 1)
          (fun jj => lin3 g (fun a => N a + 2 * g a) i jj k) out))) fresh = some r ∧
      Filled (InBox 3 (fun a => -g a) (fun a => N a + g a))
        (linIdx 3 g (fun a => N a + 2 * g a))
        (fun x => smoothVal f (-g 1) (N 1 + g 1)
          (fun ii => linIdx 3 g (fun a => N a + 2 * g a) (moveTo x 1 ii)) (x 1)) fresh r := by
  have hb : ∀ i j k, -g 0 ≤ i → i < N 0 + g 0 →
      -g 1 ≤ j → j < N 1 + g 1 →
      -g 2 ≤ k → k < N 2 + g 2 →
      0 ≤ lin3 g (fun a => N a + 2 * g a) i j k ∧
      lin3 g (fun a => N a + 2 * g a) i j k < (N 0 + 2 * g 0) * (N 1 + 2 * g 1) * (N 2 + 2 * g 2) :=
    fun i j k h1 h2 h3 h4 h5 h6 => lin3_bounds (by omega) (by omega) (by omega)
  obtain ⟨r, hr, hw⟩ := loop3_wr (-g 0) (N 0 + g 0) (-g 2) (N 2 + g 2) (-g 1) (N 1 + g 1)
    (fun i k j => lin3 g (fun a => N a + 2 * g a) i j k)
    (fun i k j => smoothVal f (-g 1) (N 1 + g 1)
      (fun jj => lin3 g (fun a => N a + 2 * g a) i jj k) j)
    _ fresh
    (fun i k j h1 h2 h3 h4 h5 h6 => ⟨by dsimp only; rw [hfr]; exact hb i j k h1 h2 h5 h6 h3 h4, fun o ho =>
      smoothCell_eq f _ j (-g 1) (N 1 + g 1) _ o ⟨h5, h6⟩ rfl
        (by rw [ho, hf, hfr]; exact ⟨(hb i j k h1 h2 h5 h6 h3 h4).1, (hb i j k h1 h2 h5 h6 h3 h4).2,
          (hb i j k h1 h2 h5 h6 h3 h4).2⟩)
        (fun jj hn1 hn2 => by rw [hf]; exact hb i jj k h1 h2 hn1 hn2 h3 h4)⟩)
  refine ⟨r, hr, hw.filled _ _ _ (fun x => (x 0, x 2, x 1)) ?_ ?_ ?_⟩
  · intro x hx
    have hx0 := hx 0 (by omega)
    have hx1 := hx 1 (by omega)
    have hx2 := hx 2 (by omega)
    refine ⟨mem_cells3.2 ⟨hx0, hx2, hx1⟩, by rw [linIdx_three], ?_⟩
    simp [linIdx_three, moveTo]
  · intro c hc
    obtain ⟨m0, m2, m1⟩ := mem_cells3.1 hc
    refine ⟨cell3 c.1 c.2.2 c.2.1, fun d hd => ?_, rfl⟩
    have hd' : d = 0 ∨ d = 1 ∨ d = 2 := by omega
    rcases hd' with rfl | rfl | rfl
    · exact m0
    · exact m1
    · exact m2
  · intro c hc c' hc' h
    obtain ⟨m0, m2, m1⟩ := mem_cells3.1 hc
    obtain ⟨n0, n2, n1⟩ := mem_cells3.1 hc'
    obtain ⟨e0, e1, e2⟩ := @lin3_inj g (fun a => N a + 2 * g a) c'.1 c'.2.2 _ c.1 c.2.2 _
      (by dsimp only; omega) (by dsimp only; omega) (by dsimp only; omega) (by dsimp only; omega) h
    exact Prod.ext e0 (Prod.ext e2 e1)

theorem smooth_pass_3D_z (f fresh : Arr) (N g : IntVector)
    (hf : (f.length : Int) = (N 0 + 2 * g 0) * (N 1 + 2 * g 1) * (N 2 + 2 * g 2))
    (hfr : (fresh.length : Int) = (N 0 + 2 * g 0) * (N 1 + 2 * g 1) * (N 2 + 2 * g 2)) :
    ∃ r, forRange (-g 1) (N 1 + g 1) (fun j => forRange (-g 0) (N 0 + g 0) (fun i => forRange (-g 2) (N 2 + g 2) (fun k out => 
        smoothCell f (lin3 g (fun a => N a + 2 * g a) i j k) k (-g 2) (N 2 + g 2)
          (fun kk => lin3 g (fun a => N a + 2 * g a) i j kk) out))) fresh = some r ∧
      Filled (InBox 3 (fun a => -g a) (fun a => N a + g a))
        (linIdx 3 g (fun a => N a + 2 * g a))
        (fun x => smoothVal f (-g 2) (N 2 + g 2)
          (fun ii => linIdx 3 g (fun a => N a + 2 * g a) (moveTo x 2 ii)) (x 2)) fresh r := by
  have hb : ∀ i j k, -g 0 ≤ i → i < N 0 + g 0 →
      -g 1 ≤ j → j < N 1 + g 1 →
      -g 2 ≤ k → k < N 2 + g 2 →
      0 ≤ lin3 g (fun a => N a + 2 * g a) i j k ∧
      lin3 g (fun a => N a + 2 * g a) i j k < (N 0 + 2 * g 0) * (N 1 + 2 * g 1) * (N 2 + 2 * g 2) :=
    fun i j k h1 h2 h3 h4 h5 h6 => lin3_bounds (by omega) (by omega) (by omega)
  obtain ⟨r, hr, hw⟩ := loop3_wr (-g 1) (N 1 + g 1) (-g 0) (N 0 + g 0) (-g 2) (N 2 + g 2)
    (fun j i k => lin3 g (fun a => N a + 2 * g a) i j k)
    (fun j i k => smoothVal f (-g 2) (N 2 + g 2)
      (fun kk => lin3 g (fun a => N a + 2 * g a) i j kk) k)
    _ fresh
    (fun j i k h1 h2 h3 h4 h5 h6 => ⟨by dsimp only; rw [hfr]; exact hb i j k h3 h4 h1 h2 h5 h6, fun o ho =>
      smoothCell_eq f _ k (-g 2) (N 2 + g 2) _ o ⟨h5, h6⟩ rfl
        (by rw [ho, hf, hfr]; exact ⟨(hb i j k h3 h4 h1 h2 h5 h6).1, (hb i j k h3 h4 h1 h2 h5 h6).2,
          (hb i j k h3 h4 h1 h2 h5 h6).2⟩)
        (fun kk hn1 hn2 => by rw [hf]; exact hb i j kk h3 h4 h1 h2 hn1 hn2)⟩)
  refine ⟨r, hr, hw.filled _ _ _ (fun x => (x 1, x 0, x 2)) ?_ ?_ ?_⟩
  · intro x hx
    have hx0 := hx 0 (by omega)
    have hx1 := hx 1 (by omega)
    have hx2 := hx 2 (by omega)
    refine ⟨mem_cells3.2 ⟨hx1, hx0, hx2⟩, by rw [linIdx_three], ?_⟩
    simp [linIdx_three, moveTo]
  · intro c hc
    obtain ⟨m1, m0, m2⟩ := mem_cells3.1 hc
    refine ⟨cell3 c.2.1 c.1 c.2.2, fun d hd => ?_, rfl⟩
    have hd' : d = 0 ∨ d = 1 ∨ d = 2 := by omega
    rcases hd' with rfl | rfl | rfl
    · exact m0
    · exact m1
    · exact m2
  · intro c hc c' hc' h
    obtain ⟨m1, m0, m2⟩ := mem_cells3.1 hc
    obtain ⟨n1, n0, n2⟩ := mem_cells3.1 hc'
    obtain ⟨e0, e1, e2⟩ := @lin3_inj g (fun a => N a + 2 * g a) c'.2.1 c'.1 _ c.2.1 c.1 _
      (by dsimp only; omega) (by dsimp only; omega) (by dsimp only; omega) (by dsimp only; omega) h
    exact Prod.ext e1 (Prod.ext e0 e2)

/-- Result of `smoothCellData`: one component per axis, each the input averaged
along its axis over the cells of the ghost box. -/
theorem smoothCellData_spec (wt : WaveletTransformHarten) (N : IntVector)
    (cell_data : CellData) (depth : Nat) (f : Arr)
    (hdim : wt.d_dim = 1 ∨ wt.d_dim = 2 ∨ wt.d_dim = 3)
    (hf : cell_data.getPointer depth = some f)
    (hlen : (f.length : Int) = boxSize wt.d_dim (cell_data.ghostBoxDims N)) :
    ∃ s, smoothCellData wt N cell_data depth = some s ∧ s.ghosts = cell_data.ghosts ∧
      s.data.length = wt.d_dim ∧
      ∀ a, a < wt.d_dim →
        Filled (InBox wt.d_dim (fun d => -cell_data.ghosts d) (fun d => N d + cell_data.ghosts d))
          (linIdx wt.d_dim cell_data.ghosts (fun d => N d + 2 * cell_data.ghosts d))
          (fun x => smoothVal f (-cell_data.ghosts a) (N a + cell_data.ghosts a)
            (fun ii => linIdx wt.d_dim cell_data.ghosts (fun d => N d + 2 * cell_data.ghosts d)
              (moveTo x a ii)) (x a))
          (zeros (boxSize wt.d_dim (fun d => N d + 2 * cell_data.ghosts d)))
          (level s.data a) := by
  have hd : cell_data.ghostBoxDims N = fun d => N d + 2 * cell_data.ghosts d := rfl
  rw [hd] at hlen
  have hnn : 0 ≤ boxSize wt.d_dim (fun d => N d + 2 * cell_data.ghosts d) := by
    rw [← hlen]
    exact Int.natCast_nonneg _
  have hfr := zeros_length hnn
  unfold smoothCellData
  simp only [hf, hd, Option.bind_eq_bind, Option.some_bind]
  generalize zeros (boxSize wt.d_dim fun d => N d + 2 * cell_data.ghosts d) = fresh at hfr ⊢
  rcases hdim with h1 | h2 | h3
  · rw [h1, boxSize_one] at hlen hfr
    obtain ⟨r, hr, hF⟩ := smooth_pass_1D f fresh N cell_data.ghosts hlen hfr
    rw [if_pos h1, hr]
    refine ⟨_, rfl, rfl, h1.symm, fun a ha => ?_⟩
    rw [h1] at ha ⊢
    have h0 : a = 0 := by omega
    subst h0
    exact hF
  · rw [h2, boxSize_two] at hlen hfr
    obtain ⟨rx, hrx, hFx⟩ := smooth_pass_2D_x f fresh N cell_data.ghosts hlen hfr
    obtain ⟨ry, hry, hFy⟩ := smooth_pass_2D_y f fresh N cell_data.ghosts hlen hfr
    rw [if_neg (by omega), if_pos h2, hrx, hry]
    refine ⟨_, rfl, rfl, h2.symm, fun a ha => ?_⟩
    rw [h2] at ha ⊢
    have h0 : a = 0 ∨ a = 1 := by omega
    rcases h0 with rfl | rfl
    · exact hFx
    · exact hFy
  · rw [h3, boxSize_three] at hlen hfr
    obtain ⟨rx, hrx, hFx⟩ := smooth_pass_3D_x f fresh N cell_data.ghosts hlen hfr
    obtain ⟨ry, hry, hFy⟩ := smooth_pass_3D_y f fresh N cell_data.ghosts hlen hfr
    obtain ⟨rz, hrz, hFz⟩ := smooth_pass_3D_z f fresh N cell_data.ghosts hlen hfr
    rw [if_neg (by omega), if_neg (by omega), if_pos h3, hrx, hry, hrz]
    refine ⟨_, rfl, rfl, h3.symm, fun a ha => ?_⟩
    rw [h3] at ha ⊢
    have h0 : a = 0 ∨ a = 1 ∨ a = 2 := by omega
    rcases h0 with rfl | rfl | rfl
    · exact hFx
    · exact hFy
    · exact hFz

/-! ## Loops of the 1-D transform -/

theorem Written.filled1 {lo hi gw : Int} {v : Int → ℚ} {a a' : Arr}
    (h : Written (range lo hi) (fun i => i + gw) v a a') :
    Filled (fun i => lo ≤ i ∧ i < hi) (fun i => i + gw) v a a' :=
  h.filled _ _ _ (fun i => i) (fun _ hd => ⟨mem_range.2 hd, rfl, rfl⟩)
    (fun c hc => ⟨c, mem_range.1 hc, rfl⟩)
    (fun c _ c' _ h => by omega)

theorem pass1D_k2 (src : Arr) (gs gw s lo hi : Int) (out : Arr × Arr) (hs : 0 ≤ s)
    (h : ∀ i, lo ≤ i → i < hi →
      (0 ≤ i + gw ∧ i + gw < out.1.length ∧ i + gw < out.2.length) ∧
        0 ≤ i - s + gs ∧ i + s + gs < src.length) :
    ∃ r, forRange lo hi (fun i o => store2 o (i + gw) (low_k2 src (i - s + gs) (i + s + gs))
        (fabs (high_k2 src (i - s + gs) (i + gs) (i + s + gs)))) out = some r ∧
      Filled (fun i => lo ≤ i ∧ i < hi) (fun i => i + gw)
        (fun i => lowVal 2 (fun j => valAt src (j + gs)) s i) out.1 r.1 ∧
      Filled (fun i => lo ≤ i ∧ i < hi) (fun i => i + gw)
        (fun i => |highVal 2 (fun j => valAt src (j + gs)) s i|) out.2 r.2 := by
  obtain ⟨r, hr, h1, h2⟩ := loop1_store2 lo hi (fun i => i + gw)
    (fun i => low_k2 src (i - s + gs) (i + s + gs))
    (fun i => fabs (high_k2 src (i - s + gs) (i + gs) (i + s + gs)))
    (fun i => lowVal 2 (fun j => valAt src (j + gs)) s i)
    (fun i => |highVal 2 (fun j => valAt src (j + gs)) s i|) out
    (fun i hl hh => by
      obtain ⟨hb, h3, h4⟩ := h i hl hh
      refine ⟨hb, ?_, ?_⟩
      · dsimp only
        rw [low_k2_eq (by omega) (by omega)]
        simp [lowVal]
      · dsimp only
        rw [high_k2_eq (by omega) (by omega) (by omega), fabs_some]
        simp [highVal])
  exact ⟨r, hr, h1.filled1, h2.filled1⟩

theorem pass1D_k4 (src : Arr) (gs gw s s2 lo hi : Int) (out : Arr × Arr) (hs : 0 ≤ s)
    (hs2 : s2 = 2 * s)
    (h : ∀ i, lo ≤ i → i < hi →
      (0 ≤ i + gw ∧ i + gw < out.1.length ∧ i + gw < out.2.length) ∧
        0 ≤ i - s2 + gs ∧ i + s2 + gs < src.length) :
    ∃ r, forRange lo hi (fun i o => store2 o (i + gw)
        (low_k4 src (i - s2 + gs) (i - s + gs) (i + s + gs) (i + s2 + gs))
        (fabs (high_k4 src (i - s2 + gs) (i - s + gs) (i + gs) (i + s + gs) (i + s2 + gs))))
        out = some r ∧
      Filled (fun i => lo ≤ i ∧ i < hi) (fun i => i + gw)
        (fun i => lowVal 4 (fun j => valAt src (j + gs)) s i) out.1 r.1 ∧
      Filled (fun i => lo ≤ i ∧ i < hi) (fun i => i + gw)
        (fun i => |highVal 4 (fun j => valAt src (j + gs)) s i|) out.2 r.2 := by
  subst hs2
  obtain ⟨r, hr, h1, h2⟩ := loop1_store2 lo hi (fun i => i + gw)
    (fun i => low_k4 src (i - 2 * s + gs) (i - s + gs) (i + s + gs) (i + 2 * s + gs))
    (fun i => fabs (high_k4 src (i - 2 * s + gs) (i - s + gs) (i + gs) (i + s + gs)
      (i + 2 * s + gs)))
    (fun i => lowVal 4 (fun j => valAt src (j + gs)) s i)
    (fun i => |highVal 4 (fun j => valAt src (j + gs)) s i|) out
    (fun i hl hh => by
      obtain ⟨hb, h3, h4⟩ := h i hl hh
      refine ⟨hb, ?_, ?_⟩
      · dsimp only
        rw [low_k4_eq (by omega) (by omega) (by omega) (by omega)]
        simp [lowVal]
      · dsimp only
        rw [high_k4_eq (by omega) (by omega) (by omega) (by omega) (by omega), fabs_some]
        simp [highVal])
  exact ⟨r, hr, h1.filled1, h2.filled1⟩

theorem mean1D_k2 (src : Arr) (gs gw s lo hi : Int) (out : Arr) (hs : 0 ≤ s)
    (h : ∀ i, lo ≤ i → i < hi →
      (0 ≤ i + gw ∧ i + gw < out.length) ∧ 0 ≤ i - s + gs ∧ i + s + gs < src.length) :
    ∃ r, forRange lo hi (fun i o => assign o (i + gw)
        (scale (1 / 2) (sum_k2 src (i - s + gs) (i + gs) (i + s + gs)))) out = some r ∧
      Filled (fun i => lo ≤ i ∧ i < hi) (fun i => i + gw)
        (fun i => meanCoef 2 * sumVal 2 (fun j => valAt src (j + gs)) s i) out r := by
  obtain ⟨r, hr, h1⟩ := loop1_assign lo hi (fun i => i + gw)
    (fun i => scale (1 / 2) (sum_k2 src (i - s + gs) (i + gs) (i + s + gs)))
    (fun i => meanCoef 2 * sumVal 2 (fun j => valAt src (j + gs)) s i) out
    (fun i hl hh => by
      obtain ⟨hb, h3, h4⟩ := h i hl hh
      refine ⟨hb, ?_⟩
      dsimp only
      rw [sum_k2_eq (by omega) (by omega) (by omega), scale_some]
      simp [sumVal, meanCoef])
  exact ⟨r, hr, h1.filled1⟩

theorem mean1D_k4 (src : Arr) (gs gw s s2 lo hi : Int) (out : Arr) (hs : 0 ≤ s)
    (hs2 : s2 = 2 * s)
    (h : ∀ i, lo ≤ i → i < hi →
      (0 ≤ i + gw ∧ i + gw < out.length) ∧ 0 ≤ i - s2 + gs ∧ i + s2 + gs < src.length) :
    ∃ r, forRange lo hi (fun i o => assign o (i + gw)
        (scale (1 / 6) (sum_k4 src (i - s2 + gs) (i - s + gs) (i + gs) (i + s + gs)
          (i + s2 + gs)))) out = some r ∧
      Filled (fun i => lo ≤ i ∧ i < hi) (fun i => i + gw)
        (fun i => meanCoef 4 * sumVal 4 (fun j => valAt src (j + gs)) s i) out r := by
  subst hs2
  obtain ⟨r, hr, h1⟩ := loop1_assign lo hi (fun i => i + gw)
    (fun i => scale (1 / 6) (sum_k4 src (i - 2 * s + gs) (i - s + gs) (i + gs) (i + s + gs)
      (i + 2 * s + gs)))
    (fun i => meanCoef 4 * sumVal 4 (fun j => valAt src (j + gs)) s i) out
    (fun i hl hh => by
      obtain ⟨hb, h3, h4⟩ := h i hl hh
      refine ⟨hb, ?_⟩
      dsimp only
      rw [sum_k4_eq (by omega) (by omega) (by omega) (by omega) (by omega), scale_some]
      simp [sumVal, meanCoef])
  exact ⟨r, hr, h1.filled1⟩

/-! ## Per-level buffers -/

theorem getElem?_level {xs : List Arr} {li : Nat} (h : li < xs.length) :
    xs[li]? = some (level xs li) := by
  simp [level, List.getD_eq_getElem?_getD, List.getElem?_eq_getElem h]

theorem level_set_self {xs : List Arr} {li : Nat} (a : Arr) (h : li < xs.length) :
    level (xs.set li a) li = a := by
  simp [level, List.getD_eq_getElem?_getD, h]

theorem level_set_ne {xs : List Arr} {li lj : Nat} (a : Arr) (h : li ≠ lj) :
    level (xs.set li a) lj = level xs lj := by
  simp [level, List.getD_eq_getElem?_getD, List.getElem?_set_ne h]

theorem level_replicate {n li : Nat} (a : Arr) (h : li < n) :
    level (List.replicate n a) li = a := by
  simp [level, List.getD_eq_getElem?_getD, List.getElem?_replicate, h]

/-! ## Levels of the 1-D transform -/

theorem level0_1D_step (wt : WaveletTransformHarten) (N gc gw : IntVector)
    (cd : CellData) (depth : Nat) (smooth : Bool) (sm : Option CellData) (comp : Bool)
    (st : State) (f : Arr)
    (hk : wt.d_k = 2 ∨ wt.d_k = 4) (hp : wt.d_p = halfWidth wt.d_k)
    (hsel : selectInput smooth sm cd depth 0 = some f)
    (hlf : (f.length : Int) = N 0 + 2 * gc 0)
    (hG : wt.d_num_wavelet_ghosts 0 ≤ gw 0) (hg : gw 0 ≤ gc 0) (hpG : wt.d_p ≤ wt.d_num_wavelet_ghosts 0)
    (hfx : 0 < st.f_x.length) (hw : 0 < st.w.length)
    (hlfx : ((level st.f_x 0).length : Int) = N 0 + 2 * gw 0)
    (hlw : ((level st.w 0).length : Int) = N 0 + 2 * gw 0)
    (hm : comp = true → 0 < st.f_mean.length ∧
      ((level st.f_mean 0).length : Int) = N 0 + 2 * gw 0) :
    ∃ fx w fm, level0_1D wt N gc gw cd depth smooth sm comp st
        = Except.ok { st with f_x := st.f_x.set 0 fx, w := st.w.set 0 w, f_mean := fm } ∧
      Filled (fun i => -wt.d_num_wavelet_ghosts 0 + wt.d_p * 2 ^ 0 ≤ i ∧
          i < N 0 + wt.d_num_wavelet_ghosts 0 - wt.d_p * 2 ^ 0) (fun i => i + gw 0)
        (fun i => lowVal wt.d_k (fun j => valAt f (j + gc 0)) (2 ^ 0) i) (level st.f_x 0) fx ∧
      Filled (fun i => -wt.d_num_wavelet_ghosts 0 + wt.d_p * 2 ^ 0 ≤ i ∧
          i < N 0 + wt.d_num_wavelet_ghosts 0 - wt.d_p * 2 ^ 0) (fun i => i + gw 0)
        (fun i => |highVal wt.d_k (fun j => valAt f (j + gc 0)) (2 ^ 0) i|) (level st.w 0) w ∧
      (comp = true → ∃ m, fm = st.f_mean.set 0 m ∧
        Filled (fun i => 0 ≤ i ∧ i < N 0) (fun i => i + gw 0)
          (fun i => meanCoef wt.d_k * sumVal wt.d_k (fun j => valAt f (j + gc 0)) (2 ^ 0) i)
          (level st.f_mean 0) m) ∧
      (comp = false → fm = st.f_mean) := by
  have hfx' := getElem?_level hfx
  have hw' := getElem?_level hw
  rcases hk with hk | hk
  · have hp1 : wt.d_p = 1 := by rw [hp, hk]; rfl
    obtain ⟨r, hr, hF1, hF2⟩ := pass1D_k2 f (gc 0) (gw 0) 1
      (-wt.d_num_wavelet_ghosts 0 + 1) (N 0 + wt.d_num_wavelet_ghosts 0 - 1)
      (level st.f_x 0, level st.w 0) (by omega) (fun i h1 h2 => by
        dsimp only
        omega)
    simp only [hk, hp1, pow_zero, mul_one]
    cases comp with
    | false =>
      refine ⟨r.1, r.2, st.f_mean, ?_, hF1, hF2, fun h => absurd h (by decide), fun _ => rfl⟩
      unfold level0_1D
      simp only [hk, if_true, hsel, lift_some, ok_bind, onLevel2_some hfx' hw' hr]
      rfl
    | true =>
      obtain ⟨hm1, hm2⟩ := hm rfl
      obtain ⟨m, hmr, hFm⟩ := mean1D_k2 f (gc 0) (gw 0) 1 0 (N 0) (level st.f_mean 0) (by omega)
        (fun i h1 h2 => by omega)
      refine ⟨r.1, r.2, st.f_mean.set 0 m, ?_, hF1, hF2, fun _ => ⟨m, rfl, hFm⟩,
        fun h => absurd h (by decide)⟩
      unfold level0_1D
      simp only [hk, if_true, hsel, lift_some, ok_bind, onLevel2_some hfx' hw' hr,
        onLevel1_some (getElem?_level hm1) hmr]
      rfl
  · have hp1 : wt.d_p = 2 := by rw [hp, hk]; rfl
    obtain ⟨r, hr, hF1, hF2⟩ := pass1D_k4 f (gc 0) (gw 0) 1 2
      (-wt.d_num_wavelet_ghosts 0 + 2) (N 0 + wt.d_num_wavelet_ghosts 0 - 2)
      (level st.f_x 0, level st.w 0) (by omega) (by omega) (fun i h1 h2 => by
        dsimp only
        omega)
    simp only [hk, hp1, pow_zero, mul_one]
    cases comp with
    | false =>
      refine ⟨r.1, r.2, st.f_mean, ?_, hF1, hF2, fun h => absurd h (by decide), fun _ => rfl⟩
      unfold level0_1D
      simp only [hk, show ¬ ((4 : Int) = 2) by decide, if_true, if_false, hsel, lift_some,
        ok_bind, onLevel2_some hfx' hw' hr]
      rfl
    | true =>
      obtain ⟨hm1, hm2⟩ := hm rfl
      obtain ⟨m, hmr, hFm⟩ := mean1D_k4 f (gc 0) (gw 0) 1 2 0 (N 0) (level st.f_mean 0)
        (by omega) (by omega) (fun i h1 h2 => by omega)
      refine ⟨r.1, r.2, st.f_mean.set 0 m, ?_, hF1, hF2, fun _ => ⟨m, rfl, hFm⟩,
        fun h => absurd h (by decide)⟩
      unfold level0_1D
      simp only [hk, show ¬ ((4 : Int) = 2) by decide, if_true, if_false, hsel, lift_some,
        ok_bind, onLevel2_some hfx' hw' hr, onLevel1_some (getElem?_level hm1) hmr]
      rfl

theorem levelUp_1D_step (wt : WaveletTransformHarten) (N gw : IntVector) (comp : Bool)
    (li : Nat) (st : State)
    (hk : wt.d_k = 2 ∨ wt.d_k = 4) (hp : wt.d_p = halfWidth wt.d_k)
    (hG : wt.d_num_wavelet_ghosts 0 ≤ gw 0)
    (hsG : wt.d_p * 2 ^ li ≤ wt.d_num_wavelet_ghosts 0)
    (hli : 1 ≤ li) (hfx : li < st.f_x.length) (hw : li < st.w.length)
    (hlsrc : ((level st.f_x (li - 1)).length : Int) = N 0 + 2 * gw 0)
    (hlfx : ((level st.f_x li).length : Int) = N 0 + 2 * gw 0)
    (hlw : ((level st.w li).length : Int) = N 0 + 2 * gw 0)
    (hm : comp = true → li < st.f_mean.length ∧
      ((level st.f_mean li).length : Int) = N 0 + 2 * gw 0) :
    ∃ fx w fm, levelUp_1D wt N gw comp li st
        = Except.ok { st with f_x := st.f_x.set li fx, w := st.w.set li w, f_mean := fm } ∧
      Filled (fun i => -wt.d_num_wavelet_ghosts 0 + wt.d_p * 2 ^ li ≤ i ∧
          i < N 0 + wt.d_num_wavelet_ghosts 0 - wt.d_p * 2 ^ li) (fun i => i + gw 0)
        (fun i => lowVal wt.d_k (fun j => valAt (level st.f_x (li - 1)) (j + gw 0)) (2 ^ li) i)
        (level st.f_x li) fx ∧
      Filled (fun i => -wt.d_num_wavelet_ghosts 0 + wt.d_p * 2 ^ li ≤ i ∧
          i < N 0 + wt.d_num_wavelet_ghosts 0 - wt.d_p * 2 ^ li) (fun i => i + gw 0)
        (fun i => |highVal wt.d_k (fun j => valAt (level st.f_x (li - 1)) (j + gw 0)) (2 ^ li) i|)
        (level st.w li) w ∧
      (comp = true → ∃ m, fm = st.f_mean.set li m ∧
        Filled (fun i => 0 ≤ i ∧ i < N 0) (fun i => i + gw 0)
          (fun i => meanCoef wt.d_k *
            sumVal wt.d_k (fun j => valAt (level st.f_x (li - 1)) (j + gw 0)) (2 ^ li) i)
          (level st.f_mean li) m) ∧
      (comp = false → fm = st.f_mean) := by
  have hfx' := getElem?_level hfx
  have hw' := getElem?_level hw
  have hsrc' : st.f_x[li - 1]? = some (level st.f_x (li - 1)) := getElem?_level (by omega)
  have hs : (0 : Int) ≤ 2 ^ li := by positivity
  rcases hk with hk | hk
  · have hp1 : wt.d_p = 1 := by rw [hp, hk]; rfl
    rw [hp1] at hsG
    obtain ⟨r, hr, hF1, hF2⟩ := pass1D_k2 (level st.f_x (li - 1)) (gw 0) (gw 0) (2 ^ li)
      (-wt.d_num_wavelet_ghosts 0 + 2 ^ li) (N 0 + wt.d_num_wavelet_ghosts 0 - 2 ^ li)
      (level st.f_x li, level st.w li) hs (fun i h1 h2 => by
        dsimp only
        omega)
    simp only [hk, hp1, one_mul]
    cases comp with
    | false =>
      refine ⟨r.1, r.2, st.f_mean, ?_, hF1, hF2, fun h => absurd h (by decide), fun _ => rfl⟩
      unfold levelUp_1D
      simp only [hk, if_true, hsrc', lift_some, ok_bind, onLevel2_some hfx' hw' hr]
      rfl
    | true =>
      obtain ⟨hm1, hm2⟩ := hm rfl
      obtain ⟨m, hmr, hFm⟩ := mean1D_k2 (level st.f_x (li - 1)) (gw 0) (gw 0) (2 ^ li) 0 (N 0)
        (level st.f_mean li) hs (fun i h1 h2 => by omega)
      refine ⟨r.1, r.2, st.f_mean.set li m, ?_, hF1, hF2, fun _ => ⟨m, rfl, hFm⟩,
        fun h => absurd h (by decide)⟩
      unfold levelUp_1D
      simp only [hk, if_true, hsrc', lift_some, ok_bind, onLevel2_some hfx' hw' hr,
        onLevel1_some (getElem?_level hm1) hmr]
      rfl
  · have hp1 : wt.d_p = 2 := by rw [hp, hk]; rfl
    rw [hp1] at hsG
    obtain ⟨r, hr, hF1, hF2⟩ := pass1D_k4 (level st.f_x (li - 1)) (gw 0) (gw 0) (2 ^ li)
      (2 * 2 ^ li)
      (-wt.d_num_wavelet_ghosts 0 + 2 * 2 ^ li) (N 0 + wt.d_num_wavelet_ghosts 0 - 2 * 2 ^ li)
      (level st.f_x li, level st.w li) hs rfl (fun i h1 h2 => by
        dsimp only
        omega)
    simp only [hk, hp1]
    cases comp with
    | false =>
      refine ⟨r.1, r.2, st.f_mean, ?_, hF1, hF2, fun h => absurd h (by decide), fun _ => rfl⟩
      unfold levelUp_1D
      simp only [hk, show ¬ ((4 : Int) = 2) by decide, if_true, if_false, hsrc', lift_some,
        ok_bind, onLevel2_some hfx' hw' hr]
      rfl
    | true =>
      obtain ⟨hm1, hm2⟩ := hm rfl
      obtain ⟨m, hmr, hFm⟩ := mean1D_k4 (level st.f_x (li - 1)) (gw 0) (gw 0) (2 ^ li)
        (2 * 2 ^ li) 0 (N 0) (level st.f_mean li) hs rfl (fun i h1 h2 => by omega)
      refine ⟨r.1, r.2, st.f_mean.set li m, ?_, hF1, hF2, fun _ => ⟨m, rfl, hFm⟩,
        fun h => absurd h (by decide)⟩
      unfold levelUp_1D
      simp only [hk, show ¬ ((4 : Int) = 2) by decide, if_true, if_false, hsrc', lift_some,
        ok_bind, onLevel2_some hfx' hw' hr, onLevel1_some (getElem?_level hm1) hmr]
      rfl

/-! ## The level loop -/

theorem natRange_cons {lo hi : Nat} (h : lo < hi) :
    natRange lo hi = lo :: natRange (lo + 1) hi := by
  unfold natRange
  have e : hi - lo = (hi - (lo + 1)) + 1 := by omega
  rw [e, List.range_succ_eq_map, List.map_cons, List.map_map]
  congr 1
  apply List.map_congr_left
  intro a _
  simp only [Function.comp, Nat.succ_eq_add_one]
  omega

theorem natRange_nil {lo hi : Nat} (h : hi ≤ lo) : natRange lo hi = [] := by
  unfold natRange
  have e : hi - lo = 0 := by omega
  rw [e]
  rfl

theorem foldlM_natRange_inv {σ : Type} (f : σ → Nat → Except Err σ) (P : Nat → σ → Prop)
    (lo hi : Nat) (hle : lo ≤ hi) (s : σ) (h0 : P lo s)
    (hstep : ∀ n s, lo ≤ n → n < hi → P n s → ∃ s', f s n = Except.ok s' ∧ P (n + 1) s') :
    ∃ s', (natRange lo hi).foldlM f s = Except.ok s' ∧ P hi s' := by
  obtain ⟨k, hk⟩ : ∃ k, hi - lo = k := ⟨_, rfl⟩
  induction k generalizing lo s with
  | zero =>
    have e : hi = lo := by omega
    subst e
    rw [natRange_nil (le_refl _)]
    exact ⟨s, rfl, h0⟩
  | succ k ih =>
    have hlt : lo < hi := by omega
    obtain ⟨s1, hs1, hP1⟩ := hstep lo s (le_refl _) hlt h0
    obtain ⟨s', hs', hP'⟩ := ih (lo + 1) (by omega) s1 hP1
      (fun n s hn hn' hP => hstep n s (by omega) hn' hP) (by omega)
    refine ⟨s', ?_, hP'⟩
    rw [natRange_cons hlt, List.foldlM_cons, hs1]
    exact hs'

theorem pow_step_le {p : Int} (hp : 0 ≤ p) {li L : Nat} (h : li ≤ L) :
    p * 2 ^ li ≤ p * (2 ^ (L + 1) - 1) := by
  have h1 : (2 : Int) ^ li ≤ 2 ^ L := pow_le_pow_right₀ (by norm_num) h
  have h2 : (2 : Int) ^ (L + 1) = 2 * 2 ^ L := by ring
  have h3 : (1 : Int) ≤ 2 ^ L := one_le_pow₀ (by norm_num)
  exact mul_le_mul_of_nonneg_left (by omega) hp

theorem lowIn1D_congr {gc gw : IntVector} {f : Arr} {fx fx' : List Arr} {li : Nat}
    (h : li ≠ 0 → level fx' (li - 1) = level fx (li - 1)) :
    lowIn1D gc gw f fx' li = lowIn1D gc gw f fx li := by
  funext j
  unfold lowIn1D
  split
  · rfl
  · rename_i h0
    rw [h h0]

theorem Level1D_congr {wt : WaveletTransformHarten} {N gc gw : IntVector} {f : Arr}
    {w0 m0 : List Arr} {comp : Bool} {st st' : State} {li : Nat}
    (h1 : level st'.f_x li = level st.f_x li)
    (h2 : li ≠ 0 → level st'.f_x (li - 1) = level st.f_x (li - 1))
    (h3 : level st'.w li = level st.w li) (h4 : level st'.f_mean li = level st.f_mean li)
    (h : Level1D wt N gc gw f w0 m0 comp st li) : Level1D wt N gc gw f w0 m0 comp st' li := by
  unfold Level1D at h ⊢
  rw [h1, h3, h4, lowIn1D_congr h2]
  exact h

theorem Inv1D_step {wt : WaveletTransformHarten} {N gc gw : IntVector} {f : Arr}
    {w0 m0 : List Arr} {comp : Bool} {n : Nat} {st : State}
    (hinv : Inv1D wt N gc gw f w0 m0 comp n st) (hn : n < wt.d_num_level) (fx w : Arr)
    (fm : List Arr)
    (hF1 : Filled (fun i => -wt.d_num_wavelet_ghosts 0 + wt.d_p * 2 ^ n ≤ i ∧
        i < N 0 + wt.d_num_wavelet_ghosts 0 - wt.d_p * 2 ^ n) (fun i => i + gw 0)
      (fun i => lowVal wt.d_k (lowIn1D gc gw f st.f_x n) (2 ^ n) i) (level st.f_x n) fx)
    (hF2 : Filled (fun i => -wt.d_num_wavelet_ghosts 0 + wt.d_p * 2 ^ n ≤ i ∧
        i < N 0 + wt.d_num_wavelet_ghosts 0 - wt.d_p * 2 ^ n) (fun i => i + gw 0)
      (fun i => |highVal wt.d_k (lowIn1D gc gw f st.f_x n) (2 ^ n) i|) (level st.w n) w)
    (hm1 : comp = true → ∃ m, fm = st.f_mean.set n m ∧
      Filled (fun i => 0 ≤ i ∧ i < N 0) (fun i => i + gw 0)
        (fun i => meanCoef wt.d_k * sumVal wt.d_k (lowIn1D gc gw f st.f_x n) (2 ^ n) i)
        (level st.f_mean n) m)
    (hm2 : comp = false → fm = st.f_mean) :
    Inv1D wt N gc gw f w0 m0 comp (n + 1)
      { st with f_x := st.f_x.set n fx, w := st.w.set n w, f_mean := fm } := by
  obtain ⟨hlx, hlw, hlm, hlen, hdone, hrest⟩ := hinv
  have hfm : ∀ li, li ≠ n → level fm li = level st.f_mean li := by
    intro li hli
    cases hc : comp with
    | false => rw [hm2 hc]
    | true =>
      obtain ⟨m, hm, _⟩ := hm1 hc
      rw [hm, level_set_ne _ (Ne.symm hli)]
  refine ⟨by simpa using hlx, by simpa using hlw, ?_, ?_, ?_, ?_⟩
  · intro hc
    obtain ⟨m, hm, _⟩ := hm1 hc
    rw [hm]
    simpa using hlm hc
  · intro li hli
    obtain ⟨h1, h2, h3⟩ := hlen li hli
    by_cases e : li = n
    · subst e
      refine ⟨?_, ?_, ?_⟩
      · show ((level (st.f_x.set li fx) li).length : Int) = _
        rw [level_set_self _ (by omega), hF1.1]
        exact h1
      · show ((level (st.w.set li w) li).length : Int) = _
        rw [level_set_self _ (by omega), hF2.1]
        exact h2
      · intro hc
        obtain ⟨m, hm, hFm⟩ := hm1 hc
        show ((level fm li).length : Int) = _
        rw [hm, level_set_self _ (by rw [hlm hc]; exact hli), hFm.1]
        exact h3 hc
    · refine ⟨?_, ?_, ?_⟩
      · show ((level (st.f_x.set n fx) li).length : Int) = _
        rw [level_set_ne _ (Ne.symm e)]
        exact h1
      · show ((level (st.w.set n w) li).length : Int) = _
        rw [level_set_ne _ (Ne.symm e)]
        exact h2
      · intro hc
        show ((level fm li).length : Int) = _
        rw [hfm li e]
        exact h3 hc
  · intro li hli
    by_cases e : li = n
    · subst e
      obtain ⟨r1, r2, r3⟩ := hrest li (le_refl _) hn
      have hcongr : lowIn1D gc gw f (st.f_x.set li fx) li = lowIn1D gc gw f st.f_x li :=
        lowIn1D_congr (fun h0 => level_set_ne _ (by omega))
      unfold Level1D
      refine ⟨?_, ?_, ?_⟩
      · show Filled _ _ (fun i => lowVal wt.d_k (lowIn1D gc gw f (st.f_x.set li fx) li) _ i) _
          (level (st.f_x.set li fx) li)
        rw [hcongr, level_set_self _ (by omega), ← r1]
        exact hF1
      · show Filled _ _ (fun i => |highVal wt.d_k (lowIn1D gc gw f (st.f_x.set li fx) li) _ i|) _
          (level (st.w.set li w) li)
        rw [hcongr, level_set_self _ (by omega), ← r2]
        exact hF2
      · intro hc
        obtain ⟨m, hm, hFm⟩ := hm1 hc
        show Filled _ _ (fun i => meanCoef wt.d_k *
          sumVal wt.d_k (lowIn1D gc gw f (st.f_x.set li fx) li) _ i) _ (level fm li)
        rw [hcongr, hm, level_set_self _ (by rw [hlm hc]; exact hn), ← r3]
        exact hFm
    · have hlt : li < n := by omega
      exact @Level1D_congr wt N gc gw f w0 m0 comp st _ li (level_set_ne _ (by omega))
        (fun _ => level_set_ne _ (by omega)) (level_set_ne _ (by omega)) (hfm li e)
        (hdone li hlt)
  · intro li h1 h2
    obtain ⟨r1, r2, r3⟩ := hrest li (by omega) h2
    refine ⟨?_, ?_, ?_⟩
    · show level (st.f_x.set n fx) li = _
      rw [level_set_ne _ (by omega)]
      exact r1
    · show level (st.w.set n w) li = _
      rw [level_set_ne _ (by omega)]
      exact r2
    · show level fm li = _
      rw [hfm li (by omega)]
      exact r3

theorem lowIn1D_zero (gc gw : IntVector) (f : Arr) (fx : List Arr) :
    lowIn1D gc gw f fx 0 = fun j => valAt f (j + gc 0) := by
  funext j
  simp [lowIn1D]

theorem lowIn1D_succ (gc gw : IntVector) (f : Arr) (fx : List Arr) {li : Nat} (h : 1 ≤ li) :
    lowIn1D gc gw f fx li = fun j => valAt (level fx (li - 1)) (j + gw 0) := by
  funext j
  have : li ≠ 0 := by omega
  simp [lowIn1D, this]

/-- The 1-D branch runs to completion and leaves every level as specified, for
every ghost width `G` that covers the step `p*2^li` of every level. -/
theorem transform1D_spec_le (wt : WaveletTransformHarten) (N gc gw : IntVector)
    (cd : CellData) (depth : Nat) (smooth : Bool) (sm : Option CellData) (comp : Bool)
    (w f_mean : List Arr) (f : Arr)
    (hk : wt.d_k = 2 ∨ wt.d_k = 4) (hp : wt.d_p = halfWidth wt.d_k)
    (hL : 1 ≤ wt.d_num_level)
    (hsG : ∀ li, li < wt.d_num_level → wt.d_p * 2 ^ li ≤ wt.d_num_wavelet_ghosts 0)
    (hG : wt.d_num_wavelet_ghosts 0 ≤ gw 0) (hg : gw 0 ≤ gc 0)
    (hsize : 0 ≤ N 0 + 2 * gw 0)
    (hsel : selectInput smooth sm cd depth 0 = some f)
    (hlf : (f.length : Int) = N 0 + 2 * gc 0)
    (hw : w.length = wt.d_num_level)
    (hwl : ∀ li, li < wt.d_num_level → ((level w li).length : Int) = N 0 + 2 * gw 0)
    (hm : comp = true → f_mean.length = wt.d_num_level ∧
      ∀ li, li < wt.d_num_level → ((level f_mean li).length : Int) = N 0 + 2 * gw 0) :
    ∃ st, transform1D wt N gc gw cd depth smooth sm comp w f_mean = Except.ok st ∧
      Inv1D wt N gc gw f w f_mean comp wt.d_num_level st := by
  have hp0 : 0 ≤ wt.d_p := by
    rw [hp]
    rcases hk with hk | hk <;> rw [hk] <;> decide
  have hpG : wt.d_p ≤ wt.d_num_wavelet_ghosts 0 := by
    have := hsG 0 (by omega)
    simpa using this
  have hbs : boxSize 1 (fun d => N d + 2 * gw d) = N 0 + 2 * gw 0 := boxSize_one _
  have hinv0 : Inv1D wt N gc gw f w f_mean comp 0
      { w := w, f_mean := f_mean, f_x := List.replicate wt.d_num_level (zeros (N 0 + 2 * gw 0)),
        f_y := [], f_z := [], w_x := [], w_y := [], w_z := [] } := by
    refine ⟨by simp, hw, fun hc => (hm hc).1, fun li hli => ⟨?_, hwl li hli,
      fun hc => (hm hc).2 li hli⟩, fun li hli => absurd hli (by omega),
      fun li _ hli => ⟨?_, rfl, rfl⟩⟩
    · show ((level (List.replicate _ _) li).length : Int) = _
      rw [level_replicate _ hli]
      exact zeros_length hsize
    · show level (List.replicate _ _) li = _
      exact level_replicate _ hli
  obtain ⟨hlx, hlw, hlm, hlen, _, _⟩ := id hinv0
  obtain ⟨fx, w1, fm, hrun, hF1, hF2, hm1, hm2⟩ := level0_1D_step wt N gc gw cd depth smooth sm
    comp _ f hk hp hsel hlf hG hg hpG (by rw [hlx]; omega) (by rw [hlw]; omega)
    (hlen 0 (by omega)).1 (hlen 0 (by omega)).2.1
    (fun hc => ⟨by rw [hlm hc]; omega, (hlen 0 (by omega)).2.2 hc⟩)
  have hinv1 := Inv1D_step hinv0 (by omega) fx w1 fm
    (by rw [lowIn1D_zero]; exact hF1) (by rw [lowIn1D_zero]; exact hF2)
    (by rw [lowIn1D_zero]; exact hm1) hm2
  obtain ⟨st, hst, hinvL⟩ := foldlM_natRange_inv
    (fun st li => levelUp_1D wt N gw comp li st)
    (fun n st => Inv1D wt N gc gw f w f_mean comp n st) 1 wt.d_num_level hL _ hinv1
    (fun n st hn1 hn2 hinv => by
      obtain ⟨hlx, hlw, hlm, hlen, _, _⟩ := id hinv
      obtain ⟨fx, w1, fm, hrun, hF1, hF2, hm1, hm2⟩ := levelUp_1D_step wt N gw comp n st hk hp
        hG (hsG n hn2) hn1 (by rw [hlx]; exact hn2) (by rw [hlw]; exact hn2)
        (hlen (n - 1) (by omega)).1 (hlen n hn2).1 (hlen n hn2).2.1
        (fun hc => ⟨by rw [hlm hc]; exact hn2, (hlen n hn2).2.2 hc⟩)
      exact ⟨_, hrun, Inv1D_step hinv hn2 fx w1 fm
        (by rw [lowIn1D_succ _ _ _ _ hn1]; exact hF1) (by rw [lowIn1D_succ _ _ _ _ hn1]; exact hF2)
        (by rw [lowIn1D_succ _ _ _ _ hn1]; exact hm1) hm2⟩)
  refine ⟨st, ?_, hinvL⟩
  unfold transform1D
  simp only [hbs]
  rw [hrun]
  exact hst

/-- The 1-D branch runs to completion and leaves every level as specified. -/
theorem transform1D_spec (wt : WaveletTransformHarten) (N gc gw : IntVector)
    (cd : CellData) (depth : Nat) (smooth : Bool) (sm : Option CellData) (comp : Bool)
    (w f_mean : List Arr) (f : Arr)
    (hk : wt.d_k = 2 ∨ wt.d_k = 4) (hp : wt.d_p = halfWidth wt.d_k)
    (hL : 1 ≤ wt.d_num_level)
    (hGeq : wt.d_num_wavelet_ghosts 0 = wt.d_p * (2 ^ (wt.d_num_level + 1) - 1))
    (hG : wt.d_num_wavelet_ghosts 0 ≤ gw 0) (hg : gw 0 ≤ gc 0)
    (hsize : 0 ≤ N 0 + 2 * gw 0)
    (hsel : selectInput smooth sm cd depth 0 = some f)
    (hlf : (f.length : Int) = N 0 + 2 * gc 0)
    (hw : w.length = wt.d_num_level)
    (hwl : ∀ li, li < wt.d_num_level → ((level w li).length : Int) = N 0 + 2 * gw 0)
    (hm : comp = true → f_mean.length = wt.d_num_level ∧
      ∀ li, li < wt.d_num_level → ((level f_mean li).length : Int) = N 0 + 2 * gw 0) :
    ∃ st, transform1D wt N gc gw cd depth smooth sm comp w f_mean = Except.ok st ∧
      Inv1D wt N gc gw f w f_mean comp wt.d_num_level st := by
  have hp0 : 0 ≤ wt.d_p := by
    rw [hp]
    rcases hk with hk | hk <;> rw [hk] <;> decide
  exact transform1D_spec_le wt N gc gw cd depth smooth sm comp w f_mean f hk hp hL
    (fun li hli => by
      rw [hGeq]
      exact pow_step_le hp0 (by omega))
    hG hg hsize hsel hlf hw hwl hm

/-! ## Entry of the transform -/

theorem allSome_map {α β : Type} (l : List α) (g : α → Option β) (h : α → β)
    (hg : ∀ x, x ∈ l → g x = some (h x)) : allSome (l.map g) = some (l.map h) := by
  induction l with
  | nil => rfl
  | cons a l ih =>
    rw [List.map_cons, hg a (List.mem_cons_self _ _)]
    simp only [allSome, ih (fun x hx => hg x (List.mem_cons_of_mem _ hx)), Option.map_some',
      List.map_cons]

theorem level_map_natRange {L li : Nat} (h : Nat → Arr) (hli : li < L) :
    level ((natRange 0 L).map h) li = h li := by
  rw [natRange_zero]
  simp [level, List.getD_eq_getElem?_getD, List.getElem?_range hli, hli]

theorem outBuffers_length (fields : List CellData) (L : Nat) :
    (outBuffers fields L).length = L := by
  simp [outBuffers, natRange]

theorem outBuffers_level {fields : List CellData} {L li : Nat} {size : Int}
    (hL : L ≤ fields.length) (hli : li < L)
    (hf : ∀ c, c ∈ fields → ∃ a, c.getPointer 0 = some a ∧ (a.length : Int) = size) :
    (fields[li]?).bind (fun c => c.getPointer 0) = some (level (outBuffers fields L) li) ∧
      ((level (outBuffers fields L) li).length : Int) = size := by
  have hlt : li < fields.length := by omega
  obtain ⟨a, ha, hlen⟩ := hf fields[li] (List.getElem_mem _)
  have e : (fields[li]?).bind (fun c => c.getPointer 0) = some a := by
    rw [List.getElem?_eq_getElem hlt]
    exact ha
  have e2 : level (outBuffers fields L) li = a := by
    unfold outBuffers
    rw [level_map_natRange _ hli, e]
    rfl
  rw [e2]
  exact ⟨e, hlen⟩

theorem fillZero_eq_zeros {a : Arr} {size : Int} (h : (a.length : Int) = size) :
    fillZero a = zeros size := by
  unfold fillZero zeros
  congr 1
  omega

theorem level_map {xs : List Arr} {li : Nat} (g : Arr → Arr) (h : li < xs.length) :
    level (xs.map g) li = g (level xs li) := by
  simp [level, List.getD_eq_getElem?_getD, List.getElem?_eq_getElem h]

theorem coefGhosts_eq {wcs : List CellData} {c : CellData} (h : wcs[0]? = some c) :
    coefGhosts wcs = c.ghosts := by
  simp [coefGhosts, h]

/-- Under the call conditions the computation reaches the branch of its
dimension with the zero-filled outputs, the local-mean buffers as supplied and
the smoothed copy when requested. -/
theorem transformBody_unfold (sqrt : ℚ → ℚ) (wt : WaveletTransformHarten) (N : IntVector)
    (cd : CellData) (wcs means : List CellData) (depth : Nat) (smooth : Bool)
    (hpre : Pre wt N cd wcs means depth) (hL : 1 ≤ wt.d_num_level) :
    (smooth = true → ∃ s, smoothCellData wt N cd depth = some s) ∧
    transformBody sqrt wt N cd wcs means depth smooth =
      (if wt.d_dim = 1 then
        transform1D wt N cd.ghosts (coefGhosts wcs) cd depth smooth
          (smoothedOf wt N cd depth smooth) (!means.isEmpty)
          (w0Of wcs wt.d_num_level) (m0Of means wt.d_num_level)
      else if wt.d_dim = 2 then
        transform2D sqrt wt N cd.ghosts (coefGhosts wcs) cd depth smooth
          (smoothedOf wt N cd depth smooth) (!means.isEmpty)
          (w0Of wcs wt.d_num_level) (m0Of means wt.d_num_level)
      else
        transform3D sqrt wt N cd.ghosts (coefGhosts wcs) cd depth smooth
          (smoothedOf wt N cd depth smooth) (!means.isEmpty)
          (w0Of wcs wt.d_num_level) (m0Of means wt.d_num_level)) := by
  obtain ⟨f, hf, hlf⟩ := hpre.input
  have hcount := hpre.count
  have h0lt : 0 < wcs.length := by omega
  have h0 : wcs[0]? = some wcs[0] := List.getElem?_eq_getElem h0lt
  have hsm : smooth = true → ∃ s, smoothCellData wt N cd depth = some s := by
    intro _
    obtain ⟨s, hs, _⟩ := smoothCellData_spec wt N cd depth f hpre.dim hf hlf
    exact ⟨s, hs⟩
  refine ⟨hsm, ?_⟩
  have hw : allSome ((natRange 0 wt.d_num_level).map (fun li =>
      (wcs[li]?).bind (fun c => (c.getPointer 0).map fillZero)))
      = some (w0Of wcs wt.d_num_level) := by
    unfold w0Of outBuffers
    rw [List.map_map]
    apply allSome_map
    intro li hli
    have hlt : li < wcs.length := by
      have := (mem_natRange.1 hli).2
      omega
    obtain ⟨a, ha, _⟩ := hpre.coefs wcs[li] (List.getElem_mem _)
    simp [List.getElem?_eq_getElem hlt, ha]
  have hdim3 : wt.d_dim ≠ 1 → wt.d_dim ≠ 2 → wt.d_dim = 3 := by
    intro h1 h2
    rcases hpre.dim with h | h | h
    · exact absurd h h1
    · exact absurd h h2
    · exact h
  have hbr : ∀ (sm : Option CellData) (m : List Arr),
      sm = smoothedOf wt N cd depth smooth → m = m0Of means wt.d_num_level →
      (if wt.d_dim = 1 then
        transform1D wt N cd.ghosts wcs[0].ghosts cd depth smooth sm (!means.isEmpty)
          (w0Of wcs wt.d_num_level) m
      else if wt.d_dim = 2 then
        transform2D sqrt wt N cd.ghosts wcs[0].ghosts cd depth smooth sm (!means.isEmpty)
          (w0Of wcs wt.d_num_level) m
      else if wt.d_dim = 3 then
        transform3D sqrt wt N cd.ghosts wcs[0].ghosts cd depth smooth sm (!means.isEmpty)
          (w0Of wcs wt.d_num_level) m
      else pure { w := w0Of wcs wt.d_num_level, f_mean := m, f_x := [], f_y := [], f_z := [],
                  w_x := [], w_y := [], w_z := [] }) =
      (if wt.d_dim = 1 then
        transform1D wt N cd.ghosts wcs[0].ghosts cd depth smooth
          (smoothedOf wt N cd depth smooth) (!means.isEmpty)
          (w0Of wcs wt.d_num_level) (m0Of means wt.d_num_level)
      else if wt.d_dim = 2 then
        transform2D sqrt wt N cd.ghosts wcs[0].ghosts cd depth smooth
          (smoothedOf wt N cd depth smooth) (!means.isEmpty)
          (w0Of wcs wt.d_num_level) (m0Of means wt.d_num_level)
      else
        transform3D sqrt wt N cd.ghosts wcs[0].ghosts cd depth smooth
          (smoothedOf wt N cd depth smooth) (!means.isEmpty)
          (w0Of wcs wt.d_num_level) (m0Of means wt.d_num_level)) := by
    intro sm m hsm hm
    subst hsm hm
    by_cases h1 : wt.d_dim = 1
    · simp only [h1, if_true]
    · by_cases h2 : wt.d_dim = 2
      · simp only [h2, if_true, show ¬ (2 = 1) by omega, if_false]
      · simp only [h1, h2, if_false, hdim3 h1 h2, if_true]
  unfold transformBody
  simp only [h0, hf, lift_some, ok_bind, hw, coefGhosts_eq h0]
  have hsE : ∀ m : List Arr, m = m0Of means wt.d_num_level →
      (if smooth = true then do
          let y_1 ← Except.map some (lift (smoothCellData wt N cd depth))
          (if wt.d_dim = 1 then
            transform1D wt N cd.ghosts wcs[0].ghosts cd depth smooth y_1 (!means.isEmpty)
              (w0Of wcs wt.d_num_level) m
          else if wt.d_dim = 2 then
            transform2D sqrt wt N cd.ghosts wcs[0].ghosts cd depth smooth y_1 (!means.isEmpty)
              (w0Of wcs wt.d_num_level) m
          else if wt.d_dim = 3 then
            transform3D sqrt wt N cd.ghosts wcs[0].ghosts cd depth smooth y_1 (!means.isEmpty)
              (w0Of wcs wt.d_num_level) m
          else pure { w := w0Of wcs wt.d_num_level, f_mean := m, f_x := [], f_y := [],
                      f_z := [], w_x := [], w_y := [], w_z := [] })
        else do
          let y_1 ← pure none
          (if wt.d_dim = 1 then
            transform1D wt N cd.ghosts wcs[0].ghosts cd depth smooth y_1 (!means.isEmpty)
              (w0Of wcs wt.d_num_level) m
          else if wt.d_dim = 2 then
            transform2D sqrt wt N cd.ghosts wcs[0].ghosts cd depth smooth y_1 (!means.isEmpty)
              (w0Of wcs wt.d_num_level) m
          else if wt.d_dim = 3 then
            transform3D sqrt wt N cd.ghosts wcs[0].ghosts cd depth smooth y_1 (!means.isEmpty)
              (w0Of wcs wt.d_num_level) m
          else pure { w := w0Of wcs wt.d_num_level, f_mean := m, f_x := [], f_y := [],
                      f_z := [], w_x := [], w_y := [], w_z := [] })) =
      (if wt.d_dim = 1 then
        transform1D wt N cd.ghosts wcs[0].ghosts cd depth smooth
          (smoothedOf wt N cd depth smooth) (!means.isEmpty)
          (w0Of wcs wt.d_num_level) (m0Of means wt.d_num_level)
      else if wt.d_dim = 2 then
        transform2D sqrt wt N cd.ghosts wcs[0].ghosts cd depth smooth
          (smoothedOf wt N cd depth smooth) (!means.isEmpty)
          (w0Of wcs wt.d_num_level) (m0Of means wt.d_num_level)
      else
        transform3D sqrt wt N cd.ghosts wcs[0].ghosts cd depth smooth
          (smoothedOf wt N cd depth smooth) (!means.isEmpty)
          (w0Of wcs wt.d_num_level) (m0Of means wt.d_num_level)) := by
    intro m hm
    cases hsmooth : smooth with
    | false =>
      subst hsmooth
      exact hbr none m rfl hm
    | true =>
      subst hsmooth
      obtain ⟨s, hs⟩ := hsm rfl
      simp only [if_true, hs]
      exact hbr (some s) m (by simp [smoothedOf, hs]) hm
  rcases hpre.means with he | ⟨hlen, hmem⟩
  · subst he
    exact hsE [] rfl
  · have hne : means.isEmpty = false := by
      cases means with
      | nil => simp at hlen; omega
      | cons _ _ => rfl
    have hall : allSome ((natRange 0 wt.d_num_level).map (fun li =>
        (means[li]?).bind (fun c => c.getPointer 0)))
        = some (outBuffers means wt.d_num_level) := by
      unfold outBuffers
      apply allSome_map
      intro li hli
      have hlt : li < means.length := by
        have := (mem_natRange.1 hli).2
        omega
      obtain ⟨a, ha, _⟩ := hmem means[li] (List.getElem_mem _)
      simp [List.getElem?_eq_getElem hlt, ha]
    simp only [hne, Bool.not_false, if_true, hall, lift_some, ok_bind]
    have := hsE (outBuffers means wt.d_num_level) (by simp [m0Of, hne])
    simp only [hne, Bool.not_false] at this
    exact this

theorem w0Of_facts {wt : WaveletTransformHarten} {N : IntVector} {cd : CellData}
    {wcs means : List CellData} {depth : Nat} (hpre : Pre wt N cd wcs means depth) :
    (w0Of wcs wt.d_num_level).length = wt.d_num_level ∧
    ∀ li, li < wt.d_num_level →
      level (w0Of wcs wt.d_num_level) li =
        zeros (boxSize wt.d_dim (fun d => N d + 2 * coefGhosts wcs d)) ∧
      ((level (w0Of wcs wt.d_num_level) li).length : Int) =
        boxSize wt.d_dim (fun d => N d + 2 * coefGhosts wcs d) := by
  refine ⟨by simp [w0Of, outBuffers_length], fun li hli => ?_⟩
  obtain ⟨_, hlen⟩ := outBuffers_level (L := wt.d_num_level) hpre.count hli
    hpre.coefs
  have e : level (w0Of wcs wt.d_num_level) li =
      zeros (boxSize wt.d_dim (fun d => N d + 2 * coefGhosts wcs d)) := by
    unfold w0Of
    rw [level_map _ (by rw [outBuffers_length]; exact hli)]
    exact fillZero_eq_zeros hlen
  refine ⟨e, ?_⟩
  rw [e]
  exact zeros_length (by rw [← hlen]; exact Int.natCast_nonneg _)

theorem m0Of_facts {wt : WaveletTransformHarten} {N : IntVector} {cd : CellData}
    {wcs means : List CellData} {depth : Nat} (hpre : Pre wt N cd wcs means depth)
    (hc : (!means.isEmpty) = true) :
    (m0Of means wt.d_num_level).length = wt.d_num_level ∧
    ∀ li, li < wt.d_num_level →
      ((level (m0Of means wt.d_num_level) li).length : Int) =
        boxSize wt.d_dim (fun d => N d + 2 * coefGhosts wcs d) := by
  have hne : means.isEmpty = false := by simpa using hc
  rcases hpre.means with he | ⟨hlen, hmem⟩
  · subst he
    simp at hne
  · unfold m0Of
    simp only [hne, Bool.false_eq_true, if_false]
    exact ⟨outBuffers_length _ _, fun li hli =>
      (outBuffers_level hlen hli hmem).2⟩

theorem inputOf_facts {wt : WaveletTransformHarten} {N : IntVector} {cd : CellData}
    {wcs means : List CellData} {depth : Nat} (hpre : Pre wt N cd wcs means depth)
    (smooth : Bool) {a : Nat} (ha : a < wt.d_dim) :
    ∃ f, inputOf wt N cd depth smooth a = some f ∧
      selectInput smooth (smoothedOf wt N cd depth smooth) cd depth a = some f ∧
      (f.length : Int) = boxSize wt.d_dim (fun d => N d + 2 * cd.ghosts d) := by
  obtain ⟨f, hf, hlf⟩ := hpre.input
  cases smooth with
  | false => exact ⟨f, by simp [inputOf, selectInput, hf], by simp [selectInput, hf], hlf⟩
  | true =>
    obtain ⟨s, hs, _, hlen, hF⟩ := smoothCellData_spec wt N cd depth f hpre.dim hf hlf
    have hnn : 0 ≤ boxSize wt.d_dim (fun d => N d + 2 * cd.ghosts d) := by
      have : boxSize wt.d_dim (fun d => N d + 2 * cd.ghosts d) = (f.length : Int) := hlf.symm
      rw [this]
      exact Int.natCast_nonneg _
    have hp : s.getPointer a = some (level s.data a) :=
      getElem?_level (by rw [hlen]; exact ha)
    refine ⟨level s.data a, by simp [inputOf, selectInput, hs, hp],
      by simp [smoothedOf, selectInput, hs, hp], ?_⟩
    rw [(hF a ha).1]
    exact zeros_length hnn

/-! ## The 1-D transform as a whole -/

theorem ghost_nonneg {dim : Nat} {L k : Int} {wt : WaveletTransformHarten}
    (hwt : WaveletTransformHarten.new dim L k = Except.ok wt) (d : Nat) :
    1 ≤ wt.d_p ∧ wt.d_p ≤ 2 ∧ wt.d_p * 2 ^ wt.d_num_level ≤ wt.d_num_wavelet_ghosts d ∧
      wt.d_num_wavelet_ghosts d = wt.d_p * (2 ^ (wt.d_num_level + 1) - 1) ∧
      2 ≤ wt.d_num_level := by
  obtain ⟨hk, hL, _, hlev, _, hp, _, hG⟩ := new_ok hwt
  have hp1 : 1 ≤ wt.d_p ∧ wt.d_p ≤ 2 := by
    rw [hp]
    rcases hk with hk | hk <;> rw [hk] <;> decide
  have hGd : wt.d_num_wavelet_ghosts d = wt.d_p * (2 ^ (wt.d_num_level + 1) - 1) := by
    rw [hG d, hp, hlev]
  refine ⟨hp1.1, hp1.2, ?_, hGd, by omega⟩
  rw [hGd]
  exact pow_step_le (by omega) (le_refl _)

theorem transformBody_1D (sqrt : ℚ → ℚ) {wt : WaveletTransformHarten} {N : IntVector}
    {cd : CellData} {wcs means : List CellData} {depth : Nat} (smooth : Bool)
    {dim : Nat} {L k : Int} (hwt : WaveletTransformHarten.new dim L k = Except.ok wt)
    (hd : wt.d_dim = 1) (hpre : Pre wt N cd wcs means depth) :
    ∃ st f, transformBody sqrt wt N cd wcs means depth smooth = Except.ok st ∧
      inputOf wt N cd depth smooth 0 = some f ∧
      (f.length : Int) = N 0 + 2 * cd.ghosts 0 ∧
      Inv1D wt N cd.ghosts (coefGhosts wcs) f (w0Of wcs wt.d_num_level)
        (m0Of means wt.d_num_level) (!means.isEmpty) wt.d_num_level st := by
  obtain ⟨hk, _, _, _, hdk, hp, _, _⟩ := new_ok hwt
  obtain ⟨hp1, _, hpG, hGeq, hL⟩ := ghost_nonneg hwt 0
  obtain ⟨_, hbody⟩ := transformBody_unfold sqrt wt N cd wcs means depth smooth hpre (by omega)
  obtain ⟨f, hin, hsel, hlf⟩ := inputOf_facts hpre smooth (a := 0) (by omega)
  obtain ⟨hw, hwl⟩ := w0Of_facts hpre
  rw [hd] at hlf hwl
  rw [boxSize_one] at hlf
  have hG := hpre.ghosts_coef 0 (by omega)
  have hg := hpre.ghosts_cell 0 (by omega)
  have hN := hpre.interior 0 (by omega)
  have hG0 : 0 ≤ wt.d_num_wavelet_ghosts 0 := by
    have : (0 : Int) ≤ wt.d_p * 2 ^ wt.d_num_level := by positivity
    omega
  obtain ⟨st, hst, hinv⟩ := transform1D_spec wt N cd.ghosts (coefGhosts wcs) cd depth smooth
    (smoothedOf wt N cd depth smooth) (!means.isEmpty) (w0Of wcs wt.d_num_level)
    (m0Of means wt.d_num_level) f (by rw [hdk]; exact hk) (by rw [hdk]; exact hp) (by omega)
    hGeq hG hg (by omega) hsel hlf hw
    (fun li hli => by
      have := (hwl li hli).2
      rw [boxSize_one] at this
      exact this)
    (fun hc => by
      obtain ⟨h1, h2⟩ := m0Of_facts hpre hc
      refine ⟨h1, fun li hli => ?_⟩
      have := h2 li hli
      rw [hd, boxSize_one] at this
      exact this)
  refine ⟨st, f, ?_, hin, hlf, hinv⟩
  rw [hbody, if_pos hd]
  exact hst

/-! ## Concrete calls -/

theorem exEngine_ok (dim : Nat) {k : Int} (hk : k = 2 ∨ k = 4) :
    WaveletTransformHarten.new dim 2 k = Except.ok (exEngine dim k) := by
  obtain ⟨wt, hwt⟩ := new_of_valid dim (le_refl (2 : Int)) hk
  unfold exEngine
  rw [hwt]

theorem exEngine_ghosts (dim : Nat) {k : Int} (hk : k = 2 ∨ k = 4) (d : Nat) :
    (exEngine dim k).d_num_wavelet_ghosts d = halfWidth k * 7 ∧
      (exEngine dim k).d_dim = dim ∧ (exEngine dim k).d_num_level = 2 := by
  obtain ⟨_, _, hd, hl, _, _, _, hG⟩ := new_ok (exEngine_ok dim hk)
  refine ⟨?_, hd, hl⟩
  rw [hG d]
  rfl

/-- Call conditions of the example calls: fields with ghost width `g` at least
the required one on 8 interior cells per axis, two coefficient fields, local
means absent or two. -/
theorem exPre (dim : Nat) {k : Int} (hk : k = 2 ∨ k = 4) (hdim : dim = 1 ∨ dim = 2 ∨ dim = 3)
    (g : Int) (hg : halfWidth k * 7 ≤ g) (a : Arr)
    (ha : (a.length : Int) = boxSize dim (fun _ => 8 + 2 * g)) (withMeans : Bool) :
    Pre (exEngine dim k) exDims (exField g a) (exCoefs dim g)
      (if withMeans then exCoefs dim g else []) 0 := by
  obtain ⟨hG, hd, hl⟩ := exEngine_ghosts dim hk 0
  have hnn : 0 ≤ boxSize dim (fun _ => 8 + 2 * g) := by
    rw [← ha]
    exact Int.natCast_nonneg _
  have hz := zeros_length hnn
  have hmem : ∀ c, c ∈ exCoefs dim g →
      ∃ b, c.getPointer 0 = some b ∧ (b.length : Int) = boxSize (exEngine dim k).d_dim
        (fun d => exDims d + 2 * coefGhosts (exCoefs dim g) d) := by
    intro c hc
    have hc' : c = exField g (zeros (boxSize dim (fun _ => 8 + 2 * g))) := by
      simpa [exCoefs] using hc
    subst hc'
    refine ⟨_, rfl, ?_⟩
    rw [hd]
    exact hz
  refine ⟨by rw [hd]; exact hdim, fun d _ => by unfold exDims; omega, fun d _ => le_refl _,
    fun d _ => ?_, ⟨a, rfl, by rw [hd]; exact ha⟩, by rw [hl]; exact le_refl _, hmem, ?_⟩
  · rw [(exEngine_ghosts dim hk d).1]
    exact hg
  · cases withMeans with
    | false => exact Or.inl rfl
    | true => exact Or.inr ⟨by rw [hl]; exact le_refl _, hmem⟩

/-! ## Claims on the 1-D cascade -/

/-- C3: in 1-D with `k = 2` the call completes and, for every level `li < L` and
every cell `i` of the window `[-G + 2^li, N + G - 2^li)` the loop runs over, with
`s = 2^li` and `lowIn` the selected input field (`li = 0`) or the scaling buffer
of level `li - 1`, the scaling buffer holds `(lowIn[i-s] + lowIn[i+s])/2` and the
output wavelet coefficient is `|-(lowIn[i-s] - 2*lowIn[i] + lowIn[i+s])/2|`. -/
theorem C3_cascade_1D_k2 (sqrt : ℚ → ℚ) (wt : WaveletTransformHarten) (N : IntVector)
    (cd : CellData) (wcs means : List CellData) (depth : Nat) (smooth : Bool) (L : Int)
    (hwt : WaveletTransformHarten.new 1 L 2 = Except.ok wt)
    (hpre : Pre wt N cd wcs means depth) :
    ∃ st f, transformBody sqrt wt N cd wcs means depth smooth = Except.ok st ∧
      inputOf wt N cd depth smooth 0 = some f ∧
      ∀ li, li < wt.d_num_level → ∀ i : Int,
        -wt.d_num_wavelet_ghosts 0 + 2 ^ li ≤ i →
        i < N 0 + wt.d_num_wavelet_ghosts 0 - 2 ^ li →
        valAt (level st.f_x li) (i + coefGhosts wcs 0) =
          (lowIn1D cd.ghosts (coefGhosts wcs) f st.f_x li (i - 2 ^ li)
            + lowIn1D cd.ghosts (coefGhosts wcs) f st.f_x li (i + 2 ^ li)) / 2 ∧
        valAt (level st.w li) (i + coefGhosts wcs 0) =
          |-(lowIn1D cd.ghosts (coefGhosts wcs) f st.f_x li (i - 2 ^ li)
            - 2 * lowIn1D cd.ghosts (coefGhosts wcs) f st.f_x li i
            + lowIn1D cd.ghosts (coefGhosts wcs) f st.f_x li (i + 2 ^ li)) / 2| := by
  obtain ⟨_, _, hd, _, hdk, hp, _, _⟩ := new_ok hwt
  obtain ⟨st, f, hst, hin, _, hinv⟩ := transformBody_1D sqrt smooth hwt hd hpre
  refine ⟨st, f, hst, hin, fun li hli i h1 h2 => ?_⟩
  obtain ⟨hF1, hF2, _⟩ := hinv.2.2.2.2.1 li hli
  have hp1 : wt.d_p = 1 := by rw [hp]; rfl
  have hwin : -wt.d_num_wavelet_ghosts 0 + wt.d_p * 2 ^ li ≤ i ∧
      i < N 0 + wt.d_num_wavelet_ghosts 0 - wt.d_p * 2 ^ li := by
    rw [hp1]
    omega
  refine ⟨?_, ?_⟩
  · rw [hF1.2.1 i hwin, hdk]
    simp only [lowVal, if_true]
    ring
  · rw [hF2.2.1 i hwin, hdk]
    simp only [highVal, if_true]
    congr 1
    ring

theorem C3_cascade_1D_k2_witness :
    WaveletTransformHarten.new 1 2 2 = Except.ok (exEngine 1 2) ∧
    Pre (exEngine 1 2) exDims (exField 7 exStep) (exCoefs 1 7) [] 0 ∧
    ∃ st f, transformBody ratSqrt (exEngine 1 2) exDims (exField 7 exStep)
        (exCoefs 1 7) [] 0 false = Except.ok st ∧
      inputOf (exEngine 1 2) exDims (exField 7 exStep) 0 false 0 = some f ∧
      ∀ li, li < (exEngine 1 2).d_num_level → ∀ i : Int,
        -(exEngine 1 2).d_num_wavelet_ghosts 0 + 2 ^ li ≤ i →
        i < exDims 0 + (exEngine 1 2).d_num_wavelet_ghosts 0 - 2 ^ li →
        valAt (level st.f_x li) (i + coefGhosts (exCoefs 1 7) 0) =
          (lowIn1D (exField 7 exStep).ghosts (coefGhosts (exCoefs 1 7)) f st.f_x li (i - 2 ^ li)
            + lowIn1D (exField 7 exStep).ghosts (coefGhosts (exCoefs 1 7)) f st.f_x li
              (i + 2 ^ li)) / 2 ∧
        valAt (level st.w li) (i + coefGhosts (exCoefs 1 7) 0) =
          |-(lowIn1D (exField 7 exStep).ghosts (coefGhosts (exCoefs 1 7)) f st.f_x li
              (i - 2 ^ li)
            - 2 * lowIn1D (exField 7 exStep).ghosts (coefGhosts (exCoefs 1 7)) f st.f_x li i
            + lowIn1D (exField 7 exStep).ghosts (coefGhosts (exCoefs 1 7)) f st.f_x li
              (i + 2 ^ li)) / 2| :=
  ⟨exEngine_ok 1 (Or.inl rfl),
    exPre 1 (Or.inl rfl) (Or.inl rfl) 7 (by decide) exStep (by decide) false,
    C3_cascade_1D_k2 ratSqrt _ _ _ _ _ 0 false 2 (exEngine_ok 1 (Or.inl rfl))
      (exPre 1 (Or.inl rfl) (Or.inl rfl) 7 (by decide) exStep (by decide) false)⟩

/-- C4: in 1-D with `k = 4` the call completes and, for every level `li < L` and
every cell `i` of the window `[-G + 2*2^li, N + G - 2*2^li)` the loop runs over,
with `s = 2^li` and `lowIn` the selected input field (`li = 0`) or the scaling
buffer of level `li - 1`, the scaling buffer holds
`(-lowIn[i-2s] + 4*lowIn[i-s] + 4*lowIn[i+s] - lowIn[i+2s])/6` and the output
wavelet coefficient is
`|(lowIn[i-2s] - 4*lowIn[i-s] + 6*lowIn[i] - 4*lowIn[i+s] + lowIn[i+2s])/6|`. -/
theorem C4_cascade_1D_k4 (sqrt : ℚ → ℚ) (wt : WaveletTransformHarten) (N : IntVector)
    (cd : CellData) (wcs means : List CellData) (depth : Nat) (smooth : Bool) (L : Int)
    (hwt : WaveletTransformHarten.new 1 L 4 = Except.ok wt)
    (hpre : Pre wt N cd wcs means depth) :
    ∃ st f, transformBody sqrt wt N cd wcs means depth smooth = Except.ok st ∧
      inputOf wt N cd depth smooth 0 = some f ∧
      ∀ li, li < wt.d_num_level → ∀ i : Int,
        -wt.d_num_wavelet_ghosts 0 + 2 * 2 ^ li ≤ i →
        i < N 0 + wt.d_num_wavelet_ghosts 0 - 2 * 2 ^ li →
        valAt (level st.f_x li) (i + coefGhosts wcs 0) =
          (-lowIn1D cd.ghosts (coefGhosts wcs) f st.f_x li (i - 2 * 2 ^ li)
            + 4 * lowIn1D cd.ghosts (coefGhosts wcs) f st.f_x li (i - 2 ^ li)
            + 4 * lowIn1D cd.ghosts (coefGhosts wcs) f st.f_x li (i + 2 ^ li)
            - lowIn1D cd.ghosts (coefGhosts wcs) f st.f_x li (i + 2 * 2 ^ li)) / 6 ∧
        valAt (level st.w li) (i + coefGhosts wcs 0) =
          |(lowIn1D cd.ghosts (coefGhosts wcs) f st.f_x li (i - 2 * 2 ^ li)
            - 4 * lowIn1D cd.ghosts (coefGhosts wcs) f st.f_x li (i - 2 ^ li)
            + 6 * lowIn1D cd.ghosts (coefGhosts wcs) f st.f_x li i
            - 4 * lowIn1D cd.ghosts (coefGhosts wcs) f st.f_x li (i + 2 ^ li)
            + lowIn1D cd.ghosts (coefGhosts wcs) f st.f_x li (i + 2 * 2 ^ li)) / 6| := by
  obtain ⟨_, _, hd, _, hdk, hp, _, _⟩ := new_ok hwt
  obtain ⟨st, f, hst, hin, _, hinv⟩ := transformBody_1D sqrt smooth hwt hd hpre
  refine ⟨st, f, hst, hin, fun li hli i h1 h2 => ?_⟩
  obtain ⟨hF1, hF2, _⟩ := hinv.2.2.2.2.1 li hli
  have hp1 : wt.d_p = 2 := by rw [hp]; rfl
  have hwin : -wt.d_num_wavelet_ghosts 0 + wt.d_p * 2 ^ li ≤ i ∧
      i < N 0 + wt.d_num_wavelet_ghosts 0 - wt.d_p * 2 ^ li := by
    rw [hp1]
    omega
  have h42 : ¬ ((4 : Int) = 2) := by decide
  refine ⟨?_, ?_⟩
  · rw [hF1.2.1 i hwin, hdk]
    simp only [lowVal, h42, if_false]
    ring
  · rw [hF2.2.1 i hwin, hdk]
    simp only [highVal, h42, if_false]
    congr 1
    ring

theorem C4_cascade_1D_k4_witness :
    WaveletTransformHarten.new 1 2 4 = Except.ok (exEngine 1 4) ∧
    Pre (exEngine 1 4) exDims (exField 14 (zeros 36)) (exCoefs 1 14) [] 0 ∧
    ∃ st f, transformBody ratSqrt (exEngine 1 4) exDims (exField 14 (zeros 36))
        (exCoefs 1 14) [] 0 true = Except.ok st ∧
      inputOf (exEngine 1 4) exDims (exField 14 (zeros 36)) 0 true 0 = some f ∧
      ∀ li, li < (exEngine 1 4).d_num_level → ∀ i : Int,
        -(exEngine 1 4).d_num_wavelet_ghosts 0 + 2 * 2 ^ li ≤ i →
        i < exDims 0 + (exEngine 1 4).d_num_wavelet_ghosts 0 - 2 * 2 ^ li →
        valAt (level st.f_x li) (i + coefGhosts (exCoefs 1 14) 0) =
          (-lowIn1D (exField 14 (zeros 36)).ghosts (coefGhosts (exCoefs 1 14)) f st.f_x li
              (i - 2 * 2 ^ li)
            + 4 * lowIn1D (exField 14 (zeros 36)).ghosts (coefGhosts (exCoefs 1 14)) f st.f_x li
              (i - 2 ^ li)
            + 4 * lowIn1D (exField 14 (zeros 36)).ghosts (coefGhosts (exCoefs 1 14)) f st.f_x li
              (i + 2 ^ li)
            - lowIn1D (exField 14 (zeros 36)).ghosts (coefGhosts (exCoefs 1 14)) f st.f_x li
              (i + 2 * 2 ^ li)) / 6 ∧
        valAt (level st.w li) (i + coefGhosts (exCoefs 1 14) 0) =
          |(lowIn1D (exField 14 (zeros 36)).ghosts (coefGhosts (exCoefs 1 14)) f st.f_x li
              (i - 2 * 2 ^ li)
            - 4 * lowIn1D (exField 14 (zeros 36)).ghosts (coefGhosts (exCoefs 1 14)) f st.f_x li
              (i - 2 ^ li)
            + 6 * lowIn1D (exField 14 (zeros 36)).ghosts (coefGhosts (exCoefs 1 14)) f st.f_x li i
            - 4 * lowIn1D (exField 14 (zeros 36)).ghosts (coefGhosts (exCoefs 1 14)) f st.f_x li
              (i + 2 ^ li)
            + lowIn1D (exField 14 (zeros 36)).ghosts (coefGhosts (exCoefs 1 14)) f st.f_x li
              (i + 2 * 2 ^ li)) / 6| :=
  ⟨exEngine_ok 1 (Or.inr rfl),
    exPre 1 (Or.inr rfl) (Or.inl rfl) 14 (by decide) (zeros 36) (by decide) false,
    C4_cascade_1D_k4 ratSqrt _ _ _ _ _ 0 true 2 (exEngine_ok 1 (Or.inr rfl))
      (exPre 1 (Or.inr rfl) (Or.inl rfl) 14 (by decide) (zeros 36) (by decide) false)⟩

/-- C6: in 1-D, when local-mean fields are supplied, the call completes and for
every level `li < L` and every interior cell `i` of `[0, N)`, with `s = 2^li`
and `lowIn` the level input (selected input field at `li = 0`, scaling buffer
of level `li - 1` otherwise), the local mean is
`(lowIn[i-s] + 2*lowIn[i] + lowIn[i+s])/2` for `k = 2` and
`(lowIn[i-2s] + 4*lowIn[i-s] + 6*lowIn[i] + 4*lowIn[i+s] + lowIn[i+2s])/6` for
`k = 4`: the wavelet formula with every minus sign replaced by a plus sign. -/
theorem C6_local_mean_1D (sqrt : ℚ → ℚ) (wt : WaveletTransformHarten) (N : IntVector)
    (cd : CellData) (wcs means : List CellData) (depth : Nat) (smooth : Bool) (L k : Int)
    (hwt : WaveletTransformHarten.new 1 L k = Except.ok wt)
    (hpre : Pre wt N cd wcs means depth) (hmeans : means ≠ []) :
    ∃ st f, transformBody sqrt wt N cd wcs means depth smooth = Except.ok st ∧
      inputOf wt N cd depth smooth 0 = some f ∧
      ∀ li, li < wt.d_num_level → ∀ i : Int, 0 ≤ i → i < N 0 →
        (k = 2 →
          valAt (level st.f_mean li) (i + coefGhosts wcs 0) =
            (lowIn1D cd.ghosts (coefGhosts wcs) f st.f_x li (i - 2 ^ li)
              + 2 * lowIn1D cd.ghosts (coefGhosts wcs) f st.f_x li i
              + lowIn1D cd.ghosts (coefGhosts wcs) f st.f_x li (i + 2 ^ li)) / 2) ∧
        (k = 4 →
          valAt (level st.f_mean li) (i + coefGhosts wcs 0) =
            (lowIn1D cd.ghosts (coefGhosts wcs) f st.f_x li (i - 2 * 2 ^ li)
              + 4 * lowIn1D cd.ghosts (coefGhosts wcs) f st.f_x li (i - 2 ^ li)
              + 6 * lowIn1D cd.ghosts (coefGhosts wcs) f st.f_x li i
              + 4 * lowIn1D cd.ghosts (coefGhosts wcs) f st.f_x li (i + 2 ^ li)
              + lowIn1D cd.ghosts (coefGhosts wcs) f st.f_x li (i + 2 * 2 ^ li)) / 6) := by
  obtain ⟨_, _, hd, _, hdk, hp, _, _⟩ := new_ok hwt
  obtain ⟨st, f, hst, hin, _, hinv⟩ := transformBody_1D sqrt smooth hwt hd hpre
  refine ⟨st, f, hst, hin, fun li hli i h1 h2 => ?_⟩
  have hcomp : (!means.isEmpty) = true := by
    cases means with
    | nil => exact absurd rfl hmeans
    | cons _ _ => rfl
  obtain ⟨_, _, hFm⟩ := hinv.2.2.2.2.1 li hli
  have hF := (hFm hcomp).2.1 i ⟨h1, h2⟩
  have h42 : ¬ ((4 : Int) = 2) := by decide
  refine ⟨?_, ?_⟩
  · intro hk2
    rw [hF, hdk, hk2]
    simp only [meanCoef, sumVal, if_true]
    ring
  · intro hk4
    rw [hF, hdk, hk4]
    simp only [meanCoef, sumVal, h42, if_false]
    ring

theorem C6_local_mean_1D_witness :
    WaveletTransformHarten.new 1 2 2 = Except.ok (exEngine 1 2) ∧
    Pre (exEngine 1 2) exDims (exField 7 exStep) (exCoefs 1 7) (exCoefs 1 7) 0 ∧
    exCoefs 1 7 ≠ [] ∧
    ∃ st f, transformBody ratSqrt (exEngine 1 2) exDims (exField 7 exStep)
        (exCoefs 1 7) (exCoefs 1 7) 0 false = Except.ok st ∧
      inputOf (exEngine 1 2) exDims (exField 7 exStep) 0 false 0 = some f ∧
      ∀ li, li < (exEngine 1 2).d_num_level → ∀ i : Int, 0 ≤ i → i < exDims 0 →
        ((2 : Int) = 2 →
          valAt (level st.f_mean li) (i + coefGhosts (exCoefs 1 7) 0) =
            (lowIn1D (exField 7 exStep).ghosts (coefGhosts (exCoefs 1 7)) f st.f_x li
                (i - 2 ^ li)
              + 2 * lowIn1D (exField 7 exStep).ghosts (coefGhosts (exCoefs 1 7)) f st.f_x li i
              + lowIn1D (exField 7 exStep).ghosts (coefGhosts (exCoefs 1 7)) f st.f_x li
                (i + 2 ^ li)) / 2) ∧
        ((2 : Int) = 4 →
          valAt (level st.f_mean li) (i + coefGhosts (exCoefs 1 7) 0) =
            (lowIn1D (exField 7 exStep).ghosts (coefGhosts (exCoefs 1 7)) f st.f_x li
                (i - 2 * 2 ^ li)
              + 4 * lowIn1D (exField 7 exStep).ghosts (coefGhosts (exCoefs 1 7)) f st.f_x li
                (i - 2 ^ li)
              + 6 * lowIn1D (exField 7 exStep).ghosts (coefGhosts (exCoefs 1 7)) f st.f_x li i
              + 4 * lowIn1D (exField 7 exStep).ghosts (coefGhosts (exCoefs 1 7)) f st.f_x li
                (i + 2 ^ li)
              + lowIn1D (exField 7 exStep).ghosts (coefGhosts (exCoefs 1 7)) f st.f_x li
                (i + 2 * 2 ^ li)) / 6) :=
  ⟨exEngine_ok 1 (Or.inl rfl),
    exPre 1 (Or.inl rfl) (Or.inl rfl) 7 (by decide) exStep (by decide) true,
    by simp [exCoefs],
    C6_local_mean_1D ratSqrt _ _ _ _ _ 0 false 2 2 (exEngine_ok 1 (Or.inl rfl))
      (exPre 1 (Or.inl rfl) (Or.inl rfl) 7 (by decide) exStep (by decide) true)
      (by simp [exCoefs])⟩

/-! ## Claim on the smoothing -/

/-- C7: `smoothCellData` returns one component per spatial axis, and for every
axis `a` and every cell `x` of the ghost-padded extent of the input field,
component `a` at `x` is the sum of the input over those of the cells
`x - e_a, x, x + e_a` that lie inside the extent, divided by their number,
which is 1, 2 or 3. -/
theorem C7_smoothCellData_mean (wt : WaveletTransformHarten) (N : IntVector)
    (cell_data : CellData) (depth : Nat) (f : Arr)
    (hdim : wt.d_dim = 1 ∨ wt.d_dim = 2 ∨ wt.d_dim = 3)
    (hf : cell_data.getPointer depth = some f)
    (hlen : (f.length : Int) = boxSize wt.d_dim (cell_data.ghostBoxDims N)) :
    ∃ s, smoothCellData wt N cell_data depth = some s ∧ s.data.length = wt.d_dim ∧
      ∀ a, a < wt.d_dim → ∀ x : IntVector,
        InBox wt.d_dim (fun d => -cell_data.ghosts d) (fun d => N d + cell_data.ghosts d) x →
        (1 ≤ ([x a - 1, x a, x a + 1].filter (fun c =>
            decide (-cell_data.ghosts a ≤ c ∧ c < N a + cell_data.ghosts a))).length ∧
          ([x a - 1, x a, x a + 1].filter (fun c =>
            decide (-cell_data.ghosts a ≤ c ∧ c < N a + cell_data.ghosts a))).length ≤ 3) ∧
        valAt (level s.data a) (linIdx wt.d_dim cell_data.ghosts (cell_data.ghostBoxDims N) x) =
          ((([x a - 1, x a, x a + 1].filter (fun c =>
              decide (-cell_data.ghosts a ≤ c ∧ c < N a + cell_data.ghosts a))).map
            (fun c => valAt f
              (linIdx wt.d_dim cell_data.ghosts (cell_data.ghostBoxDims N) (moveTo x a c)))).sum)
          / ((([x a - 1, x a, x a + 1].filter (fun c =>
              decide (-cell_data.ghosts a ≤ c ∧ c < N a + cell_data.ghosts a))).length : Nat) : ℚ) := by
  obtain ⟨s, hs, _, hl, hF⟩ := smoothCellData_spec wt N cell_data depth f hdim hf hlen
  refine ⟨s, hs, hl, fun a ha x hx => ⟨⟨?_, ?_⟩, ?_⟩⟩
  · have hmem : x a ∈ [x a - 1, x a, x a + 1].filter (fun c =>
        decide (-cell_data.ghosts a ≤ c ∧ c < N a + cell_data.ghosts a)) :=
      List.mem_filter.2 ⟨by simp, by simpa using hx a ha⟩
    exact List.length_pos_of_mem hmem
  · exact le_trans (List.length_filter_le _ _) (le_refl _)
  · exact (hF a ha).2.1 x hx

theorem C7_smoothCellData_mean_witness :
    ((exEngine 1 2).d_dim = 1 ∨ (exEngine 1 2).d_dim = 2 ∨ (exEngine 1 2).d_dim = 3) ∧
    exImpulse.getPointer 0 = some [0, 0, 0, 1, 0, 0, 0, 0] ∧
    ((([0, 0, 0, 1, 0, 0, 0, 0] : Arr).length : Nat) : Int) =
      boxSize (exEngine 1 2).d_dim (exImpulse.ghostBoxDims exDims) ∧
    ∃ s, smoothCellData (exEngine 1 2) exDims exImpulse 0 = some s ∧
      s.data.length = (exEngine 1 2).d_dim ∧
      ∀ a, a < (exEngine 1 2).d_dim → ∀ x : IntVector,
        InBox (exEngine 1 2).d_dim (fun d => -exImpulse.ghosts d)
          (fun d => exDims d + exImpulse.ghosts d) x →
        (1 ≤ ([x a - 1, x a, x a + 1].filter (fun c =>
            decide (-exImpulse.ghosts a ≤ c ∧
              c < exDims a + exImpulse.ghosts a))).length ∧
          ([x a - 1, x a, x a + 1].filter (fun c =>
            decide (-exImpulse.ghosts a ≤ c ∧
              c < exDims a + exImpulse.ghosts a))).length ≤ 3) ∧
        valAt (level s.data a) (linIdx (exEngine 1 2).d_dim
            exImpulse.ghosts
            (exImpulse.ghostBoxDims exDims) x) =
          ((([x a - 1, x a, x a + 1].filter (fun c =>
              decide (-exImpulse.ghosts a ≤ c ∧
                c < exDims a + exImpulse.ghosts a))).map
            (fun c => valAt [0, 0, 0, 1, 0, 0, 0, 0]
              (linIdx (exEngine 1 2).d_dim exImpulse.ghosts
                (exImpulse.ghostBoxDims exDims) (moveTo x a c)))).sum)
          / ((([x a - 1, x a, x a + 1].filter (fun c =>
              decide (-exImpulse.ghosts a ≤ c ∧
                c < exDims a + exImpulse.ghosts a))).length : Nat) : ℚ) :=
  ⟨Or.inl rfl, rfl, by decide,
    C7_smoothCellData_mean (exEngine 1 2) exDims exImpulse 0
      [0, 0, 0, 1, 0, 0, 0, 0] (Or.inl rfl) rfl (by decide)⟩

/-! ## Entry assertions -/

theorem IntVector.ge_iff {dim : Nat} {a b : IntVector} :
    IntVector.ge dim a b = true ↔ ∀ d, d < dim → b d ≤ a d := by
  simp [IntVector.ge, List.all_eq_true]

theorem IntVector.eq_iff {dim : Nat} {a b : IntVector} :
    IntVector.eq dim a b = true ↔ ∀ d, d < dim → a d = b d := by
  simp [IntVector.eq, List.all_eq_true]

theorem foldlM_unit_ok {α : Type} (g : α → Except Err Unit) (l : List α)
    (h : l.foldlM (fun _ x => g x) () = Except.ok ()) : ∀ x, x ∈ l → g x = Except.ok () := by
  induction l with
  | nil => intro x hx; cases hx
  | cons a l ih =>
    rw [List.foldlM_cons] at h
    cases hg : g a with
    | error e =>
      rw [hg] at h
      cases h
    | ok u =>
      rw [hg] at h
      intro x hx
      rcases List.mem_cons.1 hx with rfl | hx
      · exact hg
      · exact ih h x hx

/-- What a call that passes the entry assertions satisfies, assertion by
assertion: equal counts of coefficient and local-mean fields, a first
coefficient field, the two ghost-width comparisons, equal ghost-box cell counts
of all coefficient fields, and of all local-mean fields. -/
theorem entryAssertions_ok {wt : WaveletTransformHarten} {N : IntVector} {cd : CellData}
    {wcs means : List CellData} (h : entryAssertions wt N cd wcs means = Except.ok ()) :
    wcs.length = means.length ∧ ∃ wc0, wcs[0]? = some wc0 ∧
      (∀ d, d < wt.d_dim → wc0.ghosts d ≤ cd.ghosts d) ∧
      (∀ d, d < wt.d_dim → wt.d_num_wavelet_ghosts d ≤ wc0.ghosts d) ∧
      (∀ c, c ∈ wcs → ∀ d, d < wt.d_dim → c.ghostBoxDims N d = wc0.ghostBoxDims N d) ∧
      (∀ m, m ∈ means → ∀ d, d < wt.d_dim → m.ghostBoxDims N d = wc0.ghostBoxDims N d) := by
  unfold entryAssertions at h
  by_cases hlen : wcs.length = means.length
  · rw [if_neg (not_not.2 hlen)] at h
    refine ⟨hlen, ?_⟩
    cases h0 : wcs[0]? with
    | none =>
      rw [h0] at h
      cases h
    | some wc0 =>
      rw [h0] at h
      dsimp only at h
      by_cases h1 : IntVector.ge wt.d_dim cd.ghosts wc0.ghosts = true
      · by_cases h2 : IntVector.ge wt.d_dim wc0.ghosts wt.d_num_wavelet_ghosts = true
        · by_cases h3 : (wcs.all (fun c =>
              IntVector.eq wt.d_dim (c.ghostBoxDims N) (wc0.ghostBoxDims N))) = true
          · simp only [h1, h2, h3, Bool.not_true, Bool.false_eq_true, if_false] at h
            refine ⟨wc0, rfl, IntVector.ge_iff.1 h1, IntVector.ge_iff.1 h2, ?_, ?_⟩
            · intro c hc
              exact IntVector.eq_iff.1 (List.all_eq_true.1 h3 c hc)
            · intro m hm
              by_cases he : means.isEmpty = true
              · rw [List.isEmpty_iff] at he
                subst he
                cases hm
              · simp only [he, Bool.false_eq_true, if_false] at h
                obtain ⟨i, hi, rfl⟩ := List.mem_iff_getElem.1 hm
                have hstep := foldlM_unit_ok _ _ h i (mem_natRange.2 ⟨Nat.zero_le _, by omega⟩)
                rw [List.getElem?_eq_getElem hi] at hstep
                dsimp only at hstep
                by_cases h4 : IntVector.eq wt.d_dim (means[i].ghostBoxDims N)
                    (wc0.ghostBoxDims N) = true
                · exact IntVector.eq_iff.1 h4
                · simp only [h4, Bool.not_false, if_true] at hstep
                  cases hstep
          · simp only [h1, h2, h3, Bool.not_true, Bool.not_false, Bool.false_eq_true, if_false,
              if_true] at h
            cases h
        · simp only [h1, h2, Bool.not_true, Bool.not_false, Bool.false_eq_true, if_false,
            if_true] at h
          cases h
      · simp only [h1, Bool.not_false, if_true] at h
        cases h
  · rw [if_pos hlen] at h
    cases h

/-- The first assertion compares the two field counts, so a call with an empty
list of local-mean fields and at least one coefficient field fails it. -/
theorem entryAssertions_nil (wt : WaveletTransformHarten) (N : IntVector) (cd : CellData)
    {wcs : List CellData} (h : wcs ≠ []) :
    entryAssertions wt N cd wcs [] = Except.error Err.assertionFailed := by
  unfold entryAssertions
  have : wcs.length ≠ ([] : List CellData).length := by
    simpa using h
  rw [if_pos this]

/-- C9: if a call passes the entry assertions, then on every axis the ghost
width of the input field and that of every wavelet-coefficient field are at
least the required ghost width `G`, and every wavelet-coefficient field has the
ghost-box cell counts of the first one. -/
theorem C9_entry_checks_imply (wt : WaveletTransformHarten) (N : IntVector) (cd : CellData)
    (wcs means : List CellData)
    (h : entryAssertions wt N cd wcs means = Except.ok ()) :
    ∃ wc0, wcs[0]? = some wc0 ∧ ∀ d, d < wt.d_dim →
      wt.d_num_wavelet_ghosts d ≤ cd.ghosts d ∧
      ∀ c, c ∈ wcs → wt.d_num_wavelet_ghosts d ≤ c.ghosts d ∧
        c.ghostBoxDims N d = wc0.ghostBoxDims N d := by
  obtain ⟨_, wc0, h0, h1, h2, h3, _⟩ := entryAssertions_ok h
  refine ⟨wc0, h0, fun d hd => ⟨le_trans (h2 d hd) (h1 d hd), fun c hc => ⟨?_, h3 c hc d hd⟩⟩⟩
  have e := h3 c hc d hd
  have hG := h2 d hd
  simp only [CellData.ghostBoxDims] at e
  omega

theorem C9_entry_checks_imply_witness :
    entryAssertions (exEngine 1 2) exDims (exField 7 exStep) (exCoefs 1 7) (exCoefs 1 7)
      = Except.ok () ∧
    ∃ wc0, (exCoefs 1 7)[0]? = some wc0 ∧ ∀ d, d < (exEngine 1 2).d_dim →
      (exEngine 1 2).d_num_wavelet_ghosts d ≤ (exField 7 exStep).ghosts d ∧
      ∀ c, c ∈ exCoefs 1 7 → (exEngine 1 2).d_num_wavelet_ghosts d ≤ c.ghosts d ∧
        c.ghostBoxDims exDims d = wc0.ghostBoxDims exDims d :=
  ⟨rfl, C9_entry_checks_imply (exEngine 1 2) exDims (exField 7 exStep) (exCoefs 1 7)
    (exCoefs 1 7) rfl⟩

/-- C10 (the code at the failing input): with two levels and two
wavelet-coefficient fields, `computeWaveletCoefficients`, which forwards an
empty list of local-mean fields, fails the first entry assertion, although the
computation after the assertions completes on the same input. -/
theorem C10_forwarded_empty_list_fails_entry :
    computeWaveletCoefficients ratSqrt (exEngine 1 2) exDims (exField 7 exStep)
        (exCoefs 1 7) 0 false = Except.error Err.assertionFailed ∧
    entryAssertions (exEngine 1 2) exDims (exField 7 exStep) (exCoefs 1 7) []
      = Except.error Err.assertionFailed ∧
    ∃ st, transformBody ratSqrt (exEngine 1 2) exDims (exField 7 exStep) (exCoefs 1 7) [] 0 false
      = Except.ok st := by
  have hne : exCoefs 1 7 ≠ [] := by simp [exCoefs]
  have he := entryAssertions_nil (exEngine 1 2) exDims (exField 7 exStep) hne
  refine ⟨?_, he, ?_⟩
  · unfold computeWaveletCoefficients computeWaveletCoefficientsWithVariableLocalMeans
    rw [he]
    rfl
  · obtain ⟨st, _, hst, _⟩ := transformBody_1D ratSqrt false (exEngine_ok 1 (Or.inl rfl))
      (exEngine_ghosts 1 (Or.inl rfl) 0).2.1
      (exPre 1 (Or.inl rfl) (Or.inl rfl) 7 (by decide) exStep (by decide) false)
    exact ⟨st, hst⟩

/-! ## Boxes of cells -/

theorem InBox_congr {dim : Nat} {lo hi lo2 hi2 : IntVector}
    (h : ∀ d, d < dim → lo d = lo2 d ∧ hi d = hi2 d) : InBox dim lo hi = InBox dim lo2 hi2 := by
  funext x
  apply propext
  constructor
  · intro hx d hd
    rw [← (h d hd).1, ← (h d hd).2]
    exact hx d hd
  · intro hx d hd
    rw [(h d hd).1, (h d hd).2]
    exact hx d hd

theorem lineOf_two_x (g d : IntVector) (a : Arr) (x : IntVector) :
    lineOf 2 g d a x 0 = fun t => valAt a (lin2 g d t (x 1)) := by
  funext t
  simp [lineOf, linIdx, moveTo]

theorem lineOf_two_y (g d : IntVector) (a : Arr) (x : IntVector) :
    lineOf 2 g d a x 1 = fun t => valAt a (lin2 g d (x 0) t) := by
  funext t
  simp [lineOf, linIdx, moveTo]

theorem lineOf_three_x (g d : IntVector) (a : Arr) (x : IntVector) :
    lineOf 3 g d a x 0 = fun t => valAt a (lin3 g d t (x 1) (x 2)) := by
  funext t
  simp [lineOf, linIdx, moveTo]

theorem lineOf_three_y (g d : IntVector) (a : Arr) (x : IntVector) :
    lineOf 3 g d a x 1 = fun t => valAt a (lin3 g d (x 0) t (x 2)) := by
  funext t
  simp [lineOf, linIdx, moveTo]

theorem lineOf_three_z (g d : IntVector) (a : Arr) (x : IntVector) :
    lineOf 3 g d a x 2 = fun t => valAt a (lin3 g d (x 0) (x 1) t) := by
  funext t
  simp [lineOf, linIdx, moveTo]

/-! ## Stencils along a line -/

theorem stencil_k2 {src : Arr} (ixOf : Int → Int) (s c : Int) (hs : 0 ≤ s)
    (h : ∀ t, c - s ≤ t → t ≤ c + s → 0 ≤ ixOf t ∧ ixOf t < src.length) :
    low_k2 src (ixOf (c - s)) (ixOf (c + s))
      = some (lowVal 2 (fun t => valAt src (ixOf t)) s c) ∧
    high_k2 src (ixOf (c - s)) (ixOf c) (ixOf (c + s))
      = some (highVal 2 (fun t => valAt src (ixOf t)) s c) ∧
    sum_k2 src (ixOf (c - s)) (ixOf c) (ixOf (c + s))
      = some (sumVal 2 (fun t => valAt src (ixOf t)) s c) := by
  have hL := h (c - s) (by omega) (by omega)
  have hC := h c (by omega) (by omega)
  have hR := h (c + s) (by omega) (by omega)
  refine ⟨?_, ?_, ?_⟩
  · rw [low_k2_eq hL hR]
    simp [lowVal]
  · rw [high_k2_eq hL hC hR]
    simp [highVal]
  · rw [sum_k2_eq hL hC hR]
    simp [sumVal]

theorem stencil_k4 {src : Arr} (ixOf : Int → Int) (s s2 c : Int) (hs : 0 ≤ s) (hs2 : s2 = 2 * s)
    (h : ∀ t, c - s2 ≤ t → t ≤ c + s2 → 0 ≤ ixOf t ∧ ixOf t < src.length) :
    low_k4 src (ixOf (c - s2)) (ixOf (c - s)) (ixOf (c + s)) (ixOf (c + s2))
      = some (lowVal 4 (fun t => valAt src (ixOf t)) s c) ∧
    high_k4 src (ixOf (c - s2)) (ixOf (c - s)) (ixOf c) (ixOf (c + s)) (ixOf (c + s2))
      = some (highVal 4 (fun t => valAt src (ixOf t)) s c) ∧
    sum_k4 src (ixOf (c - s2)) (ixOf (c - s)) (ixOf c) (ixOf (c + s)) (ixOf (c + s2))
      = some (sumVal 4 (fun t => valAt src (ixOf t)) s c) := by
  subst hs2
  have hLL := h (c - 2 * s) (by omega) (by omega)
  have hL := h (c - s) (by omega) (by omega)
  have hC := h c (by omega) (by omega)
  have hR := h (c + s) (by omega) (by omega)
  have hRR := h (c + 2 * s) (by omega) (by omega)
  refine ⟨?_, ?_, ?_⟩
  · rw [low_k4_eq hLL hL hR hRR]
    simp [lowVal]
  · rw [high_k4_eq hLL hL hC hR hRR]
    simp [highVal]
  · rw [sum_k4_eq hLL hL hC hR hRR]
    simp [sumVal]

/-! ## From the visiting order of a nest to the box -/

theorem Written.box2_ji {N gw : IntVector} {a c b d : Int} (v : Int → Int → ℚ) {arr r : Arr}
    (h : Written (cells2 c d a b) (fun p => lin2 gw (fun t => N t + 2 * gw t) p.2 p.1)
      (fun p => v p.2 p.1) arr r)
    (hb : -gw 0 ≤ a ∧ b ≤ N 0 + gw 0) :
    Filled (InBox 2 (cell2 a c) (cell2 b d)) (linIdx 2 gw (fun t => N t + 2 * gw t))
      (fun x => v (x 0) (x 1)) arr r := by
  refine h.filled _ _ _ (fun x => (x 1, x 0)) ?_ ?_ ?_
  · intro x hx
    have hx0 := hx 0 (by omega)
    have hx1 := hx 1 (by omega)
    simp only [cell2] at hx0 hx1
    norm_num at hx0 hx1
    exact ⟨mem_cells2.2 ⟨hx1, hx0⟩, by rw [linIdx_two], rfl⟩
  · intro p hp
    obtain ⟨m1, m0⟩ := mem_cells2.1 hp
    refine ⟨cell2 p.2 p.1, fun d' hd => ?_, rfl⟩
    simp only [cell2]
    have hd' : d' = 0 ∨ d' = 1 := by omega
    rcases hd' with rfl | rfl
    · simpa using m0
    · simpa using m1
  · intro c hc q hq h
    obtain ⟨m1, m0⟩ := mem_cells2.1 hc
    obtain ⟨n1, n0⟩ := mem_cells2.1 hq
    obtain ⟨e0, e1⟩ := @lin2_inj gw (fun t => N t + 2 * gw t) q.2 q.1 c.2 c.1
      (by dsimp only; omega) (by dsimp only; omega) h
    exact Prod.ext e1 e0

theorem Written.box2_ij {N gw : IntVector} {a c b d : Int} (v : Int → Int → ℚ) {arr r : Arr}
    (h : Written (cells2 a b c d) (fun p => lin2 gw (fun t => N t + 2 * gw t) p.1 p.2)
      (fun p => v p.1 p.2) arr r)
    (hb : -gw 0 ≤ a ∧ b ≤ N 0 + gw 0) :
    Filled (InBox 2 (cell2 a c) (cell2 b d)) (linIdx 2 gw (fun t => N t + 2 * gw t))
      (fun x => v (x 0) (x 1)) arr r := by
  refine h.filled _ _ _ (fun x => (x 0, x 1)) ?_ ?_ ?_
  · intro x hx
    have hx0 := hx 0 (by omega)
    have hx1 := hx 1 (by omega)
    simp only [cell2] at hx0 hx1
    norm_num at hx0 hx1
    exact ⟨mem_cells2.2 ⟨hx0, hx1⟩, by rw [linIdx_two], rfl⟩
  · intro p hp
    obtain ⟨m0, m1⟩ := mem_cells2.1 hp
    refine ⟨cell2 p.1 p.2, fun d' hd => ?_, rfl⟩
    simp only [cell2]
    have hd' : d' = 0 ∨ d' = 1 := by omega
    rcases hd' with rfl | rfl
    · simpa using m0
    · simpa using m1
  · intro c hc q hq h
    obtain ⟨m0, m1⟩ := mem_cells2.1 hc
    obtain ⟨n0, n1⟩ := mem_cells2.1 hq
    obtain ⟨e0, e1⟩ := @lin2_inj gw (fun t => N t + 2 * gw t) q.1 q.2 c.1 c.2
      (by dsimp only; omega) (by dsimp only; omega) h
    exact Prod.ext e0 e1

theorem Written.box3_kji {N gw : IntVector} {a c e b d f : Int} (v : Int → Int → Int → ℚ) {arr r : Arr}
    (h : Written (cells3 e f c d a b) (fun p => lin3 gw (fun t => N t + 2 * gw t) p.2.2 p.2.1 p.1)
      (fun p => v p.2.2 p.2.1 p.1) arr r)
    (hb : -gw 0 ≤ a ∧ b ≤ N 0 + gw 0 ∧ -gw 1 ≤ c ∧ d ≤ N 1 + gw 1) :
    Filled (InBox 3 (cell3 a c e) (cell3 b d f)) (linIdx 3 gw (fun t => N t + 2 * gw t))
      (fun x => v (x 0) (x 1) (x 2)) arr r := by
  refine h.filled _ _ _ (fun x => (x 2, x 1, x 0)) ?_ ?_ ?_
  · intro x hx
    have hx0 := hx 0 (by omega)
    have hx1 := hx 1 (by omega)
    have hx2 := hx 2 (by omega)
    simp only [cell3] at hx0 hx1 hx2
    norm_num at hx0 hx1 hx2
    exact ⟨mem_cells3.2 ⟨hx2, hx1, hx0⟩, by rw [linIdx_three], rfl⟩
  · intro p hp
    obtain ⟨m2, m1, m0⟩ := mem_cells3.1 hp
    refine ⟨cell3 p.2.2 p.2.1 p.1, fun d' hd => ?_, rfl⟩
    simp only [cell3]
    have hd' : d' = 0 ∨ d' = 1 ∨ d' = 2 := by omega
    rcases hd' with rfl | rfl | rfl
    · simpa using m0
    · simpa using m1
    · simpa using m2
  · intro c hc q hq h
    obtain ⟨m2, m1, m0⟩ := mem_cells3.1 hc
    obtain ⟨n2, n1, n0⟩ := mem_cells3.1 hq
    obtain ⟨e0, e1, e2⟩ := @lin3_inj gw (fun t => N t + 2 * gw t) q.2.2 q.2.1 q.1 c.2.2 c.2.1 c.1
      (by dsimp only; omega) (by dsimp only; omega) (by dsimp only; omega) (by dsimp only; omega) h
    exact Prod.ext e2 (Prod.ext e1 e0)

theorem Written.box3_kij {N gw : IntVector} {a c e b d f : Int} (v : Int → Int → Int → ℚ) {arr r : Arr}
    (h : Written (cells3 e f a b c d) (fun p => lin3 gw (fun t => N t + 2 * gw t) p.2.1 p.2.2 p.1)
      (fun p => v p.2.1 p.2.2 p.1) arr r)
    (hb : -gw 0 ≤ a ∧ b ≤ N 0 + gw 0 ∧ -gw 1 ≤ c ∧ d ≤ N 1 + gw 1) :
    Filled (InBox 3 (cell3 a c e) (cell3 b d f)) (linIdx 3 gw (fun t => N t + 2 * gw t))
      (fun x => v (x 0) (x 1) (x 2)) arr r := by
  refine h.filled _ _ _ (fun x => (x 2, x 0, x 1)) ?_ ?_ ?_
  · intro x hx
    have hx0 := hx 0 (by omega)
    have hx1 := hx 1 (by omega)
    have hx2 := hx 2 (by omega)
    simp only [cell3] at hx0 hx1 hx2
    norm_num at hx0 hx1 hx2
    exact ⟨mem_cells3.2 ⟨hx2, hx0, hx1⟩, by rw [linIdx_three], rfl⟩
  · intro p hp
    obtain ⟨m2, m0, m1⟩ := mem_cells3.1 hp
    refine ⟨cell3 p.2.1 p.2.2 p.1, fun d' hd => ?_, rfl⟩
    simp only [cell3]
    have hd' : d' = 0 ∨ d' = 1 ∨ d' = 2 := by omega
    rcases hd' with rfl | rfl | rfl
    · simpa using m0
    · simpa using m1
    · simpa using m2
  · intro c hc q hq h
    obtain ⟨m2, m0, m1⟩ := mem_cells3.1 hc
    obtain ⟨n2, n0, n1⟩ := mem_cells3.1 hq
    obtain ⟨e0, e1, e2⟩ := @lin3_inj gw (fun t => N t + 2 * gw t) q.2.1 q.2.2 q.1 c.2.1 c.2.2 c.1
      (by dsimp only; omega) (by dsimp only; omega) (by dsimp only; omega) (by dsimp only; omega) h
    exact Prod.ext e2 (Prod.ext e0 e1)

theorem Written.box3_jik {N gw : IntVector} {a c e b d f : Int} (v : Int → Int → Int → ℚ) {arr r : Arr}
    (h : Written (cells3 c d a b e f) (fun p => lin3 gw (fun t => N t + 2 * gw t) p.2.1 p.1 p.2.2)
      (fun p => v p.2.1 p.1 p.2.2) arr r)
    (hb : -gw 0 ≤ a ∧ b ≤ N 0 + gw 0 ∧ -gw 1 ≤ c ∧ d ≤ N 1 + gw 1) :
    Filled (InBox 3 (cell3 a c e) (cell3 b d f)) (linIdx 3 gw (fun t => N t + 2 * gw t))
      (fun x => v (x 0) (x 1) (x 2)) arr r := by
  refine h.filled _ _ _ (fun x => (x 1, x 0, x 2)) ?_ ?_ ?_
  · intro x hx
    have hx0 := hx 0 (by omega)
    have hx1 := hx 1 (by omega)
    have hx2 := hx 2 (by omega)
    simp only [cell3] at hx0 hx1 hx2
    norm_num at hx0 hx1 hx2
    exact ⟨mem_cells3.2 ⟨hx1, hx0, hx2⟩, by rw [linIdx_three], rfl⟩
  · intro p hp
    obtain ⟨m1, m0, m2⟩ := mem_cells3.1 hp
    refine ⟨cell3 p.2.1 p.1 p.2.2, fun d' hd => ?_, rfl⟩
    simp only [cell3]
    have hd' : d' = 0 ∨ d' = 1 ∨ d' = 2 := by omega
    rcases hd' with rfl | rfl | rfl
    · simpa using m0
    · simpa using m1
    · simpa using m2
  · intro c hc q hq h
    obtain ⟨m1, m0, m2⟩ := mem_cells3.1 hc
    obtain ⟨n1, n0, n2⟩ := mem_cells3.1 hq
    obtain ⟨e0, e1, e2⟩ := @lin3_inj gw (fun t => N t + 2 * gw t) q.2.1 q.1 q.2.2 c.2.1 c.1 c.2.2
      (by dsimp only; omega) (by dsimp only; omega) (by dsimp only; omega) (by dsimp only; omega) h
    exact Prod.ext e1 (Prod.ext e0 e2)

/-! ## Loop nests of the 2-D and 3-D transform -/

theorem pass2D_x_k2 (src : Arr) (N gs gw : IntVector) (s a b c d : Int) (out : Arr × Arr)
    (hs : 0 ≤ s)
    (hsrc : (src.length : Int) = (N 0 + 2 * gs 0) * (N 1 + 2 * gs 1))
    (hl1 : (out.1.length : Int) = (N 0 + 2 * gw 0) * (N 1 + 2 * gw 1))
    (hl2 : (out.2.length : Int) = (N 0 + 2 * gw 0) * (N 1 + 2 * gw 1))
    (hg : gw 0 ≤ gs 0 ∧ gw 1 ≤ gs 1)
    (hb : -gw 0 + s ≤ a ∧ b ≤ N 0 + gw 0 - s ∧ -gw 1 ≤ c ∧ d ≤ N 1 + gw 1) :
    ∃ r, forRange c d (fun j =>
        forRange a b (fun i o =>
        store2 o (lin2 gw (fun t => N t + 2 * gw t) i j)
          (low_k2 src (lin2 gs (fun t => N t + 2 * gs t) (i - s) j) (lin2 gs (fun t => N t + 2 * gs t) (i + s) j))
          (high_k2 src (lin2 gs (fun t => N t + 2 * gs t) (i - s) j) (lin2 gs (fun t => N t + 2 * gs t) i j) (lin2 gs (fun t => N t + 2 * gs t) (i + s) j)))) out = some r ∧
      Filled (InBox 2 (cell2 a c) (cell2 b d)) (linIdx 2 gw (fun t => N t + 2 * gw t))
        (fun x => lowVal 2 (lineOf 2 gs (fun t => N t + 2 * gs t) src x 0) s (x 0)) out.1 r.1 ∧
      Filled (InBox 2 (cell2 a c) (cell2 b d)) (linIdx 2 gw (fun t => N t + 2 * gw t))
        (fun x => highVal 2 (lineOf 2 gs (fun t => N t + 2 * gs t) src x 0) s (x 0)) out.2 r.2 := by
  have hbw : ∀ i j, a ≤ i → i < b → c ≤ j → j < d →
      0 ≤ lin2 gw (fun t => N t + 2 * gw t) i j ∧ lin2 gw (fun t => N t + 2 * gw t) i j < (N 0 + 2 * gw 0) * (N 1 + 2 * gw 1) :=
    fun i j h1 h2 h3 h4 => lin2_bounds (by omega) (by omega)
  have hbs : ∀ i j, a - s ≤ i → i < b + s → c ≤ j → j < d →
      0 ≤ lin2 gs (fun t => N t + 2 * gs t) i j ∧ lin2 gs (fun t => N t + 2 * gs t) i j < (N 0 + 2 * gs 0) * (N 1 + 2 * gs 1) :=
    fun i j h1 h2 h3 h4 => lin2_bounds (by omega) (by omega)
  obtain ⟨r, hr, hw1, hw2⟩ := loop2_store2 c d a b
    (fun j i => lin2 gw (fun t => N t + 2 * gw t) i j)
    (fun j i => low_k2 src (lin2 gs (fun t => N t + 2 * gs t) (i - s) j) (lin2 gs (fun t => N t + 2 * gs t) (i + s) j))
    (fun j i => high_k2 src (lin2 gs (fun t => N t + 2 * gs t) (i - s) j) (lin2 gs (fun t => N t + 2 * gs t) i j) (lin2 gs (fun t => N t + 2 * gs t) (i + s) j))
    (fun j i => lowVal 2 (fun t => valAt src (lin2 gs (fun t => N t + 2 * gs t) t j)) s i)
    (fun j i => highVal 2 (fun t => valAt src (lin2 gs (fun t => N t + 2 * gs t) t j)) s i) out
    (fun j i h1 h2 h3 h4 => by
      have hst := stencil_k2 (fun t => lin2 gs (fun t => N t + 2 * gs t) t j) s i hs
        (fun t ht1 ht2 => by rw [hsrc]; exact hbs t j (by omega) (by omega) h1 h2)
      have hix := hbw i j h3 h4 h1 h2
      exact ⟨⟨hix.1, by rw [hl1]; exact hix.2, by rw [hl2]; exact hix.2⟩, hst.1, hst.2.1⟩)
  refine ⟨r, hr, ?_, ?_⟩
  · have h := Written.box2_ji (fun i j => lowVal 2 (fun t => valAt src (lin2 gs (fun t => N t + 2 * gs t) t j)) s i) hw1 ⟨by omega, by omega⟩
    simpa only [lineOf_two_x] using h
  · have h := Written.box2_ji (fun i j => highVal 2 (fun t => valAt src (lin2 gs (fun t => N t + 2 * gs t) t j)) s i) hw2 ⟨by omega, by omega⟩
    simpa only [lineOf_two_x] using h

theorem pass2D_x_k4 (src : Arr) (N gs gw : IntVector) (s s2 a b c d : Int) (out : Arr × Arr)
    (hs : 0 ≤ s) (hs2 : s2 = 2 * s)
    (hsrc : (src.length : Int) = (N 0 + 2 * gs 0) * (N 1 + 2 * gs 1))
    (hl1 : (out.1.length : Int) = (N 0 + 2 * gw 0) * (N 1 + 2 * gw 1))
    (hl2 : (out.2.length : Int) = (N 0 + 2 * gw 0) * (N 1 + 2 * gw 1))
    (hg : gw 0 ≤ gs 0 ∧ gw 1 ≤ gs 1)
    (hb : -gw 0 + s2 ≤ a ∧ b ≤ N 0 + gw 0 - s2 ∧ -gw 1 ≤ c ∧ d ≤ N 1 + gw 1) :
    ∃ r, forRange c d (fun j =>
        forRange a b (fun i o =>
        store2 o (lin2 gw (fun t => N t + 2 * gw t) i j)
          (low_k4 src (lin2 gs (fun t => N t + 2 * gs t) (i - s2) j) (lin2 gs (fun t => N t + 2 * gs t) (i - s) j) (lin2 gs (fun t => N t + 2 * gs t) (i + s) j) (lin2 gs (fun t => N t + 2 * gs t) (i + s2) j))
          (high_k4 src (lin2 gs (fun t => N t + 2 * gs t) (i - s2) j) (lin2 gs (fun t => N t + 2 * gs t) (i - s) j) (lin2 gs (fun t => N t + 2 * gs t) i j) (lin2 gs (fun t => N t + 2 * gs t) (i + s) j) (lin2 gs (fun t => N t + 2 * gs t) (i + s2) j)))) out = some r ∧
      Filled (InBox 2 (cell2 a c) (cell2 b d)) (linIdx 2 gw (fun t => N t + 2 * gw t))
        (fun x => lowVal 4 (lineOf 2 gs (fun t => N t + 2 * gs t) src x 0) s (x 0)) out.1 r.1 ∧
      Filled (InBox 2 (cell2 a c) (cell2 b d)) (linIdx 2 gw (fun t => N t + 2 * gw t))
        (fun x => highVal 4 (lineOf 2 gs (fun t => N t + 2 * gs t) src x 0) s (x 0)) out.2 r.2 := by
  have hbw : ∀ i j, a ≤ i → i < b → c ≤ j → j < d →
      0 ≤ lin2 gw (fun t => N t + 2 * gw t) i j ∧ lin2 gw (fun t => N t + 2 * gw t) i j < (N 0 + 2 * gw 0) * (N 1 + 2 * gw 1) :=
    fun i j h1 h2 h3 h4 => lin2_bounds (by omega) (by omega)
  have hbs : ∀ i j, a - s2 ≤ i → i < b + s2 → c ≤ j → j < d →
      0 ≤ lin2 gs (fun t => N t + 2 * gs t) i j ∧ lin2 gs (fun t => N t + 2 * gs t) i j < (N 0 + 2 * gs 0) * (N 1 + 2 * gs 1) :=
    fun i j h1 h2 h3 h4 => lin2_bounds (by omega) (by omega)
  obtain ⟨r, hr, hw1, hw2⟩ := loop2_store2 c d a b
    (fun j i => lin2 gw (fun t => N t + 2 * gw t) i j)
    (fun j i => low_k4 src (lin2 gs (fun t => N t + 2 * gs t) (i - s2) j) (lin2 gs (fun t => N t + 2 * gs t) (i - s) j) (lin2 gs (fun t => N t + 2 * gs t) (i + s) j) (lin2 gs (fun t => N t + 2 * gs t) (i + s2) j))
    (fun j i => high_k4 src (lin2 gs (fun t => N t + 2 * gs t) (i - s2) j) (lin2 gs (fun t => N t + 2 * gs t) (i - s) j) (lin2 gs (fun t => N t + 2 * gs t) i j) (lin2 gs (fun t => N t + 2 * gs t) (i + s) j) (lin2 gs (fun t => N t + 2 * gs t) (i + s2) j))
    (fun j i => lowVal 4 (fun t => valAt src (lin2 gs (fun t => N t + 2 * gs t) t j)) s i)
    (fun j i => highVal 4 (fun t => valAt src (lin2 gs (fun t => N t + 2 * gs t) t j)) s i) out
    (fun j i h1 h2 h3 h4 => by
      have hst := stencil_k4 (fun t => lin2 gs (fun t => N t + 2 * gs t) t j) s s2 i hs hs2
        (fun t ht1 ht2 => by rw [hsrc]; exact hbs t j (by omega) (by omega) h1 h2)
      have hix := hbw i j h3 h4 h1 h2
      exact ⟨⟨hix.1, by rw [hl1]; exact hix.2, by rw [hl2]; exact hix.2⟩, hst.1, hst.2.1⟩)
  refine ⟨r, hr, ?_, ?_⟩
  · have h := Written.box2_ji (fun i j => lowVal 4 (fun t => valAt src (lin2 gs (fun t => N t + 2 * gs t) t j)) s i) hw1 ⟨by omega, by omega⟩
    simpa only [lineOf_two_x] using h
  · have h := Written.box2_ji (fun i j => highVal 4 (fun t => valAt src (lin2 gs (fun t => N t + 2 * gs t) t j)) s i) hw2 ⟨by omega, by omega⟩
    simpa only [lineOf_two_x] using h

theorem pass2D_y_k2 (src : Arr) (N gs gw : IntVector) (s a b c d : Int) (out : Arr × Arr)
    (hs : 0 ≤ s)
    (hsrc : (src.length : Int) = (N 0 + 2 * gs 0) * (N 1 + 2 * gs 1))
    (hl1 : (out.1.length : Int) = (N 0 + 2 * gw 0) * (N 1 + 2 * gw 1))
    (hl2 : (out.2.length : Int) = (N 0 + 2 * gw 0) * (N 1 + 2 * gw 1))
    (hg : gw 0 ≤ gs 0 ∧ gw 1 ≤ gs 1)
    (hb : -gw 0 ≤ a ∧ b ≤ N 0 + gw 0 ∧ -gw 1 + s ≤ c ∧ d ≤ N 1 + gw 1 - s) :
    ∃ r, forRange a b (fun i =>
        forRange c d (fun j o =>
        store2 o (lin2 gw (fun t => N t + 2 * gw t) i j)
          (low_k2 src (lin2 gs (fun t => N t + 2 * gs t) i (j - s)) (lin2 gs (fun t => N t + 2 * gs t) i (j + s)))
          (high_k2 src (lin2 gs (fun t => N t + 2 * gs t) i (j - s)) (lin2 gs (fun t => N t + 2 * gs t) i j) (lin2 gs (fun t => N t + 2 * gs t) i (j + s))))) out = some r ∧
      Filled (InBox 2 (cell2 a c) (cell2 b d)) (linIdx 2 gw (fun t => N t + 2 * gw t))
        (fun x => lowVal 2 (lineOf 2 gs (fun t => N t + 2 * gs t) src x 1) s (x 1)) out.1 r.1 ∧
      Filled (InBox 2 (cell2 a c) (cell2 b d)) (linIdx 2 gw (fun t => N t + 2 * gw t))
        (fun x => highVal 2 (lineOf 2 gs (fun t => N t + 2 * gs t) src x 1) s (x 1)) out.2 r.2 := by
  have hbw : ∀ i j, a ≤ i → i < b → c ≤ j → j < d →
      0 ≤ lin2 gw (fun t => N t + 2 * gw t) i j ∧ lin2 gw (fun t => N t + 2 * gw t) i j < (N 0 + 2 * gw 0) * (N 1 + 2 * gw 1) :=
    fun i j h1 h2 h3 h4 => lin2_bounds (by omega) (by omega)
  have hbs : ∀ i j, a ≤ i → i < b → c - s ≤ j → j < d + s →
      0 ≤ lin2 gs (fun t => N t + 2 * gs t) i j ∧ lin2 gs (fun t => N t + 2 * gs t) i j < (N 0 + 2 * gs 0) * (N 1 + 2 * gs 1) :=
    fun i j h1 h2 h3 h4 => lin2_bounds (by omega) (by omega)
  obtain ⟨r, hr, hw1, hw2⟩ := loop2_store2 a b c d
    (fun i j => lin2 gw (fun t => N t + 2 * gw t) i j)
    (fun i j => low_k2 src (lin2 gs (fun t => N t + 2 * gs t) i (j - s)) (lin2 gs (fun t => N t + 2 * gs t) i (j + s)))
    (fun i j => high_k2 src (lin2 gs (fun t => N t + 2 * gs t) i (j - s)) (lin2 gs (fun t => N t + 2 * gs t) i j) (lin2 gs (fun t => N t + 2 * gs t) i (j + s)))
    (fun i j => lowVal 2 (fun t => valAt src (lin2 gs (fun t => N t + 2 * gs t) i t)) s j)
    (fun i j => highVal 2 (fun t => valAt src (lin2 gs (fun t => N t + 2 * gs t) i t)) s j) out
    (fun i j h1 h2 h3 h4 => by
      have hst := stencil_k2 (fun t => lin2 gs (fun t => N t + 2 * gs t) i t) s j hs
        (fun t ht1 ht2 => by rw [hsrc]; exact hbs i t h1 h2 (by omega) (by omega))
      have hix := hbw i j h1 h2 h3 h4
      exact ⟨⟨hix.1, by rw [hl1]; exact hix.2, by rw [hl2]; exact hix.2⟩, hst.1, hst.2.1⟩)
  refine ⟨r, hr, ?_, ?_⟩
  · have h := Written.box2_ij (fun i j => lowVal 2 (fun t => valAt src (lin2 gs (fun t => N t + 2 * gs t) i t)) s j) hw1 ⟨by omega, by omega⟩
    simpa only [lineOf_two_y] using h
  · have h := Written.box2_ij (fun i j => highVal 2 (fun t => valAt src (lin2 gs (fun t => N t + 2 * gs t) i t)) s j) hw2 ⟨by omega, by omega⟩
    simpa only [lineOf_two_y] using h

theorem pass2D_y_k4 (src : Arr) (N gs gw : IntVector) (s s2 a b c d : Int) (out : Arr × Arr)
    (hs : 0 ≤ s) (hs2 : s2 = 2 * s)
    (hsrc : (src.length : Int) = (N 0 + 2 * gs 0) * (N 1 + 2 * gs 1))
    (hl1 : (out.1.length : Int) = (N 0 + 2 * gw 0) * (N 1 + 2 * gw 1))
    (hl2 : (out.2.length : Int) = (N 0 + 2 * gw 0) * (N 1 + 2 * gw 1))
    (hg : gw 0 ≤ gs 0 ∧ gw 1 ≤ gs 1)
    (hb : -gw 0 ≤ a ∧ b ≤ N 0 + gw 0 ∧ -gw 1 + s2 ≤ c ∧ d ≤ N 1 + gw 1 - s2) :
    ∃ r, forRange a b (fun i =>
        forRange c d (fun j o =>
        store2 o (lin2 gw (fun t => N t + 2 * gw t) i j)
          (low_k4 src (lin2 gs (fun t => N t + 2 * gs t) i (j - s2)) (lin2 gs (fun t => N t + 2 * gs t) i (j - s)) (lin2 gs (fun t => N t + 2 * gs t) i (j + s)) (lin2 gs (fun t => N t + 2 * gs t) i (j + s2)))
          (high_k4 src (lin2 gs (fun t => N t + 2 * gs t) i (j - s2)) (lin2 gs (fun t => N t + 2 * gs t) i (j - s)) (lin2 gs (fun t => N t + 2 * gs t) i j) (lin2 gs (fun t => N t + 2 * gs t) i (j + s)) (lin2 gs (fun t => N t + 2 * gs t) i (j + s2))))) out = some r ∧
      Filled (InBox 2 (cell2 a c) (cell2 b d)) (linIdx 2 gw (fun t => N t + 2 * gw t))
        (fun x => lowVal 4 (lineOf 2 gs (fun t => N t + 2 * gs t) src x 1) s (x 1)) out.1 r.1 ∧
      Filled (InBox 2 (cell2 a c) (cell2 b d)) (linIdx 2 gw (fun t => N t + 2 * gw t))
        (fun x => highVal 4 (lineOf 2 gs (fun t => N t + 2 * gs t) src x 1) s (x 1)) out.2 r.2 := by
  have hbw : ∀ i j, a ≤ i → i < b → c ≤ j → j < d →
      0 ≤ lin2 gw (fun t => N t + 2 * gw t) i j ∧ lin2 gw (fun t => N t + 2 * gw t) i j < (N 0 + 2 * gw 0) * (N 1 + 2 * gw 1) :=
    fun i j h1 h2 h3 h4 => lin2_bounds (by omega) (by omega)
  have hbs : ∀ i j, a ≤ i → i < b → c - s2 ≤ j → j < d + s2 →
      0 ≤ lin2 gs (fun t => N t + 2 * gs t) i j ∧ lin2 gs (fun t => N t + 2 * gs t) i j < (N 0 + 2 * gs 0) * (N 1 + 2 * gs 1) :=
    fun i j h1 h2 h3 h4 => lin2_bounds (by omega) (by omega)
  obtain ⟨r, hr, hw1, hw2⟩ := loop2_store2 a b c d
    (fun i j => lin2 gw (fun t => N t + 2 * gw t) i j)
    (fun i j => low_k4 src (lin2 gs (fun t => N t + 2 * gs t) i (j - s2)) (lin2 gs (fun t => N t + 2 * gs t) i (j - s)) (lin2 gs (fun t => N t + 2 * gs t) i (j + s)) (lin2 gs (fun t => N t + 2 * gs t) i (j + s2)))
    (fun i j => high_k4 src (lin2 gs (fun t => N t + 2 * gs t) i (j - s2)) (lin2 gs (fun t => N t + 2 * gs t) i (j - s)) (lin2 gs (fun t => N t + 2 * gs t) i j) (lin2 gs (fun t => N t + 2 * gs t) i (j + s)) (lin2 gs (fun t => N t + 2 * gs t) i (j + s2)))
    (fun i j => lowVal 4 (fun t => valAt src (lin2 gs (fun t => N t + 2 * gs t) i t)) s j)
    (fun i j => highVal 4 (fun t => valAt src (lin2 gs (fun t => N t + 2 * gs t) i t)) s j) out
    (fun i j h1 h2 h3 h4 => by
      have hst := stencil_k4 (fun t => lin2 gs (fun t => N t + 2 * gs t) i t) s s2 j hs hs2
        (fun t ht1 ht2 => by rw [hsrc]; exact hbs i t h1 h2 (by omega) (by omega))
      have hix := hbw i j h1 h2 h3 h4
      exact ⟨⟨hix.1, by rw [hl1]; exact hix.2, by rw [hl2]; exact hix.2⟩, hst.1, hst.2.1⟩)
  refine ⟨r, hr, ?_, ?_⟩
  · have h := Written.box2_ij (fun i j => lowVal 4 (fun t => valAt src (lin2 gs (fun t => N t + 2 * gs t) i t)) s j) hw1 ⟨by omega, by omega⟩
    simpa only [lineOf_two_y] using h
  · have h := Written.box2_ij (fun i j => highVal 4 (fun t => valAt src (lin2 gs (fun t => N t + 2 * gs t) i t)) s j) hw2 ⟨by omega, by omega⟩
    simpa only [lineOf_two_y] using h

theorem mean2D_k2 (sqrt : ℚ → ℚ) (srcx srcy : Arr) (N gs gw : IntVector) (s : Int) (out : Arr)
    (hs : 0 ≤ s)
    (hsrcx : (srcx.length : Int) = (N 0 + 2 * gs 0) * (N 1 + 2 * gs 1))
    (hsrcy : (srcy.length : Int) = (N 0 + 2 * gs 0) * (N 1 + 2 * gs 1))
    (hl : (out.length : Int) = (N 0 + 2 * gw 0) * (N 1 + 2 * gw 1))
    (hg : gw 0 ≤ gs 0 ∧ gw 1 ≤ gs 1)
    (hS : s ≤ gw 0 ∧ s ≤ gw 1) :
    ∃ r, forRange 0 (N 1) (fun j =>
        forRange 0 (N 0) (fun i o =>
        assign o (lin2 gw (fun t => N t + 2 * gw t) i j)
          (norm2 sqrt (1 / 2)
          (sum_k2 srcx (lin2 gs (fun t => N t + 2 * gs t) (i - s) j) (lin2 gs (fun t => N t + 2 * gs t) i j) (lin2 gs (fun t => N t + 2 * gs t) (i + s) j))
          (sum_k2 srcy (lin2 gs (fun t => N t + 2 * gs t) i (j - s)) (lin2 gs (fun t => N t + 2 * gs t) i j) (lin2 gs (fun t => N t + 2 * gs t) i (j + s)))))) out = some r ∧
      Filled (InBox 2 (cell2 0 0) (cell2 (N 0) (N 1))) (linIdx 2 gw (fun t => N t + 2 * gw t))
        (fun x => (1 / 2) * sqrt (sumVal 2 (lineOf 2 gs (fun t => N t + 2 * gs t) srcx x 0) s (x 0) ^ 2 + sumVal 2 (lineOf 2 gs (fun t => N t + 2 * gs t) srcy x 1) s (x 1) ^ 2)) out r := by
  have hbw : ∀ i j, 0 ≤ i → i < N 0 → 0 ≤ j → j < N 1 →
      0 ≤ lin2 gw (fun t => N t + 2 * gw t) i j ∧ lin2 gw (fun t => N t + 2 * gw t) i j < (N 0 + 2 * gw 0) * (N 1 + 2 * gw 1) :=
    fun i j h1 h2 h3 h4 => lin2_bounds (by omega) (by omega)
  have hbs : ∀ i j, -s ≤ i → i < N 0 + s → -s ≤ j → j < N 1 + s →
      0 ≤ lin2 gs (fun t => N t + 2 * gs t) i j ∧ lin2 gs (fun t => N t + 2 * gs t) i j < (N 0 + 2 * gs 0) * (N 1 + 2 * gs 1) :=
    fun i j h1 h2 h3 h4 => lin2_bounds (by omega) (by omega)
  obtain ⟨r, hr, hw⟩ := loop2_assign 0 (N 1) 0 (N 0)
    (fun j i => lin2 gw (fun t => N t + 2 * gw t) i j)
    (fun j i => norm2 sqrt (1 / 2)
      (sum_k2 srcx (lin2 gs (fun t => N t + 2 * gs t) (i - s) j) (lin2 gs (fun t => N t + 2 * gs t) i j) (lin2 gs (fun t => N t + 2 * gs t) (i + s) j))
      (sum_k2 srcy (lin2 gs (fun t => N t + 2 * gs t) i (j - s)) (lin2 gs (fun t => N t + 2 * gs t) i j) (lin2 gs (fun t => N t + 2 * gs t) i (j + s))))
    (fun j i => (1 / 2) * sqrt (sumVal 2 (fun t => valAt srcx (lin2 gs (fun t => N t + 2 * gs t) t j)) s i ^ 2 + sumVal 2 (fun t => valAt srcy (lin2 gs (fun t => N t + 2 * gs t) i t)) s j ^ 2)) out
    (fun j i h1 h2 h3 h4 => by
      have hst0 := (stencil_k2 (fun t => lin2 gs (fun t => N t + 2 * gs t) t j) s i hs
        (fun t ht1 ht2 => by rw [hsrcx]; exact hbs t j (by omega) (by omega) (by omega) (by omega))).2.2
      have hst1 := (stencil_k2 (fun t => lin2 gs (fun t => N t + 2 * gs t) i t) s j hs
        (fun t ht1 ht2 => by rw [hsrcy]; exact hbs i t (by omega) (by omega) (by omega) (by omega))).2.2
      have hix := hbw i j h3 h4 h1 h2
      refine ⟨⟨hix.1, by rw [hl]; exact hix.2⟩, ?_⟩
      dsimp only
      rw [hst0, hst1]
      rfl)
  refine ⟨r, hr, ?_⟩
  have h := Written.box2_ji (fun i j => (1 / 2) * sqrt (sumVal 2 (fun t => valAt srcx (lin2 gs (fun t => N t + 2 * gs t) t j)) s i ^ 2 + sumVal 2 (fun t => valAt srcy (lin2 gs (fun t => N t + 2 * gs t) i t)) s j ^ 2)) hw ⟨by omega, by omega⟩
  simpa only [lineOf_two_x, lineOf_two_y] using h

theorem mean2D_k4 (sqrt : ℚ → ℚ) (srcx srcy : Arr) (N gs gw : IntVector) (s s2 : Int) (out : Arr)
    (hs : 0 ≤ s) (hs2 : s2 = 2 * s)
    (hsrcx : (srcx.length : Int) = (N 0 + 2 * gs 0) * (N 1 + 2 * gs 1))
    (hsrcy : (srcy.length : Int) = (N 0 + 2 * gs 0) * (N 1 + 2 * gs 1))
    (hl : (out.length : Int) = (N 0 + 2 * gw 0) * (N 1 + 2 * gw 1))
    (hg : gw 0 ≤ gs 0 ∧ gw 1 ≤ gs 1)
    (hS : s2 ≤ gw 0 ∧ s2 ≤ gw 1) :
    ∃ r, forRange 0 (N 1) (fun j =>
        forRange 0 (N 0) (fun i o =>
        assign o (lin2 gw (fun t => N t + 2 * gw t) i j)
          (norm2 sqrt (1 / 6)
          (sum_k4 srcx (lin2 gs (fun t => N t + 2 * gs t) (i - s2) j) (lin2 gs (fun t => N t + 2 * gs t) (i - s) j) (lin2 gs (fun t => N t + 2 * gs t) i j) (lin2 gs (fun t => N t + 2 * gs t) (i + s) j) (lin2 gs (fun t => N t + 2 * gs t) (i + s2) j))
          (sum_k4 srcy (lin2 gs (fun t => N t + 2 * gs t) i (j - s2)) (lin2 gs (fun t => N t + 2 * gs t) i (j - s)) (lin2 gs (fun t => N t + 2 * gs t) i j) (lin2 gs (fun t => N t + 2 * gs t) i (j + s)) (lin2 gs (fun t => N t + 2 * gs t) i (j + s2)))))) out = some r ∧
      Filled (InBox 2 (cell2 0 0) (cell2 (N 0) (N 1))) (linIdx 2 gw (fun t => N t + 2 * gw t))
        (fun x => (1 / 6) * sqrt (sumVal 4 (lineOf 2 gs (fun t => N t + 2 * gs t) srcx x 0) s (x 0) ^ 2 + sumVal 4 (lineOf 2 gs (fun t => N t + 2 * gs t) srcy x 1) s (x 1) ^ 2)) out r := by
  have hbw : ∀ i j, 0 ≤ i → i < N 0 → 0 ≤ j → j < N 1 →
      0 ≤ lin2 gw (fun t => N t + 2 * gw t) i j ∧ lin2 gw (fun t => N t + 2 * gw t) i j < (N 0 + 2 * gw 0) * (N 1 + 2 * gw 1) :=
    fun i j h1 h2 h3 h4 => lin2_bounds (by omega) (by omega)
  have hbs : ∀ i j, -s2 ≤ i → i < N 0 + s2 → -s2 ≤ j → j < N 1 + s2 →
      0 ≤ lin2 gs (fun t => N t + 2 * gs t) i j ∧ lin2 gs (fun t => N t + 2 * gs t) i j < (N 0 + 2 * gs 0) * (N 1 + 2 * gs 1) :=
    fun i j h1 h2 h3 h4 => lin2_bounds (by omega) (by omega)
  obtain ⟨r, hr, hw⟩ := loop2_assign 0 (N 1) 0 (N 0)
    (fun j i => lin2 gw (fun t => N t + 2 * gw t) i j)
    (fun j i => norm2 sqrt (1 / 6)
      (sum_k4 srcx (lin2 gs (fun t => N t + 2 * gs t) (i - s2) j) (lin2 gs (fun t => N t + 2 * gs t) (i - s) j) (lin2 gs (fun t => N t + 2 * gs t) i j) (lin2 gs (fun t => N t + 2 * gs t) (i + s) j) (lin2 gs (fun t => N t + 2 * gs t) (i + s2) j))
      (sum_k4 srcy (lin2 gs (fun t => N t + 2 * gs t) i (j - s2)) (lin2 gs (fun t => N t + 2 * gs t) i (j - s)) (lin2 gs (fun t => N t + 2 * gs t) i j) (lin2 gs (fun t => N t + 2 * gs t) i (j + s)) (lin2 gs (fun t => N t + 2 * gs t) i (j + s2))))
    (fun j i => (1 / 6) * sqrt (sumVal 4 (fun t => valAt srcx (lin2 gs (fun t => N t + 2 * gs t) t j)) s i ^ 2 + sumVal 4 (fun t => valAt srcy (lin2 gs (fun t => N t + 2 * gs t) i t)) s j ^ 2)) out
    (fun j i h1 h2 h3 h4 => by
      have hst0 := (stencil_k4 (fun t => lin2 gs (fun t => N t + 2 * gs t) t j) s s2 i hs hs2
        (fun t ht1 ht2 => by rw [hsrcx]; exact hbs t j (by omega) (by omega) (by omega) (by omega))).2.2
      have hst1 := (stencil_k4 (fun t => lin2 gs (fun t => N t + 2 * gs t) i t) s s2 j hs hs2
        (fun t ht1 ht2 => by rw [hsrcy]; exact hbs i t (by omega) (by omega) (by omega) (by omega))).2.2
      have hix := hbw i j h3 h4 h1 h2
      refine ⟨⟨hix.1, by rw [hl]; exact hix.2⟩, ?_⟩
      dsimp only
      rw [hst0, hst1]
      rfl)
  refine ⟨r, hr, ?_⟩
  have h := Written.box2_ji (fun i j => (1 / 6) * sqrt (sumVal 4 (fun t => valAt srcx (lin2 gs (fun t => N t + 2 * gs t) t j)) s i ^ 2 + sumVal 4 (fun t => valAt srcy (lin2 gs (fun t => N t + 2 * gs t) i t)) s j ^ 2)) hw ⟨by omega, by omega⟩
  simpa only [lineOf_two_x, lineOf_two_y] using h

theorem comb2D (sqrt : ℚ → ℚ) (wx wy : Arr) (N gw : IntVector) (a b c d : Int) (out : Arr)
    (hlx : (wx.length : Int) = (N 0 + 2 * gw 0) * (N 1 + 2 * gw 1))
    (hly : (wy.length : Int) = (N 0 + 2 * gw 0) * (N 1 + 2 * gw 1))
    (hl : (out.length : Int) = (N 0 + 2 * gw 0) * (N 1 + 2 * gw 1))
    (hb : -gw 0 ≤ a ∧ b ≤ N 0 + gw 0 ∧ -gw 1 ≤ c ∧ d ≤ N 1 + gw 1) :
    ∃ r, forRange c d (fun j =>
        forRange a b (fun i o =>
        assign o (lin2 gw (fun t => N t + 2 * gw t) i j) (mag2 sqrt wx wy (lin2 gw (fun t => N t + 2 * gw t) i j)))) out = some r ∧
      Filled (InBox 2 (cell2 a c) (cell2 b d)) (linIdx 2 gw (fun t => N t + 2 * gw t))
        (fun x => sqrt (valAt wx (linIdx 2 gw (fun t => N t + 2 * gw t) x) * valAt wx (linIdx 2 gw (fun t => N t + 2 * gw t) x) + valAt wy (linIdx 2 gw (fun t => N t + 2 * gw t) x) * valAt wy (linIdx 2 gw (fun t => N t + 2 * gw t) x))) out r := by
  have hbw : ∀ i j, a ≤ i → i < b → c ≤ j → j < d →
      0 ≤ lin2 gw (fun t => N t + 2 * gw t) i j ∧ lin2 gw (fun t => N t + 2 * gw t) i j < (N 0 + 2 * gw 0) * (N 1 + 2 * gw 1) :=
    fun i j h1 h2 h3 h4 => lin2_bounds (by omega) (by omega)
  obtain ⟨r, hr, hw⟩ := loop2_assign c d a b
    (fun j i => lin2 gw (fun t => N t + 2 * gw t) i j)
    (fun j i => mag2 sqrt wx wy (lin2 gw (fun t => N t + 2 * gw t) i j))
    (fun j i => sqrt (valAt wx (lin2 gw (fun t => N t + 2 * gw t) i j) * valAt wx (lin2 gw (fun t => N t + 2 * gw t) i j) + valAt wy (lin2 gw (fun t => N t + 2 * gw t) i j) * valAt wy (lin2 gw (fun t => N t + 2 * gw t) i j))) out
    (fun j i h1 h2 h3 h4 => by
      have hix := hbw i j h3 h4 h1 h2
      exact ⟨⟨hix.1, by rw [hl]; exact hix.2⟩, mag2_eq sqrt ⟨hix.1, by rw [hlx]; exact hix.2⟩ ⟨hix.1, by rw [hly]; exact hix.2⟩⟩)
  refine ⟨r, hr, ?_⟩
  have h := Written.box2_ji (fun i j => sqrt (valAt wx (lin2 gw (fun t => N t + 2 * gw t) i j) * valAt wx (lin2 gw (fun t => N t + 2 * gw t) i j) + valAt wy (lin2 gw (fun t => N t + 2 * gw t) i j) * valAt wy (lin2 gw (fun t => N t + 2 * gw t) i j))) hw ⟨by omega, by omega⟩
  simpa only [linIdx_two] using h

theorem pass3D_x_k2 (src : Arr) (N gs gw : IntVector) (s a b c d e f : Int) (out : Arr × Arr)
    (hs : 0 ≤ s)
    (hsrc : (src.length : Int) = (N 0 + 2 * gs 0) * (N 1 + 2 * gs 1) * (N 2 + 2 * gs 2))
    (hl1 : (out.1.length : Int) = (N 0 + 2 * gw 0) * (N 1 + 2 * gw 1) * (N 2 + 2 * gw 2))
    (hl2 : (out.2.length : Int) = (N 0 + 2 * gw 0) * (N 1 + 2 * gw 1) * (N 2 + 2 * gw 2))
    (hg : gw 0 ≤ gs 0 ∧ gw 1 ≤ gs 1 ∧ gw 2 ≤ gs 2)
    (hb : -gw 0 + s ≤ a ∧ b ≤ N 0 + gw 0 - s ∧ -gw 1 ≤ c ∧ d ≤ N 1 + gw 1 ∧ -gw 2 ≤ e ∧ f ≤ N 2 + gw 2) :
    ∃ r, forRange e f (fun k =>
        forRange c d (fun j =>
        forRange a b (fun i o =>
        store2 o (lin3 gw (fun t => N t + 2 * gw t) i j k)
          (low_k2 src (lin3 gs (fun t => N t + 2 * gs t) (i - s) j k) (lin3 gs (fun t => N t + 2 * gs t) (i + s) j k))
          (high_k2 src (lin3 gs (fun t => N t + 2 * gs t) (i - s) j k) (lin3 gs (fun t => N t + 2 * gs t) i j k) (lin3 gs (fun t => N t + 2 * gs t) (i + s) j k))))) out = some r ∧
      Filled (InBox 3 (cell3 a c e) (cell3 b d f)) (linIdx 3 gw (fun t => N t + 2 * gw t))
        (fun x => lowVal 2 (lineOf 3 gs (fun t => N t + 2 * gs t) src x 0) s (x 0)) out.1 r.1 ∧
      Filled (InBox 3 (cell3 a c e) (cell3 b d f)) (linIdx 3 gw (fun t => N t + 2 * gw t))
        (fun x => highVal 2 (lineOf 3 gs (fun t => N t + 2 * gs t) src x 0) s (x 0)) out.2 r.2 := by
  have hbw : ∀ i j k, a ≤ i → i < b → c ≤ j → j < d → e ≤ k → k < f →
      0 ≤ lin3 gw (fun t => N t + 2 * gw t) i j k ∧ lin3 gw (fun t => N t + 2 * gw t) i j k < (N 0 + 2 * gw 0) * (N 1 + 2 * gw 1) * (N 2 + 2 * gw 2) :=
    fun i j k h1 h2 h3 h4 h5 h6 => lin3_bounds (by omega) (by omega) (by omega)
  have hbs : ∀ i j k, a - s ≤ i → i < b + s → c ≤ j → j < d → e ≤ k → k < f →
      0 ≤ lin3 gs (fun t => N t + 2 * gs t) i j k ∧ lin3 gs (fun t => N t + 2 * gs t) i j k < (N 0 + 2 * gs 0) * (N 1 + 2 * gs 1) * (N 2 + 2 * gs 2) :=
    fun i j k h1 h2 h3 h4 h5 h6 => lin3_bounds (by omega) (by omega) (by omega)
  obtain ⟨r, hr, hw1, hw2⟩ := loop3_store2 e f c d a b
    (fun k j i => lin3 gw (fun t => N t + 2 * gw t) i j k)
    (fun k j i => low_k2 src (lin3 gs (fun t => N t + 2 * gs t) (i - s) j k) (lin3 gs (fun t => N t + 2 * gs t) (i + s) j k))
    (fun k j i => high_k2 src (lin3 gs (fun t => N t + 2 * gs t) (i - s) j k) (lin3 gs (fun t => N t + 2 * gs t) i j k) (lin3 gs (fun t => N t + 2 * gs t) (i + s) j k))
    (fun k j i => lowVal 2 (fun t => valAt src (lin3 gs (fun t => N t + 2 * gs t) t j k)) s i)
    (fun k j i => highVal 2 (fun t => valAt src (lin3 gs (fun t => N t + 2 * gs t) t j k)) s i) out
    (fun k j i h1 h2 h3 h4 h5 h6 => by
      have hst := stencil_k2 (fun t => lin3 gs (fun t => N t + 2 * gs t) t j k) s i hs
        (fun t ht1 ht2 => by rw [hsrc]; exact hbs t j k (by omega) (by omega) h3 h4 h1 h2)
      have hix := hbw i j k h5 h6 h3 h4 h1 h2
      exact ⟨⟨hix.1, by rw [hl1]; exact hix.2, by rw [hl2]; exact hix.2⟩, hst.1, hst.2.1⟩)
  refine ⟨r, hr, ?_, ?_⟩
  · have h := Written.box3_kji (fun i j k => lowVal 2 (fun t => valAt src (lin3 gs (fun t => N t + 2 * gs t) t j k)) s i) hw1 ⟨by omega, by omega, by omega, by omega⟩
    simpa only [lineOf_three_x] using h
  · have h := Written.box3_kji (fun i j k => highVal 2 (fun t => valAt src (lin3 gs (fun t => N t + 2 * gs t) t j k)) s i) hw2 ⟨by omega, by omega, by omega, by omega⟩
    simpa only [lineOf_three_x] using h

theorem pass3D_x_k4 (src : Arr) (N gs gw : IntVector) (s s2 a b c d e f : Int) (out : Arr × Arr)
    (hs : 0 ≤ s) (hs2 : s2 = 2 * s)
    (hsrc : (src.length : Int) = (N 0 + 2 * gs 0) * (N 1 + 2 * gs 1) * (N 2 + 2 * gs 2))
    (hl1 : (out.1.length : Int) = (N 0 + 2 * gw 0) * (N 1 + 2 * gw 1) * (N 2 + 2 * gw 2))
    (hl2 : (out.2.length : Int) = (N 0 + 2 * gw 0) * (N 1 + 2 * gw 1) * (N 2 + 2 * gw 2))
    (hg : gw 0 ≤ gs 0 ∧ gw 1 ≤ gs 1 ∧ gw 2 ≤ gs 2)
    (hb : -gw 0 + s2 ≤ a ∧ b ≤ N 0 + gw 0 - s2 ∧ -gw 1 ≤ c ∧ d ≤ N 1 + gw 1 ∧ -gw 2 ≤ e ∧ f ≤ N 2 + gw 2) :
    ∃ r, forRange e f (fun k =>
        forRange c d (fun j =>
        forRange a b (fun i o =>
        store2 o (lin3 gw (fun t => N t + 2 * gw t) i j k)
          (low_k4 src (lin3 gs (fun t => N t + 2 * gs t) (i - s2) j k) (lin3 gs (fun t => N t + 2 * gs t) (i - s) j k) (lin3 gs (fun t => N t + 2 * gs t) (i + s) j k) (lin3 gs (fun t => N t + 2 * gs t) (i + s2) j k))
          (high_k4 src (lin3 gs (fun t => N t + 2 * gs t) (i - s2) j k) (lin3 gs (fun t => N t + 2 * gs t) (i - s) j k) (lin3 gs (fun t => N t + 2 * gs t) i j k) (lin3 gs (fun t => N t + 2 * gs t) (i + s) j k) (lin3 gs (fun t => N t + 2 * gs t) (i + s2) j k))))) out = some r ∧
      Filled (InBox 3 (cell3 a c e) (cell3 b d f)) (linIdx 3 gw (fun t => N t + 2 * gw t))
        (fun x => lowVal 4 (lineOf 3 gs (fun t => N t + 2 * gs t) src x 0) s (x 0)) out.1 r.1 ∧
      Filled (InBox 3 (cell3 a c e) (cell3 b d f)) (linIdx 3 gw (fun t => N t + 2 * gw t))
        (fun x => highVal 4 (lineOf 3 gs (fun t => N t + 2 * gs t) src x 0) s (x 0)) out.2 r.2 := by
  have hbw : ∀ i j k, a ≤ i → i < b → c ≤ j → j < d → e ≤ k → k < f →
      0 ≤ lin3 gw (fun t => N t + 2 * gw t) i j k ∧ lin3 gw (fun t => N t + 2 * gw t) i j k < (N 0 + 2 * gw 0) * (N 1 + 2 * gw 1) * (N 2 + 2 * gw 2) :=
    fun i j k h1 h2 h3 h4 h5 h6 => lin3_bounds (by omega) (by omega) (by omega)
  have hbs : ∀ i j k, a - s2 ≤ i → i < b + s2 → c ≤ j → j < d → e ≤ k → k < f →
      0 ≤ lin3 gs (fun t => N t + 2 * gs t) i j k ∧ lin3 gs (fun t => N t + 2 * gs t) i j k < (N 0 + 2 * gs 0) * (N 1 + 2 * gs 1) * (N 2 + 2 * gs 2) :=
    fun i j k h1 h2 h3 h4 h5 h6 => lin3_bounds (by omega) (by omega) (by omega)
  obtain ⟨r, hr, hw1, hw2⟩ := loop3_store2 e f c d a b
    (fun k j i => lin3 gw (fun t => N t + 2 * gw t) i j k)
    (fun k j i => low_k4 src (lin3 gs (fun t => N t + 2 * gs t) (i - s2) j k) (lin3 gs (fun t => N t + 2 * gs t) (i - s) j k) (lin3 gs (fun t => N t + 2 * gs t) (i + s) j k) (lin3 gs (fun t => N t + 2 * gs t) (i + s2) j k))
    (fun k j i => high_k4 src (lin3 gs (fun t => N t + 2 * gs t) (i - s2) j k) (lin3 gs (fun t => N t + 2 * gs t) (i - s) j k) (lin3 gs (fun t => N t + 2 * gs t) i j k) (lin3 gs (fun t => N t + 2 * gs t) (i + s) j k) (lin3 gs (fun t => N t + 2 * gs t) (i + s2) j k))
    (fun k j i => lowVal 4 (fun t => valAt src (lin3 gs (fun t => N t + 2 * gs t) t j k)) s i)
    (fun k j i => highVal 4 (fun t => valAt src (lin3 gs (fun t => N t + 2 * gs t) t j k)) s i) out
    (fun k j i h1 h2 h3 h4 h5 h6 => by
      have hst := stencil_k4 (fun t => lin3 gs (fun t => N t + 2 * gs t) t j k) s s2 i hs hs2
        (fun t ht1 ht2 => by rw [hsrc]; exact hbs t j k (by omega) (by omega) h3 h4 h1 h2)
      have hix := hbw i j k h5 h6 h3 h4 h1 h2
      exact ⟨⟨hix.1, by rw [hl1]; exact hix.2, by rw [hl2]; exact hix.2⟩, hst.1, hst.2.1⟩)
  refine ⟨r, hr, ?_, ?_⟩
  · have h := Written.box3_kji (fun i j k => lowVal 4 (fun t => valAt src (lin3 gs (fun t => N t + 2 * gs t) t j k)) s i) hw1 ⟨by omega, by omega, by omega, by omega⟩
    simpa only [lineOf_three_x] using h
  · have h := Written.box3_kji (fun i j k => highVal 4 (fun t => valAt src (lin3 gs (fun t => N t + 2 * gs t) t j k)) s i) hw2 ⟨by omega, by omega, by omega, by omega⟩
    simpa only [lineOf_three_x] using h

theorem pass3D_y_k2 (src : Arr) (N gs gw : IntVector) (s a b c d e f : Int) (out : Arr × Arr)
    (hs : 0 ≤ s)
    (hsrc : (src.length : Int) = (N 0 + 2 * gs 0) * (N 1 + 2 * gs 1) * (N 2 + 2 * gs 2))
    (hl1 : (out.1.length : Int) = (N 0 + 2 * gw 0) * (N 1 + 2 * gw 1) * (N 2 + 2 * gw 2))
    (hl2 : (out.2.length : Int) = (N 0 + 2 * gw 0) * (N 1 + 2 * gw 1) * (N 2 + 2 * gw 2))
    (hg : gw 0 ≤ gs 0 ∧ gw 1 ≤ gs 1 ∧ gw 2 ≤ gs 2)
    (hb : -gw 0 ≤ a ∧ b ≤ N 0 + gw 0 ∧ -gw 1 + s ≤ c ∧ d ≤ N 1 + gw 1 - s ∧ -gw 2 ≤ e ∧ f ≤ N 2 + gw 2) :
    ∃ r, forRange e f (fun k =>
        forRange a b (fun i =>
        forRange c d (fun j o =>
        store2 o (lin3 gw (fun t => N t + 2 * gw t) i j k)
          (low_k2 src (lin3 gs (fun t => N t + 2 * gs t) i (j - s) k) (lin3 gs (fun t => N t + 2 * gs t) i (j + s) k))
          (high_k2 src (lin3 gs (fun t => N t + 2 * gs t) i (j - s) k) (lin3 gs (fun t => N t + 2 * gs t) i j k) (lin3 gs (fun t => N t + 2 * gs t) i (j + s) k))))) out = some r ∧
      Filled (InBox 3 (cell3 a c e) (cell3 b d f)) (linIdx 3 gw (fun t => N t + 2 * gw t))
        (fun x => lowVal 2 (lineOf 3 gs (fun t => N t + 2 * gs t) src x 1) s (x 1)) out.1 r.1 ∧
      Filled (InBox 3 (cell3 a c e) (cell3 b d f)) (linIdx 3 gw (fun t => N t + 2 * gw t))
        (fun x => highVal 2 (lineOf 3 gs (fun t => N t + 2 * gs t) src x 1) s (x 1)) out.2 r.2 := by
  have hbw : ∀ i j k, a ≤ i → i < b → c ≤ j → j < d → e ≤ k → k < f →
      0 ≤ lin3 gw (fun t => N t + 2 * gw t) i j k ∧ lin3 gw (fun t => N t + 2 * gw t) i j k < (N 0 + 2 * gw 0) * (N 1 + 2 * gw 1) * (N 2 + 2 * gw 2) :=
    fun i j k h1 h2 h3 h4 h5 h6 => lin3_bounds (by omega) (by omega) (by omega)
  have hbs : ∀ i j k, a ≤ i → i < b → c - s ≤ j → j < d + s → e ≤ k → k < f →
      0 ≤ lin3 gs (fun t => N t + 2 * gs t) i j k ∧ lin3 gs (fun t => N t + 2 * gs t) i j k < (N 0 + 2 * gs 0) * (N 1 + 2 * gs 1) * (N 2 + 2 * gs 2) :=
    fun i j k h1 h2 h3 h4 h5 h6 => lin3_bounds (by omega) (by omega) (by omega)
  obtain ⟨r, hr, hw1, hw2⟩ := loop3_store2 e f a b c d
    (fun k i j => lin3 gw (fun t => N t + 2 * gw t) i j k)
    (fun k i j => low_k2 src (lin3 gs (fun t => N t + 2 * gs t) i (j - s) k) (lin3 gs (fun t => N t + 2 * gs t) i (j + s) k))
    (fun k i j => high_k2 src (lin3 gs (fun t => N t + 2 * gs t) i (j - s) k) (lin3 gs (fun t => N t + 2 * gs t) i j k) (lin3 gs (fun t => N t + 2 * gs t) i (j + s) k))
    (fun k i j => lowVal 2 (fun t => valAt src (lin3 gs (fun t => N t + 2 * gs t) i t k)) s j)
    (fun k i j => highVal 2 (fun t => valAt src (lin3 gs (fun t => N t + 2 * gs t) i t k)) s j) out
    (fun k i j h1 h2 h3 h4 h5 h6 => by
      have hst := stencil_k2 (fun t => lin3 gs (fun t => N t + 2 * gs t) i t k) s j hs
        (fun t ht1 ht2 => by rw [hsrc]; exact hbs i t k h3 h4 (by omega) (by omega) h1 h2)
      have hix := hbw i j k h3 h4 h5 h6 h1 h2
      exact ⟨⟨hix.1, by rw [hl1]; exact hix.2, by rw [hl2]; exact hix.2⟩, hst.1, hst.2.1⟩)
  refine ⟨r, hr, ?_, ?_⟩
  · have h := Written.box3_kij (fun i j k => lowVal 2 (fun t => valAt src (lin3 gs (fun t => N t + 2 * gs t) i t k)) s j) hw1 ⟨by omega, by omega, by omega, by omega⟩
    simpa only [lineOf_three_y] using h
  · have h := Written.box3_kij (fun i j k => highVal 2 (fun t => valAt src (lin3 gs (fun t => N t + 2 * gs t) i t k)) s j) hw2 ⟨by omega, by omega, by omega, by omega⟩
    simpa only [lineOf_three_y] using h

theorem pass3D_y_k4 (src : Arr) (N gs gw : IntVector) (s s2 a b c d e f : Int) (out : Arr × Arr)
    (hs : 0 ≤ s) (hs2 : s2 = 2 * s)
    (hsrc : (src.length : Int) = (N 0 + 2 * gs 0) * (N 1 + 2 * gs 1) * (N 2 + 2 * gs 2))
    (hl1 : (out.1.length : Int) = (N 0 + 2 * gw 0) * (N 1 + 2 * gw 1) * (N 2 + 2 * gw 2))
    (hl2 : (out.2.length : Int) = (N 0 + 2 * gw 0) * (N 1 + 2 * gw 1) * (N 2 + 2 * gw 2))
    (hg : gw 0 ≤ gs 0 ∧ gw 1 ≤ gs 1 ∧ gw 2 ≤ gs 2)
    (hb : -gw 0 ≤ a ∧ b ≤ N 0 + gw 0 ∧ -gw 1 + s2 ≤ c ∧ d ≤ N 1 + gw 1 - s2 ∧ -gw 2 ≤ e ∧ f ≤ N 2 + gw 2) :
    ∃ r, forRange e f (fun k =>
        forRange a b (fun i =>
        forRange c d (fun j o =>
        store2 o (lin3 gw (fun t => N t + 2 * gw t) i j k)
          (low_k4 src (lin3 gs (fun t => N t + 2 * gs t) i (j - s2) k) (lin3 gs (fun t => N t + 2 * gs t) i (j - s) k) (lin3 gs (fun t => N t + 2 * gs t) i (j + s) k) (lin3 gs (fun t => N t + 2 * gs t) i (j + s2) k))
          (high_k4 src (lin3 gs (fun t => N t + 2 * gs t) i (j - s2) k) (lin3 gs (fun t => N t + 2 * gs t) i (j - s) k) (lin3 gs (fun t => N t + 2 * gs t) i j k) (lin3 gs (fun t => N t + 2 * gs t) i (j + s) k) (lin3 gs (fun t => N t + 2 * gs t) i (j + s2) k))))) out = some r ∧
      Filled (InBox 3 (cell3 a c e) (cell3 b d f)) (linIdx 3 gw (fun t => N t + 2 * gw t))
        (fun x => lowVal 4 (lineOf 3 gs (fun t => N t + 2 * gs t) src x 1) s (x 1)) out.1 r.1 ∧
      Filled (InBox 3 (cell3 a c e) (cell3 b d f)) (linIdx 3 gw (fun t => N t + 2 * gw t))
        (fun x => highVal 4 (lineOf 3 gs (fun t => N t + 2 * gs t) src x 1) s (x 1)) out.2 r.2 := by
  have hbw : ∀ i j k, a ≤ i → i < b → c ≤ j → j < d → e ≤ k → k < f →
      0 ≤ lin3 gw (fun t => N t + 2 * gw t) i j k ∧ lin3 gw (fun t => N t + 2 * gw t) i j k < (N 0 + 2 * gw 0) * (N 1 + 2 * gw 1) * (N 2 + 2 * gw 2) :=
    fun i j k h1 h2 h3 h4 h5 h6 => lin3_bounds (by omega) (by omega) (by omega)
  have hbs : ∀ i j k, a ≤ i → i < b → c - s2 ≤ j → j < d + s2 → e ≤ k → k < f →
      0 ≤ lin3 gs (fun t => N t + 2 * gs t) i j k ∧ lin3 gs (fun t => N t + 2 * gs t) i j k < (N 0 + 2 * gs 0) * (N 1 + 2 * gs 1) * (N 2 + 2 * gs 2) :=
    fun i j k h1 h2 h3 h4 h5 h6 => lin3_bounds (by omega) (by omega) (by omega)
  obtain ⟨r, hr, hw1, hw2⟩ := loop3_store2 e f a b c d
    (fun k i j => lin3 gw (fun t => N t + 2 * gw t) i j k)
    (fun k i j => low_k4 src (lin3 gs (fun t => N t + 2 * gs t) i (j - s2) k) (lin3 gs (fun t => N t + 2 * gs t) i (j - s) k) (lin3 gs (fun t => N t + 2 * gs t) i (j + s) k) (lin3 gs (fun t => N t + 2 * gs t) i (j + s2) k))
    (fun k i j => high_k4 src (lin3 gs (fun t => N t + 2 * gs t) i (j - s2) k) (lin3 gs (fun t => N t + 2 * gs t) i (j - s) k) (lin3 gs (fun t => N t + 2 * gs t) i j k) (lin3 gs (fun t => N t + 2 * gs t) i (j + s) k) (lin3 gs (fun t => N t + 2 * gs t) i (j + s2) k))
    (fun k i j => lowVal 4 (fun t => valAt src (lin3 gs (fun t => N t + 2 * gs t) i t k)) s j)
    (fun k i j => highVal 4 (fun t => valAt src (lin3 gs (fun t => N t + 2 * gs t) i t k)) s j) out
    (fun k i j h1 h2 h3 h4 h5 h6 => by
      have hst := stencil_k4 (fun t => lin3 gs (fun t => N t + 2 * gs t) i t k) s s2 j hs hs2
        (fun t ht1 ht2 => by rw [hsrc]; exact hbs i t k h3 h4 (by omega) (by omega) h1 h2)
      have hix := hbw i j k h3 h4 h5 h6 h1 h2
      exact ⟨⟨hix.1, by rw [hl1]; exact hix.2, by rw [hl2]; exact hix.2⟩, hst.1, hst.2.1⟩)
  refine ⟨r, hr, ?_, ?_⟩
  · have h := Written.box3_kij (fun i j k => lowVal 4 (fun t => valAt src (lin3 gs (fun t => N t + 2 * gs t) i t k)) s j) hw1 ⟨by omega, by omega, by omega, by omega⟩
    simpa only [lineOf_three_y] using h
  · have h := Written.box3_kij (fun i j k => highVal 4 (fun t => valAt src (lin3 gs (fun t => N t + 2 * gs t) i t k)) s j) hw2 ⟨by omega, by omega, by omega, by omega⟩
    simpa only [lineOf_three_y] using h

theorem pass3D_z_k2 (src : Arr) (N gs gw : IntVector) (s a b c d e f : Int) (out : Arr × Arr)
    (hs : 0 ≤ s)
    (hsrc : (src.length : Int) = (N 0 + 2 * gs 0) * (N 1 + 2 * gs 1) * (N 2 + 2 * gs 2))
    (hl1 : (out.1.length : Int) = (N 0 + 2 * gw 0) * (N 1 + 2 * gw 1) * (N 2 + 2 * gw 2))
    (hl2 : (out.2.length : Int) = (N 0 + 2 * gw 0) * (N 1 + 2 * gw 1) * (N 2 + 2 * gw 2))
    (hg : gw 0 ≤ gs 0 ∧ gw 1 ≤ gs 1 ∧ gw 2 ≤ gs 2)
    (hb : -gw 0 ≤ a ∧ b ≤ N 0 + gw 0 ∧ -gw 1 ≤ c ∧ d ≤ N 1 + gw 1 ∧ -gw 2 + s ≤ e ∧ f ≤ N 2 + gw 2 - s) :
    ∃ r, forRange c d (fun j =>
        forRange a b (fun i =>
        forRange e f (fun k o =>
        store2 o (lin3 gw (fun t => N t + 2 * gw t) i j k)
          (low_k2 src (lin3 gs (fun t => N t + 2 * gs t) i j (k - s)) (lin3 gs (fun t => N t + 2 * gs t) i j (k + s)))
          (high_k2 src (lin3 gs (fun t => N t + 2 * gs t) i j (k - s)) (lin3 gs (fun t => N t + 2 * gs t) i j k) (lin3 gs (fun t => N t + 2 * gs t) i j (k + s)))))) out = some r ∧
      Filled (InBox 3 (cell3 a c e) (cell3 b d f)) (linIdx 3 gw (fun t => N t + 2 * gw t))
        (fun x => lowVal 2 (lineOf 3 gs (fun t => N t + 2 * gs t) src x 2) s (x 2)) out.1 r.1 ∧
      Filled (InBox 3 (cell3 a c e) (cell3 b d f)) (linIdx 3 gw (fun t => N t + 2 * gw t))
        (fun x => highVal 2 (lineOf 3 gs (fun t => N t + 2 * gs t) src x 2) s (x 2)) out.2 r.2 := by
  have hbw : ∀ i j k, a ≤ i → i < b → c ≤ j → j < d → e ≤ k → k < f →
      0 ≤ lin3 gw (fun t => N t + 2 * gw t) i j k ∧ lin3 gw (fun t => N t + 2 * gw t) i j k < (N 0 + 2 * gw 0) * (N 1 + 2 * gw 1) * (N 2 + 2 * gw 2) :=
    fun i j k h1 h2 h3 h4 h5 h6 => lin3_bounds (by omega) (by omega) (by omega)
  have hbs : ∀ i j k, a ≤ i → i < b → c ≤ j → j < d → e - s ≤ k → k < f + s →
      0 ≤ lin3 gs (fun t => N t + 2 * gs t) i j k ∧ lin3 gs (fun t => N t + 2 * gs t) i j k < (N 0 + 2 * gs 0) * (N 1 + 2 * gs 1) * (N 2 + 2 * gs 2) :=
    fun i j k h1 h2 h3 h4 h5 h6 => lin3_bounds (by omega) (by omega) (by omega)
  obtain ⟨r, hr, hw1, hw2⟩ := loop3_store2 c d a b e f
    (fun j i k => lin3 gw (fun t => N t + 2 * gw t) i j k)
    (fun j i k => low_k2 src (lin3 gs (fun t => N t + 2 * gs t) i j (k - s)) (lin3 gs (fun t => N t + 2 * gs t) i j (k + s)))
    (fun j i k => high_k2 src (lin3 gs (fun t => N t + 2 * gs t) i j (k - s)) (lin3 gs (fun t => N t + 2 * gs t) i j k) (lin3 gs (fun t => N t + 2 * gs t) i j (k + s)))
    (fun j i k => lowVal 2 (fun t => valAt src (lin3 gs (fun t => N t + 2 * gs t) i j t)) s k)
    (fun j i k => highVal 2 (fun t => valAt src (lin3 gs (fun t => N t + 2 * gs t) i j t)) s k) out
    (fun j i k h1 h2 h3 h4 h5 h6 => by
      have hst := stencil_k2 (fun t => lin3 gs (fun t => N t + 2 * gs t) i j t) s k hs
        (fun t ht1 ht2 => by rw [hsrc]; exact hbs i j t h3 h4 h1 h2 (by omega) (by omega))
      have hix := hbw i j k h3 h4 h1 h2 h5 h6
      exact ⟨⟨hix.1, by rw [hl1]; exact hix.2, by rw [hl2]; exact hix.2⟩, hst.1, hst.2.1⟩)
  refine ⟨r, hr, ?_, ?_⟩
  · have h := Written.box3_jik (fun i j k => lowVal 2 (fun t => valAt src (lin3 gs (fun t => N t + 2 * gs t) i j t)) s k) hw1 ⟨by omega, by omega, by omega, by omega⟩
    simpa only [lineOf_three_z] using h
  · have h := Written.box3_jik (fun i j k => highVal 2 (fun t => valAt src (lin3 gs (fun t => N t + 2 * gs t) i j t)) s k) hw2 ⟨by omega, by omega, by omega, by omega⟩
    simpa only [lineOf_three_z] using h

theorem pass3D_z_k4 (src : Arr) (N gs gw : IntVector) (s s2 a b c d e f : Int) (out : Arr × Arr)
    (hs : 0 ≤ s) (hs2 : s2 = 2 * s)
    (hsrc : (src.length : Int) = (N 0 + 2 * gs 0) * (N 1 + 2 * gs 1) * (N 2 + 2 * gs 2))
    (hl1 : (out.1.length : Int) = (N 0 + 2 * gw 0) * (N 1 + 2 * gw 1) * (N 2 + 2 * gw 2))
    (hl2 : (out.2.length : Int) = (N 0 + 2 * gw 0) * (N 1 + 2 * gw 1) * (N 2 + 2 * gw 2))
    (hg : gw 0 ≤ gs 0 ∧ gw 1 ≤ gs 1 ∧ gw 2 ≤ gs 2)
    (hb : -gw 0 ≤ a ∧ b ≤ N 0 + gw 0 ∧ -gw 1 ≤ c ∧ d ≤ N 1 + gw 1 ∧ -gw 2 + s2 ≤ e ∧ f ≤ N 2 + gw 2 - s2) :
    ∃ r, forRange c d (fun j =>
        forRange a b (fun i =>
        forRange e f (fun k o =>
        store2 o (lin3 gw (fun t => N t + 2 * gw t) i j k)
          (low_k4 src (lin3 gs (fun t => N t + 2 * gs t) i j (k - s2)) (lin3 gs (fun t => N t + 2 * gs t) i j (k - s)) (lin3 gs (fun t => N t + 2 * gs t) i j (k + s)) (lin3 gs (fun t => N t + 2 * gs t) i j (k + s2)))
          (high_k4 src (lin3 gs (fun t => N t + 2 * gs t) i j (k - s2)) (lin3 gs (fun t => N t + 2 * gs t) i j (k - s)) (lin3 gs (fun t => N t + 2 * gs t) i j k) (lin3 gs (fun t => N t + 2 * gs t) i j (k + s)) (lin3 gs (fun t => N t + 2 * gs t) i j (k + s2)))))) out = some r ∧
      Filled (InBox 3 (cell3 a c e) (cell3 b d f)) (linIdx 3 gw (fun t => N t + 2 * gw t))
        (fun x => lowVal 4 (lineOf 3 gs (fun t => N t + 2 * gs t) src x 2) s (x 2)) out.1 r.1 ∧
      Filled (InBox 3 (cell3 a c e) (cell3 b d f)) (linIdx 3 gw (fun t => N t + 2 * gw t))
        (fun x => highVal 4 (lineOf 3 gs (fun t => N t + 2 * gs t) src x 2) s (x 2)) out.2 r.2 := by
  have hbw : ∀ i j k, a ≤ i → i < b → c ≤ j → j < d → e ≤ k → k < f →
      0 ≤ lin3 gw (fun t => N t + 2 * gw t) i j k ∧ lin3 gw (fun t => N t + 2 * gw t) i j k < (N 0 + 2 * gw 0) * (N 1 + 2 * gw 1) * (N 2 + 2 * gw 2) :=
    fun i j k h1 h2 h3 h4 h5 h6 => lin3_bounds (by omega) (by omega) (by omega)
  have hbs : ∀ i j k, a ≤ i → i < b → c ≤ j → j < d → e - s2 ≤ k → k < f + s2 →
      0 ≤ lin3 gs (fun t => N t + 2 * gs t) i j k ∧ lin3 gs (fun t => N t + 2 * gs t) i j k < (N 0 + 2 * gs 0) * (N 1 + 2 * gs 1) * (N 2 + 2 * gs 2) :=
    fun i j k h1 h2 h3 h4 h5 h6 => lin3_bounds (by omega) (by omega) (by omega)
  obtain ⟨r, hr, hw1, hw2⟩ := loop3_store2 c d a b e f
    (fun j i k => lin3 gw (fun t => N t + 2 * gw t) i j k)
    (fun j i k => low_k4 src (lin3 gs (fun t => N t + 2 * gs t) i j (k - s2)) (lin3 gs (fun t => N t + 2 * gs t) i j (k - s)) (lin3 gs (fun t => N t + 2 * gs t) i j (k + s)) (lin3 gs (fun t => N t + 2 * gs t) i j (k + s2)))
    (fun j i k => high_k4 src (lin3 gs (fun t => N t + 2 * gs t) i j (k - s2)) (lin3 gs (fun t => N t + 2 * gs t) i j (k - s)) (lin3 gs (fun t => N t + 2 * gs t) i j k) (lin3 gs (fun t => N t + 2 * gs t) i j (k + s)) (lin3 gs (fun t => N t + 2 * gs t) i j (k + s2)))
    (fun j i k => lowVal 4 (fun t => valAt src (lin3 gs (fun t => N t + 2 * gs t) i j t)) s k)
    (fun j i k => highVal 4 (fun t => valAt src (lin3 gs (fun t => N t + 2 * gs t) i j t)) s k) out
    (fun j i k h1 h2 h3 h4 h5 h6 => by
      have hst := stencil_k4 (fun t => lin3 gs (fun t => N t + 2 * gs t) i j t) s s2 k hs hs2
        (fun t ht1 ht2 => by rw [hsrc]; exact hbs i j t h3 h4 h1 h2 (by omega) (by omega))
      have hix := hbw i j k h3 h4 h1 h2 h5 h6
      exact ⟨⟨hix.1, by rw [hl1]; exact hix.2, by rw [hl2]; exact hix.2⟩, hst.1, hst.2.1⟩)
  refine ⟨r, hr, ?_, ?_⟩
  · have h := Written.box3_jik (fun i j k => lowVal 4 (fun t => valAt src (lin3 gs (fun t => N t + 2 * gs t) i j t)) s k) hw1 ⟨by omega, by omega, by omega, by omega⟩
    simpa only [lineOf_three_z] using h
  · have h := Written.box3_jik (fun i j k => highVal 4 (fun t => valAt src (lin3 gs (fun t => N t + 2 * gs t) i j t)) s k) hw2 ⟨by omega, by omega, by omega, by omega⟩
    simpa only [lineOf_three_z] using h

theorem mean3D_k2 (sqrt : ℚ → ℚ) (srcx srcy srcz : Arr) (N gs gw : IntVector) (s : Int) (out : Arr)
    (hs : 0 ≤ s)
    (hsrcx : (srcx.length : Int) = (N 0 + 2 * gs 0) * (N 1 + 2 * gs 1) * (N 2 + 2 * gs 2))
    (hsrcy : (srcy.length : Int) = (N 0 + 2 * gs 0) * (N 1 + 2 * gs 1) * (N 2 + 2 * gs 2))
    (hsrcz : (srcz.length : Int) = (N 0 + 2 * gs 0) * (N 1 + 2 * gs 1) * (N 2 + 2 * gs 2))
    (hl : (out.length : Int) = (N 0 + 2 * gw 0) * (N 1 + 2 * gw 1) * (N 2 + 2 * gw 2))
    (hg : gw 0 ≤ gs 0 ∧ gw 1 ≤ gs 1 ∧ gw 2 ≤ gs 2)
    (hS : s ≤ gw 0 ∧ s ≤ gw 1 ∧ s ≤ gw 2) :
    ∃ r, forRange 0 (N 2) (fun k =>
        forRange 0 (N 1) (fun j =>
        forRange 0 (N 0) (fun i o =>
        assign o (lin3 gw (fun t => N t + 2 * gw t) i j k)
          (norm3 sqrt (1 / 2)
          (sum_k2 srcx (lin3 gs (fun t => N t + 2 * gs t) (i - s) j k) (lin3 gs (fun t => N t + 2 * gs t) i j k) (lin3 gs (fun t => N t + 2 * gs t) (i + s) j k))
          (sum_k2 srcy (lin3 gs (fun t => N t + 2 * gs t) i (j - s) k) (lin3 gs (fun t => N t + 2 * gs t) i j k) (lin3 gs (fun t => N t + 2 * gs t) i (j + s) k))
          (sum_k2 srcz (lin3 gs (fun t => N t + 2 * gs t) i j (k - s)) (lin3 gs (fun t => N t + 2 * gs t) i j k) (lin3 gs (fun t => N t + 2 * gs t) i j (k + s))))))) out = some r ∧
      Filled (InBox 3 (cell3 0 0 0) (cell3 (N 0) (N 1) (N 2))) (linIdx 3 gw (fun t => N t + 2 * gw t))
        (fun x => (1 / 2) * sqrt (sumVal 2 (lineOf 3 gs (fun t => N t + 2 * gs t) srcx x 0) s (x 0) ^ 2 + sumVal 2 (lineOf 3 gs (fun t => N t + 2 * gs t) srcy x 1) s (x 1) ^ 2 + sumVal 2 (lineOf 3 gs (fun t => N t + 2 * gs t) srcz x 2) s (x 2) ^ 2)) out r := by
  have hbw : ∀ i j k, 0 ≤ i → i < N 0 → 0 ≤ j → j < N 1 → 0 ≤ k → k < N 2 →
      0 ≤ lin3 gw (fun t => N t + 2 * gw t) i j k ∧ lin3 gw (fun t => N t + 2 * gw t) i j k < (N 0 + 2 * gw 0) * (N 1 + 2 * gw 1) * (N 2 + 2 * gw 2) :=
    fun i j k h1 h2 h3 h4 h5 h6 => lin3_bounds (by omega) (by omega) (by omega)
  have hbs : ∀ i j k, -s ≤ i → i < N 0 + s → -s ≤ j → j < N 1 + s → -s ≤ k → k < N 2 + s →
      0 ≤ lin3 gs (fun t => N t + 2 * gs t) i j k ∧ lin3 gs (fun t => N t + 2 * gs t) i j k < (N 0 + 2 * gs 0) * (N 1 + 2 * gs 1) * (N 2 + 2 * gs 2) :=
    fun i j k h1 h2 h3 h4 h5 h6 => lin3_bounds (by omega) (by omega) (by omega)
  obtain ⟨r, hr, hw⟩ := loop3_assign 0 (N 2) 0 (N 1) 0 (N 0)
    (fun k j i => lin3 gw (fun t => N t + 2 * gw t) i j k)
    (fun k j i => norm3 sqrt (1 / 2)
      (sum_k2 srcx (lin3 gs (fun t => N t + 2 * gs t) (i - s) j k) (lin3 gs (fun t => N t + 2 * gs t) i j k) (lin3 gs (fun t => N t + 2 * gs t) (i + s) j k))
      (sum_k2 srcy (lin3 gs (fun t => N t + 2 * gs t) i (j - s) k) (lin3 gs (fun t => N t + 2 * gs t) i j k) (lin3 gs (fun t => N t + 2 * gs t) i (j + s) k))
      (sum_k2 srcz (lin3 gs (fun t => N t + 2 * gs t) i j (k - s)) (lin3 gs (fun t => N t + 2 * gs t) i j k) (lin3 gs (fun t => N t + 2 * gs t) i j (k + s))))
    (fun k j i => (1 / 2) * sqrt (sumVal 2 (fun t => valAt srcx (lin3 gs (fun t => N t + 2 * gs t) t j k)) s i ^ 2 + sumVal 2 (fun t => valAt srcy (lin3 gs (fun t => N t + 2 * gs t) i t k)) s j ^ 2 + sumVal 2 (fun t => valAt srcz (lin3 gs (fun t => N t + 2 * gs t) i j t)) s k ^ 2)) out
    (fun k j i h1 h2 h3 h4 h5 h6 => by
      have hst0 := (stencil_k2 (fun t => lin3 gs (fun t => N t + 2 * gs t) t j k) s i hs
        (fun t ht1 ht2 => by rw [hsrcx]; exact hbs t j k (by omega) (by omega) (by omega) (by omega) (by omega) (by omega))).2.2
      have hst1 := (stencil_k2 (fun t => lin3 gs (fun t => N t + 2 * gs t) i t k) s j hs
        (fun t ht1 ht2 => by rw [hsrcy]; exact hbs i t k (by omega) (by omega) (by omega) (by omega) (by omega) (by omega))).2.2
      have hst2 := (stencil_k2 (fun t => lin3 gs (fun t => N t + 2 * gs t) i j t) s k hs
        (fun t ht1 ht2 => by rw [hsrcz]; exact hbs i j t (by omega) (by omega) (by omega) (by omega) (by omega) (by omega))).2.2
      have hix := hbw i j k h5 h6 h3 h4 h1 h2
      refine ⟨⟨hix.1, by rw [hl]; exact hix.2⟩, ?_⟩
      dsimp only
      rw [hst0, hst1, hst2]
      rfl)
  refine ⟨r, hr, ?_⟩
  have h := Written.box3_kji (fun i j k => (1 / 2) * sqrt (sumVal 2 (fun t => valAt srcx (lin3 gs (fun t => N t + 2 * gs t) t j k)) s i ^ 2 + sumVal 2 (fun t => valAt srcy (lin3 gs (fun t => N t + 2 * gs t) i t k)) s j ^ 2 + sumVal 2 (fun t => valAt srcz (lin3 gs (fun t => N t + 2 * gs t) i j t)) s k ^ 2)) hw ⟨by omega, by omega, by omega, by omega⟩
  simpa only [lineOf_three_x, lineOf_three_y, lineOf_three_z] using h

theorem mean3D_k4 (sqrt : ℚ → ℚ) (srcx srcy srcz : Arr) (N gs gw : IntVector) (s s2 : Int) (out : Arr)
    (hs : 0 ≤ s) (hs2 : s2 = 2 * s)
    (hsrcx : (srcx.length : Int) = (N 0 + 2 * gs 0) * (N 1 + 2 * gs 1) * (N 2 + 2 * gs 2))
    (hsrcy : (srcy.length : Int) = (N 0 + 2 * gs 0) * (N 1 + 2 * gs 1) * (N 2 + 2 * gs 2))
    (hsrcz : (srcz.length : Int) = (N 0 + 2 * gs 0) * (N 1 + 2 * gs 1) * (N 2 + 2 * gs 2))
    (hl : (out.length : Int) = (N 0 + 2 * gw 0) * (N 1 + 2 * gw 1) * (N 2 + 2 * gw 2))
    (hg : gw 0 ≤ gs 0 ∧ gw 1 ≤ gs 1 ∧ gw 2 ≤ gs 2)
    (hS : s2 ≤ gw 0 ∧ s2 ≤ gw 1 ∧ s2 ≤ gw 2) :
    ∃ r, forRange 0 (N 2) (fun k =>
        forRange 0 (N 1) (fun j =>
        forRange 0 (N 0) (fun i o =>
        assign o (lin3 gw (fun t => N t + 2 * gw t) i j k)
          (norm3 sqrt (1 / 6)
          (sum_k4 srcx (lin3 gs (fun t => N t + 2 * gs t) (i - s2) j k) (lin3 gs (fun t => N t + 2 * gs t) (i - s) j k) (lin3 gs (fun t => N t + 2 * gs t) i j k) (lin3 gs (fun t => N t + 2 * gs t) (i + s) j k) (lin3 gs (fun t => N t + 2 * gs t) (i + s2) j k))
          (sum_k4 srcy (lin3 gs (fun t => N t + 2 * gs t) i (j - s2) k) (lin3 gs (fun t => N t + 2 * gs t) i (j - s) k) (lin3 gs (fun t => N t + 2 * gs t) i j k) (lin3 gs (fun t => N t + 2 * gs t) i (j + s) k) (lin3 gs (fun t => N t + 2 * gs t) i (j + s2) k))
          (sum_k4 srcz (lin3 gs (fun t => N t + 2 * gs t) i j (k - s2)) (lin3 gs (fun t => N t + 2 * gs t) i j (k - s)) (lin3 gs (fun t => N t + 2 * gs t) i j k) (lin3 gs (fun t => N t + 2 * gs t) i j (k + s)) (lin3 gs (fun t => N t + 2 * gs t) i j (k + s2))))))) out = some r ∧
      Filled (InBox 3 (cell3 0 0 0) (cell3 (N 0) (N 1) (N 2))) (linIdx 3 gw (fun t => N t + 2 * gw t))
        (fun x => (1 / 6) * sqrt (sumVal 4 (lineOf 3 gs (fun t => N t + 2 * gs t) srcx x 0) s (x 0) ^ 2 + sumVal 4 (lineOf 3 gs (fun t => N t + 2 * gs t) srcy x 1) s (x 1) ^ 2 + sumVal 4 (lineOf 3 gs (fun t => N t + 2 * gs t) srcz x 2) s (x 2) ^ 2)) out r := by
  have hbw : ∀ i j k, 0 ≤ i → i < N 0 → 0 ≤ j → j < N 1 → 0 ≤ k → k < N 2 →
      0 ≤ lin3 gw (fun t => N t + 2 * gw t) i j k ∧ lin3 gw (fun t => N t + 2 * gw t) i j k < (N 0 + 2 * gw 0) * (N 1 + 2 * gw 1) * (N 2 + 2 * gw 2) :=
    fun i j k h1 h2 h3 h4 h5 h6 => lin3_bounds (by omega) (by omega) (by omega)
  have hbs : ∀ i j k, -s2 ≤ i → i < N 0 + s2 → -s2 ≤ j → j < N 1 + s2 → -s2 ≤ k → k < N 2 + s2 →
      0 ≤ lin3 gs (fun t => N t + 2 * gs t) i j k ∧ lin3 gs (fun t => N t + 2 * gs t) i j k < (N 0 + 2 * gs 0) * (N 1 + 2 * gs 1) * (N 2 + 2 * gs 2) :=
    fun i j k h1 h2 h3 h4 h5 h6 => lin3_bounds (by omega) (by omega) (by omega)
  obtain ⟨r, hr, hw⟩ := loop3_assign 0 (N 2) 0 (N 1) 0 (N 0)
    (fun k j i => lin3 gw (fun t => N t + 2 * gw t) i j k)
    (fun k j i => norm3 sqrt (1 / 6)
      (sum_k4 srcx (lin3 gs (fun t => N t + 2 * gs t) (i - s2) j k) (lin3 gs (fun t => N t + 2 * gs t) (i - s) j k) (lin3 gs (fun t => N t + 2 * gs t) i j k) (lin3 gs (fun t => N t + 2 * gs t) (i + s) j k) (lin3 gs (fun t => N t + 2 * gs t) (i + s2) j k))
      (sum_k4 srcy (lin3 gs (fun t => N t + 2 * gs t) i (j - s2) k) (lin3 gs (fun t => N t + 2 * gs t) i (j - s) k) (lin3 gs (fun t => N t + 2 * gs t) i j k) (lin3 gs (fun t => N t + 2 * gs t) i (j + s) k) (lin3 gs (fun t => N t + 2 * gs t) i (j + s2) k))
      (sum_k4 srcz (lin3 gs (fun t => N t + 2 * gs t) i j (k - s2)) (lin3 gs (fun t => N t + 2 * gs t) i j (k - s)) (lin3 gs (fun t => N t + 2 * gs t) i j k) (lin3 gs (fun t => N t + 2 * gs t) i j (k + s)) (lin3 gs (fun t => N t + 2 * gs t) i j (k + s2))))
    (fun k j i => (1 / 6) * sqrt (sumVal 4 (fun t => valAt srcx (lin3 gs (fun t => N t + 2 * gs t) t j k)) s i ^ 2 + sumVal 4 (fun t => valAt srcy (lin3 gs (fun t => N t + 2 * gs t) i t k)) s j ^ 2 + sumVal 4 (fun t => valAt srcz (lin3 gs (fun t => N t + 2 * gs t) i j t)) s k ^ 2)) out
    (fun k j i h1 h2 h3 h4 h5 h6 => by
      have hst0 := (stencil_k4 (fun t => lin3 gs (fun t => N t + 2 * gs t) t j k) s s2 i hs hs2
        (fun t ht1 ht2 => by rw [hsrcx]; exact hbs t j k (by omega) (by omega) (by omega) (by omega) (by omega) (by omega))).2.2
      have hst1 := (stencil_k4 (fun t => lin3 gs (fun t => N t + 2 * gs t) i t k) s s2 j hs hs2
        (fun t ht1 ht2 => by rw [hsrcy]; exact hbs i t k (by omega) (by omega) (by omega) (by omega) (by omega) (by omega))).2.2
      have hst2 := (stencil_k4 (fun t => lin3 gs (fun t => N t + 2 * gs t) i j t) s s2 k hs hs2
        (fun t ht1 ht2 => by rw [hsrcz]; exact hbs i j t (by omega) (by omega) (by omega) (by omega) (by omega) (by omega))).2.2
      have hix := hbw i j k h5 h6 h3 h4 h1 h2
      refine ⟨⟨hix.1, by rw [hl]; exact hix.2⟩, ?_⟩
      dsimp only
      rw [hst0, hst1, hst2]
      rfl)
  refine ⟨r, hr, ?_⟩
  have h := Written.box3_kji (fun i j k => (1 / 6) * sqrt (sumVal 4 (fun t => valAt srcx (lin3 gs (fun t => N t + 2 * gs t) t j k)) s i ^ 2 + sumVal 4 (fun t => valAt srcy (lin3 gs (fun t => N t + 2 * gs t) i t k)) s j ^ 2 + sumVal 4 (fun t => valAt srcz (lin3 gs (fun t => N t + 2 * gs t) i j t)) s k ^ 2)) hw ⟨by omega, by omega, by omega, by omega⟩
  simpa only [lineOf_three_x, lineOf_three_y, lineOf_three_z] using h

theorem comb3D (sqrt : ℚ → ℚ) (wx wy wz : Arr) (N gw : IntVector) (a b c d e f : Int) (out : Arr)
    (hlx : (wx.length : Int) = (N 0 + 2 * gw 0) * (N 1 + 2 * gw 1) * (N 2 + 2 * gw 2))
    (hly : (wy.length : Int) = (N 0 + 2 * gw 0) * (N 1 + 2 * gw 1) * (N 2 + 2 * gw 2))
    (hlz : (wz.length : Int) = (N 0 + 2 * gw 0) * (N 1 + 2 * gw 1) * (N 2 + 2 * gw 2))
    (hl : (out.length : Int) = (N 0 + 2 * gw 0) * (N 1 + 2 * gw 1) * (N 2 + 2 * gw 2))
    (hb : -gw 0 ≤ a ∧ b ≤ N 0 + gw 0 ∧ -gw 1 ≤ c ∧ d ≤ N 1 + gw 1 ∧ -gw 2 ≤ e ∧ f ≤ N 2 + gw 2) :
    ∃ r, forRange e f (fun k =>
        forRange c d (fun j =>
        forRange a b (fun i o =>
        assign o (lin3 gw (fun t => N t + 2 * gw t) i j k) (mag3 sqrt wx wy wz (lin3 gw (fun t => N t + 2 * gw t) i j k))))) out = some r ∧
      Filled (InBox 3 (cell3 a c e) (cell3 b d f)) (linIdx 3 gw (fun t => N t + 2 * gw t))
        (fun x => sqrt (valAt wx (linIdx 3 gw (fun t => N t + 2 * gw t) x) * valAt wx (linIdx 3 gw (fun t => N t + 2 * gw t) x) + valAt wy (linIdx 3 gw (fun t => N t + 2 * gw t) x) * valAt wy (linIdx 3 gw (fun t => N t + 2 * gw t) x) + valAt wz (linIdx 3 gw (fun t => N t + 2 * gw t) x) * valAt wz (linIdx 3 gw (fun t => N t + 2 * gw t) x))) out r := by
  have hbw : ∀ i j k, a ≤ i → i < b → c ≤ j → j < d → e ≤ k → k < f →
      0 ≤ lin3 gw (fun t => N t + 2 * gw t) i j k ∧ lin3 gw (fun t => N t + 2 * gw t) i j k < (N 0 + 2 * gw 0) * (N 1 + 2 * gw 1) * (N 2 + 2 * gw 2) :=
    fun i j k h1 h2 h3 h4 h5 h6 => lin3_bounds (by omega) (by omega) (by omega)
  obtain ⟨r, hr, hw⟩ := loop3_assign e f c d a b
    (fun k j i => lin3 gw (fun t => N t + 2 * gw t) i j k)
    (fun k j i => mag3 sqrt wx wy wz (lin3 gw (fun t => N t + 2 * gw t) i j k))
    (fun k j i => sqrt (valAt wx (lin3 gw (fun t => N t + 2 * gw t) i j k) * valAt wx (lin3 gw (fun t => N t + 2 * gw t) i j k) + valAt wy (lin3 gw (fun t => N t + 2 * gw t) i j k) * valAt wy (lin3 gw (fun t => N t + 2 * gw t) i j k) + valAt wz (lin3 gw (fun t => N t + 2 * gw t) i j k) * valAt wz (lin3 gw (fun t => N t + 2 * gw t) i j k))) out
    (fun k j i h1 h2 h3 h4 h5 h6 => by
      have hix := hbw i j k h5 h6 h3 h4 h1 h2
      exact ⟨⟨hix.1, by rw [hl]; exact hix.2⟩, mag3_eq sqrt ⟨hix.1, by rw [hlx]; exact hix.2⟩ ⟨hix.1, by rw [hly]; exact hix.2⟩ ⟨hix.1, by rw [hlz]; exact hix.2⟩⟩)
  refine ⟨r, hr, ?_⟩
  have h := Written.box3_kji (fun i j k => sqrt (valAt wx (lin3 gw (fun t => N t + 2 * gw t) i j k) * valAt wx (lin3 gw (fun t => N t + 2 * gw t) i j k) + valAt wy (lin3 gw (fun t => N t + 2 * gw t) i j k) * valAt wy (lin3 gw (fun t => N t + 2 * gw t) i j k) + valAt wz (lin3 gw (fun t => N t + 2 * gw t) i j k) * valAt wz (lin3 gw (fun t => N t + 2 * gw t) i j k))) hw ⟨by omega, by omega, by omega, by omega⟩
  simpa only [linIdx_three] using h

/-! ## Levels of the 2-D and 3-D transform -/

theorem lowIn_zero (dim : Nat) (N gc gw : IntVector) (f : Arr) (fa : List Arr)
    (x : IntVector) (a : Nat) :
    lowIn dim N gc gw f fa 0 x a = lineOf dim gc (fun d => N d + 2 * gc d) f x a := by
  simp [lowIn]

theorem lowIn_succ (dim : Nat) (N gc gw : IntVector) (f : Arr) (fa : List Arr) {li : Nat}
    (h : 1 ≤ li) (x : IntVector) (a : Nat) :
    lowIn dim N gc gw f fa li x a
      = lineOf dim gw (fun d => N d + 2 * gw d) (level fa (li - 1)) x a := by
  have : li ≠ 0 := by omega
  simp [lowIn, this]

theorem lowIn_congr {dim : Nat} {N gc gw : IntVector} {f : Arr} {fa fb : List Arr} {li : Nat}
    (h : li ≠ 0 → level fb (li - 1) = level fa (li - 1)) (x : IntVector) (a : Nat) :
    lowIn dim N gc gw f fb li x a = lowIn dim N gc gw f fa li x a := by
  unfold lowIn
  split
  · rfl
  · rename_i h0
    rw [h h0]

theorem sumPow_congr {dim : Nat} (hdim : dim = 2 ∨ dim = 3) {t u : Nat → ℚ}
    (h : ∀ a, a < dim → t a = u a) : sumPow dim t = sumPow dim u := by
  rcases hdim with rfl | rfl
  · simp [sumPow, h 0 (by omega), h 1 (by omega)]
  · simp [sumPow, h 0 (by omega), h 1 (by omega), h 2 (by omega)]

theorem sumSq_congr {dim : Nat} (hdim : dim = 2 ∨ dim = 3) {t u : Nat → ℚ}
    (h : ∀ a, a < dim → t a = u a) : sumSq dim t = sumSq dim u := by
  rcases hdim with rfl | rfl
  · simp [sumSq, h 0 (by omega), h 1 (by omega)]
  · simp [sumSq, h 0 (by omega), h 1 (by omega), h 2 (by omega)]

theorem meanVal_congr {sqrt : ℚ → ℚ} {dim : Nat} {wt : WaveletTransformHarten}
    {N gc gw : IntVector} {flast : Arr} {st st2 : State} {li : Nat} (hdim : dim = 2 ∨ dim = 3)
    (h : ∀ a, a < dim → li ≠ 0 → level (st2.fAx a) (li - 1) = level (st.fAx a) (li - 1)) :
    meanVal sqrt dim wt N gc gw flast st2 li = meanVal sqrt dim wt N gc gw flast st li := by
  funext x
  unfold meanVal
  rw [sumPow_congr hdim (fun a ha => by rw [lowIn_congr (h a ha)])]

theorem combVal_congr {sqrt : ℚ → ℚ} {dim : Nat} {N gw : IntVector} {st st2 : State} {li : Nat}
    (hdim : dim = 2 ∨ dim = 3)
    (h : ∀ a, a < dim → level (st2.wAx a) li = level (st.wAx a) li) :
    combVal sqrt dim N gw st2 li = combVal sqrt dim N gw st li := by
  funext x
  unfold combVal
  rw [sumSq_congr hdim (fun a ha => by rw [h a ha])]

theorem AxisLevel_congr {dim : Nat} {wt : WaveletTransformHarten} {N gc gw : IntVector}
    {fin : Arr} {st st2 : State} {a li : Nat}
    (h1 : level (st2.fAx a) li = level (st.fAx a) li)
    (h2 : li ≠ 0 → level (st2.fAx a) (li - 1) = level (st.fAx a) (li - 1))
    (h3 : level (st2.wAx a) li = level (st.wAx a) li)
    (h : AxisLevel dim wt N gc gw fin st a li) : AxisLevel dim wt N gc gw fin st2 a li := by
  unfold AxisLevel at h ⊢
  rw [h1, h3]
  simp only [lowIn_congr h2]
  exact h

theorem MeanLevel_congr {sqrt : ℚ → ℚ} {dim : Nat} {wt : WaveletTransformHarten}
    {N gc gw : IntVector} {flast : Arr} {m0 : List Arr} {st st2 : State} {li : Nat}
    (hdim : dim = 2 ∨ dim = 3)
    (h1 : ∀ a, a < dim → li ≠ 0 → level (st2.fAx a) (li - 1) = level (st.fAx a) (li - 1))
    (h2 : level st2.f_mean li = level st.f_mean li)
    (h : MeanLevel sqrt dim wt N gc gw flast m0 st li) :
    MeanLevel sqrt dim wt N gc gw flast m0 st2 li := by
  unfold MeanLevel at h ⊢
  rw [h2, meanVal_congr hdim h1]
  exact h

theorem InvAxes_step {sqrt : ℚ → ℚ} {dim : Nat} {wt : WaveletTransformHarten}
    {N gc gw : IntVector} {fin : Nat → Arr} {w0 m0 : List Arr} {comp : Bool} {n : Nat}
    {st st2 : State} (hdim : dim = 2 ∨ dim = 3)
    (hinv : InvAxes sqrt dim wt N gc gw fin w0 m0 comp n st) (hn : n < wt.d_num_level)
    (hstep : StepAxes sqrt dim wt N gc gw fin (fin (dim - 1)) comp n st st2) :
    InvAxes sqrt dim wt N gc gw fin w0 m0 comp (n + 1) st2 := by
  obtain ⟨hlen, hlm, hsz, hdone, hrest, hw⟩ := hinv
  obtain ⟨hax, hm1, hm2, hw2⟩ := hstep
  have hfa : ∀ a, a < dim → ∀ li, li ≠ n →
      level (st2.fAx a) li = level (st.fAx a) li ∧
      level (st2.wAx a) li = level (st.wAx a) li := by
    intro a ha li hli
    obtain ⟨F, W, e1, e2, _, _⟩ := hax a ha
    rw [e1, e2, level_set_ne _ (Ne.symm hli), level_set_ne _ (Ne.symm hli)]
    exact ⟨rfl, rfl⟩
  have hfm : ∀ li, li ≠ n → level st2.f_mean li = level st.f_mean li := by
    intro li hli
    cases hc : comp with
    | false => rw [hm2 hc]
    | true =>
      obtain ⟨m, hm, _⟩ := hm1 hc
      rw [hm, level_set_ne _ (Ne.symm hli)]
  refine ⟨?_, ?_, ?_, ?_, ?_, ?_⟩
  · intro a ha
    obtain ⟨F, W, e1, e2, _, _⟩ := hax a ha
    rw [e1, e2]
    simpa using hlen a ha
  · intro hc
    obtain ⟨m, hm, _⟩ := hm1 hc
    rw [hm]
    simpa using hlm hc
  · intro li hli
    obtain ⟨hs1, hs2⟩ := hsz li hli
    refine ⟨fun a ha => ?_, fun hc => ?_⟩
    · by_cases e : li = n
      · subst e
        obtain ⟨F, W, e1, e2, hF, hW⟩ := hax a ha
        rw [e1, e2, level_set_self _ (by rw [(hlen a ha).1]; exact hli),
          level_set_self _ (by rw [(hlen a ha).2]; exact hli), hF.1, hW.1]
        exact hs1 a ha
      · rw [(hfa a ha li e).1, (hfa a ha li e).2]
        exact hs1 a ha
    · by_cases e : li = n
      · subst e
        obtain ⟨m, hm, hFm⟩ := hm1 hc
        rw [hm, level_set_self _ (by rw [hlm hc]; exact hli), hFm.1]
        exact hs2 hc
      · rw [hfm li e]
        exact hs2 hc
  · intro li hli
    by_cases e : li = n
    · subst e
      obtain ⟨hz, hmz⟩ := hrest li (le_refl _) hn
      refine ⟨fun a ha => ?_, fun hc => ?_⟩
      · obtain ⟨F, W, e1, e2, hF, hW⟩ := hax a ha
        have hcongr : ∀ x b, lowIn dim N gc gw (fin a) (st2.fAx a) li x b
            = lowIn dim N gc gw (fin a) (st.fAx a) li x b :=
          lowIn_congr (fun h0 => (hfa a ha (li - 1) (by omega)).1)
        unfold AxisLevel
        simp only [hcongr]
        rw [e1, e2, level_set_self _ (by rw [(hlen a ha).1]; exact hn),
          level_set_self _ (by rw [(hlen a ha).2]; exact hn), ← (hz a ha).1]
        refine ⟨hF, ?_⟩
        rw [(hz a ha).1, ← (hz a ha).2]
        exact hW
      · obtain ⟨m, hm, hFm⟩ := hm1 hc
        unfold MeanLevel
        rw [meanVal_congr hdim (fun a ha h0 => (hfa a ha (li - 1) (by omega)).1), hm,
          level_set_self _ (by rw [hlm hc]; exact hn), ← hmz]
        exact hFm
    · have hlt : li < n := by omega
      obtain ⟨h1, h2⟩ := hdone li hlt
      exact ⟨fun a ha => AxisLevel_congr (hfa a ha li e).1
          (fun _ => (hfa a ha (li - 1) (by omega)).1) (hfa a ha li e).2 (h1 a ha),
        fun hc => MeanLevel_congr hdim (fun a ha _ => (hfa a ha (li - 1) (by omega)).1)
          (hfm li e) (h2 hc)⟩
  · intro li h1 h2
    obtain ⟨hz, hmz⟩ := hrest li (by omega) h2
    refine ⟨fun a ha => ?_, ?_⟩
    · rw [(hfa a ha li (by omega)).1, (hfa a ha li (by omega)).2]
      exact hz a ha
    · rw [hfm li (by omega)]
      exact hmz
  · rw [hw2]
    exact hw

/-! ## One level of the 2-D and 3-D transform -/

theorem fAx_zero (st : State) : st.fAx 0 = st.f_x := rfl

theorem fAx_one (st : State) : st.fAx 1 = st.f_y := rfl

theorem fAx_two (st : State) : st.fAx 2 = st.f_z := rfl

theorem wAx_zero (st : State) : st.wAx 0 = st.w_x := rfl

theorem wAx_one (st : State) : st.wAx 1 = st.w_y := rfl

theorem wAx_two (st : State) : st.wAx 2 = st.w_z := rfl

theorem level0_2D_step (sqrt : ℚ → ℚ) (wt : WaveletTransformHarten) (N gc gw : IntVector)
    (cd : CellData) (depth : Nat) (smooth : Bool) (sm : Option CellData) (comp : Bool)
    (st : State) (fin : Nat → Arr) (w0 m0 : List Arr)
    (hk : wt.d_k = 2 ∨ wt.d_k = 4) (hp : wt.d_p = halfWidth wt.d_k)
    (hGu : ∀ d, wt.d_num_wavelet_ghosts d = wt.d_num_wavelet_ghosts 0)
    (hG : ∀ d, d < 2 → wt.d_num_wavelet_ghosts d ≤ gw d)
    (hg : ∀ d, d < 2 → gw d ≤ gc d)
    (hL : 1 ≤ wt.d_num_level) (hpG : wt.d_p ≤ wt.d_num_wavelet_ghosts 0)
    (hsel : ∀ a, a < 2 → selectInput smooth sm cd depth a = some (fin a) ∧
      ((fin a).length : Int) = boxSize 2 (fun d => N d + 2 * gc d))
    (hinv : InvAxes sqrt 2 wt N gc gw fin w0 m0 comp 0 st) :
    ∃ st2, level0_2D sqrt wt N gc gw cd depth smooth sm comp st = Except.ok st2 ∧
      StepAxes sqrt 2 wt N gc gw fin (fin 1) comp 0 st st2 := by
  obtain ⟨hlen, hlm, hsz, _, _, _⟩ := id hinv
  obtain ⟨hszl, hszm⟩ := hsz 0 (by omega)
  have hG0 := hG 0 (by omega)
  have hg0 := hg 0 (by omega)
  obtain ⟨hsel0, hlf0⟩ := hsel 0 (by omega)
  rw [boxSize_two] at hlf0
  obtain ⟨hs0f, hs0w⟩ := hszl 0 (by omega)
  rw [boxSize_two] at hs0f hs0w
  have hf0 : (st.fAx 0)[0]? = some (level (st.fAx 0) 0) :=
    getElem?_level (by rw [(hlen 0 (by omega)).1]; omega)
  have hw0 : (st.wAx 0)[0]? = some (level (st.wAx 0) 0) :=
    getElem?_level (by rw [(hlen 0 (by omega)).2]; omega)
  have hG1 := hG 1 (by omega)
  have hGu1 := hGu 1
  have hg1 := hg 1 (by omega)
  obtain ⟨hsel1, hlf1⟩ := hsel 1 (by omega)
  rw [boxSize_two] at hlf1
  obtain ⟨hs1f, hs1w⟩ := hszl 1 (by omega)
  rw [boxSize_two] at hs1f hs1w
  have hf1 : (st.fAx 1)[0]? = some (level (st.fAx 1) 0) :=
    getElem?_level (by rw [(hlen 1 (by omega)).1]; omega)
  have hw1 : (st.wAx 1)[0]? = some (level (st.wAx 1) 0) :=
    getElem?_level (by rw [(hlen 1 (by omega)).2]; omega)
  rw [boxSize_two] at hszm
  simp only [fAx_zero, fAx_one, wAx_zero, wAx_one] at hs0f hs0w hf0 hw0 hs1f hs1w hf1 hw1
  rcases hk with hk | hk
  · have hp1 : wt.d_p = 1 := by rw [hp, hk]; rfl
    rw [hp1] at hpG
    obtain ⟨r0, hr0, hF0, hW0⟩ := pass2D_x_k2 (fin 0) N gc gw 1
      (-wt.d_num_wavelet_ghosts 0 + 1) (N 0 + wt.d_num_wavelet_ghosts 0 - 1) (-wt.d_num_wavelet_ghosts 1) (N 1 + wt.d_num_wavelet_ghosts 1)
      (level st.f_x 0, level st.w_x 0) (by omega) hlf0 hs0f hs0w ⟨hg0, hg1⟩ (by omega)
    obtain ⟨r1, hr1, hF1, hW1⟩ := pass2D_y_k2 (fin 1) N gc gw 1
      (-wt.d_num_wavelet_ghosts 0) (N 0 + wt.d_num_wavelet_ghosts 0) (-wt.d_num_wavelet_ghosts 1 + 1) (N 1 + wt.d_num_wavelet_ghosts 1 - 1)
      (level st.f_y 0, level st.w_y 0) (by omega) hlf1 hs1f hs1w ⟨hg0, hg1⟩ (by omega)
    have hwin0 : InBox 2 (cell2 (-wt.d_num_wavelet_ghosts 0 + 1) (-wt.d_num_wavelet_ghosts 1))
        (cell2 (N 0 + wt.d_num_wavelet_ghosts 0 - 1) (N 1 + wt.d_num_wavelet_ghosts 1))
        = InBox 2 (passLo wt 0 0) (passHi wt N 0 0) :=
      InBox_congr (fun d hd => by
          have hd2 : d = 0 ∨ d = 1 := by omega
          rcases hd2 with rfl | rfl <;> simp [cell2, passLo, passHi, hp1, hGu 1])
    rw [hwin0] at hF0 hW0
    have hwin1 : InBox 2 (cell2 (-wt.d_num_wavelet_ghosts 0) (-wt.d_num_wavelet_ghosts 1 + 1))
        (cell2 (N 0 + wt.d_num_wavelet_ghosts 0) (N 1 + wt.d_num_wavelet_ghosts 1 - 1))
        = InBox 2 (passLo wt 1 0) (passHi wt N 1 0) :=
      InBox_congr (fun d hd => by
          have hd2 : d = 0 ∨ d = 1 := by omega
          rcases hd2 with rfl | rfl <;> simp [cell2, passLo, passHi, hp1, hGu 1])
    rw [hwin1] at hF1 hW1
    cases comp with
    | false =>
      have heq : level0_2D sqrt wt N gc gw cd depth smooth sm false st = Except.ok
          { st with f_x := st.f_x.set 0 r0.1, w_x := st.w_x.set 0 r0.2, f_y := st.f_y.set 0 r1.1, w_y := st.w_y.set 0 r1.2, f_mean := st.f_mean } := by
        unfold level0_2D
        simp only [hk, if_true, hsel0, hsel1, lift_some, ok_bind, onLevel2_some hf0 hw0 hr0, onLevel2_some hf1 hw1 hr1]
        rfl
      refine ⟨_, heq, fun a ha => ?_, fun h => absurd h (by decide), fun _ => rfl, rfl⟩
      have ha2 : a = 0 ∨ a = 1 := by omega
      rcases ha2 with rfl | rfl
      · refine ⟨r0.1, r0.2, rfl, rfl, ?_, ?_⟩
        · simpa only [hk, lowIn_zero, pow_zero, fAx_zero] using hF0
        · simpa only [hk, lowIn_zero, pow_zero, fAx_zero, wAx_zero] using hW0
      · refine ⟨r1.1, r1.2, rfl, rfl, ?_, ?_⟩
        · simpa only [hk, lowIn_zero, pow_zero, fAx_one] using hF1
        · simpa only [hk, lowIn_zero, pow_zero, fAx_one, wAx_one] using hW1
    | true =>
      have hfm : st.f_mean[0]? = some (level st.f_mean 0) :=
        getElem?_level (by rw [hlm rfl]; omega)
      have hszm2 := hszm rfl
      obtain ⟨m, hmr, hFm⟩ := mean2D_k2 sqrt (fin 1) (fin 1) N gc gw 1
        (level st.f_mean 0) (by omega) hlf1 hlf1 hszm2 ⟨hg0, hg1⟩ (by omega)
      have hwinm : InBox 2 (cell2 0 0) (cell2 (N 0) (N 1)) = InBox 2 (fun _ => 0) N :=
        InBox_congr (fun d hd => by
          have hd2 : d = 0 ∨ d = 1 := by omega
          rcases hd2 with rfl | rfl <;> simp [cell2])
      rw [hwinm] at hFm
      have hval : meanVal sqrt 2 wt N gc gw (fin 1) st 0 = fun x =>
          (1 / 2 : ℚ) * sqrt (sumVal 2 (lineOf 2 gc (fun t => N t + 2 * gc t) (fin 1) x 0) 1 (x 0) ^ 2 + sumVal 2 (lineOf 2 gc (fun t => N t + 2 * gc t) (fin 1) x 1) 1 (x 1) ^ 2) := by
        funext x
        simp only [meanVal, meanCoef, sumPow, hk, lowIn_zero, pow_zero, fAx_zero, fAx_one, wAx_zero, wAx_one]
        norm_num
      have heq : level0_2D sqrt wt N gc gw cd depth smooth sm true st = Except.ok
          { st with f_x := st.f_x.set 0 r0.1, w_x := st.w_x.set 0 r0.2, f_y := st.f_y.set 0 r1.1, w_y := st.w_y.set 0 r1.2, f_mean := st.f_mean.set 0 m } := by
        unfold level0_2D
        simp only [hk, if_true, hsel0, hsel1, lift_some, ok_bind, onLevel2_some hf0 hw0 hr0, onLevel2_some hf1 hw1 hr1,
          onLevel1_some hfm hmr]
        rfl
      refine ⟨_, heq, fun a ha => ?_, fun _ => ⟨m, rfl, ?_⟩, fun h => absurd h (by decide), rfl⟩
      have ha2 : a = 0 ∨ a = 1 := by omega
      rcases ha2 with rfl | rfl
      · refine ⟨r0.1, r0.2, rfl, rfl, ?_, ?_⟩
        · simpa only [hk, lowIn_zero, pow_zero, fAx_zero] using hF0
        · simpa only [hk, lowIn_zero, pow_zero, fAx_zero, wAx_zero] using hW0
      · refine ⟨r1.1, r1.2, rfl, rfl, ?_, ?_⟩
        · simpa only [hk, lowIn_zero, pow_zero, fAx_one] using hF1
        · simpa only [hk, lowIn_zero, pow_zero, fAx_one, wAx_one] using hW1
      · rw [hval]
        exact hFm
  · have hp1 : wt.d_p = 2 := by rw [hp, hk]; rfl
    rw [hp1] at hpG
    obtain ⟨r0, hr0, hF0, hW0⟩ := pass2D_x_k4 (fin 0) N gc gw 1 2
      (-wt.d_num_wavelet_ghosts 0 + 2) (N 0 + wt.d_num_wavelet_ghosts 0 - 2) (-wt.d_num_wavelet_ghosts 1) (N 1 + wt.d_num_wavelet_ghosts 1)
      (level st.f_x 0, level st.w_x 0) (by omega) (by omega) hlf0 hs0f hs0w ⟨hg0, hg1⟩ (by omega)
    obtain ⟨r1, hr1, hF1, hW1⟩ := pass2D_y_k4 (fin 1) N gc gw 1 2
      (-wt.d_num_wavelet_ghosts 0) (N 0 + wt.d_num_wavelet_ghosts 0) (-wt.d_num_wavelet_ghosts 1 + 2) (N 1 + wt.d_num_wavelet_ghosts 1 - 2)
      (level st.f_y 0, level st.w_y 0) (by omega) (by omega) hlf1 hs1f hs1w ⟨hg0, hg1⟩ (by omega)
    have hwin0 : InBox 2 (cell2 (-wt.d_num_wavelet_ghosts 0 + 2) (-wt.d_num_wavelet_ghosts 1))
        (cell2 (N 0 + wt.d_num_wavelet_ghosts 0 - 2) (N 1 + wt.d_num_wavelet_ghosts 1))
        = InBox 2 (passLo wt 0 0) (passHi wt N 0 0) :=
      InBox_congr (fun d hd => by
          have hd2 : d = 0 ∨ d = 1 := by omega
          rcases hd2 with rfl | rfl <;> simp [cell2, passLo, passHi, hp1, hGu 1])
    rw [hwin0] at hF0 hW0
    have hwin1 : InBox 2 (cell2 (-wt.d_num_wavelet_ghosts 0) (-wt.d_num_wavelet_ghosts 1 + 2))
        (cell2 (N 0 + wt.d_num_wavelet_ghosts 0) (N 1 + wt.d_num_wavelet_ghosts 1 - 2))
        = InBox 2 (passLo wt 1 0) (passHi wt N 1 0) :=
      InBox_congr (fun d hd => by
          have hd2 : d = 0 ∨ d = 1 := by omega
          rcases hd2 with rfl | rfl <;> simp [cell2, passLo, passHi, hp1, hGu 1])
    rw [hwin1] at hF1 hW1
    cases comp with
    | false =>
      have heq : level0_2D sqrt wt N gc gw cd depth smooth sm false st = Except.ok
          { st with f_x := st.f_x.set 0 r0.1, w_x := st.w_x.set 0 r0.2, f_y := st.f_y.set 0 r1.1, w_y := st.w_y.set 0 r1.2, f_mean := st.f_mean } := by
        unfold level0_2D
        simp only [hk, show ¬ ((4 : Int) = 2) by decide, if_false, if_true, hsel0, hsel1, lift_some, ok_bind, onLevel2_some hf0 hw0 hr0, onLevel2_some hf1 hw1 hr1]
        rfl
      refine ⟨_, heq, fun a ha => ?_, fun h => absurd h (by decide), fun _ => rfl, rfl⟩
      have ha2 : a = 0 ∨ a = 1 := by omega
      rcases ha2 with rfl | rfl
      · refine ⟨r0.1, r0.2, rfl, rfl, ?_, ?_⟩
        · simpa only [hk, lowIn_zero, pow_zero, fAx_zero] using hF0
        · simpa only [hk, lowIn_zero, pow_zero, fAx_zero, wAx_zero] using hW0
      · refine ⟨r1.1, r1.2, rfl, rfl, ?_, ?_⟩
        · simpa only [hk, lowIn_zero, pow_zero, fAx_one] using hF1
        · simpa only [hk, lowIn_zero, pow_zero, fAx_one, wAx_one] using hW1
    | true =>
      have hfm : st.f_mean[0]? = some (level st.f_mean 0) :=
        getElem?_level (by rw [hlm rfl]; omega)
      have hszm2 := hszm rfl
      obtain ⟨m, hmr, hFm⟩ := mean2D_k4 sqrt (fin 1) (fin 1) N gc gw 1 2
        (level st.f_mean 0) (by omega) (by omega) hlf1 hlf1 hszm2 ⟨hg0, hg1⟩ (by omega)
      have hwinm : InBox 2 (cell2 0 0) (cell2 (N 0) (N 1)) = InBox 2 (fun _ => 0) N :=
        InBox_congr (fun d hd => by
          have hd2 : d = 0 ∨ d = 1 := by omega
          rcases hd2 with rfl | rfl <;> simp [cell2])
      rw [hwinm] at hFm
      have hval : meanVal sqrt 2 wt N gc gw (fin 1) st 0 = fun x =>
          (1 / 6 : ℚ) * sqrt (sumVal 4 (lineOf 2 gc (fun t => N t + 2 * gc t) (fin 1) x 0) 1 (x 0) ^ 2 + sumVal 4 (lineOf 2 gc (fun t => N t + 2 * gc t) (fin 1) x 1) 1 (x 1) ^ 2) := by
        funext x
        simp only [meanVal, meanCoef, sumPow, hk, lowIn_zero, pow_zero, fAx_zero, fAx_one, wAx_zero, wAx_one]
        norm_num
      have heq : level0_2D sqrt wt N gc gw cd depth smooth sm true st = Except.ok
          { st with f_x := st.f_x.set 0 r0.1, w_x := st.w_x.set 0 r0.2, f_y := st.f_y.set 0 r1.1, w_y := st.w_y.set 0 r1.2, f_mean := st.f_mean.set 0 m } := by
        unfold level0_2D
        simp only [hk, show ¬ ((4 : Int) = 2) by decide, if_false, if_true, hsel0, hsel1, lift_some, ok_bind, onLevel2_some hf0 hw0 hr0, onLevel2_some hf1 hw1 hr1,
          onLevel1_some hfm hmr]
        rfl
      refine ⟨_, heq, fun a ha => ?_, fun _ => ⟨m, rfl, ?_⟩, fun h => absurd h (by decide), rfl⟩
      have ha2 : a = 0 ∨ a = 1 := by omega
      rcases ha2 with rfl | rfl
      · refine ⟨r0.1, r0.2, rfl, rfl, ?_, ?_⟩
        · simpa only [hk, lowIn_zero, pow_zero, fAx_zero] using hF0
        · simpa only [hk, lowIn_zero, pow_zero, fAx_zero, wAx_zero] using hW0
      · refine ⟨r1.1, r1.2, rfl, rfl, ?_, ?_⟩
        · simpa only [hk, lowIn_zero, pow_zero, fAx_one] using hF1
        · simpa only [hk, lowIn_zero, pow_zero, fAx_one, wAx_one] using hW1
      · rw [hval]
        exact hFm

theorem levelUp_2D_step (sqrt : ℚ → ℚ) (wt : WaveletTransformHarten) (N gc gw : IntVector)
    (comp : Bool) (li : Nat) (st : State) (fin : Nat → Arr) (flast : Arr) (w0 m0 : List Arr)
    (hk : wt.d_k = 2 ∨ wt.d_k = 4) (hp : wt.d_p = halfWidth wt.d_k)
    (hGu : ∀ d, wt.d_num_wavelet_ghosts d = wt.d_num_wavelet_ghosts 0)
    (hG : ∀ d, d < 2 → wt.d_num_wavelet_ghosts d ≤ gw d)
    (hli1 : 1 ≤ li) (hli : li < wt.d_num_level)
    (hsG : wt.d_p * 2 ^ li ≤ wt.d_num_wavelet_ghosts 0)
    (hinv : InvAxes sqrt 2 wt N gc gw fin w0 m0 comp li st) :
    ∃ st2, levelUp_2D sqrt wt N gw comp li st = Except.ok st2 ∧
      StepAxes sqrt 2 wt N gc gw fin flast comp li st st2 := by
  obtain ⟨hlen, hlm, hsz, _, _, _⟩ := id hinv
  obtain ⟨hszl, hszm⟩ := hsz li (by omega)
  obtain ⟨hszp, _⟩ := hsz (li - 1) (by omega)
  have hs : (0 : Int) ≤ 2 ^ li := by positivity
  have hG0 := hG 0 (by omega)
  obtain ⟨hsp0, _⟩ := hszp 0 (by omega)
  rw [boxSize_two] at hsp0
  have hsrc0 : (st.fAx 0)[li - 1]? = some (level (st.fAx 0) (li - 1)) :=
    getElem?_level (by rw [(hlen 0 (by omega)).1]; omega)
  obtain ⟨hs0f, hs0w⟩ := hszl 0 (by omega)
  rw [boxSize_two] at hs0f hs0w
  have hf0 : (st.fAx 0)[li]? = some (level (st.fAx 0) li) :=
    getElem?_level (by rw [(hlen 0 (by omega)).1]; omega)
  have hw0 : (st.wAx 0)[li]? = some (level (st.wAx 0) li) :=
    getElem?_level (by rw [(hlen 0 (by omega)).2]; omega)
  have hG1 := hG 1 (by omega)
  have hGu1 := hGu 1
  obtain ⟨hsp1, _⟩ := hszp 1 (by omega)
  rw [boxSize_two] at hsp1
  have hsrc1 : (st.fAx 1)[li - 1]? = some (level (st.fAx 1) (li - 1)) :=
    getElem?_level (by rw [(hlen 1 (by omega)).1]; omega)
  obtain ⟨hs1f, hs1w⟩ := hszl 1 (by omega)
  rw [boxSize_two] at hs1f hs1w
  have hf1 : (st.fAx 1)[li]? = some (level (st.fAx 1) li) :=
    getElem?_level (by rw [(hlen 1 (by omega)).1]; omega)
  have hw1 : (st.wAx 1)[li]? = some (level (st.wAx 1) li) :=
    getElem?_level (by rw [(hlen 1 (by omega)).2]; omega)
  rw [boxSize_two] at hszm
  simp only [fAx_zero, fAx_one, wAx_zero, wAx_one] at hs0f hs0w hf0 hw0 hs1f hs1w hf1 hw1 hsp0 hsrc0 hsp1 hsrc1
  rcases hk with hk | hk
  · have hp1 : wt.d_p = 1 := by rw [hp, hk]; rfl
    rw [hp1] at hsG
    obtain ⟨r0, hr0, hF0, hW0⟩ := pass2D_x_k2 (level st.f_x (li - 1)) N gw gw (2 ^ li)
      (-wt.d_num_wavelet_ghosts 0 + (2 ^ li)) (N 0 + wt.d_num_wavelet_ghosts 0 - (2 ^ li)) (-wt.d_num_wavelet_ghosts 1) (N 1 + wt.d_num_wavelet_ghosts 1)
      (level st.f_x li, level st.w_x li) hs hsp0 hs0f hs0w ⟨le_refl _, le_refl _⟩ (by omega)
    obtain ⟨r1, hr1, hF1, hW1⟩ := pass2D_y_k2 (level st.f_y (li - 1)) N gw gw (2 ^ li)
      (-wt.d_num_wavelet_ghosts 0) (N 0 + wt.d_num_wavelet_ghosts 0) (-wt.d_num_wavelet_ghosts 1 + (2 ^ li)) (N 1 + wt.d_num_wavelet_ghosts 1 - (2 ^ li))
      (level st.f_y li, level st.w_y li) hs hsp1 hs1f hs1w ⟨le_refl _, le_refl _⟩ (by omega)
    have hwin0 : InBox 2 (cell2 (-wt.d_num_wavelet_ghosts 0 + (2 ^ li)) (-wt.d_num_wavelet_ghosts 1))
        (cell2 (N 0 + wt.d_num_wavelet_ghosts 0 - (2 ^ li)) (N 1 + wt.d_num_wavelet_ghosts 1))
        = InBox 2 (passLo wt 0 li) (passHi wt N 0 li) :=
      InBox_congr (fun d hd => by
          have hd2 : d = 0 ∨ d = 1 := by omega
          rcases hd2 with rfl | rfl <;> simp [cell2, passLo, passHi, hp1, hGu 1])
    rw [hwin0] at hF0 hW0
    have hwin1 : InBox 2 (cell2 (-wt.d_num_wavelet_ghosts 0) (-wt.d_num_wavelet_ghosts 1 + (2 ^ li)))
        (cell2 (N 0 + wt.d_num_wavelet_ghosts 0) (N 1 + wt.d_num_wavelet_ghosts 1 - (2 ^ li)))
        = InBox 2 (passLo wt 1 li) (passHi wt N 1 li) :=
      InBox_congr (fun d hd => by
          have hd2 : d = 0 ∨ d = 1 := by omega
          rcases hd2 with rfl | rfl <;> simp [cell2, passLo, passHi, hp1, hGu 1])
    rw [hwin1] at hF1 hW1
    cases comp with
    | false =>
      have heq : levelUp_2D sqrt wt N gw false li st = Except.ok
          { st with f_x := st.f_x.set li r0.1, w_x := st.w_x.set li r0.2, f_y := st.f_y.set li r1.1, w_y := st.w_y.set li r1.2, f_mean := st.f_mean } := by
        unfold levelUp_2D
        simp only [hk, if_true, hsrc0, hsrc1, lift_some, ok_bind, onLevel2_some hf0 hw0 hr0, onLevel2_some hf1 hw1 hr1]
        rfl
      refine ⟨_, heq, fun a ha => ?_, fun h => absurd h (by decide), fun _ => rfl, rfl⟩
      have ha2 : a = 0 ∨ a = 1 := by omega
      rcases ha2 with rfl | rfl
      · refine ⟨r0.1, r0.2, rfl, rfl, ?_, ?_⟩
        · simpa only [hk, lowIn_succ _ _ _ _ _ _ hli1, fAx_zero] using hF0
        · simpa only [hk, lowIn_succ _ _ _ _ _ _ hli1, fAx_zero, wAx_zero] using hW0
      · refine ⟨r1.1, r1.2, rfl, rfl, ?_, ?_⟩
        · simpa only [hk, lowIn_succ _ _ _ _ _ _ hli1, fAx_one] using hF1
        · simpa only [hk, lowIn_succ _ _ _ _ _ _ hli1, fAx_one, wAx_one] using hW1
    | true =>
      have hfm : st.f_mean[li]? = some (level st.f_mean li) :=
        getElem?_level (by rw [hlm rfl]; omega)
      have hszm2 := hszm rfl
      obtain ⟨m, hmr, hFm⟩ := mean2D_k2 sqrt (level st.f_x (li - 1)) (level st.f_y (li - 1)) N gw gw (2 ^ li)
        (level st.f_mean li) hs hsp0 hsp1 hszm2 ⟨le_refl _, le_refl _⟩ (by omega)
      have hwinm : InBox 2 (cell2 0 0) (cell2 (N 0) (N 1)) = InBox 2 (fun _ => 0) N :=
        InBox_congr (fun d hd => by
          have hd2 : d = 0 ∨ d = 1 := by omega
          rcases hd2 with rfl | rfl <;> simp [cell2])
      rw [hwinm] at hFm
      have hval : meanVal sqrt 2 wt N gc gw flast st li = fun x =>
          (1 / 2 : ℚ) * sqrt (sumVal 2 (lineOf 2 gw (fun t => N t + 2 * gw t) (level st.f_x (li - 1)) x 0) (2 ^ li) (x 0) ^ 2 + sumVal 2 (lineOf 2 gw (fun t => N t + 2 * gw t) (level st.f_y (li - 1)) x 1) (2 ^ li) (x 1) ^ 2) := by
        funext x
        simp only [meanVal, meanCoef, sumPow, hk, lowIn_succ _ _ _ _ _ _ hli1, fAx_zero, fAx_one, wAx_zero, wAx_one]
        norm_num
      have heq : levelUp_2D sqrt wt N gw true li st = Except.ok
          { st with f_x := st.f_x.set li r0.1, w_x := st.w_x.set li r0.2, f_y := st.f_y.set li r1.1, w_y := st.w_y.set li r1.2, f_mean := st.f_mean.set li m } := by
        unfold levelUp_2D
        simp only [hk, if_true, hsrc0, hsrc1, lift_some, ok_bind, onLevel2_some hf0 hw0 hr0, onLevel2_some hf1 hw1 hr1,
          onLevel1_some hfm hmr]
        rfl
      refine ⟨_, heq, fun a ha => ?_, fun _ => ⟨m, rfl, ?_⟩, fun h => absurd h (by decide), rfl⟩
      have ha2 : a = 0 ∨ a = 1 := by omega
      rcases ha2 with rfl | rfl
      · refine ⟨r0.1, r0.2, rfl, rfl, ?_, ?_⟩
        · simpa only [hk, lowIn_succ _ _ _ _ _ _ hli1, fAx_zero] using hF0
        · simpa only [hk, lowIn_succ _ _ _ _ _ _ hli1, fAx_zero, wAx_zero] using hW0
      · refine ⟨r1.1, r1.2, rfl, rfl, ?_, ?_⟩
        · simpa only [hk, lowIn_succ _ _ _ _ _ _ hli1, fAx_one] using hF1
        · simpa only [hk, lowIn_succ _ _ _ _ _ _ hli1, fAx_one, wAx_one] using hW1
      · rw [hval]
        exact hFm
  · have hp1 : wt.d_p = 2 := by rw [hp, hk]; rfl
    rw [hp1] at hsG
    obtain ⟨r0, hr0, hF0, hW0⟩ := pass2D_x_k4 (level st.f_x (li - 1)) N gw gw (2 ^ li) (2 * 2 ^ li)
      (-wt.d_num_wavelet_ghosts 0 + (2 * 2 ^ li)) (N 0 + wt.d_num_wavelet_ghosts 0 - (2 * 2 ^ li)) (-wt.d_num_wavelet_ghosts 1) (N 1 + wt.d_num_wavelet_ghosts 1)
      (level st.f_x li, level st.w_x li) hs rfl hsp0 hs0f hs0w ⟨le_refl _, le_refl _⟩ (by omega)
    obtain ⟨r1, hr1, hF1, hW1⟩ := pass2D_y_k4 (level st.f_y (li - 1)) N gw gw (2 ^ li) (2 * 2 ^ li)
      (-wt.d_num_wavelet_ghosts 0) (N 0 + wt.d_num_wavelet_ghosts 0) (-wt.d_num_wavelet_ghosts 1 + (2 * 2 ^ li)) (N 1 + wt.d_num_wavelet_ghosts 1 - (2 * 2 ^ li))
      (level st.f_y li, level st.w_y li) hs rfl hsp1 hs1f hs1w ⟨le_refl _, le_refl _⟩ (by omega)
    have hwin0 : InBox 2 (cell2 (-wt.d_num_wavelet_ghosts 0 + (2 * 2 ^ li)) (-wt.d_num_wavelet_ghosts 1))
        (cell2 (N 0 + wt.d_num_wavelet_ghosts 0 - (2 * 2 ^ li)) (N 1 + wt.d_num_wavelet_ghosts 1))
        = InBox 2 (passLo wt 0 li) (passHi wt N 0 li) :=
      InBox_congr (fun d hd => by
          have hd2 : d = 0 ∨ d = 1 := by omega
          rcases hd2 with rfl | rfl <;> simp [cell2, passLo, passHi, hp1, hGu 1])
    rw [hwin0] at hF0 hW0
    have hwin1 : InBox 2 (cell2 (-wt.d_num_wavelet_ghosts 0) (-wt.d_num_wavelet_ghosts 1 + (2 * 2 ^ li)))
        (cell2 (N 0 + wt.d_num_wavelet_ghosts 0) (N 1 + wt.d_num_wavelet_ghosts 1 - (2 * 2 ^ li)))
        = InBox 2 (passLo wt 1 li) (passHi wt N 1 li) :=
      InBox_congr (fun d hd => by
          have hd2 : d = 0 ∨ d = 1 := by omega
          rcases hd2 with rfl | rfl <;> simp [cell2, passLo, passHi, hp1, hGu 1])
    rw [hwin1] at hF1 hW1
    cases comp with
    | false =>
      have heq : levelUp_2D sqrt wt N gw false li st = Except.ok
          { st with f_x := st.f_x.set li r0.1, w_x := st.w_x.set li r0.2, f_y := st.f_y.set li r1.1, w_y := st.w_y.set li r1.2, f_mean := st.f_mean } := by
        unfold levelUp_2D
        simp only [hk, show ¬ ((4 : Int) = 2) by decide, if_false, if_true, hsrc0, hsrc1, lift_some, ok_bind, onLevel2_some hf0 hw0 hr0, onLevel2_some hf1 hw1 hr1]
        rfl
      refine ⟨_, heq, fun a ha => ?_, fun h => absurd h (by decide), fun _ => rfl, rfl⟩
      have ha2 : a = 0 ∨ a = 1 := by omega
      rcases ha2 with rfl | rfl
      · refine ⟨r0.1, r0.2, rfl, rfl, ?_, ?_⟩
        · simpa only [hk, lowIn_succ _ _ _ _ _ _ hli1, fAx_zero] using hF0
        · simpa only [hk, lowIn_succ _ _ _ _ _ _ hli1, fAx_zero, wAx_zero] using hW0
      · refine ⟨r1.1, r1.2, rfl, rfl, ?_, ?_⟩
        · simpa only [hk, lowIn_succ _ _ _ _ _ _ hli1, fAx_one] using hF1
        · simpa only [hk, lowIn_succ _ _ _ _ _ _ hli1, fAx_one, wAx_one] using hW1
    | true =>
      have hfm : st.f_mean[li]? = some (level st.f_mean li) :=
        getElem?_level (by rw [hlm rfl]; omega)
      have hszm2 := hszm rfl
      obtain ⟨m, hmr, hFm⟩ := mean2D_k4 sqrt (level st.f_x (li - 1)) (level st.f_y (li - 1)) N gw gw (2 ^ li) (2 * 2 ^ li)
        (level st.f_mean li) hs rfl hsp0 hsp1 hszm2 ⟨le_refl _, le_refl _⟩ (by omega)
      have hwinm : InBox 2 (cell2 0 0) (cell2 (N 0) (N 1)) = InBox 2 (fun _ => 0) N :=
        InBox_congr (fun d hd => by
          have hd2 : d = 0 ∨ d = 1 := by omega
          rcases hd2 with rfl | rfl <;> simp [cell2])
      rw [hwinm] at hFm
      have hval : meanVal sqrt 2 wt N gc gw flast st li = fun x =>
          (1 / 6 : ℚ) * sqrt (sumVal 4 (lineOf 2 gw (fun t => N t + 2 * gw t) (level st.f_x (li - 1)) x 0) (2 ^ li) (x 0) ^ 2 + sumVal 4 (lineOf 2 gw (fun t => N t + 2 * gw t) (level st.f_y (li - 1)) x 1) (2 ^ li) (x 1) ^ 2) := by
        funext x
        simp only [meanVal, meanCoef, sumPow, hk, lowIn_succ _ _ _ _ _ _ hli1, fAx_zero, fAx_one, wAx_zero, wAx_one]
        norm_num
      have heq : levelUp_2D sqrt wt N gw true li st = Except.ok
          { st with f_x := st.f_x.set li r0.1, w_x := st.w_x.set li r0.2, f_y := st.f_y.set li r1.1, w_y := st.w_y.set li r1.2, f_mean := st.f_mean.set li m } := by
        unfold levelUp_2D
        simp only [hk, show ¬ ((4 : Int) = 2) by decide, if_false, if_true, hsrc0, hsrc1, lift_some, ok_bind, onLevel2_some hf0 hw0 hr0, onLevel2_some hf1 hw1 hr1,
          onLevel1_some hfm hmr]
        rfl
      refine ⟨_, heq, fun a ha => ?_, fun _ => ⟨m, rfl, ?_⟩, fun h => absurd h (by decide), rfl⟩
      have ha2 : a = 0 ∨ a = 1 := by omega
      rcases ha2 with rfl | rfl
      · refine ⟨r0.1, r0.2, rfl, rfl, ?_, ?_⟩
        · simpa only [hk, lowIn_succ _ _ _ _ _ _ hli1, fAx_zero] using hF0
        · simpa only [hk, lowIn_succ _ _ _ _ _ _ hli1, fAx_zero, wAx_zero] using hW0
      · refine ⟨r1.1, r1.2, rfl, rfl, ?_, ?_⟩
        · simpa only [hk, lowIn_succ _ _ _ _ _ _ hli1, fAx_one] using hF1
        · simpa only [hk, lowIn_succ _ _ _ _ _ _ hli1, fAx_one, wAx_one] using hW1
      · rw [hval]
        exact hFm

theorem level0_3D_step (sqrt : ℚ → ℚ) (wt : WaveletTransformHarten) (N gc gw : IntVector)
    (cd : CellData) (depth : Nat) (smooth : Bool) (sm : Option CellData) (comp : Bool)
    (st : State) (fin : Nat → Arr) (w0 m0 : List Arr)
    (hk : wt.d_k = 2 ∨ wt.d_k = 4) (hp : wt.d_p = halfWidth wt.d_k)
    (hGu : ∀ d, wt.d_num_wavelet_ghosts d = wt.d_num_wavelet_ghosts 0)
    (hG : ∀ d, d < 3 → wt.d_num_wavelet_ghosts d ≤ gw d)
    (hg : ∀ d, d < 3 → gw d ≤ gc d)
    (hL : 1 ≤ wt.d_num_level) (hpG : wt.d_p ≤ wt.d_num_wavelet_ghosts 0)
    (hsel : ∀ a, a < 3 → selectInput smooth sm cd depth a = some (fin a) ∧
      ((fin a).length : Int) = boxSize 3 (fun d => N d + 2 * gc d))
    (hinv : InvAxes sqrt 3 wt N gc gw fin w0 m0 comp 0 st) :
    ∃ st2, level0_3D sqrt wt N gc gw cd depth smooth sm comp st = Except.ok st2 ∧
      StepAxes sqrt 3 wt N gc gw fin (fin 2) comp 0 st st2 := by
  obtain ⟨hlen, hlm, hsz, _, _, _⟩ := id hinv
  obtain ⟨hszl, hszm⟩ := hsz 0 (by omega)
  have hG0 := hG 0 (by omega)
  have hg0 := hg 0 (by omega)
  obtain ⟨hsel0, hlf0⟩ := hsel 0 (by omega)
  rw [boxSize_three] at hlf0
  obtain ⟨hs0f, hs0w⟩ := hszl 0 (by omega)
  rw [boxSize_three] at hs0f hs0w
  have hf0 : (st.fAx 0)[0]? = some (level (st.fAx 0) 0) :=
    getElem?_level (by rw [(hlen 0 (by omega)).1]; omega)
  have hw0 : (st.wAx 0)[0]? = some (level (st.wAx 0) 0) :=
    getElem?_level (by rw [(hlen 0 (by omega)).2]; omega)
  have hG1 := hG 1 (by omega)
  have hGu1 := hGu 1
  have hg1 := hg 1 (by omega)
  obtain ⟨hsel1, hlf1⟩ := hsel 1 (by omega)
  rw [boxSize_three] at hlf1
  obtain ⟨hs1f, hs1w⟩ := hszl 1 (by omega)
  rw [boxSize_three] at hs1f hs1w
  have hf1 : (st.fAx 1)[0]? = some (level (st.fAx 1) 0) :=
    getElem?_level (by rw [(hlen 1 (by omega)).1]; omega)
  have hw1 : (st.wAx 1)[0]? = some (level (st.wAx 1) 0) :=
    getElem?_level (by rw [(hlen 1 (by omega)).2]; omega)
  have hG2 := hG 2 (by omega)
  have hGu2 := hGu 2
  have hg2 := hg 2 (by omega)
  obtain ⟨hsel2, hlf2⟩ := hsel 2 (by omega)
  rw [boxSize_three] at hlf2
  obtain ⟨hs2f, hs2w⟩ := hszl 2 (by omega)
  rw [boxSize_three] at hs2f hs2w
  have hf2 : (st.fAx 2)[0]? = some (level (st.fAx 2) 0) :=
    getElem?_level (by rw [(hlen 2 (by omega)).1]; omega)
  have hw2 : (st.wAx 2)[0]? = some (level (st.wAx 2) 0) :=
    getElem?_level (by rw [(hlen 2 (by omega)).2]; omega)
  rw [boxSize_three] at hszm
  simp only [fAx_zero, fAx_one, fAx_two, wAx_zero, wAx_one, wAx_two] at hs0f hs0w hf0 hw0 hs1f hs1w hf1 hw1 hs2f hs2w hf2 hw2
  rcases hk with hk | hk
  · have hp1 : wt.d_p = 1 := by rw [hp, hk]; rfl
    rw [hp1] at hpG
    obtain ⟨r0, hr0, hF0, hW0⟩ := pass3D_x_k2 (fin 0) N gc gw 1
      (-wt.d_num_wavelet_ghosts 0 + 1) (N 0 + wt.d_num_wavelet_ghosts 0 - 1) (-wt.d_num_wavelet_ghosts 1) (N 1 + wt.d_num_wavelet_ghosts 1) (-wt.d_num_wavelet_ghosts 2) (N 2 + wt.d_num_wavelet_ghosts 2)
      (level st.f_x 0, level st.w_x 0) (by omega) hlf0 hs0f hs0w ⟨hg0, hg1, hg2⟩ (by omega)
    obtain ⟨r1, hr1, hF1, hW1⟩ := pass3D_y_k2 (fin 1) N gc gw 1
      (-wt.d_num_wavelet_ghosts 0) (N 0 + wt.d_num_wavelet_ghosts 0) (-wt.d_num_wavelet_ghosts 1 + 1) (N 1 + wt.d_num_wavelet_ghosts 1 - 1) (-wt.d_num_wavelet_ghosts 2) (N 2 + wt.d_num_wavelet_ghosts 2)
      (level st.f_y 0, level st.w_y 0) (by omega) hlf1 hs1f hs1w ⟨hg0, hg1, hg2⟩ (by omega)
    obtain ⟨r2, hr2, hF2, hW2⟩ := pass3D_z_k2 (fin 2) N gc gw 1
      (-wt.d_num_wavelet_ghosts 0) (N 0 + wt.d_num_wavelet_ghosts 0) (-wt.d_num_wavelet_ghosts 1) (N 1 + wt.d_num_wavelet_ghosts 1) (-wt.d_num_wavelet_ghosts 2 + 1) (N 2 + wt.d_num_wavelet_ghosts 1 - 1)
      (level st.f_z 0, level st.w_z 0) (by omega) hlf2 hs2f hs2w ⟨hg0, hg1, hg2⟩ (by omega)
    have hwin0 : InBox 3 (cell3 (-wt.d_num_wavelet_ghosts 0 + 1) (-wt.d_num_wavelet_ghosts 1) (-wt.d_num_wavelet_ghosts 2))
        (cell3 (N 0 + wt.d_num_wavelet_ghosts 0 - 1) (N 1 + wt.d_num_wavelet_ghosts 1) (N 2 + wt.d_num_wavelet_ghosts 2))
        = InBox 3 (passLo wt 0 0) (passHi wt N 0 0) :=
      InBox_congr (fun d hd => by
          have hd2 : d = 0 ∨ d = 1 ∨ d = 2 := by omega
          rcases hd2 with rfl | rfl | rfl <;> simp [cell3, passLo, passHi, hp1, hGu 1, hGu 2])
    rw [hwin0] at hF0 hW0
    have hwin1 : InBox 3 (cell3 (-wt.d_num_wavelet_ghosts 0) (-wt.d_num_wavelet_ghosts 1 + 1) (-wt.d_num_wavelet_ghosts 2))
        (cell3 (N 0 + wt.d_num_wavelet_ghosts 0) (N 1 + wt.d_num_wavelet_ghosts 1 - 1) (N 2 + wt.d_num_wavelet_ghosts 2))
        = InBox 3 (passLo wt 1 0) (passHi wt N 1 0) :=
      InBox_congr (fun d hd => by
          have hd2 : d = 0 ∨ d = 1 ∨ d = 2 := by omega
          rcases hd2 with rfl | rfl | rfl <;> simp [cell3, passLo, passHi, hp1, hGu 1, hGu 2])
    rw [hwin1] at hF1 hW1
    have hwin2 : InBox 3 (cell3 (-wt.d_num_wavelet_ghosts 0) (-wt.d_num_wavelet_ghosts 1) (-wt.d_num_wavelet_ghosts 2 + 1))
        (cell3 (N 0 + wt.d_num_wavelet_ghosts 0) (N 1 + wt.d_num_wavelet_ghosts 1) (N 2 + wt.d_num_wavelet_ghosts 1 - 1))
        = InBox 3 (passLo wt 2 0) (passHi wt N 2 0) :=
      InBox_congr (fun d hd => by
          have hd2 : d = 0 ∨ d = 1 ∨ d = 2 := by omega
          rcases hd2 with rfl | rfl | rfl <;> simp [cell3, passLo, passHi, hp1, hGu 1, hGu 2])
    rw [hwin2] at hF2 hW2
    cases comp with
    | false =>
      have heq : level0_3D sqrt wt N gc gw cd depth smooth sm false st = Except.ok
          { st with f_x := st.f_x.set 0 r0.1, w_x := st.w_x.set 0 r0.2, f_y := st.f_y.set 0 r1.1, w_y := st.w_y.set 0 r1.2, f_z := st.f_z.set 0 r2.1, w_z := st.w_z.set 0 r2.2, f_mean := st.f_mean } := by
        unfold level0_3D
        simp only [hk, if_true, hsel0, hsel1, hsel2, lift_some, ok_bind, onLevel2_some hf0 hw0 hr0, onLevel2_some hf1 hw1 hr1, onLevel2_some hf2 hw2 hr2]
        rfl
      refine ⟨_, heq, fun a ha => ?_, fun h => absurd h (by decide), fun _ => rfl, rfl⟩
      have ha2 : a = 0 ∨ a = 1 ∨ a = 2 := by omega
      rcases ha2 with rfl | rfl | rfl
      · refine ⟨r0.1, r0.2, rfl, rfl, ?_, ?_⟩
        · simpa only [hk, lowIn_zero, pow_zero, fAx_zero] using hF0
        · simpa only [hk, lowIn_zero, pow_zero, fAx_zero, wAx_zero] using hW0
      · refine ⟨r1.1, r1.2, rfl, rfl, ?_, ?_⟩
        · simpa only [hk, lowIn_zero, pow_zero, fAx_one] using hF1
        · simpa only [hk, lowIn_zero, pow_zero, fAx_one, wAx_one] using hW1
      · refine ⟨r2.1, r2.2, rfl, rfl, ?_, ?_⟩
        · simpa only [hk, lowIn_zero, pow_zero, fAx_two] using hF2
        · simpa only [hk, lowIn_zero, pow_zero, fAx_two, wAx_two] using hW2
    | true =>
      have hfm : st.f_mean[0]? = some (level st.f_mean 0) :=
        getElem?_level (by rw [hlm rfl]; omega)
      have hszm2 := hszm rfl
      obtain ⟨m, hmr, hFm⟩ := mean3D_k2 sqrt (fin 2) (fin 2) (fin 2) N gc gw 1
        (level st.f_mean 0) (by omega) hlf2 hlf2 hlf2 hszm2 ⟨hg0, hg1, hg2⟩ (by omega)
      have hwinm : InBox 3 (cell3 0 0 0) (cell3 (N 0) (N 1) (N 2)) = InBox 3 (fun _ => 0) N :=
        InBox_congr (fun d hd => by
          have hd2 : d = 0 ∨ d = 1 ∨ d = 2 := by omega
          rcases hd2 with rfl | rfl | rfl <;> simp [cell3])
      rw [hwinm] at hFm
      have hval : meanVal sqrt 3 wt N gc gw (fin 2) st 0 = fun x =>
          (1 / 2 : ℚ) * sqrt (sumVal 2 (lineOf 3 gc (fun t => N t + 2 * gc t) (fin 2) x 0) 1 (x 0) ^ 2 + sumVal 2 (lineOf 3 gc (fun t => N t + 2 * gc t) (fin 2) x 1) 1 (x 1) ^ 2 + sumVal 2 (lineOf 3 gc (fun t => N t + 2 * gc t) (fin 2) x 2) 1 (x 2) ^ 2) := by
        funext x
        simp only [meanVal, meanCoef, sumPow, hk, lowIn_zero, pow_zero, fAx_zero, fAx_one, fAx_two, wAx_zero, wAx_one, wAx_two]
        norm_num
      have heq : level0_3D sqrt wt N gc gw cd depth smooth sm true st = Except.ok
          { st with f_x := st.f_x.set 0 r0.1, w_x := st.w_x.set 0 r0.2, f_y := st.f_y.set 0 r1.1, w_y := st.w_y.set 0 r1.2, f_z := st.f_z.set 0 r2.1, w_z := st.w_z.set 0 r2.2, f_mean := st.f_mean.set 0 m } := by
        unfold level0_3D
        simp only [hk, if_true, hsel0, hsel1, hsel2, lift_some, ok_bind, onLevel2_some hf0 hw0 hr0, onLevel2_some hf1 hw1 hr1, onLevel2_some hf2 hw2 hr2,
          onLevel1_some hfm hmr]
        rfl
      refine ⟨_, heq, fun a ha => ?_, fun _ => ⟨m, rfl, ?_⟩, fun h => absurd h (by decide), rfl⟩
      have ha2 : a = 0 ∨ a = 1 ∨ a = 2 := by omega
      rcases ha2 with rfl | rfl | rfl
      · refine ⟨r0.1, r0.2, rfl, rfl, ?_, ?_⟩
        · simpa only [hk, lowIn_zero, pow_zero, fAx_zero] using hF0
        · simpa only [hk, lowIn_zero, pow_zero, fAx_zero, wAx_zero] using hW0
      · refine ⟨r1.1, r1.2, rfl, rfl, ?_, ?_⟩
        · simpa only [hk, lowIn_zero, pow_zero, fAx_one] using hF1
        · simpa only [hk, lowIn_zero, pow_zero, fAx_one, wAx_one] using hW1
      · refine ⟨r2.1, r2.2, rfl, rfl, ?_, ?_⟩
        · simpa only [hk, lowIn_zero, pow_zero, fAx_two] using hF2
        · simpa only [hk, lowIn_zero, pow_zero, fAx_two, wAx_two] using hW2
      · rw [hval]
        exact hFm
  · have hp1 : wt.d_p = 2 := by rw [hp, hk]; rfl
    rw [hp1] at hpG
    obtain ⟨r0, hr0, hF0, hW0⟩ := pass3D_x_k4 (fin 0) N gc gw 1 2
      (-wt.d_num_wavelet_ghosts 0 + 2) (N 0 + wt.d_num_wavelet_ghosts 0 - 2) (-wt.d_num_wavelet_ghosts 1) (N 1 + wt.d_num_wavelet_ghosts 1) (-wt.d_num_wavelet_ghosts 2) (N 2 + wt.d_num_wavelet_ghosts 2)
      (level st.f_x 0, level st.w_x 0) (by omega) (by omega) hlf0 hs0f hs0w ⟨hg0, hg1, hg2⟩ (by omega)
    obtain ⟨r1, hr1, hF1, hW1⟩ := pass3D_y_k4 (fin 1) N gc gw 1 2
      (-wt.d_num_wavelet_ghosts 0) (N 0 + wt.d_num_wavelet_ghosts 0) (-wt.d_num_wavelet_ghosts 1 + 2) (N 1 + wt.d_num_wavelet_ghosts 1 - 2) (-wt.d_num_wavelet_ghosts 2) (N 2 + wt.d_num_wavelet_ghosts 2)
      (level st.f_y 0, level st.w_y 0) (by omega) (by omega) hlf1 hs1f hs1w ⟨hg0, hg1, hg2⟩ (by omega)
    obtain ⟨r2, hr2, hF2, hW2⟩ := pass3D_z_k4 (fin 2) N gc gw 1 2
      (-wt.d_num_wavelet_ghosts 0) (N 0 + wt.d_num_wavelet_ghosts 0) (-wt.d_num_wavelet_ghosts 1) (N 1 + wt.d_num_wavelet_ghosts 1) (-wt.d_num_wavelet_ghosts 2 + 2) (N 2 + wt.d_num_wavelet_ghosts 1 - 2)
      (level st.f_z 0, level st.w_z 0) (by omega) (by omega) hlf2 hs2f hs2w ⟨hg0, hg1, hg2⟩ (by omega)
    have hwin0 : InBox 3 (cell3 (-wt.d_num_wavelet_ghosts 0 + 2) (-wt.d_num_wavelet_ghosts 1) (-wt.d_num_wavelet_ghosts 2))
        (cell3 (N 0 + wt.d_num_wavelet_ghosts 0 - 2) (N 1 + wt.d_num_wavelet_ghosts 1) (N 2 + wt.d_num_wavelet_ghosts 2))
        = InBox 3 (passLo wt 0 0) (passHi wt N 0 0) :=
      InBox_congr (fun d hd => by
          have hd2 : d = 0 ∨ d = 1 ∨ d = 2 := by omega
          rcases hd2 with rfl | rfl | rfl <;> simp [cell3, passLo, passHi, hp1, hGu 1, hGu 2])
    rw [hwin0] at hF0 hW0
    have hwin1 : InBox 3 (cell3 (-wt.d_num_wavelet_ghosts 0) (-wt.d_num_wavelet_ghosts 1 + 2) (-wt.d_num_wavelet_ghosts 2))
        (cell3 (N 0 + wt.d_num_wavelet_ghosts 0) (N 1 + wt.d_num_wavelet_ghosts 1 - 2) (N 2 + wt.d_num_wavelet_ghosts 2))
        = InBox 3 (passLo wt 1 0) (passHi wt N 1 0) :=
      InBox_congr (fun d hd => by
          have hd2 : d = 0 ∨ d = 1 ∨ d = 2 := by omega
          rcases hd2 with rfl | rfl | rfl <;> simp [cell3, passLo, passHi, hp1, hGu 1, hGu 2])
    rw [hwin1] at hF1 hW1
    have hwin2 : InBox 3 (cell3 (-wt.d_num_wavelet_ghosts 0) (-wt.d_num_wavelet_ghosts 1) (-wt.d_num_wavelet_ghosts 2 + 2))
        (cell3 (N 0 + wt.d_num_wavelet_ghosts 0) (N 1 + wt.d_num_wavelet_ghosts 1) (N 2 + wt.d_num_wavelet_ghosts 1 - 2))
        = InBox 3 (passLo wt 2 0) (passHi wt N 2 0) :=
      InBox_congr (fun d hd => by
          have hd2 : d = 0 ∨ d = 1 ∨ d = 2 := by omega
          rcases hd2 with rfl | rfl | rfl <;> simp [cell3, passLo, passHi, hp1, hGu 1, hGu 2])
    rw [hwin2] at hF2 hW2
    cases comp with
    | false =>
      have heq : level0_3D sqrt wt N gc gw cd depth smooth sm false st = Except.ok
          { st with f_x := st.f_x.set 0 r0.1, w_x := st.w_x.set 0 r0.2, f_y := st.f_y.set 0 r1.1, w_y := st.w_y.set 0 r1.2, f_z := st.f_z.set 0 r2.1, w_z := st.w_z.set 0 r2.2, f_mean := st.f_mean } := by
        unfold level0_3D
        simp only [hk, show ¬ ((4 : Int) = 2) by decide, if_false, if_true, hsel0, hsel1, hsel2, lift_some, ok_bind, onLevel2_some hf0 hw0 hr0, onLevel2_some hf1 hw1 hr1, onLevel2_some hf2 hw2 hr2]
        rfl
      refine ⟨_, heq, fun a ha => ?_, fun h => absurd h (by decide), fun _ => rfl, rfl⟩
      have ha2 : a = 0 ∨ a = 1 ∨ a = 2 := by omega
      rcases ha2 with rfl | rfl | rfl
      · refine ⟨r0.1, r0.2, rfl, rfl, ?_, ?_⟩
        · simpa only [hk, lowIn_zero, pow_zero, fAx_zero] using hF0
        · simpa only [hk, lowIn_zero, pow_zero, fAx_zero, wAx_zero] using hW0
      · refine ⟨r1.1, r1.2, rfl, rfl, ?_, ?_⟩
        · simpa only [hk, lowIn_zero, pow_zero, fAx_one] using hF1
        · simpa only [hk, lowIn_zero, pow_zero, fAx_one, wAx_one] using hW1
      · refine ⟨r2.1, r2.2, rfl, rfl, ?_, ?_⟩
        · simpa only [hk, lowIn_zero, pow_zero, fAx_two] using hF2
        · simpa only [hk, lowIn_zero, pow_zero, fAx_two, wAx_two] using hW2
    | true =>
      have hfm : st.f_mean[0]? = some (level st.f_mean 0) :=
        getElem?_level (by rw [hlm rfl]; omega)
      have hszm2 := hszm rfl
      obtain ⟨m, hmr, hFm⟩ := mean3D_k4 sqrt (fin 2) (fin 2) (fin 2) N gc gw 1 2
        (level st.f_mean 0) (by omega) (by omega) hlf2 hlf2 hlf2 hszm2 ⟨hg0, hg1, hg2⟩ (by omega)
      have hwinm : InBox 3 (cell3 0 0 0) (cell3 (N 0) (N 1) (N 2)) = InBox 3 (fun _ => 0) N :=
        InBox_congr (fun d hd => by
          have hd2 : d = 0 ∨ d = 1 ∨ d = 2 := by omega
          rcases hd2 with rfl | rfl | rfl <;> simp [cell3])
      rw [hwinm] at hFm
      have hval : meanVal sqrt 3 wt N gc gw (fin 2) st 0 = fun x =>
          (1 / 6 : ℚ) * sqrt (sumVal 4 (lineOf 3 gc (fun t => N t + 2 * gc t) (fin 2) x 0) 1 (x 0) ^ 2 + sumVal 4 (lineOf 3 gc (fun t => N t + 2 * gc t) (fin 2) x 1) 1 (x 1) ^ 2 + sumVal 4 (lineOf 3 gc (fun t => N t + 2 * gc t) (fin 2) x 2) 1 (x 2) ^ 2) := by
        funext x
        simp only [meanVal, meanCoef, sumPow, hk, lowIn_zero, pow_zero, fAx_zero, fAx_one, fAx_two, wAx_zero, wAx_one, wAx_two]
        norm_num
      have heq : level0_3D sqrt wt N gc gw cd depth smooth sm true st = Except.ok
          { st with f_x := st.f_x.set 0 r0.1, w_x := st.w_x.set 0 r0.2, f_y := st.f_y.set 0 r1.1, w_y := st.w_y.set 0 r1.2, f_z := st.f_z.set 0 r2.1, w_z := st.w_z.set 0 r2.2, f_mean := st.f_mean.set 0 m } := by
        unfold level0_3D
        simp only [hk, show ¬ ((4 : Int) = 2) by decide, if_false, if_true, hsel0, hsel1, hsel2, lift_some, ok_bind, onLevel2_some hf0 hw0 hr0, onLevel2_some hf1 hw1 hr1, onLevel2_some hf2 hw2 hr2,
          onLevel1_some hfm hmr]
        rfl
      refine ⟨_, heq, fun a ha => ?_, fun _ => ⟨m, rfl, ?_⟩, fun h => absurd h (by decide), rfl⟩
      have ha2 : a = 0 ∨ a = 1 ∨ a = 2 := by omega
      rcases ha2 with rfl | rfl | rfl
      · refine ⟨r0.1, r0.2, rfl, rfl, ?_, ?_⟩
        · simpa only [hk, lowIn_zero, pow_zero, fAx_zero] using hF0
        · simpa only [hk, lowIn_zero, pow_zero, fAx_zero, wAx_zero] using hW0
      · refine ⟨r1.1, r1.2, rfl, rfl, ?_, ?_⟩
        · simpa only [hk, lowIn_zero, pow_zero, fAx_one] using hF1
        · simpa only [hk, lowIn_zero, pow_zero, fAx_one, wAx_one] using hW1
      · refine ⟨r2.1, r2.2, rfl, rfl, ?_, ?_⟩
        · simpa only [hk, lowIn_zero, pow_zero, fAx_two] using hF2
        · simpa only [hk, lowIn_zero, pow_zero, fAx_two, wAx_two] using hW2
      · rw [hval]
        exact hFm

theorem levelUp_3D_step (sqrt : ℚ → ℚ) (wt : WaveletTransformHarten) (N gc gw : IntVector)
    (comp : Bool) (li : Nat) (st : State) (fin : Nat → Arr) (flast : Arr) (w0 m0 : List Arr)
    (hk : wt.d_k = 2 ∨ wt.d_k = 4) (hp : wt.d_p = halfWidth wt.d_k)
    (hGu : ∀ d, wt.d_num_wavelet_ghosts d = wt.d_num_wavelet_ghosts 0)
    (hG : ∀ d, d < 3 → wt.d_num_wavelet_ghosts d ≤ gw d)
    (hli1 : 1 ≤ li) (hli : li < wt.d_num_level)
    (hsG : wt.d_p * 2 ^ li ≤ wt.d_num_wavelet_ghosts 0)
    (hinv : InvAxes sqrt 3 wt N gc gw fin w0 m0 comp li st) :
    ∃ st2, levelUp_3D sqrt wt N gw comp li st = Except.ok st2 ∧
      StepAxes sqrt 3 wt N gc gw fin flast comp li st st2 := by
  obtain ⟨hlen, hlm, hsz, _, _, _⟩ := id hinv
  obtain ⟨hszl, hszm⟩ := hsz li (by omega)
  obtain ⟨hszp, _⟩ := hsz (li - 1) (by omega)
  have hs : (0 : Int) ≤ 2 ^ li := by positivity
  have hG0 := hG 0 (by omega)
  obtain ⟨hsp0, _⟩ := hszp 0 (by omega)
  rw [boxSize_three] at hsp0
  have hsrc0 : (st.fAx 0)[li - 1]? = some (level (st.fAx 0) (li - 1)) :=
    getElem?_level (by rw [(hlen 0 (by omega)).1]; omega)
  obtain ⟨hs0f, hs0w⟩ := hszl 0 (by omega)
  rw [boxSize_three] at hs0f hs0w
  have hf0 : (st.fAx 0)[li]? = some (level (st.fAx 0) li) :=
    getElem?_level (by rw [(hlen 0 (by omega)).1]; omega)
  have hw0 : (st.wAx 0)[li]? = some (level (st.wAx 0) li) :=
    getElem?_level (by rw [(hlen 0 (by omega)).2]; omega)
  have hG1 := hG 1 (by omega)
  have hGu1 := hGu 1
  obtain ⟨hsp1, _⟩ := hszp 1 (by omega)
  rw [boxSize_three] at hsp1
  have hsrc1 : (st.fAx 1)[li - 1]? = some (level (st.fAx 1) (li - 1)) :=
    getElem?_level (by rw [(hlen 1 (by omega)).1]; omega)
  obtain ⟨hs1f, hs1w⟩ := hszl 1 (by omega)
  rw [boxSize_three] at hs1f hs1w
  have hf1 : (st.fAx 1)[li]? = some (level (st.fAx 1) li) :=
    getElem?_level (by rw [(hlen 1 (by omega)).1]; omega)
  have hw1 : (st.wAx 1)[li]? = some (level (st.wAx 1) li) :=
    getElem?_level (by rw [(hlen 1 (by omega)).2]; omega)
  have hG2 := hG 2 (by omega)
  have hGu2 := hGu 2
  obtain ⟨hsp2, _⟩ := hszp 2 (by omega)
  rw [boxSize_three] at hsp2
  have hsrc2 : (st.fAx 2)[li - 1]? = some (level (st.fAx 2) (li - 1)) :=
    getElem?_level (by rw [(hlen 2 (by omega)).1]; omega)
  obtain ⟨hs2f, hs2w⟩ := hszl 2 (by omega)
  rw [boxSize_three] at hs2f hs2w
  have hf2 : (st.fAx 2)[li]? = some (level (st.fAx 2) li) :=
    getElem?_level (by rw [(hlen 2 (by omega)).1]; omega)
  have hw2 : (st.wAx 2)[li]? = some (level (st.wAx 2) li) :=
    getElem?_level (by rw [(hlen 2 (by omega)).2]; omega)
  rw [boxSize_three] at hszm
  simp only [fAx_zero, fAx_one, fAx_two, wAx_zero, wAx_one, wAx_two] at hs0f hs0w hf0 hw0 hs1f hs1w hf1 hw1 hs2f hs2w hf2 hw2 hsp0 hsrc0 hsp1 hsrc1 hsp2 hsrc2
  rcases hk with hk | hk
  · have hp1 : wt.d_p = 1 := by rw [hp, hk]; rfl
    rw [hp1] at hsG
    obtain ⟨r0, hr0, hF0, hW0⟩ := pass3D_x_k2 (level st.f_x (li - 1)) N gw gw (2 ^ li)
      (-wt.d_num_wavelet_ghosts 0 + (2 ^ li)) (N 0 + wt.d_num_wavelet_ghosts 0 - (2 ^ li)) (-wt.d_num_wavelet_ghosts 1) (N 1 + wt.d_num_wavelet_ghosts 1) (-wt.d_num_wavelet_ghosts 2) (N 2 + wt.d_num_wavelet_ghosts 2)
      (level st.f_x li, level st.w_x li) hs hsp0 hs0f hs0w ⟨le_refl _, le_refl _, le_refl _⟩ (by omega)
    obtain ⟨r1, hr1, hF1, hW1⟩ := pass3D_y_k2 (level st.f_y (li - 1)) N gw gw (2 ^ li)
      (-wt.d_num_wavelet_ghosts 0) (N 0 + wt.d_num_wavelet_ghosts 0) (-wt.d_num_wavelet_ghosts 1 + (2 ^ li)) (N 1 + wt.d_num_wavelet_ghosts 1 - (2 ^ li)) (-wt.d_num_wavelet_ghosts 2) (N 2 + wt.d_num_wavelet_ghosts 2)
      (level st.f_y li, level st.w_y li) hs hsp1 hs1f hs1w ⟨le_refl _, le_refl _, le_refl _⟩ (by omega)
    obtain ⟨r2, hr2, hF2, hW2⟩ := pass3D_z_k2 (level st.f_z (li - 1)) N gw gw (2 ^ li)
      (-wt.d_num_wavelet_ghosts 0) (N 0 + wt.d_num_wavelet_ghosts 0) (-wt.d_num_wavelet_ghosts 1) (N 1 + wt.d_num_wavelet_ghosts 1) (-wt.d_num_wavelet_ghosts 2 + (2 ^ li)) (N 2 + wt.d_num_wavelet_ghosts 2 - (2 ^ li))
      (level st.f_z li, level st.w_z li) hs hsp2 hs2f hs2w ⟨le_refl _, le_refl _, le_refl _⟩ (by omega)
    have hwin0 : InBox 3 (cell3 (-wt.d_num_wavelet_ghosts 0 + (2 ^ li)) (-wt.d_num_wavelet_ghosts 1) (-wt.d_num_wavelet_ghosts 2))
        (cell3 (N 0 + wt.d_num_wavelet_ghosts 0 - (2 ^ li)) (N 1 + wt.d_num_wavelet_ghosts 1) (N 2 + wt.d_num_wavelet_ghosts 2))
        = InBox 3 (passLo wt 0 li) (passHi wt N 0 li) :=
      InBox_congr (fun d hd => by
          have hd2 : d = 0 ∨ d = 1 ∨ d = 2 := by omega
          rcases hd2 with rfl | rfl | rfl <;> simp [cell3, passLo, passHi, hp1, hGu 1, hGu 2])
    rw [hwin0] at hF0 hW0
    have hwin1 : InBox 3 (cell3 (-wt.d_num_wavelet_ghosts 0) (-wt.d_num_wavelet_ghosts 1 + (2 ^ li)) (-wt.d_num_wavelet_ghosts 2))
        (cell3 (N 0 + wt.d_num_wavelet_ghosts 0) (N 1 + wt.d_num_wavelet_ghosts 1 - (2 ^ li)) (N 2 + wt.d_num_wavelet_ghosts 2))
        = InBox 3 (passLo wt 1 li) (passHi wt N 1 li) :=
      InBox_congr (fun d hd => by
          have hd2 : d = 0 ∨ d = 1 ∨ d = 2 := by omega
          rcases hd2 with rfl | rfl | rfl <;> simp [cell3, passLo, passHi, hp1, hGu 1, hGu 2])
    rw [hwin1] at hF1 hW1
    have hwin2 : InBox 3 (cell3 (-wt.d_num_wavelet_ghosts 0) (-wt.d_num_wavelet_ghosts 1) (-wt.d_num_wavelet_ghosts 2 + (2 ^ li)))
        (cell3 (N 0 + wt.d_num_wavelet_ghosts 0) (N 1 + wt.d_num_wavelet_ghosts 1) (N 2 + wt.d_num_wavelet_ghosts 2 - (2 ^ li)))
        = InBox 3 (passLo wt 2 li) (passHi wt N 2 li) :=
      InBox_congr (fun d hd => by
          have hd2 : d = 0 ∨ d = 1 ∨ d = 2 := by omega
          rcases hd2 with rfl | rfl | rfl <;> simp [cell3, passLo, passHi, hp1, hGu 1, hGu 2])
    rw [hwin2] at hF2 hW2
    cases comp with
    | false =>
      have heq : levelUp_3D sqrt wt N gw false li st = Except.ok
          { st with f_x := st.f_x.set li r0.1, w_x := st.w_x.set li r0.2, f_y := st.f_y.set li r1.1, w_y := st.w_y.set li r1.2, f_z := st.f_z.set li r2.1, w_z := st.w_z.set li r2.2, f_mean := st.f_mean } := by
        unfold levelUp_3D
        simp only [hk, if_true, hsrc0, hsrc1, hsrc2, lift_some, ok_bind, onLevel2_some hf0 hw0 hr0, onLevel2_some hf1 hw1 hr1, onLevel2_some hf2 hw2 hr2]
        rfl
      refine ⟨_, heq, fun a ha => ?_, fun h => absurd h (by decide), fun _ => rfl, rfl⟩
      have ha2 : a = 0 ∨ a = 1 ∨ a = 2 := by omega
      rcases ha2 with rfl | rfl | rfl
      · refine ⟨r0.1, r0.2, rfl, rfl, ?_, ?_⟩
        · simpa only [hk, lowIn_succ _ _ _ _ _ _ hli1, fAx_zero] using hF0
        · simpa only [hk, lowIn_succ _ _ _ _ _ _ hli1, fAx_zero, wAx_zero] using hW0
      · refine ⟨r1.1, r1.2, rfl, rfl, ?_, ?_⟩
        · simpa only [hk, lowIn_succ _ _ _ _ _ _ hli1, fAx_one] using hF1
        · simpa only [hk, lowIn_succ _ _ _ _ _ _ hli1, fAx_one, wAx_one] using hW1
      · refine ⟨r2.1, r2.2, rfl, rfl, ?_, ?_⟩
        · simpa only [hk, lowIn_succ _ _ _ _ _ _ hli1, fAx_two] using hF2
        · simpa only [hk, lowIn_succ _ _ _ _ _ _ hli1, fAx_two, wAx_two] using hW2
    | true =>
      have hfm : st.f_mean[li]? = some (level st.f_mean li) :=
        getElem?_level (by rw [hlm rfl]; omega)
      have hszm2 := hszm rfl
      obtain ⟨m, hmr, hFm⟩ := mean3D_k2 sqrt (level st.f_x (li - 1)) (level st.f_y (li - 1)) (level st.f_z (li - 1)) N gw gw (2 ^ li)
        (level st.f_mean li) hs hsp0 hsp1 hsp2 hszm2 ⟨le_refl _, le_refl _, le_refl _⟩ (by omega)
      have hwinm : InBox 3 (cell3 0 0 0) (cell3 (N 0) (N 1) (N 2)) = InBox 3 (fun _ => 0) N :=
        InBox_congr (fun d hd => by
          have hd2 : d = 0 ∨ d = 1 ∨ d = 2 := by omega
          rcases hd2 with rfl | rfl | rfl <;> simp [cell3])
      rw [hwinm] at hFm
      have hval : meanVal sqrt 3 wt N gc gw flast st li = fun x =>
          (1 / 2 : ℚ) * sqrt (sumVal 2 (lineOf 3 gw (fun t => N t + 2 * gw t) (level st.f_x (li - 1)) x 0) (2 ^ li) (x 0) ^ 2 + sumVal 2 (lineOf 3 gw (fun t => N t + 2 * gw t) (level st.f_y (li - 1)) x 1) (2 ^ li) (x 1) ^ 2 + sumVal 2 (lineOf 3 gw (fun t => N t + 2 * gw t) (level st.f_z (li - 1)) x 2) (2 ^ li) (x 2) ^ 2) := by
        funext x
        simp only [meanVal, meanCoef, sumPow, hk, lowIn_succ _ _ _ _ _ _ hli1, fAx_zero, fAx_one, fAx_two, wAx_zero, wAx_one, wAx_two]
        norm_num
      have heq : levelUp_3D sqrt wt N gw true li st = Except.ok
          { st with f_x := st.f_x.set li r0.1, w_x := st.w_x.set li r0.2, f_y := st.f_y.set li r1.1, w_y := st.w_y.set li r1.2, f_z := st.f_z.set li r2.1, w_z := st.w_z.set li r2.2, f_mean := st.f_mean.set li m } := by
        unfold levelUp_3D
        simp only [hk, if_true, hsrc0, hsrc1, hsrc2, lift_some, ok_bind, onLevel2_some hf0 hw0 hr0, onLevel2_some hf1 hw1 hr1, onLevel2_some hf2 hw2 hr2,
          onLevel1_some hfm hmr]
        rfl
      refine ⟨_, heq, fun a ha => ?_, fun _ => ⟨m, rfl, ?_⟩, fun h => absurd h (by decide), rfl⟩
      have ha2 : a = 0 ∨ a = 1 ∨ a = 2 := by omega
      rcases ha2 with rfl | rfl | rfl
      · refine ⟨r0.1, r0.2, rfl, rfl, ?_, ?_⟩
        · simpa only [hk, lowIn_succ _ _ _ _ _ _ hli1, fAx_zero] using hF0
        · simpa only [hk, lowIn_succ _ _ _ _ _ _ hli1, fAx_zero, wAx_zero] using hW0
      · refine ⟨r1.1, r1.2, rfl, rfl, ?_, ?_⟩
        · simpa only [hk, lowIn_succ _ _ _ _ _ _ hli1, fAx_one] using hF1
        · simpa only [hk, lowIn_succ _ _ _ _ _ _ hli1, fAx_one, wAx_one] using hW1
      · refine ⟨r2.1, r2.2, rfl, rfl, ?_, ?_⟩
        · simpa only [hk, lowIn_succ _ _ _ _ _ _ hli1, fAx_two] using hF2
        · simpa only [hk, lowIn_succ _ _ _ _ _ _ hli1, fAx_two, wAx_two] using hW2
      · rw [hval]
        exact hFm
  · have hp1 : wt.d_p = 2 := by rw [hp, hk]; rfl
    rw [hp1] at hsG
    obtain ⟨r0, hr0, hF0, hW0⟩ := pass3D_x_k4 (level st.f_x (li - 1)) N gw gw (2 ^ li) (2 * 2 ^ li)
      (-wt.d_num_wavelet_ghosts 0 + (2 * 2 ^ li)) (N 0 + wt.d_num_wavelet_ghosts 0 - (2 * 2 ^ li)) (-wt.d_num_wavelet_ghosts 1) (N 1 + wt.d_num_wavelet_ghosts 1) (-wt.d_num_wavelet_ghosts 2) (N 2 + wt.d_num_wavelet_ghosts 2)
      (level st.f_x li, level st.w_x li) hs rfl hsp0 hs0f hs0w ⟨le_refl _, le_refl _, le_refl _⟩ (by omega)
    obtain ⟨r1, hr1, hF1, hW1⟩ := pass3D_y_k4 (level st.f_y (li - 1)) N gw gw (2 ^ li) (2 * 2 ^ li)
      (-wt.d_num_wavelet_ghosts 0) (N 0 + wt.d_num_wavelet_ghosts 0) (-wt.d_num_wavelet_ghosts 1 + (2 * 2 ^ li)) (N 1 + wt.d_num_wavelet_ghosts 1 - (2 * 2 ^ li)) (-wt.d_num_wavelet_ghosts 2) (N 2 + wt.d_num_wavelet_ghosts 2)
      (level st.f_y li, level st.w_y li) hs rfl hsp1 hs1f hs1w ⟨le_refl _, le_refl _, le_refl _⟩ (by omega)
    obtain ⟨r2, hr2, hF2, hW2⟩ := pass3D_z_k4 (level st.f_z (li - 1)) N gw gw (2 ^ li) (2 * 2 ^ li)
      (-wt.d_num_wavelet_ghosts 0) (N 0 + wt.d_num_wavelet_ghosts 0) (-wt.d_num_wavelet_ghosts 1) (N 1 + wt.d_num_wavelet_ghosts 1) (-wt.d_num_wavelet_ghosts 2 + (2 * 2 ^ li)) (N 2 + wt.d_num_wavelet_ghosts 2 - (2 * 2 ^ li))
      (level st.f_z li, level st.w_z li) hs rfl hsp2 hs2f hs2w ⟨le_refl _, le_refl _, le_refl _⟩ (by omega)
    have hwin0 : InBox 3 (cell3 (-wt.d_num_wavelet_ghosts 0 + (2 * 2 ^ li)) (-wt.d_num_wavelet_ghosts 1) (-wt.d_num_wavelet_ghosts 2))
        (cell3 (N 0 + wt.d_num_wavelet_ghosts 0 - (2 * 2 ^ li)) (N 1 + wt.d_num_wavelet_ghosts 1) (N 2 + wt.d_num_wavelet_ghosts 2))
        = InBox 3 (passLo wt 0 li) (passHi wt N 0 li) :=
      InBox_congr (fun d hd => by
          have hd2 : d = 0 ∨ d = 1 ∨ d = 2 := by omega
          rcases hd2 with rfl | rfl | rfl <;> simp [cell3, passLo, passHi, hp1, hGu 1, hGu 2])
    rw [hwin0] at hF0 hW0
    have hwin1 : InBox 3 (cell3 (-wt.d_num_wavelet_ghosts 0) (-wt.d_num_wavelet_ghosts 1 + (2 * 2 ^ li)) (-wt.d_num_wavelet_ghosts 2))
        (cell3 (N 0 + wt.d_num_wavelet_ghosts 0) (N 1 + wt.d_num_wavelet_ghosts 1 - (2 * 2 ^ li)) (N 2 + wt.d_num_wavelet_ghosts 2))
        = InBox 3 (passLo wt 1 li) (passHi wt N 1 li) :=
      InBox_congr (fun d hd => by
          have hd2 : d = 0 ∨ d = 1 ∨ d = 2 := by omega
          rcases hd2 with rfl | rfl | rfl <;> simp [cell3, passLo, passHi, hp1, hGu 1, hGu 2])
    rw [hwin1] at hF1 hW1
    have hwin2 : InBox 3 (cell3 (-wt.d_num_wavelet_ghosts 0) (-wt.d_num_wavelet_ghosts 1) (-wt.d_num_wavelet_ghosts 2 + (2 * 2 ^ li)))
        (cell3 (N 0 + wt.d_num_wavelet_ghosts 0) (N 1 + wt.d_num_wavelet_ghosts 1) (N 2 + wt.d_num_wavelet_ghosts 2 - (2 * 2 ^ li)))
        = InBox 3 (passLo wt 2 li) (passHi wt N 2 li) :=
      InBox_congr (fun d hd => by
          have hd2 : d = 0 ∨ d = 1 ∨ d = 2 := by omega
          rcases hd2 with rfl | rfl | rfl <;> simp [cell3, passLo, passHi, hp1, hGu 1, hGu 2])
    rw [hwin2] at hF2 hW2
    cases comp with
    | false =>
      have heq : levelUp_3D sqrt wt N gw false li st = Except.ok
          { st with f_x := st.f_x.set li r0.1, w_x := st.w_x.set li r0.2, f_y := st.f_y.set li r1.1, w_y := st.w_y.set li r1.2, f_z := st.f_z.set li r2.1, w_z := st.w_z.set li r2.2, f_mean := st.f_mean } := by
        unfold levelUp_3D
        simp only [hk, show ¬ ((4 : Int) = 2) by decide, if_false, if_true, hsrc0, hsrc1, hsrc2, lift_some, ok_bind, onLevel2_some hf0 hw0 hr0, onLevel2_some hf1 hw1 hr1, onLevel2_some hf2 hw2 hr2]
        rfl
      refine ⟨_, heq, fun a ha => ?_, fun h => absurd h (by decide), fun _ => rfl, rfl⟩
      have ha2 : a = 0 ∨ a = 1 ∨ a = 2 := by omega
      rcases ha2 with rfl | rfl | rfl
      · refine ⟨r0.1, r0.2, rfl, rfl, ?_, ?_⟩
        · simpa only [hk, lowIn_succ _ _ _ _ _ _ hli1, fAx_zero] using hF0
        · simpa only [hk, lowIn_succ _ _ _ _ _ _ hli1, fAx_zero, wAx_zero] using hW0
      · refine ⟨r1.1, r1.2, rfl, rfl, ?_, ?_⟩
        · simpa only [hk, lowIn_succ _ _ _ _ _ _ hli1, fAx_one] using hF1
        · simpa only [hk, lowIn_succ _ _ _ _ _ _ hli1, fAx_one, wAx_one] using hW1
      · refine ⟨r2.1, r2.2, rfl, rfl, ?_, ?_⟩
        · simpa only [hk, lowIn_succ _ _ _ _ _ _ hli1, fAx_two] using hF2
        · simpa only [hk, lowIn_succ _ _ _ _ _ _ hli1, fAx_two, wAx_two] using hW2
    | true =>
      have hfm : st.f_mean[li]? = some (level st.f_mean li) :=
        getElem?_level (by rw [hlm rfl]; omega)
      have hszm2 := hszm rfl
      obtain ⟨m, hmr, hFm⟩ := mean3D_k4 sqrt (level st.f_x (li - 1)) (level st.f_y (li - 1)) (level st.f_z (li - 1)) N gw gw (2 ^ li) (2 * 2 ^ li)
        (level st.f_mean li) hs rfl hsp0 hsp1 hsp2 hszm2 ⟨le_refl _, le_refl _, le_refl _⟩ (by omega)
      have hwinm : InBox 3 (cell3 0 0 0) (cell3 (N 0) (N 1) (N 2)) = InBox 3 (fun _ => 0) N :=
        InBox_congr (fun d hd => by
          have hd2 : d = 0 ∨ d = 1 ∨ d = 2 := by omega
          rcases hd2 with rfl | rfl | rfl <;> simp [cell3])
      rw [hwinm] at hFm
      have hval : meanVal sqrt 3 wt N gc gw flast st li = fun x =>
          (1 / 6 : ℚ) * sqrt (sumVal 4 (lineOf 3 gw (fun t => N t + 2 * gw t) (level st.f_x (li - 1)) x 0) (2 ^ li) (x 0) ^ 2 + sumVal 4 (lineOf 3 gw (fun t => N t + 2 * gw t) (level st.f_y (li - 1)) x 1) (2 ^ li) (x 1) ^ 2 + sumVal 4 (lineOf 3 gw (fun t => N t + 2 * gw t) (level st.f_z (li - 1)) x 2) (2 ^ li) (x 2) ^ 2) := by
        funext x
        simp only [meanVal, meanCoef, sumPow, hk, lowIn_succ _ _ _ _ _ _ hli1, fAx_zero, fAx_one, fAx_two, wAx_zero, wAx_one, wAx_two]
        norm_num
      have heq : levelUp_3D sqrt wt N gw true li st = Except.ok
          { st with f_x := st.f_x.set li r0.1, w_x := st.w_x.set li r0.2, f_y := st.f_y.set li r1.1, w_y := st.w_y.set li r1.2, f_z := st.f_z.set li r2.1, w_z := st.w_z.set li r2.2, f_mean := st.f_mean.set li m } := by
        unfold levelUp_3D
        simp only [hk, show ¬ ((4 : Int) = 2) by decide, if_false, if_true, hsrc0, hsrc1, hsrc2, lift_some, ok_bind, onLevel2_some hf0 hw0 hr0, onLevel2_some hf1 hw1 hr1, onLevel2_some hf2 hw2 hr2,
          onLevel1_some hfm hmr]
        rfl
      refine ⟨_, heq, fun a ha => ?_, fun _ => ⟨m, rfl, ?_⟩, fun h => absurd h (by decide), rfl⟩
      have ha2 : a = 0 ∨ a = 1 ∨ a = 2 := by omega
      rcases ha2 with rfl | rfl | rfl
      · refine ⟨r0.1, r0.2, rfl, rfl, ?_, ?_⟩
        · simpa only [hk, lowIn_succ _ _ _ _ _ _ hli1, fAx_zero] using hF0
        · simpa only [hk, lowIn_succ _ _ _ _ _ _ hli1, fAx_zero, wAx_zero] using hW0
      · refine ⟨r1.1, r1.2, rfl, rfl, ?_, ?_⟩
        · simpa only [hk, lowIn_succ _ _ _ _ _ _ hli1, fAx_one] using hF1
        · simpa only [hk, lowIn_succ _ _ _ _ _ _ hli1, fAx_one, wAx_one] using hW1
      · refine ⟨r2.1, r2.2, rfl, rfl, ?_, ?_⟩
        · simpa only [hk, lowIn_succ _ _ _ _ _ _ hli1, fAx_two] using hF2
        · simpa only [hk, lowIn_succ _ _ _ _ _ _ hli1, fAx_two, wAx_two] using hW2
      · rw [hval]
        exact hFm

/-! ## Combination of the per-axis coefficients -/

theorem InvComb_step {sqrt : ℚ → ℚ} {dim : Nat} {wt : WaveletTransformHarten}
    {N gw : IntVector} {w0 : List Arr} {st1 : State} {n : Nat} {st st2 : State}
    (hdim : dim = 2 ∨ dim = 3)
    (hinv : InvComb sqrt dim wt N gw w0 st1 n st) (hn : n < wt.d_num_level) (r : Arr)
    (hst : st2 = { st with w := st.w.set n r })
    (hF : Filled (InBox dim (fun _ => -wt.d_p * 2 ^ (n + 1))
        (fun d => N d + wt.d_q * 2 ^ (n + 1)))
      (linIdx dim gw (fun d => N d + 2 * gw d)) (combVal sqrt dim N gw st n)
      (level st.w n) r) :
    InvComb sqrt dim wt N gw w0 st1 (n + 1) st2 := by
  obtain ⟨efx, efy, efz, ewx, ewy, ewz, efm, hwl, hwsz, hdone, hrest⟩ := hinv
  subst hst
  have hcv : ∀ li, combVal sqrt dim N gw { st with w := st.w.set n r } li
      = combVal sqrt dim N gw st li := fun li => combVal_congr hdim (fun a _ => rfl)
  refine ⟨efx, efy, efz, ewx, ewy, ewz, efm, by simpa using hwl, fun li hli => ?_,
    fun li hli => ?_, fun li h1 h2 => ?_⟩
  · show ((level (st.w.set n r) li).length : Int) = _
    by_cases e : li = n
    · subst e
      rw [level_set_self _ (by omega), hF.1]
      exact hwsz li hli
    · rw [level_set_ne _ (Ne.symm e)]
      exact hwsz li hli
  · unfold CombLevel
    rw [hcv li]
    show Filled _ _ _ _ (level (st.w.set n r) li)
    by_cases e : li = n
    · subst e
      rw [level_set_self _ (by omega), ← hrest li (le_refl _) hn]
      exact hF
    · rw [level_set_ne _ (Ne.symm e)]
      exact hdone li (by omega)
  · show level (st.w.set n r) li = _
    rw [level_set_ne _ (by omega)]
    exact hrest li (by omega) h2

theorem combine_2D_step (sqrt : ℚ → ℚ) (wt : WaveletTransformHarten) (N gw : IntVector)
    (w0 : List Arr) (st1 : State) (n : Nat) (st : State)
    (hq : wt.d_q = wt.d_p)
    (hcb : wt.d_p * 2 ^ (n + 1) ≤ wt.d_num_wavelet_ghosts 0)
    (hGu : ∀ d, wt.d_num_wavelet_ghosts d = wt.d_num_wavelet_ghosts 0)
    (hG : ∀ d, d < 2 → wt.d_num_wavelet_ghosts d ≤ gw d)
    (hn : n < wt.d_num_level)
    (hlen1 : ∀ a, a < 2 → (st1.wAx a).length = wt.d_num_level ∧
      ((level (st1.wAx a) n).length : Int) = boxSize 2 (fun d => N d + 2 * gw d))
    (hinv : InvComb sqrt 2 wt N gw w0 st1 n st) :
    ∃ st2, combine_2D sqrt wt N gw n st = Except.ok st2 ∧
      InvComb sqrt 2 wt N gw w0 st1 (n + 1) st2 := by
  obtain ⟨efx, efy, efz, ewx, ewy, ewz, efm, hwl, hwsz, hdone, hrest⟩ := id hinv
  have hneg : -wt.d_p * 2 ^ (n + 1) = -(wt.d_p * 2 ^ (n + 1)) := by ring
  have hcbq : wt.d_q * 2 ^ (n + 1) ≤ wt.d_num_wavelet_ghosts 0 := by
    rw [hq]
    exact hcb
  obtain ⟨hl0, hs0⟩ := hlen1 0 (by omega)
  rw [wAx_zero, ← ewx] at hl0 hs0
  rw [boxSize_two] at hs0
  have hw0 : st.w_x[n]? = some (level st.w_x n) := getElem?_level (by omega)
  have hG0 := hG 0 (by omega)
  obtain ⟨hl1, hs1⟩ := hlen1 1 (by omega)
  rw [wAx_one, ← ewy] at hl1 hs1
  rw [boxSize_two] at hs1
  have hw1 : st.w_y[n]? = some (level st.w_y n) := getElem?_level (by omega)
  have hG1 := hG 1 (by omega)
  have hGu1 := hGu 1
  have hw : st.w[n]? = some (level st.w n) := getElem?_level (by omega)
  have hsw := hwsz n hn
  rw [boxSize_two] at hsw
  obtain ⟨r, hr, hF⟩ := comb2D sqrt (level st.w_x n) (level st.w_y n) N gw
    (-wt.d_p * 2 ^ (n + 1)) (N 0 + wt.d_q * 2 ^ (n + 1)) (-wt.d_p * 2 ^ (n + 1)) (N 1 + wt.d_q * 2 ^ (n + 1))
    (level st.w n) hs0 hs1 hsw (by omega)
  have hwin : InBox 2 (cell2 (-wt.d_p * 2 ^ (n + 1)) (-wt.d_p * 2 ^ (n + 1)))
      (cell2 (N 0 + wt.d_q * 2 ^ (n + 1)) (N 1 + wt.d_q * 2 ^ (n + 1)))
      = InBox 2 (fun _ => -wt.d_p * 2 ^ (n + 1)) (fun d => N d + wt.d_q * 2 ^ (n + 1)) :=
    InBox_congr (fun d hd => by
      have hd2 : d = 0 ∨ d = 1 := by omega
      rcases hd2 with rfl | rfl <;> simp [cell2])
  rw [hwin] at hF
  have heq : combine_2D sqrt wt N gw n st = Except.ok { st with w := st.w.set n r } := by
    unfold combine_2D
    simp only [hw0, hw1, lift_some, ok_bind, onLevel1_some hw hr]
    rfl
  exact ⟨_, heq, InvComb_step (Or.inl rfl) hinv hn r rfl hF⟩

theorem combine_3D_step (sqrt : ℚ → ℚ) (wt : WaveletTransformHarten) (N gw : IntVector)
    (w0 : List Arr) (st1 : State) (n : Nat) (st : State)
    (hq : wt.d_q = wt.d_p)
    (hcb : wt.d_p * 2 ^ (n + 1) ≤ wt.d_num_wavelet_ghosts 0)
    (hGu : ∀ d, wt.d_num_wavelet_ghosts d = wt.d_num_wavelet_ghosts 0)
    (hG : ∀ d, d < 3 → wt.d_num_wavelet_ghosts d ≤ gw d)
    (hn : n < wt.d_num_level)
    (hlen1 : ∀ a, a < 3 → (st1.wAx a).length = wt.d_num_level ∧
      ((level (st1.wAx a) n).length : Int) = boxSize 3 (fun d => N d + 2 * gw d))
    (hinv : InvComb sqrt 3 wt N gw w0 st1 n st) :
    ∃ st2, combine_3D sqrt wt N gw n st = Except.ok st2 ∧
      InvComb sqrt 3 wt N gw w0 st1 (n + 1) st2 := by
  obtain ⟨efx, efy, efz, ewx, ewy, ewz, efm, hwl, hwsz, hdone, hrest⟩ := id hinv
  have hneg : -wt.d_p * 2 ^ (n + 1) = -(wt.d_p * 2 ^ (n + 1)) := by ring
  have hcbq : wt.d_q * 2 ^ (n + 1) ≤ wt.d_num_wavelet_ghosts 0 := by
    rw [hq]
    exact hcb
  obtain ⟨hl0, hs0⟩ := hlen1 0 (by omega)
  rw [wAx_zero, ← ewx] at hl0 hs0
  rw [boxSize_three] at hs0
  have hw0 : st.w_x[n]? = some (level st.w_x n) := getElem?_level (by omega)
  have hG0 := hG 0 (by omega)
  obtain ⟨hl1, hs1⟩ := hlen1 1 (by omega)
  rw [wAx_one, ← ewy] at hl1 hs1
  rw [boxSize_three] at hs1
  have hw1 : st.w_y[n]? = some (level st.w_y n) := getElem?_level (by omega)
  have hG1 := hG 1 (by omega)
  have hGu1 := hGu 1
  obtain ⟨hl2, hs2⟩ := hlen1 2 (by omega)
  rw [wAx_two, ← ewz] at hl2 hs2
  rw [boxSize_three] at hs2
  have hw2 : st.w_z[n]? = some (level st.w_z n) := getElem?_level (by omega)
  have hG2 := hG 2 (by omega)
  have hGu2 := hGu 2
  have hw : st.w[n]? = some (level st.w n) := getElem?_level (by omega)
  have hsw := hwsz n hn
  rw [boxSize_three] at hsw
  obtain ⟨r, hr, hF⟩ := comb3D sqrt (level st.w_x n) (level st.w_y n) (level st.w_z n) N gw
    (-wt.d_p * 2 ^ (n + 1)) (N 0 + wt.d_q * 2 ^ (n + 1)) (-wt.d_p * 2 ^ (n + 1)) (N 1 + wt.d_q * 2 ^ (n + 1)) (-wt.d_p * 2 ^ (n + 1)) (N 2 + wt.d_q * 2 ^ (n + 1))
    (level st.w n) hs0 hs1 hs2 hsw (by omega)
  have hwin : InBox 3 (cell3 (-wt.d_p * 2 ^ (n + 1)) (-wt.d_p * 2 ^ (n + 1)) (-wt.d_p * 2 ^ (n + 1)))
      (cell3 (N 0 + wt.d_q * 2 ^ (n + 1)) (N 1 + wt.d_q * 2 ^ (n + 1)) (N 2 + wt.d_q * 2 ^ (n + 1)))
      = InBox 3 (fun _ => -wt.d_p * 2 ^ (n + 1)) (fun d => N d + wt.d_q * 2 ^ (n + 1)) :=
    InBox_congr (fun d hd => by
      have hd2 : d = 0 ∨ d = 1 ∨ d = 2 := by omega
      rcases hd2 with rfl | rfl | rfl <;> simp [cell3])
  rw [hwin] at hF
  have heq : combine_3D sqrt wt N gw n st = Except.ok { st with w := st.w.set n r } := by
    unfold combine_3D
    simp only [hw0, hw1, hw2, lift_some, ok_bind, onLevel1_some hw hr]
    rfl
  exact ⟨_, heq, InvComb_step (Or.inr rfl) hinv hn r rfl hF⟩

/-! ## The 2-D and 3-D transform as a whole -/

/-- The 2-D branch runs to completion: every level of every axis is as
specified, and every output buffer holds the combined coefficients. -/
theorem transform2D_spec (sqrt : ℚ → ℚ) (wt : WaveletTransformHarten) (N gc gw : IntVector)
    (cd : CellData) (depth : Nat) (smooth : Bool) (sm : Option CellData) (comp : Bool)
    (w f_mean : List Arr) (fin : Nat → Arr)
    (hk : wt.d_k = 2 ∨ wt.d_k = 4) (hp : wt.d_p = halfWidth wt.d_k) (hq : wt.d_q = wt.d_p)
    (hL : 1 ≤ wt.d_num_level)
    (hGeq : ∀ d, wt.d_num_wavelet_ghosts d = wt.d_p * (2 ^ (wt.d_num_level + 1) - 1))
    (hG : ∀ d, d < 2 → wt.d_num_wavelet_ghosts d ≤ gw d)
    (hg : ∀ d, d < 2 → gw d ≤ gc d)
    (hsize : 0 ≤ boxSize 2 (fun d => N d + 2 * gw d))
    (hsel : ∀ a, a < 2 → selectInput smooth sm cd depth a = some (fin a) ∧
      ((fin a).length : Int) = boxSize 2 (fun d => N d + 2 * gc d))
    (hw : w.length = wt.d_num_level)
    (hwl : ∀ li, li < wt.d_num_level →
      ((level w li).length : Int) = boxSize 2 (fun d => N d + 2 * gw d))
    (hm : comp = true → f_mean.length = wt.d_num_level ∧
      ∀ li, li < wt.d_num_level →
        ((level f_mean li).length : Int) = boxSize 2 (fun d => N d + 2 * gw d)) :
    ∃ st1 st, transform2D sqrt wt N gc gw cd depth smooth sm comp w f_mean = Except.ok st ∧
      InvAxes sqrt 2 wt N gc gw fin w f_mean comp wt.d_num_level st1 ∧
      InvComb sqrt 2 wt N gw w st1 wt.d_num_level st := by
  have hp0 : 0 ≤ wt.d_p := by
    rw [hp]
    rcases hk with hk | hk <;> rw [hk] <;> decide
  have hGu : ∀ d, wt.d_num_wavelet_ghosts d = wt.d_num_wavelet_ghosts 0 := by
    intro d
    rw [hGeq d, hGeq 0]
  have hsG : ∀ li, li ≤ wt.d_num_level → wt.d_p * 2 ^ li ≤ wt.d_num_wavelet_ghosts 0 := by
    intro li hli
    rw [hGeq 0]
    exact pow_step_le hp0 hli
  have hpG : wt.d_p ≤ wt.d_num_wavelet_ghosts 0 := by
    have := hsG 0 (by omega)
    simpa using this
  have hinv0 : InvAxes sqrt 2 wt N gc gw fin w f_mean comp 0
      { w := w, f_mean := f_mean, f_x := (List.replicate wt.d_num_level (zeros (boxSize 2 (fun d => N d + 2 * gw d)))),
        f_y := (List.replicate wt.d_num_level (zeros (boxSize 2 (fun d => N d + 2 * gw d)))),
        f_z := [],
        w_x := (List.replicate wt.d_num_level (zeros (boxSize 2 (fun d => N d + 2 * gw d)))),
        w_y := (List.replicate wt.d_num_level (zeros (boxSize 2 (fun d => N d + 2 * gw d)))),
        w_z := [] } := by
    refine ⟨fun a ha => ?_, fun hc => (hm hc).1, fun li hli => ⟨fun a ha => ?_, fun hc =>
      (hm hc).2 li hli⟩, fun li hli => absurd hli (by omega), fun li _ hli => ⟨fun a ha => ?_, rfl⟩,
      rfl⟩
    · have ha2 : a = 0 ∨ a = 1 := by omega
      rcases ha2 with rfl | rfl <;> simp [State.fAx, State.wAx]
    · have ha2 : a = 0 ∨ a = 1 := by omega
      rcases ha2 with rfl | rfl <;>
        simp only [State.fAx, State.wAx, if_true, if_false, one_ne_zero, OfNat.ofNat_ne_zero,
          OfNat.ofNat_ne_one, level_replicate _ hli, zeros_length hsize] <;> simp
    · have ha2 : a = 0 ∨ a = 1 := by omega
      rcases ha2 with rfl | rfl <;>
        simp only [State.fAx, State.wAx, if_true, if_false, one_ne_zero, OfNat.ofNat_ne_zero,
          OfNat.ofNat_ne_one, level_replicate _ hli] <;> simp
  obtain ⟨s1, hrun0, hstep0⟩ := level0_2D_step sqrt wt N gc gw cd depth smooth sm comp _ fin
    w f_mean hk hp hGu hG hg hL hpG hsel hinv0
  have hinv1 := InvAxes_step (Or.inl rfl) hinv0 (by omega) hstep0
  obtain ⟨sL, hrun1, hinvL⟩ := foldlM_natRange_inv
    (fun st li => levelUp_2D sqrt wt N gw comp li st)
    (fun n st => InvAxes sqrt 2 wt N gc gw fin w f_mean comp n st) 1 wt.d_num_level hL _ hinv1
    (fun n st hn1 hn2 hinv => by
      obtain ⟨st2, hrun, hstep⟩ := levelUp_2D_step sqrt wt N gc gw comp n st fin (fin (2 - 1))
        w f_mean hk hp hGu hG hn1 hn2 (hsG n (by omega)) hinv
      exact ⟨st2, hrun, InvAxes_step (Or.inl rfl) hinv hn2 hstep⟩)
  obtain ⟨hlenL, _, hszL, _, _, hwL⟩ := id hinvL
  have hc0 : InvComb sqrt 2 wt N gw w sL 0 sL := by
    refine ⟨rfl, rfl, rfl, rfl, rfl, rfl, rfl, by rw [hwL]; exact hw, fun li hli => ?_,
      fun li hli => absurd hli (by omega), fun li _ _ => by rw [hwL]⟩
    rw [hwL]
    exact hwl li hli
  obtain ⟨st, hrun2, hinvC⟩ := foldlM_natRange_inv
    (fun st li => combine_2D sqrt wt N gw li st)
    (fun n st => InvComb sqrt 2 wt N gw w sL n st) 0 wt.d_num_level (by omega) _ hc0
    (fun n st _ hn2 hinv =>
      combine_2D_step sqrt wt N gw w sL n st hq (hsG (n + 1) (by omega)) hGu hG hn2
        (fun a ha => ⟨(hlenL a ha).2, ((hszL n hn2).1 a ha).2⟩) hinv)
  refine ⟨sL, st, ?_, hinvL, hinvC⟩
  unfold transform2D
  simp only [hrun0, ok_bind, hrun1]
  exact hrun2

/-- The 3-D branch runs to completion: every level of every axis is as
specified, and every output buffer holds the combined coefficients. -/
theorem transform3D_spec (sqrt : ℚ → ℚ) (wt : WaveletTransformHarten) (N gc gw : IntVector)
    (cd : CellData) (depth : Nat) (smooth : Bool) (sm : Option CellData) (comp : Bool)
    (w f_mean : List Arr) (fin : Nat → Arr)
    (hk : wt.d_k = 2 ∨ wt.d_k = 4) (hp : wt.d_p = halfWidth wt.d_k) (hq : wt.d_q = wt.d_p)
    (hL : 1 ≤ wt.d_num_level)
    (hGeq : ∀ d, wt.d_num_wavelet_ghosts d = wt.d_p * (2 ^ (wt.d_num_level + 1) - 1))
    (hG : ∀ d, d < 3 → wt.d_num_wavelet_ghosts d ≤ gw d)
    (hg : ∀ d, d < 3 → gw d ≤ gc d)
    (hsize : 0 ≤ boxSize 3 (fun d => N d + 2 * gw d))
    (hsel : ∀ a, a < 3 → selectInput smooth sm cd depth a = some (fin a) ∧
      ((fin a).length : Int) = boxSize 3 (fun d => N d + 2 * gc d))
    (hw : w.length = wt.d_num_level)
    (hwl : ∀ li, li < wt.d_num_level →
      ((level w li).length : Int) = boxSize 3 (fun d => N d + 2 * gw d))
    (hm : comp = true → f_mean.length = wt.d_num_level ∧
      ∀ li, li < wt.d_num_level →
        ((level f_mean li).length : Int) = boxSize 3 (fun d => N d + 2 * gw d)) :
    ∃ st1 st, transform3D sqrt wt N gc gw cd depth smooth sm comp w f_mean = Except.ok st ∧
      InvAxes sqrt 3 wt N gc gw fin w f_mean comp wt.d_num_level st1 ∧
      InvComb sqrt 3 wt N gw w st1 wt.d_num_level st := by
  have hp0 : 0 ≤ wt.d_p := by
    rw [hp]
    rcases hk with hk | hk <;> rw [hk] <;> decide
  have hGu : ∀ d, wt.d_num_wavelet_ghosts d = wt.d_num_wavelet_ghosts 0 := by
    intro d
    rw [hGeq d, hGeq 0]
  have hsG : ∀ li, li ≤ wt.d_num_level → wt.d_p * 2 ^ li ≤ wt.d_num_wavelet_ghosts 0 := by
    intro li hli
    rw [hGeq 0]
    exact pow_step_le hp0 hli
  have hpG : wt.d_p ≤ wt.d_num_wavelet_ghosts 0 := by
    have := hsG 0 (by omega)
    simpa using this
  have hinv0 : InvAxes sqrt 3 wt N gc gw fin w f_mean comp 0
      { w := w, f_mean := f_mean, f_x := (List.replicate wt.d_num_level (zeros (boxSize 3 (fun d => N d + 2 * gw d)))),
        f_y := (List.replicate wt.d_num_level (zeros (boxSize 3 (fun d => N d + 2 * gw d)))),
        f_z := (List.replicate wt.d_num_level (zeros (boxSize 3 (fun d => N d + 2 * gw d)))),
        w_x := (List.replicate wt.d_num_level (zeros (boxSize 3 (fun d => N d + 2 * gw d)))),
        w_y := (List.replicate wt.d_num_level (zeros (boxSize 3 (fun d => N d + 2 * gw d)))),
        w_z := (List.replicate wt.d_num_level (zeros (boxSize 3 (fun d => N d + 2 * gw d)))) } := by
    refine ⟨fun a ha => ?_, fun hc => (hm hc).1, fun li hli => ⟨fun a ha => ?_, fun hc =>
      (hm hc).2 li hli⟩, fun li hli => absurd hli (by omega), fun li _ hli => ⟨fun a ha => ?_, rfl⟩,
      rfl⟩
    · have ha2 : a = 0 ∨ a = 1 ∨ a = 2 := by omega
      rcases ha2 with rfl | rfl | rfl <;> simp [State.fAx, State.wAx]
    · have ha2 : a = 0 ∨ a = 1 ∨ a = 2 := by omega
      rcases ha2 with rfl | rfl | rfl <;>
        simp only [State.fAx, State.wAx, if_true, if_false, one_ne_zero, OfNat.ofNat_ne_zero,
          OfNat.ofNat_ne_one, level_replicate _ hli, zeros_length hsize] <;> simp
    · have ha2 : a = 0 ∨ a = 1 ∨ a = 2 := by omega
      rcases ha2 with rfl | rfl | rfl <;>
        simp only [State.fAx, State.wAx, if_true, if_false, one_ne_zero, OfNat.ofNat_ne_zero,
          OfNat.ofNat_ne_one, level_replicate _ hli] <;> simp
  obtain ⟨s1, hrun0, hstep0⟩ := level0_3D_step sqrt wt N gc gw cd depth smooth sm comp _ fin
    w f_mean hk hp hGu hG hg hL hpG hsel hinv0
  have hinv1 := InvAxes_step (Or.inr rfl) hinv0 (by omega) hstep0
  obtain ⟨sL, hrun1, hinvL⟩ := foldlM_natRange_inv
    (fun st li => levelUp_3D sqrt wt N gw comp li st)
    (fun n st => InvAxes sqrt 3 wt N gc gw fin w f_mean comp n st) 1 wt.d_num_level hL _ hinv1
    (fun n st hn1 hn2 hinv => by
      obtain ⟨st2, hrun, hstep⟩ := levelUp_3D_step sqrt wt N gc gw comp n st fin (fin (3 - 1))
        w f_mean hk hp hGu hG hn1 hn2 (hsG n (by omega)) hinv
      exact ⟨st2, hrun, InvAxes_step (Or.inr rfl) hinv hn2 hstep⟩)
  obtain ⟨hlenL, _, hszL, _, _, hwL⟩ := id hinvL
  have hc0 : InvComb sqrt 3 wt N gw w sL 0 sL := by
    refine ⟨rfl, rfl, rfl, rfl, rfl, rfl, rfl, by rw [hwL]; exact hw, fun li hli => ?_,
      fun li hli => absurd hli (by omega), fun li _ _ => by rw [hwL]⟩
    rw [hwL]
    exact hwl li hli
  obtain ⟨st, hrun2, hinvC⟩ := foldlM_natRange_inv
    (fun st li => combine_3D sqrt wt N gw li st)
    (fun n st => InvComb sqrt 3 wt N gw w sL n st) 0 wt.d_num_level (by omega) _ hc0
    (fun n st _ hn2 hinv =>
      combine_3D_step sqrt wt N gw w sL n st hq (hsG (n + 1) (by omega)) hGu hG hn2
        (fun a ha => ⟨(hlenL a ha).2, ((hszL n hn2).1 a ha).2⟩) hinv)
  refine ⟨sL, st, ?_, hinvL, hinvC⟩
  unfold transform3D
  simp only [hrun0, ok_bind, hrun1]
  exact hrun2

/-! ## The transform in 2-D and 3-D under the call conditions -/

/-- Under the call conditions the 2-D and 3-D transform completes; `fin a` is the
input buffer selected for axis `a`, `st1` the state after the per-axis passes and
`st` the final state. -/
theorem transformBody_ND (sqrt : ℚ → ℚ) {wt : WaveletTransformHarten} {N : IntVector}
    {cd : CellData} {wcs means : List CellData} {depth : Nat} (smooth : Bool)
    {dim : Nat} {L k : Int} (hwt : WaveletTransformHarten.new dim L k = Except.ok wt)
    (hd : wt.d_dim = 2 ∨ wt.d_dim = 3) (hpre : Pre wt N cd wcs means depth) :
    ∃ st1 st fin, transformBody sqrt wt N cd wcs means depth smooth = Except.ok st ∧
      (∀ a, a < wt.d_dim → inputOf wt N cd depth smooth a = some (fin a) ∧
        ((fin a).length : Int) = boxSize wt.d_dim (fun d => N d + 2 * cd.ghosts d)) ∧
      InvAxes sqrt wt.d_dim wt N cd.ghosts (coefGhosts wcs) fin (w0Of wcs wt.d_num_level)
        (m0Of means wt.d_num_level) (!means.isEmpty) wt.d_num_level st1 ∧
      InvComb sqrt wt.d_dim wt N (coefGhosts wcs) (w0Of wcs wt.d_num_level) st1
        wt.d_num_level st := by
  obtain ⟨hk, _, _, _, hdk, hp, hq, _⟩ := new_ok hwt
  have hGeq : ∀ d, wt.d_num_wavelet_ghosts d = wt.d_p * (2 ^ (wt.d_num_level + 1) - 1) :=
    fun d => (ghost_nonneg hwt d).2.2.2.1
  have hL := (ghost_nonneg hwt 0).2.2.2.2
  obtain ⟨_, hbody⟩ := transformBody_unfold sqrt wt N cd wcs means depth smooth hpre (by omega)
  obtain ⟨hw, hwl⟩ := w0Of_facts hpre
  have hsize : 0 ≤ boxSize wt.d_dim (fun d => N d + 2 * coefGhosts wcs d) := by
    rw [← (hwl 0 (by omega)).2]
    exact Int.natCast_nonneg _
  have hfin : ∀ a, a < wt.d_dim →
      inputOf wt N cd depth smooth a = some ((inputOf wt N cd depth smooth a).getD []) ∧
      selectInput smooth (smoothedOf wt N cd depth smooth) cd depth a
        = some ((inputOf wt N cd depth smooth a).getD []) ∧
      ((((inputOf wt N cd depth smooth a).getD []).length : Nat) : Int)
        = boxSize wt.d_dim (fun d => N d + 2 * cd.ghosts d) := by
    intro a ha
    obtain ⟨f, hin, hsel, hlf⟩ := inputOf_facts hpre smooth ha
    rw [hin]
    exact ⟨rfl, hsel, hlf⟩
  have hkk : wt.d_k = 2 ∨ wt.d_k = 4 := by rw [hdk]; exact hk
  have hpp : wt.d_p = halfWidth wt.d_k := by rw [hdk]; exact hp
  have hqq : wt.d_q = wt.d_p := by rw [hq, hp]
  have hmm : (!means.isEmpty) = true → (m0Of means wt.d_num_level).length = wt.d_num_level ∧
      ∀ li, li < wt.d_num_level → ((level (m0Of means wt.d_num_level) li).length : Int)
        = boxSize wt.d_dim (fun d => N d + 2 * coefGhosts wcs d) := fun hc => m0Of_facts hpre hc
  rcases hd with hd | hd
  · rw [hd] at hsize hfin hwl hmm
    obtain ⟨st1, st, hst, hinv, hcomb⟩ := transform2D_spec sqrt wt N cd.ghosts (coefGhosts wcs)
      cd depth smooth (smoothedOf wt N cd depth smooth) (!means.isEmpty)
      (w0Of wcs wt.d_num_level) (m0Of means wt.d_num_level)
      (fun a => (inputOf wt N cd depth smooth a).getD []) hkk hpp hqq (by omega) hGeq
      (fun d h => hpre.ghosts_coef d (by omega)) (fun d h => hpre.ghosts_cell d (by omega))
      hsize (fun a ha => (hfin a ha).2) hw (fun li hli => (hwl li hli).2) hmm
    refine ⟨st1, st, fun a => (inputOf wt N cd depth smooth a).getD [], ?_, ?_, ?_, ?_⟩
    · rw [hbody, if_neg (by omega), if_pos hd]
      exact hst
    · rw [hd]
      exact fun a ha => ⟨(hfin a ha).1, (hfin a ha).2.2⟩
    · rw [hd]
      exact hinv
    · rw [hd]
      exact hcomb
  · rw [hd] at hsize hfin hwl hmm
    obtain ⟨st1, st, hst, hinv, hcomb⟩ := transform3D_spec sqrt wt N cd.ghosts (coefGhosts wcs)
      cd depth smooth (smoothedOf wt N cd depth smooth) (!means.isEmpty)
      (w0Of wcs wt.d_num_level) (m0Of means wt.d_num_level)
      (fun a => (inputOf wt N cd depth smooth a).getD []) hkk hpp hqq (by omega) hGeq
      (fun d h => hpre.ghosts_coef d (by omega)) (fun d h => hpre.ghosts_cell d (by omega))
      hsize (fun a ha => (hfin a ha).2) hw (fun li hli => (hwl li hli).2) hmm
    refine ⟨st1, st, fun a => (inputOf wt N cd depth smooth a).getD [], ?_, ?_, ?_, ?_⟩
    · rw [hbody, if_neg (by omega), if_neg (by omega)]
      exact hst
    · rw [hd]
      exact fun a ha => ⟨(hfin a ha).1, (hfin a ha).2.2⟩
    · rw [hd]
      exact hinv
    · rw [hd]
      exact hcomb

/-! ## Claims on the 2-D and 3-D transform and on the accesses -/

theorem fAx_congr {st st1 : State} (hx : st.f_x = st1.f_x) (hy : st.f_y = st1.f_y)
    (hz : st.f_z = st1.f_z) (a : Nat) : st.fAx a = st1.fAx a := by
  unfold State.fAx
  rw [hx, hy, hz]

theorem wAx_congr {st st1 : State} (hx : st.w_x = st1.w_x) (hy : st.w_y = st1.w_y)
    (hz : st.w_z = st1.w_z) (a : Nat) : st.wAx a = st1.wAx a := by
  unfold State.wAx
  rw [hx, hy, hz]

/-- The combination box of level `li` lies inside the window of every per-axis
pass of that level. -/
theorem comb_in_pass {p : Int} (hp : 0 ≤ p) {li L : Nat} (h : li < L) :
    p * 2 ^ li + p * 2 ^ (li + 1) ≤ p * (2 ^ (L + 1) - 1) := by
  have h1 : (2 : Int) ^ (li + 1) ≤ 2 ^ L := pow_le_pow_right₀ (by norm_num) h
  have h2 : (2 : Int) ^ (L + 1) = 2 * 2 ^ L := by ring
  have h3 : (2 : Int) ^ (li + 1) = 2 * 2 ^ li := by ring
  have h4 : (1 : Int) ≤ 2 ^ li := one_le_pow₀ (by norm_num)
  have h5 : (2 : Int) ^ li + 2 ^ (li + 1) ≤ 2 ^ (L + 1) - 1 := by omega
  calc p * 2 ^ li + p * 2 ^ (li + 1) = p * (2 ^ li + 2 ^ (li + 1)) := by ring
    _ ≤ p * (2 ^ (L + 1) - 1) := mul_le_mul_of_nonneg_left h5 hp

theorem comb_box_in_pass {dim : Nat} {L k : Int} {wt : WaveletTransformHarten}
    (hwt : WaveletTransformHarten.new dim L k = Except.ok wt) (N : IntVector) {li : Nat}
    (hli : li < wt.d_num_level) (a : Nat) {x : IntVector} {n : Nat}
    (hx : InBox n (fun _ => -wt.d_p * 2 ^ (li + 1)) (fun d => N d + wt.d_q * 2 ^ (li + 1)) x) :
    InBox n (passLo wt a li) (passHi wt N a li) x := by
  obtain ⟨_, _, _, _, _, hp, hq, _⟩ := new_ok hwt
  have hqq : wt.d_q = wt.d_p := by rw [hq, hp]
  intro d hd
  obtain ⟨hp1, _, _, hGeq, _⟩ := ghost_nonneg hwt d
  have h1 := comb_in_pass (p := wt.d_p) (by omega) hli
  have h2 : (0 : Int) ≤ wt.d_p * 2 ^ li := by positivity
  have hneg : -wt.d_p * 2 ^ (li + 1) = -(wt.d_p * 2 ^ (li + 1)) := by ring
  obtain ⟨hx1, hx2⟩ := hx d hd
  dsimp only at hx1 hx2
  rw [hqq] at hx2
  unfold passLo passHi
  by_cases e : d = a
  · simp only [e, if_true]
    rw [e] at hx1 hx2 hGeq
    constructor <;> omega
  · simp only [e, if_false]
    constructor <;> omega

/-- C5: in 2-D and 3-D the call completes and, for every level `li < L` and every
cell `x` whose index on each axis `a` lies in `[-p*2^(li+1), N_a + q*2^(li+1))`,
the per-axis wavelet buffer of every axis holds at `x` the signed wavelet value
of the cascade along that axis (the high-pass formula applied to the level input
along the axis), and the output wavelet coefficient at `x` is the square root of
the sum over the axes of the squares of these values. -/
theorem C5_combined_coefficient (sqrt : ℚ → ℚ) (wt : WaveletTransformHarten) (N : IntVector)
    (cd : CellData) (wcs means : List CellData) (depth : Nat) (smooth : Bool)
    (dim : Nat) (L k : Int)
    (hwt : WaveletTransformHarten.new dim L k = Except.ok wt) (hdim : dim = 2 ∨ dim = 3)
    (hpre : Pre wt N cd wcs means depth) :
    ∃ (st : State) (fin : Nat → Arr), transformBody sqrt wt N cd wcs means depth smooth = Except.ok st ∧
      (∀ a, a < dim → inputOf wt N cd depth smooth a = some (fin a)) ∧
      ∀ li, li < wt.d_num_level → ∀ x : IntVector,
        InBox dim (fun _ => -wt.d_p * 2 ^ (li + 1)) (fun a => N a + wt.d_q * 2 ^ (li + 1)) x →
        (∀ a, a < dim →
          valAt (level (st.wAx a) li)
              (linIdx dim (coefGhosts wcs) (fun d => N d + 2 * coefGhosts wcs d) x)
            = highVal k (lowIn dim N cd.ghosts (coefGhosts wcs) (fin a) (st.fAx a) li x a)
                (2 ^ li) (x a)) ∧
        valAt (level st.w li)
            (linIdx dim (coefGhosts wcs) (fun d => N d + 2 * coefGhosts wcs d) x)
          = sqrt (sumSq dim (fun a =>
              highVal k (lowIn dim N cd.ghosts (coefGhosts wcs) (fin a) (st.fAx a) li x a)
                (2 ^ li) (x a))) := by
  obtain ⟨_, _, hd, _, hdk, _, _, _⟩ := new_ok hwt
  have hd2 : wt.d_dim = 2 ∨ wt.d_dim = 3 := by rw [hd]; exact hdim
  obtain ⟨st1, st, fin, hst, hfin, hinv, hcomb⟩ := transformBody_ND sqrt smooth hwt hd2 hpre
  rw [hd] at hfin hinv hcomb
  obtain ⟨efx, efy, efz, ewx, ewy, ewz, _, _, _, hdone, _⟩ := hcomb
  obtain ⟨_, _, _, hax, _, _⟩ := hinv
  refine ⟨st, fin, hst, fun a ha => (hfin a ha).1, fun li hli x hx => ?_⟩
  have hper : ∀ a, a < dim →
      valAt (level (st.wAx a) li)
          (linIdx dim (coefGhosts wcs) (fun d => N d + 2 * coefGhosts wcs d) x)
        = highVal k (lowIn dim N cd.ghosts (coefGhosts wcs) (fin a) (st.fAx a) li x a)
            (2 ^ li) (x a) := by
    intro a ha
    have hA := ((hax li hli).1 a ha).2.2.1 x (comb_box_in_pass hwt N hli a hx)
    rw [wAx_congr ewx ewy ewz a, fAx_congr efx efy efz a, hA, hdk]
  refine ⟨hper, ?_⟩
  have hC := (hdone li hli).2.1 x hx
  rw [hC]
  unfold combVal
  rw [sumSq_congr hdim hper]

theorem C5_combined_coefficient_witness :
    WaveletTransformHarten.new 2 2 2 = Except.ok (exEngine 2 2) ∧
    ((2 : Nat) = 2 ∨ (2 : Nat) = 3) ∧
    Pre (exEngine 2 2) exDims (exField 7 (zeros (boxSize 2 (fun _ => 8 + 2 * 7))))
      (exCoefs 2 7) [] 0 ∧
    ∃ (st : State) (fin : Nat → Arr), transformBody ratSqrt (exEngine 2 2) exDims
        (exField 7 (zeros (boxSize 2 (fun _ => 8 + 2 * 7)))) (exCoefs 2 7) [] 0 true
        = Except.ok st ∧
      (∀ a, a < 2 → inputOf (exEngine 2 2) exDims
        (exField 7 (zeros (boxSize 2 (fun _ => 8 + 2 * 7)))) 0 true a = some (fin a)) ∧
      ∀ li, li < (exEngine 2 2).d_num_level → ∀ x : IntVector,
        InBox 2 (fun _ => -(exEngine 2 2).d_p * 2 ^ (li + 1))
          (fun a => exDims a + (exEngine 2 2).d_q * 2 ^ (li + 1)) x →
        (∀ a, a < 2 →
          valAt (level (st.wAx a) li)
              (linIdx 2 (coefGhosts (exCoefs 2 7))
                (fun d => exDims d + 2 * coefGhosts (exCoefs 2 7) d) x)
            = highVal 2 (lowIn 2 exDims
                (exField 7 (zeros (boxSize 2 (fun _ => 8 + 2 * 7)))).ghosts
                (coefGhosts (exCoefs 2 7)) (fin a) (st.fAx a) li x a) (2 ^ li) (x a)) ∧
        valAt (level st.w li)
            (linIdx 2 (coefGhosts (exCoefs 2 7))
              (fun d => exDims d + 2 * coefGhosts (exCoefs 2 7) d) x)
          = ratSqrt (sumSq 2 (fun a =>
              highVal 2 (lowIn 2 exDims
                (exField 7 (zeros (boxSize 2 (fun _ => 8 + 2 * 7)))).ghosts
                (coefGhosts (exCoefs 2 7)) (fin a) (st.fAx a) li x a) (2 ^ li) (x a))) :=
  ⟨exEngine_ok 2 (Or.inl rfl), Or.inl rfl,
    exPre 2 (Or.inl rfl) (Or.inr (Or.inl rfl)) 7 (by decide) _
      (zeros_length (by decide)) false,
    C5_combined_coefficient ratSqrt _ _ _ _ _ 0 true 2 2 2 (exEngine_ok 2 (Or.inl rfl))
      (Or.inl rfl)
      (exPre 2 (Or.inl rfl) (Or.inr (Or.inl rfl)) 7 (by decide) _
        (zeros_length (by decide)) false)⟩

/-- C11 (as stated, false): the entry assertions never compare the number of
wavelet-coefficient fields with the number of levels.  With two levels, a call
with three coefficient fields and three local-mean fields of matching extent
passes them, and so does a call with one field of each kind; the latter then
indexes `wavelet_coeffs[1]` beyond the end of the vector when it collects the
output pointers (`for (li < d_num_level) w.push_back(wavelet_coeffs[li]->...)`),
which the embedding reports as an out-of-bounds access. -/
theorem C11_count_not_compared_with_levels :
    exCoefs3.length ≠ (exEngine 1 2).d_num_level ∧
    entryAssertions (exEngine 1 2) exDims (exField 7 exStep) exCoefs3 exCoefs3 = Except.ok () ∧
    [exField 7 (zeros 22)].length ≠ (exEngine 1 2).d_num_level ∧
    entryAssertions (exEngine 1 2) exDims (exField 7 exStep) [exField 7 (zeros 22)]
      [exField 7 (zeros 22)] = Except.ok () ∧
    computeWaveletCoefficientsWithVariableLocalMeans ratSqrt (exEngine 1 2) exDims
      (exField 7 exStep) [exField 7 (zeros 22)] [exField 7 (zeros 22)] 0 false
      = Except.error Err.outOfBounds := by
  have hl : (exEngine 1 2).d_num_level = 2 := (exEngine_ghosts 1 (Or.inl rfl) 0).2.2
  refine ⟨?_, rfl, ?_, rfl, ?_⟩
  · rw [hl]
    decide
  · rw [hl]
    decide
  · unfold computeWaveletCoefficientsWithVariableLocalMeans
    have he : entryAssertions (exEngine 1 2) exDims (exField 7 exStep) [exField 7 (zeros 22)]
      [exField 7 (zeros 22)] = Except.ok () := rfl
    rw [he]
    unfold transformBody
    rw [hl]
    rfl

/-- C17 (as stated, false): for `k = 2` the width for `L = 30` is `2^31 - 1`, the
largest `int`, and the `int` accumulation for `L + 1 = 31` has no defined result,
so `G(30, 2) <= G(31, 2)` is not a fact of the stored values; and for `L = 30`
no `int` is larger than `G(30, 2) = 2^31 - 1`, so `G(30, 4) > G(30, 2)` fails:
the accumulation for `k = 4`, `L = 30` has no defined result. -/
theorem C17_order_fails_at_int_limit :
    numWaveletGhostsInt 1 1 30 = some (2 ^ 31 - 1) ∧
    numWaveletGhostsInt 1 1 (30 + 1) = none ∧
    numWaveletGhostsInt 2 2 30 = none ∧
    (∀ v : Int, toInt32 v = some v → ¬ (2 ^ 31 - 1 < v)) := by
  refine ⟨by decide, by decide, by decide, fun v hv => ?_⟩
  have h := (toInt32_some hv).2.2
  omega

/-- C17 (amended): for `L >= 2` and `k` in `{2, 4}`: when the width for `L + 1`
levels fits a 32-bit `int` (`L + 1 <= 30` for `k = 2`, `L + 1 <= 29` for
`k = 4`), the constructor succeeds for `L` and for `L + 1` levels, its `int`
accumulation yields the stored widths, and the width for `L` levels is at most
that for `L + 1` levels on every axis; and when `L <= 29`, the widths for
`k = 2` and `k = 4` both fit and the one for `k = 4` is strictly larger on every
axis. -/
theorem C17_ghost_width_order (dim : Nat) (L k : Int) (hL : 2 ≤ L) (hk : k = 2 ∨ k = 4) :
    (((k = 2 → L + 1 ≤ 30) ∧ (k = 4 → L + 1 ≤ 29)) →
      ∃ wt wt2, WaveletTransformHarten.new dim L k = Except.ok wt ∧
        WaveletTransformHarten.new dim (L + 1) k = Except.ok wt2 ∧
        (∀ d, numWaveletGhostsInt wt.d_p wt.d_q L = some (wt.d_num_wavelet_ghosts d)) ∧
        (∀ d, numWaveletGhostsInt wt2.d_p wt2.d_q (L + 1)
          = some (wt2.d_num_wavelet_ghosts d)) ∧
        ∀ d, wt.d_num_wavelet_ghosts d ≤ wt2.d_num_wavelet_ghosts d) ∧
    (L ≤ 29 →
      ∃ wa wb, WaveletTransformHarten.new dim L 2 = Except.ok wa ∧
        WaveletTransformHarten.new dim L 4 = Except.ok wb ∧
        (∀ d, numWaveletGhostsInt wa.d_p wa.d_q L = some (wa.d_num_wavelet_ghosts d)) ∧
        (∀ d, numWaveletGhostsInt wb.d_p wb.d_q L = some (wb.d_num_wavelet_ghosts d)) ∧
        ∀ d, wa.d_num_wavelet_ghosts d < wb.d_num_wavelet_ghosts d) := by
  have acc : ∀ {L2 k2 : Int} {w : WaveletTransformHarten}, 2 ≤ L2 → (k2 = 2 ∨ k2 = 4) →
      ((k2 = 2 → L2 ≤ 30) ∧ (k2 = 4 → L2 ≤ 29)) →
      WaveletTransformHarten.new dim L2 k2 = Except.ok w →
      ∀ d, numWaveletGhostsInt w.d_p w.d_q L2 = some (w.d_num_wavelet_ghosts d) := by
    intro L2 k2 w h2 hk2 hfit hw d
    obtain ⟨_, _, _, _, _, hp, hq, hG⟩ := new_ok hw
    have hh : (0 : Int) ≤ halfWidth k2 := by
      rcases hk2 with rfl | rfl <;> decide
    rw [hp, hq, hG d]
    exact numWaveletGhostsInt_fit (halfWidth k2) hh L2 (ghost_fits h2 hk2 hfit)
  constructor
  · intro hfit
    obtain ⟨wt, hwt⟩ := new_of_valid dim hL hk
    obtain ⟨wt2, hwt2⟩ := new_of_valid dim (show (2 : Int) ≤ L + 1 by omega) hk
    have hG := (new_ok hwt).2.2.2.2.2.2.2
    have hG2 := (new_ok hwt2).2.2.2.2.2.2.2
    refine ⟨wt, wt2, hwt, hwt2,
      acc hL hk ⟨fun h => by have := hfit.1 h; omega, fun h => by have := hfit.2 h; omega⟩ hwt,
      acc (by omega) hk hfit hwt2, fun d => ?_⟩
    rw [hG d, hG2 d]
    have e : (L + 1).toNat = L.toNat + 1 := by omega
    rw [e]
    have h2 : (2 : Int) ^ (L.toNat + 1 + 1) = 2 * 2 ^ (L.toNat + 1) := by ring
    have hpow : (1 : Int) ≤ 2 ^ (L.toNat + 1) := one_le_pow₀ (by norm_num)
    have hh : (0 : Int) ≤ halfWidth k := by
      rcases hk with rfl | rfl <;> decide
    exact mul_le_mul_of_nonneg_left (by omega) hh
  · intro h29
    obtain ⟨wa, hwa⟩ := new_of_valid dim hL (Or.inl rfl : (2 : Int) = 2 ∨ (2 : Int) = 4)
    obtain ⟨wb, hwb⟩ := new_of_valid dim hL (Or.inr rfl : (4 : Int) = 2 ∨ (4 : Int) = 4)
    have hGa := (new_ok hwa).2.2.2.2.2.2.2
    have hGb := (new_ok hwb).2.2.2.2.2.2.2
    refine ⟨wa, wb, hwa, hwb,
      acc hL (Or.inl rfl) ⟨fun _ => by omega, fun h => absurd h (by decide)⟩ hwa,
      acc hL (Or.inr rfl) ⟨fun h => absurd h (by decide), fun _ => h29⟩ hwb, fun d => ?_⟩
    rw [hGa d, hGb d]
    have h2 : halfWidth 2 = 1 := rfl
    have h4 : halfWidth 4 = 2 := rfl
    rw [h2, h4]
    have h3 : (2 : Int) ^ (L.toNat + 1) = 2 * 2 ^ L.toNat := by ring
    have h5 : (1 : Int) ≤ 2 ^ L.toNat := one_le_pow₀ (by norm_num)
    omega

theorem C17_ghost_width_order_witness :
    (2 : Int) ≤ 2 ∧ ((2 : Int) = 2 ∨ (2 : Int) = 4) ∧
    (((2 : Int) = 2 → (2 : Int) + 1 ≤ 30) ∧ ((2 : Int) = 4 → (2 : Int) + 1 ≤ 29)) ∧
    (2 : Int) ≤ 29 ∧
    (∃ wt wt2, WaveletTransformHarten.new 1 2 2 = Except.ok wt ∧
      WaveletTransformHarten.new 1 (2 + 1) 2 = Except.ok wt2 ∧
      (∀ d, numWaveletGhostsInt wt.d_p wt.d_q 2 = some (wt.d_num_wavelet_ghosts d)) ∧
      (∀ d, numWaveletGhostsInt wt2.d_p wt2.d_q (2 + 1)
        = some (wt2.d_num_wavelet_ghosts d)) ∧
      ∀ d, wt.d_num_wavelet_ghosts d ≤ wt2.d_num_wavelet_ghosts d) ∧
    (∃ wa wb, WaveletTransformHarten.new 1 2 2 = Except.ok wa ∧
      WaveletTransformHarten.new 1 2 4 = Except.ok wb ∧
      (∀ d, numWaveletGhostsInt wa.d_p wa.d_q 2 = some (wa.d_num_wavelet_ghosts d)) ∧
      (∀ d, numWaveletGhostsInt wb.d_p wb.d_q 2 = some (wb.d_num_wavelet_ghosts d)) ∧
      ∀ d, wa.d_num_wavelet_ghosts d < wb.d_num_wavelet_ghosts d) :=
  ⟨le_refl _, Or.inl rfl, by decide, by decide,
    (C17_ghost_width_order 1 2 2 (le_refl _) (Or.inl rfl)).1 (by decide),
    (C17_ghost_width_order 1 2 2 (le_refl _) (Or.inl rfl)).2 (by decide)⟩

/-- C19 (as stated, false): for `k = 2` and `L = 2` the required ghost width is 7,
not at most 6, and the call of the end-to-end example with 6 ghost cells on the
input, coefficient and local-mean fields is rejected by the entry assertions. -/
theorem C19_six_ghost_cells_rejected :
    (exEngine 1 2).d_num_wavelet_ghosts 0 = 7 ∧
    ¬ ((exEngine 1 2).d_num_wavelet_ghosts 0 ≤ 6) ∧
    entryAssertions (exEngine 1 2) exDims (exField 6 (zeros 20))
      [exField 6 (zeros 20), exField 6 (zeros 20)] [exField 6 (zeros 20), exField 6 (zeros 20)]
      = Except.error Err.assertionFailed := by
  have hG : (exEngine 1 2).d_num_wavelet_ghosts 0 = 7 :=
    (exEngine_ghosts 1 (Or.inl rfl) 0).1
  refine ⟨hG, ?_, rfl⟩
  rw [hG]
  decide

/-- C19 (amended): for the engine of the end-to-end example (1-D, `k = 2`,
`L = 2`) the required ghost width is 7, and every call that passes the entry
assertions has input and coefficient fields carrying at least 7 ghost cells. -/
theorem C19_example_needs_seven_ghost_cells (wt : WaveletTransformHarten) (N : IntVector)
    (cd : CellData) (wcs means : List CellData)
    (hwt : WaveletTransformHarten.new 1 2 2 = Except.ok wt)
    (h : entryAssertions wt N cd wcs means = Except.ok ()) :
    wt.d_num_wavelet_ghosts 0 = 7 ∧ 7 ≤ cd.ghosts 0 ∧
      ∀ c, c ∈ wcs → 7 ≤ c.ghosts 0 := by
  obtain ⟨_, _, hd, _, _, _, _, hG⟩ := new_ok hwt
  have hG0 : wt.d_num_wavelet_ghosts 0 = 7 := by
    rw [hG 0]
    rfl
  obtain ⟨_, wc0, _, h1, h2, h3, _⟩ := entryAssertions_ok h
  rw [hd] at h1 h2 h3
  have a1 := h1 0 (by omega)
  have a2 := h2 0 (by omega)
  refine ⟨hG0, by omega, fun c hc => ?_⟩
  have e := h3 c hc 0 (by omega)
  simp only [CellData.ghostBoxDims] at e
  omega

theorem C19_example_needs_seven_ghost_cells_witness :
    WaveletTransformHarten.new 1 2 2 = Except.ok (exEngine 1 2) ∧
    entryAssertions (exEngine 1 2) exDims (exField 7 exStep) (exCoefs 1 7) (exCoefs 1 7)
      = Except.ok () ∧
    (exEngine 1 2).d_num_wavelet_ghosts 0 = 7 ∧ 7 ≤ (exField 7 exStep).ghosts 0 ∧
      ∀ c, c ∈ exCoefs 1 7 → 7 ≤ c.ghosts 0 :=
  ⟨exEngine_ok 1 (Or.inl rfl), rfl,
    C19_example_needs_seven_ghost_cells (exEngine 1 2) exDims (exField 7 exStep) (exCoefs 1 7)
      (exCoefs 1 7) (exEngine_ok 1 (Or.inl rfl)) rfl⟩

/-! ## Worked examples -/

theorem Arr_ext {a b : Arr} (hl : a.length = b.length)
    (h : ∀ n : Nat, n < a.length → valAt a n = valAt b n) : a = b := by
  apply List.ext_getElem hl
  intro n h1 h2
  have := h n h1
  simpa [valAt, List.getD_eq_getElem?_getD, List.getElem?_eq_getElem h1,
    List.getElem?_eq_getElem h2] using this

theorem data_singleton {xs : List Arr} (h : xs.length = 1) : xs = [level xs 0] := by
  match xs, h with
  | [a], _ => rfl

/-- C20: for the 1-D field whose whole storage is the 7 samples `[0,0,0,1,0,0,0]`
`smoothCellData` returns the single component `[0, 0, 1/3, 1/3, 1/3, 0, 0]`. -/
theorem C20_smooth_spike :
    ∃ s, smoothCellData (exEngine 1 2) exDims7 exSpike 0 = some s ∧
      s.data = [[0, 0, 1 / 3, 1 / 3, 1 / 3, 0, 0]] := by
  have hd : (exEngine 1 2).d_dim = 1 := (exEngine_ghosts 1 (Or.inl rfl) 0).2.1
  obtain ⟨s, hs, _, hl, hF⟩ := smoothCellData_spec (exEngine 1 2) exDims7 exSpike 0
    [0, 0, 0, 1, 0, 0, 0] (Or.inl hd) rfl (by rw [hd, boxSize_one]; rfl)
  refine ⟨s, hs, ?_⟩
  rw [hd] at hl hF
  have hF0 := hF 0 (by omega)
  have hlen : (level s.data 0).length = 7 := by
    have h1 := hF0.1
    have h2 : (zeros (boxSize 1 (fun d => exDims7 d + 2 * exSpike.ghosts d))).length = 7 := by
      rw [boxSize_one]
      rfl
    rw [h1, h2]
  rw [data_singleton hl]
  congr 1
  apply Arr_ext
  · rw [hlen]
    rfl
  · intro n hn
    rw [hlen] at hn
    have hv := hF0.2.1 (fun _ => (n : Int)) (fun d _ => by
      simp only [exSpike, exField, exDims7]
      omega)
    simp only [linIdx_one, lin1, exSpike, exField, add_zero] at hv
    rw [hv]
    interval_cases n <;>
      simp [smoothVal, valAt, moveTo, exDims7]

/-! ## Stencils on constant and linear samples -/

theorem stencil_const {k : Int} (hk : k = 2 ∨ k = 4) (src : Int → ℚ) (s i : Int) (c : ℚ)
    (h : ∀ m : Int, -halfWidth k ≤ m → m ≤ halfWidth k → src (i + m * s) = c) :
    lowVal k src s i = c ∧ highVal k src s i = 0 ∧
      sumVal k src s i = (if k = 2 then 4 else 16) * c := by
  rcases hk with rfl | rfl
  · have e1 : src (i - s) = c := by
      have := h (-1) (by decide) (by decide)
      rwa [show i + -1 * s = i - s by ring] at this
    have e2 : src i = c := by
      have := h 0 (by decide) (by decide)
      rwa [show i + 0 * s = i by ring] at this
    have e3 : src (i + s) = c := by
      have := h 1 (by decide) (by decide)
      rwa [show i + 1 * s = i + s by ring] at this
    simp only [lowVal, highVal, sumVal, if_true, e1, e2, e3]
    refine ⟨by ring, by ring, by ring⟩
  · have h42 : ¬ ((4 : Int) = 2) := by decide
    have e0 : src (i - 2 * s) = c := by
      have := h (-2) (by decide) (by decide)
      rwa [show i + -2 * s = i - 2 * s by ring] at this
    have e1 : src (i - s) = c := by
      have := h (-1) (by decide) (by decide)
      rwa [show i + -1 * s = i - s by ring] at this
    have e2 : src i = c := by
      have := h 0 (by decide) (by decide)
      rwa [show i + 0 * s = i by ring] at this
    have e3 : src (i + s) = c := by
      have := h 1 (by decide) (by decide)
      rwa [show i + 1 * s = i + s by ring] at this
    have e4 : src (i + 2 * s) = c := by
      have := h 2 (by decide) (by decide)
      rwa [show i + 2 * s = i + 2 * s by ring] at this
    simp only [lowVal, highVal, sumVal, h42, if_false, e0, e1, e2, e3, e4]
    refine ⟨by ring, by ring, by ring⟩

theorem highVal_ramp {k : Int} (hk : k = 2 ∨ k = 4) (src : Int → ℚ) (i : Int) (a b : ℚ)
    (h : ∀ m : Int, -halfWidth k ≤ m → m ≤ halfWidth k →
      src (i + m) = a * ((i + m : Int) : ℚ) + b) :
    highVal k src 1 i = 0 := by
  rcases hk with rfl | rfl
  · have e1 := h (-1) (by decide) (by decide)
    have e2 := h 0 (by decide) (by decide)
    have e3 := h 1 (by decide) (by decide)
    rw [show i + -1 = i - 1 by ring] at e1
    rw [show i + 0 = i by ring] at e2
    simp only [highVal, if_true, mul_one, e1, e2, e3]
    push_cast
    ring
  · have h42 : ¬ ((4 : Int) = 2) := by decide
    have e0 := h (-2) (by decide) (by decide)
    have e1 := h (-1) (by decide) (by decide)
    have e2 := h 0 (by decide) (by decide)
    have e3 := h 1 (by decide) (by decide)
    have e4 := h 2 (by decide) (by decide)
    rw [show i + -2 = i - 2 by ring] at e0
    rw [show i + -1 = i - 1 by ring] at e1
    rw [show i + 0 = i by ring] at e2
    simp only [highVal, h42, if_false, mul_one, e0, e1, e2, e3, e4]
    push_cast
    ring

/-! ## Cells of the ghost box and their linear indices -/

theorem linIdx_bounds {dim : Nat} (hdim : dim = 1 ∨ dim = 2 ∨ dim = 3) {N g : IntVector}
    {x : IntVector} (hx : InBox dim (fun d => -g d) (fun d => N d + g d) x) :
    0 ≤ linIdx dim g (fun d => N d + 2 * g d) x ∧
      linIdx dim g (fun d => N d + 2 * g d) x < boxSize dim (fun d => N d + 2 * g d) := by
  rcases hdim with rfl | rfl | rfl
  · have h0 := hx 0 (by omega)
    dsimp only at h0
    rw [linIdx_one, boxSize_one]
    unfold lin1
    constructor <;> omega
  · have h0 := hx 0 (by omega)
    have h1 := hx 1 (by omega)
    dsimp only at h0 h1
    rw [linIdx_two, boxSize_two]
    exact lin2_bounds (by constructor <;> omega) (by constructor <;> omega)
  · have h0 := hx 0 (by omega)
    have h1 := hx 1 (by omega)
    have h2 := hx 2 (by omega)
    dsimp only at h0 h1 h2
    rw [linIdx_three, boxSize_three]
    exact lin3_bounds (by constructor <;> omega) (by constructor <;> omega)
      (by constructor <;> omega)

theorem linIdx_inj {dim : Nat} (hdim : dim = 1 ∨ dim = 2 ∨ dim = 3) {N g : IntVector}
    {x y : IntVector} (hx : InBox dim (fun d => -g d) (fun d => N d + g d) x)
    (hy : InBox dim (fun d => -g d) (fun d => N d + g d) y)
    (h : linIdx dim g (fun d => N d + 2 * g d) x = linIdx dim g (fun d => N d + 2 * g d) y) :
    ∀ d, d < dim → x d = y d := by
  rcases hdim with rfl | rfl | rfl
  · rw [linIdx_one, linIdx_one] at h
    unfold lin1 at h
    intro d hd
    have : d = 0 := by omega
    subst this
    omega
  · have h0 := hx 0 (by omega)
    have k0 := hy 0 (by omega)
    dsimp only at h0 k0
    rw [linIdx_two, linIdx_two] at h
    obtain ⟨e0, e1⟩ := @lin2_inj g (fun d => N d + 2 * g d) (x 0) (x 1) (y 0) (y 1)
      (by dsimp only; omega) (by dsimp only; omega) h
    intro d hd
    have : d = 0 ∨ d = 1 := by omega
    rcases this with rfl | rfl
    · exact e0
    · exact e1
  · have h0 := hx 0 (by omega)
    have k0 := hy 0 (by omega)
    have h1 := hx 1 (by omega)
    have k1 := hy 1 (by omega)
    dsimp only at h0 k0 h1 k1
    rw [linIdx_three, linIdx_three] at h
    obtain ⟨e0, e1, e2⟩ := @lin3_inj g (fun d => N d + 2 * g d) (x 0) (x 1) (x 2) (y 0) (y 1)
      (y 2) (by dsimp only; omega) (by dsimp only; omega) (by dsimp only; omega)
      (by dsimp only; omega) h
    intro d hd
    have : d = 0 ∨ d = 1 ∨ d = 2 := by omega
    rcases this with rfl | rfl | rfl
    · exact e0
    · exact e1
    · exact e2

theorem InBox_of_eq {dim : Nat} {lo hi : IntVector} {x y : IntVector}
    (h : ∀ d, d < dim → x d = y d) (hy : InBox dim lo hi y) : InBox dim lo hi x := by
  intro d hd
  rw [h d hd]
  exact hy d hd

theorem InBox_mono {dim : Nat} {lo hi lo2 hi2 : IntVector}
    (h : ∀ d, d < dim → lo2 d ≤ lo d ∧ hi d ≤ hi2 d) {x : IntVector}
    (hx : InBox dim lo hi x) : InBox dim lo2 hi2 x := by
  intro d hd
  have h1 := hx d hd
  have h2 := h d hd
  constructor <;> omega

theorem InBox_moveTo {dim : Nat} {lo hi : IntVector} {x : IntVector} {a : Nat} {t : Int}
    (hx : InBox dim lo hi x) (ht : lo a ≤ t ∧ t < hi a) : InBox dim lo hi (moveTo x a t) := by
  intro d hd
  unfold moveTo
  by_cases e : d = a
  · rw [if_pos e, e]
    exact ht
  · rw [if_neg e]
    exact hx d hd

/-- A value outside the window of a `Filled` buffer on the ghost box is the value
before the pass. -/
theorem Filled.outside {dim : Nat} (hdim : dim = 1 ∨ dim = 2 ∨ dim = 3) {N g lo hi : IntVector}
    {v : IntVector → ℚ} {a b : Arr}
    (h : Filled (InBox dim lo hi) (linIdx dim g (fun d => N d + 2 * g d)) v a b)
    (hsub : ∀ d, d < dim → -g d ≤ lo d ∧ hi d ≤ N d + g d)
    {x : IntVector} (hx : InBox dim (fun d => -g d) (fun d => N d + g d) x)
    (hout : ¬ InBox dim lo hi x) :
    valAt b (linIdx dim g (fun d => N d + 2 * g d) x)
      = valAt a (linIdx dim g (fun d => N d + 2 * g d) x) := by
  apply h.2.2
  intro c hc e
  exact hout (InBox_of_eq (fun d hd => (linIdx_inj hdim (InBox_mono hsub hc) hx e d hd).symm) hc)

/-! ## Smoothing of a field that is constant along the smoothed axis -/

theorem smoothVal_const (f : Arr) (lo hi : Int) (idxOf : Int → Int) (c0 : Int) (c : ℚ)
    (hc0 : lo ≤ c0 ∧ c0 < hi)
    (h : ∀ ii, lo ≤ ii → ii < hi → valAt f (idxOf ii) = c) :
    smoothVal f lo hi idxOf c0 = c := by
  unfold smoothVal
  have hmem : c0 ∈ [c0 - 1, c0, c0 + 1].filter (fun ii => decide (lo ≤ ii ∧ ii < hi)) :=
    List.mem_filter.2 ⟨by simp, by simpa using hc0⟩
  have hpos : 0 < ([c0 - 1, c0, c0 + 1].filter (fun ii => decide (lo ≤ ii ∧ ii < hi))).length :=
    List.length_pos_of_mem hmem
  have hsum : ∀ l : List Int, (∀ ii, ii ∈ l → valAt f (idxOf ii) = c) →
      (l.map (fun ii => valAt f (idxOf ii))).sum = (l.length : ℚ) * c := by
    intro l
    induction l with
    | nil => intro _; simp
    | cons a t ih =>
      intro hl
      rw [List.map_cons, List.sum_cons, ih (fun ii hii => hl ii (List.mem_cons_of_mem _ hii)),
        hl a (List.mem_cons_self _ _), List.length_cons]
      push_cast
      ring
  dsimp only
  rw [hsum _ (fun ii hii => by
    have := (List.mem_filter.1 hii).2
    simp only [decide_eq_true_eq] at this
    exact h ii this.1 this.2)]
  have hne : ((([c0 - 1, c0, c0 + 1].filter (fun ii => decide (lo ≤ ii ∧ ii < hi))).length : Nat)
      : ℚ) ≠ 0 := by
    exact_mod_cast Nat.pos_iff_ne_zero.1 hpos
  exact mul_div_cancel_left₀ c hne

/-- The input buffer selected for axis `a`, with or without smoothing, of a field
that does not vary along axis `a` holds the values of the field. -/
theorem inputOf_invariant {wt : WaveletTransformHarten} {N : IntVector} {cd : CellData}
    {wcs means : List CellData} {depth : Nat} (hpre : Pre wt N cd wcs means depth)
    (smooth : Bool) {a : Nat} (ha : a < wt.d_dim) (f0 : Arr)
    (hf0 : cd.getPointer depth = some f0) (h : IntVector → ℚ)
    (hinv : ∀ x, InBox wt.d_dim (fun d => -cd.ghosts d) (fun d => N d + cd.ghosts d) x →
      ∀ t, -cd.ghosts a ≤ t → t < N a + cd.ghosts a →
        valAt f0 (linIdx wt.d_dim cd.ghosts (fun d => N d + 2 * cd.ghosts d) (moveTo x a t))
          = h x) :
    ∃ f, inputOf wt N cd depth smooth a = some f ∧
      ((f.length : Nat) : Int) = boxSize wt.d_dim (fun d => N d + 2 * cd.ghosts d) ∧
      ∀ x, InBox wt.d_dim (fun d => -cd.ghosts d) (fun d => N d + cd.ghosts d) x →
        valAt f (linIdx wt.d_dim cd.ghosts (fun d => N d + 2 * cd.ghosts d) x) = h x := by
  obtain ⟨f1, hf1, hlf1⟩ := hpre.input
  have e01 : f1 = f0 := by
    rw [hf0] at hf1
    exact (Option.some.inj hf1).symm
  subst e01
  have hself : ∀ x : IntVector, moveTo x a (x a) = x := by
    intro x
    funext d
    unfold moveTo
    by_cases e : d = a
    · rw [if_pos e, e]
    · rw [if_neg e]
  cases smooth with
  | false =>
    refine ⟨f1, by simp [inputOf, selectInput, hf0], hlf1, fun x hx => ?_⟩
    have := hinv x hx (x a) (hx a ha).1 (hx a ha).2
    rwa [hself] at this
  | true =>
    obtain ⟨s, hs, _, hlen, hF⟩ := smoothCellData_spec wt N cd depth f1 hpre.dim hf0 hlf1
    have hnn : 0 ≤ boxSize wt.d_dim (fun d => N d + 2 * cd.ghosts d) := by
      have e : boxSize wt.d_dim (fun d => N d + 2 * cd.ghosts d) = (f1.length : Int) :=
        hlf1.symm
      rw [e]
      exact Int.natCast_nonneg _
    have hFa := hF a ha
    have hget : s.getPointer a = some (level s.data a) := by
      unfold CellData.getPointer
      exact getElem?_level (by rw [hlen]; exact ha)
    refine ⟨level s.data a, by simp [inputOf, selectInput, hs, hget], ?_, fun x hx => ?_⟩
    · rw [hFa.1]
      exact zeros_length hnn
    · rw [hFa.2.1 x hx]
      exact smoothVal_const f1 _ _ _ (x a) (h x) (hx a ha) (fun ii h1 h2 => hinv x hx ii h1 h2)

/-! ## The cascade along one line on constant samples -/

/-- Cascade along one line: `F li` are the scaling values of level `li`, `src li`
the level input (`src 0` the samples of the input, `src li` the scaling values of
level `li - 1`).  If the input is `c` on `[-G, N + G)`, then on the cells
`[-G + p*(2^(li+1) - 1), N + G - p*(2^(li+1) - 1))` of level `li`, whose
dependencies all lie in computed windows, every sample the stencil reads is `c`
and the scaling value is `c`. -/
theorem cascade_const {k : Int} (hk : k = 2 ∨ k = 4) {p G M : Int} {L : Nat}
    (hp : p = halfWidth k) (F src : Nat → Int → ℚ) (c : ℚ)
    (hF : ∀ li, li < L → ∀ i, -G + p * 2 ^ li ≤ i → i < M + G - p * 2 ^ li →
      F li i = lowVal k (src li) (2 ^ li) i)
    (h0 : ∀ j, -G ≤ j → j < M + G → src 0 j = c)
    (hS : ∀ li, 1 ≤ li → ∀ j, src li j = F (li - 1) j) :
    ∀ li, li < L →
      (∀ i, -G + p * (2 ^ (li + 1) - 1) ≤ i → i < M + G - p * (2 ^ (li + 1) - 1) →
        ∀ m : Int, -p ≤ m → m ≤ p → src li (i + m * 2 ^ li) = c) ∧
      (∀ i, -G + p * (2 ^ (li + 1) - 1) ≤ i → i < M + G - p * (2 ^ (li + 1) - 1) →
        F li i = c) := by
  have hp12 : p = 1 ∨ p = 2 := by
    rcases hk with rfl | rfl
    · exact Or.inl hp
    · exact Or.inr hp
  have part2 : ∀ li, li < L →
      (∀ i, -G + p * (2 ^ (li + 1) - 1) ≤ i → i < M + G - p * (2 ^ (li + 1) - 1) →
        ∀ m : Int, -p ≤ m → m ≤ p → src li (i + m * 2 ^ li) = c) →
      (∀ i, -G + p * (2 ^ (li + 1) - 1) ≤ i → i < M + G - p * (2 ^ (li + 1) - 1) →
        F li i = c) := by
    intro li hli h1 i hi1 hi2
    have e1 : (2 : Int) ^ (li + 1) = 2 * 2 ^ li := by ring
    have e2 : (1 : Int) ≤ 2 ^ li := one_le_pow₀ (by norm_num)
    have hwin : -G + p * 2 ^ li ≤ i ∧ i < M + G - p * 2 ^ li := by
      rcases hp12 with rfl | rfl <;> constructor <;> omega
    rw [hF li hli i hwin.1 hwin.2]
    exact (stencil_const hk (src li) (2 ^ li) i c (fun m hm1 hm2 =>
      h1 i hi1 hi2 m (by rw [hp]; exact hm1) (by rw [hp]; exact hm2))).1
  intro li
  induction li with
  | zero =>
    intro hli
    have h1 : ∀ i, -G + p * (2 ^ (0 + 1) - 1) ≤ i → i < M + G - p * (2 ^ (0 + 1) - 1) →
        ∀ m : Int, -p ≤ m → m ≤ p → src 0 (i + m * 2 ^ 0) = c := by
      intro i hi1 hi2 m hm1 hm2
      simp only [pow_zero, mul_one]
      have e : (2 : Int) ^ (0 + 1) = 2 := by norm_num
      rw [e] at hi1 hi2
      apply h0
      · rcases hp12 with rfl | rfl <;> omega
      · rcases hp12 with rfl | rfl <;> omega
    exact ⟨h1, part2 0 hli h1⟩
  | succ n ih =>
    intro hli
    obtain ⟨_, ih2⟩ := ih (by omega)
    have h1 : ∀ i, -G + p * (2 ^ (n + 1 + 1) - 1) ≤ i →
        i < M + G - p * (2 ^ (n + 1 + 1) - 1) →
        ∀ m : Int, -p ≤ m → m ≤ p → src (n + 1) (i + m * 2 ^ (n + 1)) = c := by
      intro i hi1 hi2 m hm1 hm2
      rw [hS (n + 1) (by omega)]
      have e1 : (2 : Int) ^ (n + 1 + 1) = 2 * 2 ^ (n + 1) := by ring
      have e2 : (1 : Int) ≤ 2 ^ (n + 1) := one_le_pow₀ (by norm_num)
      apply ih2
      · rcases hp12 with rfl | rfl <;> interval_cases m <;> omega
      · rcases hp12 with rfl | rfl <;> interval_cases m <;> omega
    exact ⟨h1, part2 (n + 1) hli h1⟩

/-! ## Constant fields in 1-D -/

theorem valid_le_ghost {p : Int} (hp : 0 ≤ p) {li L : Nat} (h : li < L) :
    p * (2 ^ (li + 1) - 1) ≤ p * (2 ^ (L + 1) - 1) := by
  have h1 : (2 : Int) ^ (li + 1) ≤ 2 ^ (L + 1) := pow_le_pow_right₀ (by norm_num) (by omega)
  exact mul_le_mul_of_nonneg_left (by omega) hp

/-- Cells of a constant field, by linear index: every cell of the ghost box holds
the constant. -/
theorem const_cells {wt : WaveletTransformHarten} {N : IntVector} {cd : CellData}
    {wcs means : List CellData} {depth : Nat} (hpre : Pre wt N cd wcs means depth)
    (f0 : Arr) (hf0 : cd.getPointer depth = some f0) (c : ℚ)
    (hc : ∀ n : Int, 0 ≤ n → n < f0.length → valAt f0 n = c)
    {x : IntVector}
    (hx : InBox wt.d_dim (fun d => -cd.ghosts d) (fun d => N d + cd.ghosts d) x) :
    valAt f0 (linIdx wt.d_dim cd.ghosts (fun d => N d + 2 * cd.ghosts d) x) = c := by
  obtain ⟨f1, hf1, hlf1⟩ := hpre.input
  have e01 : f1 = f0 := by
    rw [hf0] at hf1
    exact (Option.some.inj hf1).symm
  subst e01
  have hb := linIdx_bounds hpre.dim hx
  exact hc _ hb.1 (by rw [hlf1]; exact hb.2)

/-- The 1-D transform of a constant field: on the cells of level `li` whose
dependencies all lie in computed windows the scaling value is the constant and
the wavelet coefficient is 0, and the local mean of an interior cell is the
factor of the order times the sum of the weights times the constant. -/
theorem const_field_1D (sqrt : ℚ → ℚ) {wt : WaveletTransformHarten} {N : IntVector}
    {cd : CellData} {wcs means : List CellData} {depth : Nat} (smooth : Bool)
    {L k : Int} (hwt : WaveletTransformHarten.new 1 L k = Except.ok wt)
    (hpre : Pre wt N cd wcs means depth) (f0 : Arr) (hf0 : cd.getPointer depth = some f0)
    (c : ℚ) (hc : ∀ n : Int, 0 ≤ n → n < f0.length → valAt f0 n = c) :
    ∃ st f, transformBody sqrt wt N cd wcs means depth smooth = Except.ok st ∧
      inputOf wt N cd depth smooth 0 = some f ∧
      Inv1D wt N cd.ghosts (coefGhosts wcs) f (w0Of wcs wt.d_num_level)
        (m0Of means wt.d_num_level) (!means.isEmpty) wt.d_num_level st ∧
      (∀ j, -cd.ghosts 0 ≤ j → j < N 0 + cd.ghosts 0 → valAt f (j + cd.ghosts 0) = c) ∧
      ∀ li, li < wt.d_num_level →
        (∀ i, -wt.d_num_wavelet_ghosts 0 + wt.d_p * (2 ^ (li + 1) - 1) ≤ i →
          i < N 0 + wt.d_num_wavelet_ghosts 0 - wt.d_p * (2 ^ (li + 1) - 1) →
          valAt (level st.f_x li) (i + coefGhosts wcs 0) = c ∧
          valAt (level st.w li) (i + coefGhosts wcs 0) = 0) ∧
        ((!means.isEmpty) = true → ∀ i, 0 ≤ i → i < N 0 →
          valAt (level st.f_mean li) (i + coefGhosts wcs 0)
            = meanCoef k * ((if k = 2 then 4 else 16) * c)) := by
  obtain ⟨hk, _, hd, _, hdk, hp, _, _⟩ := new_ok hwt
  obtain ⟨hp1, _, _, hGeq, _⟩ := ghost_nonneg hwt 0
  obtain ⟨st, f, hst, hin, hlf, hinv⟩ := transformBody_1D sqrt smooth hwt hd hpre
  have hG := hpre.ghosts_coef 0 (by omega)
  have hg := hpre.ghosts_cell 0 (by omega)
  obtain ⟨f2, hin2, _, hval⟩ := inputOf_invariant hpre smooth (show 0 < wt.d_dim by omega) f0 hf0
    (fun _ => c) (fun x hx t ht1 ht2 =>
      const_cells hpre f0 hf0 c hc (InBox_moveTo hx ⟨ht1, ht2⟩))
  have e2 : f2 = f := by
    rw [hin] at hin2
    exact (Option.some.inj hin2).symm
  subst e2
  have hfc : ∀ j, -cd.ghosts 0 ≤ j → j < N 0 + cd.ghosts 0 →
      valAt f2 (j + cd.ghosts 0) = c := by
    intro j hj1 hj2
    have := hval (fun _ => j) (fun d _ => by
      rw [hd] at *
      have : d = 0 := by omega
      subst this
      exact ⟨hj1, hj2⟩)
    rw [hd, linIdx_one] at this
    exact this
  have hkk : wt.d_k = 2 ∨ wt.d_k = 4 := by rw [hdk]; exact hk
  have hcas := cascade_const hkk (p := wt.d_p) (G := wt.d_num_wavelet_ghosts 0) (M := N 0)
    (L := wt.d_num_level) (by rw [hp, hdk])
    (fun li i => valAt (level st.f_x li) (i + coefGhosts wcs 0))
    (fun li j => lowIn1D cd.ghosts (coefGhosts wcs) f2 st.f_x li j) c
    (fun li hli i h1 h2 => (hinv.2.2.2.2.1 li hli).1.2.1 i ⟨h1, h2⟩)
    (fun j h1 h2 => by
      dsimp only
      rw [lowIn1D_zero]
      exact hfc j (by omega) (by omega))
    (fun li hli j => by
      dsimp only
      rw [lowIn1D_succ _ _ _ _ hli])
  refine ⟨st, f2, hst, hin, hinv, hfc, fun li hli => ?_⟩
  obtain ⟨hsrc, hF⟩ := hcas li hli
  have e1 : (2 : Int) ^ (li + 1) = 2 * 2 ^ li := by ring
  have e2 : (1 : Int) ≤ 2 ^ li := one_le_pow₀ (by norm_num)
  have hmul : wt.d_p * (2 ^ (li + 1) - 1) = 2 * (wt.d_p * 2 ^ li) - wt.d_p := by
    rw [e1]
    ring
  have hpos : wt.d_p ≤ wt.d_p * 2 ^ li := le_mul_of_one_le_right (by omega) e2
  have hhw : halfWidth wt.d_k = wt.d_p := by rw [hp, hdk]
  refine ⟨fun i hi1 hi2 => ⟨hF i hi1 hi2, ?_⟩, fun hcomp i hi1 hi2 => ?_⟩
  · have hwin : -wt.d_num_wavelet_ghosts 0 + wt.d_p * 2 ^ li ≤ i ∧
        i < N 0 + wt.d_num_wavelet_ghosts 0 - wt.d_p * 2 ^ li := by
      constructor <;> omega
    have hz := (stencil_const hkk (lowIn1D cd.ghosts (coefGhosts wcs) f2 st.f_x li)
      (2 ^ li) i c (fun m hm1 hm2 =>
        hsrc i hi1 hi2 m (by rw [← hhw]; exact hm1) (by rw [← hhw]; exact hm2))).2.1
    rw [(hinv.2.2.2.2.1 li hli).2.1.2.1 i hwin]
    dsimp only
    rw [hz, abs_zero]
  · have hv := valid_le_ghost (p := wt.d_p) (by omega) hli
    rw [← hGeq] at hv
    have hz := (stencil_const hkk (lowIn1D cd.ghosts (coefGhosts wcs) f2 st.f_x li)
      (2 ^ li) i c (fun m hm1 hm2 =>
        hsrc i (by omega) (by omega) m (by rw [← hhw]; exact hm1)
          (by rw [← hhw]; exact hm2))).2.2
    rw [((hinv.2.2.2.2.1 li hli).2.2 hcomp).2.1 i ⟨hi1, hi2⟩]
    dsimp only
    rw [hz, hdk]

/-! ## Claims on constant and linear fields in 1-D -/

theorem exEngine_one_two :
    (exEngine 1 2).d_p = 1 ∧ (exEngine 1 2).d_k = 2 ∧ (exEngine 1 2).d_num_level = 2 ∧
      (exEngine 1 2).d_num_wavelet_ghosts 0 = 7 ∧ (exEngine 1 2).d_dim = 1 := by
  obtain ⟨_, _, hd, hl, hk, hp, _, hG⟩ := new_ok (exEngine_ok 1 (Or.inl rfl : (2 : Int) = 2 ∨ _))
  refine ⟨by rw [hp]; rfl, hk, by rw [hl]; rfl, by rw [hG 0]; rfl, hd⟩

theorem exOnes_const (n : Int) (_h0 : 0 ≤ n) (_h1 : n < exOnes.length) : valAt exOnes n = 1 := by
  have hlt : n.toNat < 22 := by
    have : (exOnes.length : Int) = 22 := rfl
    omega
  unfold valAt
  rw [if_pos _h0]
  show (List.replicate 22 (1 : ℚ)).getD n.toNat 0 = 1
  rw [List.getD_eq_getElem?_getD, List.getElem?_replicate, if_pos hlt]
  rfl

/-- C14: in 1-D, for `k = 2` and `k = 4` and all `a`, `b`, if the field the cascade
reads is the linear ramp `f[i] = a*i + b` at every allocated cell, then the call
completes and the level-0 wavelet coefficient is 0 at every cell of the level-0
window `[-G + p, N + G - p)`. -/
theorem C14_ramp_level0_1D (sqrt : ℚ → ℚ) (wt : WaveletTransformHarten) (N : IntVector)
    (cd : CellData) (wcs means : List CellData) (depth : Nat) (smooth : Bool) (L k : Int)
    (hwt : WaveletTransformHarten.new 1 L k = Except.ok wt)
    (hpre : Pre wt N cd wcs means depth) (f : Arr)
    (hin : inputOf wt N cd depth smooth 0 = some f) (a b : ℚ)
    (hramp : ∀ i : Int, -cd.ghosts 0 ≤ i → i < N 0 + cd.ghosts 0 →
      valAt f (i + cd.ghosts 0) = a * (i : ℚ) + b) :
    ∃ st, transformBody sqrt wt N cd wcs means depth smooth = Except.ok st ∧
      ∀ i : Int, -wt.d_num_wavelet_ghosts 0 + wt.d_p ≤ i →
        i < N 0 + wt.d_num_wavelet_ghosts 0 - wt.d_p →
        valAt (level st.w 0) (i + coefGhosts wcs 0) = 0 := by
  obtain ⟨hk, _, hd, _, hdk, hp, _, _⟩ := new_ok hwt
  obtain ⟨hp1, _, _, _, hL⟩ := ghost_nonneg hwt 0
  obtain ⟨st, f2, hst, hin2, _, hinv⟩ := transformBody_1D sqrt smooth hwt hd hpre
  have e2 : f2 = f := by
    rw [hin] at hin2
    exact (Option.some.inj hin2).symm
  subst e2
  have hG := hpre.ghosts_coef 0 (by omega)
  have hg := hpre.ghosts_cell 0 (by omega)
  have hkk : wt.d_k = 2 ∨ wt.d_k = 4 := by rw [hdk]; exact hk
  have hhw : halfWidth wt.d_k = wt.d_p := by rw [hp, hdk]
  refine ⟨st, hst, fun i h1 h2 => ?_⟩
  have hW := (hinv.2.2.2.2.1 0 (by omega)).2.1.2.1 i
    (by simp only [pow_zero, mul_one]; exact ⟨h1, h2⟩)
  have hz := highVal_ramp hkk (lowIn1D cd.ghosts (coefGhosts wcs) f2 st.f_x 0) i a b
    (fun m hm1 hm2 => by
      rw [lowIn1D_zero]
      rw [hhw] at hm1 hm2
      exact hramp (i + m) (by omega) (by omega))
  rw [hW]
  dsimp only
  rw [pow_zero, hz, abs_zero]

theorem C14_ramp_level0_1D_witness :
    WaveletTransformHarten.new 1 2 2 = Except.ok (exEngine 1 2) ∧
    Pre (exEngine 1 2) exDims (exField 7 exRamp) (exCoefs 1 7) [] 0 ∧
    inputOf (exEngine 1 2) exDims (exField 7 exRamp) 0 false 0 = some exRamp ∧
    (∀ i : Int, -(exField 7 exRamp).ghosts 0 ≤ i → i < exDims 0 + (exField 7 exRamp).ghosts 0 →
      valAt exRamp (i + (exField 7 exRamp).ghosts 0) = 1 * (i : ℚ) + 0) ∧
    ∃ st, transformBody ratSqrt (exEngine 1 2) exDims (exField 7 exRamp) (exCoefs 1 7) [] 0 false
        = Except.ok st ∧
      ∀ i : Int, -(exEngine 1 2).d_num_wavelet_ghosts 0 + (exEngine 1 2).d_p ≤ i →
        i < exDims 0 + (exEngine 1 2).d_num_wavelet_ghosts 0 - (exEngine 1 2).d_p →
        valAt (level st.w 0) (i + coefGhosts (exCoefs 1 7) 0) = 0 :=
  have hr : ∀ i : Int, -(exField 7 exRamp).ghosts 0 ≤ i →
      i < exDims 0 + (exField 7 exRamp).ghosts 0 →
      valAt exRamp (i + (exField 7 exRamp).ghosts 0) = 1 * (i : ℚ) + 0 := by
    intro i h1 h2
    have hg : (exField 7 exRamp).ghosts 0 = 7 := rfl
    have hN : exDims 0 = 8 := rfl
    rw [hg] at h1 h2 ⊢
    rw [hN] at h2
    have hlt : (i + 7).toNat < 22 := by omega
    unfold valAt exRamp
    rw [if_pos (by omega), List.getD_eq_getElem?_getD, List.getElem?_map,
      List.getElem?_range hlt]
    have hc : (((i + 7).toNat : Nat) : ℚ) = (i : ℚ) + 7 := by
      have : (((i + 7).toNat : Nat) : Int) = i + 7 := Int.toNat_of_nonneg (by omega)
      exact_mod_cast this
    simp [hc]
  ⟨exEngine_ok 1 (Or.inl rfl),
    exPre 1 (Or.inl rfl) (Or.inl rfl) 7 (by decide) exRamp (by decide) false, rfl, hr,
    C14_ramp_level0_1D ratSqrt _ _ _ _ _ 0 false 2 2 (exEngine_ok 1 (Or.inl rfl))
      (exPre 1 (Or.inl rfl) (Or.inl rfl) 7 (by decide) exRamp (by decide) false)
      exRamp rfl 1 0 hr⟩

/-! ## The end-to-end example -/

theorem exStep_vals (i : Int) (h1 : -(exField 7 exStep).ghosts 0 ≤ i)
    (h2 : i < exDims 0 + (exField 7 exStep).ghosts 0) :
    valAt exStep (i + (exField 7 exStep).ghosts 0) = exStepVal i := by
  have hg : (exField 7 exStep).ghosts 0 = 7 := rfl
  have hN : exDims 0 = 8 := rfl
  rw [hg] at h1 h2 ⊢
  rw [hN] at h2
  interval_cases i <;> simp [exStep, exStepVal, valAt]

/-- C18: for the 1-D engine with `k = 2`, `L = 2`, 8 interior cells and an input
holding `f = [0,0,0,1,1,0,0,0]` on the interior and 0 on every ghost cell (input
and coefficient fields meeting the entry conditions, so with ghost width at
least `G = 7`), the call completes; the level-0 wavelet coefficients and the
level-0 scaling coefficients on the interior are `[0, 0, 1/2, 1/2, 1/2, 1/2, 0, 0]`
and the level-1 wavelet coefficients are `1/4` at each of the 8 interior cells. -/
theorem C18_step_example (sqrt : ℚ → ℚ) (wt : WaveletTransformHarten) (N : IntVector)
    (cd : CellData) (wcs means : List CellData) (depth : Nat) (smooth : Bool) (f : Arr)
    (hwt : WaveletTransformHarten.new 1 2 2 = Except.ok wt)
    (hpre : Pre wt N cd wcs means depth) (hN : N 0 = 8)
    (hin : inputOf wt N cd depth smooth 0 = some f)
    (hf : ∀ i : Int, -cd.ghosts 0 ≤ i → i < N 0 + cd.ghosts 0 →
      valAt f (i + cd.ghosts 0) = exStepVal i) :
    ∃ st, transformBody sqrt wt N cd wcs means depth smooth = Except.ok st ∧
      (List.range 8).map (fun (n : Nat) => valAt (level st.w 0) ((n : Int) + coefGhosts wcs 0))
        = [0, 0, 1 / 2, 1 / 2, 1 / 2, 1 / 2, 0, 0] ∧
      (List.range 8).map (fun (n : Nat) => valAt (level st.f_x 0) ((n : Int) + coefGhosts wcs 0))
        = [0, 0, 1 / 2, 1 / 2, 1 / 2, 1 / 2, 0, 0] ∧
      (List.range 8).map (fun (n : Nat) => valAt (level st.w 1) ((n : Int) + coefGhosts wcs 0))
        = [1 / 4, 1 / 4, 1 / 4, 1 / 4, 1 / 4, 1 / 4, 1 / 4, 1 / 4] := by
  obtain ⟨_, _, hd, hl, hdk, hp, _, hGa⟩ := new_ok hwt
  have hp1 : wt.d_p = 1 := by rw [hp]; rfl
  have hG : wt.d_num_wavelet_ghosts 0 = 7 := by rw [hGa 0]; rfl
  have hL : wt.d_num_level = 2 := by rw [hl]; rfl
  obtain ⟨st, f2, hst, hin2, _, hinv⟩ := transformBody_1D sqrt smooth hwt hd hpre
  have e2 : f2 = f := by
    rw [hin] at hin2
    exact (Option.some.inj hin2).symm
  subst e2
  have hGw := hpre.ghosts_coef 0 (by omega)
  have hg := hpre.ghosts_cell 0 (by omega)
  obtain ⟨hL0a, hL0b, _⟩ := hinv.2.2.2.2.1 0 (by omega)
  obtain ⟨_, hL1b, _⟩ := hinv.2.2.2.2.1 1 (by omega)
  rw [hG, hp1, hdk, hN] at hL0a hL0b hL1b
  rw [hG] at hGw
  rw [hN] at hf
  have hsrc0 : ∀ j : Int, -7 ≤ j → j < 15 →
      lowIn1D cd.ghosts (coefGhosts wcs) f2 st.f_x 0 j = exStepVal j := by
    intro j h1 h2
    rw [lowIn1D_zero]
    exact hf j (by omega) (by omega)
  have hF0 : ∀ j : Int, -6 ≤ j → j < 14 →
      valAt (level st.f_x 0) (j + coefGhosts wcs 0)
        = 1 / 2 * (exStepVal (j - 1) + exStepVal (j + 1)) := by
    intro j h1 h2
    rw [hL0a.2.1 j (by constructor <;> norm_num <;> omega)]
    simp only [lowVal, if_true, pow_zero]
    rw [hsrc0 (j - 1) (by omega) (by omega), hsrc0 (j + 1) (by omega) (by omega)]
  have hW0 : ∀ j : Int, -6 ≤ j → j < 14 →
      valAt (level st.w 0) (j + coefGhosts wcs 0)
        = |-(1 / 2) * (exStepVal (j - 1) - 2 * exStepVal j + exStepVal (j + 1))| := by
    intro j h1 h2
    rw [hL0b.2.1 j (by constructor <;> norm_num <;> omega)]
    simp only [highVal, if_true, pow_zero]
    rw [hsrc0 (j - 1) (by omega) (by omega), hsrc0 j (by omega) (by omega),
      hsrc0 (j + 1) (by omega) (by omega)]
  have hsrc1 : ∀ j : Int, -6 ≤ j → j < 14 →
      lowIn1D cd.ghosts (coefGhosts wcs) f2 st.f_x 1 j
        = 1 / 2 * (exStepVal (j - 1) + exStepVal (j + 1)) := by
    intro j h1 h2
    rw [lowIn1D_succ _ _ _ _ (le_refl 1)]
    exact hF0 j h1 h2
  have hW1 : ∀ j : Int, -4 ≤ j → j < 12 →
      valAt (level st.w 1) (j + coefGhosts wcs 0)
        = |-(1 / 2) * (1 / 2 * (exStepVal (j - 2 - 1) + exStepVal (j - 2 + 1))
            - 2 * (1 / 2 * (exStepVal (j - 1) + exStepVal (j + 1)))
            + 1 / 2 * (exStepVal (j + 2 - 1) + exStepVal (j + 2 + 1)))| := by
    intro j h1 h2
    rw [hL1b.2.1 j (by constructor <;> norm_num <;> omega)]
    simp only [highVal, if_true, pow_one]
    rw [hsrc1 (j - 2) (by omega) (by omega), hsrc1 j (by omega) (by omega),
      hsrc1 (j + 2) (by omega) (by omega)]
  refine ⟨st, hst, ?_, ?_, ?_⟩
  · simp only [List.range_succ, List.range_zero, List.nil_append, List.cons_append,
      List.map_cons, List.map_nil]
    rw [hW0 _ (by omega) (by omega), hW0 _ (by omega) (by omega), hW0 _ (by omega) (by omega),
      hW0 _ (by omega) (by omega), hW0 _ (by omega) (by omega), hW0 _ (by omega) (by omega),
      hW0 _ (by omega) (by omega), hW0 _ (by omega) (by omega)]
    norm_num [exStepVal, abs_of_nonneg]
  · simp only [List.range_succ, List.range_zero, List.nil_append, List.cons_append,
      List.map_cons, List.map_nil]
    rw [hF0 _ (by omega) (by omega), hF0 _ (by omega) (by omega), hF0 _ (by omega) (by omega),
      hF0 _ (by omega) (by omega), hF0 _ (by omega) (by omega), hF0 _ (by omega) (by omega),
      hF0 _ (by omega) (by omega), hF0 _ (by omega) (by omega)]
    norm_num [exStepVal]
  · simp only [List.range_succ, List.range_zero, List.nil_append, List.cons_append,
      List.map_cons, List.map_nil]
    rw [hW1 _ (by omega) (by omega), hW1 _ (by omega) (by omega), hW1 _ (by omega) (by omega),
      hW1 _ (by omega) (by omega), hW1 _ (by omega) (by omega), hW1 _ (by omega) (by omega),
      hW1 _ (by omega) (by omega), hW1 _ (by omega) (by omega)]
    norm_num [exStepVal, abs_of_nonneg]

theorem C18_step_example_witness :
    WaveletTransformHarten.new 1 2 2 = Except.ok (exEngine 1 2) ∧
    Pre (exEngine 1 2) exDims (exField 7 exStep) (exCoefs 1 7) [] 0 ∧
    exDims 0 = 8 ∧
    inputOf (exEngine 1 2) exDims (exField 7 exStep) 0 false 0 = some exStep ∧
    (∀ i : Int, -(exField 7 exStep).ghosts 0 ≤ i → i < exDims 0 + (exField 7 exStep).ghosts 0 →
      valAt exStep (i + (exField 7 exStep).ghosts 0) = exStepVal i) ∧
    ∃ st, transformBody ratSqrt (exEngine 1 2) exDims (exField 7 exStep) (exCoefs 1 7) [] 0 false
        = Except.ok st ∧
      (List.range 8).map (fun (n : Nat) =>
          valAt (level st.w 0) ((n : Int) + coefGhosts (exCoefs 1 7) 0))
        = [0, 0, 1 / 2, 1 / 2, 1 / 2, 1 / 2, 0, 0] ∧
      (List.range 8).map (fun (n : Nat) =>
          valAt (level st.f_x 0) ((n : Int) + coefGhosts (exCoefs 1 7) 0))
        = [0, 0, 1 / 2, 1 / 2, 1 / 2, 1 / 2, 0, 0] ∧
      (List.range 8).map (fun (n : Nat) =>
          valAt (level st.w 1) ((n : Int) + coefGhosts (exCoefs 1 7) 0))
        = [1 / 4, 1 / 4, 1 / 4, 1 / 4, 1 / 4, 1 / 4, 1 / 4, 1 / 4] :=
  ⟨exEngine_ok 1 (Or.inl rfl),
    exPre 1 (Or.inl rfl) (Or.inl rfl) 7 (by decide) exStep (by decide) false, rfl, rfl,
    exStep_vals,
    C18_step_example ratSqrt _ _ _ _ _ 0 false exStep (exEngine_ok 1 (Or.inl rfl))
      (exPre 1 (Or.inl rfl) (Or.inl rfl) 7 (by decide) exStep (by decide) false) rfl rfl
      exStep_vals⟩

/-! ## Frame of the wavelet-coefficient fields -/

/-- Call conditions of the 1-D example call whose coefficient fields hold 1
everywhere before the call. -/
theorem exPre_dirty : Pre (exEngine 1 2) exDims (exField 7 exStep) exDirty [] 0 := by
  obtain ⟨hG, hd, hl⟩ := exEngine_ghosts 1 (Or.inl rfl) 0
  have hmem : ∀ c, c ∈ exDirty →
      ∃ b, c.getPointer 0 = some b ∧ (b.length : Int) = boxSize (exEngine 1 2).d_dim
        (fun d => exDims d + 2 * coefGhosts exDirty d) := by
    intro c hc
    have hc2 : c = exField 7 exOnes := by
      simpa [exDirty] using hc
    subst hc2
    refine ⟨_, rfl, ?_⟩
    rw [hd]
    rfl
  refine ⟨by rw [hd]; exact Or.inl rfl, fun d _ => by unfold exDims; omega,
    fun d _ => le_refl _, fun d _ => ?_, ⟨exStep, rfl, by rw [hd]; rfl⟩,
    by rw [hl]; exact le_refl _, hmem, Or.inl rfl⟩
  rw [(exEngine_ghosts 1 (Or.inl rfl) d).1]
  exact le_refl _

/-- C12: the call completes and, for every level `li < L` and every cell `x` of the
ghost box of the coefficient fields that lies outside the window written at that
level (in 1-D the interval `[-G + p*2^li, N + G - p*2^li)`, in 2-D and 3-D the
box with `[-p*2^(li+1), N_a + q*2^(li+1))` on every axis `a`), the index of `x`
is an index of the wavelet-coefficient buffer of the level and the buffer holds
exactly 0 there, whatever the coefficient fields contained before the call. -/
theorem C12_zero_outside_written_window (sqrt : ℚ → ℚ) (wt : WaveletTransformHarten)
    (N : IntVector) (cd : CellData) (wcs means : List CellData) (depth : Nat) (smooth : Bool)
    (dim : Nat) (L k : Int)
    (hwt : WaveletTransformHarten.new dim L k = Except.ok wt)
    (hpre : Pre wt N cd wcs means depth) :
    ∃ st, transformBody sqrt wt N cd wcs means depth smooth = Except.ok st ∧
      ∀ li, li < wt.d_num_level → ∀ x : IntVector,
        InBox dim (fun d => -coefGhosts wcs d) (fun d => N d + coefGhosts wcs d) x →
        ¬ InBox dim
            (fun d => if dim = 1 then -wt.d_num_wavelet_ghosts d + wt.d_p * 2 ^ li
              else -wt.d_p * 2 ^ (li + 1))
            (fun d => if dim = 1 then N d + wt.d_num_wavelet_ghosts d - wt.d_p * 2 ^ li
              else N d + wt.d_q * 2 ^ (li + 1)) x →
        0 ≤ linIdx dim (coefGhosts wcs) (fun d => N d + 2 * coefGhosts wcs d) x ∧
        linIdx dim (coefGhosts wcs) (fun d => N d + 2 * coefGhosts wcs d) x
          < ((level st.w li).length : Int) ∧
        valAt (level st.w li)
          (linIdx dim (coefGhosts wcs) (fun d => N d + 2 * coefGhosts wcs d) x) = 0 := by
  obtain ⟨_, _, hd, _, _, hp, hq, _⟩ := new_ok hwt
  have hdim : dim = 1 ∨ dim = 2 ∨ dim = 3 := by rw [← hd]; exact hpre.dim
  obtain ⟨_, hw0⟩ := w0Of_facts hpre
  rw [hd] at hw0
  by_cases h1 : dim = 1
  · subst h1
    obtain ⟨st, f, hst, _, _, hinv⟩ := transformBody_1D sqrt smooth hwt hd hpre
    refine ⟨st, hst, fun li hli x hx hout => ?_⟩
    have hb := linIdx_bounds (Or.inl rfl) hx
    have hlen := (hinv.2.2.2.1 li hli).2.1
    rw [boxSize_one] at hb
    refine ⟨hb.1, by rw [hlen]; exact hb.2, ?_⟩
    obtain ⟨_, hW, _⟩ := hinv.2.2.2.2.1 li hli
    rw [linIdx_one]
    unfold lin1
    rw [hW.2.2 (x 0 + coefGhosts wcs 0), (hw0 li hli).1, valAt_zeros]
    intro c hc e
    apply hout
    intro d hd0
    have hd00 : d = 0 := by omega
    subst hd00
    simp only [if_true]
    have ec : c = x 0 := by
      dsimp only at e
      omega
    rw [← ec]
    exact hc
  · have hdim2 : dim = 2 ∨ dim = 3 := by omega
    have hd2 : wt.d_dim = 2 ∨ wt.d_dim = 3 := by rw [hd]; exact hdim2
    obtain ⟨st1, st, fin, hst, _, _, hcomb⟩ := transformBody_ND sqrt smooth hwt hd2 hpre
    rw [hd] at hcomb
    obtain ⟨_, _, _, _, _, _, _, _, hsz, hdone, _⟩ := hcomb
    refine ⟨st, hst, fun li hli x hx hout => ?_⟩
    have hb := linIdx_bounds hdim hx
    refine ⟨hb.1, by rw [hsz li hli]; exact hb.2, ?_⟩
    have hout2 : ¬ InBox dim (fun _ => -wt.d_p * 2 ^ (li + 1))
        (fun d => N d + wt.d_q * 2 ^ (li + 1)) x := by
      intro hin
      apply hout
      intro d hd0
      simp only [h1, if_false]
      exact hin d hd0
    have hsub : ∀ d, d < dim →
        -coefGhosts wcs d ≤ (fun _ => -wt.d_p * 2 ^ (li + 1)) d ∧
          (fun d => N d + wt.d_q * 2 ^ (li + 1)) d ≤ N d + coefGhosts wcs d := by
      intro d hd0
      obtain ⟨hp1, _, _, hGeq, _⟩ := ghost_nonneg hwt d
      have hG := hpre.ghosts_coef d (by rw [hd]; exact hd0)
      have hqq : wt.d_q = wt.d_p := by rw [hq, hp]
      have hc1 := comb_in_pass (p := wt.d_p) (by omega) hli
      have hc2 : (0 : Int) ≤ wt.d_p * 2 ^ li := by positivity
      have hneg : -wt.d_p * 2 ^ (li + 1) = -(wt.d_p * 2 ^ (li + 1)) := by ring
      dsimp only
      rw [hqq]
      constructor <;> omega
    rw [Filled.outside hdim (hdone li hli) hsub hx hout2, (hw0 li hli).1, valAt_zeros]

theorem C12_zero_outside_written_window_witness :
    WaveletTransformHarten.new 1 2 2 = Except.ok (exEngine 1 2) ∧
    Pre (exEngine 1 2) exDims (exField 7 exStep) exDirty [] 0 ∧
    ∃ st, transformBody ratSqrt (exEngine 1 2) exDims (exField 7 exStep) exDirty [] 0 false
        = Except.ok st ∧
      ∀ li, li < (exEngine 1 2).d_num_level → ∀ x : IntVector,
        InBox 1 (fun d => -coefGhosts exDirty d) (fun d => exDims d + coefGhosts exDirty d) x →
        ¬ InBox 1
            (fun d => if 1 = 1 then -(exEngine 1 2).d_num_wavelet_ghosts d
                + (exEngine 1 2).d_p * 2 ^ li
              else -(exEngine 1 2).d_p * 2 ^ (li + 1))
            (fun d => if 1 = 1 then exDims d + (exEngine 1 2).d_num_wavelet_ghosts d
                - (exEngine 1 2).d_p * 2 ^ li
              else exDims d + (exEngine 1 2).d_q * 2 ^ (li + 1)) x →
        0 ≤ linIdx 1 (coefGhosts exDirty) (fun d => exDims d + 2 * coefGhosts exDirty d) x ∧
        linIdx 1 (coefGhosts exDirty) (fun d => exDims d + 2 * coefGhosts exDirty d) x
          < ((level st.w li).length : Int) ∧
        valAt (level st.w li)
          (linIdx 1 (coefGhosts exDirty) (fun d => exDims d + 2 * coefGhosts exDirty d) x) = 0 :=
  ⟨exEngine_ok 1 (Or.inl rfl), exPre_dirty,
    C12_zero_outside_written_window ratSqrt _ _ _ _ _ 0 false 1 2 2
      (exEngine_ok 1 (Or.inl rfl)) exPre_dirty⟩

/-! ## Constant lines in 2-D and 3-D -/

theorem moveTo_moveTo (x : IntVector) (a : Nat) (i c : Int) :
    moveTo (moveTo x a i) a c = moveTo x a c := by
  funext d
  unfold moveTo
  by_cases e : d = a
  · simp only [e, if_true]
  · simp only [e, if_false]

theorem moveTo_at (x : IntVector) (a : Nat) (i : Int) : moveTo x a i a = i := by
  unfold moveTo
  simp only [if_true]

theorem moveTo_self (x : IntVector) (a : Nat) : moveTo x a (x a) = x := by
  funext d
  unfold moveTo
  by_cases e : d = a
  · simp only [e, if_true]
  · simp only [e, if_false]

theorem lowIn_moveTo (dim : Nat) (N gc gw : IntVector) (f : Arr) (fa : List Arr) (li : Nat)
    (x : IntVector) (a : Nat) (i : Int) :
    lowIn dim N gc gw f fa li (moveTo x a i) a = lowIn dim N gc gw f fa li x a := by
  funext c
  unfold lowIn lineOf
  simp only [moveTo_moveTo]

/-- The cascade along the line through `x` along the axis `a` when the input of
the pass is `c` on the whole line: on the cells of level `li` whose dependencies
all lie in computed windows every sample the stencil reads is `c`, the scaling
value is `c` and the signed wavelet value is 0. -/
theorem line_const {dim : Nat} {L k : Int} {wt : WaveletTransformHarten}
    (hwt : WaveletTransformHarten.new dim L k = Except.ok wt) {N gc gw : IntVector}
    {fa : Arr} {st : State} (a : Nat)
    (hax : ∀ li, li < wt.d_num_level → AxisLevel dim wt N gc gw fa st a li)
    (x : IntVector)
    (hx : ∀ d, d < dim → d ≠ a →
      -wt.d_num_wavelet_ghosts d ≤ x d ∧ x d < N d + wt.d_num_wavelet_ghosts d)
    (c : ℚ)
    (h0 : ∀ j, -wt.d_num_wavelet_ghosts a ≤ j → j < N a + wt.d_num_wavelet_ghosts a →
      valAt fa (linIdx dim gc (fun d => N d + 2 * gc d) (moveTo x a j)) = c) :
    ∀ li, li < wt.d_num_level → ∀ i,
      -wt.d_num_wavelet_ghosts a + wt.d_p * (2 ^ (li + 1) - 1) ≤ i →
      i < N a + wt.d_num_wavelet_ghosts a - wt.d_p * (2 ^ (li + 1) - 1) →
      (∀ m : Int, -wt.d_p ≤ m → m ≤ wt.d_p →
        lowIn dim N gc gw fa (st.fAx a) li x a (i + m * 2 ^ li) = c) ∧
      valAt (level (st.fAx a) li) (linIdx dim gw (fun d => N d + 2 * gw d) (moveTo x a i)) = c ∧
      valAt (level (st.wAx a) li) (linIdx dim gw (fun d => N d + 2 * gw d) (moveTo x a i))
        = 0 := by
  obtain ⟨hk, _, _, _, hdk, hp, _, _⟩ := new_ok hwt
  obtain ⟨hp1, hp2, _, _, _⟩ := ghost_nonneg hwt a
  have hbox : ∀ li i, -wt.d_num_wavelet_ghosts a + wt.d_p * 2 ^ li ≤ i →
      i < N a + wt.d_num_wavelet_ghosts a - wt.d_p * 2 ^ li →
      InBox dim (passLo wt a li) (passHi wt N a li) (moveTo x a i) := by
    intro li i h1 h2 d hd
    unfold passLo passHi moveTo
    by_cases e : d = a
    · simp only [e, if_true]
      exact ⟨h1, h2⟩
    · simp only [e, if_false]
      exact hx d hd e
  have hcas := cascade_const hk (p := wt.d_p) (G := wt.d_num_wavelet_ghosts a) (M := N a)
    (L := wt.d_num_level) hp
    (fun li i => valAt (level (st.fAx a) li)
      (linIdx dim gw (fun d => N d + 2 * gw d) (moveTo x a i)))
    (fun li => lowIn dim N gc gw fa (st.fAx a) li x a) c
    (fun li hli i h1 h2 => by
      have := (hax li hli).1.2.1 (moveTo x a i) (hbox li i h1 h2)
      dsimp only at this
      rw [lowIn_moveTo, moveTo_at, hdk] at this
      exact this)
    (fun j h1 h2 => by
      dsimp only
      rw [lowIn_zero]
      exact h0 j h1 h2)
    (fun li hli j => by
      dsimp only
      rw [lowIn_succ _ _ _ _ _ _ hli]
      rfl)
  intro li hli i h1 h2
  obtain ⟨hs, hF⟩ := hcas li hli
  have hsam := hs i h1 h2
  have hwin : -wt.d_num_wavelet_ghosts a + wt.d_p * 2 ^ li ≤ i ∧
      i < N a + wt.d_num_wavelet_ghosts a - wt.d_p * 2 ^ li := by
    have e1 : (2 : Int) ^ (li + 1) = 2 * 2 ^ li := by ring
    have e2 : (1 : Int) ≤ 2 ^ li := one_le_pow₀ (by norm_num)
    have hp12 : wt.d_p = 1 ∨ wt.d_p = 2 := by omega
    rcases hp12 with e | e <;> rw [e] at h1 h2 ⊢ <;> constructor <;> omega
  refine ⟨hsam, hF i h1 h2, ?_⟩
  have hW := (hax li hli).2.2.1 (moveTo x a i) (hbox li i hwin.1 hwin.2)
  dsimp only at hW
  rw [lowIn_moveTo, moveTo_at, hdk] at hW
  rw [hW]
  exact (stencil_const hk _ (2 ^ li) i c (fun m hm1 hm2 =>
    hsam m (by rw [hp]; exact hm1) (by rw [hp]; exact hm2))).2.1

/-- The executable square root is exact on squares. -/
theorem ratSqrt_mul_self (a : ℚ) : ratSqrt (a * a) = |a| := by
  unfold ratSqrt
  rw [Rat.mul_self_num, Rat.mul_self_den, Nat.sqrt_eq]
  have h1 : (a.num * a.num).toNat = a.num.natAbs * a.num.natAbs := by
    have : a.num * a.num = ((a.num.natAbs * a.num.natAbs : Nat) : Int) := by
      exact (Int.natAbs_mul_self (a := a.num)).symm
    rw [this, Int.toNat_natCast]
  rw [h1, Nat.sqrt_eq]
  have h2 : |a| = (|a.num| : ℚ) / (a.den : ℚ) := by
    conv_lhs => rw [← Rat.num_div_den a]
    rw [abs_div, Nat.abs_cast]
  rw [h2, Nat.cast_natAbs, Int.cast_abs]

/-! ## Fields that are constant along an axis in 2-D and 3-D -/

/-- The pass along the axis `a` when the input of the pass takes the value `h x`
on the whole line through `x` along `a`: at a cell `x` of level `li` whose
dependencies along the axis all lie in computed windows, every sample the
stencil reads is `h x`, the scaling value is `h x` and the signed wavelet value
is 0. -/
theorem axis_line_ND {dim : Nat} {L k : Int} {wt : WaveletTransformHarten}
    (hwt : WaveletTransformHarten.new dim L k = Except.ok wt) {N : IntVector} {cd : CellData}
    {wcs means : List CellData} {depth : Nat} (hpre : Pre wt N cd wcs means depth)
    {fa : Arr} {st : State} {a : Nat} (ha : a < dim)
    (hax : ∀ li, li < wt.d_num_level →
      AxisLevel dim wt N cd.ghosts (coefGhosts wcs) fa st a li)
    (h : IntVector → ℚ)
    (hfa : ∀ y, InBox dim (fun d => -cd.ghosts d) (fun d => N d + cd.ghosts d) y →
      valAt fa (linIdx dim cd.ghosts (fun d => N d + 2 * cd.ghosts d) y) = h y)
    (hh : ∀ y t, h (moveTo y a t) = h y)
    {li : Nat} (hli : li < wt.d_num_level) {x : IntVector}
    (hx : InBox dim (fun d => -wt.d_num_wavelet_ghosts d)
      (fun d => N d + wt.d_num_wavelet_ghosts d) x)
    (h1 : -wt.d_num_wavelet_ghosts a + wt.d_p * (2 ^ (li + 1) - 1) ≤ x a)
    (h2 : x a < N a + wt.d_num_wavelet_ghosts a - wt.d_p * (2 ^ (li + 1) - 1)) :
    (∀ m : Int, -wt.d_p ≤ m → m ≤ wt.d_p →
      lowIn dim N cd.ghosts (coefGhosts wcs) fa (st.fAx a) li x a (x a + m * 2 ^ li) = h x) ∧
    valAt (level (st.fAx a) li)
      (linIdx dim (coefGhosts wcs) (fun d => N d + 2 * coefGhosts wcs d) x) = h x ∧
    valAt (level (st.wAx a) li)
      (linIdx dim (coefGhosts wcs) (fun d => N d + 2 * coefGhosts wcs d) x) = 0 := by
  obtain ⟨_, _, hd, _, _, _, _, _⟩ := new_ok hwt
  have hsub : ∀ d, d < dim → -cd.ghosts d ≤ -wt.d_num_wavelet_ghosts d ∧
      N d + wt.d_num_wavelet_ghosts d ≤ N d + cd.ghosts d := by
    intro d hd0
    have e1 := hpre.ghosts_cell d (by rw [hd]; exact hd0)
    have e2 := hpre.ghosts_coef d (by rw [hd]; exact hd0)
    constructor <;> omega
  have hxc : InBox dim (fun d => -cd.ghosts d) (fun d => N d + cd.ghosts d) x :=
    InBox_mono hsub hx
  have h0 : ∀ j, -wt.d_num_wavelet_ghosts a ≤ j → j < N a + wt.d_num_wavelet_ghosts a →
      valAt fa (linIdx dim cd.ghosts (fun d => N d + 2 * cd.ghosts d) (moveTo x a j)) = h x := by
    intro j hj1 hj2
    have hs := hsub a ha
    rw [hfa (moveTo x a j) (InBox_moveTo hxc (by constructor <;> omega)), hh]
  have hl := line_const hwt a hax x (fun d hd0 _ => hx d hd0) (h x) h0 li hli (x a) h1 h2
  rw [moveTo_self] at hl
  exact hl

theorem sumSq_axis0 {dim : Nat} (hdim : dim = 2 ∨ dim = 3) (t : Nat → ℚ)
    (h : ∀ a, 1 ≤ a → a < dim → t a = 0) : sumSq dim t = t 0 * t 0 := by
  unfold sumSq
  rcases hdim with rfl | rfl
  · rw [if_pos rfl, h 1 (by omega) (by omega)]
    ring
  · rw [if_neg (by decide), h 1 (by omega) (by omega), h 2 (by omega) (by omega)]
    ring

theorem exCols_length : (exCols.length : Int) = boxSize 2 (fun _ => 8 + 2 * 7) := by
  unfold exCols
  rw [List.length_map, List.length_range]
  rfl

theorem exCols_vals (x : IntVector)
    (hx : InBox 2 (fun d => -(exField 7 exCols).ghosts d)
      (fun d => exDims d + (exField 7 exCols).ghosts d) x) :
    valAt exCols (linIdx 2 (exField 7 exCols).ghosts
      (fun d => exDims d + 2 * (exField 7 exCols).ghosts d) x) = ((x 0 : Int) : ℚ) := by
  have h0 := hx 0 (by omega)
  have h1 := hx 1 (by omega)
  have hg : ∀ d, (exField 7 exCols).ghosts d = 7 := fun _ => rfl
  have hN : ∀ d, exDims d = 8 := fun _ => rfl
  simp only [hg, hN] at h0 h1
  have hlin : linIdx 2 (exField 7 exCols).ghosts
      (fun d => exDims d + 2 * (exField 7 exCols).ghosts d) x
      = (((x 0 + 7).toNat + (x 1 + 7).toNat * 22 : Nat) : Int) := by
    rw [linIdx_two]
    unfold lin2
    simp only [hg, hN]
    push_cast
    rw [Int.toNat_of_nonneg (by omega), Int.toNat_of_nonneg (by omega)]
  rw [hlin]
  unfold valAt
  rw [if_pos (Int.natCast_nonneg _), Int.toNat_natCast]
  have hlt : (x 0 + 7).toNat + (x 1 + 7).toNat * 22 < 484 := by omega
  unfold exCols
  rw [List.getD_eq_getElem?_getD, List.getElem?_map, List.getElem?_range hlt]
  simp only [Option.map_some', Option.getD_some]
  rw [Nat.add_mul_mod_self_right, Nat.mod_eq_of_lt (by omega)]
  have : (((x 0 + 7).toNat : Nat) : Int) = x 0 + 7 := Int.toNat_of_nonneg (by omega)
  have h2 : (((x 0 + 7).toNat : Nat) : ℚ) = ((x 0 : Int) : ℚ) + 7 := by
    rw [← Int.cast_natCast, this]
    push_cast
    rfl
  rw [h2]
  ring

theorem exCols_pointer : (exField 7 exCols).getPointer 0 = some exCols := by
  unfold exField CellData.getPointer
  exact List.getElem?_cons_zero

/-- C16 (amended): in exact arithmetic, in 2-D and 3-D, for `k = 2` and `k = 4`
and either setting of the smoothing flag, with a square root that is exact on
squares (`sqrt(a*a) = |a|`), if the input field depends only on the axis-0 index at every allocated cell,
`f(x) = g(x_0)`, then the call completes and for every level `li < L` and every
cell of the combination window `[-p*2^(li+1), N_a + q*2^(li+1))` the per-axis
wavelet values of all axes other than 0 are 0 and the combined wavelet
coefficient equals the absolute value of the axis-0 wavelet value at the cell. -/
theorem C16_axis0_field (sqrt : ℚ → ℚ) (hsqrt : ∀ a : ℚ, sqrt (a * a) = |a|)
    (wt : WaveletTransformHarten) (N : IntVector) (cd : CellData)
    (wcs means : List CellData) (depth : Nat) (smooth : Bool) (dim : Nat) (L k : Int)
    (hwt : WaveletTransformHarten.new dim L k = Except.ok wt) (hdim : dim = 2 ∨ dim = 3)
    (hpre : Pre wt N cd wcs means depth) (f0 : Arr) (hf0 : cd.getPointer depth = some f0)
    (g : Int → ℚ)
    (hg : ∀ x, InBox dim (fun d => -cd.ghosts d) (fun d => N d + cd.ghosts d) x →
      valAt f0 (linIdx dim cd.ghosts (fun d => N d + 2 * cd.ghosts d) x) = g (x 0)) :
    ∃ st, transformBody sqrt wt N cd wcs means depth smooth = Except.ok st ∧
      ∀ li, li < wt.d_num_level → ∀ x : IntVector,
        InBox dim (fun _ => -wt.d_p * 2 ^ (li + 1)) (fun a => N a + wt.d_q * 2 ^ (li + 1)) x →
        (∀ a, 1 ≤ a → a < dim →
          valAt (level (st.wAx a) li)
            (linIdx dim (coefGhosts wcs) (fun d => N d + 2 * coefGhosts wcs d) x) = 0) ∧
        valAt (level st.w li)
            (linIdx dim (coefGhosts wcs) (fun d => N d + 2 * coefGhosts wcs d) x)
          = |valAt (level (st.wAx 0) li)
              (linIdx dim (coefGhosts wcs) (fun d => N d + 2 * coefGhosts wcs d) x)| := by
  obtain ⟨hk, _, hd, _, hdk, hp, hq, _⟩ := new_ok hwt
  have hd2 : wt.d_dim = 2 ∨ wt.d_dim = 3 := by rw [hd]; exact hdim
  have hqq : wt.d_q = wt.d_p := by rw [hq, hp]
  obtain ⟨st1, st, fin, hst, hfin, hinv, hcomb⟩ := transformBody_ND sqrt smooth hwt hd2 hpre
  have hfa : ∀ a, 1 ≤ a → a < dim → ∀ y,
      InBox dim (fun d => -cd.ghosts d) (fun d => N d + cd.ghosts d) y →
      valAt (fin a) (linIdx dim cd.ghosts (fun d => N d + 2 * cd.ghosts d) y) = g (y 0) := by
    intro a ha1 ha
    obtain ⟨f2, hf2, _, hval⟩ := inputOf_invariant hpre smooth (a := a)
      (by rw [hd]; exact ha) f0 hf0 (fun x => g (x 0))
      (fun x hx t ht1 ht2 => by
        rw [hd] at hx ⊢
        rw [hg _ (InBox_moveTo hx ⟨ht1, ht2⟩)]
        unfold moveTo
        rw [if_neg (by omega)])
    have e : f2 = fin a := by
      rw [(hfin a (by rw [hd]; exact ha)).1] at hf2
      exact (Option.some.inj hf2).symm
    subst e
    rw [hd] at hval
    exact hval
  rw [hd] at hinv hcomb
  obtain ⟨_, _, _, ewx, ewy, ewz, _, _, _, hdone, _⟩ := hcomb
  obtain ⟨_, _, _, hax, _, _⟩ := hinv
  refine ⟨st, hst, fun li hli x hx => ?_⟩
  have hzero : ∀ a, 1 ≤ a → a < dim →
      valAt (level (st.wAx a) li)
        (linIdx dim (coefGhosts wcs) (fun d => N d + 2 * coefGhosts wcs d) x) = 0 := by
    intro a ha1 ha
    obtain ⟨hp1, _, _, hGeq, _⟩ := ghost_nonneg hwt a
    have hc1 := comb_in_pass (p := wt.d_p) (by omega) hli
    have hc2 : (0 : Int) ≤ wt.d_p * 2 ^ li := by positivity
    have e1 : (2 : Int) ^ (li + 1) = 2 * 2 ^ li := by ring
    have e2 : (1 : Int) ≤ 2 ^ li := one_le_pow₀ (by norm_num)
    have e3 : (2 : Int) ^ (li + 1) ≤ 2 ^ wt.d_num_level :=
      pow_le_pow_right₀ (by norm_num) hli
    have e4 : (2 : Int) ^ (wt.d_num_level + 1) = 2 * 2 ^ wt.d_num_level := by ring
    have e5 : wt.d_p * (2 ^ (li + 1) - 1) + wt.d_p * 2 ^ (li + 1)
        ≤ wt.d_p * (2 ^ (wt.d_num_level + 1) - 1) := by
      have : wt.d_p * (2 ^ (li + 1) - 1) + wt.d_p * 2 ^ (li + 1)
          = wt.d_p * (2 ^ (li + 1) - 1 + 2 ^ (li + 1)) := by ring
      rw [this]
      exact mul_le_mul_of_nonneg_left (by omega) (by omega)
    have e6 : (0 : Int) ≤ wt.d_p * (2 ^ (li + 1) - 1) := mul_nonneg (by omega) (by omega)
    have hneg : -wt.d_p * 2 ^ (li + 1) = -(wt.d_p * 2 ^ (li + 1)) := by ring
    have hxG : InBox dim (fun d => -wt.d_num_wavelet_ghosts d)
        (fun d => N d + wt.d_num_wavelet_ghosts d) x := by
      intro d hd0
      obtain ⟨_, _, _, hGd, _⟩ := ghost_nonneg hwt d
      have := hx d hd0
      dsimp only at this ⊢
      rw [hqq] at this
      constructor <;> omega
    have hxa := hx a ha
    dsimp only at hxa
    rw [hqq] at hxa
    have hl := axis_line_ND hwt hpre ha (fun l hl => (hax l hl).1 a ha) (fun y => g (y 0))
      (hfa a ha1 ha)
      (fun y t => by
        show g (if 0 = a then t else y 0) = g (y 0)
        rw [if_neg (by omega)])
      hli hxG (by omega) (by omega)
    rw [wAx_congr ewx ewy ewz a]
    exact hl.2.2
  refine ⟨hzero, ?_⟩
  rw [(hdone li hli).2.1 x hx]
  unfold combVal
  rw [sumSq_axis0 hdim _ hzero, hsqrt]

theorem C16_axis0_field_witness :
    (∀ a : ℚ, ratSqrt (a * a) = |a|) ∧
    WaveletTransformHarten.new 2 2 2 = Except.ok (exEngine 2 2) ∧
    ((2 : Nat) = 2 ∨ (2 : Nat) = 3) ∧
    Pre (exEngine 2 2) exDims (exField 7 exCols) (exCoefs 2 7) [] 0 ∧
    (exField 7 exCols).getPointer 0 = some exCols ∧
    (∀ x, InBox 2 (fun d => -(exField 7 exCols).ghosts d)
        (fun d => exDims d + (exField 7 exCols).ghosts d) x →
      valAt exCols (linIdx 2 (exField 7 exCols).ghosts
        (fun d => exDims d + 2 * (exField 7 exCols).ghosts d) x) = ((x 0 : Int) : ℚ)) ∧
    ∃ st, transformBody ratSqrt (exEngine 2 2) exDims (exField 7 exCols) (exCoefs 2 7) [] 0
        true = Except.ok st ∧
      ∀ li, li < (exEngine 2 2).d_num_level → ∀ x : IntVector,
        InBox 2 (fun _ => -(exEngine 2 2).d_p * 2 ^ (li + 1))
          (fun a => exDims a + (exEngine 2 2).d_q * 2 ^ (li + 1)) x →
        (∀ a, 1 ≤ a → a < 2 →
          valAt (level (st.wAx a) li)
            (linIdx 2 (coefGhosts (exCoefs 2 7))
              (fun d => exDims d + 2 * coefGhosts (exCoefs 2 7) d) x) = 0) ∧
        valAt (level st.w li)
            (linIdx 2 (coefGhosts (exCoefs 2 7))
              (fun d => exDims d + 2 * coefGhosts (exCoefs 2 7) d) x)
          = |valAt (level (st.wAx 0) li)
              (linIdx 2 (coefGhosts (exCoefs 2 7))
                (fun d => exDims d + 2 * coefGhosts (exCoefs 2 7) d) x)| :=
  ⟨ratSqrt_mul_self, exEngine_ok 2 (Or.inl rfl), Or.inl rfl,
    exPre 2 (Or.inl rfl) (Or.inr (Or.inl rfl)) 7 (by decide) exCols exCols_length false,
    exCols_pointer, exCols_vals,
    C16_axis0_field ratSqrt ratSqrt_mul_self _ _ _ _ _ 0 true 2 2 2
      (exEngine_ok 2 (Or.inl rfl)) (Or.inl rfl)
      (exPre 2 (Or.inl rfl) (Or.inr (Or.inl rfl)) 7 (by decide) exCols exCols_length false)
      exCols exCols_pointer (fun i => (i : ℚ)) exCols_vals⟩

/-! ## Bounds of the smoothing -/

theorem exNeg_const (n : Int) (_h0 : 0 ≤ n) (_h1 : n < exNeg.length) : valAt exNeg n = -1 := by
  have hlt : n.toNat < 22 := by
    have : (exNeg.length : Int) = 22 := rfl
    omega
  unfold valAt
  rw [if_pos _h0]
  show (List.replicate 22 (-1 : ℚ)).getD n.toNat 0 = -1
  rw [List.getD_eq_getElem?_getD, List.getElem?_replicate, if_pos hlt]
  rfl

theorem ratSqrt_nonneg (q : ℚ) : 0 ≤ ratSqrt q := by
  unfold ratSqrt
  exact div_nonneg (Nat.cast_nonneg _) (Nat.cast_nonneg _)

/-- C30 (as stated, false): for the constant field -1 on 8 interior cells with 7
ghost cells in 1-D (`k = 2`, `L = 2`) and local-mean fields supplied, the local
mean of level 0 written at the interior cell 0 is -2: the 1-D branch writes the
signed weighted sum `0.5*(f[i-1] + 2*f[i] + f[i+1])` with no `fabs`, whereas the
1-D coefficient of the same loop is wrapped in `fabs` and the 2-D and 3-D local
means are square roots.  Every value involved is a small integer, exact in
`double`. -/
theorem C30_negative_local_mean_1D :
    ∃ st, transformBody ratSqrt (exEngine 1 2) exDims (exField 7 exNeg) (exCoefs 1 7)
        (exCoefs 1 7) 0 false = Except.ok st ∧
      valAt (level st.f_mean 0) (0 + coefGhosts (exCoefs 1 7) 0) = -2 ∧
      valAt (level st.f_mean 0) (0 + coefGhosts (exCoefs 1 7) 0) < 0 := by
  obtain ⟨hp, hk, hl, hG, hd⟩ := exEngine_one_two
  obtain ⟨st, f, hst, _, _, _, hfacts⟩ := const_field_1D ratSqrt false
    (exEngine_ok 1 (Or.inl rfl))
    (exPre 1 (Or.inl rfl) (Or.inl rfl) 7 (by decide) exNeg (by decide) true)
    exNeg rfl (-1) exNeg_const
  have := (hfacts 0 (by rw [hl]; decide)).2 rfl 0 (le_refl 0) (by simp [exDims])
  refine ⟨st, hst, ?_, ?_⟩
  · rw [this]
    norm_num [meanCoef]
  · rw [this]
    norm_num [meanCoef]

/-! ## Windows of the 1-D levels -/

/-- The level-1 loop of the 1-D example on the constant field 1 (`k = 2`,
`L = 2`, 8 interior cells, 7 ghost cells): at the cell `-5` the wavelet and
scaling coefficients of level 1 are both `1/2`. -/
theorem ones_level1_edge :
    ∃ st, transformBody ratSqrt (exEngine 1 2) exDims (exField 7 exOnes) (exCoefs 1 7) [] 0 false
        = Except.ok st ∧
      valAt (level st.w 1) (-5 + coefGhosts (exCoefs 1 7) 0) = 1 / 2 ∧
      valAt (level st.f_x 1) (-5 + coefGhosts (exCoefs 1 7) 0) = 1 / 2 := by
  obtain ⟨hp, hk, hl, hG, hd⟩ := exEngine_one_two
  obtain ⟨st, f, hst, _, hinv, _, hfacts⟩ := const_field_1D ratSqrt false
    (exEngine_ok 1 (Or.inl rfl))
    (exPre 1 (Or.inl rfl) (Or.inl rfl) 7 (by decide) exOnes (by decide) false)
    exOnes rfl 1 exOnes_const
  refine ⟨st, hst, ?_⟩
  have hgw : coefGhosts (exCoefs 1 7) 0 = 7 := rfl
  have hgc : (exField 7 exOnes).ghosts 0 = 7 := rfl
  obtain ⟨hL0a, _, _⟩ := hinv.2.2.2.2.1 0 (by rw [hl]; decide)
  obtain ⟨hL1a, hL1b, _⟩ := hinv.2.2.2.2.1 1 (by rw [hl]; decide)
  rw [hgw, hG, hp] at hL0a hL1a hL1b
  have h0 := (hfacts 0 (by rw [hl]; decide)).1
  rw [hgw, hG, hp] at h0
  have a1 : valAt (level st.f_x 0) 0 = 0 := by
    have := hL0a.2.2 0 (fun c hc => by
      dsimp only
      norm_num at hc
      omega)
    rw [this, valAt_zeros]
  have a2 : valAt (level st.f_x 0) 2 = 1 := by
    have := (h0 (-5) (by norm_num) (by simp [exDims])).1
    norm_num at this
    exact this
  have a3 : valAt (level st.f_x 0) 4 = 1 := by
    have := (h0 (-3) (by norm_num) (by simp [exDims])).1
    norm_num at this
    exact this
  have s1 : lowIn1D (exField 7 exOnes).ghosts (coefGhosts (exCoefs 1 7)) f st.f_x 1
      = fun j => valAt (level st.f_x 0) (j + 7) := by
    rw [lowIn1D_succ _ _ _ _ (le_refl 1)]
    rfl
  have b1 := hL1a.2.1 (-5) (by simp [exDims])
  have b2 := hL1b.2.1 (-5) (by simp [exDims])
  rw [s1] at b1 b2
  rw [hgw]
  constructor
  · rw [b2, hk]
    simp only [highVal, if_true]
    norm_num [a1, a2, a3]
  · rw [b1, hk]
    simp only [lowVal, if_true]
    norm_num [a1, a2, a3]

/-- C23 (as stated, false): for `k = 2`, `L = 2`, 8 interior cells and 7 ghost
cells the level-0 window is `[-6, 14)`; shrunk on each side by `p*2^1 = 2` it
would start at `-4`.  The level-1 loop nevertheless writes the cell `-5`: on the
constant field 1 the level-1 wavelet coefficient there is `1/2`, while a cell
that is not written holds the initial 0. -/
theorem C23_level1_writes_below_claimed_window :
    (-(exEngine 1 2).d_num_wavelet_ghosts 0 + (exEngine 1 2).d_p * 2 ^ 0)
        + (exEngine 1 2).d_p * 2 ^ 1 = -4 ∧
    ∃ st, transformBody ratSqrt (exEngine 1 2) exDims (exField 7 exOnes) (exCoefs 1 7) [] 0 false
        = Except.ok st ∧
      valAt (level st.w 1) (-5 + coefGhosts (exCoefs 1 7) 0) = 1 / 2 := by
  obtain ⟨hp, _, _, hG, _⟩ := exEngine_one_two
  obtain ⟨st, hst, hw, _⟩ := ones_level1_edge
  refine ⟨?_, st, hst, hw⟩
  rw [hG, hp]
  norm_num

/-- C23 (amended): in 1-D, for every level `li` with `1 <= li < L`, the computed
window of level `li` is `[-G + p*2^li, N + G - p*2^li)` (`p = 1` for `k = 2`,
`p = 2` for `k = 4`), that is the window of level `li - 1` shrunk on each side
by `p*2^(li-1)` cells; on it the scaling and wavelet fields hold the cascade
values of the level, and the allocated cells outside it are not written and
hold 0. -/
theorem C23_window_1D (sqrt : ℚ → ℚ) (wt : WaveletTransformHarten) (N : IntVector)
    (cd : CellData) (wcs means : List CellData) (depth : Nat) (smooth : Bool) (L k : Int)
    (hwt : WaveletTransformHarten.new 1 L k = Except.ok wt)
    (hpre : Pre wt N cd wcs means depth) :
    wt.d_p = (if k = 2 then 1 else 2) ∧
    ∃ st f, transformBody sqrt wt N cd wcs means depth smooth = Except.ok st ∧
      inputOf wt N cd depth smooth 0 = some f ∧
      ∀ li, 1 ≤ li → li < wt.d_num_level →
        (∀ i : Int,
          (-wt.d_num_wavelet_ghosts 0 + wt.d_p * 2 ^ li ≤ i ∧
            i < N 0 + wt.d_num_wavelet_ghosts 0 - wt.d_p * 2 ^ li) ↔
          ((-wt.d_num_wavelet_ghosts 0 + wt.d_p * 2 ^ (li - 1)) + wt.d_p * 2 ^ (li - 1) ≤ i ∧
            i < (N 0 + wt.d_num_wavelet_ghosts 0 - wt.d_p * 2 ^ (li - 1))
              - wt.d_p * 2 ^ (li - 1))) ∧
        (∀ i : Int, -wt.d_num_wavelet_ghosts 0 + wt.d_p * 2 ^ li ≤ i →
          i < N 0 + wt.d_num_wavelet_ghosts 0 - wt.d_p * 2 ^ li →
          valAt (level st.f_x li) (i + coefGhosts wcs 0)
            = lowVal k (lowIn1D cd.ghosts (coefGhosts wcs) f st.f_x li) (2 ^ li) i ∧
          valAt (level st.w li) (i + coefGhosts wcs 0)
            = |highVal k (lowIn1D cd.ghosts (coefGhosts wcs) f st.f_x li) (2 ^ li) i|) ∧
        (∀ i : Int, -coefGhosts wcs 0 ≤ i → i < N 0 + coefGhosts wcs 0 →
          ¬ (-wt.d_num_wavelet_ghosts 0 + wt.d_p * 2 ^ li ≤ i ∧
            i < N 0 + wt.d_num_wavelet_ghosts 0 - wt.d_p * 2 ^ li) →
          valAt (level st.f_x li) (i + coefGhosts wcs 0) = 0 ∧
          valAt (level st.w li) (i + coefGhosts wcs 0) = 0) := by
  obtain ⟨_, _, hd, _, hdk, hp, _, _⟩ := new_ok hwt
  obtain ⟨st, f, hst, hin, _, hinv⟩ := transformBody_1D sqrt smooth hwt hd hpre
  obtain ⟨_, hw0⟩ := w0Of_facts hpre
  rw [hd] at hw0
  refine ⟨by rw [hp]; rfl, st, f, hst, hin, fun li h1 hli => ⟨fun i => ?_, fun i hi1 hi2 => ?_,
    fun i _ _ hout => ?_⟩⟩
  · have e : (2 : Int) ^ li = 2 * 2 ^ (li - 1) := by
      have : li = (li - 1) + 1 := by omega
      conv_lhs => rw [this]
      ring
    have e2 : wt.d_p * 2 ^ li = wt.d_p * 2 ^ (li - 1) + wt.d_p * 2 ^ (li - 1) := by
      rw [e]
      ring
    rw [e2]
    constructor
    · intro h
      constructor <;> omega
    · intro h
      constructor <;> omega
  · obtain ⟨hF, hW, _⟩ := hinv.2.2.2.2.1 li hli
    have a := hF.2.1 i ⟨hi1, hi2⟩
    have b := hW.2.1 i ⟨hi1, hi2⟩
    dsimp only at a b
    rw [hdk] at a b
    exact ⟨a, b⟩
  · obtain ⟨hF, hW, _⟩ := hinv.2.2.2.2.1 li hli
    have hne : ∀ c : Int, (-wt.d_num_wavelet_ghosts 0 + wt.d_p * 2 ^ li ≤ c ∧
        c < N 0 + wt.d_num_wavelet_ghosts 0 - wt.d_p * 2 ^ li) →
        (fun i => i + coefGhosts wcs 0) c ≠ i + coefGhosts wcs 0 := by
      intro c hc e
      dsimp only at e
      have : c = i := by omega
      rw [this] at hc
      exact hout hc
    rw [hF.2.2 _ hne, hW.2.2 _ hne, (hw0 li hli).1, boxSize_one, valAt_zeros]
    exact ⟨rfl, rfl⟩

theorem C23_window_1D_witness :
    WaveletTransformHarten.new 1 2 2 = Except.ok (exEngine 1 2) ∧
    Pre (exEngine 1 2) exDims (exField 7 exStep) (exCoefs 1 7) [] 0 ∧
    (exEngine 1 2).d_p = (if (2 : Int) = 2 then 1 else 2) ∧
    ∃ st f, transformBody ratSqrt (exEngine 1 2) exDims (exField 7 exStep) (exCoefs 1 7) []
        0 false = Except.ok st ∧
      inputOf (exEngine 1 2) exDims (exField 7 exStep) 0 false 0 = some f ∧
      ∀ li, 1 ≤ li → li < (exEngine 1 2).d_num_level →
        (∀ i : Int,
          (-(exEngine 1 2).d_num_wavelet_ghosts 0 + (exEngine 1 2).d_p * 2 ^ li ≤ i ∧
            i < exDims 0 + (exEngine 1 2).d_num_wavelet_ghosts 0
              - (exEngine 1 2).d_p * 2 ^ li) ↔
          ((-(exEngine 1 2).d_num_wavelet_ghosts 0 + (exEngine 1 2).d_p * 2 ^ (li - 1))
              + (exEngine 1 2).d_p * 2 ^ (li - 1) ≤ i ∧
            i < (exDims 0 + (exEngine 1 2).d_num_wavelet_ghosts 0
                - (exEngine 1 2).d_p * 2 ^ (li - 1))
              - (exEngine 1 2).d_p * 2 ^ (li - 1))) ∧
        (∀ i : Int, -(exEngine 1 2).d_num_wavelet_ghosts 0 + (exEngine 1 2).d_p * 2 ^ li ≤ i →
          i < exDims 0 + (exEngine 1 2).d_num_wavelet_ghosts 0 - (exEngine 1 2).d_p * 2 ^ li →
          valAt (level st.f_x li) (i + coefGhosts (exCoefs 1 7) 0)
            = lowVal 2 (lowIn1D (exField 7 exStep).ghosts (coefGhosts (exCoefs 1 7)) f
                st.f_x li) (2 ^ li) i ∧
          valAt (level st.w li) (i + coefGhosts (exCoefs 1 7) 0)
            = |highVal 2 (lowIn1D (exField 7 exStep).ghosts (coefGhosts (exCoefs 1 7)) f
                st.f_x li) (2 ^ li) i|) ∧
        (∀ i : Int, -coefGhosts (exCoefs 1 7) 0 ≤ i → i < exDims 0 + coefGhosts (exCoefs 1 7) 0 →
          ¬ (-(exEngine 1 2).d_num_wavelet_ghosts 0 + (exEngine 1 2).d_p * 2 ^ li ≤ i ∧
            i < exDims 0 + (exEngine 1 2).d_num_wavelet_ghosts 0
              - (exEngine 1 2).d_p * 2 ^ li) →
          valAt (level st.f_x li) (i + coefGhosts (exCoefs 1 7) 0) = 0 ∧
          valAt (level st.w li) (i + coefGhosts (exCoefs 1 7) 0) = 0) :=
  ⟨exEngine_ok 1 (Or.inl rfl),
    exPre 1 (Or.inl rfl) (Or.inl rfl) 7 (by decide) exStep (by decide) false,
    C23_window_1D ratSqrt _ _ _ _ _ 0 false 2 2 (exEngine_ok 1 (Or.inl rfl))
      (exPre 1 (Or.inl rfl) (Or.inl rfl) 7 (by decide) exStep (by decide) false)⟩

/-! ## Polynomial fields in 1-D -/

/-- The stencil values depend on the samples at the stencil points only. -/
theorem stencil_congr {k : Int} (hk : k = 2 ∨ k = 4) (src src2 : Int → ℚ) (s i : Int)
    (h : ∀ m : Int, -halfWidth k ≤ m → m ≤ halfWidth k → src (i + m * s) = src2 (i + m * s)) :
    lowVal k src s i = lowVal k src2 s i ∧ highVal k src s i = highVal k src2 s i ∧
      sumVal k src s i = sumVal k src2 s i := by
  rcases hk with rfl | rfl
  · have e1 : src (i - s) = src2 (i - s) := by
      have := h (-1) (by decide) (by decide)
      rwa [show i + -1 * s = i - s by ring] at this
    have e2 : src i = src2 i := by
      have := h 0 (by decide) (by decide)
      rwa [show i + 0 * s = i by ring] at this
    have e3 : src (i + s) = src2 (i + s) := by
      have := h 1 (by decide) (by decide)
      rwa [show i + 1 * s = i + s by ring] at this
    refine ⟨?_, ?_, ?_⟩ <;> simp only [lowVal, highVal, sumVal, if_true, e1, e2, e3]
  · have h42 : ¬ ((4 : Int) = 2) := by decide
    have e0 : src (i - 2 * s) = src2 (i - 2 * s) := by
      have := h (-2) (by decide) (by decide)
      rwa [show i + -2 * s = i - 2 * s by ring] at this
    have e1 : src (i - s) = src2 (i - s) := by
      have := h (-1) (by decide) (by decide)
      rwa [show i + -1 * s = i - s by ring] at this
    have e2 : src i = src2 i := by
      have := h 0 (by decide) (by decide)
      rwa [show i + 0 * s = i by ring] at this
    have e3 : src (i + s) = src2 (i + s) := by
      have := h 1 (by decide) (by decide)
      rwa [show i + 1 * s = i + s by ring] at this
    have e4 : src (i + 2 * s) = src2 (i + 2 * s) := by
      have := h 2 (by decide) (by decide)
      rwa [show i + 2 * s = i + 2 * s by ring] at this
    refine ⟨?_, ?_, ?_⟩ <;>
      simp only [lowVal, highVal, sumVal, h42, if_false, e0, e1, e2, e3, e4]

/-- The low-pass stencil reproduces and the high-pass stencil annihilates
polynomials of degree at most 1 (`k = 2`) or at most 3 (`k = 4`), at every
step `s`. -/
theorem stencil_poly {k : Int} (hk : k = 2 ∨ k = 4) (a0 a1 a2 a3 : ℚ)
    (hdeg : k = 2 → a2 = 0 ∧ a3 = 0) (s i : Int) :
    lowVal k (fun j : Int => a0 + a1 * (j : ℚ) + a2 * (j : ℚ) ^ 2 + a3 * (j : ℚ) ^ 3) s i
        = a0 + a1 * (i : ℚ) + a2 * (i : ℚ) ^ 2 + a3 * (i : ℚ) ^ 3 ∧
      highVal k (fun j : Int => a0 + a1 * (j : ℚ) + a2 * (j : ℚ) ^ 2 + a3 * (j : ℚ) ^ 3) s i
        = 0 := by
  rcases hk with rfl | rfl
  · obtain ⟨h2, h3⟩ := hdeg rfl
    subst h2
    subst h3
    simp only [lowVal, highVal, if_true]
    push_cast
    constructor <;> ring
  · have h42 : ¬ ((4 : Int) = 2) := by decide
    simp only [lowVal, highVal, h42, if_false]
    push_cast
    constructor <;> ring

/-- Cascade along one line on samples of a function `P` that the low-pass
stencil reproduces: on the cells of level `li` whose dependencies all lie in
computed windows every sample the stencil reads is the value of `P` there and
the scaling value is `P i`. -/
theorem cascade_fun {k : Int} (hk : k = 2 ∨ k = 4) {p G M : Int} {L : Nat}
    (hp : p = halfWidth k) (F src : Nat → Int → ℚ) (P : Int → ℚ)
    (hrep : ∀ s i : Int, lowVal k P s i = P i)
    (hF : ∀ li, li < L → ∀ i, -G + p * 2 ^ li ≤ i → i < M + G - p * 2 ^ li →
      F li i = lowVal k (src li) (2 ^ li) i)
    (h0 : ∀ j, -G ≤ j → j < M + G → src 0 j = P j)
    (hS : ∀ li, 1 ≤ li → ∀ j, src li j = F (li - 1) j) :
    ∀ li, li < L →
      (∀ i, -G + p * (2 ^ (li + 1) - 1) ≤ i → i < M + G - p * (2 ^ (li + 1) - 1) →
        ∀ m : Int, -p ≤ m → m ≤ p → src li (i + m * 2 ^ li) = P (i + m * 2 ^ li)) ∧
      (∀ i, -G + p * (2 ^ (li + 1) - 1) ≤ i → i < M + G - p * (2 ^ (li + 1) - 1) →
        F li i = P i) := by
  have hp12 : p = 1 ∨ p = 2 := by
    rcases hk with rfl | rfl
    · exact Or.inl hp
    · exact Or.inr hp
  have part2 : ∀ li, li < L →
      (∀ i, -G + p * (2 ^ (li + 1) - 1) ≤ i → i < M + G - p * (2 ^ (li + 1) - 1) →
        ∀ m : Int, -p ≤ m → m ≤ p → src li (i + m * 2 ^ li) = P (i + m * 2 ^ li)) →
      (∀ i, -G + p * (2 ^ (li + 1) - 1) ≤ i → i < M + G - p * (2 ^ (li + 1) - 1) →
        F li i = P i) := by
    intro li hli h1 i hi1 hi2
    have e1 : (2 : Int) ^ (li + 1) = 2 * 2 ^ li := by ring
    have e2 : (1 : Int) ≤ 2 ^ li := one_le_pow₀ (by norm_num)
    have hwin : -G + p * 2 ^ li ≤ i ∧ i < M + G - p * 2 ^ li := by
      rcases hp12 with rfl | rfl <;> constructor <;> omega
    rw [hF li hli i hwin.1 hwin.2, ← hrep (2 ^ li) i]
    exact (stencil_congr hk (src li) P (2 ^ li) i (fun m hm1 hm2 =>
      h1 i hi1 hi2 m (by rw [hp]; exact hm1) (by rw [hp]; exact hm2))).1
  intro li
  induction li with
  | zero =>
    intro hli
    have h1 : ∀ i, -G + p * (2 ^ (0 + 1) - 1) ≤ i → i < M + G - p * (2 ^ (0 + 1) - 1) →
        ∀ m : Int, -p ≤ m → m ≤ p → src 0 (i + m * 2 ^ 0) = P (i + m * 2 ^ 0) := by
      intro i hi1 hi2 m hm1 hm2
      have e : (2 : Int) ^ (0 + 1) = 2 := by norm_num
      rw [e] at hi1 hi2
      apply h0
      · simp only [pow_zero, mul_one]
        rcases hp12 with rfl | rfl <;> omega
      · simp only [pow_zero, mul_one]
        rcases hp12 with rfl | rfl <;> omega
    exact ⟨h1, part2 0 hli h1⟩
  | succ n ih =>
    intro hli
    obtain ⟨_, ih2⟩ := ih (by omega)
    have h1 : ∀ i, -G + p * (2 ^ (n + 1 + 1) - 1) ≤ i →
        i < M + G - p * (2 ^ (n + 1 + 1) - 1) →
        ∀ m : Int, -p ≤ m → m ≤ p →
          src (n + 1) (i + m * 2 ^ (n + 1)) = P (i + m * 2 ^ (n + 1)) := by
      intro i hi1 hi2 m hm1 hm2
      rw [hS (n + 1) (by omega)]
      have e1 : (2 : Int) ^ (n + 1 + 1) = 2 * 2 ^ (n + 1) := by ring
      have e2 : (1 : Int) ≤ 2 ^ (n + 1) := one_le_pow₀ (by norm_num)
      apply ih2
      · rcases hp12 with rfl | rfl <;> interval_cases m <;> omega
      · rcases hp12 with rfl | rfl <;> interval_cases m <;> omega
    exact ⟨h1, part2 (n + 1) hli h1⟩

/-- C25: in 1-D, if the field the cascade reads equals a polynomial
`P(i) = a0 + a1*i + a2*i^2 + a3*i^3` at every allocated cell (ghosts included),
of degree at most 1 for `k = 2` and at most 3 for `k = 4`, then the call
completes and for every level `li < L` the scaling coefficient equals `P(i)` and
the wavelet coefficient is exactly 0 at every interior cell `i` in `[0, N)`. -/
theorem C25_polynomial_1D (sqrt : ℚ → ℚ) (wt : WaveletTransformHarten) (N : IntVector)
    (cd : CellData) (wcs means : List CellData) (depth : Nat) (smooth : Bool) (L k : Int)
    (hwt : WaveletTransformHarten.new 1 L k = Except.ok wt)
    (hpre : Pre wt N cd wcs means depth) (f : Arr)
    (hin : inputOf wt N cd depth smooth 0 = some f) (a0 a1 a2 a3 : ℚ)
    (hdeg : k = 2 → a2 = 0 ∧ a3 = 0)
    (hpoly : ∀ i : Int, -cd.ghosts 0 ≤ i → i < N 0 + cd.ghosts 0 →
      valAt f (i + cd.ghosts 0) = a0 + a1 * (i : ℚ) + a2 * (i : ℚ) ^ 2 + a3 * (i : ℚ) ^ 3) :
    ∃ st, transformBody sqrt wt N cd wcs means depth smooth = Except.ok st ∧
      ∀ li, li < wt.d_num_level → ∀ i : Int, 0 ≤ i → i < N 0 →
        valAt (level st.f_x li) (i + coefGhosts wcs 0)
          = a0 + a1 * (i : ℚ) + a2 * (i : ℚ) ^ 2 + a3 * (i : ℚ) ^ 3 ∧
        valAt (level st.w li) (i + coefGhosts wcs 0) = 0 := by
  obtain ⟨hk, _, hd, _, hdk, hp, _, _⟩ := new_ok hwt
  obtain ⟨hp1, _, _, hGeq, _⟩ := ghost_nonneg hwt 0
  obtain ⟨st, f2, hst, hin2, _, hinv⟩ := transformBody_1D sqrt smooth hwt hd hpre
  have e2 : f2 = f := by
    rw [hin] at hin2
    exact (Option.some.inj hin2).symm
  subst e2
  have hG := hpre.ghosts_coef 0 (by omega)
  have hg := hpre.ghosts_cell 0 (by omega)
  have hkk : wt.d_k = 2 ∨ wt.d_k = 4 := by rw [hdk]; exact hk
  have hdeg2 : wt.d_k = 2 → a2 = 0 ∧ a3 = 0 := by rw [hdk]; exact hdeg
  have hcas := cascade_fun hkk (p := wt.d_p) (G := wt.d_num_wavelet_ghosts 0) (M := N 0)
    (L := wt.d_num_level) (by rw [hp, hdk])
    (fun li i => valAt (level st.f_x li) (i + coefGhosts wcs 0))
    (fun li j => lowIn1D cd.ghosts (coefGhosts wcs) f2 st.f_x li j)
    (fun j : Int => a0 + a1 * (j : ℚ) + a2 * (j : ℚ) ^ 2 + a3 * (j : ℚ) ^ 3)
    (fun s i => (stencil_poly hkk a0 a1 a2 a3 hdeg2 s i).1)
    (fun li hli i h1 h2 => (hinv.2.2.2.2.1 li hli).1.2.1 i ⟨h1, h2⟩)
    (fun j h1 h2 => by
      dsimp only
      rw [lowIn1D_zero]
      exact hpoly j (by omega) (by omega))
    (fun li hli j => by
      dsimp only
      rw [lowIn1D_succ _ _ _ _ hli])
  refine ⟨st, hst, fun li hli i hi1 hi2 => ?_⟩
  obtain ⟨hsrc, hF⟩ := hcas li hli
  have hv := valid_le_ghost (p := wt.d_p) (by omega) hli
  rw [← hGeq] at hv
  have e1 : (2 : Int) ^ (li + 1) = 2 * 2 ^ li := by ring
  have e2 : (1 : Int) ≤ 2 ^ li := one_le_pow₀ (by norm_num)
  have hmul : wt.d_p * (2 ^ (li + 1) - 1) = 2 * (wt.d_p * 2 ^ li) - wt.d_p := by
    rw [e1]
    ring
  have hpos : wt.d_p ≤ wt.d_p * 2 ^ li := le_mul_of_one_le_right (by omega) e2
  have hhw : halfWidth wt.d_k = wt.d_p := by rw [hp, hdk]
  refine ⟨hF i (by omega) (by omega), ?_⟩
  have hwin : -wt.d_num_wavelet_ghosts 0 + wt.d_p * 2 ^ li ≤ i ∧
      i < N 0 + wt.d_num_wavelet_ghosts 0 - wt.d_p * 2 ^ li := by
    constructor <;> omega
  have hc := (stencil_congr hkk (lowIn1D cd.ghosts (coefGhosts wcs) f2 st.f_x li)
    (fun j : Int => a0 + a1 * (j : ℚ) + a2 * (j : ℚ) ^ 2 + a3 * (j : ℚ) ^ 3) (2 ^ li) i
    (fun m hm1 hm2 =>
      hsrc i (by omega) (by omega) m (by rw [← hhw]; exact hm1)
        (by rw [← hhw]; exact hm2))).2.1
  rw [(hinv.2.2.2.2.1 li hli).2.1.2.1 i hwin]
  dsimp only
  rw [hc, (stencil_poly hkk a0 a1 a2 a3 hdeg2 (2 ^ li) i).2, abs_zero]

theorem exCubic_vals (i : Int) (h1 : -(exField 14 exCubic).ghosts 0 ≤ i)
    (h2 : i < exDims 0 + (exField 14 exCubic).ghosts 0) :
    valAt exCubic (i + (exField 14 exCubic).ghosts 0)
      = 0 + 0 * (i : ℚ) + 0 * (i : ℚ) ^ 2 + 1 * (i : ℚ) ^ 3 := by
  have hg : (exField 14 exCubic).ghosts 0 = 14 := rfl
  have hN : exDims 0 = 8 := rfl
  rw [hg] at h1 h2 ⊢
  rw [hN] at h2
  have hlt : (i + 14).toNat < 36 := by omega
  unfold valAt exCubic
  rw [if_pos (by omega), List.getD_eq_getElem?_getD, List.getElem?_map,
    List.getElem?_range hlt]
  have hc : (((i + 14).toNat : Nat) : ℚ) = (i : ℚ) + 14 := by
    have : (((i + 14).toNat : Nat) : Int) = i + 14 := Int.toNat_of_nonneg (by omega)
    exact_mod_cast this
  simp [hc]

theorem exCubic_length : (exCubic.length : Int) = boxSize 1 (fun _ => 8 + 2 * 14) := by
  unfold exCubic
  rw [List.length_map, List.length_range]
  rfl

theorem C25_polynomial_1D_witness :
    WaveletTransformHarten.new 1 2 4 = Except.ok (exEngine 1 4) ∧
    Pre (exEngine 1 4) exDims (exField 14 exCubic) (exCoefs 1 14) [] 0 ∧
    inputOf (exEngine 1 4) exDims (exField 14 exCubic) 0 false 0 = some exCubic ∧
    ((4 : Int) = 2 → (0 : ℚ) = 0 ∧ (1 : ℚ) = 0) ∧
    (∀ i : Int, -(exField 14 exCubic).ghosts 0 ≤ i →
      i < exDims 0 + (exField 14 exCubic).ghosts 0 →
      valAt exCubic (i + (exField 14 exCubic).ghosts 0)
        = 0 + 0 * (i : ℚ) + 0 * (i : ℚ) ^ 2 + 1 * (i : ℚ) ^ 3) ∧
    ∃ st, transformBody ratSqrt (exEngine 1 4) exDims (exField 14 exCubic) (exCoefs 1 14) []
        0 false = Except.ok st ∧
      ∀ li, li < (exEngine 1 4).d_num_level → ∀ i : Int, 0 ≤ i → i < exDims 0 →
        valAt (level st.f_x li) (i + coefGhosts (exCoefs 1 14) 0)
          = 0 + 0 * (i : ℚ) + 0 * (i : ℚ) ^ 2 + 1 * (i : ℚ) ^ 3 ∧
        valAt (level st.w li) (i + coefGhosts (exCoefs 1 14) 0) = 0 :=
  ⟨exEngine_ok 1 (Or.inr rfl),
    exPre 1 (Or.inr rfl) (Or.inl rfl) 14 (by decide) exCubic exCubic_length false,
    rfl, fun h => absurd h (by decide), exCubic_vals,
    C25_polynomial_1D ratSqrt _ _ _ _ _ 0 false 2 4 (exEngine_ok 1 (Or.inr rfl))
      (exPre 1 (Or.inr rfl) (Or.inl rfl) 14 (by decide) exCubic exCubic_length false)
      exCubic rfl 0 0 0 1 (fun h => absurd h (by decide)) exCubic_vals⟩

/-! ## Smoothing as a replacement of the level-0 input -/

/-- The 1-D branch depends on the cell data, the depth and the smoothing flag
only through the input buffer selected for axis 0. -/
theorem transform1D_congr (wt : WaveletTransformHarten) (N gc gw : IntVector)
    (cd1 cd2 : CellData) (d1 d2 : Nat) (s1 s2 : Bool) (sm1 sm2 : Option CellData)
    (comp : Bool) (w m : List Arr)
    (h : selectInput s1 sm1 cd1 d1 0 = selectInput s2 sm2 cd2 d2 0) :
    transform1D wt N gc gw cd1 d1 s1 sm1 comp w m
      = transform1D wt N gc gw cd2 d2 s2 sm2 comp w m := by
  unfold transform1D level0_1D
  simp only [h]

/-- C26: in 1-D, for `k = 2` and `k = 4` and every input field, the smoothing
completes and the transform run with smoothing enabled returns the same result,
wavelet-coefficient and local-mean fields of every level included, as the
transform run with smoothing disabled on the field returned by
`smoothCellData` (its component 0), on the same output fields. -/
theorem C26_smoothing_replaces_input_1D (sqrt : ℚ → ℚ) (wt : WaveletTransformHarten)
    (N : IntVector) (cd : CellData) (wcs means : List CellData) (depth : Nat) (L k : Int)
    (hwt : WaveletTransformHarten.new 1 L k = Except.ok wt)
    (hpre : Pre wt N cd wcs means depth) :
    ∃ sm st, smoothCellData wt N cd depth = some sm ∧
      transformBody sqrt wt N cd wcs means depth true = Except.ok st ∧
      transformBody sqrt wt N sm wcs means 0 false = Except.ok st := by
  obtain ⟨_, _, hd, _, _, _, _, _⟩ := new_ok hwt
  obtain ⟨_, _, _, _, hL⟩ := ghost_nonneg hwt 0
  obtain ⟨f, hf, hlen⟩ := hpre.input
  obtain ⟨sm, hsm, hg, hn, hF⟩ := smoothCellData_spec wt N cd depth f hpre.dim hf hlen
  have hnn : 0 ≤ boxSize wt.d_dim (fun d => N d + 2 * cd.ghosts d) := by
    have e : boxSize wt.d_dim (fun d => N d + 2 * cd.ghosts d) = (f.length : Int) :=
      hlen.symm
    rw [e]
    exact Int.natCast_nonneg _
  have hget : sm.getPointer 0 = some (level sm.data 0) := by
    unfold CellData.getPointer
    exact getElem?_level (by rw [hn, hd]; omega)
  have hpre2 : Pre wt N sm wcs means 0 :=
    { dim := hpre.dim
      interior := hpre.interior
      ghosts_cell := fun d hd0 => by rw [hg]; exact hpre.ghosts_cell d hd0
      ghosts_coef := hpre.ghosts_coef
      input := ⟨level sm.data 0, hget, by
        rw [(hF 0 (by rw [hd]; omega)).1, zeros_length hnn]
        unfold CellData.ghostBoxDims
        rw [hg]⟩
      count := hpre.count
      coefs := hpre.coefs
      means := hpre.means }
  obtain ⟨st, _, hst, _⟩ := transformBody_1D sqrt true hwt hd hpre
  refine ⟨sm, st, hsm, hst, ?_⟩
  rw [← hst, (transformBody_unfold sqrt wt N cd wcs means depth true hpre (by omega)).2,
    (transformBody_unfold sqrt wt N sm wcs means 0 false hpre2 (by omega)).2]
  simp only [hd, if_true]
  rw [hg]
  apply transform1D_congr
  simp [selectInput, smoothedOf, hsm]

theorem C26_smoothing_replaces_input_1D_witness :
    WaveletTransformHarten.new 1 2 2 = Except.ok (exEngine 1 2) ∧
    Pre (exEngine 1 2) exDims (exField 7 exStep) (exCoefs 1 7) (exCoefs 1 7) 0 ∧
    ∃ sm st, smoothCellData (exEngine 1 2) exDims (exField 7 exStep) 0 = some sm ∧
      transformBody ratSqrt (exEngine 1 2) exDims (exField 7 exStep) (exCoefs 1 7)
        (exCoefs 1 7) 0 true = Except.ok st ∧
      transformBody ratSqrt (exEngine 1 2) exDims sm (exCoefs 1 7) (exCoefs 1 7) 0 false
        = Except.ok st :=
  ⟨exEngine_ok 1 (Or.inl rfl),
    exPre 1 (Or.inl rfl) (Or.inl rfl) 7 (by decide) exStep (by decide) true,
    C26_smoothing_replaces_input_1D ratSqrt _ _ _ _ _ 0 2 2 (exEngine_ok 1 (Or.inl rfl))
      (exPre 1 (Or.inl rfl) (Or.inl rfl) 7 (by decide) exStep (by decide) true)⟩

/-! ## Determinism of the outputs -/

/-- A buffer filled on a window from a given buffer is determined by the values
on the window. -/
theorem Filled.unique {C : Type} {win : C → Prop} {ix : C → Int} {v v2 : C → ℚ}
    {a b b2 : Arr} (h : Filled win ix v a b) (h2 : Filled win ix v2 a b2)
    (hv : ∀ c, win c → v c = v2 c) : b = b2 := by
  apply Arr_ext (by rw [h.1, h2.1])
  intro n _
  by_cases hn : ∃ c, win c ∧ ix c = (n : Int)
  · obtain ⟨c, hc, e⟩ := hn
    rw [← e, h.2.1 c hc, h2.2.1 c hc, hv c hc]
  · have hne : ∀ c, win c → ix c ≠ (n : Int) := fun c hc e => hn ⟨c, hc, e⟩
    rw [h.2.2 _ hne, h2.2.2 _ hne]

theorem level_ext {xs ys : List Arr} (hl : xs.length = ys.length)
    (h : ∀ li, li < xs.length → level xs li = level ys li) : xs = ys := by
  apply List.ext_getElem hl
  intro n h1 h2
  have e1 := getElem?_level h1
  have e2 := getElem?_level h2
  rw [List.getElem?_eq_getElem h1] at e1
  rw [List.getElem?_eq_getElem h2] at e2
  rw [Option.some.inj e1, Option.some.inj e2]
  exact h n h1

/-- Two final states of the 1-D transform on the same input buffer and the same
zero-filled output buffers agree on the scaling and wavelet buffers, and on the
local means of the interior cells. -/
theorem determined_1D {wt : WaveletTransformHarten} {N gc gw : IntVector} {f : Arr}
    {w0 w0b m0 m0b : List Arr} {comp : Bool} {st st2 : State}
    (h : Inv1D wt N gc gw f w0 m0 comp wt.d_num_level st)
    (h2 : Inv1D wt N gc gw f w0b m0b comp wt.d_num_level st2)
    (hw : ∀ li, li < wt.d_num_level → level w0 li = level w0b li) :
    st.f_x = st2.f_x ∧ st.w = st2.w ∧
      (comp = true → ∀ li, li < wt.d_num_level → ∀ i : Int, 0 ≤ i → i < N 0 →
        valAt (level st.f_mean li) (i + gw 0) = valAt (level st2.f_mean li) (i + gw 0)) := by
  have hfx : ∀ n li, li ≤ n → li < wt.d_num_level → level st.f_x li = level st2.f_x li := by
    intro n
    induction n with
    | zero =>
      intro li hle hli
      have e : li = 0 := by omega
      subst e
      have a := (h.2.2.2.2.1 0 hli).1
      have b := (h2.2.2.2.2.1 0 hli).1
      refine Filled.unique a b (fun c _ => ?_)
      dsimp only
      rw [@lowIn1D_congr gc gw f st2.f_x st.f_x 0 (fun h0 => absurd rfl h0)]
    | succ n ih =>
      intro li hle hli
      by_cases e : li ≤ n
      · exact ih li e hli
      · have e2 : li = n + 1 := by omega
        subst e2
        have a := (h.2.2.2.2.1 (n + 1) hli).1
        have b := (h2.2.2.2.2.1 (n + 1) hli).1
        refine Filled.unique a b (fun c _ => ?_)
        dsimp only
        rw [@lowIn1D_congr gc gw f st2.f_x st.f_x (n + 1)
          (fun _ => ih (n + 1 - 1) (by omega) (by omega))]
  have hsrc : ∀ li, li < wt.d_num_level →
      lowIn1D gc gw f st.f_x li = lowIn1D gc gw f st2.f_x li := by
    intro li hli
    exact lowIn1D_congr (fun _ => hfx (li - 1) (li - 1) (le_refl _) (by omega))
  refine ⟨level_ext (by rw [h.1, h2.1]) (fun li hli => hfx li li (le_refl _) (by rw [← h.1]; exact hli)),
    level_ext (by rw [h.2.1, h2.2.1]) (fun li hli => ?_), fun hc li hli i hi1 hi2 => ?_⟩
  · have hli2 : li < wt.d_num_level := by rw [← h.2.1]; exact hli
    have a := (h.2.2.2.2.1 li hli2).2.1
    have b := (h2.2.2.2.2.1 li hli2).2.1
    rw [← hw li hli2] at b
    refine Filled.unique a b (fun c _ => ?_)
    dsimp only
    rw [hsrc li hli2]
  · have a := ((h.2.2.2.2.1 li hli).2.2 hc).2.1 i ⟨hi1, hi2⟩
    have b := ((h2.2.2.2.2.1 li hli).2.2 hc).2.1 i ⟨hi1, hi2⟩
    rw [a, b]
    dsimp only
    rw [hsrc li hli]

/-- Two final states of the 2-D or 3-D transform on the same input buffers and
the same zero-filled output buffers agree on the wavelet coefficients, and on
the local means of the interior cells. -/
theorem determined_ND {sqrt : ℚ → ℚ} {dim : Nat} (hdim : dim = 2 ∨ dim = 3)
    {wt : WaveletTransformHarten} {N gc gw : IntVector} {fin : Nat → Arr}
    {w0 w0b m0 m0b : List Arr} {comp : Bool} {st1 st st1b stb : State}
    (h : InvAxes sqrt dim wt N gc gw fin w0 m0 comp wt.d_num_level st1)
    (hc : InvComb sqrt dim wt N gw w0 st1 wt.d_num_level st)
    (h2 : InvAxes sqrt dim wt N gc gw fin w0b m0b comp wt.d_num_level st1b)
    (hc2 : InvComb sqrt dim wt N gw w0b st1b wt.d_num_level stb)
    (hw : ∀ li, li < wt.d_num_level → level w0 li = level w0b li) :
    st.w = stb.w ∧
      (comp = true → ∀ li, li < wt.d_num_level → ∀ x, InBox dim (fun _ => 0) N x →
        valAt (level st.f_mean li) (linIdx dim gw (fun d => N d + 2 * gw d) x)
          = valAt (level stb.f_mean li) (linIdx dim gw (fun d => N d + 2 * gw d) x)) := by
  obtain ⟨_, _, _, hax, _, _⟩ := h
  obtain ⟨_, _, _, hax2, _, _⟩ := h2
  have hfx : ∀ n li, li ≤ n → li < wt.d_num_level → ∀ a, a < dim →
      level (st1.fAx a) li = level (st1b.fAx a) li := by
    intro n
    induction n with
    | zero =>
      intro li hle hli a ha
      have e : li = 0 := by omega
      subst e
      have p := ((hax 0 hli).1 a ha).1
      have q := ((hax2 0 hli).1 a ha).1
      refine Filled.unique p q (fun c _ => ?_)
      dsimp only
      rw [lowIn_zero, lowIn_zero]
    | succ n ih =>
      intro li hle hli a ha
      by_cases e : li ≤ n
      · exact ih li e hli a ha
      · have e2 : li = n + 1 := by omega
        subst e2
        have p := ((hax (n + 1) hli).1 a ha).1
        have q := ((hax2 (n + 1) hli).1 a ha).1
        refine Filled.unique p q (fun c _ => ?_)
        dsimp only
        rw [@lowIn_congr dim N gc gw (fin a) (st1b.fAx a) (st1.fAx a) (n + 1)
          (fun _ => ih (n + 1 - 1) (by omega) (by omega) a ha) c a]
  have hprev : ∀ li, li < wt.d_num_level → ∀ a, a < dim → li ≠ 0 →
      level (st1.fAx a) (li - 1) = level (st1b.fAx a) (li - 1) :=
    fun li hli a ha _ => hfx (li - 1) (li - 1) (le_refl _) (by omega) a ha
  have hwx : ∀ li, li < wt.d_num_level → ∀ a, a < dim →
      level (st1.wAx a) li = level (st1b.wAx a) li := by
    intro li hli a ha
    have p := ((hax li hli).1 a ha).2
    have q := ((hax2 li hli).1 a ha).2
    refine Filled.unique p q (fun c _ => ?_)
    dsimp only
    rw [@lowIn_congr dim N gc gw (fin a) (st1b.fAx a) (st1.fAx a) li (hprev li hli a ha) c a]
  obtain ⟨_, _, _, ewx, ewy, ewz, emean, hlen, _, hdone, _⟩ := hc
  obtain ⟨_, _, _, ewx2, ewy2, ewz2, emean2, hlen2, _, hdone2, _⟩ := hc2
  refine ⟨level_ext (by rw [hlen, hlen2]) (fun li hli => ?_), fun hcomp li hli x hx => ?_⟩
  · have hli2 : li < wt.d_num_level := by rw [← hlen]; exact hli
    have p := hdone li hli2
    have q := hdone2 li hli2
    unfold CombLevel at p q
    rw [← hw li hli2] at q
    refine Filled.unique p q (fun c _ => congrFun (combVal_congr hdim (fun a ha => ?_)) c)
    rw [wAx_congr ewx ewy ewz a, wAx_congr ewx2 ewy2 ewz2 a]
    exact hwx li hli2 a ha
  · rw [emean, emean2, ((hax li hli).2 hcomp).2.1 x hx, ((hax2 li hli).2 hcomp).2.1 x hx]
    rw [meanVal_congr hdim (fun a ha h0 => hprev li hli a ha h0)]

/-! ## Outputs as a function of the inputs -/

/-- Call conditions of the 1-D example call whose local-mean fields hold 1
everywhere before the call. -/
theorem exPre_dirty_means :
    Pre (exEngine 1 2) exDims (exField 7 exStep) (exCoefs 1 7) exDirty 0 := by
  have h := exPre 1 (Or.inl rfl : (2 : Int) = 2 ∨ _) (Or.inl rfl) 7 (by decide) exStep
    (by decide) false
  obtain ⟨hG, hd, hl⟩ := exEngine_ghosts 1 (Or.inl rfl : (2 : Int) = 2 ∨ _) 0
  refine ⟨h.dim, h.interior, h.ghosts_cell, h.ghosts_coef, h.input, h.count, h.coefs,
    Or.inr ⟨by rw [hl]; exact le_refl _, fun c hc => ?_⟩⟩
  have hc2 : c = exField 7 exOnes := by
    simpa [exDirty] using hc
  subst hc2
  refine ⟨_, rfl, ?_⟩
  rw [hd]
  rfl

/-- C22 (as stated, false): two calls of the 1-D example (`k = 2`, `L = 2`, same
input, smoothing off) whose local-mean fields held 0 everywhere before the first
call and 1 everywhere before the second leave different local-mean fields: at
the ghost cell `-7` (linear index 0) of level 0 the first holds 0 and the second
1, since the local means are written on the interior only and are not
initialised. -/
theorem C22_local_mean_ghost_cells_differ :
    ∃ st st2,
      transformBody ratSqrt (exEngine 1 2) exDims (exField 7 exStep) (exCoefs 1 7)
        (exCoefs 1 7) 0 false = Except.ok st ∧
      transformBody ratSqrt (exEngine 1 2) exDims (exField 7 exStep) (exCoefs 1 7)
        exDirty 0 false = Except.ok st2 ∧
      valAt (level st.f_mean 0) (-7 + coefGhosts (exCoefs 1 7) 0) = 0 ∧
      valAt (level st2.f_mean 0) (-7 + coefGhosts (exCoefs 1 7) 0) = 1 := by
  obtain ⟨_, _, hl, _, hd⟩ := exEngine_one_two
  obtain ⟨st, _, hst, _, _, hinv⟩ := transformBody_1D ratSqrt false
    (exEngine_ok 1 (Or.inl rfl))  hd
    (exPre 1 (Or.inl rfl) (Or.inl rfl) 7 (by decide) exStep (by decide) true)
  obtain ⟨st2, _, hst2, _, _, hinv2⟩ := transformBody_1D ratSqrt false
    (exEngine_ok 1 (Or.inl rfl)) hd exPre_dirty_means
  have hgw : coefGhosts (exCoefs 1 7) 0 = 7 := rfl
  have hne : ∀ c : Int, (0 ≤ c ∧ c < exDims 0) →
      (fun i => i + coefGhosts (exCoefs 1 7) 0) c ≠ -7 + coefGhosts (exCoefs 1 7) 0 := by
    intro c hc e
    dsimp only at e
    omega
  refine ⟨st, st2, hst, hst2, ?_, ?_⟩
  · rw [((hinv.2.2.2.2.1 0 (by rw [hl]; decide)).2.2 rfl).2.2 _ hne, hl]
    rfl
  · rw [((hinv2.2.2.2.2.1 0 (by rw [hl]; decide)).2.2 rfl).2.2 _ hne, hl]
    rfl

/-- C22 (amended): two calls of the transform on engines built with the same
`k`, `L` and dimension, on the same input field with the same smoothing flag,
with output fields of the same ghost width and local means supplied in both or
in neither, both complete and leave equal wavelet-coefficient fields at every
level over the whole allocated extent, whatever the output fields contained
before, and equal local means at every interior cell of every level. -/
theorem C22_outputs_determined (sqrt : ℚ → ℚ) (wt wt2 : WaveletTransformHarten)
    (N : IntVector) (cd : CellData) (wcs wcs2 means means2 : List CellData) (depth : Nat)
    (smooth : Bool) (dim : Nat) (L k : Int)
    (hwt : WaveletTransformHarten.new dim L k = Except.ok wt)
    (hwt2 : WaveletTransformHarten.new dim L k = Except.ok wt2)
    (hpre : Pre wt N cd wcs means depth) (hpre2 : Pre wt2 N cd wcs2 means2 depth)
    (hgw : coefGhosts wcs = coefGhosts wcs2) (hm : means.isEmpty = means2.isEmpty) :
    ∃ st st2, transformBody sqrt wt N cd wcs means depth smooth = Except.ok st ∧
      transformBody sqrt wt2 N cd wcs2 means2 depth smooth = Except.ok st2 ∧
      st.w = st2.w ∧
      (means.isEmpty = false → ∀ li, li < wt.d_num_level → ∀ x : IntVector,
        InBox dim (fun _ => 0) N x →
        valAt (level st.f_mean li)
            (linIdx dim (coefGhosts wcs) (fun d => N d + 2 * coefGhosts wcs d) x)
          = valAt (level st2.f_mean li)
            (linIdx dim (coefGhosts wcs) (fun d => N d + 2 * coefGhosts wcs d) x)) := by
  have e : wt2 = wt := by
    rw [hwt] at hwt2
    exact (Except.ok.inj hwt2).symm
  subst e
  obtain ⟨_, _, hd, _, _, _, _, _⟩ := new_ok hwt
  have hdim : dim = 1 ∨ dim = 2 ∨ dim = 3 := by rw [← hd]; exact hpre.dim
  obtain ⟨_, hw0⟩ := w0Of_facts hpre
  obtain ⟨_, hw02⟩ := w0Of_facts hpre2
  have hw : ∀ li, li < wt2.d_num_level →
      level (w0Of wcs wt2.d_num_level) li = level (w0Of wcs2 wt2.d_num_level) li := by
    intro li hli
    rw [(hw0 li hli).1, (hw02 li hli).1, hgw]
  have hc : (!means2.isEmpty) = (!means.isEmpty) := by rw [hm]
  by_cases h1 : dim = 1
  · subst h1
    obtain ⟨st, f, hst, hin, _, hinv⟩ := transformBody_1D sqrt smooth hwt hd hpre
    obtain ⟨st2, f2, hst2, hin2, _, hinv2⟩ := transformBody_1D sqrt smooth hwt hd hpre2
    have ef : f2 = f := by
      rw [hin] at hin2
      exact (Option.some.inj hin2).symm
    subst ef
    rw [← hgw, hc] at hinv2
    obtain ⟨_, ew, em⟩ := determined_1D hinv hinv2 hw
    refine ⟨st, st2, hst, hst2, ew, fun hne li hli x hx => ?_⟩
    have hx0 := hx 0 (by omega)
    dsimp only at hx0
    rw [linIdx_one]
    exact em (by rw [hne]; rfl) li hli (x 0) hx0.1 hx0.2
  · have hdim2 : dim = 2 ∨ dim = 3 := by omega
    have hd2 : wt2.d_dim = 2 ∨ wt2.d_dim = 3 := by rw [hd]; exact hdim2
    obtain ⟨s1, st, fin, hst, hfin, hinv, hcomb⟩ := transformBody_ND sqrt smooth hwt hd2 hpre
    obtain ⟨s2, st2, fin2, hst2, hfin2, hinv2, hcomb2⟩ :=
      transformBody_ND sqrt smooth hwt hd2 hpre2
    rw [hd] at hinv hcomb hinv2 hcomb2 hfin hfin2
    rw [← hgw, hc] at hinv2
    rw [← hgw] at hcomb2
    have hinv3 : InvAxes sqrt dim wt2 N cd.ghosts (coefGhosts wcs) fin
        (w0Of wcs2 wt2.d_num_level) (m0Of means2 wt2.d_num_level) (!means.isEmpty)
        wt2.d_num_level s2 := by
      obtain ⟨a1, a2, a3, a4, a5, a6⟩ := hinv2
      refine ⟨a1, a2, a3, fun li hli => ⟨fun a ha => ?_, fun hcm => ?_⟩, a5, a6⟩
      · have efa : fin2 a = fin a := by
          have p := (hfin a ha).1
          have q := (hfin2 a ha).1
          rw [p] at q
          exact (Option.some.inj q).symm
        rw [← efa]
        exact (a4 li hli).1 a ha
      · have efa : fin2 (dim - 1) = fin (dim - 1) := by
          have p := (hfin (dim - 1) (by omega)).1
          have q := (hfin2 (dim - 1) (by omega)).1
          rw [p] at q
          exact (Option.some.inj q).symm
        rw [← efa]
        exact (a4 li hli).2 hcm
    obtain ⟨ew, em⟩ := determined_ND hdim2 hinv hcomb hinv3 hcomb2 hw
    exact ⟨st, st2, hst, hst2, ew, fun hne li hli x hx => em (by rw [hne]; rfl) li hli x hx⟩

theorem C22_outputs_determined_witness :
    WaveletTransformHarten.new 1 2 2 = Except.ok (exEngine 1 2) ∧
    WaveletTransformHarten.new 1 2 2 = Except.ok (exEngine 1 2) ∧
    Pre (exEngine 1 2) exDims (exField 7 exStep) (exCoefs 1 7) (exCoefs 1 7) 0 ∧
    Pre (exEngine 1 2) exDims (exField 7 exStep) exDirty exDirty 0 ∧
    coefGhosts (exCoefs 1 7) = coefGhosts exDirty ∧
    (exCoefs 1 7).isEmpty = exDirty.isEmpty ∧
    ∃ st st2, transformBody ratSqrt (exEngine 1 2) exDims (exField 7 exStep) (exCoefs 1 7)
        (exCoefs 1 7) 0 true = Except.ok st ∧
      transformBody ratSqrt (exEngine 1 2) exDims (exField 7 exStep) exDirty exDirty 0 true
        = Except.ok st2 ∧
      st.w = st2.w ∧
      ((exCoefs 1 7).isEmpty = false → ∀ li, li < (exEngine 1 2).d_num_level →
        ∀ x : IntVector, InBox 1 (fun _ => 0) exDims x →
        valAt (level st.f_mean li)
            (linIdx 1 (coefGhosts (exCoefs 1 7))
              (fun d => exDims d + 2 * coefGhosts (exCoefs 1 7) d) x)
          = valAt (level st2.f_mean li)
            (linIdx 1 (coefGhosts (exCoefs 1 7))
              (fun d => exDims d + 2 * coefGhosts (exCoefs 1 7) d) x)) :=
  have hp2 : Pre (exEngine 1 2) exDims (exField 7 exStep) exDirty exDirty 0 :=
    ⟨exPre_dirty.dim, exPre_dirty.interior, exPre_dirty.ghosts_cell, exPre_dirty.ghosts_coef,
      exPre_dirty.input, exPre_dirty.count, exPre_dirty.coefs,
      Or.inr ⟨exPre_dirty.count, exPre_dirty.coefs⟩⟩
  ⟨exEngine_ok 1 (Or.inl rfl), exEngine_ok 1 (Or.inl rfl),
    exPre 1 (Or.inl rfl) (Or.inl rfl) 7 (by decide) exStep (by decide) true, hp2, rfl, rfl,
    C22_outputs_determined ratSqrt _ _ _ _ _ _ _ _ 0 true 1 2 2 (exEngine_ok 1 (Or.inl rfl))
      (exEngine_ok 1 (Or.inl rfl))
      (exPre 1 (Or.inl rfl) (Or.inl rfl) 7 (by decide) exStep (by decide) true) hp2 rfl rfl⟩

/-! ## Window of the combined coefficient -/

theorem exBumps_length : (exBumps.length : Int) = boxSize 2 (fun _ => 8 + 2 * 7) := by
  unfold exBumps
  rw [List.length_map, List.length_range]
  rfl

theorem exBumps_pointer : (exField 7 exBumps).getPointer 0 = some exBumps := by
  unfold exField CellData.getPointer
  exact List.getElem?_cons_zero

theorem exBumps_vals (x : IntVector)
    (hx : InBox 2 (fun d => -(exField 7 exBumps).ghosts d)
      (fun d => exDims d + (exField 7 exBumps).ghosts d) x) :
    valAt exBumps (linIdx 2 (exField 7 exBumps).ghosts
      (fun d => exDims d + 2 * (exField 7 exBumps).ghosts d) x) = exBumpsVal (x 0) := by
  have h0 := hx 0 (by omega)
  have h1 := hx 1 (by omega)
  have hg : ∀ d, (exField 7 exBumps).ghosts d = 7 := fun _ => rfl
  have hN : ∀ d, exDims d = 8 := fun _ => rfl
  simp only [hg, hN] at h0 h1
  have hlin : linIdx 2 (exField 7 exBumps).ghosts
      (fun d => exDims d + 2 * (exField 7 exBumps).ghosts d) x
      = (((x 0 + 7).toNat + (x 1 + 7).toNat * 22 : Nat) : Int) := by
    rw [linIdx_two]
    unfold lin2
    simp only [hg, hN]
    push_cast
    rw [Int.toNat_of_nonneg (by omega), Int.toNat_of_nonneg (by omega)]
  rw [hlin]
  unfold valAt
  rw [if_pos (Int.natCast_nonneg _), Int.toNat_natCast]
  have hlt : (x 0 + 7).toNat + (x 1 + 7).toNat * 22 < 484 := by omega
  unfold exBumps
  rw [List.getD_eq_getElem?_getD, List.getElem?_map, List.getElem?_range hlt]
  simp only [Option.map_some', Option.getD_some]
  rw [Nat.add_mul_mod_self_right, Nat.mod_eq_of_lt (by omega)]
  unfold exBumpsVal
  have e : ((x 0 + 7).toNat = 2 ∨ (x 0 + 7).toNat = 8) ↔ (x 0 = -5 ∨ x 0 = 1) := by
    constructor
    · intro h
      rcases h with h | h
      · left; omega
      · right; omega
    · intro h
      rcases h with h | h
      · left; omega
      · right; omega
  by_cases hc : x 0 = -5 ∨ x 0 = 1
  · rw [if_pos hc, if_pos (e.mpr hc)]
  · rw [if_neg hc, if_neg (fun h => hc (e.mp h))]

/-- Input buffer of a call without smoothing: the selected depth component. -/
theorem inputOf_raw (wt : WaveletTransformHarten) (N : IntVector) (cd : CellData)
    (depth a : Nat) : inputOf wt N cd depth false a = cd.getPointer depth := by
  simp [inputOf, selectInput]

/-- The combination box of level `li < L` is strictly inside every pass window:
`p*2^li + p*2^(li+1) < G`. -/
theorem comb_lt_pass {p : Int} (hp : 1 ≤ p) {li L : Nat} (h : li < L) (hL : 2 ≤ L) :
    p * 2 ^ li + p * 2 ^ (li + 1) < p * (2 ^ (L + 1) - 1) := by
  have h1 : (2 : Int) ^ (li + 1) ≤ 2 ^ L := pow_le_pow_right₀ (by norm_num) h
  have h2 : (2 : Int) ^ (L + 1) = 2 * 2 ^ L := by ring
  have h3 : (2 : Int) ^ (li + 1) = 2 * 2 ^ li := by ring
  have h4 : (1 : Int) ≤ 2 ^ li := one_le_pow₀ (by norm_num)
  have h6 : (2 : Int) ^ 2 ≤ 2 ^ L := pow_le_pow_right₀ (by norm_num) hL
  have h5 : (2 : Int) ^ li + 2 ^ (li + 1) < 2 ^ (L + 1) - 1 := by
    norm_num at h6
    omega
  calc p * 2 ^ li + p * 2 ^ (li + 1) = p * (2 ^ li + 2 ^ (li + 1)) := by ring
    _ < p * (2 ^ (L + 1) - 1) := mul_lt_mul_of_pos_left h5 (by omega)

/-- C24 (as stated, false): in the 2-D example (`k = 2`, `L = 2`, 8 x 8 interior
cells, 7 ghost cells, field 1 on the columns `i = -5` and `i = 1`) the cell
`(-5, 0)` lies in the level-0 window of the pass along each axis and the axis-0
wavelet value there is 1, but the combined coefficient is not written there: it
is left at 0. -/
theorem C24_cell_of_intersection_not_combined :
    ∃ st, transformBody ratSqrt (exEngine 2 2) exDims (exField 7 exBumps) (exCoefs 2 7) []
        0 false = Except.ok st ∧
      (∀ a, a < 2 → InBox 2 (passLo (exEngine 2 2) a 0) (passHi (exEngine 2 2) exDims a 0)
        (cell2 (-5) 0)) ∧
      valAt (level st.w_x 0) (linIdx 2 (coefGhosts (exCoefs 2 7))
        (fun d => exDims d + 2 * coefGhosts (exCoefs 2 7) d) (cell2 (-5) 0)) = 1 ∧
      valAt (level st.w 0) (linIdx 2 (coefGhosts (exCoefs 2 7))
        (fun d => exDims d + 2 * coefGhosts (exCoefs 2 7) d) (cell2 (-5) 0)) = 0 := by
  have hwt := exEngine_ok 2 (Or.inl rfl : (2 : Int) = 2 ∨ _)
  have hpre := exPre 2 (Or.inl rfl : (2 : Int) = 2 ∨ _) (Or.inr (Or.inl rfl)) 7 (by decide)
    exBumps exBumps_length false
  obtain ⟨_, _, hd, hl, hdk, hp, hq, hGa⟩ := new_ok hwt
  have hp1 : (exEngine 2 2).d_p = 1 := by rw [hp]; rfl
  have hq1 : (exEngine 2 2).d_q = 1 := by rw [hq]; rfl
  have hG : ∀ d, (exEngine 2 2).d_num_wavelet_ghosts d = 7 := fun d => by rw [hGa d]; rfl
  have hL : (exEngine 2 2).d_num_level = 2 := by rw [hl]; rfl
  obtain ⟨st1, st, fin, hst, hfin, hinv, hcomb⟩ :=
    transformBody_ND ratSqrt false hwt (Or.inl hd) hpre
  rw [hd] at hfin hinv hcomb
  obtain ⟨_, _, _, ewx, _, _, _, _, _, hdone, _⟩ := hcomb
  obtain ⟨_, _, _, hax, _, _⟩ := hinv
  obtain ⟨_, hw0⟩ := w0Of_facts hpre
  rw [hd] at hw0
  have hwin : ∀ a, a < 2 → InBox 2 (passLo (exEngine 2 2) a 0) (passHi (exEngine 2 2) exDims a 0)
      (cell2 (-5) 0) := by
    intro a ha d hd0
    have hN : exDims d = 8 := rfl
    unfold passLo passHi cell2
    rw [hG d, hp1, hN]
    have hd2 : d = 0 ∨ d = 1 := by omega
    have ha2 : a = 0 ∨ a = 1 := by omega
    rcases hd2 with rfl | rfl <;> rcases ha2 with rfl | rfl <;> simp
  have hf0 : fin 0 = exBumps := by
    have := (hfin 0 (by omega)).1
    rw [inputOf_raw, exBumps_pointer] at this
    exact (Option.some.inj this).symm
  have hsrc : ∀ c : Int, -7 ≤ c → c < 15 →
      lowIn 2 exDims (exField 7 exBumps).ghosts (coefGhosts (exCoefs 2 7)) (fin 0)
        (st1.fAx 0) 0 (cell2 (-5) 0) 0 c = exBumpsVal c := by
    intro c hc1 hc2
    rw [lowIn_zero, hf0]
    unfold lineOf
    rw [exBumps_vals]
    · rfl
    · intro d hd0
      have hd2 : d = 0 ∨ d = 1 := by omega
      rcases hd2 with rfl | rfl
      · exact ⟨hc1, hc2⟩
      · constructor <;> simp [moveTo, cell2, exField, exDims]
  refine ⟨st, hst, hwin, ?_, ?_⟩
  · have hW := ((hax 0 (by rw [hL]; decide)).1 0 (by omega)).2.2.1 (cell2 (-5) 0)
      (hwin 0 (by omega))
    have e : st.w_x = st1.wAx 0 := ewx
    rw [e, hW]
    dsimp only
    rw [hdk]
    simp only [highVal, if_true, pow_zero]
    have c0 : cell2 (-5) 0 0 = -5 := rfl
    rw [c0, hsrc (-5 - 1) (by decide) (by decide), hsrc (-5) (by decide) (by decide),
      hsrc (-5 + 1) (by decide) (by decide)]
    norm_num [exBumpsVal]
  · have hout : ¬ InBox 2 (fun _ => -(exEngine 2 2).d_p * 2 ^ (0 + 1))
        (fun d => exDims d + (exEngine 2 2).d_q * 2 ^ (0 + 1)) (cell2 (-5) 0) := by
      intro h
      have := (h 0 (by omega)).1
      rw [hp1] at this
      norm_num [cell2] at this
    have hsub : ∀ d, d < 2 →
        -coefGhosts (exCoefs 2 7) d ≤ (fun _ => -(exEngine 2 2).d_p * 2 ^ (0 + 1)) d ∧
          (fun d => exDims d + (exEngine 2 2).d_q * 2 ^ (0 + 1)) d
            ≤ exDims d + coefGhosts (exCoefs 2 7) d := by
      intro d _
      have hgw : coefGhosts (exCoefs 2 7) d = 7 := rfl
      dsimp only
      rw [hp1, hq1, hgw]
      norm_num
    have hxg : InBox 2 (fun d => -coefGhosts (exCoefs 2 7) d)
        (fun d => exDims d + coefGhosts (exCoefs 2 7) d) (cell2 (-5) 0) := by
      intro d hd0
      have hgw : coefGhosts (exCoefs 2 7) d = 7 := rfl
      have hN : exDims d = 8 := rfl
      have hd2 : d = 0 ∨ d = 1 := by omega
      dsimp only
      rw [hgw, hN]
      rcases hd2 with rfl | rfl <;> simp [cell2]
    rw [Filled.outside (Or.inr (Or.inl rfl)) (hdone 0 (by rw [hL]; decide)) hsub hxg hout,
      (hw0 0 (by rw [hL]; decide)).1, valAt_zeros]

/-- C24 (amended): in 2-D and 3-D, for every level `li < L`, the combined wavelet
coefficient is written exactly on the box `[-p*2^(li+1), N_a + q*2^(li+1))` of
every axis `a`: there it is the square root of the sum over the axes of the
squared per-axis wavelet values, and at the other allocated cells it is left at
0.  This box is contained in the window `[-G + p*2^li, N_a + G - p*2^li)` along
the axis (`[-G, N_a + G)` across it) of the pass along every axis, and strictly
so: the cell with the coordinate `-G + p*2^li` on every axis lies in the window
of every pass and outside the box. -/
theorem C24_combination_window (sqrt : ℚ → ℚ) (wt : WaveletTransformHarten) (N : IntVector)
    (cd : CellData) (wcs means : List CellData) (depth : Nat) (smooth : Bool)
    (dim : Nat) (L k : Int)
    (hwt : WaveletTransformHarten.new dim L k = Except.ok wt) (hdim : dim = 2 ∨ dim = 3)
    (hpre : Pre wt N cd wcs means depth) :
    ∃ st, transformBody sqrt wt N cd wcs means depth smooth = Except.ok st ∧
      ∀ li, li < wt.d_num_level →
        (∀ x : IntVector,
          InBox dim (fun _ => -wt.d_p * 2 ^ (li + 1)) (fun a => N a + wt.d_q * 2 ^ (li + 1)) x →
          (∀ a, a < dim → InBox dim (passLo wt a li) (passHi wt N a li) x) ∧
          valAt (level st.w li)
              (linIdx dim (coefGhosts wcs) (fun d => N d + 2 * coefGhosts wcs d) x)
            = sqrt (sumSq dim (fun a => valAt (level (st.wAx a) li)
                (linIdx dim (coefGhosts wcs) (fun d => N d + 2 * coefGhosts wcs d) x)))) ∧
        (∀ x : IntVector,
          InBox dim (fun d => -coefGhosts wcs d) (fun d => N d + coefGhosts wcs d) x →
          ¬ InBox dim (fun _ => -wt.d_p * 2 ^ (li + 1))
            (fun a => N a + wt.d_q * 2 ^ (li + 1)) x →
          valAt (level st.w li)
            (linIdx dim (coefGhosts wcs) (fun d => N d + 2 * coefGhosts wcs d) x) = 0) ∧
        (∀ a, a < dim → InBox dim (passLo wt a li) (passHi wt N a li)
          (fun d => -wt.d_num_wavelet_ghosts d + wt.d_p * 2 ^ li)) ∧
        ¬ InBox dim (fun _ => -wt.d_p * 2 ^ (li + 1)) (fun a => N a + wt.d_q * 2 ^ (li + 1))
          (fun d => -wt.d_num_wavelet_ghosts d + wt.d_p * 2 ^ li) := by
  obtain ⟨_, _, hd, _, _, hp, hq, _⟩ := new_ok hwt
  have hd2 : wt.d_dim = 2 ∨ wt.d_dim = 3 := by rw [hd]; exact hdim
  have hdim3 : dim = 1 ∨ dim = 2 ∨ dim = 3 := by omega
  have hqq : wt.d_q = wt.d_p := by rw [hq, hp]
  obtain ⟨st1, st, fin, hst, _, _, hcomb⟩ := transformBody_ND sqrt smooth hwt hd2 hpre
  rw [hd] at hcomb
  obtain ⟨_, _, _, _, _, _, _, _, _, hdone, _⟩ := hcomb
  obtain ⟨_, hw0⟩ := w0Of_facts hpre
  rw [hd] at hw0
  refine ⟨st, hst, fun li hli => ⟨fun x hx => ⟨fun a _ => comb_box_in_pass hwt N hli a hx, ?_⟩,
    fun x hx hout => ?_, fun a ha d hd0 => ?_, fun h => ?_⟩⟩
  · rw [(hdone li hli).2.1 x hx]
    rfl
  · have hsub : ∀ d, d < dim →
        -coefGhosts wcs d ≤ (fun _ => -wt.d_p * 2 ^ (li + 1)) d ∧
          (fun d => N d + wt.d_q * 2 ^ (li + 1)) d ≤ N d + coefGhosts wcs d := by
      intro d hd0
      obtain ⟨hp1, _, _, hGeq, _⟩ := ghost_nonneg hwt d
      have hG := hpre.ghosts_coef d (by rw [hd]; exact hd0)
      have hc1 := comb_in_pass (p := wt.d_p) (by omega) hli
      have hc2 : (0 : Int) ≤ wt.d_p * 2 ^ li := by positivity
      have hneg : -wt.d_p * 2 ^ (li + 1) = -(wt.d_p * 2 ^ (li + 1)) := by ring
      dsimp only
      rw [hqq]
      constructor <;> omega
    rw [Filled.outside hdim3 (hdone li hli) hsub hx hout, (hw0 li hli).1, valAt_zeros]
  · obtain ⟨hp1, _, _, hGeq, hL2⟩ := ghost_nonneg hwt d
    have hc1 := comb_in_pass (p := wt.d_p) (by omega) hli
    have hc2 : (0 : Int) ≤ wt.d_p * 2 ^ (li + 1) := by positivity
    have hc3 : (0 : Int) ≤ wt.d_p * 2 ^ li := by positivity
    have hN := hpre.interior d (by rw [hd]; exact hd0)
    unfold passLo passHi
    by_cases e : d = a
    · simp only [e, if_true]
      rw [e] at hGeq hN
      constructor <;> omega
    · simp only [e, if_false]
      constructor <;> omega
  · obtain ⟨hp1, _, _, hGeq, hL2⟩ := ghost_nonneg hwt 0
    have hc1 := comb_lt_pass (p := wt.d_p) hp1 hli hL2
    have h0 := (h 0 (by omega)).1
    dsimp only at h0
    have hneg : -wt.d_p * 2 ^ (li + 1) = -(wt.d_p * 2 ^ (li + 1)) := by ring
    omega

theorem C24_combination_window_witness :
    WaveletTransformHarten.new 2 2 2 = Except.ok (exEngine 2 2) ∧
    ((2 : Nat) = 2 ∨ (2 : Nat) = 3) ∧
    Pre (exEngine 2 2) exDims (exField 7 exBumps) (exCoefs 2 7) [] 0 ∧
    ∃ st, transformBody ratSqrt (exEngine 2 2) exDims (exField 7 exBumps) (exCoefs 2 7) []
        0 false = Except.ok st ∧
      ∀ li, li < (exEngine 2 2).d_num_level →
        (∀ x : IntVector,
          InBox 2 (fun _ => -(exEngine 2 2).d_p * 2 ^ (li + 1))
            (fun a => exDims a + (exEngine 2 2).d_q * 2 ^ (li + 1)) x →
          (∀ a, a < 2 → InBox 2 (passLo (exEngine 2 2) a li)
            (passHi (exEngine 2 2) exDims a li) x) ∧
          valAt (level st.w li)
              (linIdx 2 (coefGhosts (exCoefs 2 7))
                (fun d => exDims d + 2 * coefGhosts (exCoefs 2 7) d) x)
            = ratSqrt (sumSq 2 (fun a => valAt (level (st.wAx a) li)
                (linIdx 2 (coefGhosts (exCoefs 2 7))
                  (fun d => exDims d + 2 * coefGhosts (exCoefs 2 7) d) x)))) ∧
        (∀ x : IntVector,
          InBox 2 (fun d => -coefGhosts (exCoefs 2 7) d)
            (fun d => exDims d + coefGhosts (exCoefs 2 7) d) x →
          ¬ InBox 2 (fun _ => -(exEngine 2 2).d_p * 2 ^ (li + 1))
            (fun a => exDims a + (exEngine 2 2).d_q * 2 ^ (li + 1)) x →
          valAt (level st.w li)
            (linIdx 2 (coefGhosts (exCoefs 2 7))
              (fun d => exDims d + 2 * coefGhosts (exCoefs 2 7) d) x) = 0) ∧
        (∀ a, a < 2 → InBox 2 (passLo (exEngine 2 2) a li) (passHi (exEngine 2 2) exDims a li)
          (fun d => -(exEngine 2 2).d_num_wavelet_ghosts d + (exEngine 2 2).d_p * 2 ^ li)) ∧
        ¬ InBox 2 (fun _ => -(exEngine 2 2).d_p * 2 ^ (li + 1))
          (fun a => exDims a + (exEngine 2 2).d_q * 2 ^ (li + 1))
          (fun d => -(exEngine 2 2).d_num_wavelet_ghosts d + (exEngine 2 2).d_p * 2 ^ li) :=
  ⟨exEngine_ok 2 (Or.inl rfl), Or.inl rfl,
    exPre 2 (Or.inl rfl) (Or.inr (Or.inl rfl)) 7 (by decide) exBumps exBumps_length false,
    C24_combination_window ratSqrt _ _ _ _ _ 0 false 2 2 2 (exEngine_ok 2 (Or.inl rfl))
      (Or.inl rfl)
      (exPre 2 (Or.inl rfl) (Or.inr (Or.inl rfl)) 7 (by decide) exBumps exBumps_length false)⟩

/-! ## Level-0 local mean with smoothing in 2-D -/

/-- Smoothed value at a cell whose two neighbours along the axis are allocated:
the mean of three samples. -/
theorem smoothVal_inner (f : Arr) (lo hi : Int) (idxOf : Int → Int) (c : Int)
    (h1 : lo ≤ c - 1) (h2 : c + 1 < hi) :
    smoothVal f lo hi idxOf c
      = (valAt f (idxOf (c - 1)) + valAt f (idxOf c) + valAt f (idxOf (c + 1))) / 3 := by
  unfold smoothVal
  have e : [c - 1, c, c + 1].filter (fun ii => decide (lo ≤ ii ∧ ii < hi))
      = [c - 1, c, c + 1] := by
    rw [List.filter_eq_self]
    intro a ha
    simp only [List.mem_cons, List.mem_singleton, List.not_mem_nil, or_false] at ha
    rw [decide_eq_true_eq]
    rcases ha with rfl | rfl | rfl <;> constructor <;> omega
  simp only [e, List.map_cons, List.map_nil, List.sum_cons, List.sum_nil, List.length_cons,
    List.length_nil]
  norm_num
  ring

/-- Input buffer of the pass along the axis `a` of a call with smoothing: the
smoothed copy of that axis, whose value at a cell is the mean over the allocated
cells among the cell and its two neighbours along the axis. -/
theorem inputOf_smoothed {wt : WaveletTransformHarten} {N : IntVector} {cd : CellData}
    {wcs means : List CellData} {depth : Nat} (hpre : Pre wt N cd wcs means depth)
    {a : Nat} (ha : a < wt.d_dim) (f0 : Arr) (hf0 : cd.getPointer depth = some f0) :
    ∃ f, inputOf wt N cd depth true a = some f ∧
      ∀ x, InBox wt.d_dim (fun d => -cd.ghosts d) (fun d => N d + cd.ghosts d) x →
        valAt f (linIdx wt.d_dim cd.ghosts (fun d => N d + 2 * cd.ghosts d) x)
          = smoothVal f0 (-cd.ghosts a) (N a + cd.ghosts a)
              (fun ii => linIdx wt.d_dim cd.ghosts (fun d => N d + 2 * cd.ghosts d)
                (moveTo x a ii)) (x a) := by
  obtain ⟨f1, hf1, hlf1⟩ := hpre.input
  have e01 : f1 = f0 := by
    rw [hf0] at hf1
    exact (Option.some.inj hf1).symm
  subst e01
  obtain ⟨s, hs, _, hlen, hF⟩ := smoothCellData_spec wt N cd depth f1 hpre.dim hf0 hlf1
  have hget : s.getPointer a = some (level s.data a) := by
    unfold CellData.getPointer
    exact getElem?_level (by rw [hlen]; exact ha)
  exact ⟨level s.data a, by simp [inputOf, selectInput, hs, hget],
    fun x hx => (hF a ha).2.1 x hx⟩

/-- C27 (as stated, false): in the 2-D example (`k = 2`, `L = 2`, 8 x 8 interior
cells, 7 ghost cells, field 1 on the columns `i = -5` and `i = 1`, smoothing
enabled, local means requested), at the interior cell `(3, 3)` the 1-2-1 sum
along axis 0 of the axis-0 smoothed copy is `1/3` and the 1-2-1 sum along axis 1
of the axis-1 smoothed copy is 0, so that the stated value is
`(1/2)*sqrt((1/3)^2 + 0^2) = 1/6`; the level-0 local mean the call writes there is
0, because both sums are taken from the buffer selected last, the axis-1
smoothed copy. -/
theorem C27_level0_mean_reads_last_copy :
    ∃ st fx fy,
      transformBody ratSqrt (exEngine 2 2) exDims (exField 7 exBumps) (exCoefs 2 7)
        (exCoefs 2 7) 0 true = Except.ok st ∧
      inputOf (exEngine 2 2) exDims (exField 7 exBumps) 0 true 0 = some fx ∧
      inputOf (exEngine 2 2) exDims (exField 7 exBumps) 0 true 1 = some fy ∧
      sumVal 2 (lineOf 2 (exField 7 exBumps).ghosts
        (fun d => exDims d + 2 * (exField 7 exBumps).ghosts d) fx (cell2 3 3) 0) 1 3 = 1 / 3 ∧
      sumVal 2 (lineOf 2 (exField 7 exBumps).ghosts
        (fun d => exDims d + 2 * (exField 7 exBumps).ghosts d) fy (cell2 3 3) 1) 1 3 = 0 ∧
      (1 / 2 : ℚ) * ratSqrt ((1 / 3) ^ 2 + 0 ^ 2) = 1 / 6 ∧
      valAt (level st.f_mean 0) (linIdx 2 (coefGhosts (exCoefs 2 7))
        (fun d => exDims d + 2 * coefGhosts (exCoefs 2 7) d) (cell2 3 3)) = 0 := by
  have hwt := exEngine_ok 2 (Or.inl rfl : (2 : Int) = 2 ∨ _)
  have hpre : Pre (exEngine 2 2) exDims (exField 7 exBumps) (exCoefs 2 7) (exCoefs 2 7) 0 :=
    exPre 2 (Or.inl rfl : (2 : Int) = 2 ∨ _) (Or.inr (Or.inl rfl)) 7 (by decide)
      exBumps exBumps_length true
  obtain ⟨_, _, hd, hl, hdk, hp, hq, hGa⟩ := new_ok hwt
  have hL : (exEngine 2 2).d_num_level = 2 := by rw [hl]; rfl
  obtain ⟨st1, st, fin, hst, hfin, hinv, hcomb⟩ :=
    transformBody_ND ratSqrt true hwt (Or.inl hd) hpre
  obtain ⟨fx, hfx, hvx⟩ := inputOf_smoothed hpre (a := 0) (by rw [hd]; decide) exBumps
    exBumps_pointer
  obtain ⟨fy, hfy, _, hvy⟩ := inputOf_invariant hpre true (a := 1) (by rw [hd]; decide)
    exBumps exBumps_pointer (fun x => exBumpsVal (x 0))
    (fun x hx t ht1 ht2 => by
      rw [hd] at hx ⊢
      rw [exBumps_vals _ (InBox_moveTo hx ⟨ht1, ht2⟩)]
      rfl)
  rw [hd] at hfin hinv hcomb hvx hvy
  obtain ⟨_, _, _, _, _, _, emean, _, _, _, _⟩ := hcomb
  obtain ⟨_, _, _, hax, _, _⟩ := hinv
  have hf1 : fin 1 = fy := by
    have := (hfin 1 (by omega)).1
    rw [hfy] at this
    exact (Option.some.inj this).symm
  have hbox : ∀ i j : Int, -7 ≤ i → i < 15 → -7 ≤ j → j < 15 →
      InBox 2 (fun d => -(exField 7 exBumps).ghosts d)
        (fun d => exDims d + (exField 7 exBumps).ghosts d) (cell2 i j) := by
    intro i j h1 h2 h3 h4 d hd0
    have hd2 : d = 0 ∨ d = 1 := by omega
    rcases hd2 with rfl | rfl
    · exact ⟨h1, h2⟩
    · exact ⟨h3, h4⟩
  have hm0 : ∀ c : Int, moveTo (cell2 3 3) 0 c = cell2 c 3 := by
    intro c
    funext d
    unfold moveTo cell2
    by_cases e : d = 0
    · simp [e]
    · simp [e]
  have hmm : ∀ i c : Int, moveTo (cell2 i 3) 0 c = cell2 c 3 := by
    intro i c
    funext d
    unfold moveTo cell2
    by_cases e : d = 0
    · simp [e]
    · simp [e]
  -- values of the axis-1 smoothed copy on the two stencils through (3, 3)
  have hy : ∀ i j : Int, -7 ≤ i → i < 15 → -7 ≤ j → j < 15 →
      valAt fy (linIdx 2 (exField 7 exBumps).ghosts
        (fun d => exDims d + 2 * (exField 7 exBumps).ghosts d) (cell2 i j)) = exBumpsVal i :=
    fun i j h1 h2 h3 h4 => hvy (cell2 i j) (hbox i j h1 h2 h3 h4)
  have hy1 : ∀ c : Int, -7 ≤ c → c < 15 →
      valAt fy (linIdx 2 (exField 7 exBumps).ghosts
        (fun d => exDims d + 2 * (exField 7 exBumps).ghosts d) (moveTo (cell2 3 3) 1 c)) = 0 := by
    intro c h1 h2
    rw [hvy _ (InBox_moveTo (hbox 3 3 (by decide) (by decide) (by decide) (by decide))
      ⟨h1, h2⟩)]
    show exBumpsVal 3 = 0
    norm_num [exBumpsVal]
  -- values of the axis-0 smoothed copy on the stencil along axis 0
  have hx : ∀ i : Int, -6 ≤ i → i < 14 →
      valAt fx (linIdx 2 (exField 7 exBumps).ghosts
        (fun d => exDims d + 2 * (exField 7 exBumps).ghosts d) (cell2 i 3))
        = (exBumpsVal (i - 1) + exBumpsVal i + exBumpsVal (i + 1)) / 3 := by
    intro i h1 h2
    rw [hvx (cell2 i 3) (hbox i 3 (by omega) (by omega) (by decide) (by decide))]
    have hg : (exField 7 exBumps).ghosts 0 = 7 := rfl
    have hN : exDims 0 = 8 := rfl
    have hc : cell2 i 3 0 = i := rfl
    rw [hc, smoothVal_inner _ _ _ _ _ (by rw [hg]; omega) (by rw [hg, hN]; omega)]
    rw [hmm, hmm, hmm,
      exBumps_vals _ (hbox (i - 1) 3 (by omega) (by omega) (by decide) (by decide)),
      exBumps_vals _ (hbox i 3 (by omega) (by omega) (by decide) (by decide)),
      exBumps_vals _ (hbox (i + 1) 3 (by omega) (by omega) (by decide) (by decide))]
    rfl
  refine ⟨st, fx, fy, hst, hfx, hfy, ?_, ?_, ?_, ?_⟩
  · simp only [sumVal, if_true, lineOf]
    rw [hm0, hm0, hm0, hx (3 - 1) (by decide) (by decide), hx 3 (by decide) (by decide),
      hx (3 + 1) (by decide) (by decide)]
    norm_num [exBumpsVal]
  · simp only [sumVal, if_true, lineOf]
    rw [hy1 (3 - 1) (by decide) (by decide), hy1 3 (by decide) (by decide),
      hy1 (3 + 1) (by decide) (by decide)]
    norm_num
  · have e : ((1 / 3 : ℚ)) ^ 2 + 0 ^ 2 = (1 / 3) * (1 / 3) := by norm_num
    rw [e, ratSqrt_mul_self, abs_of_nonneg (by norm_num)]
    norm_num
  · have hM := ((hax 0 (by rw [hL]; decide)).2 rfl).2.1 (cell2 3 3) (by
      intro d hd0
      have hd2 : d = 0 ∨ d = 1 := by omega
      rcases hd2 with rfl | rfl <;> simp [cell2, exDims])
    rw [emean, hM]
    unfold meanVal
    have hs : sumPow 2 (fun a => sumVal (exEngine 2 2).d_k
        (lowIn 2 exDims (exField 7 exBumps).ghosts (coefGhosts (exCoefs 2 7)) (fin (2 - 1))
          (st1.fAx a) 0 (cell2 3 3) a) (2 ^ 0) (cell2 3 3 a)) = 0 * 0 := by
      unfold sumPow
      rw [if_pos rfl, hdk]
      simp only [lowIn_zero, sumVal, if_true, lineOf, pow_zero]
      have c0 : cell2 3 3 0 = 3 := rfl
      have c1 : cell2 3 3 1 = 3 := rfl
      have e21 : (2 : Nat) - 1 = 1 := rfl
      rw [c0, c1, e21, hf1, hm0, hm0, hm0,
        hy (3 - 1) 3 (by decide) (by decide) (by decide) (by decide),
        hy 3 3 (by decide) (by decide) (by decide) (by decide),
        hy (3 + 1) 3 (by decide) (by decide) (by decide) (by decide),
        hy1 (3 - 1) (by decide) (by decide), hy1 3 (by decide) (by decide),
        hy1 (3 + 1) (by decide) (by decide)]
      norm_num [exBumpsVal]
    rw [hs, ratSqrt_mul_self]
    norm_num

/-! ## The level-0 z-direction pass in 3-D -/

theorem lift_bind_ok {α β : Type} {o : Option α} {g : α → Except Err β} {r : β}
    (h : (lift o >>= g) = Except.ok r) : ∃ a, o = some a ∧ g a = Except.ok r := by
  cases o with
  | none => exact absurd h (by simp [lift, bind, Except.bind])
  | some a => exact ⟨a, rfl, by simpa [lift, bind, Except.bind] using h⟩

theorem except_bind_ok {α β : Type} {x : Except Err α} {g : α → Except Err β} {r : β}
    (h : (x >>= g) = Except.ok r) : ∃ a, x = Except.ok a ∧ g a = Except.ok r := by
  cases x with
  | error e => exact absurd h (by simp [bind, Except.bind])
  | ok a => exact ⟨a, rfl, by simpa [bind, Except.bind] using h⟩

/-- The z buffers that the first level of the 3-D branch returns are those of the
z-direction loop nest run with `d_num_wavelet_ghosts[1]` in its upper bound. -/
theorem level0_3D_z (sqrt : ℚ → ℚ) (wt : WaveletTransformHarten) (N gc gw : IntVector)
    (cd : CellData) (depth : Nat) (smooth : Bool) (sm : Option CellData) (comp : Bool)
    (st st2 : State) (hk : wt.d_k = 2 ∨ wt.d_k = 4)
    (h : level0_3D sqrt wt N gc gw cd depth smooth sm comp st = Except.ok st2) :
    ∃ f, selectInput smooth sm cd depth 2 = some f ∧
      onLevel2 st.f_z st.w_z 0 (zPass0 wt N gc gw f (wt.d_num_wavelet_ghosts 1))
        = some (st2.f_z, st2.w_z) := by
  have h42 : ¬ ((4 : Int) = 2) := by decide
  rcases hk with hk | hk
  · unfold level0_3D at h
    simp only [hk, if_true] at h
    obtain ⟨f0, _, h⟩ := lift_bind_ok h
    obtain ⟨rx, _, h⟩ := lift_bind_ok h
    obtain ⟨f1, _, h⟩ := lift_bind_ok h
    obtain ⟨ry, _, h⟩ := lift_bind_ok h
    obtain ⟨f2, hf2, h⟩ := lift_bind_ok h
    obtain ⟨rz, hrz, h⟩ := lift_bind_ok h
    have e : st2.f_z = rz.1 ∧ st2.w_z = rz.2 := by
      cases comp with
      | false =>
        simp only [Bool.false_eq_true, if_false] at h
        have e2 := Except.ok.inj h
        rw [← e2]
        exact ⟨rfl, rfl⟩
      | true =>
        simp only [if_true] at h
        obtain ⟨m, _, h⟩ := lift_bind_ok h
        have e2 := Except.ok.inj h
        rw [← e2]
        exact ⟨rfl, rfl⟩
    refine ⟨f2, hf2, ?_⟩
    rw [e.1, e.2]
    unfold zPass0
    simp only [hk, if_true]
    exact hrz
  · unfold level0_3D at h
    simp only [hk, h42, if_true, if_false] at h
    obtain ⟨f0, _, h⟩ := lift_bind_ok h
    obtain ⟨rx, _, h⟩ := lift_bind_ok h
    obtain ⟨f1, _, h⟩ := lift_bind_ok h
    obtain ⟨ry, _, h⟩ := lift_bind_ok h
    obtain ⟨f2, hf2, h⟩ := lift_bind_ok h
    obtain ⟨rz, hrz, h⟩ := lift_bind_ok h
    have e : st2.f_z = rz.1 ∧ st2.w_z = rz.2 := by
      cases comp with
      | false =>
        simp only [Bool.false_eq_true, if_false] at h
        have e2 := Except.ok.inj h
        rw [← e2]
        exact ⟨rfl, rfl⟩
      | true =>
        simp only [if_true] at h
        obtain ⟨m, _, h⟩ := lift_bind_ok h
        have e2 := Except.ok.inj h
        rw [← e2]
        exact ⟨rfl, rfl⟩
    refine ⟨f2, hf2, ?_⟩
    rw [e.1, e.2]
    unfold zPass0
    simp only [hk, h42, if_false]
    exact hrz

/-- C29: for every 3-D engine the constructor can build (`k = 2` and `k = 4`) the
required ghost width of axis 1 equals that of axis 2, so the level-0 z-direction
loop nest with `d_num_wavelet_ghosts[1]` in its upper bound, as in the source, is
the same function as the one with the dimension-matched `d_num_wavelet_ghosts[2]`;
and in every call that meets the entry conditions the first level completes and
the z scaling and wavelet buffers it returns are exactly those the
dimension-matched loop nest computes from the freshly zero-filled buffers. -/
theorem C29_z_pass_bound (sqrt : ℚ → ℚ) (wt : WaveletTransformHarten) (L k : Int)
    (hwt : WaveletTransformHarten.new 3 L k = Except.ok wt) :
    wt.d_num_wavelet_ghosts 1 = wt.d_num_wavelet_ghosts 2 ∧
    (∀ (N gc gw : IntVector) (f : Arr) (out : Arr × Arr),
      zPass0 wt N gc gw f (wt.d_num_wavelet_ghosts 1) out
        = zPass0 wt N gc gw f (wt.d_num_wavelet_ghosts 2) out) ∧
    ∀ (N : IntVector) (cd : CellData) (wcs means : List CellData) (depth : Nat) (smooth : Bool),
      Pre wt N cd wcs means depth →
      ∃ st2 f,
        level0_3D sqrt wt N cd.ghosts (coefGhosts wcs) cd depth smooth
          (smoothedOf wt N cd depth smooth) (!means.isEmpty)
          { w := w0Of wcs wt.d_num_level, f_mean := m0Of means wt.d_num_level,
            f_x := List.replicate wt.d_num_level
              (zeros (boxSize 3 (fun d => N d + 2 * coefGhosts wcs d))),
            f_y := List.replicate wt.d_num_level
              (zeros (boxSize 3 (fun d => N d + 2 * coefGhosts wcs d))),
            f_z := List.replicate wt.d_num_level
              (zeros (boxSize 3 (fun d => N d + 2 * coefGhosts wcs d))),
            w_x := List.replicate wt.d_num_level
              (zeros (boxSize 3 (fun d => N d + 2 * coefGhosts wcs d))),
            w_y := List.replicate wt.d_num_level
              (zeros (boxSize 3 (fun d => N d + 2 * coefGhosts wcs d))),
            w_z := List.replicate wt.d_num_level
              (zeros (boxSize 3 (fun d => N d + 2 * coefGhosts wcs d))) } = Except.ok st2 ∧
        inputOf wt N cd depth smooth 2 = some f ∧
        onLevel2
          (List.replicate wt.d_num_level
            (zeros (boxSize 3 (fun d => N d + 2 * coefGhosts wcs d))))
          (List.replicate wt.d_num_level
            (zeros (boxSize 3 (fun d => N d + 2 * coefGhosts wcs d)))) 0
          (zPass0 wt N cd.ghosts (coefGhosts wcs) f (wt.d_num_wavelet_ghosts 2))
          = some (st2.f_z, st2.w_z) := by
  obtain ⟨hk, _, hd, _, hdk, _, _, hG⟩ := new_ok hwt
  obtain ⟨_, _, _, _, hL⟩ := ghost_nonneg hwt 0
  have hG12 : wt.d_num_wavelet_ghosts 1 = wt.d_num_wavelet_ghosts 2 := by rw [hG 1, hG 2]
  refine ⟨hG12, fun N gc gw f out => by rw [hG12], fun N cd wcs means depth smooth hpre => ?_⟩
  obtain ⟨_, st, _, hst, _, _, _⟩ := transformBody_ND sqrt smooth hwt (Or.inr hd) hpre
  rw [(transformBody_unfold sqrt wt N cd wcs means depth smooth hpre (by omega)).2] at hst
  have h1 : ¬ (wt.d_dim = 1) := by rw [hd]; decide
  have h2 : ¬ (wt.d_dim = 2) := by rw [hd]; decide
  simp only [h1, h2, if_false] at hst
  unfold transform3D at hst
  obtain ⟨st2, hst2, _⟩ := except_bind_ok hst
  obtain ⟨f, hf, hz⟩ := level0_3D_z sqrt wt N cd.ghosts (coefGhosts wcs) cd depth smooth
    (smoothedOf wt N cd depth smooth) (!means.isEmpty) _ st2 (by rw [hdk]; exact hk) hst2
  rw [hG12] at hz
  exact ⟨st2, f, hst2, hf, hz⟩

theorem C29_z_pass_bound_witness :
    WaveletTransformHarten.new 3 2 2 = Except.ok (exEngine 3 2) ∧
    ((exEngine 3 2).d_num_wavelet_ghosts 1 = (exEngine 3 2).d_num_wavelet_ghosts 2 ∧
    (∀ (N gc gw : IntVector) (f : Arr) (out : Arr × Arr),
      zPass0 (exEngine 3 2) N gc gw f ((exEngine 3 2).d_num_wavelet_ghosts 1) out
        = zPass0 (exEngine 3 2) N gc gw f ((exEngine 3 2).d_num_wavelet_ghosts 2) out) ∧
    ∀ (N : IntVector) (cd : CellData) (wcs means : List CellData) (depth : Nat) (smooth : Bool),
      Pre (exEngine 3 2) N cd wcs means depth →
      ∃ st2 f,
        level0_3D ratSqrt (exEngine 3 2) N cd.ghosts (coefGhosts wcs) cd depth smooth
          (smoothedOf (exEngine 3 2) N cd depth smooth) (!means.isEmpty)
          { w := w0Of wcs (exEngine 3 2).d_num_level,
            f_mean := m0Of means (exEngine 3 2).d_num_level,
            f_x := List.replicate (exEngine 3 2).d_num_level
              (zeros (boxSize 3 (fun d => N d + 2 * coefGhosts wcs d))),
            f_y := List.replicate (exEngine 3 2).d_num_level
              (zeros (boxSize 3 (fun d => N d + 2 * coefGhosts wcs d))),
            f_z := List.replicate (exEngine 3 2).d_num_level
              (zeros (boxSize 3 (fun d => N d + 2 * coefGhosts wcs d))),
            w_x := List.replicate (exEngine 3 2).d_num_level
              (zeros (boxSize 3 (fun d => N d + 2 * coefGhosts wcs d))),
            w_y := List.replicate (exEngine 3 2).d_num_level
              (zeros (boxSize 3 (fun d => N d + 2 * coefGhosts wcs d))),
            w_z := List.replicate (exEngine 3 2).d_num_level
              (zeros (boxSize 3 (fun d => N d + 2 * coefGhosts wcs d))) } = Except.ok st2 ∧
        inputOf (exEngine 3 2) N cd depth smooth 2 = some f ∧
        onLevel2
          (List.replicate (exEngine 3 2).d_num_level
            (zeros (boxSize 3 (fun d => N d + 2 * coefGhosts wcs d))))
          (List.replicate (exEngine 3 2).d_num_level
            (zeros (boxSize 3 (fun d => N d + 2 * coefGhosts wcs d)))) 0
          (zPass0 (exEngine 3 2) N cd.ghosts (coefGhosts wcs) f
            ((exEngine 3 2).d_num_wavelet_ghosts 2))
          = some (st2.f_z, st2.w_z)) :=
  ⟨exEngine_ok 3 (Or.inl rfl), C29_z_pass_bound ratSqrt _ 2 2 (exEngine_ok 3 (Or.inl rfl))⟩

/-! ## The pass along axis 0 in 2-D, line by line -/

theorem lineField_val (N gc : IntVector) (f : Arr) (j i : Int)
    (h1 : -gc 0 ≤ i) (h2 : i < N 0 + gc 0) :
    valAt (lineField N gc f j) (i + gc 0) = valAt f (lin2 gc (fun d => N d + 2 * gc d) i j) := by
  have hlt : (i + gc 0).toNat < (N 0 + gc 0 - -gc 0).toNat := by omega
  unfold lineField range
  rw [valAt, if_pos (by omega), List.getD_eq_getElem?_getD, List.getElem?_map,
    List.getElem?_map, List.getElem?_range hlt]
  simp only [Option.map_some', Option.getD_some]
  rw [Int.toNat_of_nonneg (by omega)]
  congr 2
  ring

theorem lineField_length (N gc : IntVector) (f : Arr) (j : Int) :
    (lineField N gc f j).length = (N 0 + 2 * gc 0).toNat := by
  unfold lineField range
  rw [List.length_map, List.length_map, List.length_range]
  congr 1
  ring

theorem moveTo_cell2 (i j c : Int) : moveTo (cell2 i j) 0 c = cell2 c j := by
  funext d
  unfold moveTo cell2
  by_cases e : d = 0
  · simp [e]
  · simp [e]

/-- Two cascades along one line that start from the same samples and leave the
cells outside their windows at 0 agree: at every level the inputs agree and the
scaling values agree on `[-G, M + G)`. -/
theorem cascade_agree {k : Int} (hk : k = 2 ∨ k = 4) {p G M : Int} {L : Nat}
    (hp : p = halfWidth k) (F1 F2 src1 src2 : Nat → Int → ℚ)
    (hF1 : ∀ li, li < L → ∀ i, -G + p * 2 ^ li ≤ i → i < M + G - p * 2 ^ li →
      F1 li i = lowVal k (src1 li) (2 ^ li) i)
    (hF2 : ∀ li, li < L → ∀ i, -G + p * 2 ^ li ≤ i → i < M + G - p * 2 ^ li →
      F2 li i = lowVal k (src2 li) (2 ^ li) i)
    (hZ1 : ∀ li, li < L → ∀ i, -G ≤ i → i < M + G →
      ¬ (-G + p * 2 ^ li ≤ i ∧ i < M + G - p * 2 ^ li) → F1 li i = 0)
    (hZ2 : ∀ li, li < L → ∀ i, -G ≤ i → i < M + G →
      ¬ (-G + p * 2 ^ li ≤ i ∧ i < M + G - p * 2 ^ li) → F2 li i = 0)
    (h0 : ∀ j, -G ≤ j → j < M + G → src1 0 j = src2 0 j)
    (hS1 : ∀ li, 1 ≤ li → ∀ j, src1 li j = F1 (li - 1) j)
    (hS2 : ∀ li, 1 ≤ li → ∀ j, src2 li j = F2 (li - 1) j) :
    ∀ li, li < L →
      (∀ j, -G ≤ j → j < M + G → src1 li j = src2 li j) ∧
      (∀ i, -G ≤ i → i < M + G → F1 li i = F2 li i) := by
  have hp12 : p = 1 ∨ p = 2 := by
    rcases hk with rfl | rfl
    · exact Or.inl hp
    · exact Or.inr hp
  have part2 : ∀ li, li < L →
      (∀ j, -G ≤ j → j < M + G → src1 li j = src2 li j) →
      (∀ i, -G ≤ i → i < M + G → F1 li i = F2 li i) := by
    intro li hli hs i hi1 hi2
    by_cases hw : -G + p * 2 ^ li ≤ i ∧ i < M + G - p * 2 ^ li
    · rw [hF1 li hli i hw.1 hw.2, hF2 li hli i hw.1 hw.2]
      have e2 : (1 : Int) ≤ 2 ^ li := one_le_pow₀ (by norm_num)
      refine (stencil_congr hk (src1 li) (src2 li) (2 ^ li) i (fun m hm1 hm2 => ?_)).1
      rw [← hp] at hm1 hm2
      apply hs
      · rcases hp12 with rfl | rfl <;> interval_cases m <;> omega
      · rcases hp12 with rfl | rfl <;> interval_cases m <;> omega
    · rw [hZ1 li hli i hi1 hi2 hw, hZ2 li hli i hi1 hi2 hw]
  intro li
  induction li with
  | zero =>
    intro hli
    exact ⟨h0, part2 0 hli h0⟩
  | succ n ih =>
    intro hli
    obtain ⟨_, ih2⟩ := ih (by omega)
    have hs : ∀ j, -G ≤ j → j < M + G → src1 (n + 1) j = src2 (n + 1) j := by
      intro j hj1 hj2
      rw [hS1 (n + 1) (by omega), hS2 (n + 1) (by omega)]
      exact ih2 j hj1 hj2
    exact ⟨hs, part2 (n + 1) hli hs⟩

theorem lowIn_cell2 (N gc gw : IntVector) (f : Arr) (fa : List Arr) (li : Nat) (i j : Int) :
    lowIn 2 N gc gw f fa li (cell2 i j) 0 = lowIn 2 N gc gw f fa li (cell2 0 j) 0 := by
  have e : cell2 i j = moveTo (cell2 0 j) 0 i := (moveTo_cell2 0 j i).symm
  rw [e, lowIn_moveTo]

/-- C28: in 2-D with smoothing disabled, for every grid line `j` in
`[-G, N_1 + G)`, the 2-D call and the 1-D call of an engine with the same `k` and
`L` on that line of the input both complete and, for every level `li < L` and
every allocated cell `(i, j)` of the line, the axis-0 scaling value at `(i, j)`
equals the scaling value of the 1-D transform at `i` and the absolute value of
the axis-0 wavelet value at `(i, j)` equals the wavelet coefficient of the 1-D
transform at `i`; the 1-D call reads the samples of line `j` only. -/
theorem C28_axis0_lines (sqrt : ℚ → ℚ) (wt2 wt1 : WaveletTransformHarten) (N : IntVector)
    (cd : CellData) (wcs means wcs1 means1 : List CellData) (depth : Nat) (L k : Int)
    (f : Arr) (j : Int)
    (hwt2 : WaveletTransformHarten.new 2 L k = Except.ok wt2)
    (hwt1 : WaveletTransformHarten.new 1 L k = Except.ok wt1)
    (hpre2 : Pre wt2 N cd wcs means depth) (hf : cd.getPointer depth = some f)
    (hpre1 : Pre wt1 N (lineCell N cd f j) wcs1 means1 0)
    (hj1 : -wt2.d_num_wavelet_ghosts 1 ≤ j) (hj2 : j < N 1 + wt2.d_num_wavelet_ghosts 1) :
    ∃ st2 st1, transformBody sqrt wt2 N cd wcs means depth false = Except.ok st2 ∧
      transformBody sqrt wt1 N (lineCell N cd f j) wcs1 means1 0 false = Except.ok st1 ∧
      ∀ li, li < wt2.d_num_level → ∀ i : Int, -coefGhosts wcs 0 ≤ i →
        i < N 0 + coefGhosts wcs 0 →
        valAt (level st2.f_x li)
            (linIdx 2 (coefGhosts wcs) (fun d => N d + 2 * coefGhosts wcs d) (cell2 i j))
          = valAt (level st1.f_x li) (i + coefGhosts wcs1 0) ∧
        |valAt (level st2.w_x li)
            (linIdx 2 (coefGhosts wcs) (fun d => N d + 2 * coefGhosts wcs d) (cell2 i j))|
          = valAt (level st1.w li) (i + coefGhosts wcs1 0) := by
  obtain ⟨hk, _, hd2, hl2, hdk2, hp2, _, hG2⟩ := new_ok hwt2
  obtain ⟨_, _, hd1, hl1, hdk1, hp1, _, hG1⟩ := new_ok hwt1
  obtain ⟨hpp1, _, _, _, _⟩ := ghost_nonneg hwt2 0
  have eL : wt1.d_num_level = wt2.d_num_level := by rw [hl1, hl2]
  have eG : wt1.d_num_wavelet_ghosts 0 = wt2.d_num_wavelet_ghosts 0 := by rw [hG1 0, hG2 0]
  have eG1 : wt2.d_num_wavelet_ghosts 1 = wt2.d_num_wavelet_ghosts 0 := by rw [hG2 1, hG2 0]
  have ep : wt1.d_p = wt2.d_p := by rw [hp1, hp2]
  obtain ⟨s1, st2, fin, hst2, hfin, hinv, hcomb⟩ :=
    transformBody_ND sqrt false hwt2 (Or.inl hd2) hpre2
  rw [hd2] at hfin hinv hcomb
  obtain ⟨efx, _, _, ewx, _, _, _, _, _, _, _⟩ := hcomb
  obtain ⟨_, _, _, hax, _, _⟩ := hinv
  have hf0 : fin 0 = f := by
    have := (hfin 0 (by omega)).1
    rw [inputOf_raw, hf] at this
    exact (Option.some.inj this).symm
  obtain ⟨st1, f1, hst1, hin1, _, hinv1⟩ := transformBody_1D sqrt false hwt1 hd1 hpre1
  have hf1 : f1 = lineField N cd.ghosts f j := by
    rw [inputOf_raw] at hin1
    have e : (lineCell N cd f j).getPointer 0 = some (lineField N cd.ghosts f j) := rfl
    rw [e] at hin1
    exact (Option.some.inj hin1).symm
  obtain ⟨_, hw01⟩ := w0Of_facts hpre1
  rw [hd1] at hw01
  have hGw0 := hpre2.ghosts_coef 0 (by rw [hd2]; omega)
  have hGw1 := hpre2.ghosts_coef 1 (by rw [hd2]; omega)
  have hgc0 := hpre2.ghosts_cell 0 (by rw [hd2]; omega)
  have hgc1 := hpre2.ghosts_cell 1 (by rw [hd2]; omega)
  have hGv := hpre1.ghosts_coef 0 (by rw [hd1]; omega)
  rw [eG] at hGv
  have hkk : k = 2 ∨ k = 4 := hk
  have hpk : wt2.d_p = halfWidth k := hp2
  have hlin : ∀ (g d : IntVector) (c : Int),
      linIdx 2 g d (cell2 c j) = lin2 g d c j := fun g d c => by
    rw [linIdx_two]
    rfl
  have hpos : ∀ li : Nat, (0 : Int) ≤ wt2.d_p * 2 ^ li := fun li => by positivity
  -- the pass window of axis 0 around the line
  have hbox : ∀ li i, -wt2.d_num_wavelet_ghosts 0 + wt2.d_p * 2 ^ li ≤ i →
      i < N 0 + wt2.d_num_wavelet_ghosts 0 - wt2.d_p * 2 ^ li →
      InBox 2 (passLo wt2 0 li) (passHi wt2 N 0 li) (cell2 i j) := by
    intro li i h1 h2 d hd0
    have hd3 : d = 0 ∨ d = 1 := by omega
    rcases hd3 with rfl | rfl
    · exact ⟨h1, h2⟩
    · exact ⟨hj1, hj2⟩
  have hsub : ∀ li d, d < 2 → -coefGhosts wcs d ≤ passLo wt2 0 li d ∧
      passHi wt2 N 0 li d ≤ N d + coefGhosts wcs d := by
    intro li d hd0
    have h := hpos li
    have hd3 : d = 0 ∨ d = 1 := by omega
    unfold passLo passHi
    rcases hd3 with rfl | rfl
    · simp only [if_true]
      constructor <;> omega
    · simp only [one_ne_zero, if_false]
      constructor <;> omega
  have hxg : ∀ i, -coefGhosts wcs 0 ≤ i → i < N 0 + coefGhosts wcs 0 →
      InBox 2 (fun d => -coefGhosts wcs d) (fun d => N d + coefGhosts wcs d) (cell2 i j) := by
    intro i h1 h2 d hd0
    have hd3 : d = 0 ∨ d = 1 := by omega
    rcases hd3 with rfl | rfl
    · exact ⟨h1, h2⟩
    · show -coefGhosts wcs 1 ≤ j ∧ j < N 1 + coefGhosts wcs 1
      constructor <;> omega
  have hout : ∀ li i, ¬ (-wt2.d_num_wavelet_ghosts 0 + wt2.d_p * 2 ^ li ≤ i ∧
      i < N 0 + wt2.d_num_wavelet_ghosts 0 - wt2.d_p * 2 ^ li) →
      ¬ InBox 2 (passLo wt2 0 li) (passHi wt2 N 0 li) (cell2 i j) := by
    intro li i hw h
    exact hw (h 0 (by omega))
  have hne : ∀ li i, ¬ (-wt2.d_num_wavelet_ghosts 0 + wt2.d_p * 2 ^ li ≤ i ∧
      i < N 0 + wt2.d_num_wavelet_ghosts 0 - wt2.d_p * 2 ^ li) →
      ∀ c : Int, (-wt1.d_num_wavelet_ghosts 0 + wt1.d_p * 2 ^ li ≤ c ∧
        c < N 0 + wt1.d_num_wavelet_ghosts 0 - wt1.d_p * 2 ^ li) →
      (fun i => i + coefGhosts wcs1 0) c ≠ i + coefGhosts wcs1 0 := by
    intro li i hw c hc e
    dsimp only at e
    have : c = i := by omega
    rw [this, eG, ep] at hc
    exact hw hc
  have hcas := cascade_agree hkk (p := wt2.d_p) (G := wt2.d_num_wavelet_ghosts 0) (M := N 0)
    (L := wt2.d_num_level) hpk
    (fun li i => valAt (level st1.f_x li) (i + coefGhosts wcs1 0))
    (fun li i => valAt (level (s1.fAx 0) li)
      (linIdx 2 (coefGhosts wcs) (fun d => N d + 2 * coefGhosts wcs d) (cell2 i j)))
    (fun li c => lowIn1D (lineCell N cd f j).ghosts (coefGhosts wcs1) f1 st1.f_x li c)
    (fun li c => lowIn 2 N cd.ghosts (coefGhosts wcs) (fin 0) (s1.fAx 0) li (cell2 0 j) 0 c)
    (fun li hli i h1 h2 => by
      have := (hinv1.2.2.2.2.1 li (by rw [eL]; exact hli)).1.2.1 i
        ⟨by rw [eG, ep]; exact h1, by rw [eG, ep]; exact h2⟩
      dsimp only at this ⊢
      rw [hdk1] at this
      exact this)
    (fun li hli i h1 h2 => by
      have := ((hax li hli).1 0 (by omega)).1.2.1 (cell2 i j) (hbox li i h1 h2)
      dsimp only at this ⊢
      rw [hdk2, lowIn_cell2] at this
      exact this)
    (fun li hli i h1 h2 hw => by
      dsimp only
      rw [(hinv1.2.2.2.2.1 li (by rw [eL]; exact hli)).1.2.2 _ (hne li i hw), valAt_zeros])
    (fun li hli i h1 h2 hw => by
      dsimp only
      rw [Filled.outside (Or.inr (Or.inl rfl)) ((hax li hli).1 0 (by omega)).1 (hsub li)
        (hxg i (by omega) (by omega)) (hout li i hw), valAt_zeros])
    (fun c h1 h2 => by
      dsimp only
      rw [lowIn1D_zero, lowIn_zero, hf1, hf0]
      unfold lineOf
      rw [moveTo_cell2, hlin]
      exact lineField_val N cd.ghosts f j c (by omega) (by omega))
    (fun li hli c => by
      dsimp only
      rw [lowIn1D_succ _ _ _ _ hli])
    (fun li hli c => by
      dsimp only
      rw [lowIn_succ _ _ _ _ _ _ hli]
      unfold lineOf
      rw [moveTo_cell2])
  refine ⟨st2, st1, hst2, hst1, fun li hli i hi1 hi2 => ?_⟩
  obtain ⟨hs, hF⟩ := hcas li hli
  have e1 : st2.f_x = s1.fAx 0 := efx
  have e2 : st2.w_x = s1.wAx 0 := ewx
  rw [e1, e2]
  by_cases hw : -wt2.d_num_wavelet_ghosts 0 + wt2.d_p * 2 ^ li ≤ i ∧
      i < N 0 + wt2.d_num_wavelet_ghosts 0 - wt2.d_p * 2 ^ li
  · have hq := hpos li
    refine ⟨(hF i (by omega) (by omega)).symm, ?_⟩
    have a := ((hax li hli).1 0 (by omega)).2.2.1 (cell2 i j) (hbox li i hw.1 hw.2)
    have b := (hinv1.2.2.2.2.1 li (by rw [eL]; exact hli)).2.1.2.1 i
      ⟨by rw [eG, ep]; exact hw.1, by rw [eG, ep]; exact hw.2⟩
    dsimp only at a b
    rw [hdk2, lowIn_cell2] at a
    rw [hdk1] at b
    rw [a, b]
    have hp12 : wt2.d_p = 1 ∨ wt2.d_p = 2 := by
      rcases hkk with e | e
      · left; rw [hpk, e]; rfl
      · right; rw [hpk, e]; rfl
    have e3 : (1 : Int) ≤ 2 ^ li := one_le_pow₀ (by norm_num)
    have hc := (stencil_congr hkk
      (fun c => lowIn1D (lineCell N cd f j).ghosts (coefGhosts wcs1) f1 st1.f_x li c)
      (fun c => lowIn 2 N cd.ghosts (coefGhosts wcs) (fin 0) (s1.fAx 0) li (cell2 0 j) 0 c)
      (2 ^ li) i (fun m hm1 hm2 => by
        rw [← hpk] at hm1 hm2
        apply hs
        · rcases hp12 with e | e <;> rw [e] at hm1 hm2 hw <;> interval_cases m <;> omega
        · rcases hp12 with e | e <;> rw [e] at hm1 hm2 hw <;> interval_cases m <;> omega)).2.1
    have hc2 : highVal k (lowIn1D (lineCell N cd f j).ghosts (coefGhosts wcs1) f1 st1.f_x li)
        (2 ^ li) i
        = highVal k (lowIn 2 N cd.ghosts (coefGhosts wcs) (fin 0) (s1.fAx 0) li (cell2 0 j) 0)
          (2 ^ li) i := hc
    have c0 : cell2 i j 0 = i := rfl
    rw [hc2, c0]
  · refine ⟨?_, ?_⟩
    · rw [Filled.outside (Or.inr (Or.inl rfl)) ((hax li hli).1 0 (by omega)).1 (hsub li)
        (hxg i hi1 hi2) (hout li i hw), valAt_zeros,
        (hinv1.2.2.2.2.1 li (by rw [eL]; exact hli)).1.2.2 _ (hne li i hw), valAt_zeros]
    rw [Filled.outside (Or.inr (Or.inl rfl)) ((hax li hli).1 0 (by omega)).2 (hsub li)
      (hxg i hi1 hi2) (hout li i hw), valAt_zeros,
      (hinv1.2.2.2.2.1 li (by rw [eL]; exact hli)).2.1.2.2 _ (hne li i hw),
      (hw01 li (by rw [eL]; exact hli)).1, valAt_zeros, abs_zero]

theorem exLine_pre :
    Pre (exEngine 1 2) exDims (lineCell exDims (exField 7 exBumps) exBumps 0) (exCoefs 1 7) [] 0 :=
  exPre 1 (Or.inl rfl) (Or.inl rfl) 7 (by decide)
    (lineField exDims (exField 7 exBumps).ghosts exBumps 0)
    (by rw [lineField_length]; rfl) false

theorem C28_axis0_lines_witness :
    WaveletTransformHarten.new 2 2 2 = Except.ok (exEngine 2 2) ∧
    WaveletTransformHarten.new 1 2 2 = Except.ok (exEngine 1 2) ∧
    Pre (exEngine 2 2) exDims (exField 7 exBumps) (exCoefs 2 7) [] 0 ∧
    (exField 7 exBumps).getPointer 0 = some exBumps ∧
    Pre (exEngine 1 2) exDims (lineCell exDims (exField 7 exBumps) exBumps 0) (exCoefs 1 7) [] 0 ∧
    -(exEngine 2 2).d_num_wavelet_ghosts 1 ≤ 0 ∧
    0 < exDims 1 + (exEngine 2 2).d_num_wavelet_ghosts 1 ∧
    ∃ st2 st1, transformBody ratSqrt (exEngine 2 2) exDims (exField 7 exBumps) (exCoefs 2 7) []
        0 false = Except.ok st2 ∧
      transformBody ratSqrt (exEngine 1 2) exDims (lineCell exDims (exField 7 exBumps) exBumps 0)
        (exCoefs 1 7) [] 0 false = Except.ok st1 ∧
      ∀ li, li < (exEngine 2 2).d_num_level → ∀ i : Int,
        -coefGhosts (exCoefs 2 7) 0 ≤ i →
        i < exDims 0 + coefGhosts (exCoefs 2 7) 0 →
        valAt (level st2.f_x li)
            (linIdx 2 (coefGhosts (exCoefs 2 7))
              (fun d => exDims d + 2 * coefGhosts (exCoefs 2 7) d) (cell2 i 0))
          = valAt (level st1.f_x li) (i + coefGhosts (exCoefs 1 7) 0) ∧
        |valAt (level st2.w_x li)
            (linIdx 2 (coefGhosts (exCoefs 2 7))
              (fun d => exDims d + 2 * coefGhosts (exCoefs 2 7) d) (cell2 i 0))|
          = valAt (level st1.w li) (i + coefGhosts (exCoefs 1 7) 0) :=
  have h1 : -(exEngine 2 2).d_num_wavelet_ghosts 1 ≤ 0 := by
    rw [(exEngine_ghosts 2 (Or.inl rfl : (2 : Int) = 2 ∨ _) 1).1]
    decide
  have h2 : 0 < exDims 1 + (exEngine 2 2).d_num_wavelet_ghosts 1 := by
    rw [(exEngine_ghosts 2 (Or.inl rfl : (2 : Int) = 2 ∨ _) 1).1]
    decide
  ⟨exEngine_ok 2 (Or.inl rfl), exEngine_ok 1 (Or.inl rfl),
    exPre 2 (Or.inl rfl) (Or.inr (Or.inl rfl)) 7 (by decide) exBumps exBumps_length false,
    exBumps_pointer, exLine_pre, h1, h2,
    C28_axis0_lines ratSqrt _ _ _ _ _ _ _ _ 0 2 2 exBumps 0 (exEngine_ok 2 (Or.inl rfl))
      (exEngine_ok 1 (Or.inl rfl))
      (exPre 2 (Or.inl rfl) (Or.inr (Or.inl rfl)) 7 (by decide) exBumps exBumps_length false)
      exBumps_pointer exLine_pre h1 h2⟩

/-! ## Sign of the wavelet coefficients and frame of the local means -/

/-- A buffer filled on a window with non-negative values from a non-negative
buffer is non-negative. -/
theorem Filled.nonneg {C : Type} {win : C → Prop} {ix : C → Int} {v : C → ℚ} {a b : Arr}
    (h : Filled win ix v a b) (hv : ∀ c, win c → 0 ≤ v c) (ha : ∀ n, 0 ≤ valAt a n) :
    ∀ n, 0 ≤ valAt b n := by
  intro n
  by_cases hn : ∃ c, win c ∧ ix c = n
  · obtain ⟨c, hc, e⟩ := hn
    rw [← e, h.2.1 c hc]
    exact hv c hc
  · rw [h.2.2 n (fun c hc e => hn ⟨c, hc, e⟩)]
    exact ha n

theorem sumSq_nonneg (dim : Nat) (t : Nat → ℚ) : 0 ≤ sumSq dim t := by
  unfold sumSq
  split
  · exact add_nonneg (mul_self_nonneg _) (mul_self_nonneg _)
  · exact add_nonneg (add_nonneg (mul_self_nonneg _) (mul_self_nonneg _)) (mul_self_nonneg _)

/-- C36 (amended): in exact arithmetic, with a square root that is non-negative
on non-negative arguments, the call completes and every value of every wavelet-coefficient buffer after the
call is non-negative, in 1-D, 2-D and 3-D, for `k = 2` and `k = 4`, every level
`li < L`, every index and every input field. -/
theorem C36_wavelet_nonneg (sqrt : ℚ → ℚ) (hsqrt : ∀ q : ℚ, 0 ≤ q → 0 ≤ sqrt q)
    (wt : WaveletTransformHarten) (N : IntVector) (cd : CellData)
    (wcs means : List CellData) (depth : Nat) (smooth : Bool) (dim : Nat) (L k : Int)
    (hwt : WaveletTransformHarten.new dim L k = Except.ok wt)
    (hpre : Pre wt N cd wcs means depth) :
    ∃ st, transformBody sqrt wt N cd wcs means depth smooth = Except.ok st ∧
      ∀ li, li < wt.d_num_level → ∀ n : Int, 0 ≤ valAt (level st.w li) n := by
  obtain ⟨_, _, hd, _, _, _, _, _⟩ := new_ok hwt
  have hdim : dim = 1 ∨ dim = 2 ∨ dim = 3 := by rw [← hd]; exact hpre.dim
  obtain ⟨_, hw0⟩ := w0Of_facts hpre
  have hbase : ∀ li, li < wt.d_num_level → ∀ n,
      0 ≤ valAt (level (w0Of wcs wt.d_num_level) li) n := by
    intro li hli n
    rw [(hw0 li hli).1, valAt_zeros]
  by_cases h1 : dim = 1
  · subst h1
    obtain ⟨st, _, hst, _, _, hinv⟩ := transformBody_1D sqrt smooth hwt hd hpre
    refine ⟨st, hst, fun li hli n => ?_⟩
    exact Filled.nonneg (hinv.2.2.2.2.1 li hli).2.1 (fun c _ => abs_nonneg _) (hbase li hli) n
  · have hd2 : wt.d_dim = 2 ∨ wt.d_dim = 3 := by rw [hd]; omega
    obtain ⟨_, st, _, hst, _, _, hcomb⟩ := transformBody_ND sqrt smooth hwt hd2 hpre
    obtain ⟨_, _, _, _, _, _, _, _, _, hdone, _⟩ := hcomb
    refine ⟨st, hst, fun li hli n => ?_⟩
    exact Filled.nonneg (hdone li hli) (fun c _ => hsqrt _ (sumSq_nonneg _ _)) (hbase li hli) n

theorem ratSqrt_nonneg_on (q : ℚ) (_h : 0 ≤ q) : 0 ≤ ratSqrt q := ratSqrt_nonneg q

theorem C36_wavelet_nonneg_witness :
    (∀ q : ℚ, 0 ≤ q → 0 ≤ ratSqrt q) ∧
    WaveletTransformHarten.new 2 2 2 = Except.ok (exEngine 2 2) ∧
    Pre (exEngine 2 2) exDims (exField 7 exBumps) (exCoefs 2 7) [] 0 ∧
    ∃ st, transformBody ratSqrt (exEngine 2 2) exDims (exField 7 exBumps) (exCoefs 2 7) []
        0 true = Except.ok st ∧
      ∀ li, li < (exEngine 2 2).d_num_level → ∀ n : Int, 0 ≤ valAt (level st.w li) n :=
  ⟨ratSqrt_nonneg_on, exEngine_ok 2 (Or.inl rfl),
    exPre 2 (Or.inl rfl) (Or.inr (Or.inl rfl)) 7 (by decide) exBumps exBumps_length false,
    C36_wavelet_nonneg ratSqrt ratSqrt_nonneg_on _ _ _ _ _ 0 true 2 2 2
      (exEngine_ok 2 (Or.inl rfl))
      (exPre 2 (Or.inl rfl) (Or.inr (Or.inl rfl)) 7 (by decide) exBumps exBumps_length false)⟩

/-- C38: when local-mean fields are supplied, the call completes and for every
level `li < L` the local-mean buffer keeps its length and holds, at every
allocated cell that is not an interior cell (index in `[0, N_a)` on every axis
`a`), exactly the value the buffer of `variable_local_means[li]` held before the
call, in 1-D, 2-D and 3-D, for `k = 2` and `k = 4`. -/
theorem C38_local_mean_frame (sqrt : ℚ → ℚ) (wt : WaveletTransformHarten) (N : IntVector)
    (cd : CellData) (wcs means : List CellData) (depth : Nat) (smooth : Bool)
    (dim : Nat) (L k : Int)
    (hwt : WaveletTransformHarten.new dim L k = Except.ok wt)
    (hpre : Pre wt N cd wcs means depth) (hmeans : means ≠ []) :
    ∃ st, transformBody sqrt wt N cd wcs means depth smooth = Except.ok st ∧
      ∀ li, li < wt.d_num_level →
        ∃ m, (means[li]?).bind (fun c => c.getPointer 0) = some m ∧
          (level st.f_mean li).length = m.length ∧
          ∀ x : IntVector,
            InBox dim (fun d => -coefGhosts wcs d) (fun d => N d + coefGhosts wcs d) x →
            ¬ InBox dim (fun _ => 0) N x →
            valAt (level st.f_mean li)
                (linIdx dim (coefGhosts wcs) (fun d => N d + 2 * coefGhosts wcs d) x)
              = valAt m
                (linIdx dim (coefGhosts wcs) (fun d => N d + 2 * coefGhosts wcs d) x) := by
  obtain ⟨_, _, hd, _, _, _, _, _⟩ := new_ok hwt
  have hdim : dim = 1 ∨ dim = 2 ∨ dim = 3 := by rw [← hd]; exact hpre.dim
  have hcomp : (!means.isEmpty) = true := by
    cases means with
    | nil => exact absurd rfl hmeans
    | cons _ _ => rfl
  have hne : means.isEmpty = false := by
    cases means with
    | nil => exact absurd rfl hmeans
    | cons _ _ => rfl
  have hm0 : m0Of means wt.d_num_level = outBuffers means wt.d_num_level := by
    unfold m0Of
    rw [hne]
    rfl
  obtain ⟨hcount, hmem⟩ : wt.d_num_level ≤ means.length ∧
      ∀ c, c ∈ means → ∃ a, c.getPointer 0 = some a ∧ (a.length : Int) =
        boxSize wt.d_dim (fun d => N d + 2 * coefGhosts wcs d) := by
    rcases hpre.means with h | h
    · exact absurd h hmeans
    · exact h
  have hbuf : ∀ li, li < wt.d_num_level →
      (means[li]?).bind (fun c => c.getPointer 0) = some (level (m0Of means wt.d_num_level) li) := by
    intro li hli
    rw [hm0]
    exact (outBuffers_level hcount hli hmem).1
  by_cases h1 : dim = 1
  · subst h1
    obtain ⟨st, _, hst, _, _, hinv⟩ := transformBody_1D sqrt smooth hwt hd hpre
    refine ⟨st, hst, fun li hli => ⟨_, hbuf li hli, ?_, fun x hx hout => ?_⟩⟩
    · exact ((hinv.2.2.2.2.1 li hli).2.2 hcomp).1
    · rw [linIdx_one]
      unfold lin1
      apply ((hinv.2.2.2.2.1 li hli).2.2 hcomp).2.2
      intro c hc e
      dsimp only at e
      apply hout
      intro d hd0
      have hd00 : d = 0 := by omega
      subst hd00
      have ec : c = x 0 := by omega
      rw [← ec]
      exact hc
  · have hdim2 : dim = 2 ∨ dim = 3 := by omega
    have hd2 : wt.d_dim = 2 ∨ wt.d_dim = 3 := by rw [hd]; exact hdim2
    obtain ⟨st1, st, _, hst, _, hinv, hcomb⟩ := transformBody_ND sqrt smooth hwt hd2 hpre
    rw [hd] at hinv hcomb
    obtain ⟨_, _, _, _, _, _, emean, _, _, _, _⟩ := hcomb
    obtain ⟨_, _, _, hax, _, _⟩ := hinv
    refine ⟨st, hst, fun li hli => ⟨_, hbuf li hli, ?_, fun x hx hout => ?_⟩⟩
    · rw [emean]
      exact ((hax li hli).2 hcomp).1
    · rw [emean]
      have hsub : ∀ d, d < dim → -coefGhosts wcs d ≤ (fun _ => (0 : Int)) d ∧
          N d ≤ N d + coefGhosts wcs d := by
        intro d hd0
        obtain ⟨_, _, hpG, _, _⟩ := ghost_nonneg hwt d
        have hG := hpre.ghosts_coef d (by rw [hd]; exact hd0)
        have e2 : (0 : Int) ≤ wt.d_p * 2 ^ wt.d_num_level := by
          obtain ⟨hp1, _, _, _, _⟩ := ghost_nonneg hwt d
          positivity
        dsimp only
        constructor <;> omega
      exact Filled.outside hdim ((hax li hli).2 hcomp) hsub hx hout

theorem C38_local_mean_frame_witness :
    WaveletTransformHarten.new 1 2 2 = Except.ok (exEngine 1 2) ∧
    Pre (exEngine 1 2) exDims (exField 7 exStep) (exCoefs 1 7) exDirty 0 ∧
    exDirty ≠ [] ∧
    ∃ st, transformBody ratSqrt (exEngine 1 2) exDims (exField 7 exStep) (exCoefs 1 7) exDirty
        0 false = Except.ok st ∧
      ∀ li, li < (exEngine 1 2).d_num_level →
        ∃ m, (exDirty[li]?).bind (fun c => c.getPointer 0) = some m ∧
          (level st.f_mean li).length = m.length ∧
          ∀ x : IntVector,
            InBox 1 (fun d => -coefGhosts (exCoefs 1 7) d)
              (fun d => exDims d + coefGhosts (exCoefs 1 7) d) x →
            ¬ InBox 1 (fun _ => 0) exDims x →
            valAt (level st.f_mean li)
                (linIdx 1 (coefGhosts (exCoefs 1 7))
                  (fun d => exDims d + 2 * coefGhosts (exCoefs 1 7) d) x)
              = valAt m
                (linIdx 1 (coefGhosts (exCoefs 1 7))
                  (fun d => exDims d + 2 * coefGhosts (exCoefs 1 7) d) x) :=
  ⟨exEngine_ok 1 (Or.inl rfl), exPre_dirty_means, by simp [exDirty],
    C38_local_mean_frame ratSqrt _ _ _ _ _ 0 false 1 2 2 (exEngine_ok 1 (Or.inl rfl))
      exPre_dirty_means (by simp [exDirty])⟩

/-! ## Smoothing as an average -/

/-- The smoothed value lies between any two bounds of the samples it averages. -/
theorem smoothVal_bounds (f : Arr) (lo hi : Int) (idxOf : Int → Int) (c0 : Int) (m M : ℚ)
    (hc0 : lo ≤ c0 ∧ c0 < hi)
    (h : ∀ ii, max (c0 - 1) lo ≤ ii → ii < min (c0 + 2) hi →
      m ≤ valAt f (idxOf ii) ∧ valAt f (idxOf ii) ≤ M) :
    m ≤ smoothVal f lo hi idxOf c0 ∧ smoothVal f lo hi idxOf c0 ≤ M := by
  unfold smoothVal
  have hmem : c0 ∈ [c0 - 1, c0, c0 + 1].filter (fun ii => decide (lo ≤ ii ∧ ii < hi)) := by
    rw [List.mem_filter]
    exact ⟨by simp, by simpa using hc0⟩
  have hpos : 0 < ([c0 - 1, c0, c0 + 1].filter (fun ii => decide (lo ≤ ii ∧ ii < hi))).length :=
    List.length_pos_of_mem hmem
  have hall : ∀ v ∈ ([c0 - 1, c0, c0 + 1].filter (fun ii => decide (lo ≤ ii ∧ ii < hi))).map
      (fun ii => valAt f (idxOf ii)), m ≤ v ∧ v ≤ M := by
    intro v hv
    rw [List.mem_map] at hv
    obtain ⟨ii, hii, rfl⟩ := hv
    rw [List.mem_filter] at hii
    obtain ⟨h1, h2⟩ := hii
    have h3 : lo ≤ ii ∧ ii < hi := by simpa using h2
    simp only [List.mem_cons, List.mem_singleton, List.not_mem_nil, or_false] at h1
    apply h
    · rcases h1 with rfl | rfl | rfl <;> simp only [max_le_iff] <;> constructor <;> omega
    · rcases h1 with rfl | rfl | rfl <;> simp only [lt_min_iff] <;> constructor <;> omega
  have hlen : (([c0 - 1, c0, c0 + 1].filter (fun ii => decide (lo ≤ ii ∧ ii < hi))).map
      (fun ii => valAt f (idxOf ii))).length
      = ([c0 - 1, c0, c0 + 1].filter (fun ii => decide (lo ≤ ii ∧ ii < hi))).length :=
    List.length_map _ _
  have hq : (0 : ℚ) < (([c0 - 1, c0, c0 + 1].filter
      (fun ii => decide (lo ≤ ii ∧ ii < hi))).length : ℚ) := by exact_mod_cast hpos
  have hup := List.sum_le_card_nsmul _ M (fun v hv => (hall v hv).2)
  have hdn := List.card_nsmul_le_sum _ m (fun v hv => (hall v hv).1)
  rw [hlen, nsmul_eq_mul] at hup hdn
  constructor
  · rw [le_div_iff₀ hq]
    linarith
  · rw [div_le_iff₀ hq]
    linarith

/-- C37 (amended): in exact arithmetic `smoothCellData` completes and, in 1-D,
2-D and 3-D, if the input equals
`c` at every allocated cell then every component of the smoothed field equals
`c` at every allocated cell, edge cells included; more generally, whenever all
the samples averaged for a cell (the cell and its allocated neighbours along the
axis) lie in `[m, M]`, the smoothed value of the cell lies in `[m, M]`. -/
theorem C37_smoothing_preserves_bounds (wt : WaveletTransformHarten) (N : IntVector)
    (cell_data : CellData) (depth : Nat) (f : Arr)
    (hdim : wt.d_dim = 1 ∨ wt.d_dim = 2 ∨ wt.d_dim = 3)
    (hf : cell_data.getPointer depth = some f)
    (hlen : (f.length : Int) = boxSize wt.d_dim (cell_data.ghostBoxDims N)) :
    ∃ s, smoothCellData wt N cell_data depth = some s ∧ s.data.length = wt.d_dim ∧
      (∀ c : ℚ, (∀ n : Int, 0 ≤ n → n < f.length → valAt f n = c) →
        ∀ a, a < wt.d_dim → ∀ x : IntVector,
          InBox wt.d_dim (fun d => -cell_data.ghosts d) (fun d => N d + cell_data.ghosts d) x →
          valAt (level s.data a)
            (linIdx wt.d_dim cell_data.ghosts (cell_data.ghostBoxDims N) x) = c) ∧
      (∀ (m M : ℚ) (a : Nat), a < wt.d_dim → ∀ x : IntVector,
        InBox wt.d_dim (fun d => -cell_data.ghosts d) (fun d => N d + cell_data.ghosts d) x →
        (∀ ii : Int, max (x a - 1) (-cell_data.ghosts a) ≤ ii →
          ii < min (x a + 2) (N a + cell_data.ghosts a) →
          m ≤ valAt f (linIdx wt.d_dim cell_data.ghosts (cell_data.ghostBoxDims N)
              (moveTo x a ii)) ∧
          valAt f (linIdx wt.d_dim cell_data.ghosts (cell_data.ghostBoxDims N)
              (moveTo x a ii)) ≤ M) →
        m ≤ valAt (level s.data a)
            (linIdx wt.d_dim cell_data.ghosts (cell_data.ghostBoxDims N) x) ∧
        valAt (level s.data a)
            (linIdx wt.d_dim cell_data.ghosts (cell_data.ghostBoxDims N) x) ≤ M) := by
  obtain ⟨s, hs, _, hn, hF⟩ := smoothCellData_spec wt N cell_data depth f hdim hf hlen
  have hlen2 : (f.length : Int) = boxSize wt.d_dim (fun d => N d + 2 * cell_data.ghosts d) :=
    hlen
  refine ⟨s, hs, hn, fun c hc a ha x hx => ?_, fun m M a ha x hx hb => ?_⟩
  · have hv := (hF a ha).2.1 x hx
    have e : cell_data.ghostBoxDims N = fun d => N d + 2 * cell_data.ghosts d := rfl
    rw [e, hv]
    refine smoothVal_const f _ _ _ (x a) c (hx a ha) (fun ii h1 h2 => ?_)
    have hb := linIdx_bounds hdim (InBox_moveTo hx (a := a) (t := ii) ⟨h1, h2⟩)
    rw [← hlen2] at hb
    exact hc _ hb.1 hb.2
  · have hv := (hF a ha).2.1 x hx
    have e : cell_data.ghostBoxDims N = fun d => N d + 2 * cell_data.ghosts d := rfl
    rw [e] at hb ⊢
    rw [hv]
    exact smoothVal_bounds f _ _ _ (x a) m M (hx a ha) hb

theorem C37_smoothing_preserves_bounds_witness :
    ((exEngine 1 2).d_dim = 1 ∨ (exEngine 1 2).d_dim = 2 ∨ (exEngine 1 2).d_dim = 3) ∧
    (exField 7 exOnes).getPointer 0 = some exOnes ∧
    ((exOnes.length : Nat) : Int) =
      boxSize (exEngine 1 2).d_dim ((exField 7 exOnes).ghostBoxDims exDims) ∧
    ∃ s, smoothCellData (exEngine 1 2) exDims (exField 7 exOnes) 0 = some s ∧
      s.data.length = (exEngine 1 2).d_dim ∧
      (∀ c : ℚ, (∀ n : Int, 0 ≤ n → n < exOnes.length →
          valAt exOnes n = c) →
        ∀ a, a < (exEngine 1 2).d_dim → ∀ x : IntVector,
          InBox (exEngine 1 2).d_dim (fun d => -(exField 7 exOnes).ghosts d)
            (fun d => exDims d + (exField 7 exOnes).ghosts d) x →
          valAt (level s.data a)
            (linIdx (exEngine 1 2).d_dim (exField 7 exOnes).ghosts ((exField 7 exOnes).ghostBoxDims exDims) x)
              = c) ∧
      (∀ (m M : ℚ) (a : Nat), a < (exEngine 1 2).d_dim → ∀ x : IntVector,
        InBox (exEngine 1 2).d_dim (fun d => -(exField 7 exOnes).ghosts d)
          (fun d => exDims d + (exField 7 exOnes).ghosts d) x →
        (∀ ii : Int, max (x a - 1) (-(exField 7 exOnes).ghosts a) ≤ ii →
          ii < min (x a + 2) (exDims a + (exField 7 exOnes).ghosts a) →
          m ≤ valAt exOnes
              (linIdx (exEngine 1 2).d_dim (exField 7 exOnes).ghosts ((exField 7 exOnes).ghostBoxDims exDims)
                (moveTo x a ii)) ∧
          valAt exOnes
              (linIdx (exEngine 1 2).d_dim (exField 7 exOnes).ghosts ((exField 7 exOnes).ghostBoxDims exDims)
                (moveTo x a ii)) ≤ M) →
        m ≤ valAt (level s.data a)
            (linIdx (exEngine 1 2).d_dim (exField 7 exOnes).ghosts ((exField 7 exOnes).ghostBoxDims exDims) x) ∧
        valAt (level s.data a)
            (linIdx (exEngine 1 2).d_dim (exField 7 exOnes).ghosts ((exField 7 exOnes).ghostBoxDims exDims) x)
              ≤ M) :=
  ⟨Or.inl rfl, rfl, by decide,
    C37_smoothing_preserves_bounds (exEngine 1 2) exDims (exField 7 exOnes) 0
      exOnes (Or.inl rfl) rfl (by decide)⟩

/-! ## Wavelet value as input minus scaling value -/

/-- The high-pass value is the centre sample minus the low-pass value. -/
theorem high_eq_sub {k : Int} (hk : k = 2 ∨ k = 4) (src : Int → ℚ) (s i : Int) :
    highVal k src s i = src i - lowVal k src s i := by
  rcases hk with rfl | rfl
  · simp only [highVal, lowVal, if_true]
    ring
  · have h42 : ¬ ((4 : Int) = 2) := by decide
    simp only [highVal, lowVal, h42, if_false]
    ring

theorem telescope (L : Nat) (W g : Nat → ℚ) (h : ∀ li, li < L → W li = g li - g (li + 1)) :
    Finset.sum (Finset.range L) W = g 0 - g L := by
  rw [← Finset.sum_range_sub' g L]
  exact Finset.sum_congr rfl (fun li hli => h li (Finset.mem_range.mp hli))

theorem pow_mono_le {p : Int} (hp : 0 ≤ p) {li lj : Nat} (h : li ≤ lj) :
    p * 2 ^ li ≤ p * 2 ^ lj :=
  mul_le_mul_of_nonneg_left (pow_le_pow_right₀ (by norm_num) h) hp

theorem passBox_mono {wt : WaveletTransformHarten} (hp : 0 ≤ wt.d_p) (N : IntVector) {dim : Nat}
    (a : Nat) {li lj : Nat} (h : li ≤ lj) {x : IntVector}
    (hx : InBox dim (passLo wt a lj) (passHi wt N a lj) x) :
    InBox dim (passLo wt a li) (passHi wt N a li) x := by
  have e := pow_mono_le hp h
  intro d hd
  have hxd := hx d hd
  unfold passLo passHi at hxd ⊢
  by_cases c : d = a
  · simp only [c, if_true] at hxd ⊢
    constructor <;> omega
  · simp only [c, if_false] at hxd ⊢
    exact hxd

theorem lowIn1D_next (gc gw : IntVector) (f : Arr) (f_x : List Arr) (li : Nat) (i : Int) :
    lowIn1D gc gw f f_x (li + 1) i = valAt (level f_x li) (i + gw 0) := by
  simp [lowIn1D]

theorem lowIn_next (dim : Nat) (N gc gw : IntVector) (f : Arr) (fa : List Arr) (li : Nat)
    (x : IntVector) (a : Nat) :
    lowIn dim N gc gw f fa (li + 1) x a (x a)
      = valAt (level fa li) (linIdx dim gw (fun d => N d + 2 * gw d) x) := by
  simp [lowIn, lineOf, moveTo_self]

theorem lowIn_first (dim : Nat) (N gc gw : IntVector) (f : Arr) (fa : List Arr)
    (x : IntVector) (a : Nat) :
    lowIn dim N gc gw f fa 0 x a (x a)
      = valAt f (linIdx dim gc (fun d => N d + 2 * gc d) x) := by
  simp [lowIn, lineOf, moveTo_self]

/-- C33 (amended): in exact arithmetic the call completes and, for `k = 2` and
`k = 4`, at every level and
every cell of the level's computed window the signed wavelet value is the level
input at the cell minus the level's scaling value at the cell.  In 1-D the
stored coefficient is the absolute value of that difference; in 2-D and 3-D the
signed value is the one stored by the pass along the axis.  On the window of
the top level the signed wavelet values of all levels add up to the input
minus the top-level scaling value. -/
theorem C33_wavelet_is_input_minus_scaling (sqrt : ℚ → ℚ) (wt : WaveletTransformHarten)
    (N : IntVector) (cd : CellData) (wcs means : List CellData) (depth : Nat) (smooth : Bool)
    (dim : Nat) (L k : Int)
    (hwt : WaveletTransformHarten.new dim L k = Except.ok wt)
    (hpre : Pre wt N cd wcs means depth) :
    ∃ (st : State) (fin : Nat → Arr),
      transformBody sqrt wt N cd wcs means depth smooth = Except.ok st ∧
      (∀ a, a < dim → inputOf wt N cd depth smooth a = some (fin a)) ∧
      (dim = 1 →
        (∀ li, li < wt.d_num_level → ∀ i : Int,
          -wt.d_num_wavelet_ghosts 0 + wt.d_p * 2 ^ li ≤ i →
          i < N 0 + wt.d_num_wavelet_ghosts 0 - wt.d_p * 2 ^ li →
          highVal wt.d_k (lowIn1D cd.ghosts (coefGhosts wcs) (fin 0) st.f_x li) (2 ^ li) i
            = lowIn1D cd.ghosts (coefGhosts wcs) (fin 0) st.f_x li i
              - valAt (level st.f_x li) (i + coefGhosts wcs 0) ∧
          valAt (level st.w li) (i + coefGhosts wcs 0)
            = |lowIn1D cd.ghosts (coefGhosts wcs) (fin 0) st.f_x li i
              - valAt (level st.f_x li) (i + coefGhosts wcs 0)|) ∧
        (∀ i : Int,
          -wt.d_num_wavelet_ghosts 0 + wt.d_p * 2 ^ (wt.d_num_level - 1) ≤ i →
          i < N 0 + wt.d_num_wavelet_ghosts 0 - wt.d_p * 2 ^ (wt.d_num_level - 1) →
          Finset.sum (Finset.range wt.d_num_level) (fun li =>
              highVal wt.d_k (lowIn1D cd.ghosts (coefGhosts wcs) (fin 0) st.f_x li) (2 ^ li) i)
            = valAt (fin 0) (i + cd.ghosts 0)
              - valAt (level st.f_x (wt.d_num_level - 1)) (i + coefGhosts wcs 0))) ∧
      (dim ≠ 1 →
        (∀ li, li < wt.d_num_level → ∀ a, a < dim → ∀ x : IntVector,
          InBox dim (passLo wt a li) (passHi wt N a li) x →
          valAt (level (st.wAx a) li)
              (linIdx dim (coefGhosts wcs) (fun d => N d + 2 * coefGhosts wcs d) x)
            = lowIn dim N cd.ghosts (coefGhosts wcs) (fin a) (st.fAx a) li x a (x a)
              - valAt (level (st.fAx a) li)
                (linIdx dim (coefGhosts wcs) (fun d => N d + 2 * coefGhosts wcs d) x)) ∧
        (∀ a, a < dim → ∀ x : IntVector,
          InBox dim (passLo wt a (wt.d_num_level - 1)) (passHi wt N a (wt.d_num_level - 1)) x →
          Finset.sum (Finset.range wt.d_num_level) (fun li =>
              valAt (level (st.wAx a) li)
                (linIdx dim (coefGhosts wcs) (fun d => N d + 2 * coefGhosts wcs d) x))
            = valAt (fin a) (linIdx dim cd.ghosts (fun d => N d + 2 * cd.ghosts d) x)
              - valAt (level (st.fAx a) (wt.d_num_level - 1))
                (linIdx dim (coefGhosts wcs) (fun d => N d + 2 * coefGhosts wcs d) x))) := by
  obtain ⟨hk, _, hd, _, hdk, _, _, _⟩ := new_ok hwt
  have hk2 : wt.d_k = 2 ∨ wt.d_k = 4 := by rw [hdk]; exact hk
  have hdim : dim = 1 ∨ dim = 2 ∨ dim = 3 := by rw [← hd]; exact hpre.dim
  obtain ⟨hp1, _, _, _, hL⟩ := ghost_nonneg hwt 0
  have hp0 : (0 : Int) ≤ wt.d_p := by omega
  by_cases h1 : dim = 1
  · subst h1
    obtain ⟨st, f, hst, hin, _, hinv⟩ := transformBody_1D sqrt smooth hwt hd hpre
    have hlev := hinv.2.2.2.2.1
    have key : ∀ li, li < wt.d_num_level → ∀ i : Int,
        -wt.d_num_wavelet_ghosts 0 + wt.d_p * 2 ^ li ≤ i →
        i < N 0 + wt.d_num_wavelet_ghosts 0 - wt.d_p * 2 ^ li →
        highVal wt.d_k (lowIn1D cd.ghosts (coefGhosts wcs) f st.f_x li) (2 ^ li) i
          = lowIn1D cd.ghosts (coefGhosts wcs) f st.f_x li i
            - valAt (level st.f_x li) (i + coefGhosts wcs 0) := by
      intro li hli i h1 h2
      rw [high_eq_sub hk2]
      have := (hlev li hli).1.2.1 i ⟨h1, h2⟩
      dsimp only at this
      rw [this]
    refine ⟨st, fun _ => f, hst, fun a ha => ?_, fun _ => ⟨fun li hli i h1 h2 => ?_,
      fun i h1 h2 => ?_⟩, fun hne => absurd rfl hne⟩
    · have : a = 0 := by omega
      subst this
      exact hin
    · refine ⟨key li hli i h1 h2, ?_⟩
      have := (hlev li hli).2.1.2.1 i ⟨h1, h2⟩
      dsimp only at this
      rw [this, key li hli i h1 h2]
    · have e := telescope wt.d_num_level
        (fun li => highVal wt.d_k (lowIn1D cd.ghosts (coefGhosts wcs) f st.f_x li) (2 ^ li) i)
        (fun n => lowIn1D cd.ghosts (coefGhosts wcs) f st.f_x n i)
        (fun li hli => by
          have hm := @pow_mono_le wt.d_p hp0 li (wt.d_num_level - 1) (by omega)
          dsimp only
          rw [key li hli i (by omega) (by omega), lowIn1D_next])
      rw [e]
      have hLL : wt.d_num_level = (wt.d_num_level - 1) + 1 := by omega
      have e2 : lowIn1D cd.ghosts (coefGhosts wcs) f st.f_x wt.d_num_level i
          = valAt (level st.f_x (wt.d_num_level - 1)) (i + coefGhosts wcs 0) := by
        rw [hLL, lowIn1D_next]
        rfl
      dsimp only
      rw [e2]
      simp [lowIn1D]
  · have hdim2 : dim = 2 ∨ dim = 3 := by omega
    have hd2 : wt.d_dim = 2 ∨ wt.d_dim = 3 := by rw [hd]; exact hdim2
    obtain ⟨st1, st, fin, hst, hfin, hinv, hcomb⟩ := transformBody_ND sqrt smooth hwt hd2 hpre
    rw [hd] at hinv hcomb hfin
    obtain ⟨efx, efy, efz, ewx, ewy, ewz, _, _, _, _, _⟩ := hcomb
    have efa : ∀ a, st.fAx a = st1.fAx a := by
      intro a
      unfold State.fAx
      rw [efx, efy, efz]
    have ewa : ∀ a, st.wAx a = st1.wAx a := by
      intro a
      unfold State.wAx
      rw [ewx, ewy, ewz]
    obtain ⟨_, _, _, hax, _, _⟩ := hinv
    have key : ∀ li, li < wt.d_num_level → ∀ a, a < dim → ∀ x : IntVector,
        InBox dim (passLo wt a li) (passHi wt N a li) x →
        valAt (level (st.wAx a) li)
            (linIdx dim (coefGhosts wcs) (fun d => N d + 2 * coefGhosts wcs d) x)
          = lowIn dim N cd.ghosts (coefGhosts wcs) (fin a) (st.fAx a) li x a (x a)
            - valAt (level (st.fAx a) li)
              (linIdx dim (coefGhosts wcs) (fun d => N d + 2 * coefGhosts wcs d) x) := by
      intro li hli a ha x hx
      rw [efa, ewa]
      obtain ⟨hF, hW⟩ := (hax li hli).1 a ha
      have eW := hW.2.1 x hx
      have eF := hF.2.1 x hx
      dsimp only at eW eF
      rw [eW, eF, high_eq_sub hk2]
    refine ⟨st, fin, hst, fun a ha => (hfin a ha).1, fun h => absurd h h1,
      fun _ => ⟨key, fun a ha x hx => ?_⟩⟩
    have e := telescope wt.d_num_level
      (fun li => valAt (level (st.wAx a) li)
          (linIdx dim (coefGhosts wcs) (fun d => N d + 2 * coefGhosts wcs d) x))
      (fun n => lowIn dim N cd.ghosts (coefGhosts wcs) (fin a) (st.fAx a) n x a (x a))
      (fun li hli => by
        dsimp only
        rw [key li hli a ha x (passBox_mono hp0 N a (by omega) hx), lowIn_next])
    rw [e]
    have hLL : wt.d_num_level = (wt.d_num_level - 1) + 1 := by omega
    have e2 : lowIn dim N cd.ghosts (coefGhosts wcs) (fin a) (st.fAx a) wt.d_num_level x a (x a)
        = valAt (level (st.fAx a) (wt.d_num_level - 1))
          (linIdx dim (coefGhosts wcs) (fun d => N d + 2 * coefGhosts wcs d) x) := by
      rw [hLL, lowIn_next]
      rfl
    dsimp only
    rw [e2, lowIn_first]

theorem C33_wavelet_is_input_minus_scaling_witness :
    WaveletTransformHarten.new 2 2 2 = Except.ok (exEngine 2 2) ∧
    Pre (exEngine 2 2) exDims (exField 7 exBumps) (exCoefs 2 7) [] 0 ∧
    ∃ (st : State) (fin : Nat → Arr),
      transformBody ratSqrt (exEngine 2 2) exDims (exField 7 exBumps) (exCoefs 2 7) [] 0 false = Except.ok st ∧
      (∀ a, a < 2 → inputOf (exEngine 2 2) exDims (exField 7 exBumps) 0 false a = some (fin a)) ∧
      (2 = 1 →
        (∀ li, li < (exEngine 2 2).d_num_level → ∀ i : Int,
          -(exEngine 2 2).d_num_wavelet_ghosts 0 + (exEngine 2 2).d_p * 2 ^ li ≤ i →
          i < exDims 0 + (exEngine 2 2).d_num_wavelet_ghosts 0 - (exEngine 2 2).d_p * 2 ^ li →
          highVal (exEngine 2 2).d_k (lowIn1D (exField 7 exBumps).ghosts (coefGhosts (exCoefs 2 7)) (fin 0) st.f_x li) (2 ^ li) i
            = lowIn1D (exField 7 exBumps).ghosts (coefGhosts (exCoefs 2 7)) (fin 0) st.f_x li i
              - valAt (level st.f_x li) (i + coefGhosts (exCoefs 2 7) 0) ∧
          valAt (level st.w li) (i + coefGhosts (exCoefs 2 7) 0)
            = |lowIn1D (exField 7 exBumps).ghosts (coefGhosts (exCoefs 2 7)) (fin 0) st.f_x li i
              - valAt (level st.f_x li) (i + coefGhosts (exCoefs 2 7) 0)|) ∧
        (∀ i : Int,
          -(exEngine 2 2).d_num_wavelet_ghosts 0 + (exEngine 2 2).d_p * 2 ^ ((exEngine 2 2).d_num_level - 1) ≤ i →
          i < exDims 0 + (exEngine 2 2).d_num_wavelet_ghosts 0 - (exEngine 2 2).d_p * 2 ^ ((exEngine 2 2).d_num_level - 1) →
          Finset.sum (Finset.range (exEngine 2 2).d_num_level) (fun li =>
              highVal (exEngine 2 2).d_k (lowIn1D (exField 7 exBumps).ghosts (coefGhosts (exCoefs 2 7)) (fin 0) st.f_x li) (2 ^ li) i)
            = valAt (fin 0) (i + (exField 7 exBumps).ghosts 0)
              - valAt (level st.f_x ((exEngine 2 2).d_num_level - 1)) (i + coefGhosts (exCoefs 2 7) 0))) ∧
      (2 ≠ 1 →
        (∀ li, li < (exEngine 2 2).d_num_level → ∀ a, a < 2 → ∀ x : IntVector,
          InBox 2 (passLo (exEngine 2 2) a li) (passHi (exEngine 2 2) exDims a li) x →
          valAt (level (st.wAx a) li)
              (linIdx 2 (coefGhosts (exCoefs 2 7)) (fun d => exDims d + 2 * coefGhosts (exCoefs 2 7) d) x)
            = lowIn 2 exDims (exField 7 exBumps).ghosts (coefGhosts (exCoefs 2 7)) (fin a) (st.fAx a) li x a (x a)
              - valAt (level (st.fAx a) li)
                (linIdx 2 (coefGhosts (exCoefs 2 7)) (fun d => exDims d + 2 * coefGhosts (exCoefs 2 7) d) x)) ∧
        (∀ a, a < 2 → ∀ x : IntVector,
          InBox 2 (passLo (exEngine 2 2) a ((exEngine 2 2).d_num_level - 1)) (passHi (exEngine 2 2) exDims a ((exEngine 2 2).d_num_level - 1)) x →
          Finset.sum (Finset.range (exEngine 2 2).d_num_level) (fun li =>
              valAt (level (st.wAx a) li)
                (linIdx 2 (coefGhosts (exCoefs 2 7)) (fun d => exDims d + 2 * coefGhosts (exCoefs 2 7) d) x))
            = valAt (fin a) (linIdx 2 (exField 7 exBumps).ghosts (fun d => exDims d + 2 * (exField 7 exBumps).ghosts d) x)
              - valAt (level (st.fAx a) ((exEngine 2 2).d_num_level - 1))
                (linIdx 2 (coefGhosts (exCoefs 2 7)) (fun d => exDims d + 2 * coefGhosts (exCoefs 2 7) d) x))) :=
  ⟨exEngine_ok 2 (Or.inl rfl),
    exPre 2 (Or.inl rfl) (Or.inr (Or.inl rfl)) 7 (by decide) exBumps exBumps_length false,
    C33_wavelet_is_input_minus_scaling ratSqrt _ _ _ _ _ 0 false 2 2 2
      (exEngine_ok 2 (Or.inl rfl))
      (exPre 2 (Or.inl rfl) (Or.inr (Or.inl rfl)) 7 (by decide) exBumps exBumps_length false)⟩

/-! ## Linearity of the stencils and of the smoothing -/

theorem stencil_sub (k : Int) (a b : Int → ℚ) (s i : Int) :
    lowVal k (fun j => a j - b j) s i = lowVal k a s i - lowVal k b s i ∧
    highVal k (fun j => a j - b j) s i = highVal k a s i - highVal k b s i ∧
    sumVal k (fun j => a j - b j) s i = sumVal k a s i - sumVal k b s i := by
  unfold lowVal highVal sumVal
  split <;> refine ⟨?_, ?_, ?_⟩ <;> ring

theorem stencil_scale (k : Int) (a : Int → ℚ) (t : ℚ) (s i : Int) :
    lowVal k (fun j => t * a j) s i = t * lowVal k a s i ∧
    highVal k (fun j => t * a j) s i = t * highVal k a s i ∧
    sumVal k (fun j => t * a j) s i = t * sumVal k a s i := by
  unfold lowVal highVal sumVal
  split <;> refine ⟨?_, ?_, ?_⟩ <;> ring

/-- The smoothed value of `t*f + c` is `t` times the smoothed value of `f`, plus
`c`. -/
theorem smoothVal_affine (f f2 : Arr) (lo hi : Int) (idxOf : Int → Int) (c0 : Int) (t c : ℚ)
    (hc0 : lo ≤ c0 ∧ c0 < hi)
    (h : ∀ ii, lo ≤ ii → ii < hi → valAt f2 (idxOf ii) = t * valAt f (idxOf ii) + c) :
    smoothVal f2 lo hi idxOf c0 = t * smoothVal f lo hi idxOf c0 + c := by
  unfold smoothVal
  have hmem : c0 ∈ [c0 - 1, c0, c0 + 1].filter (fun ii => decide (lo ≤ ii ∧ ii < hi)) :=
    List.mem_filter.2 ⟨by simp, by simpa using hc0⟩
  have hpos : 0 < ([c0 - 1, c0, c0 + 1].filter (fun ii => decide (lo ≤ ii ∧ ii < hi))).length :=
    List.length_pos_of_mem hmem
  have hsum : ∀ l : List Int,
      (∀ ii, ii ∈ l → valAt f2 (idxOf ii) = t * valAt f (idxOf ii) + c) →
      (l.map (fun ii => valAt f2 (idxOf ii))).sum
        = t * (l.map (fun ii => valAt f (idxOf ii))).sum + (l.length : ℚ) * c := by
    intro l
    induction l with
    | nil => intro _; simp
    | cons a r ih =>
      intro hl
      rw [List.map_cons, List.sum_cons, ih (fun ii hii => hl ii (List.mem_cons_of_mem _ hii)),
        hl a (List.mem_cons_self _ _), List.map_cons, List.sum_cons, List.length_cons]
      push_cast
      ring
  dsimp only
  rw [hsum _ (fun ii hii => by
    have := (List.mem_filter.1 hii).2
    simp only [decide_eq_true_eq] at this
    exact h ii this.1 this.2)]
  have hne : ((([c0 - 1, c0, c0 + 1].filter (fun ii => decide (lo ≤ ii ∧ ii < hi))).length : Nat)
      : ℚ) ≠ 0 := by
    exact_mod_cast Nat.pos_iff_ne_zero.1 hpos
  rw [add_div, mul_div_assoc, mul_div_cancel_left₀ c hne]

/-- Input buffers selected for axis `a` by two calls whose input components are
related by `f2 = t*f + c` at every allocated cell: the selected buffers are
related in the same way on the ghost box, with or without smoothing. -/
theorem inputOf_affine {wt : WaveletTransformHarten} {N : IntVector} {cd cd2 : CellData}
    {wcs means wcs2 means2 : List CellData} {depth : Nat}
    (hpre : Pre wt N cd wcs means depth) (hpre2 : Pre wt N cd2 wcs2 means2 depth)
    (hg : cd2.ghosts = cd.ghosts) (smooth : Bool) {a : Nat} (ha : a < wt.d_dim)
    (f0 f02 : Arr) (hf0 : cd.getPointer depth = some f0)
    (hf02 : cd2.getPointer depth = some f02) (t c : ℚ)
    (h : ∀ n : Int, 0 ≤ n → n < f0.length → valAt f02 n = t * valAt f0 n + c) :
    ∃ f f2, inputOf wt N cd depth smooth a = some f ∧
      inputOf wt N cd2 depth smooth a = some f2 ∧
      ∀ x, InBox wt.d_dim (fun d => -cd.ghosts d) (fun d => N d + cd.ghosts d) x →
        valAt f2 (linIdx wt.d_dim cd.ghosts (fun d => N d + 2 * cd.ghosts d) x)
          = t * valAt f (linIdx wt.d_dim cd.ghosts (fun d => N d + 2 * cd.ghosts d) x) + c := by
  obtain ⟨f1, hf1, hlf1⟩ := hpre.input
  have e01 : f1 = f0 := by
    rw [hf0] at hf1
    exact (Option.some.inj hf1).symm
  subst e01
  have hcell : ∀ x, InBox wt.d_dim (fun d => -cd.ghosts d) (fun d => N d + cd.ghosts d) x →
      valAt f02 (linIdx wt.d_dim cd.ghosts (fun d => N d + 2 * cd.ghosts d) x)
        = t * valAt f1 (linIdx wt.d_dim cd.ghosts (fun d => N d + 2 * cd.ghosts d) x) + c := by
    intro x hx
    have hb := linIdx_bounds hpre.dim hx
    exact h _ hb.1 (by rw [hlf1]; exact hb.2)
  cases smooth with
  | false =>
    refine ⟨f1, f02, by rw [inputOf_raw]; exact hf0, by rw [inputOf_raw]; exact hf02, hcell⟩
  | true =>
    obtain ⟨f, hf, hv⟩ := inputOf_smoothed hpre ha f1 hf0
    obtain ⟨f2, hf2, hv2⟩ := inputOf_smoothed hpre2 ha f02 hf02
    rw [hg] at hv2
    refine ⟨f, f2, hf, hf2, fun x hx => ?_⟩
    rw [hv x hx, hv2 x hx]
    exact smoothVal_affine f1 f02 _ _ _ (x a) t c (hx a ha)
      (fun ii h1 h2 => hcell _ (InBox_moveTo hx ⟨h1, h2⟩))

/-! ## Shift of the input by a constant in 1-D -/

/-- Two 1-D calls on inputs that differ by a constant at every allocated cell: on
the cells of level `li` whose dependencies all lie in computed windows the
wavelet coefficients agree. -/
theorem shift_invariance_1D (sqrt : ℚ → ℚ) {wt : WaveletTransformHarten} {N : IntVector}
    {cd cd2 : CellData} {wcs means : List CellData} {depth : Nat} (smooth : Bool)
    {L k : Int} (hwt : WaveletTransformHarten.new 1 L k = Except.ok wt)
    (hpre : Pre wt N cd wcs means depth) (hpre2 : Pre wt N cd2 wcs means depth)
    (hg : cd2.ghosts = cd.ghosts) (f0 f02 : Arr) (hf0 : cd.getPointer depth = some f0)
    (hf02 : cd2.getPointer depth = some f02) (c : ℚ)
    (h : ∀ n : Int, 0 ≤ n → n < f0.length → valAt f02 n = valAt f0 n + c) :
    ∃ st st2, transformBody sqrt wt N cd wcs means depth smooth = Except.ok st ∧
      transformBody sqrt wt N cd2 wcs means depth smooth = Except.ok st2 ∧
      ∀ li, li < wt.d_num_level →
        ∀ i, -wt.d_num_wavelet_ghosts 0 + wt.d_p * (2 ^ (li + 1) - 1) ≤ i →
          i < N 0 + wt.d_num_wavelet_ghosts 0 - wt.d_p * (2 ^ (li + 1) - 1) →
          valAt (level st2.w li) (i + coefGhosts wcs 0)
            = valAt (level st.w li) (i + coefGhosts wcs 0) := by
  obtain ⟨hk, _, hd, _, hdk, hp, _, _⟩ := new_ok hwt
  obtain ⟨hp1, _, _, hGeq, _⟩ := ghost_nonneg hwt 0
  obtain ⟨st, f, hst, hin, _, hinv⟩ := transformBody_1D sqrt smooth hwt hd hpre
  obtain ⟨st2, f2, hst2, hin2, _, hinv2⟩ := transformBody_1D sqrt smooth hwt hd hpre2
  rw [hg] at hinv2
  have hG := hpre.ghosts_coef 0 (by omega)
  have hgc := hpre.ghosts_cell 0 (by omega)
  obtain ⟨fa, fb, hfa, hfb, hrel⟩ := inputOf_affine hpre hpre2 hg smooth
    (show 0 < wt.d_dim by omega) f0 f02 hf0 hf02 1 c
    (fun n h1 h2 => by rw [one_mul]; exact h n h1 h2)
  have ea : fa = f := by
    rw [hin] at hfa
    exact (Option.some.inj hfa).symm
  have eb : fb = f2 := by
    rw [hin2] at hfb
    exact (Option.some.inj hfb).symm
  subst ea eb
  have hfc : ∀ j, -cd.ghosts 0 ≤ j → j < N 0 + cd.ghosts 0 →
      valAt fb (j + cd.ghosts 0) = valAt fa (j + cd.ghosts 0) + c := by
    intro j hj1 hj2
    have := hrel (fun _ => j) (fun d _ => by
      rw [hd] at *
      have : d = 0 := by omega
      subst this
      exact ⟨hj1, hj2⟩)
    rw [hd, linIdx_one, one_mul] at this
    exact this
  have hkk : wt.d_k = 2 ∨ wt.d_k = 4 := by rw [hdk]; exact hk
  have hhw : halfWidth wt.d_k = wt.d_p := by rw [hp, hdk]
  have hcas := @cascade_const wt.d_k hkk wt.d_p (wt.d_num_wavelet_ghosts 0) (N 0)
    wt.d_num_level hhw.symm
    (fun li i => valAt (level st2.f_x li) (i + coefGhosts wcs 0)
      - valAt (level st.f_x li) (i + coefGhosts wcs 0))
    (fun li j => lowIn1D cd.ghosts (coefGhosts wcs) fb st2.f_x li j
      - lowIn1D cd.ghosts (coefGhosts wcs) fa st.f_x li j) c
    (fun li hli i h1 h2 => by
      have e1 := (hinv.2.2.2.2.1 li hli).1.2.1 i ⟨h1, h2⟩
      have e2 := (hinv2.2.2.2.2.1 li hli).1.2.1 i ⟨h1, h2⟩
      dsimp only at e1 e2 ⊢
      rw [e1, e2, (stencil_sub _ _ _ _ _).1])
    (fun j h1 h2 => by
      dsimp only
      rw [lowIn1D_zero, lowIn1D_zero]
      dsimp only
      rw [hfc j (by omega) (by omega)]
      ring)
    (fun li hli j => by
      dsimp only
      rw [lowIn1D_succ _ _ _ _ hli, lowIn1D_succ _ _ _ _ hli])
  refine ⟨st, st2, hst, hst2, fun li hli i hi1 hi2 => ?_⟩
  obtain ⟨hsrc, _⟩ := hcas li hli
  have e1 : (2 : Int) ^ (li + 1) = 2 * 2 ^ li := by ring
  have e2 : (1 : Int) ≤ 2 ^ li := one_le_pow₀ (by norm_num)
  have hmul : wt.d_p * (2 ^ (li + 1) - 1) = 2 * (wt.d_p * 2 ^ li) - wt.d_p := by
    rw [e1]
    ring
  have hpos : wt.d_p ≤ wt.d_p * 2 ^ li := le_mul_of_one_le_right (by omega) e2
  have hwin : -wt.d_num_wavelet_ghosts 0 + wt.d_p * 2 ^ li ≤ i ∧
      i < N 0 + wt.d_num_wavelet_ghosts 0 - wt.d_p * 2 ^ li := by
    constructor <;> omega
  have hz := (stencil_const hkk
    (fun j => lowIn1D cd.ghosts (coefGhosts wcs) fb st2.f_x li j
      - lowIn1D cd.ghosts (coefGhosts wcs) fa st.f_x li j)
    (2 ^ li) i c (fun m hm1 hm2 =>
      hsrc i hi1 hi2 m (by rw [← hhw]; exact hm1) (by rw [← hhw]; exact hm2))).2.1
  rw [(stencil_sub _ _ _ _ _).2.1] at hz
  have w1 := (hinv.2.2.2.2.1 li hli).2.1.2.1 i hwin
  have w2 := (hinv2.2.2.2.2.1 li hli).2.1.2.1 i hwin
  dsimp only at w1 w2
  rw [w1, w2, sub_eq_zero.mp hz]

/-- C34 (amended): in exact arithmetic, in 1-D, for `k = 2` and `k = 4` and with
or without smoothing, two calls
whose input components differ by a constant `c` at every allocated cell (ghost
cells included) both complete, and their wavelet coefficients are equal at every
interior cell of every level. -/
theorem C34_shift_invariance_1D (sqrt : ℚ → ℚ) (wt : WaveletTransformHarten) (N : IntVector)
    (cd cd2 : CellData) (wcs means : List CellData) (depth : Nat) (smooth : Bool)
    (L k : Int) (f f2 : Arr) (c : ℚ)
    (hwt : WaveletTransformHarten.new 1 L k = Except.ok wt)
    (hpre : Pre wt N cd wcs means depth) (hpre2 : Pre wt N cd2 wcs means depth)
    (hg : cd2.ghosts = cd.ghosts) (hf : cd.getPointer depth = some f)
    (hf2 : cd2.getPointer depth = some f2)
    (hshift : ∀ n : Int, 0 ≤ n → n < f.length → valAt f2 n = valAt f n + c) :
    ∃ st st2, transformBody sqrt wt N cd wcs means depth smooth = Except.ok st ∧
      transformBody sqrt wt N cd2 wcs means depth smooth = Except.ok st2 ∧
      ∀ li, li < wt.d_num_level → ∀ i : Int, 0 ≤ i → i < N 0 →
        valAt (level st2.w li) (i + coefGhosts wcs 0)
          = valAt (level st.w li) (i + coefGhosts wcs 0) := by
  obtain ⟨hp1, _, _, hGeq, _⟩ := ghost_nonneg hwt 0
  obtain ⟨st, st2, hst, hst2, hw⟩ := shift_invariance_1D sqrt smooth hwt hpre hpre2 hg f f2
    hf hf2 c hshift
  refine ⟨st, st2, hst, hst2, fun li hli i hi1 hi2 => ?_⟩
  have hv := @valid_le_ghost wt.d_p (by omega) li wt.d_num_level hli
  rw [← hGeq] at hv
  exact hw li hli i (by omega) (by omega)

theorem valAt_map_add (a : Arr) (c : ℚ) (n : Int) (h0 : 0 ≤ n) (h1 : n < a.length) :
    valAt (a.map (fun v => v + c)) n = valAt a n + c := by
  have hlt : n.toNat < a.length := by omega
  unfold valAt
  rw [if_pos h0, if_pos h0, List.getD_eq_getElem?_getD, List.getD_eq_getElem?_getD,
    List.getElem?_map, List.getElem?_eq_getElem hlt]
  rfl

theorem exStepUp_length : (exStepUp.length : Int) = boxSize 1 (fun _ => 8 + 2 * 7) := by
  unfold exStepUp
  rw [List.length_map]
  rfl

theorem C34_shift_invariance_1D_witness :
    WaveletTransformHarten.new 1 2 2 = Except.ok (exEngine 1 2) ∧
    Pre (exEngine 1 2) exDims (exField 7 exStep) (exCoefs 1 7) [] 0 ∧
    Pre (exEngine 1 2) exDims (exField 7 exStepUp) (exCoefs 1 7) [] 0 ∧
    (exField 7 exStepUp).ghosts = (exField 7 exStep).ghosts ∧
    (exField 7 exStep).getPointer 0 = some exStep ∧
    (exField 7 exStepUp).getPointer 0 = some exStepUp ∧
    (∀ n : Int, 0 ≤ n → n < exStep.length → valAt exStepUp n = valAt exStep n + 3) ∧
    ∃ st st2,
      transformBody ratSqrt (exEngine 1 2) exDims (exField 7 exStep) (exCoefs 1 7) [] 0 true
        = Except.ok st ∧
      transformBody ratSqrt (exEngine 1 2) exDims (exField 7 exStepUp) (exCoefs 1 7) [] 0 true
        = Except.ok st2 ∧
      ∀ li, li < (exEngine 1 2).d_num_level → ∀ i : Int, 0 ≤ i → i < exDims 0 →
        valAt (level st2.w li) (i + coefGhosts (exCoefs 1 7) 0)
          = valAt (level st.w li) (i + coefGhosts (exCoefs 1 7) 0) :=
  ⟨exEngine_ok 1 (Or.inl rfl),
    exPre 1 (Or.inl rfl) (Or.inl rfl) 7 (by decide) exStep (by decide) false,
    exPre 1 (Or.inl rfl) (Or.inl rfl) 7 (by decide) exStepUp exStepUp_length false,
    rfl, rfl, rfl, valAt_map_add exStep 3,
    C34_shift_invariance_1D ratSqrt _ exDims _ _ _ [] 0 true 2 2 exStep exStepUp 3
      (exEngine_ok 1 (Or.inl rfl))
      (exPre 1 (Or.inl rfl) (Or.inl rfl) 7 (by decide) exStep (by decide) false)
      (exPre 1 (Or.inl rfl) (Or.inl rfl) 7 (by decide) exStepUp exStepUp_length false)
      rfl rfl rfl (valAt_map_add exStep 3)⟩

/-- Edge of the level-1 window: the constant fields 1 and 0 differ by a constant
at every allocated cell, yet at the cell `-5` of the level-1 window (`k = 2`,
`L = 2`, 8 interior cells, 7 ghost cells) their wavelet coefficients are `1/2`
and `0`. -/
theorem shift_edge_example :
    (∀ n : Int, 0 ≤ n → n < (zeros 22).length → valAt exOnes n = valAt (zeros 22) n + 1) ∧
    ∃ st st2,
      transformBody ratSqrt (exEngine 1 2) exDims (exField 7 (zeros 22)) (exCoefs 1 7) [] 0 false
        = Except.ok st ∧
      transformBody ratSqrt (exEngine 1 2) exDims (exField 7 exOnes) (exCoefs 1 7) [] 0 false
        = Except.ok st2 ∧
      valAt (level st.w 1) (-5 + coefGhosts (exCoefs 1 7) 0) = 0 ∧
      valAt (level st2.w 1) (-5 + coefGhosts (exCoefs 1 7) 0) = 1 / 2 := by
  obtain ⟨hp, hk, hl, hG, hd⟩ := exEngine_one_two
  obtain ⟨st2, hst2, hw2, _⟩ := ones_level1_edge
  obtain ⟨st, f, hst, _, hinv, _, hfacts⟩ := const_field_1D ratSqrt false
    (exEngine_ok 1 (Or.inl rfl))
    (exPre 1 (Or.inl rfl) (Or.inl rfl) 7 (by decide) (zeros 22) (by decide) false)
    (zeros 22) rfl 0 (fun n _ _ => valAt_zeros 22 n)
  refine ⟨fun n h0 h1 => ?_, st, st2, hst, hst2, ?_, hw2⟩
  · rw [valAt_zeros, zero_add]
    exact exOnes_const n h0 h1
  have hgw : coefGhosts (exCoefs 1 7) 0 = 7 := rfl
  obtain ⟨hL0a, _, _⟩ := hinv.2.2.2.2.1 0 (by rw [hl]; decide)
  obtain ⟨_, hL1b, _⟩ := hinv.2.2.2.2.1 1 (by rw [hl]; decide)
  rw [hgw, hG, hp] at hL0a hL1b
  have h0 := (hfacts 0 (by rw [hl]; decide)).1
  rw [hgw, hG, hp] at h0
  have a1 : valAt (level st.f_x 0) 0 = 0 := by
    have := hL0a.2.2 0 (fun c hc => by
      dsimp only
      norm_num at hc
      omega)
    rw [this, valAt_zeros]
  have a2 : valAt (level st.f_x 0) 2 = 0 := by
    have := (h0 (-5) (by norm_num) (by simp [exDims])).1
    norm_num at this
    exact this
  have a3 : valAt (level st.f_x 0) 4 = 0 := by
    have := (h0 (-3) (by norm_num) (by simp [exDims])).1
    norm_num at this
    exact this
  have s1 : lowIn1D (exField 7 (zeros 22)).ghosts (coefGhosts (exCoefs 1 7)) f st.f_x 1
      = fun j => valAt (level st.f_x 0) (j + 7) := by
    rw [lowIn1D_succ _ _ _ _ (le_refl 1)]
    rfl
  have b2 := hL1b.2.1 (-5) (by simp [exDims])
  rw [s1] at b2
  rw [hgw, b2, hk]
  simp only [highVal, if_true]
  norm_num [a1, a2, a3]

/-! ## Scaling of the input by a factor -/

/-- Two buffers filled on the same window: if the values written and the buffers
before the pass are related by the factor `r`, so are the buffers after it, at
every index. -/
theorem Filled.scale {C : Type} {win : C → Prop} {ix : C → Int} {v v2 : C → ℚ}
    {a a2 b b2 : Arr} (r : ℚ) (h : Filled win ix v a b) (h2 : Filled win ix v2 a2 b2)
    (hv : ∀ c, win c → v2 c = r * v c) (ha : ∀ n, valAt a2 n = r * valAt a n) :
    ∀ n, valAt b2 n = r * valAt b n := by
  intro n
  by_cases hn : ∃ c, win c ∧ ix c = n
  · obtain ⟨c, hc, e⟩ := hn
    rw [← e, h.2.1 c hc, h2.2.1 c hc, hv c hc]
  · have hne : ∀ c, win c → ix c ≠ n := fun c hc e => hn ⟨c, hc, e⟩
    rw [h.2.2 _ hne, h2.2.2 _ hne, ha n]

/-- Stencil values of samples that are `t` times other samples at the points the
stencil reads. -/
theorem stencil_scaled {k : Int} (hk : k = 2 ∨ k = 4) (src src2 : Int → ℚ) (t : ℚ) (s i : Int)
    (h : ∀ m : Int, -halfWidth k ≤ m → m ≤ halfWidth k →
      src2 (i + m * s) = t * src (i + m * s)) :
    lowVal k src2 s i = t * lowVal k src s i ∧ highVal k src2 s i = t * highVal k src s i := by
  obtain ⟨e1, e2, _⟩ := stencil_congr hk src2 (fun j => t * src j) s i h
  obtain ⟨e3, e4, _⟩ := stencil_scale k src t s i
  exact ⟨e1.trans e3, e2.trans e4⟩

/-- Two 1-D transforms whose inputs are related by the factor `t` on the cells
the cascade reads: the scaling buffers are related by `t` and the coefficient
buffers by `|t|`, at every index of every level. -/
theorem scale_1D {wt : WaveletTransformHarten} {N gc gw : IntVector} {f f2 : Arr}
    {w0 m0 : List Arr} {comp : Bool} {st st2 : State} (t : ℚ)
    (hk : wt.d_k = 2 ∨ wt.d_k = 4) (hp : wt.d_p = halfWidth wt.d_k)
    (hin : ∀ j, -wt.d_num_wavelet_ghosts 0 ≤ j → j < N 0 + wt.d_num_wavelet_ghosts 0 →
      valAt f2 (j + gc 0) = t * valAt f (j + gc 0))
    (hw0 : ∀ li, li < wt.d_num_level → ∀ n, valAt (level w0 li) n = 0)
    (hinv : Inv1D wt N gc gw f w0 m0 comp wt.d_num_level st)
    (hinv2 : Inv1D wt N gc gw f2 w0 m0 comp wt.d_num_level st2) :
    ∀ li, li < wt.d_num_level →
      (∀ n, valAt (level st2.f_x li) n = t * valAt (level st.f_x li) n) ∧
      (∀ n, valAt (level st2.w li) n = |t| * valAt (level st.w li) n) := by
  have step : ∀ li, li < wt.d_num_level →
      (∀ i, -wt.d_num_wavelet_ghosts 0 + wt.d_p * 2 ^ li ≤ i →
        i < N 0 + wt.d_num_wavelet_ghosts 0 - wt.d_p * 2 ^ li →
        ∀ m : Int, -halfWidth wt.d_k ≤ m → m ≤ halfWidth wt.d_k →
          lowIn1D gc gw f2 st2.f_x li (i + m * 2 ^ li)
            = t * lowIn1D gc gw f st.f_x li (i + m * 2 ^ li)) →
      (∀ n, valAt (level st2.f_x li) n = t * valAt (level st.f_x li) n) ∧
      (∀ n, valAt (level st2.w li) n = |t| * valAt (level st.w li) n) := by
    intro li hli hsrc
    obtain ⟨hF, hW, _⟩ := hinv.2.2.2.2.1 li hli
    obtain ⟨hF2, hW2, _⟩ := hinv2.2.2.2.2.1 li hli
    constructor
    · exact Filled.scale t hF hF2 (fun c hc =>
        (stencil_scaled hk _ _ t _ c (hsrc c hc.1 hc.2)).1)
        (fun n => by rw [valAt_zeros, mul_zero])
    · exact Filled.scale |t| hW hW2 (fun c hc => by
        rw [(stencil_scaled hk _ _ t _ c (hsrc c hc.1 hc.2)).2, abs_mul])
        (fun n => by rw [hw0 li hli, mul_zero])
  intro li
  induction li with
  | zero =>
    intro hli
    apply step 0 hli
    intro i h1 h2 m hm1 hm2
    rw [← hp] at hm1 hm2
    rw [lowIn1D_zero, lowIn1D_zero]
    simp only [pow_zero, mul_one] at h1 h2 ⊢
    exact hin _ (by omega) (by omega)
  | succ n ih =>
    intro hli
    apply step (n + 1) hli
    intro i _ _ m _ _
    rw [lowIn1D_succ _ _ _ _ (by omega), lowIn1D_succ _ _ _ _ (by omega)]
    exact (ih (by omega)).1 _

theorem sumSq_scale (dim : Nat) (u : Nat → ℚ) (t : ℚ) :
    sumSq dim (fun a => t * u a) = t * t * sumSq dim u := by
  unfold sumSq
  split <;> ring

/-- Two passes along `axis` whose inputs are related by the factor `t` on the
cells the cascade reads: scaling and signed wavelet buffers are related by `t`
at every index of every level. -/
theorem scale_axis {dim : Nat} {wt : WaveletTransformHarten} {N gc gw : IntVector}
    {fin fin2 : Arr} {st st2 : State} (a : Nat) (ha : a < dim) (t : ℚ)
    (hk : wt.d_k = 2 ∨ wt.d_k = 4) (hp : wt.d_p = halfWidth wt.d_k)
    (hin : ∀ x, InBox dim (fun d => -wt.d_num_wavelet_ghosts d)
        (fun d => N d + wt.d_num_wavelet_ghosts d) x →
      valAt fin2 (linIdx dim gc (fun d => N d + 2 * gc d) x)
        = t * valAt fin (linIdx dim gc (fun d => N d + 2 * gc d) x))
    (hax : ∀ li, li < wt.d_num_level → AxisLevel dim wt N gc gw fin st a li)
    (hax2 : ∀ li, li < wt.d_num_level → AxisLevel dim wt N gc gw fin2 st2 a li) :
    ∀ li, li < wt.d_num_level →
      (∀ n, valAt (level (st2.fAx a) li) n = t * valAt (level (st.fAx a) li) n) ∧
      (∀ n, valAt (level (st2.wAx a) li) n = t * valAt (level (st.wAx a) li) n) := by
  have step : ∀ li, li < wt.d_num_level →
      (∀ x, InBox dim (passLo wt a li) (passHi wt N a li) x →
        ∀ m : Int, -halfWidth wt.d_k ≤ m → m ≤ halfWidth wt.d_k →
          lowIn dim N gc gw fin2 (st2.fAx a) li x a (x a + m * 2 ^ li)
            = t * lowIn dim N gc gw fin (st.fAx a) li x a (x a + m * 2 ^ li)) →
      (∀ n, valAt (level (st2.fAx a) li) n = t * valAt (level (st.fAx a) li) n) ∧
      (∀ n, valAt (level (st2.wAx a) li) n = t * valAt (level (st.wAx a) li) n) := by
    intro li hli hsrc
    obtain ⟨hF, hW⟩ := hax li hli
    obtain ⟨hF2, hW2⟩ := hax2 li hli
    constructor
    · exact Filled.scale t hF hF2 (fun c hc =>
        (stencil_scaled hk _ _ t _ (c a) (hsrc c hc)).1)
        (fun n => by rw [valAt_zeros, mul_zero])
    · exact Filled.scale t hW hW2 (fun c hc =>
        (stencil_scaled hk _ _ t _ (c a) (hsrc c hc)).2)
        (fun n => by rw [valAt_zeros, mul_zero])
  intro li
  induction li with
  | zero =>
    intro hli
    apply step 0 hli
    intro x hx m hm1 hm2
    rw [← hp] at hm1 hm2
    rw [lowIn_zero, lowIn_zero]
    unfold lineOf
    apply hin
    intro d hd
    have hxd := hx d hd
    unfold passLo passHi at hxd
    unfold moveTo
    by_cases c : d = a
    · subst c
      simp only [if_true, pow_zero, mul_one] at hxd ⊢
      constructor <;> omega
    · simp only [c, if_false] at hxd ⊢
      exact hxd
  | succ n ih =>
    intro hli
    apply step (n + 1) hli
    intro x _ m _ _
    rw [lowIn_succ _ _ _ _ _ _ (by omega), lowIn_succ _ _ _ _ _ _ (by omega)]
    unfold lineOf
    exact (ih (by omega)).1 _

/-- C35: for a factor `t` and a square root with `sqrt (t*t*q) = |t| * sqrt q` on
non-negative `q`, two calls whose input components are related by `f2 = t*f` at
every allocated cell both complete, and at every level the coefficient buffer of
the second call has the length of that of the first and holds `|t|` times its
value at every index, in 1-D, 2-D and 3-D, for `k = 2` and `k = 4`, with or
without smoothing. -/
theorem C35_absolute_homogeneity (sqrt : ℚ → ℚ) (t : ℚ)
    (hsqrt : ∀ q : ℚ, 0 ≤ q → sqrt (t * t * q) = |t| * sqrt q)
    (wt : WaveletTransformHarten) (N : IntVector) (cd cd2 : CellData)
    (wcs means : List CellData) (depth : Nat) (smooth : Bool) (dim : Nat) (L k : Int)
    (f f2 : Arr)
    (hwt : WaveletTransformHarten.new dim L k = Except.ok wt)
    (hpre : Pre wt N cd wcs means depth) (hpre2 : Pre wt N cd2 wcs means depth)
    (hg : cd2.ghosts = cd.ghosts) (hf : cd.getPointer depth = some f)
    (hf2 : cd2.getPointer depth = some f2)
    (hscale : ∀ n : Int, 0 ≤ n → n < f.length → valAt f2 n = t * valAt f n) :
    ∃ st st2, transformBody sqrt wt N cd wcs means depth smooth = Except.ok st ∧
      transformBody sqrt wt N cd2 wcs means depth smooth = Except.ok st2 ∧
      ∀ li, li < wt.d_num_level →
        (level st2.w li).length = (level st.w li).length ∧
        ∀ n : Int, valAt (level st2.w li) n = |t| * valAt (level st.w li) n := by
  obtain ⟨hk, _, hd, _, hdk, hp, _, _⟩ := new_ok hwt
  have hkk : wt.d_k = 2 ∨ wt.d_k = 4 := by rw [hdk]; exact hk
  have hhw : wt.d_p = halfWidth wt.d_k := by rw [hp, hdk]
  have hdim : dim = 1 ∨ dim = 2 ∨ dim = 3 := by rw [← hd]; exact hpre.dim
  obtain ⟨_, hw0⟩ := w0Of_facts hpre
  have hbase : ∀ li, li < wt.d_num_level → ∀ n,
      valAt (level (w0Of wcs wt.d_num_level) li) n = 0 := by
    intro li hli n
    rw [(hw0 li hli).1, valAt_zeros]
  have hrel : ∀ a, a < wt.d_dim → ∃ fa fb, inputOf wt N cd depth smooth a = some fa ∧
      inputOf wt N cd2 depth smooth a = some fb ∧
      ∀ x, InBox wt.d_dim (fun d => -wt.d_num_wavelet_ghosts d)
          (fun d => N d + wt.d_num_wavelet_ghosts d) x →
        valAt fb (linIdx wt.d_dim cd.ghosts (fun d => N d + 2 * cd.ghosts d) x)
          = t * valAt fa (linIdx wt.d_dim cd.ghosts (fun d => N d + 2 * cd.ghosts d) x) := by
    intro a ha
    obtain ⟨fa, fb, hfa, hfb, hr⟩ := inputOf_affine hpre hpre2 hg smooth ha f f2 hf hf2 t 0
      (fun n h1 h2 => by rw [add_zero]; exact hscale n h1 h2)
    refine ⟨fa, fb, hfa, hfb, fun x hx => ?_⟩
    have := hr x (InBox_mono (fun d hd0 => by
      have h1 := hpre.ghosts_coef d hd0
      have h2 := hpre.ghosts_cell d hd0
      constructor <;> omega) hx)
    rw [add_zero] at this
    exact this
  by_cases h1 : dim = 1
  · subst h1
    obtain ⟨st, fa, hst, hin, _, hinv⟩ := transformBody_1D sqrt smooth hwt hd hpre
    obtain ⟨st2, fb, hst2, hin2, _, hinv2⟩ := transformBody_1D sqrt smooth hwt hd hpre2
    rw [hg] at hinv2
    obtain ⟨fa1, fb1, hfa, hfb, hr⟩ := hrel 0 (by omega)
    have ea : fa1 = fa := by
      rw [hin] at hfa
      exact (Option.some.inj hfa).symm
    have eb : fb1 = fb := by
      rw [hin2] at hfb
      exact (Option.some.inj hfb).symm
    subst ea eb
    have hfc : ∀ j, -wt.d_num_wavelet_ghosts 0 ≤ j → j < N 0 + wt.d_num_wavelet_ghosts 0 →
        valAt fb1 (j + cd.ghosts 0) = t * valAt fa1 (j + cd.ghosts 0) := by
      intro j hj1 hj2
      have := hr (fun _ => j) (fun d _ => by
        rw [hd] at *
        have : d = 0 := by omega
        subst this
        exact ⟨hj1, hj2⟩)
      rw [hd, linIdx_one] at this
      exact this
    have hs := scale_1D t hkk hhw hfc hbase hinv hinv2
    refine ⟨st, st2, hst, hst2, fun li hli => ⟨?_, (hs li hli).2⟩⟩
    have l1 := (hinv.2.2.2.1 li hli).2.1
    have l2 := (hinv2.2.2.2.1 li hli).2.1
    omega
  · have hdim2 : dim = 2 ∨ dim = 3 := by omega
    have hd2 : wt.d_dim = 2 ∨ wt.d_dim = 3 := by rw [hd]; exact hdim2
    obtain ⟨st1, st, fin, hst, hfin, hinv, hcomb⟩ := transformBody_ND sqrt smooth hwt hd2 hpre
    obtain ⟨st1b, stb, finb, hstb, hfinb, hinvb, hcombb⟩ :=
      transformBody_ND sqrt smooth hwt hd2 hpre2
    rw [hg] at hinvb
    rw [hd] at hinv hinvb hcomb hcombb hfin hfinb hrel
    obtain ⟨efx, efy, efz, ewx, ewy, ewz, _, _, hlen, hC, _⟩ := hcomb
    obtain ⟨efxb, efyb, efzb, ewxb, ewyb, ewzb, _, _, hlenb, hCb, _⟩ := hcombb
    have ewa : ∀ a, st.wAx a = st1.wAx a := by
      intro a
      unfold State.wAx
      rw [ewx, ewy, ewz]
    have ewab : ∀ a, stb.wAx a = st1b.wAx a := by
      intro a
      unfold State.wAx
      rw [ewxb, ewyb, ewzb]
    obtain ⟨_, _, _, hax, _, _⟩ := hinv
    obtain ⟨_, _, _, haxb, _, _⟩ := hinvb
    have hW : ∀ a, a < dim → ∀ li, li < wt.d_num_level → ∀ n,
        valAt (level (stb.wAx a) li) n = t * valAt (level (st.wAx a) li) n := by
      intro a ha li hli n
      obtain ⟨fa1, fb1, hfa, hfb, hr⟩ := hrel a ha
      have ea : fa1 = fin a := by
        rw [(hfin a ha).1] at hfa
        exact (Option.some.inj hfa).symm
      have eb : fb1 = finb a := by
        rw [(hfinb a ha).1] at hfb
        exact (Option.some.inj hfb).symm
      subst ea eb
      rw [ewa, ewab]
      exact ((scale_axis a ha t hkk hhw hr (fun lj hlj => (hax lj hlj).1 a ha)
        (fun lj hlj => (haxb lj hlj).1 a ha)) li hli).2 n
    refine ⟨st, stb, hst, hstb, fun li hli => ⟨?_, ?_⟩⟩
    · have l1 := hlen li hli
      have l2 := hlenb li hli
      omega
    · refine Filled.scale |t| (hC li hli) (hCb li hli) (fun x _ => ?_)
        (fun n => by rw [hbase li hli, mul_zero])
      unfold combVal
      rw [sumSq_congr hdim2 (fun a ha => hW a ha li hli _), sumSq_scale,
        hsqrt _ (sumSq_nonneg _ _)]

theorem valAt_map_neg (a : Arr) (n : Int) (h0 : 0 ≤ n) (h1 : n < a.length) :
    valAt (a.map (fun v => -v)) n = -1 * valAt a n := by
  have hlt : n.toNat < a.length := by omega
  unfold valAt
  rw [if_pos h0, if_pos h0, List.getD_eq_getElem?_getD, List.getD_eq_getElem?_getD,
    List.getElem?_map, List.getElem?_eq_getElem hlt]
  simp

theorem exBumpsNeg_length : (exBumpsNeg.length : Int) = boxSize 2 (fun _ => 8 + 2 * 7) := by
  unfold exBumpsNeg
  rw [List.length_map]
  exact exBumps_length

theorem exBumpsNeg_pointer : (exField 7 exBumpsNeg).getPointer 0 = some exBumpsNeg := by
  unfold exField CellData.getPointer
  exact List.getElem?_cons_zero

theorem ratSqrt_neg_one (q : ℚ) (_h : 0 ≤ q) : ratSqrt (-1 * -1 * q) = |(-1 : ℚ)| * ratSqrt q := by
  norm_num

theorem C35_absolute_homogeneity_witness :
    (∀ q : ℚ, 0 ≤ q → ratSqrt (-1 * -1 * q) = |(-1 : ℚ)| * ratSqrt q) ∧
    WaveletTransformHarten.new 2 2 2 = Except.ok (exEngine 2 2) ∧
    Pre (exEngine 2 2) exDims (exField 7 exBumps) (exCoefs 2 7) [] 0 ∧
    Pre (exEngine 2 2) exDims (exField 7 exBumpsNeg) (exCoefs 2 7) [] 0 ∧
    (exField 7 exBumpsNeg).ghosts = (exField 7 exBumps).ghosts ∧
    (exField 7 exBumps).getPointer 0 = some exBumps ∧
    (exField 7 exBumpsNeg).getPointer 0 = some exBumpsNeg ∧
    (∀ n : Int, 0 ≤ n → n < exBumps.length → valAt exBumpsNeg n = -1 * valAt exBumps n) ∧
    ∃ st st2,
      transformBody ratSqrt (exEngine 2 2) exDims (exField 7 exBumps) (exCoefs 2 7) [] 0 true
        = Except.ok st ∧
      transformBody ratSqrt (exEngine 2 2) exDims (exField 7 exBumpsNeg) (exCoefs 2 7) [] 0 true
        = Except.ok st2 ∧
      ∀ li, li < (exEngine 2 2).d_num_level →
        (level st2.w li).length = (level st.w li).length ∧
        ∀ n : Int, valAt (level st2.w li) n = |(-1 : ℚ)| * valAt (level st.w li) n :=
  ⟨ratSqrt_neg_one, exEngine_ok 2 (Or.inl rfl),
    exPre 2 (Or.inl rfl) (Or.inr (Or.inl rfl)) 7 (by decide) exBumps exBumps_length false,
    exPre 2 (Or.inl rfl) (Or.inr (Or.inl rfl)) 7 (by decide) exBumpsNeg exBumpsNeg_length false,
    rfl, exBumps_pointer, exBumpsNeg_pointer, valAt_map_neg exBumps,
    C35_absolute_homogeneity ratSqrt (-1) ratSqrt_neg_one _ exDims _ _ _ [] 0 true 2 2 2
      exBumps exBumpsNeg (exEngine_ok 2 (Or.inl rfl))
      (exPre 2 (Or.inl rfl) (Or.inr (Or.inl rfl)) 7 (by decide) exBumps exBumps_length false)
      (exPre 2 (Or.inl rfl) (Or.inr (Or.inl rfl)) 7 (by decide) exBumpsNeg exBumpsNeg_length
        false)
      rfl exBumps_pointer exBumpsNeg_pointer (valAt_map_neg exBumps)⟩

/-! ## Sufficiency of the ghost width -/

/-- Cascade along one line against the recursion without windows: on the cells
`[-G + p*(2^(li+1) - 1), M + G - p*(2^(li+1) - 1))` of level `li`, whose
dependencies all lie in computed windows, every sample the stencil reads and the
scaling value are those of the recursion without windows on the input `P`. -/
theorem cascade_ideal {k : Int} (hk : k = 2 ∨ k = 4) {p G M : Int} {L : Nat}
    (hp : p = halfWidth k) (F src : Nat → Int → ℚ) (P : Int → ℚ)
    (hF : ∀ li, li < L → ∀ i, -G + p * 2 ^ li ≤ i → i < M + G - p * 2 ^ li →
      F li i = lowVal k (src li) (2 ^ li) i)
    (h0 : ∀ j, -G ≤ j → j < M + G → src 0 j = P j)
    (hS : ∀ li, 1 ≤ li → ∀ j, src li j = F (li - 1) j) :
    ∀ li, li < L →
      (∀ i, -G + p * (2 ^ (li + 1) - 1) ≤ i → i < M + G - p * (2 ^ (li + 1) - 1) →
        ∀ m : Int, -p ≤ m → m ≤ p →
          src li (i + m * 2 ^ li) = cascadeIn k P li (i + m * 2 ^ li)) ∧
      (∀ i, -G + p * (2 ^ (li + 1) - 1) ≤ i → i < M + G - p * (2 ^ (li + 1) - 1) →
        F li i = cascadeLow k P li i) := by
  have hp12 : p = 1 ∨ p = 2 := by
    rcases hk with rfl | rfl
    · exact Or.inl hp
    · exact Or.inr hp
  have part2 : ∀ li, li < L →
      (∀ i, -G + p * (2 ^ (li + 1) - 1) ≤ i → i < M + G - p * (2 ^ (li + 1) - 1) →
        ∀ m : Int, -p ≤ m → m ≤ p →
          src li (i + m * 2 ^ li) = cascadeIn k P li (i + m * 2 ^ li)) →
      (∀ i, -G + p * (2 ^ (li + 1) - 1) ≤ i → i < M + G - p * (2 ^ (li + 1) - 1) →
        F li i = cascadeLow k P li i) := by
    intro li hli h1 i hi1 hi2
    have e1 : (2 : Int) ^ (li + 1) = 2 * 2 ^ li := by ring
    have e2 : (1 : Int) ≤ 2 ^ li := one_le_pow₀ (by norm_num)
    have hwin : -G + p * 2 ^ li ≤ i ∧ i < M + G - p * 2 ^ li := by
      rcases hp12 with rfl | rfl <;> constructor <;> omega
    rw [hF li hli i hwin.1 hwin.2]
    exact (stencil_congr hk (src li) (cascadeIn k P li) (2 ^ li) i (fun m hm1 hm2 =>
      h1 i hi1 hi2 m (by rw [hp]; exact hm1) (by rw [hp]; exact hm2))).1
  intro li
  induction li with
  | zero =>
    intro hli
    have h1 : ∀ i, -G + p * (2 ^ (0 + 1) - 1) ≤ i → i < M + G - p * (2 ^ (0 + 1) - 1) →
        ∀ m : Int, -p ≤ m → m ≤ p → src 0 (i + m * 2 ^ 0) = cascadeIn k P 0 (i + m * 2 ^ 0) := by
      intro i hi1 hi2 m hm1 hm2
      simp only [pow_zero, mul_one]
      have e : (2 : Int) ^ (0 + 1) = 2 := by norm_num
      rw [e] at hi1 hi2
      show src 0 (i + m) = P (i + m)
      apply h0
      · rcases hp12 with rfl | rfl <;> omega
      · rcases hp12 with rfl | rfl <;> omega
    exact ⟨h1, part2 0 hli h1⟩
  | succ n ih =>
    intro hli
    obtain ⟨_, ih2⟩ := ih (by omega)
    have h1 : ∀ i, -G + p * (2 ^ (n + 1 + 1) - 1) ≤ i →
        i < M + G - p * (2 ^ (n + 1 + 1) - 1) →
        ∀ m : Int, -p ≤ m → m ≤ p →
          src (n + 1) (i + m * 2 ^ (n + 1)) = cascadeIn k P (n + 1) (i + m * 2 ^ (n + 1)) := by
      intro i hi1 hi2 m hm1 hm2
      rw [hS (n + 1) (by omega)]
      have e1 : (2 : Int) ^ (n + 1 + 1) = 2 * 2 ^ (n + 1) := by ring
      have e2 : (1 : Int) ≤ 2 ^ (n + 1) := one_le_pow₀ (by norm_num)
      show F n (i + m * 2 ^ (n + 1)) = cascadeLow k P n (i + m * 2 ^ (n + 1))
      apply ih2
      · rcases hp12 with rfl | rfl <;> interval_cases m <;> omega
      · rcases hp12 with rfl | rfl <;> interval_cases m <;> omega
    exact ⟨h1, part2 (n + 1) hli h1⟩

/-- The combination window of level `li < L` lies in the cells of level `li` whose
dependencies all lie in computed windows: `p*2^(li+1) + p*(2^(li+1) - 1) <= G`. -/
theorem comb_in_clean {p : Int} (hp : 0 ≤ p) {li L : Nat} (h : li < L) :
    p * 2 ^ (li + 1) + p * (2 ^ (li + 1) - 1) ≤ p * (2 ^ (L + 1) - 1) := by
  have h1 : (2 : Int) ^ (li + 1 + 1) ≤ 2 ^ (L + 1) := pow_le_pow_right₀ (by norm_num) (by omega)
  have h2 : (2 : Int) ^ (li + 1 + 1) = 2 * 2 ^ (li + 1) := by ring
  calc p * 2 ^ (li + 1) + p * (2 ^ (li + 1) - 1) = p * (2 * 2 ^ (li + 1) - 1) := by ring
    _ ≤ p * (2 ^ (L + 1) - 1) := mul_le_mul_of_nonneg_left (by omega) hp

/-- C31: the call completes and, for every level `li < L`, every axis `a` and
every cell `x` of the pass whose coordinate along `a` lies in
`[-p*2^(li+1), N_a + p*2^(li+1))` (the other coordinates anywhere in
`[-G, N + G)`), the scaling value stored for axis `a` is the scaling value of
the cascade recursion without windows applied to the samples of the selected
input along the line through `x`, and the wavelet value is its signed wavelet
value (stored with its sign by the pass along `a` in 2-D and 3-D, as absolute
value in the coefficient buffer in 1-D). -/
theorem C31_halo_sufficiency (sqrt : ℚ → ℚ) (wt : WaveletTransformHarten) (N : IntVector)
    (cd : CellData) (wcs means : List CellData) (depth : Nat) (smooth : Bool)
    (dim : Nat) (L k : Int)
    (hwt : WaveletTransformHarten.new dim L k = Except.ok wt)
    (hpre : Pre wt N cd wcs means depth) :
    ∃ (st : State) (fin : Nat → Arr),
      transformBody sqrt wt N cd wcs means depth smooth = Except.ok st ∧
      (∀ a, a < dim → inputOf wt N cd depth smooth a = some (fin a)) ∧
      ∀ li, li < wt.d_num_level → ∀ a, a < dim → ∀ x : IntVector,
        InBox dim (fun d => -wt.d_num_wavelet_ghosts d)
          (fun d => N d + wt.d_num_wavelet_ghosts d) x →
        -wt.d_p * 2 ^ (li + 1) ≤ x a → x a < N a + wt.d_p * 2 ^ (li + 1) →
        valAt (level (st.fAx a) li)
            (linIdx dim (coefGhosts wcs) (fun d => N d + 2 * coefGhosts wcs d) x)
          = cascadeLow wt.d_k
              (lineOf dim cd.ghosts (fun d => N d + 2 * cd.ghosts d) (fin a) x a) li (x a) ∧
        (dim = 1 →
          valAt (level st.w li)
              (linIdx dim (coefGhosts wcs) (fun d => N d + 2 * coefGhosts wcs d) x)
            = |cascadeHigh wt.d_k
                (lineOf dim cd.ghosts (fun d => N d + 2 * cd.ghosts d) (fin a) x a) li (x a)|) ∧
        (dim ≠ 1 →
          valAt (level (st.wAx a) li)
              (linIdx dim (coefGhosts wcs) (fun d => N d + 2 * coefGhosts wcs d) x)
            = cascadeHigh wt.d_k
                (lineOf dim cd.ghosts (fun d => N d + 2 * cd.ghosts d) (fin a) x a) li (x a)) := by
  obtain ⟨hk, _, hd, _, hdk, hp, _, _⟩ := new_ok hwt
  have hkk : wt.d_k = 2 ∨ wt.d_k = 4 := by rw [hdk]; exact hk
  have hhw : wt.d_p = halfWidth wt.d_k := by rw [hp, hdk]
  have hdim : dim = 1 ∨ dim = 2 ∨ dim = 3 := by rw [← hd]; exact hpre.dim
  have hreg : ∀ li, li < wt.d_num_level → ∀ (a : Nat) (c : Int),
      -wt.d_p * 2 ^ (li + 1) ≤ c → c < N a + wt.d_p * 2 ^ (li + 1) →
      (-wt.d_num_wavelet_ghosts a + wt.d_p * (2 ^ (li + 1) - 1) ≤ c ∧
        c < N a + wt.d_num_wavelet_ghosts a - wt.d_p * (2 ^ (li + 1) - 1)) ∧
      (-wt.d_num_wavelet_ghosts a + wt.d_p * 2 ^ li ≤ c ∧
        c < N a + wt.d_num_wavelet_ghosts a - wt.d_p * 2 ^ li) := by
    intro li hli a c h1 h2
    obtain ⟨hp1, _, _, hGeq, _⟩ := ghost_nonneg hwt a
    have e := @comb_in_clean wt.d_p (by omega) li wt.d_num_level hli
    rw [← hGeq] at e
    have e1 : (2 : Int) ^ (li + 1) = 2 * 2 ^ li := by ring
    have e2 : (1 : Int) ≤ 2 ^ li := one_le_pow₀ (by norm_num)
    have hmul : wt.d_p * (2 ^ (li + 1) - 1) = 2 * (wt.d_p * 2 ^ li) - wt.d_p := by
      rw [e1]
      ring
    have hpos : wt.d_p ≤ wt.d_p * 2 ^ li := le_mul_of_one_le_right (by omega) e2
    have hneg : -wt.d_p * 2 ^ (li + 1) = -(wt.d_p * 2 ^ (li + 1)) := by ring
    rw [hneg] at h1
    refine ⟨⟨by omega, by omega⟩, ⟨by omega, by omega⟩⟩
  by_cases h1 : dim = 1
  · subst h1
    obtain ⟨st, f, hst, hin, _, hinv⟩ := transformBody_1D sqrt smooth hwt hd hpre
    have hlev := hinv.2.2.2.2.1
    have hcas := @cascade_ideal wt.d_k hkk wt.d_p (wt.d_num_wavelet_ghosts 0) (N 0)
      wt.d_num_level hhw
      (fun lj i => valAt (level st.f_x lj) (i + coefGhosts wcs 0))
      (fun lj j => lowIn1D cd.ghosts (coefGhosts wcs) f st.f_x lj j)
      (fun j => valAt f (j + cd.ghosts 0))
      (fun lj hlj i h1 h2 => (hlev lj hlj).1.2.1 i ⟨h1, h2⟩)
      (fun j _ _ => by
        dsimp only
        rw [lowIn1D_zero])
      (fun lj hlj j => by
        dsimp only
        rw [lowIn1D_succ _ _ _ _ hlj])
    refine ⟨st, fun _ => f, hst, fun a ha => ?_, fun li hli a ha x _ hx1 hx2 => ?_⟩
    · have : a = 0 := by omega
      subst this
      exact hin
    have ha0 : a = 0 := by omega
    subst ha0
    have hline : lineOf 1 cd.ghosts (fun d => N d + 2 * cd.ghosts d) f x 0
        = fun j => valAt f (j + cd.ghosts 0) := by
      funext j
      simp [lineOf, linIdx, lin1, moveTo]
    have hfx : st.fAx 0 = st.f_x := by simp [State.fAx]
    obtain ⟨hdep, hwin⟩ := hreg li hli 0 (x 0) hx1 hx2
    obtain ⟨hsrc, hF⟩ := hcas li hli
    rw [hline, hfx, linIdx_one]
    unfold lin1
    refine ⟨hF (x 0) hdep.1 hdep.2, fun _ => ?_, fun hne => absurd rfl hne⟩
    have hw := (hlev li hli).2.1.2.1 (x 0) hwin
    dsimp only at hw
    rw [hw]
    unfold cascadeHigh
    rw [(stencil_congr hkk _ (cascadeIn wt.d_k (fun j => valAt f (j + cd.ghosts 0)) li)
      (2 ^ li) (x 0) (fun m hm1 hm2 =>
        hsrc (x 0) hdep.1 hdep.2 m (by rw [hhw]; exact hm1) (by rw [hhw]; exact hm2))).2.1]
  · have hdim2 : dim = 2 ∨ dim = 3 := by omega
    have hd2 : wt.d_dim = 2 ∨ wt.d_dim = 3 := by rw [hd]; exact hdim2
    obtain ⟨st1, st, fin, hst, hfin, hinv, hcomb⟩ := transformBody_ND sqrt smooth hwt hd2 hpre
    rw [hd] at hinv hcomb hfin
    obtain ⟨efx, efy, efz, ewx, ewy, ewz, _, _, _, _, _⟩ := hcomb
    have efa : ∀ a, st.fAx a = st1.fAx a := by
      intro a
      unfold State.fAx
      rw [efx, efy, efz]
    have ewa : ∀ a, st.wAx a = st1.wAx a := by
      intro a
      unfold State.wAx
      rw [ewx, ewy, ewz]
    obtain ⟨_, _, _, hax, _, _⟩ := hinv
    refine ⟨st, fin, hst, fun a ha => (hfin a ha).1, fun li hli a ha x hx hx1 hx2 => ?_⟩
    have hbox : ∀ lj (i : Int), -wt.d_num_wavelet_ghosts a + wt.d_p * 2 ^ lj ≤ i →
        i < N a + wt.d_num_wavelet_ghosts a - wt.d_p * 2 ^ lj →
        InBox dim (passLo wt a lj) (passHi wt N a lj) (moveTo x a i) := by
      intro lj i h1 h2 d hd0
      have hxd := hx d hd0
      unfold passLo passHi moveTo
      by_cases c : d = a
      · subst c
        simp only [if_true]
        exact ⟨h1, h2⟩
      · simp only [c, if_false]
        exact hxd
    have hcas := @cascade_ideal wt.d_k hkk wt.d_p (wt.d_num_wavelet_ghosts a) (N a)
      wt.d_num_level hhw
      (fun lj i => valAt (level (st1.fAx a) lj)
        (linIdx dim (coefGhosts wcs) (fun d => N d + 2 * coefGhosts wcs d) (moveTo x a i)))
      (fun lj j => lowIn dim N cd.ghosts (coefGhosts wcs) (fin a) (st1.fAx a) lj x a j)
      (lineOf dim cd.ghosts (fun d => N d + 2 * cd.ghosts d) (fin a) x a)
      (fun lj hlj i h1 h2 => by
        have e := ((hax lj hlj).1 a ha).1.2.1 (moveTo x a i) (hbox lj i h1 h2)
        dsimp only at e
        rw [lowIn_moveTo, moveTo_at] at e
        exact e)
      (fun j _ _ => by
        dsimp only
        rw [lowIn_zero])
      (fun lj hlj j => by
        dsimp only
        rw [lowIn_succ _ _ _ _ _ _ hlj]
        rfl)
    obtain ⟨hdep, hwin⟩ := hreg li hli a (x a) hx1 hx2
    obtain ⟨hsrc, hF⟩ := hcas li hli
    have hF1 := hF (x a) hdep.1 hdep.2
    dsimp only at hF1
    rw [moveTo_self] at hF1
    rw [efa, ewa]
    refine ⟨hF1, fun h => absurd h h1, fun _ => ?_⟩
    have hxin : InBox dim (passLo wt a li) (passHi wt N a li) x := by
      have := hbox li (x a) hwin.1 hwin.2
      rwa [moveTo_self] at this
    have hw := ((hax li hli).1 a ha).2.2.1 x hxin
    dsimp only at hw
    rw [hw]
    unfold cascadeHigh
    rw [(stencil_congr hkk _ (cascadeIn wt.d_k
      (lineOf dim cd.ghosts (fun d => N d + 2 * cd.ghosts d) (fin a) x a) li)
      (2 ^ li) (x a) (fun m hm1 hm2 =>
        hsrc (x a) hdep.1 hdep.2 m (by rw [hhw]; exact hm1) (by rw [hhw]; exact hm2))).2.1]

theorem C31_halo_sufficiency_witness :
    WaveletTransformHarten.new 1 2 4 = Except.ok (exEngine 1 4) ∧
    Pre (exEngine 1 4) exDims (exField 14 exCubic) (exCoefs 1 14) [] 0 ∧
    ∃ (st : State) (fin : Nat → Arr),
      transformBody ratSqrt (exEngine 1 4) exDims (exField 14 exCubic)
          (exCoefs 1 14) [] 0 true = Except.ok st ∧
      (∀ a, a < 1 → inputOf (exEngine 1 4) exDims (exField 14 exCubic) 0 true a = some (fin a)) ∧
      ∀ li, li < (exEngine 1 4).d_num_level → ∀ a, a < 1 → ∀ x : IntVector,
        InBox 1 (fun d => -(exEngine 1 4).d_num_wavelet_ghosts d)
          (fun d => exDims d + (exEngine 1 4).d_num_wavelet_ghosts d) x →
        -(exEngine 1 4).d_p * 2 ^ (li + 1) ≤ x a → x a < exDims a + (exEngine 1 4).d_p * 2 ^ (li + 1) →
        valAt (level (st.fAx a) li)
            (linIdx 1 (coefGhosts (exCoefs 1 14)) (fun d => exDims d + 2 * coefGhosts (exCoefs 1 14) d) x)
          = cascadeLow (exEngine 1 4).d_k
              (lineOf 1 (exField 14 exCubic).ghosts (fun d => exDims d + 2 * (exField 14 exCubic).ghosts d) (fin a) x a) li (x a) ∧
        (1 = 1 →
          valAt (level st.w li)
              (linIdx 1 (coefGhosts (exCoefs 1 14)) (fun d => exDims d + 2 * coefGhosts (exCoefs 1 14) d) x)
            = |cascadeHigh (exEngine 1 4).d_k
                (lineOf 1 (exField 14 exCubic).ghosts (fun d => exDims d + 2 * (exField 14 exCubic).ghosts d) (fin a) x a) li (x a)|) ∧
        (1 ≠ 1 →
          valAt (level (st.wAx a) li)
              (linIdx 1 (coefGhosts (exCoefs 1 14)) (fun d => exDims d + 2 * coefGhosts (exCoefs 1 14) d) x)
            = cascadeHigh (exEngine 1 4).d_k
                (lineOf 1 (exField 14 exCubic).ghosts (fun d => exDims d + 2 * (exField 14 exCubic).ghosts d) (fin a) x a) li (x a)) :=
  ⟨exEngine_ok 1 (Or.inr rfl),
    exPre 1 (Or.inr rfl) (Or.inl rfl) 14 (by decide) exCubic exCubic_length false,
    C31_halo_sufficiency ratSqrt _ _ _ _ _ 0 true 1 2 4 (exEngine_ok 1 (Or.inr rfl))
      (exPre 1 (Or.inr rfl) (Or.inl rfl) 14 (by decide) exCubic exCubic_length false)⟩

/-! ## Minimality of the ghost width -/

/-- Closed form of the cells computed from computed values only: at level `li`
they are the cells of `[-G + p*(2^(li+1) - 1), M + G - p*(2^(li+1) - 1))`. -/
theorem cleanCell_iff {p : Int} (hp : 0 ≤ p) (G M : Int) (li : Nat) (i : Int) :
    cleanCell p G M li i = true ↔
      -G + p * (2 ^ (li + 1) - 1) ≤ i ∧ i < M + G - p * (2 ^ (li + 1) - 1) := by
  induction li generalizing i with
  | zero =>
    unfold cleanCell
    rw [decide_eq_true_iff]
    norm_num
  | succ n ih =>
    unfold cleanCell
    rw [Bool.and_eq_true, decide_eq_true_iff, List.all_eq_true]
    have e1 : (2 : Int) ^ (n + 1 + 1) = 2 * 2 ^ (n + 1) := by ring
    have e2 : (1 : Int) ≤ 2 ^ (n + 1) := one_le_pow₀ (by norm_num)
    have e3 : p ≤ p * 2 ^ (n + 1) := le_mul_of_one_le_right hp e2
    have e4 : p * (2 ^ (n + 1 + 1) - 1) = 2 * (p * 2 ^ (n + 1)) - p := by
      rw [e1]
      ring
    have e5 : p * (2 ^ (n + 1) - 1) = p * 2 ^ (n + 1) - p := by ring
    constructor
    · rintro ⟨_, hall⟩
      have hlo := (ih _).1 (hall (-p) (mem_range.2 ⟨by omega, by omega⟩))
      have hhi := (ih _).1 (hall p (mem_range.2 ⟨by omega, by omega⟩))
      rw [e5] at hlo hhi
      rw [e4]
      have e6 : -p * 2 ^ (n + 1) = -(p * 2 ^ (n + 1)) := by ring
      rw [e6] at hlo
      constructor <;> omega
    · rintro ⟨h1, h2⟩
      rw [e4] at h1 h2
      refine ⟨⟨by omega, by omega⟩, fun m hm => ?_⟩
      obtain ⟨hm1, hm2⟩ := mem_range.1 hm
      apply (ih _).2
      rw [e5]
      have a1 : 0 ≤ (m + p) * 2 ^ (n + 1) := mul_nonneg (by omega) (by omega)
      have a2 : 0 ≤ (p - m) * 2 ^ (n + 1) := mul_nonneg (by omega) (by omega)
      have a3 : (m + p) * 2 ^ (n + 1) = m * 2 ^ (n + 1) + p * 2 ^ (n + 1) := by ring
      have a4 : (p - m) * 2 ^ (n + 1) = p * 2 ^ (n + 1) - m * 2 ^ (n + 1) := by ring
      constructor <;> omega

/-- C32: for an engine built by the constructor (`L >= 2`, `k = 2` or `k = 4`) the
cells of the top level `L - 1` along an axis with `M >= 1` interior cells that are
computed from computed values only are exactly the cells of the level `L - 1`
combination window `[-p*2^L, M + q*2^L)`: its lowest index `-p*2^L` is such a
cell and no lower index is.  With the windows laid out from `G - 1` instead of
`G`, the cell `-p*2^L` is not such a cell. -/
theorem C32_ghost_width_minimal (wt : WaveletTransformHarten) (dim : Nat) (L k : Int)
    (hwt : WaveletTransformHarten.new dim L k = Except.ok wt) (d : Nat) (M : Int)
    (hM : 1 ≤ M) :
    (∀ i, cleanCell wt.d_p (wt.d_num_wavelet_ghosts d) M (wt.d_num_level - 1) i = true ↔
      -wt.d_p * 2 ^ (wt.d_num_level - 1 + 1) ≤ i ∧
        i < M + wt.d_q * 2 ^ (wt.d_num_level - 1 + 1)) ∧
    cleanCell wt.d_p (wt.d_num_wavelet_ghosts d) M (wt.d_num_level - 1)
      (-wt.d_p * 2 ^ (wt.d_num_level - 1 + 1)) = true ∧
    (∀ i, i < -wt.d_p * 2 ^ (wt.d_num_level - 1 + 1) →
      cleanCell wt.d_p (wt.d_num_wavelet_ghosts d) M (wt.d_num_level - 1) i = false) ∧
    cleanCell wt.d_p (wt.d_num_wavelet_ghosts d - 1) M (wt.d_num_level - 1)
      (-wt.d_p * 2 ^ (wt.d_num_level - 1 + 1)) = false := by
  obtain ⟨_, _, _, _, _, hp, hq, _⟩ := new_ok hwt
  obtain ⟨hp1, _, _, hGeq, hL⟩ := ghost_nonneg hwt d
  have hp0 : (0 : Int) ≤ wt.d_p := by omega
  have hqp : wt.d_q = wt.d_p := by rw [hp, hq]
  have hLL : wt.d_num_level - 1 + 1 = wt.d_num_level := by omega
  have e1 : (2 : Int) ^ (wt.d_num_level + 1) = 2 * 2 ^ wt.d_num_level := by ring
  have e2 : (1 : Int) ≤ 2 ^ wt.d_num_level := one_le_pow₀ (by norm_num)
  have e3 : wt.d_p ≤ wt.d_p * 2 ^ wt.d_num_level := le_mul_of_one_le_right hp0 e2
  have eG : wt.d_num_wavelet_ghosts d = 2 * (wt.d_p * 2 ^ wt.d_num_level) - wt.d_p := by
    rw [hGeq, e1]
    ring
  have e5 : wt.d_p * (2 ^ wt.d_num_level - 1) = wt.d_p * 2 ^ wt.d_num_level - wt.d_p := by ring
  have e6 : -wt.d_p * 2 ^ wt.d_num_level = -(wt.d_p * 2 ^ wt.d_num_level) := by ring
  have hiff : ∀ i, cleanCell wt.d_p (wt.d_num_wavelet_ghosts d) M (wt.d_num_level - 1) i = true ↔
      -wt.d_p * 2 ^ (wt.d_num_level - 1 + 1) ≤ i ∧
        i < M + wt.d_q * 2 ^ (wt.d_num_level - 1 + 1) := by
    intro i
    rw [cleanCell_iff hp0, hLL, hqp, e5, e6]
    constructor <;> rintro ⟨h1, h2⟩ <;> constructor <;> omega
  refine ⟨hiff, (hiff _).2 ⟨le_refl _, ?_⟩, fun i hi => ?_, ?_⟩
  · rw [hLL, hqp, e6]
    omega
  · rw [Bool.eq_false_iff]
    intro h
    have := ((hiff i).1 h).1
    omega
  · rw [Bool.eq_false_iff]
    intro h
    have := ((cleanCell_iff hp0 _ _ _ _).1 h).1
    rw [hLL, e5, e6] at this
    omega

theorem C32_ghost_width_minimal_witness :
    WaveletTransformHarten.new 1 2 2 = Except.ok (exEngine 1 2) ∧ (1 : Int) ≤ 8 ∧
    (∀ i, cleanCell (exEngine 1 2).d_p ((exEngine 1 2).d_num_wavelet_ghosts 0) 8
        ((exEngine 1 2).d_num_level - 1) i = true ↔
      -(exEngine 1 2).d_p * 2 ^ ((exEngine 1 2).d_num_level - 1 + 1) ≤ i ∧
        i < 8 + (exEngine 1 2).d_q * 2 ^ ((exEngine 1 2).d_num_level - 1 + 1)) ∧
    cleanCell (exEngine 1 2).d_p ((exEngine 1 2).d_num_wavelet_ghosts 0) 8
      ((exEngine 1 2).d_num_level - 1)
      (-(exEngine 1 2).d_p * 2 ^ ((exEngine 1 2).d_num_level - 1 + 1)) = true ∧
    (∀ i, i < -(exEngine 1 2).d_p * 2 ^ ((exEngine 1 2).d_num_level - 1 + 1) →
      cleanCell (exEngine 1 2).d_p ((exEngine 1 2).d_num_wavelet_ghosts 0) 8
        ((exEngine 1 2).d_num_level - 1) i = false) ∧
    cleanCell (exEngine 1 2).d_p ((exEngine 1 2).d_num_wavelet_ghosts 0 - 1) 8
      ((exEngine 1 2).d_num_level - 1)
      (-(exEngine 1 2).d_p * 2 ^ ((exEngine 1 2).d_num_level - 1 + 1)) = false :=
  ⟨exEngine_ok 1 (Or.inl rfl), by decide,
    C32_ghost_width_minimal (exEngine 1 2) 1 2 2 (exEngine_ok 1 (Or.inl rfl)) 0 8 (by decide)⟩

/-! ## A ghost width one cell short -/

/-- Under the call conditions the 1-D transform completes for every engine whose
ghost width covers the step `p*2^li` of every level. -/
theorem transformBody_1D_le (sqrt : ℚ → ℚ) {wt : WaveletTransformHarten} {N : IntVector}
    {cd : CellData} {wcs means : List CellData} {depth : Nat} (smooth : Bool)
    (hk : wt.d_k = 2 ∨ wt.d_k = 4) (hp : wt.d_p = halfWidth wt.d_k)
    (hL : 1 ≤ wt.d_num_level)
    (hsG : ∀ li, li < wt.d_num_level → wt.d_p * 2 ^ li ≤ wt.d_num_wavelet_ghosts 0)
    (hd : wt.d_dim = 1) (hpre : Pre wt N cd wcs means depth) :
    ∃ st f, transformBody sqrt wt N cd wcs means depth smooth = Except.ok st ∧
      inputOf wt N cd depth smooth 0 = some f ∧
      Inv1D wt N cd.ghosts (coefGhosts wcs) f (w0Of wcs wt.d_num_level)
        (m0Of means wt.d_num_level) (!means.isEmpty) wt.d_num_level st := by
  obtain ⟨_, hbody⟩ := transformBody_unfold sqrt wt N cd wcs means depth smooth hpre hL
  obtain ⟨f, hin, hsel, hlf⟩ := inputOf_facts hpre smooth (a := 0) (by omega)
  obtain ⟨hw, hwl⟩ := w0Of_facts hpre
  rw [hd] at hlf hwl
  rw [boxSize_one] at hlf
  have hG := hpre.ghosts_coef 0 (by omega)
  have hg := hpre.ghosts_cell 0 (by omega)
  have hN := hpre.interior 0 (by omega)
  have hp0 : 0 ≤ wt.d_p := by
    rw [hp]
    rcases hk with hk | hk <;> rw [hk] <;> decide
  have hG0 : 0 ≤ wt.d_num_wavelet_ghosts 0 := by
    have h1 := hsG 0 (by omega)
    have h2 : (0 : Int) ≤ wt.d_p * 2 ^ 0 := by positivity
    omega
  obtain ⟨st, hst, hinv⟩ := transform1D_spec_le wt N cd.ghosts (coefGhosts wcs) cd depth smooth
    (smoothedOf wt N cd depth smooth) (!means.isEmpty) (w0Of wcs wt.d_num_level)
    (m0Of means wt.d_num_level) f hk hp hL hsG hG hg (by omega) hsel hlf hw
    (fun li hli => by
      have := (hwl li hli).2
      rw [boxSize_one] at this
      exact this)
    (fun hc => by
      obtain ⟨h1, h2⟩ := m0Of_facts hpre hc
      refine ⟨h1, fun li hli => ?_⟩
      have := h2 li hli
      rw [hd, boxSize_one] at this
      exact this)
  refine ⟨st, f, ?_, hin, hinv⟩
  rw [hbody, if_pos hd]
  exact hst

theorem exEngineNarrow_facts :
    exEngineNarrow.d_p = 1 ∧ exEngineNarrow.d_k = 2 ∧ exEngineNarrow.d_num_level = 2 ∧
      exEngineNarrow.d_num_wavelet_ghosts 0 = 6 ∧ exEngineNarrow.d_dim = 1 := by
  obtain ⟨hp, hk, hl, hG, hd⟩ := exEngine_one_two
  refine ⟨hp, hk, hl, ?_, hd⟩
  show (exEngine 1 2).d_num_wavelet_ghosts 0 - 1 = 6
  rw [hG]
  rfl

theorem exPre_narrow :
    Pre exEngineNarrow exDims (exField 7 exOnes) (exCoefs 1 7) [] 0 := by
  have h : Pre (exEngine 1 2) exDims (exField 7 exOnes) (exCoefs 1 7) [] 0 :=
    exPre 1 (Or.inl rfl) (Or.inl rfl) 7 (by decide) exOnes (by decide) false
  exact
    { dim := h.dim
      interior := h.interior
      ghosts_cell := h.ghosts_cell
      ghosts_coef := fun d hd => by
        have := h.ghosts_coef d hd
        show (exEngine 1 2).d_num_wavelet_ghosts d - 1 ≤ _
        omega
      input := h.input
      count := h.count
      coefs := h.coefs
      means := h.means }

/-- With the windows laid out from `G - 1 = 6` instead of `G = 7` (`k = 2`,
`L = 2`, 8 interior cells, coefficient ghost width 7, constant field 1), the
level-1 wavelet coefficient at the cell `-p*2^L = -4` is `1/2`: its stencil reads
the level-0 scaling cell `-6`, which no loop computes.  With the ghost width `G`
of the constructor the coefficient at that cell is 0. -/
theorem narrow_ghost_example :
    exEngineNarrow.d_num_wavelet_ghosts 0 = (exEngine 1 2).d_num_wavelet_ghosts 0 - 1 ∧
    ∃ st stN,
      transformBody ratSqrt (exEngine 1 2) exDims (exField 7 exOnes) (exCoefs 1 7) [] 0 false
        = Except.ok st ∧
      transformBody ratSqrt exEngineNarrow exDims (exField 7 exOnes) (exCoefs 1 7) [] 0 false
        = Except.ok stN ∧
      valAt (level st.w 1) (-4 + coefGhosts (exCoefs 1 7) 0) = 0 ∧
      valAt (level stN.f_x 0) (-6 + coefGhosts (exCoefs 1 7) 0) = 0 ∧
      valAt (level stN.w 1) (-4 + coefGhosts (exCoefs 1 7) 0) = 1 / 2 := by
  obtain ⟨hp, hk, hl, hG, hd⟩ := exEngineNarrow_facts
  obtain ⟨hp7, hk7, hl7, hG7, hd7⟩ := exEngine_one_two
  obtain ⟨st, _, hst, _, _, _, hfacts⟩ := const_field_1D ratSqrt false
    (exEngine_ok 1 (Or.inl rfl))
    (exPre 1 (Or.inl rfl) (Or.inl rfl) 7 (by decide) exOnes (by decide) false)
    exOnes rfl 1 exOnes_const
  obtain ⟨stN, f, hstN, hin, hinv⟩ := transformBody_1D_le ratSqrt false
    (Or.inl hk) (by rw [hp, hk]; rfl) (by rw [hl]; decide)
    (fun li hli => by
      rw [hl] at hli
      rw [hp, hG]
      interval_cases li <;> norm_num)
    hd exPre_narrow
  have hf : f = exOnes := by
    rw [inputOf_raw] at hin
    exact (Option.some.inj hin).symm
  subst hf
  refine ⟨rfl, st, stN, hst, hstN, ?_, ?_⟩
  · have h1 := (hfacts 1 (by rw [hl7]; decide)).1 (-4)
      (by rw [hG7, hp7]; norm_num) (by rw [hG7, hp7]; simp [exDims])
    exact h1.2
  have hgw : coefGhosts (exCoefs 1 7) 0 = 7 := rfl
  have hgc : (exField 7 exOnes).ghosts 0 = 7 := rfl
  obtain ⟨hL0a, _, _⟩ := hinv.2.2.2.2.1 0 (by rw [hl]; decide)
  obtain ⟨_, hL1b, _⟩ := hinv.2.2.2.2.1 1 (by rw [hl]; decide)
  rw [hgw, hG, hp] at hL0a hL1b
  have s0 : lowIn1D (exField 7 exOnes).ghosts (coefGhosts (exCoefs 1 7)) exOnes stN.f_x 0
      = fun j => valAt exOnes (j + 7) := by
    rw [lowIn1D_zero]
    rfl
  have a1 : valAt (level stN.f_x 0) 1 = 0 := by
    have := hL0a.2.2 1 (fun c hc => by
      dsimp only
      norm_num at hc
      omega)
    rw [this, valAt_zeros]
  have a2 : valAt (level stN.f_x 0) 3 = 1 := by
    have := hL0a.2.1 (-4) (by simp [exDims])
    rw [s0, hk] at this
    simp only [lowVal, if_true] at this
    rw [exOnes_const _ (by norm_num) (by simp [exOnes]),
      exOnes_const _ (by norm_num) (by simp [exOnes])] at this
    norm_num at this
    exact this
  have a3 : valAt (level stN.f_x 0) 5 = 1 := by
    have := hL0a.2.1 (-2) (by simp [exDims])
    rw [s0, hk] at this
    simp only [lowVal, if_true] at this
    rw [exOnes_const _ (by norm_num) (by simp [exOnes]),
      exOnes_const _ (by norm_num) (by simp [exOnes])] at this
    norm_num at this
    exact this
  have s1 : lowIn1D (exField 7 exOnes).ghosts (coefGhosts (exCoefs 1 7)) exOnes stN.f_x 1
      = fun j => valAt (level stN.f_x 0) (j + 7) := by
    rw [lowIn1D_succ _ _ _ _ (le_refl 1)]
    rfl
  have b2 := hL1b.2.1 (-4) (by simp [exDims])
  rw [s1] at b2
  rw [hgw]
  constructor
  · norm_num
    exact a1
  · rw [b2, hk]
    simp only [highVal, if_true]
    norm_num [a1, a2, a3]

/-! ## Rounding, overflow and NaN in the `double` expressions of the source -/

set_option maxRecDepth 100000

/-- C37 (as stated, false): in binary64, smoothing the constant field `0.1` at a
cell with both neighbours gives `(0.1 + 0.1 + 0.1)/3 = 0.10000000000000002`, the
next `double` above `0.1`: the constant is not preserved, and the smoothed value
exceeds the largest sample it averages. -/
theorem C37_smoothing_rounds_constant :
    exTenth = F64.fin 7205759403792794 (-56) ∧
    smooth3_f64 exTenth exTenth exTenth = F64.fin 7205759403792795 (-56) ∧
    F64.eq (smooth3_f64 exTenth exTenth exTenth) exTenth = false ∧
    F64.le (smooth3_f64 exTenth exTenth exTenth) exTenth = false := by
  decide

/-- C36 (as stated, false): in binary64, for `k = 4` and the constant field
`1e308` (a finite `double`), the high-pass expression overflows in `4*f` and
`6*f`, the sum of the infinities of opposite sign is NaN, `fabs` keeps NaN, and
the comparison `0 <= w` is false for the coefficient written. -/
theorem C36_nan_coefficient :
    exHuge = F64.fin 5010420900022432 971 ∧
    F64.mul (F64.ofInt 4) exHuge = F64.inf false ∧
    high_k4_f64 exHuge exHuge exHuge exHuge exHuge = F64.nan ∧
    F64.abs (high_k4_f64 exHuge exHuge exHuge exHuge exHuge) = F64.nan ∧
    F64.le (F64.fin 0 0) (F64.abs (high_k4_f64 exHuge exHuge exHuge exHuge exHuge)) = false := by
  decide

/-- C33 (as stated, false): in binary64 the wavelet value is not the level input
minus the scaling value.  For `k = 4` on the samples `1, 2, 3, 4, 6` the
high-pass expression gives the `double` nearest `1/6` while `3` minus the
low-pass expression gives `0.16666666666666696`; for `k = 2` on the samples
`0.1, 0.7, 0.3` the two sides are `0.4999999999999999` and
`0.49999999999999994`. -/
theorem C33_identity_fails_in_double :
    high_k4_f64 (F64.ofInt 1) (F64.ofInt 2) (F64.ofInt 3) (F64.ofInt 4) (F64.ofInt 6)
      = F64.fin 6004799503160661 (-55) ∧
    F64.sub (F64.ofInt 3) (low_k4_f64 (F64.ofInt 1) (F64.ofInt 2) (F64.ofInt 4) (F64.ofInt 6))
      = F64.fin 6004799503160672 (-55) ∧
    F64.eq
      (high_k4_f64 (F64.ofInt 1) (F64.ofInt 2) (F64.ofInt 3) (F64.ofInt 4) (F64.ofInt 6))
      (F64.sub (F64.ofInt 3)
        (low_k4_f64 (F64.ofInt 1) (F64.ofInt 2) (F64.ofInt 4) (F64.ofInt 6))) = false ∧
    high_k2_f64 exTenth (F64.div (F64.ofInt 7) (F64.ofInt 10))
        (F64.div (F64.ofInt 3) (F64.ofInt 10))
      = F64.fin 9007199254740990 (-54) ∧
    F64.sub (F64.div (F64.ofInt 7) (F64.ofInt 10))
        (low_k2_f64 exTenth (F64.div (F64.ofInt 3) (F64.ofInt 10)))
      = F64.fin 9007199254740991 (-54) ∧
    F64.eq
      (high_k2_f64 exTenth (F64.div (F64.ofInt 7) (F64.ofInt 10))
        (F64.div (F64.ofInt 3) (F64.ofInt 10)))
      (F64.sub (F64.div (F64.ofInt 7) (F64.ofInt 10))
        (low_k2_f64 exTenth (F64.div (F64.ofInt 3) (F64.ofInt 10)))) = false := by
  decide

/-- C34 (as stated, false): the constant fields `0` and `0.1` differ by the
constant `0.1` at every cell (`0 + 0.1` is `0.1` exactly), yet in binary64, for
`k = 4`, the level-0 coefficient `fabs(1.0/6.0*(f - 4*f + 6*f - 4*f + f))` is `0`
for the field `0` and `6004799503160661 * 2^-110`, about `4.6e-18`, for the
field `0.1`, at every cell of the level-0 window, interior cells included. -/
theorem C34_shift_changes_coefficient :
    F64.add (F64.fin 0 0) exTenth = exTenth ∧
    F64.abs (high_k4_f64 (F64.fin 0 0) (F64.fin 0 0) (F64.fin 0 0) (F64.fin 0 0) (F64.fin 0 0))
      = F64.fin 0 0 ∧
    F64.abs (high_k4_f64 exTenth exTenth exTenth exTenth exTenth)
      = F64.fin 6004799503160661 (-110) ∧
    F64.eq (F64.abs (high_k4_f64 exTenth exTenth exTenth exTenth exTenth))
      (F64.abs
        (high_k4_f64 (F64.fin 0 0) (F64.fin 0 0) (F64.fin 0 0) (F64.fin 0 0) (F64.fin 0 0)))
      = false := by
  decide

/-- C16 (as stated, false): in binary64, for `k = 2` in 2-D and the field
`f(i, j) = g(i)` with `g(3) = 1e200` and `g = 0` elsewhere, at a cell `(3, j)` of
level 0 the axis-0 wavelet value is `-0.5*(0 - 2*1e200 + 0) = 1e200`, the axis-1
wavelet value is `-0.5*(1e200 - 2*1e200 + 1e200) = 0`, and the combined
coefficient `sqrt(w_x*w_x + w_y*w_y)` is `+inf` because `w_x*w_x` overflows: it is
not the absolute value `1e200` of the axis-0 value.  Moreover for `k = 4` the
axis-1 wavelet value of a field that is `0.1` along the axis is not `0`. -/
theorem C16_combination_overflows :
    exBig = F64.fin 5883593420661338 612 ∧
    high_k2_f64 (F64.fin 0 0) exBig (F64.fin 0 0) = exBig ∧
    high_k2_f64 exBig exBig exBig = F64.fin 0 0 ∧
    mag2_f64 (high_k2_f64 (F64.fin 0 0) exBig (F64.fin 0 0)) (high_k2_f64 exBig exBig exBig)
      = F64.inf false ∧
    F64.eq
      (mag2_f64 (high_k2_f64 (F64.fin 0 0) exBig (F64.fin 0 0))
        (high_k2_f64 exBig exBig exBig))
      (F64.abs (high_k2_f64 (F64.fin 0 0) exBig (F64.fin 0 0))) = false ∧
    F64.eq (high_k4_f64 exTenth exTenth exTenth exTenth exTenth) (F64.fin 0 0) = false := by
  decide

end HAMeRS
